import Mathlib

/-!
# Cryostat operator: the reconcile loop of `CryostatReconciler`

A shallow embedding of `internal/controllers/cryostat_controller.go`.

* The object store reached through `r.Client` is a list of objects keyed by
  kind, namespace and name.  Every client call is appended to a trace, together
  with the store content it was issued against, and may be answered by an error
  taken from a script of injected responses (network, conflict, permission
  failures), in which case the store is left untouched.
* A Go function returning `error` is an `Op Err`; `Except.error e` is the Go
  `return ..., e`.  `Reconcile` itself runs in `Op Return`, where an
  `Except.error` is an early `return result, err`.
* A runtime panic (index out of range, nil dereference) is the error
  `Err.Panic`; it only arises in positions whose caller hands every error on.
-/

namespace Cryostat

/-! ## Data model -/

/-- Kinds of object the controller reads or writes. -/
inductive Kind
  | Cryostat | PersistentVolumeClaim | Secret | ServiceAccount | Role | RoleBinding
  | ClusterRoleBinding | Service | Route | Ingress | Deployment | ConsoleLink | Namespace
  deriving DecidableEq, Repr

/-- Errors: API status errors, the two not-ready sentinels, configuration errors, panics. -/
inductive Err
  | NotFound
  | AlreadyExists
  | Conflict
  | Forbidden
  | Internal (msg : String)
  | ErrCertNotReady
  | ErrIngressNotReady
  | ServiceNameNotRecognized
  | NoGroupID
  | ParseIntRange (s : String)
  | OwnerReference (msg : String)
  | Panic (msg : String)
  deriving DecidableEq, Repr

/-- The check `errors.IsNotFound(err)`. -/
def Err.IsNotFound (e : Err) : Bool :=
  match e with
  | .NotFound => true
  | _ => false

/-- The sentinel `ErrIngressNotReady` ("Ingress configuration not yet available"). -/
def ErrIngressNotReady : Err := Err.ErrIngressNotReady

structure NamespacedName where
  Namespace : String
  Name : String
  deriving DecidableEq, Repr

/-- Key of an object in the store. Cluster-scoped objects have the empty namespace. -/
structure Key where
  kind : Kind
  Namespace : String
  Name : String
  deriving DecidableEq, Repr

structure OwnerReference where
  Kind : Kind
  Name : String
  Controller : Bool
  deriving DecidableEq, Repr

structure ObjectMeta where
  Name : String
  Namespace : String := ""
  Labels : List (String × String) := []
  Annotations : List (String × String) := []
  OwnerReferences : List OwnerReference := []
  Finalizers : List String := []
  DeletionTimestamp : Option Nat := none
  deriving DecidableEq, Repr

/-- The type `url.URL`, as far as the controller fills it. -/
structure URL where
  Scheme : String
  Host : String
  deriving DecidableEq, Repr

/-- The function `shouldEscape(c, encodeHost)` of `net/url`, on the characters of a host:
letters and digits, the marks `-`, `_`, `.`, `~` and the characters a host may hold
(`!`, `$`, `&`, the apostrophe, `(`, `)`, `*`, `+`, `,`, `;`, `=`, `:`, `[`, `]`, `<`, `>`
and the double quote) are written as they are; every other byte is escaped, the bytes of a
character outside ASCII among them. -/
def shouldEscapeHost (c : Char) : Bool :=
  !(('a'.toNat ≤ c.toNat && c.toNat ≤ 'z'.toNat) || ('A'.toNat ≤ c.toNat && c.toNat ≤ 'Z'.toNat) ||
    ('0'.toNat ≤ c.toNat && c.toNat ≤ '9'.toNat) || "!$&'()*+,;=:[]<>\"-_.~".data.contains c)

/-- The bytes of the UTF-8 encoding of a character. -/
def utf8Bytes (c : Char) : List Nat :=
  if c.toNat < 128 then [c.toNat]
  else if c.toNat < 2048 then [192 + c.toNat / 64, 128 + c.toNat % 64]
  else if c.toNat < 65536 then
    [224 + c.toNat / 4096, 128 + c.toNat / 64 % 64, 128 + c.toNat % 64]
  else
    [240 + c.toNat / 262144, 128 + c.toNat / 4096 % 64, 128 + c.toNat / 64 % 64,
      128 + c.toNat % 64]

/-- The digit of `upperhex` in `net/url`. -/
def upperhex (n : Nat) : Char := "0123456789ABCDEF".data.getD n '0'

/-- One escaped byte: `%` and its two hexadecimal digits. -/
def escapeByte (b : Nat) : List Char := ['%', upperhex (b / 16), upperhex (b % 16)]

/-- The function `escape(s, encodeHost)` of `net/url`: every byte of the host that
`shouldEscape` names is written as `%XX`. -/
def escapeHost (s : String) : String :=
  String.mk (s.data.flatMap (fun c =>
    if shouldEscapeHost c then (utf8Bytes c).flatMap escapeByte else [c]))

/-- The method `(*url.URL).String` for a URL with only scheme and host: the scheme with a
colon, then `//` and the escaped host when there is a host. -/
def URL.String (u : URL) : String :=
  (if u.Scheme = "" then "" else u.Scheme ++ ":") ++
    (if u.Host = "" then "" else "//" ++ escapeHost u.Host)

inductive TLSTerminationType
  | Edge | Passthrough | Reencrypt
  deriving DecidableEq, Repr

/-- The type `openshiftv1.TLSConfig`. -/
structure TLSConfig where
  Termination : TLSTerminationType
  DestinationCACertificate : String := ""
  InsecureEdgeTerminationPolicy : String := ""
  deriving DecidableEq, Repr

structure RouteTargetReference where
  Kind : String
  Name : String
  deriving DecidableEq, Repr

structure RouteSpec where
  Host : String := ""
  To : RouteTargetReference := ⟨"", ""⟩
  Port : Option Nat := none
  TLS : Option TLSConfig := none
  deriving DecidableEq, Repr

structure RouteIngress where
  Host : String
  deriving DecidableEq, Repr

structure RouteStatus where
  Ingress : List RouteIngress := []
  deriving DecidableEq, Repr

structure IngressRule where
  Host : String
  HTTP : String := ""
  deriving DecidableEq, Repr

structure IngressTLS where
  Hosts : List String
  SecretName : String
  deriving DecidableEq, Repr

/-- The type `netv1.IngressSpec`; `none` is the nil slice, `some []` the empty one. -/
structure IngressSpec where
  Rules : Option (List IngressRule) := none
  TLS : Option (List IngressTLS) := none
  deriving DecidableEq, Repr

structure NetworkConfiguration where
  Annotations : List (String × String) := []
  Labels : List (String × String) := []
  IngressSpec : Option IngressSpec := none
  deriving DecidableEq, Repr

structure NetworkConfigurationList where
  CoreConfig : Option NetworkConfiguration := none
  CommandConfig : Option NetworkConfiguration := none
  GrafanaConfig : Option NetworkConfiguration := none
  deriving DecidableEq, Repr

structure CryostatSpec where
  Minimal : Bool := false
  EnableCertManager : Option Bool := none
  NetworkOptions : Option NetworkConfigurationList := none
  TrustedCertSecrets : List String := []
  EventTemplates : List String := []
  StorageOptions : Option String := none
  deriving DecidableEq, Repr

structure CryostatStatus where
  ApplicationURL : String := ""
  deriving DecidableEq, Repr

structure ServicePort where
  Name : String
  Port : Nat
  TargetPort : Nat
  deriving DecidableEq, Repr

structure ServiceSpec where
  Ports : List ServicePort := []
  Selector : List (String × String) := []
  deriving DecidableEq, Repr

structure Container where
  Name : String
  Image : String
  Env : List (String × String) := []
  deriving DecidableEq, Repr

structure PodSpec where
  Containers : List Container := []
  ServiceAccountName : String := ""
  Volumes : List String := []
  FSGroup : Option Int := none
  deriving DecidableEq, Repr

structure PodTemplateSpec where
  Labels : List (String × String) := []
  Spec : PodSpec := {}
  deriving DecidableEq, Repr

structure DeploymentSpec where
  Replicas : Option Nat := none
  Selector : List (String × String) := []
  Strategy : String := ""
  Template : PodTemplateSpec := {}
  deriving DecidableEq, Repr

structure ConsoleLinkSpec where
  Text : String := ""
  Href : String := ""
  Namespaces : List String := []
  deriving DecidableEq, Repr

/-- Kind-specific content of an object; the constructor determines the kind. -/
inductive Body
  | Cryostat (Spec : CryostatSpec) (Status : CryostatStatus)
  | PersistentVolumeClaim (Spec : String)
  | Secret (Data : String)
  | ServiceAccount
  | Role (Rules : String)
  | RoleBinding (Binding : String)
  | ClusterRoleBinding (Binding : String)
  | Service (Spec : ServiceSpec)
  | Route (Spec : RouteSpec) (Status : RouteStatus)
  | Ingress (Spec : IngressSpec)
  | Deployment (Spec : DeploymentSpec)
  | ConsoleLink (Spec : ConsoleLinkSpec)
  | Namespace
  deriving DecidableEq, Repr

def Body.kind : Body → Kind
  | .Cryostat _ _ => .Cryostat
  | .PersistentVolumeClaim _ => .PersistentVolumeClaim
  | .Secret _ => .Secret
  | .ServiceAccount => .ServiceAccount
  | .Role _ => .Role
  | .RoleBinding _ => .RoleBinding
  | .ClusterRoleBinding _ => .ClusterRoleBinding
  | .Service _ => .Service
  | .Route _ _ => .Route
  | .Ingress _ => .Ingress
  | .Deployment _ => .Deployment
  | .ConsoleLink _ => .ConsoleLink
  | .Namespace => .Namespace

/-- An API object: metadata and kind-specific content. -/
structure Obj where
  meta : ObjectMeta
  body : Body
  deriving DecidableEq, Repr

def Obj.kind (o : Obj) : Kind := o.body.kind

def Obj.key (o : Obj) : Key := ⟨o.body.kind, o.meta.Namespace, o.meta.Name⟩

/-- The instance's `Spec` (of a Cryostat object). -/
def Obj.Spec (o : Obj) : CryostatSpec :=
  match o.body with
  | .Cryostat s _ => s
  | _ => {}

/-- The instance's `Status` (of a Cryostat object). -/
def Obj.Status (o : Obj) : CryostatStatus :=
  match o.body with
  | .Cryostat _ s => s
  | _ => {}

/-- The assignment `instance.Status.ApplicationURL = url`. -/
def Obj.setApplicationURL (o : Obj) (url : String) : Obj :=
  match o.body with
  | .Cryostat s _ => { o with body := .Cryostat s { ApplicationURL := url } }
  | _ => o

/-- The field `Status.Ingress` of a Route. -/
def Obj.routeIngress (o : Obj) : List RouteIngress :=
  match o.body with
  | .Route _ st => st.Ingress
  | _ => []

/-- The assignment `route.Spec = spec`. -/
def Obj.setRouteSpec (o : Obj) (spec : RouteSpec) : Obj :=
  match o.body with
  | .Route _ st => { o with body := .Route spec st }
  | _ => o

/-- The field `Spec` of a Deployment. -/
def Obj.deploymentSpec (o : Obj) : DeploymentSpec :=
  match o.body with
  | .Deployment s => s
  | _ => {}

/-- The assignment `deployment.Spec.Template.Spec = podSpec`. -/
def Obj.setPodSpec (o : Obj) (podSpec : PodSpec) : Obj :=
  match o.body with
  | .Deployment s => { o with body := .Deployment { s with Template := { s.Template with Spec := podSpec } } }
  | _ => o

/-- The field `Spec.Ports` of a Service. -/
def Obj.servicePorts (o : Obj) : List ServicePort :=
  match o.body with
  | .Service s => s.Ports
  | _ => []

/-! ## The object store and the trace of client calls -/

abbrev Store := List Obj

def Store.get? (s : Store) (k : Key) : Option Obj := s.find? (fun o => decide (o.key = k))

def Store.remove (s : Store) (k : Key) : Store := s.filter (fun o => !decide (o.key = k))

def Store.replace (s : Store) (o : Obj) : Store := s.map (fun x => if x.key = o.key then o else x)

/-- Writing the status subresource keeps everything but the status of the stored object. -/
def Obj.withStatusOf (stored o : Obj) : Obj :=
  match stored.body, o.body with
  | .Cryostat spec _, .Cryostat _ st => { stored with body := .Cryostat spec st }
  | .Route spec _, .Route _ st => { stored with body := .Route spec st }
  | _, _ => stored

def Store.replaceStatus (s : Store) (o : Obj) : Store :=
  s.map (fun x => if x.key = o.key then x.withStatusOf o else x)

inductive Verb
  | Get | Create | Update | Delete | StatusUpdate
  deriving DecidableEq, Repr

/-- One client call: what was asked, what came back, and the store it was issued against. -/
structure Call where
  verb : Verb
  key : Key
  obj : Option Obj
  err : Option Err
  before : Store
  deriving DecidableEq, Repr

/-- The cluster as seen through `r.Client`: stored objects, scripted failures, trace, and
what the `Get` of the client leaves in an object that is not empty when it is handed over,
given the stored object and the object handed over. The client is not among the sources
and clients differ here: one that reads from a cache overwrites the object with the stored
one (the default), one that decodes the answer of the server into the object keeps fields
of the object that the answer does not mention. -/
structure World where
  objs : Store
  faults : List (Option Err) := []
  log : List Call := []
  decodeInto : Obj → Obj → Obj := fun stored _ => stored

/-- A computation against the store that yields a value or stops with `ε`. -/
def Op (ε α : Type) : Type := World → Except ε α × World

namespace Op

def pure {ε α : Type} (a : α) : Op ε α := fun w => (.ok a, w)

def bind {ε α β : Type} (m : Op ε α) (f : α → Op ε β) : Op ε β := fun w =>
  match (m w).1 with
  | .ok a => f a (m w).2
  | .error e => (.error e, (m w).2)

/-- Stop with `e`: the Go statement `return ..., e`. -/
def fail {ε α : Type} (e : ε) : Op ε α := fun w => (.error e, w)

/-- Run `m` and hand its error to the caller as a value: `err := m(...)`. -/
def attempt {ε ε2 α : Type} (m : Op ε α) : Op ε2 (Except ε α) := fun w => (.ok (m w).1, (m w).2)

/-- Lift a pure fallible step. -/
def ofExcept {ε α : Type} (x : Except ε α) : Op ε α := fun w => (x, w)

end Op

instance (ε : Type) : Monad (Op ε) where
  pure := Op.pure
  bind := Op.bind

/-- The answer injected for the next call, if any. -/
def World.injected (w : World) : Option Err :=
  match w.faults with
  | [] => none
  | f :: _ => f

/-- A client call: answered by the injected error if there is one, else by `sem` on the store. -/
def Client.call {α : Type} (verb : Verb) (key : Key) (obj : Option Obj)
    (sem : Store → Except Err (α × Store)) : Op Err α := fun w =>
  match w.injected with
  | some e =>
    (.error e, { w with faults := w.faults.tail, log := w.log ++ [⟨verb, key, obj, some e, w.objs⟩] })
  | none =>
    match sem w.objs with
    | .ok (a, s) =>
      (.ok a, { w with objs := s, faults := w.faults.tail, log := w.log ++ [⟨verb, key, obj, none, w.objs⟩] })
    | .error e =>
      (.error e, { w with faults := w.faults.tail, log := w.log ++ [⟨verb, key, obj, some e, w.objs⟩] })

/-- The call `Client.Get(ctx, key, obj)`: the stored object, or NotFound. -/
def Client.Get (key : Key) : Op Err Obj :=
  Client.call .Get key none (fun s =>
    match s.get? key with
    | some o => .ok (o, s)
    | none => .error .NotFound)

/-- The call `Client.Create(ctx, obj)`: AlreadyExists if the key is taken. -/
def Client.Create (obj : Obj) : Op Err Unit :=
  Client.call .Create obj.key (some obj) (fun s =>
    match s.get? obj.key with
    | some _ => .error .AlreadyExists
    | none => .ok ((), s ++ [obj]))

/-- The call `Client.Update(ctx, obj)`: NotFound if the object is absent. -/
def Client.Update (obj : Obj) : Op Err Unit :=
  Client.call .Update obj.key (some obj) (fun s =>
    match s.get? obj.key with
    | some _ => .ok ((), s.replace obj)
    | none => .error .NotFound)

/-- The call `Client.Delete(ctx, obj)`: NotFound if the object is absent. -/
def Client.Delete (obj : Obj) : Op Err Unit :=
  Client.call .Delete obj.key (some obj) (fun s =>
    match s.get? obj.key with
    | some _ => .ok ((), s.remove obj.key)
    | none => .error .NotFound)

/-- The call `Client.Status().Update(ctx, obj)`. -/
def Client.StatusUpdate (obj : Obj) : Op Err Unit :=
  Client.call .StatusUpdate obj.key (some obj) (fun s =>
    match s.get? obj.key with
    | some _ => .ok ((), s.replaceStatus obj)
    | none => .error .NotFound)

/-! ## Library functions of `controllerutil` -/

/-- The function `controllerutil.ContainsFinalizer`. -/
def ContainsFinalizer (o : Obj) (finalizer : String) : Bool := o.meta.Finalizers.contains finalizer

/-- The function `controllerutil.AddFinalizer`: appends the finalizer unless present. -/
def controllerutil.AddFinalizer (o : Obj) (finalizer : String) : Obj :=
  if o.meta.Finalizers.contains finalizer then o
  else { o with meta := { o.meta with Finalizers := o.meta.Finalizers ++ [finalizer] } }

/-- The function `controllerutil.RemoveFinalizer`: drops every occurrence. -/
def controllerutil.RemoveFinalizer (o : Obj) (finalizer : String) : Obj :=
  { o with meta := { o.meta with Finalizers := o.meta.Finalizers.filter (fun f => f != finalizer) } }

/-- The function `controllerutil.SetControllerReference`: refuses a cluster-scoped or
foreign-namespace object of a namespaced owner and an object controlled by someone else. -/
def SetControllerReference (owner object : Obj) : Except Err Obj :=
  if owner.meta.Namespace ≠ "" ∧ object.meta.Namespace = "" then
    .error (.OwnerReference "cluster-scoped resource must not have a namespace-scoped owner")
  else if owner.meta.Namespace ≠ "" ∧ owner.meta.Namespace ≠ object.meta.Namespace then
    .error (.OwnerReference "cross-namespace owner references are disallowed")
  else if object.meta.OwnerReferences.any
      (fun ref => ref.Controller && !(ref.Kind = owner.kind && ref.Name = owner.meta.Name)) then
    .error (.OwnerReference "object is already owned by another controller")
  else
    .ok { object with meta := { object.meta with
      OwnerReferences :=
        object.meta.OwnerReferences.filter
            (fun ref => !(ref.Kind = owner.kind && ref.Name = owner.meta.Name))
          ++ [⟨owner.kind, owner.meta.Name, true⟩] } }

inductive OperationResult
  | None | Created | Updated
  deriving DecidableEq, Repr

/-- What `Get` leaves in the object `obj` handed to it when the store holds `stored`:
name, namespace and kind are those of the stored object, and so are the status, the spec
of a Route and the pod spec of a Deployment (the parts the mutate functions of this file
assign); the rest of the metadata and the fields of a Deployment outside the pod spec are
what the decoding of the client makes of the stored object and the object handed over. -/
def Obj.readInto (dec : Obj → Obj → Obj) (stored obj : Obj) : Obj :=
  { meta := { (dec stored obj).meta with
              Name := stored.meta.Name, Namespace := stored.meta.Namespace },
    body :=
      match stored.body with
      | .Deployment s =>
        .Deployment { (dec stored obj).deploymentSpec with
          Template := { (dec stored obj).deploymentSpec.Template with Spec := s.Template.Spec } }
      | b => b }

/-- The call `Client.Get(ctx, key, obj)` for an object `obj` that is not empty when it is
handed over: the read of the key of `obj`, which leaves in `obj` what `Obj.readInto`
says. -/
def Client.GetInto (obj : Obj) : Op Err Obj := fun w =>
  match (Client.Get obj.key w).1 with
  | .ok stored => (.ok (Obj.readInto w.decodeInto stored obj), (Client.Get obj.key w).2)
  | .error e => (.error e, (Client.Get obj.key w).2)

/-- The function `controllerutil.CreateOrUpdate`, for a mutate function `f` that leaves the
key alone: read the object into `obj`; create `f obj` if absent; otherwise apply `f` to
what the read has left in `obj` and update only if that changed it. Returns the object as
left in memory. -/
def CreateOrUpdate (obj : Obj) (f : Obj → Obj) : Op Err (OperationResult × Obj) := do
  let res ← Op.attempt (Client.GetInto obj)
  match res with
  | .error err =>
    if err.IsNotFound then do
      Client.Create (f obj)
      pure (.Created, f obj)
    else Op.fail err
  | .ok existing =>
    if existing = f existing then pure (.None, existing)
    else do
      Client.Update (f existing)
      pure (.Updated, f existing)

/-! ## Collaborators outside this file -/

/-- The finalizer name `cryostatFinalizer`. -/
def cryostatFinalizer : String := "operator.cryostat.io/cryostat.finalizer"

/-- Modelled from the spec: `common.AddFinalizer` is not among the sources. It marks the
object with the finalizer and writes the object back with `Update`. -/
def common.AddFinalizer (obj : Obj) (finalizer : String) : Op Err Obj := do
  Client.Update (controllerutil.AddFinalizer obj finalizer)
  pure (controllerutil.AddFinalizer obj finalizer)

/-- Modelled from the spec: `common.RemoveFinalizer` is not among the sources. It clears the
finalizer and writes the object back with `Update`. -/
def common.RemoveFinalizer (obj : Obj) (finalizer : String) : Op Err Obj := do
  Client.Update (controllerutil.RemoveFinalizer obj finalizer)
  pure (controllerutil.RemoveFinalizer obj finalizer)

/-- The type `resources.TLSConfig`: names of the secrets holding the TLS material. -/
structure ResourcesTLSConfig where
  CryostatSecret : String
  GrafanaSecret : String
  KeystorePassSecret : String
  deriving DecidableEq, Repr

/-- The type `resources.ServiceSpecs`. -/
structure ServiceSpecs where
  CoreURL : Option URL := none
  CommandURL : Option URL := none
  GrafanaURL : Option URL := none
  deriving DecidableEq, Repr

/-- The type `resources.ImageTags`. -/
structure ImageTags where
  CoreImageTag : String
  DatasourceImageTag : String
  GrafanaImageTag : String
  deriving DecidableEq, Repr

/-- What an instance declares: its identity and its `Spec`. -/
structure Declared where
  Namespace : String
  Name : String
  Spec : CryostatSpec
  deriving DecidableEq, Repr

/-- The declaration an instance carries. -/
def Obj.declared (cr : Obj) : Declared := ⟨cr.meta.Namespace, cr.meta.Name, cr.Spec⟩

/-- The first port of a Service and the rest of its content. -/
structure ServiceTemplate where
  Port : ServicePort
  OtherPorts : List ServicePort := []
  Selector : List (String × String) := []

/-- Modelled from the spec: the manifest templates of package `resource_definitions`, which
is not among the sources, are "pure functions mapping a desired-state specification to
manifest objects". The content of each manifest is a parameter, a function of what the
instance declares. -/
structure ResourceDefinitions where
  ClusterUniqueName : String → String → String
  PersistentVolumeClaimSpec : Declared → String
  GrafanaSecretData : Declared → String
  JmxSecretData : Declared → String
  RoleRules : Declared → String
  RoleBinding : Declared → String
  ClusterRoleBinding : Declared → String
  GrafanaService : Declared → ServiceTemplate
  ExporterService : Declared → ServiceTemplate
  CommandChannelService : Declared → ServiceTemplate
  DeploymentSpec : Declared → ServiceSpecs → ImageTags → Option ResourcesTLSConfig → Int → DeploymentSpec
  ConsoleLinkText : String
  DefaultCoreImageTag : String
  DefaultDatasourceImageTag : String
  DefaultGrafanaImageTag : String

/-- Modelled from the spec: the certificate integration `common.ReconcilerTLS` is not among
the sources. Its own traffic concerns Issuer and Certificate objects, which this model does
not carry, so each method is given by its result on what the instance declares. -/
structure ReconcilerTLS where
  IsCertManagerEnabled : Declared → Bool
  GetCryostatCABytes : Declared → Except Err String
  GetEnv : String → String

/-- The type `CryostatReconciler`; `r.Client` is the world the operations run in. The
method `setupTLS` lives in a file that is not among the sources and is given by its
result on what the instance declares. -/
structure CryostatReconciler where
  IsOpenShift : Bool
  ReconcilerTLS : ReconcilerTLS
  setupTLS : Declared → Except Err ResourcesTLSConfig
  resources : ResourceDefinitions

/-! ### Manifests

The builders of `resource_definitions` are not among the sources. Names and namespaces are
the ones `internal/test/resources.go` expects and `getNetworkConfig` compares against; the
content comes from `ResourceDefinitions`. -/

/-- Modelled from the spec: the claim is named after the instance. -/
def NewPersistentVolumeClaimForCR (rd : ResourceDefinitions) (cr : Obj) : Obj :=
  { meta := { Name := cr.meta.Name, Namespace := cr.meta.Namespace },
    body := .PersistentVolumeClaim (rd.PersistentVolumeClaimSpec cr.declared) }

/-- Modelled from the spec: the Grafana credentials, named `<name>-grafana-basic`. -/
def NewGrafanaSecretForCR (rd : ResourceDefinitions) (cr : Obj) : Obj :=
  { meta := { Name := cr.meta.Name ++ "-grafana-basic", Namespace := cr.meta.Namespace },
    body := .Secret (rd.GrafanaSecretData cr.declared) }

/-- Modelled from the spec: the JMX credentials, named `<name>-jmx-auth`. -/
def NewJmxSecretForCR (rd : ResourceDefinitions) (cr : Obj) : Obj :=
  { meta := { Name := cr.meta.Name ++ "-jmx-auth", Namespace := cr.meta.Namespace },
    body := .Secret (rd.JmxSecretData cr.declared) }

/-- Modelled from the spec: the ServiceAccount is named after the instance. -/
def NewServiceAccountForCR (_rd : ResourceDefinitions) (cr : Obj) : Obj :=
  { meta := { Name := cr.meta.Name, Namespace := cr.meta.Namespace }, body := .ServiceAccount }

/-- Modelled from the spec: the Role is named after the instance. -/
def NewRoleForCR (rd : ResourceDefinitions) (cr : Obj) : Obj :=
  { meta := { Name := cr.meta.Name, Namespace := cr.meta.Namespace },
    body := .Role (rd.RoleRules cr.declared) }

/-- Modelled from the spec: the RoleBinding is named after the instance. -/
def NewRoleBindingForCR (rd : ResourceDefinitions) (cr : Obj) : Obj :=
  { meta := { Name := cr.meta.Name, Namespace := cr.meta.Namespace },
    body := .RoleBinding (rd.RoleBinding cr.declared) }

/-- Modelled from the spec: the ClusterRoleBinding is cluster-scoped and carries the name
derived from namespace and name of the instance. -/
def NewClusterRoleBindingForCR (rd : ResourceDefinitions) (cr : Obj) : Obj :=
  { meta := { Name := rd.ClusterUniqueName cr.meta.Namespace cr.meta.Name },
    body := .ClusterRoleBinding (rd.ClusterRoleBinding cr.declared) }

/-- A Service of the instance from its template. -/
def NewService (cr : Obj) (name : String) (t : ServiceTemplate) : Obj :=
  { meta := { Name := name, Namespace := cr.meta.Namespace },
    body := .Service { Ports := t.Port :: t.OtherPorts, Selector := t.Selector } }

/-- Modelled from the spec: the Grafana Service, named `<name>-grafana`. -/
def NewGrafanaService (rd : ResourceDefinitions) (cr : Obj) : Obj :=
  NewService cr (cr.meta.Name ++ "-grafana") (rd.GrafanaService cr.declared)

/-- Modelled from the spec: the core Service, named after the instance. -/
def NewExporterService (rd : ResourceDefinitions) (cr : Obj) : Obj :=
  NewService cr cr.meta.Name (rd.ExporterService cr.declared)

/-- Modelled from the spec: the command channel Service, named `<name>-command`. -/
def NewCommandChannelService (rd : ResourceDefinitions) (cr : Obj) : Obj :=
  NewService cr (cr.meta.Name ++ "-command") (rd.CommandChannelService cr.declared)

/-- Modelled from the spec: the Deployment is named after the instance. -/
def NewDeploymentForCR (rd : ResourceDefinitions) (cr : Obj) (specs : ServiceSpecs)
    (imageTags : ImageTags) (tls : Option ResourcesTLSConfig) (fsGroup : Int) : Obj :=
  { meta := { Name := cr.meta.Name, Namespace := cr.meta.Namespace },
    body := .Deployment (rd.DeploymentSpec cr.declared specs imageTags tls fsGroup) }

/-- Modelled from the spec: the ConsoleLink is cluster-scoped, carries the name derived from
namespace and name of the instance, and links to `url`. -/
def NewConsoleLink (rd : ResourceDefinitions) (cr : Obj) (url : String) : Obj :=
  { meta := { Name := rd.ClusterUniqueName cr.meta.Namespace cr.meta.Name },
    body := .ConsoleLink { Text := rd.ConsoleLinkText, Href := url, Namespaces := [cr.meta.Namespace] } }

/-! ## The controller (`cryostat_controller.go`) -/

/-- The type `reconcile.Result`; durations in nanoseconds. -/
structure Result where
  Requeue : Bool := false
  RequeueAfter : Nat := 0
  deriving DecidableEq, Repr

/-- The constant `time.Second`. -/
def Second : Nat := 1000000000

/-- What `Reconcile` returns: the result and the error (`none` is nil). -/
abbrev Return := Result × Option Err

/-- The statement `if err != nil { return reconcile.Result{}, err }` around a call. -/
def orReturn {α : Type} (m : Op Err α) : Op Return α := fun w =>
  match (m w).1 with
  | .ok a => (.ok a, (m w).2)
  | .error e => (.error ({}, some e), (m w).2)

/-- The function `createObjectIfNotExists`; `found` only fixes the kind that is read. -/
def createObjectIfNotExists (ns : NamespacedName) (found : Kind) (toCreate : Obj) : Op Err Unit := do
  let res ← Op.attempt (Client.Get ⟨found, ns.Namespace, ns.Name⟩)
  match res with
  | .error err =>
    if err.IsNotFound then Client.Create toCreate
    else Op.fail err
  | .ok _ => pure ()

/-- The function `createRBAC`. -/
def createRBAC (r : CryostatReconciler) (cr : Obj) : Op Err Unit := do
  let sa ← Op.ofExcept (SetControllerReference cr (NewServiceAccountForCR r.resources cr))
  createObjectIfNotExists ⟨sa.meta.Namespace, sa.meta.Name⟩ .ServiceAccount sa
  let role ← Op.ofExcept (SetControllerReference cr (NewRoleForCR r.resources cr))
  createObjectIfNotExists ⟨role.meta.Namespace, role.meta.Name⟩ .Role role
  let binding ← Op.ofExcept (SetControllerReference cr (NewRoleBindingForCR r.resources cr))
  createObjectIfNotExists ⟨binding.meta.Namespace, binding.meta.Name⟩ .RoleBinding binding
  createObjectIfNotExists ⟨"", (NewClusterRoleBindingForCR r.resources cr).meta.Name⟩
    .ClusterRoleBinding (NewClusterRoleBindingForCR r.resources cr)

/-- The function `deleteClusterRoleBinding`: every error of the delete is returned. -/
def deleteClusterRoleBinding (r : CryostatReconciler) (cr : Obj) : Op Err Unit :=
  Client.Delete (NewClusterRoleBindingForCR r.resources cr)

/-- The function `deleteConsoleLink`: every error of the delete is returned. -/
def deleteConsoleLink (r : CryostatReconciler) (cr : Obj) : Op Err Unit :=
  Client.Delete (NewConsoleLink r.resources cr "")

/-- The function `createConsoleLink`. -/
def createConsoleLink (r : CryostatReconciler) (cr : Obj) (url : String) : Op Err Unit :=
  createObjectIfNotExists ⟨"", (NewConsoleLink r.resources cr url).meta.Name⟩ .ConsoleLink
    (NewConsoleLink r.resources cr url)

/-- The function `getProtocol`. -/
def getProtocol (tlsConfig : Option TLSConfig) : String :=
  match tlsConfig with
  | none => "http"
  | some _ => "https"

/-- The function `requeueIfIngressNotReady`. -/
def requeueIfIngressNotReady (err : Err) : Return :=
  if err = ErrIngressNotReady then ({ RequeueAfter := 5 * Second }, none)
  else ({}, some err)

/-- The function `getNetworkConfig`; `NetworkOptions` is dereferenced in each matching case. -/
def getNetworkConfig (controller svc : Obj) : Except Err (Option NetworkConfiguration) :=
  if svc.meta.Name = controller.meta.Name then
    match controller.Spec.NetworkOptions with
    | some opts => .ok opts.CoreConfig
    | none => .error (.Panic "nil pointer dereference")
  else if svc.meta.Name = controller.meta.Name ++ "-command" then
    match controller.Spec.NetworkOptions with
    | some opts => .ok opts.CommandConfig
    | none => .error (.Panic "nil pointer dereference")
  else if svc.meta.Name = controller.meta.Name ++ "-grafana" then
    match controller.Spec.NetworkOptions with
    | some opts => .ok opts.GrafanaConfig
    | none => .error (.Panic "nil pointer dereference")
  else .error .ServiceNameNotRecognized

/-- The function `createRouteForService`. -/
def createRouteForService (cr svc : Obj) (exposePort : ServicePort)
    (tlsConfig : Option TLSConfig) : Op Err (Option URL) := do
  let route ← Op.ofExcept (SetControllerReference cr
    { meta := { Name := svc.meta.Name, Namespace := svc.meta.Namespace }, body := .Route {} {} })
  let (_, route) ← CreateOrUpdate route (fun route =>
    route.setRouteSpec
      { To := { Kind := "Service", Name := svc.meta.Name },
        Port := some exposePort.TargetPort,
        TLS := tlsConfig })
  match route.routeIngress with
  | [] => Op.fail ErrIngressNotReady
  | ingress :: _ => pure (some { Scheme := getProtocol tlsConfig, Host := ingress.Host })

/-- The function `createIngressForService`. -/
def createIngressForService (controller svc : Obj)
    (networkConfig : NetworkConfiguration) : Op Err (Option URL) :=
  match networkConfig.IngressSpec with
  | none => Op.fail (.Panic "nil pointer dereference")
  | some ingressSpec => do
    let ingress ← Op.ofExcept (SetControllerReference controller
      { meta := { Name := svc.meta.Name, Namespace := svc.meta.Namespace,
                  Annotations := networkConfig.Annotations, Labels := networkConfig.Labels },
        body := .Ingress ingressSpec })
    let res ← Op.attempt (Client.Get ⟨.Ingress, svc.meta.Namespace, svc.meta.Name⟩)
    (match res with
      | .error err =>
        if err.IsNotFound then Client.Create ingress
        else Op.fail err
      | .ok _ => pure () : Op Err Unit)
    let host ← (match ingressSpec.Rules with
      | none => pure ""
      | some [] => Op.fail (.Panic "index out of range [0] with length 0")
      | some (rule :: _) => pure rule.Host : Op Err String)
    let scheme := if ingressSpec.TLS.isSome then "https" else "http"
    pure (some { Scheme := scheme, Host := host })

/-- Lines 390-396 of `createService`: a nil TLS configuration becomes edge termination. -/
def edgeByDefault (tlsConfig : Option TLSConfig) : Option TLSConfig :=
  match tlsConfig with
  | none => some { Termination := .Edge, InsecureEdgeTerminationPolicy := "Redirect" }
  | some c => some c

/-- The function `createService`. -/
def createService (r : CryostatReconciler) (controller svc : Obj) (exposePort : ServicePort)
    (tlsConfig : Option TLSConfig) : Op Err (Option URL) := do
  let svc ← Op.ofExcept (SetControllerReference controller svc)
  createObjectIfNotExists ⟨svc.meta.Namespace, svc.meta.Name⟩ .Service svc
  if r.IsOpenShift then
    createRouteForService controller svc exposePort (edgeByDefault tlsConfig)
  else
    match controller.Spec.NetworkOptions with
    | none => pure none
    | some _ => do
      let networkConfig ← Op.ofExcept (getNetworkConfig controller svc)
      match networkConfig with
      | none => pure none
      | some nc =>
        match nc.IngressSpec with
        | none => pure none
        | some _ => createIngressForService controller svc nc

/-- The function `getEnvOrDefault`. -/
def getEnvOrDefault (r : CryostatReconciler) (name defaultVal : String) : String :=
  if (r.ReconcilerTLS.GetEnv name).length > 0 then r.ReconcilerTLS.GetEnv name else defaultVal

/-- The function `getImageTags`. -/
def getImageTags (r : CryostatReconciler) : ImageTags :=
  { CoreImageTag := getEnvOrDefault r "RELATED_IMAGE_CORE" r.resources.DefaultCoreImageTag,
    DatasourceImageTag := getEnvOrDefault r "RELATED_IMAGE_DATASOURCE" r.resources.DefaultDatasourceImageTag,
    GrafanaImageTag := getEnvOrDefault r "RELATED_IMAGE_GRAFANA" r.resources.DefaultGrafanaImageTag }

/-- The constant `defaultFSGroup`. -/
def defaultFSGroup : Int := 18500

/-- The constant `securityv1.SupplementalGroupsAnnotation`. -/
def SupplementalGroupsAnnotation : String := "openshift.io/sa.scc.supplemental-groups"

/-- The call `supGroupRegexp.FindString`: the leftmost match of the pattern of a start
anchor followed by one or more ASCII digits, or the empty string. -/
def supGroupRegexp.FindString (s : String) : String :=
  String.mk (s.data.takeWhile Char.isDigit)

/-- Value of a run of decimal digits. -/
def digitsValue (ds : List Char) : Nat :=
  ds.foldl (fun acc c => 10 * acc + (c.toNat - 48)) 0

/-- The call `strconv.ParseInt(s, 10, 64)`. -/
def ParseInt (s : String) : Except Err Int :=
  let body : List Char :=
    match s.data with
    | '+' :: ds => ds
    | '-' :: ds => ds
    | ds => ds
  let neg : Bool :=
    match s.data with
    | '-' :: _ => true
    | _ => false
  if body = [] ∨ !body.all Char.isDigit then .error (.Internal "strconv.ParseInt: invalid syntax")
  else if neg then
    if digitsValue body ≤ 2 ^ 63 then .ok (- (digitsValue body : Int))
    else .error (.ParseIntRange s)
  else
    if digitsValue body < 2 ^ 63 then .ok (digitsValue body : Int)
    else .error (.ParseIntRange s)

/-- The function `parseSupGroups`. -/
def parseSupGroups (supGroups : String) : Except Err Int :=
  if (supGroupRegexp.FindString supGroups).length = 0 then .error .NoGroupID
  else ParseInt (supGroupRegexp.FindString supGroups)

/-- The function `getFSGroup`. -/
def getFSGroup (r : CryostatReconciler) (ns : String) : Op Err Int :=
  if r.IsOpenShift then do
    let nsObj ← Client.Get ⟨.Namespace, "", ns⟩
    match nsObj.meta.Annotations.lookup SupplementalGroupsAnnotation with
    | some supGroups => Op.ofExcept (parseSupGroups supGroups)
    | none => pure defaultFSGroup
  else pure defaultFSGroup

/-! ### `Reconcile`, section by section -/

/-- Lines 127-140: fetch the Cryostat instance; NotFound ends the pass without error. -/
def Reconcile.fetch (request : NamespacedName) : Op Return Obj := do
  let res ← Op.attempt (Client.Get ⟨.Cryostat, request.Namespace, request.Name⟩)
  match res with
  | .error err =>
    if err.IsNotFound then Op.fail ({}, none)
    else Op.fail ({}, some err)
  | .ok inst => pure inst

/-- Lines 142-165: an instance that is being deleted is finalized and the pass ends. -/
def Reconcile.finalize (r : CryostatReconciler) (inst : Obj) : Op Return Unit :=
  if inst.meta.DeletionTimestamp.isSome then do
    (if ContainsFinalizer inst cryostatFinalizer then do
      orReturn (deleteClusterRoleBinding r inst)
      (if r.IsOpenShift then orReturn (deleteConsoleLink r inst) else pure ())
      let _ ← orReturn (common.RemoveFinalizer inst cryostatFinalizer)
      pure ()
    else pure ())
    Op.fail ({}, none)
  else pure ()

/-- Lines 167-173: add the finalizer unless the instance has it. -/
def Reconcile.addFinalizer (inst : Obj) : Op Return Obj :=
  if !ContainsFinalizer inst cryostatFinalizer then
    orReturn (common.AddFinalizer inst cryostatFinalizer)
  else pure inst

/-- Lines 177-183: the PersistentVolumeClaim. -/
def Reconcile.storage (r : CryostatReconciler) (inst : Obj) : Op Return Unit := do
  let pvc ← orReturn (Op.ofExcept (SetControllerReference inst (NewPersistentVolumeClaimForCR r.resources inst)))
  orReturn (createObjectIfNotExists ⟨pvc.meta.Namespace, pvc.meta.Name⟩ .PersistentVolumeClaim pvc)

/-- Lines 185-199: the Grafana and JMX credential Secrets. -/
def Reconcile.secrets (r : CryostatReconciler) (inst : Obj) : Op Return Unit := do
  let grafanaSecret ← orReturn (Op.ofExcept (SetControllerReference inst (NewGrafanaSecretForCR r.resources inst)))
  orReturn (createObjectIfNotExists ⟨grafanaSecret.meta.Namespace, grafanaSecret.meta.Name⟩ .Secret grafanaSecret)
  let jmxAuthSecret ← orReturn (Op.ofExcept (SetControllerReference inst (NewJmxSecretForCR r.resources inst)))
  orReturn (createObjectIfNotExists ⟨jmxAuthSecret.meta.Namespace, jmxAuthSecret.meta.Name⟩ .Secret jmxAuthSecret)

/-- Lines 201-223: TLS set-up; yields `tlsConfig` and `routeTLS`. -/
def Reconcile.tls (r : CryostatReconciler) (inst : Obj) :
    Op Return (Option ResourcesTLSConfig × Option TLSConfig) :=
  if r.ReconcilerTLS.IsCertManagerEnabled inst.declared then
    match r.setupTLS inst.declared with
    | .error err =>
      if err = .ErrCertNotReady then Op.fail ({ RequeueAfter := 5 * Second }, none)
      else Op.fail ({}, some err)
    | .ok tlsConfig =>
      match r.ReconcilerTLS.GetCryostatCABytes inst.declared with
      | .error err => Op.fail ({}, some err)
      | .ok caCert =>
        pure (some tlsConfig, some { Termination := .Reencrypt, DestinationCACertificate := caCert })
  else pure (none, none)

/-- Lines 225-229: RBAC. -/
def Reconcile.rbac (r : CryostatReconciler) (inst : Obj) : Op Return Unit :=
  orReturn (createRBAC r inst)

/-- Lines 240-249 and 293-302: delete the existing Deployment when `mismatch` holds of its
container count; a failed delete other than NotFound asks for a requeue after 10 s. -/
def Reconcile.deleteDeployment (inst : Obj) (mismatch : Nat → Bool) : Op Return Unit := do
  let res ← Op.attempt (Client.Get ⟨.Deployment, inst.meta.Namespace, inst.meta.Name⟩)
  match res with
  | .ok deployment =>
    if mismatch deployment.deploymentSpec.Template.Spec.Containers.length then do
      let del ← Op.attempt (Client.Delete deployment)
      match del with
      | .error err =>
        if !err.IsNotFound then Op.fail ({ Requeue := true, RequeueAfter := Second * 10 }, some err)
        else pure ()
      | .ok _ => pure ()
    else pure ()
  | .error _ => pure ()

/-- Lines 253-281: in the minimal case, read the exposure object (Route or Ingress) named
after the Grafana Service and delete it if it is there. -/
def Reconcile.deleteExposure (kind : Kind) (svc : Obj) : Op Return Unit := do
  let res ← Op.attempt (Client.Get ⟨kind, svc.meta.Namespace, svc.meta.Name⟩)
  match res with
  | .error err =>
    if !err.IsNotFound then Op.fail ({}, some err) else pure ()
  | .ok exposure => do
    let del ← Op.attempt (Client.Delete exposure)
    match del with
    | .error err =>
      if !err.IsNotFound then Op.fail ({}, some err) else pure ()
    | .ok _ => pure ()

/-- Lines 283-291: in the minimal case, delete the Grafana Service if the read finds it. -/
def Reconcile.deleteGrafanaService (svc : Obj) : Op Return Unit := do
  let res ← Op.attempt (Client.Get ⟨.Service, svc.meta.Namespace, svc.meta.Name⟩)
  match res with
  | .ok found => do
    let del ← Op.attempt (Client.Delete found)
    match del with
    | .error err =>
      if !err.IsNotFound then Op.fail ({}, some err) else pure ()
    | .ok _ => pure ()
  | .error _ => pure ()

/-- Lines 231-303: the Grafana Service and its exposure, or their removal when minimal;
yields `serviceSpecs.GrafanaURL`. -/
def Reconcile.grafana (r : CryostatReconciler) (inst : Obj) (routeTLS : Option TLSConfig) :
    Op Return (Option URL) :=
  if !inst.Spec.Minimal then do
    let res ← Op.attempt (createService r inst (NewGrafanaService r.resources inst)
      (r.resources.GrafanaService inst.declared).Port routeTLS)
    match res with
    | .error err => Op.fail (requeueIfIngressNotReady err)
    | .ok url => do
      Reconcile.deleteDeployment inst (fun n => n == 1)
      pure url
  else do
    Reconcile.deleteExposure (if r.IsOpenShift then .Route else .Ingress) (NewGrafanaService r.resources inst)
    Reconcile.deleteGrafanaService (NewGrafanaService r.resources inst)
    Reconcile.deleteDeployment inst (fun n => n > 1)
    pure none

/-- Lines 305-310: the core Service; yields `serviceSpecs.CoreURL`. -/
def Reconcile.core (r : CryostatReconciler) (inst : Obj) (routeTLS : Option TLSConfig) :
    Op Return (Option URL) := do
  let res ← Op.attempt (createService r inst (NewExporterService r.resources inst)
    (r.resources.ExporterService inst.declared).Port routeTLS)
  match res with
  | .error err => Op.fail (requeueIfIngressNotReady err)
  | .ok url => pure url

/-- Lines 312-317: the command channel Service; yields `serviceSpecs.CommandURL`. -/
def Reconcile.command (r : CryostatReconciler) (inst : Obj) (routeTLS : Option TLSConfig) :
    Op Return (Option URL) := do
  let res ← Op.attempt (createService r inst (NewCommandChannelService r.resources inst)
    (r.resources.CommandChannelService inst.declared).Port routeTLS)
  match res with
  | .error err => Op.fail (requeueIfIngressNotReady err)
  | .ok url => pure url

/-- Lines 319-337: the Deployment, created or its pod spec brought up to date. -/
def Reconcile.deployment (r : CryostatReconciler) (inst : Obj) (serviceSpecs : ServiceSpecs)
    (tlsConfig : Option ResourcesTLSConfig) : Op Return Unit := do
  let fsGroup ← orReturn (getFSGroup r inst.meta.Namespace)
  let podTemplate :=
    (NewDeploymentForCR r.resources inst serviceSpecs (getImageTags r) tlsConfig fsGroup).deploymentSpec.Template
  let deployment ← orReturn (Op.ofExcept (SetControllerReference inst
    (NewDeploymentForCR r.resources inst serviceSpecs (getImageTags r) tlsConfig fsGroup)))
  let _ ← orReturn (CreateOrUpdate deployment (fun deployment => deployment.setPodSpec podTemplate.Spec))
  pure ()

/-- Lines 339-345: write the application URL to the status when the core URL is there. -/
def Reconcile.status (inst : Obj) (serviceSpecs : ServiceSpecs) : Op Return Obj :=
  match serviceSpecs.CoreURL with
  | some coreURL => do
    orReturn (Client.StatusUpdate (inst.setApplicationURL coreURL.String))
    pure (inst.setApplicationURL coreURL.String)
  | none => pure inst

/-- Lines 347-353: on OpenShift, the ConsoleLink to the core URL. -/
def Reconcile.consoleLink (r : CryostatReconciler) (inst : Obj) (serviceSpecs : ServiceSpecs) :
    Op Return Unit :=
  if r.IsOpenShift then
    match serviceSpecs.CoreURL with
    | none => Op.fail ({}, some (.Panic "nil pointer dereference"))
    | some coreURL => orReturn (createConsoleLink r inst coreURL.String)
  else pure ()

/-- What the pass has computed so far. -/
structure PassState where
  inst : Obj
  tlsConfig : Option ResourcesTLSConfig := none
  routeTLS : Option TLSConfig := none
  serviceSpecs : ServiceSpecs := {}
  deriving DecidableEq, Repr

/-- The pass up to and including the finalizer (lines 127-173). -/
def Reconcile.toFinalizer (r : CryostatReconciler) (request : NamespacedName) : Op Return Obj := do
  let inst ← Reconcile.fetch request
  Reconcile.finalize r inst
  Reconcile.addFinalizer inst

/-- The pass up to and including the credential Secrets (lines 127-199). -/
def Reconcile.toSecrets (r : CryostatReconciler) (request : NamespacedName) : Op Return Obj := do
  let inst ← Reconcile.toFinalizer r request
  Reconcile.storage r inst
  Reconcile.secrets r inst
  pure inst

/-- The pass up to and including RBAC (lines 127-229). -/
def Reconcile.toRBAC (r : CryostatReconciler) (request : NamespacedName) : Op Return PassState := do
  let inst ← Reconcile.toSecrets r request
  let tls ← Reconcile.tls r inst
  Reconcile.rbac r inst
  pure { inst := inst, tlsConfig := tls.1, routeTLS := tls.2 }

/-- The pass up to and including the Grafana section (lines 127-303). -/
def Reconcile.toGrafana (r : CryostatReconciler) (request : NamespacedName) : Op Return PassState := do
  let st ← Reconcile.toRBAC r request
  let url ← Reconcile.grafana r st.inst st.routeTLS
  pure { st with serviceSpecs := { st.serviceSpecs with GrafanaURL := url } }

/-- The pass up to and including the core Service (lines 127-310). -/
def Reconcile.toCore (r : CryostatReconciler) (request : NamespacedName) : Op Return PassState := do
  let st ← Reconcile.toGrafana r request
  let url ← Reconcile.core r st.inst st.routeTLS
  pure { st with serviceSpecs := { st.serviceSpecs with CoreURL := url } }

/-- The pass up to and including the command channel Service (lines 127-317). -/
def Reconcile.toCommand (r : CryostatReconciler) (request : NamespacedName) : Op Return PassState := do
  let st ← Reconcile.toCore r request
  let url ← Reconcile.command r st.inst st.routeTLS
  pure { st with serviceSpecs := { st.serviceSpecs with CommandURL := url } }

/-- The whole pass (lines 127-356). -/
def Reconcile.pass (r : CryostatReconciler) (request : NamespacedName) : Op Return Unit := do
  let st ← Reconcile.toCommand r request
  Reconcile.deployment r st.inst st.serviceSpecs st.tlsConfig
  let inst ← Reconcile.status st.inst st.serviceSpecs
  Reconcile.consoleLink r inst st.serviceSpecs

/-- The method `CryostatReconciler.Reconcile`: the result and error returned, and the world
the pass leaves behind. -/
def Reconcile (r : CryostatReconciler) (request : NamespacedName) (w : World) : Return × World :=
  match (Reconcile.pass r request w).1 with
  | .ok _ => (({}, none), (Reconcile.pass r request w).2)
  | .error ret => (ret, (Reconcile.pass r request w).2)

end Cryostat

namespace Cryostat

/-! ## Reasoning about passes: invariants and footprints -/

deriving instance DecidableEq for Except

/-- The error a result carries, if any. -/
def errOf {ε α : Type} (x : Except ε α) : Option ε :=
  match x with
  | .ok _ => none
  | .error e => some e

/-- The computation `m` keeps `I`: from a world where `I` holds it leaves one where it holds. -/
def Keeps {ε α : Type} (I : World → Prop) (m : Op ε α) : Prop := ∀ w, I w → I (m w).2

/-- A write aimed at the store: the verb and the key. -/
abbrev Touch := Verb × Key

/-- The predicate `I` is kept by every read and by every write whose verb and key are in `T`. -/
structure Respects (T : List Touch) (I : World → Prop) : Prop where
  get : ∀ k, Keeps I (Client.Get k)
  create : ∀ o, (Verb.Create, o.key) ∈ T → Keeps I (Client.Create o)
  update : ∀ o, (Verb.Update, o.key) ∈ T → Keeps I (Client.Update o)
  delete : ∀ o, (Verb.Delete, o.key) ∈ T → Keeps I (Client.Delete o)
  status : ∀ o, (Verb.StatusUpdate, o.key) ∈ T → Keeps I (Client.StatusUpdate o)

/-- A state property `S` of the store together with a property `Q` of every call issued
after the first `n` entries of the trace. -/
def Inv (n : Nat) (S : Store → Prop) (Q : Call → Prop) (w : World) : Prop :=
  S w.objs ∧ ∀ c ∈ w.log.drop n, Q c

/-- The store answers every remaining call itself: no injected failure is left. -/
def World.Reliable (w : World) : Prop := ∀ f ∈ w.faults, f = none

end Cryostat

namespace Cryostat

/-! ### Footprints: the writes each section of `Reconcile` may issue

For an instance `name` in namespace `ns`. -/

def storageTouches (ns name : String) : List Touch :=
  [(.Create, ⟨.PersistentVolumeClaim, ns, name⟩)]

def secretsTouches (ns name : String) : List Touch :=
  [(.Create, ⟨.Secret, ns, name ++ "-grafana-basic"⟩), (.Create, ⟨.Secret, ns, name ++ "-jmx-auth"⟩)]

def createRBACTouches (r : CryostatReconciler) (ns name : String) : List Touch :=
  [(.Create, ⟨.ServiceAccount, ns, name⟩), (.Create, ⟨.Role, ns, name⟩),
    (.Create, ⟨.RoleBinding, ns, name⟩),
    (.Create, ⟨.ClusterRoleBinding, "", r.resources.ClusterUniqueName ns name⟩)]

/-- Writes of `createService` for the Service `svcName`. -/
def createServiceTouches (r : CryostatReconciler) (ns svcName : String) : List Touch :=
  (.Create, ⟨.Service, ns, svcName⟩) ::
    (if r.IsOpenShift then [(.Create, ⟨.Route, ns, svcName⟩), (.Update, ⟨.Route, ns, svcName⟩)]
     else [(.Create, ⟨.Ingress, ns, svcName⟩)])

def deleteDeploymentTouches (ns name : String) : List Touch :=
  [(.Delete, ⟨.Deployment, ns, name⟩)]

def grafanaTouches (r : CryostatReconciler) (ns name : String) (minimal : Bool) : List Touch :=
  if minimal then
    [(.Delete, ⟨if r.IsOpenShift then .Route else .Ingress, ns, name ++ "-grafana"⟩),
      (.Delete, ⟨.Service, ns, name ++ "-grafana"⟩)] ++ deleteDeploymentTouches ns name
  else createServiceTouches r ns (name ++ "-grafana") ++ deleteDeploymentTouches ns name

def deploymentTouches (ns name : String) : List Touch :=
  [(.Create, ⟨.Deployment, ns, name⟩), (.Update, ⟨.Deployment, ns, name⟩)]

def statusTouches (ns name : String) : List Touch :=
  [(.StatusUpdate, ⟨.Cryostat, ns, name⟩)]

def consoleLinkTouches (r : CryostatReconciler) (ns name : String) : List Touch :=
  if r.IsOpenShift then [(.Create, ⟨.ConsoleLink, "", r.resources.ClusterUniqueName ns name⟩)] else []

/-- Writes of the sections after the finalizer up to the command channel Service
(lines 177-317). -/
def servicesTouches (r : CryostatReconciler) (ns name : String) (minimal : Bool) : List Touch :=
  storageTouches ns name ++ secretsTouches ns name ++ createRBACTouches r ns name
    ++ grafanaTouches r ns name minimal ++ createServiceTouches r ns name
    ++ createServiceTouches r ns (name ++ "-command")

/-- Writes of all sections after the finalizer (lines 177-356). -/
def dependentTouches (r : CryostatReconciler) (ns name : String) (minimal : Bool) : List Touch :=
  servicesTouches r ns name minimal ++ deploymentTouches ns name ++ statusTouches ns name
    ++ consoleLinkTouches r ns name

end Cryostat

namespace Cryostat

/-- The call `c` has this verb, key and outcome. -/
def Call.is (c : Call) (verb : Verb) (key : Key) (err : Option Err) : Prop :=
  c.verb = verb ∧ c.key = key ∧ c.err = err

/-- The calls the pass from `w` to `w2` has issued. -/
def World.callsSince (w2 w : World) : List Call := w2.log.drop w.log.length

/-- The stored instance carries the finalizer. -/
def Store.HasFinalizer (s : Store) (key : Key) : Prop :=
  ∃ o, s.get? key = some o ∧ ContainsFinalizer o cryostatFinalizer = true

end Cryostat

namespace Cryostat

/-! ## Example reconcilers and clusters

After `internal/test/resources.go`: the instance `cryostat` in namespace `default`. -/

namespace test

/-- Manifest content for the examples; the cluster-unique name stands in for the hash. -/
def resources : ResourceDefinitions :=
  { ClusterUniqueName := fun ns name => "cryostat-" ++ ns ++ "." ++ name
    PersistentVolumeClaimSpec := fun _ => "500Mi"
    GrafanaSecretData := fun _ => "admin"
    JmxSecretData := fun _ => "jmx"
    RoleRules := fun _ => "get,list,watch"
    RoleBinding := fun cr => cr.Name
    ClusterRoleBinding := fun _ => "cryostat-operator-cryostat"
    GrafanaService := fun _ => { Port := ⟨"3000-tcp", 3000, 3000⟩ }
    ExporterService := fun _ => { Port := ⟨"export", 8181, 8181⟩ }
    CommandChannelService := fun _ => { Port := ⟨"cmdchan", 9090, 9090⟩ }
    DeploymentSpec := fun cr _ tags _ fsGroup =>
      { Template := { Spec :=
          { Containers :=
              if cr.Spec.Minimal then [⟨"cryostat", tags.CoreImageTag, []⟩]
              else [⟨"cryostat", tags.CoreImageTag, []⟩, ⟨"grafana", tags.GrafanaImageTag, []⟩,
                ⟨"jfr-datasource", tags.DatasourceImageTag, []⟩],
            FSGroup := some fsGroup } } }
    ConsoleLinkText := "Cryostat"
    DefaultCoreImageTag := "core"
    DefaultDatasourceImageTag := "datasource"
    DefaultGrafanaImageTag := "grafana" }

/-- A reconciler whose certificates are ready. -/
def reconciler (isOpenShift : Bool) : CryostatReconciler :=
  { IsOpenShift := isOpenShift
    ReconcilerTLS :=
      { IsCertManagerEnabled := fun cr => cr.Spec.EnableCertManager.getD true
        GetCryostatCABytes := fun _ => .ok "ca"
        GetEnv := fun _ => "" }
    setupTLS := fun _ => .ok ⟨"cryostat-tls", "cryostat-grafana-tls", "cryostat-keystore"⟩
    resources := resources }

/-- A reconciler whose certificates have not been issued yet. -/
def reconcilerCertNotReady (isOpenShift : Bool) : CryostatReconciler :=
  { reconciler isOpenShift with setupTLS := fun _ => .error .ErrCertNotReady }

/-- The request for the example instance. -/
def request : NamespacedName := ⟨"default", "cryostat"⟩

/-- The example `NewCryostat`. -/
def NewCryostat : Obj :=
  { meta := { Name := "cryostat", Namespace := "default" },
    body := .Cryostat { Minimal := false, EnableCertManager := some true } {} }

/-- The example `NewMinimalCryostat`. -/
def NewMinimalCryostat : Obj :=
  { meta := { Name := "cryostat", Namespace := "default" },
    body := .Cryostat { Minimal := true, EnableCertManager := some true } {} }

/-- The example instance with the finalizer, as an earlier pass leaves it. -/
def NewCryostatWithFinalizer : Obj :=
  { NewCryostat with meta := { NewCryostat.meta with Finalizers := [cryostatFinalizer] } }

/-- The example instance with the finalizer, after deletion was requested. -/
def NewCryostatDeleting : Obj :=
  { NewCryostat with meta :=
      { NewCryostat.meta with Finalizers := [cryostatFinalizer], DeletionTimestamp := some 1 } }

/-- The example instance after deletion was requested, the finalizer already gone. -/
def NewCryostatDeleted : Obj :=
  { NewCryostat with meta := { NewCryostat.meta with DeletionTimestamp := some 1 } }

/-- The example `NewNamespace`. -/
def NewNamespace : Obj := { meta := { Name := "default" }, body := .Namespace }

/-- The example `NewClusterRoleBinding`. -/
def NewClusterRoleBinding : Obj := NewClusterRoleBindingForCR resources NewCryostat

/-- A Route whose host the platform has assigned. -/
def NewRoute (name : String) : Obj :=
  { meta := { Name := name, Namespace := "default" },
    body := .Route {} { Ingress := [⟨name ++ ".example.com"⟩] } }

/-- The Grafana Service of the example instance, left by a pass before it became minimal. -/
def NewGrafanaService : Obj := Cryostat.NewGrafanaService resources NewCryostat

/-- An Ingress named after the Grafana Service of the example instance. -/
def NewGrafanaIngress : Obj :=
  { meta := { Name := "cryostat-grafana", Namespace := "default" },
    body := .Ingress { Rules := some [⟨"grafana.example.com", "/"⟩] } }

/-- A claim that exists already with a size of its own, after `NewCustomPVC`. -/
def NewCustomPVC : Obj :=
  { meta := { Name := "cryostat", Namespace := "default" }, body := .PersistentVolumeClaim "10Gi" }

end test

end Cryostat

namespace Cryostat

/-- Writes of the finalizer section (lines 142-173) for the instance `name` in `ns`. -/
def finalizerTouches (r : CryostatReconciler) (ns name : String) : List Touch :=
  [(.Delete, ⟨.ClusterRoleBinding, "", r.resources.ClusterUniqueName ns name⟩),
    (.Delete, ⟨.ConsoleLink, "", r.resources.ClusterUniqueName ns name⟩),
    (.Update, ⟨.Cryostat, ns, name⟩)]

end Cryostat

namespace Cryostat

/-- Whenever `m` ends the pass it does so with an error or a requeue request, never with
the empty result and a nil error. -/
def Exits {α : Type} (m : Op Return α) : Prop :=
  ∀ w ret, (m w).1 = .error ret → ret ≠ ({ Requeue := false, RequeueAfter := 0 }, none)

end Cryostat

namespace Cryostat

/-! ## Repeating a pass -/

/-- The hosts the Route stored under `k` reports; none when no object is stored there. -/
def Store.routeIngress (s : Store) (k : Key) : List RouteIngress :=
  match s.get? k with
  | some x => x.routeIngress
  | none => []

/-- On the worlds where `O` holds, what `m` returns does not depend on the world. -/
def DetOn {ε α : Type} (O : World → Prop) (m : Op ε α) : Prop :=
  ∀ w1 w2, O w1 → O w2 → (m w1).1 = (m w2).1

/-- What the outcome of a pass depends on: the store answers every call itself, the object
under `ck` (the instance) is there, the object under `nk` (its Namespace) is `v`, and the
Routes under the keys `ks` report the hosts `L`. -/
def Observed (ck nk : Key) (v : Option Obj) (ks : List Key) (L : Key → List RouteIngress)
    (w : World) : Prop :=
  (w.Reliable ∧ w.objs.get? ck ≠ none ∧ w.objs.get? nk = v) ∧
    ∀ k ∈ ks, w.objs.routeIngress k = L k

/-- The Routes whose hosts a pass for the instance `name` in `ns` reads. -/
def exposureKeys (ns name : String) (minimal : Bool) : List Key :=
  [⟨.Route, ns, name⟩, ⟨.Route, ns, name ++ "-command"⟩]
    ++ (if minimal then [] else [⟨.Route, ns, name ++ "-grafana"⟩])

/-- What the outcome of a pass for the instance `name` in `ns` depends on. -/
def PassObserved (ns name : String) (minimal : Bool) (v : Option Obj)
    (L : Key → List RouteIngress) : World → Prop :=
  Observed ⟨.Cryostat, ns, name⟩ ⟨.Namespace, "", ns⟩ v (exposureKeys ns name minimal) L

end Cryostat

namespace Cryostat

/-- Two instance objects that differ in their status at most. -/
def Obj.Alike (a b : Obj) : Prop :=
  a.meta = b.meta ∧ a.Spec = b.Spec ∧ a.body.kind = b.body.kind

/-- Two results of a prefix of the pass agree: both values, related by `R`, or the same
return. -/
def Agree {σ : Type} (R : σ → σ → Prop) (x1 x2 : Except Return σ) : Prop :=
  match x1, x2 with
  | .ok a, .ok b => R a b
  | .error e1, .error e2 => e1 = e2
  | _, _ => False

/-- Two runs agree in what they return and both leave a world where `O` holds. -/
def Agrees {σ : Type} (O : World → Prop) (R : σ → σ → Prop)
    (x1 x2 : Except Return σ × World) : Prop :=
  Agree R x1.1 x2.1 ∧ O x1.2 ∧ O x2.2

/-- The instance of a pass for `name` in `ns`, up to its status. -/
def SameInstance (ns name : String) (minimal : Bool) (a b : Obj) : Prop :=
  a.Alike b ∧ a.body.kind = .Cryostat ∧ a.meta.Namespace = ns ∧ a.meta.Name = name ∧
    a.Spec.Minimal = minimal

/-- The state of a pass, up to the status of the instance. -/
def SameState (ns name : String) (minimal : Bool) (s1 s2 : PassState) : Prop :=
  SameInstance ns name minimal s1.inst s2.inst ∧ s1.tlsConfig = s2.tlsConfig ∧
    s1.routeTLS = s2.routeTLS ∧ s1.serviceSpecs = s2.serviceSpecs

end Cryostat

namespace Cryostat

/-! ## A pass over what the previous pass left -/

/-- The store holds an object under `k`. -/
def Store.Has (s : Store) (k : Key) : Prop := s.get? k ≠ none

/-- The store holds under `k` an object that the mutation `f` leaves as it is. -/
def Store.Fixed (s : Store) (k : Key) (f : Obj → Obj) : Prop :=
  ∃ x, s.get? k = some x ∧ f x = x

/-- The property `S` of the store reads the keys `K` only. -/
def DependsOn (K : List Key) (S : Store → Prop) : Prop :=
  ∀ s1 s2 : Store, (∀ k ∈ K, s1.get? k = s2.get? k) → S s1 → S s2

/-- The invariant of a pass that changes nothing: the store answers every call itself and
holds under every key what `s0` holds, and every call after the first `n` entries of the
trace is a read or a status update. -/
def Replaying (s0 : Store) (n : Nat) (w : World) : Prop :=
  w.Reliable ∧
    Inv n (fun s => ∀ k, s.get? k = s0.get? k)
      (fun c => c.verb = .Get ∨ c.verb = .StatusUpdate) w

/-- The mutation `createRouteForService` applies to the Route of a Service. -/
def routeMutation (svc : Obj) (exposePort : ServicePort) (tlsConfig : Option TLSConfig) :
    Obj → Obj :=
  fun route =>
    route.setRouteSpec
      { To := { Kind := "Service", Name := svc.meta.Name },
        Port := some exposePort.TargetPort,
        TLS := tlsConfig }

/-- The function `createService` reaches `createIngressForService` for this Service. -/
def needsIngress (controller svc : Obj) : Prop :=
  ∃ opts nc spec, controller.Spec.NetworkOptions = some opts ∧
    getNetworkConfig controller svc = .ok (some nc) ∧ nc.IngressSpec = some spec

/-- What `createService` has brought about: the Service is there and, on OpenShift, its
Route with the specification wanted, elsewhere its Ingress if one is declared. -/
def ServiceSettled (r : CryostatReconciler) (controller svc : Obj) (exposePort : ServicePort)
    (tlsConfig : Option TLSConfig) (s : Store) : Prop :=
  s.Has ⟨.Service, svc.meta.Namespace, svc.meta.Name⟩ ∧
    (r.IsOpenShift = true →
      s.Fixed ⟨.Route, svc.meta.Namespace, svc.meta.Name⟩
        (routeMutation svc exposePort (edgeByDefault tlsConfig))) ∧
    (r.IsOpenShift = false → needsIngress controller svc →
      s.Has ⟨.Ingress, svc.meta.Namespace, svc.meta.Name⟩)

end Cryostat

namespace Cryostat

/-- From a world where `P` holds, whenever `m` yields a value, `Q` holds of the value and
the world left. -/
def Triple {ε α : Type} (P : World → Prop) (m : Op ε α) (Q : α → World → Prop) : Prop :=
  ∀ w, P w → ∀ a, (m w).1 = .ok a → Q a (m w).2

/-- What `getFSGroup` yields on a reliable store, from the Namespace object it reads. -/
def fsGroupOf (r : CryostatReconciler) (nsObj : Option Obj) : Except Err Int :=
  if r.IsOpenShift then
    match nsObj with
    | none => .error .NotFound
    | some o =>
      match o.meta.Annotations.lookup SupplementalGroupsAnnotation with
      | some supGroups => parseSupGroups supGroups
      | none => .ok defaultFSGroup
  else .ok defaultFSGroup

/-- The PersistentVolumeClaim is there. -/
def StorageSettled (ns name : String) (s : Store) : Prop :=
  s.Has ⟨.PersistentVolumeClaim, ns, name⟩

/-- The credential Secrets are there. -/
def SecretsSettled (ns name : String) (s : Store) : Prop :=
  s.Has ⟨.Secret, ns, name ++ "-grafana-basic"⟩ ∧ s.Has ⟨.Secret, ns, name ++ "-jmx-auth"⟩

/-- The ServiceAccount, Role, RoleBinding and ClusterRoleBinding are there. -/
def RBACSettled (r : CryostatReconciler) (ns name : String) (s : Store) : Prop :=
  s.Has ⟨.ServiceAccount, ns, name⟩ ∧ s.Has ⟨.Role, ns, name⟩ ∧
    s.Has ⟨.RoleBinding, ns, name⟩ ∧
    s.Has ⟨.ClusterRoleBinding, "", r.resources.ClusterUniqueName ns name⟩

/-- What the Grafana section has brought about: the Grafana Service settled, or, for a
minimal instance, the Service and its exposure gone. -/
def GrafanaSettled (r : CryostatReconciler) (inst : Obj) (routeTLS : Option TLSConfig)
    (s : Store) : Prop :=
  (inst.Spec.Minimal = false →
    ServiceSettled r inst (NewGrafanaService r.resources inst)
      (r.resources.GrafanaService inst.declared).Port routeTLS s) ∧
  (inst.Spec.Minimal = true →
    s.get? ⟨.Service, inst.meta.Namespace, inst.meta.Name ++ "-grafana"⟩ = none ∧
    s.get? ⟨if r.IsOpenShift then .Route else .Ingress, inst.meta.Namespace,
      inst.meta.Name ++ "-grafana"⟩ = none)

/-- What the Deployment section has brought about: the Deployment is stored with the pod
specification wanted for the group the Namespace declares. -/
def DeploymentSettled (r : CryostatReconciler) (inst : Obj) (serviceSpecs : ServiceSpecs)
    (tlsConfig : Option ResourcesTLSConfig) (s : Store) : Prop :=
  ∃ fsGroup, fsGroupOf r (s.get? ⟨.Namespace, "", inst.meta.Namespace⟩) = .ok fsGroup ∧
    s.Fixed ⟨.Deployment, inst.meta.Namespace, inst.meta.Name⟩
      (fun d => d.setPodSpec
        (NewDeploymentForCR r.resources inst serviceSpecs (getImageTags r) tlsConfig
          fsGroup).deploymentSpec.Template.Spec)

/-- On OpenShift the ConsoleLink is there. -/
def ConsoleLinkSettled (r : CryostatReconciler) (ns name : String) (s : Store) : Prop :=
  r.IsOpenShift = true →
    s.Has ⟨.ConsoleLink, "", r.resources.ClusterUniqueName ns name⟩

/-- The Deployment template has one container for a minimal instance and several
otherwise, which is what the Grafana section tells a stale Deployment by. -/
def DeploymentSized (r : CryostatReconciler) (inst : Obj) : Prop :=
  ∀ serviceSpecs imageTags tlsConfig fsGroup,
    (inst.Spec.Minimal = true →
      (r.resources.DeploymentSpec inst.declared serviceSpecs imageTags tlsConfig
        fsGroup).Template.Spec.Containers.length ≤ 1) ∧
    (inst.Spec.Minimal = false →
      (r.resources.DeploymentSpec inst.declared serviceSpecs imageTags tlsConfig
        fsGroup).Template.Spec.Containers.length ≠ 1)

end Cryostat

namespace Cryostat

/-- What the pass has brought about once the credential Secrets are done. -/
def SettledToSecrets (ns name : String) (s : Store) : Prop :=
  StorageSettled ns name s ∧ SecretsSettled ns name s

/-- What the pass has brought about once RBAC is done. -/
def SettledToRBAC (r : CryostatReconciler) (ns name : String) (s : Store) : Prop :=
  SettledToSecrets ns name s ∧ RBACSettled r ns name s

/-- What the pass has brought about once the Grafana section is done. -/
def SettledToGrafana (r : CryostatReconciler) (inst : Obj) (routeTLS : Option TLSConfig)
    (s : Store) : Prop :=
  SettledToRBAC r inst.meta.Namespace inst.meta.Name s ∧ GrafanaSettled r inst routeTLS s

/-- What the pass has brought about once the core Service is done. -/
def SettledToCore (r : CryostatReconciler) (inst : Obj) (routeTLS : Option TLSConfig)
    (s : Store) : Prop :=
  SettledToGrafana r inst routeTLS s ∧
    ServiceSettled r inst (NewExporterService r.resources inst)
      (r.resources.ExporterService inst.declared).Port routeTLS s

/-- What the pass has brought about once the command channel Service is done. -/
def SettledToCommand (r : CryostatReconciler) (inst : Obj) (routeTLS : Option TLSConfig)
    (s : Store) : Prop :=
  SettledToCore r inst routeTLS s ∧
    ServiceSettled r inst (NewCommandChannelService r.resources inst)
      (r.resources.CommandChannelService inst.declared).Port routeTLS s

/-- What the pass has brought about once the Deployment is done. -/
def SettledToDeployment (r : CryostatReconciler) (st : PassState) (s : Store) : Prop :=
  SettledToCommand r st.inst st.routeTLS s ∧
    DeploymentSettled r st.inst st.serviceSpecs st.tlsConfig s

/-- What a complete pass has brought about. -/
def Settled (r : CryostatReconciler) (st : PassState) (s : Store) : Prop :=
  SettledToDeployment r st s ∧
    ConsoleLinkSettled r st.inst.meta.Namespace st.inst.meta.Name s

/-- The keys the sections before the Grafana section settle. -/
def plainKeys (r : CryostatReconciler) (ns name : String) : List Key :=
  [⟨.PersistentVolumeClaim, ns, name⟩] ++
    ([⟨.Secret, ns, name ++ "-grafana-basic"⟩] ++ [⟨.Secret, ns, name ++ "-jmx-auth"⟩]) ++
    ([⟨.ServiceAccount, ns, name⟩] ++ ([⟨.Role, ns, name⟩] ++ ([⟨.RoleBinding, ns, name⟩] ++
      [⟨.ClusterRoleBinding, "", r.resources.ClusterUniqueName ns name⟩])))

/-- The keys `createService` settles for the Service `svcName`. -/
def serviceKeys (ns svcName : String) : List Key :=
  [⟨.Service, ns, svcName⟩, ⟨.Route, ns, svcName⟩, ⟨.Ingress, ns, svcName⟩]

end Cryostat

namespace Cryostat

/-! ## Endpoints -/

/-- The three endpoints of an instance: the primary API, the command channel, the
dashboard. -/
inductive Endpoint
  | core | command | grafana
  deriving DecidableEq, Repr

/-- The Service name of an endpoint, derived from the instance name. -/
def Endpoint.serviceName (n : String) : Endpoint → String
  | .core => n
  | .command => n ++ "-command"
  | .grafana => n ++ "-grafana"

/-- The network configuration declared for an endpoint. -/
def Endpoint.config (opts : NetworkConfigurationList) : Endpoint → Option NetworkConfiguration
  | .core => opts.CoreConfig
  | .command => opts.CommandConfig
  | .grafana => opts.GrafanaConfig

/-- Endpoint resolution in the words of the specification: the Service name is compared
with the derived names in the order given, a name that matches decides, and a name that
matches none is a configuration mismatch. -/
def getNetworkConfigBy (order : List Endpoint) (controller svc : Obj) :
    Except Err (Option NetworkConfiguration) :=
  match order.find? (fun e => decide (svc.meta.Name = e.serviceName controller.meta.Name)) with
  | some e =>
    match controller.Spec.NetworkOptions with
    | some opts => .ok (e.config opts)
    | none => .error (.Panic "nil pointer dereference")
  | none => .error .ServiceNameNotRecognized

/-! ## Kinds a computation leaves alone -/

/-- Total correctness on the worlds where `P` holds: from such a world `m` yields a value
of which `Q` holds, and `P` holds of the world left. -/
def Total {ε α : Type} (P : World → Prop) (m : Op ε α) (Q : α → Prop) : Prop :=
  ∀ w, P w → ∃ a, (m w).1 = .ok a ∧ Q a ∧ P (m w).2

/-- The computation `m` issues no call, read or write, on an object of kind `K`. -/
def Avoids {ε α : Type} (K : Kind) (m : Op ε α) : Prop :=
  ∀ n, Keeps (fun w => ∀ c ∈ w.log.drop n, c.key.kind ≠ K) m

namespace test

/-- The example `NewNetworkConfiguration`: an Ingress with one rule for the host
`testing.<svcName>`. -/
def NewNetworkConfiguration (svcName : String) : NetworkConfiguration :=
  { Annotations := [("nginx.ingress.kubernetes.io/backend-protocol", "HTTPS")],
    IngressSpec := some { Rules := some [⟨"testing." ++ svcName, "/"⟩] } }

/-- The example `NewNetworkConfigurationList`. -/
def NewNetworkConfigurationList : NetworkConfigurationList :=
  { CoreConfig := some (NewNetworkConfiguration "cryostat"),
    CommandConfig := some (NewNetworkConfiguration "cryostat-command"),
    GrafanaConfig := some (NewNetworkConfiguration "cryostat-grafana") }

/-- The example `NewCryostatWithIngress`. -/
def NewCryostatWithIngress : Obj :=
  { meta := { Name := "cryostat", Namespace := "default" },
    body := .Cryostat
      { Minimal := false, EnableCertManager := some true,
        NetworkOptions := some NewNetworkConfigurationList } {} }

/-- A Route the platform has admitted with an ingress entry whose host is still empty. -/
def NewRouteWithoutHost (name : String) : Obj :=
  { meta := { Name := name, Namespace := "default" },
    body := .Route {} { Ingress := [⟨""⟩] } }

/-- A network configuration whose Ingress declares an empty, non-nil list of rules. -/
def NewNetworkConfigurationNoRules : NetworkConfiguration :=
  { IngressSpec := some { Rules := some [] } }

/-- An Ingress under the name of the core Service, left by an earlier configuration. -/
def NewStaleIngress : Obj :=
  { meta := { Name := "cryostat", Namespace := "default" },
    body := .Ingress { Rules := some [⟨"old.example.com", "/"⟩] } }

/-- A Deployment of the example instance as another actor has left it: scaled to three
replicas, with labels of its own on the pod template and images of an earlier release. -/
def NewScaledDeployment : Obj :=
  { meta := { Name := "cryostat", Namespace := "default", Labels := [("team", "jfr")] },
    body := .Deployment
      { Replicas := some 3, Selector := [("app", "cryostat")], Strategy := "Recreate",
        Template :=
          { Labels := [("app", "old")],
            Spec := { Containers := [⟨"cryostat", "core:0.9", []⟩, ⟨"grafana", "grafana:0.9", []⟩,
              ⟨"jfr-datasource", "datasource:0.9", []⟩] } } } }

/-- A Deployment with the single container of a minimal instance, scaled to three
replicas. -/
def NewStaleDeployment : Obj :=
  { meta := { Name := "cryostat", Namespace := "default" },
    body := .Deployment
      { Replicas := some 3,
        Template := { Spec := { Containers := [⟨"cryostat", "core:0.9", []⟩] } } } }

/-- The example instance with the application URL an earlier pass has written. -/
def NewCryostatWithURL : Obj :=
  { meta := { Name := "cryostat", Namespace := "default" },
    body := .Cryostat { Minimal := false, EnableCertManager := some true }
      { ApplicationURL := "https://cryostat.example.com" } }

/-- The example instance declaring an Ingress without rules for its core Service. -/
def NewCryostatWithBareIngress : Obj :=
  { meta := { Name := "cryostat", Namespace := "default" },
    body := .Cryostat
      { Minimal := false, EnableCertManager := some true,
        NetworkOptions := some { CoreConfig := some { IngressSpec := some {} } } } {} }

/-- A ConsoleLink for the example instance that links to an address of an earlier pass. -/
def NewStaleConsoleLink : Obj :=
  { meta := { Name := "cryostat-default.cryostat" },
    body := .ConsoleLink
      { Text := "Cryostat", Href := "https://old.example.com", Namespaces := ["default"] } }

/-- The example cluster on OpenShift: the instance, its Namespace and the Routes of its
three Services with the hosts the platform has assigned. -/
def NewCluster : Store :=
  [NewCryostat, NewNamespace, NewRoute "cryostat", NewRoute "cryostat-command",
    NewRoute "cryostat-grafana"]

end test

end Cryostat

namespace Cryostat

/-! ## Definitions for the error policy, the ordering and the group annotation -/

/-- The number that a run of ASCII decimal digits denotes, most significant digit first
(the reading of the annotation the specification gives, by positional value). -/
def decimal (ds : List Char) : Nat :=
  Nat.ofDigits 10 (ds.reverse.map (fun c => c.toNat - '0'.toNat))

/-- The call deletes a Deployment. -/
def DeletesDeployment (c : Call) : Prop := c.verb = .Delete ∧ c.key.kind = .Deployment

/-- The failed calls a pass for the instance `name` in `ns` may go on after: a read or a
delete answered with NotFound, and the reads of the existing Deployment and of the Grafana
Service, whose error the minimality step does not look at. -/
def Tolerated (ns name : String) (c : Call) : Prop :=
  (c.err = some .NotFound ∧ (c.verb = .Get ∨ c.verb = .Delete)) ∨
    (c.verb = .Get ∧
      (c.key = ⟨.Deployment, ns, name⟩ ∨ c.key = ⟨.Service, ns, name ++ "-grafana"⟩))

/-- What `Reconcile` returns is the error of the call `c`: a failed delete of the
Deployment comes with the request to be run again after 10 s; every other error comes with
the empty result, unless it equals the sentinel `ErrIngressNotReady`, which is taken for
the sentinel. -/
def Surfaced (ret : Return) (c : Call) : Prop :=
  match c.err with
  | none => False
  | some e =>
    (DeletesDeployment c ∧ ret = ({ Requeue := true, RequeueAfter := Second * 10 }, some e)) ∨
      (¬ DeletesDeployment c ∧
        (ret = ({}, some e) ∨
          (e = ErrIngressNotReady ∧ ret = ({ RequeueAfter := 5 * Second }, none))))

/-- The error `e` a function returns is the error of the call `c`, which is no delete of a
Deployment. -/
def Raised (e : Err) (c : Call) : Prop := c.err = some e ∧ ¬ DeletesDeployment c

/-- The computation `m` only appends to the trace, and a call of `m` that fails, unless
`A` tolerates it, is the last call of `m`, and `m` ends with an error `x` that stands for
the call as `F` says. -/
def Stops {ε α : Type} (A : Call → Prop) (F : ε → Call → Prop) (m : Op ε α) : Prop :=
  ∀ w, ∃ L, (m w).2.log = w.log ++ L ∧
    ∀ pre c post, L = pre ++ c :: post → c.err ≠ none → ¬ A c →
      post = [] ∧ ∃ x, (m w).1 = .error x ∧ F x c

/-- Whenever `m` ends the pass, `P` holds of what it returns and of the world it leaves. -/
def ExitsAs {α : Type} (P : Return → World → Prop) (m : Op Return α) : Prop :=
  ∀ w ret, (m w).1 = .error ret → P ret (m w).2

/-- The result asks for no requeue of its own after 10 s: the flag `Requeue` is not set
and `RequeueAfter` is not 10 s. -/
def NoLongRequeue (ret : Return) : Prop :=
  ret.1.Requeue = false ∧ ret.1.RequeueAfter ≠ Second * 10

/-- The last call in the trace is the delete of the Deployment `name` in `ns`, stored with
a container count that `mismatch` holds of; it failed with an error other than NotFound,
and `ret` is that error with the request to be run again after 10 s. -/
def DeleteFailed (ns name : String) (mismatch : Nat → Bool) (ret : Return) (w : World) : Prop :=
  ∃ c d e, w.log.getLast? = some c ∧ c.verb = .Delete ∧ c.key = ⟨.Deployment, ns, name⟩ ∧
    c.obj = some d ∧ c.err = some e ∧ e.IsNotFound = false ∧
    mismatch d.deploymentSpec.Template.Spec.Containers.length = true ∧
    ret = ({ Requeue := true, RequeueAfter := Second * 10 }, some e)

/-- The last call in the trace, if there is one, is no delete of a Deployment that was
answered NotFound. -/
def GoesOn (w : World) : Prop :=
  ∀ c, w.log.getLast? = some c → ¬ (DeletesDeployment c ∧ c.err = some .NotFound)

/-- No status update has succeeded since entry `n` of the trace, and the status of the
object stored under `key` is `v`. -/
def StatusUntouched (key : Key) (v : Option CryostatStatus) (n : Nat) : World → Prop :=
  Inv n (fun s => (s.get? key).map Obj.Status = v)
    (fun c => c.verb = .StatusUpdate → c.err ≠ none)

/-- Some call issued after the first `n` entries of the trace satisfies `Q`. -/
def Issued (n : Nat) (Q : Call → Prop) (w : World) : Prop := ∃ c ∈ w.log.drop n, Q c

/-- The call deletes the Deployment `d` under `key`, which is what the store holds there
when the call is issued, and the container count of `d` is the one by which the
minimality step tells a stale Deployment: exactly one when `minimal` is false (line 243),
more than one when it is true (line 295). -/
def DeletesStale (key : Key) (minimal : Bool) (c : Call) : Prop :=
  ∃ d, c.verb = .Delete ∧ c.key = key ∧ c.obj = some d ∧ c.before.get? key = some d ∧
    (minimal = false → d.deploymentSpec.Template.Spec.Containers.length = 1) ∧
    (minimal = true → d.deploymentSpec.Template.Spec.Containers.length > 1)

/-- Every call that `m` issues satisfies `Q`. -/
def Issues {ε α : Type} (Q : Call → Prop) (m : Op ε α) : Prop :=
  ∀ n, Keeps (fun w => ∀ c ∈ w.log.drop n, Q c) m

/-- The kinds of the namespaced dependent objects of an instance. -/
def namespacedKinds : List Kind :=
  [.PersistentVolumeClaim, .Secret, .ServiceAccount, .Role, .RoleBinding, .Service, .Route,
    .Ingress, .Deployment]

/-- How a call treats ownership, for the instance `name` in `ns`: a call on a
ClusterRoleBinding or a ConsoleLink, whatever its verb, names the object by the name derived
from `ns` and `name`, without a namespace; and the object of a Create either is such a
cluster-scoped object and has no owner reference, or is of a namespaced dependent kind,
lies in `ns` and has a controller owner reference to the Cryostat `name`. -/
def Owned (r : CryostatReconciler) (ns name : String) (c : Call) : Prop :=
  ((c.key.kind = .ClusterRoleBinding ∨ c.key.kind = .ConsoleLink) →
    c.key.Namespace = "" ∧ c.key.Name = r.resources.ClusterUniqueName ns name) ∧
  (c.verb = .Create → ∃ o, c.obj = some o ∧ o.key = c.key ∧
    (((c.key.kind = .ClusterRoleBinding ∨ c.key.kind = .ConsoleLink) ∧
        o.meta.OwnerReferences = []) ∨
      (c.key.kind ∈ namespacedKinds ∧ o.meta.Namespace = ns ∧
        (⟨.Cryostat, name, true⟩ : OwnerReference) ∈ o.meta.OwnerReferences)))

/-- The stage of the pass in which a call with verb `v` on an object of kind `K` is first
issued: 0 the fetch and the finalizer section (lines 127-173), 1 storage (177-183), 2 the
credential Secrets (185-199), 3 the TLS set-up (201-223, which calls no store), 4 RBAC
(225-229), 5 the Services and their exposure together with the read and the delete of the
existing Deployment (231-317), 6 the workload (319-337), 7 the status update (339-345),
8 the ConsoleLink (347-353). -/
def firstStage (v : Verb) (K : Kind) : Nat :=
  match K, v with
  | .Cryostat, .StatusUpdate => 7
  | .Cryostat, _ => 0
  | .PersistentVolumeClaim, _ => 1
  | .Secret, _ => 2
  | .ServiceAccount, _ => 4
  | .Role, _ => 4
  | .RoleBinding, _ => 4
  | .ClusterRoleBinding, .Delete => 0
  | .ClusterRoleBinding, _ => 4
  | .Service, _ => 5
  | .Route, _ => 5
  | .Ingress, _ => 5
  | .Deployment, .Get => 5
  | .Deployment, .Delete => 5
  | .Deployment, _ => 6
  | .Namespace, _ => 6
  | .ConsoleLink, .Delete => 0
  | .ConsoleLink, _ => 8

/-- The stage of the pass in which such a call is last issued; it differs from
`firstStage` for the read of the Deployment only, which the workload stage issues too. -/
def lastStage (v : Verb) (K : Kind) : Nat :=
  match K, v with
  | .Deployment, .Get => 6
  | _, _ => firstStage v K

/-- No call is issued before a call of an earlier stage: the first stage of the earlier
call is at most the last stage of the later one. -/
def StageOrdered (L : List Call) : Prop :=
  L.Pairwise (fun a b => firstStage a.verb a.key.kind ≤ lastStage b.verb b.key.kind)

/-- The calls after the first `n` entries of the trace are in stage order and none of a
stage after `k`. -/
def Ordered (n k : Nat) (w : World) : Prop :=
  StageOrdered (w.log.drop n) ∧ ∀ c ∈ w.log.drop n, firstStage c.verb c.key.kind ≤ k

/-- The computation `m` issues calls of stage `k` only. -/
def Staged {ε α : Type} (k : Nat) (m : Op ε α) : Prop := ∀ n, Keeps (Ordered n k) m

/-- From calls in stage order up to stage `j`, the computation `m` leaves calls in stage
order up to stage `k`. -/
def Advances {ε α : Type} (j k : Nat) (m : Op ε α) : Prop :=
  ∀ n w, Ordered n j w → Ordered n k (m w).2

/-- The sections of the pass from `w` that belong to the stages before `k` have all
returned without error, each at the world the one before it left. -/
def Reconcile.Passed (r : CryostatReconciler) (request : NamespacedName) (w : World)
    (k : Nat) : Prop :=
  (1 ≤ k → ∃ inst, (Reconcile.toFinalizer r request w).1 = .ok inst) ∧
  (2 ≤ k → ∃ inst, (Reconcile.toFinalizer r request w).1 = .ok inst ∧
    (Reconcile.storage r inst (Reconcile.toFinalizer r request w).2).1 = .ok ()) ∧
  (3 ≤ k → ∃ inst, (Reconcile.toSecrets r request w).1 = .ok inst) ∧
  (4 ≤ k → ∃ inst tls, (Reconcile.toSecrets r request w).1 = .ok inst ∧
    (Reconcile.tls r inst (Reconcile.toSecrets r request w).2).1 = .ok tls) ∧
  (5 ≤ k → ∃ st, (Reconcile.toRBAC r request w).1 = .ok st) ∧
  (6 ≤ k → ∃ st, (Reconcile.toCommand r request w).1 = .ok st) ∧
  (7 ≤ k → ∃ st, (Reconcile.toCommand r request w).1 = .ok st ∧
    (Reconcile.deployment r st.inst st.serviceSpecs st.tlsConfig
      (Reconcile.toCommand r request w).2).1 = .ok ()) ∧
  (8 ≤ k → ∃ st inst2, (Reconcile.toCommand r request w).1 = .ok st ∧
    (Reconcile.status st.inst st.serviceSpecs
      (Reconcile.deployment r st.inst st.serviceSpecs st.tlsConfig
        (Reconcile.toCommand r request w).2).2).1 = .ok inst2)

namespace test

/-- The example `NewNamespaceWithSCCSupGroups`. -/
def NewNamespaceWithSCCSupGroups : Obj :=
  { meta := { Name := "default",
              Annotations := [( SupplementalGroupsAnnotation, "1000130000/10000")] },
    body := .Namespace }

end test

end Cryostat
namespace Cryostat

namespace test

/-- A Route whose ingress entry carries the host given. -/
def NewRouteWithHost (name host : String) : Obj :=
  { meta := { Name := name, Namespace := "default" },
    body := .Route {} { Ingress := [⟨host⟩] } }

/-- The example cluster on OpenShift with the core Route reporting the host given. -/
def NewClusterWithHost (host : String) : Store :=
  [NewCryostat, NewNamespace, NewRouteWithHost "cryostat" host, NewRoute "cryostat-command",
    NewRoute "cryostat-grafana"]

/-- A client that decodes the answer of the server into the object handed over: the owner
references of that object stay when the stored object has none, and on a Deployment the
labels of its pod template that the stored one lacks stay too. -/
def mergeInto (stored obj : Obj) : Obj :=
  { meta := { stored.meta with
              OwnerReferences :=
                if stored.meta.OwnerReferences = [] then obj.meta.OwnerReferences
                else stored.meta.OwnerReferences },
    body :=
      match stored.body with
      | .Deployment s =>
        .Deployment { s with
          Template := { s.Template with
            Labels := s.Template.Labels ++ obj.deploymentSpec.Template.Labels.filter
              (fun l => !(s.Template.Labels.map Prod.fst).contains l.1) } }
      | b => b }

end test

end Cryostat

namespace Cryostat

/-! ## Running computations -/

theorem run_pure {ε α : Type} (a : α) (w : World) : (pure a : Op ε α) w = (.ok a, w) := rfl

theorem run_bind {ε α β : Type} (m : Op ε α) (f : α → Op ε β) (w : World) :
    (m >>= f) w = match (m w).1 with
      | .ok a => f a (m w).2
      | .error e => (.error e, (m w).2) := rfl

theorem run_fail {ε α : Type} (e : ε) (w : World) : (Op.fail e : Op ε α) w = (.error e, w) := rfl

theorem run_attempt {ε ε2 α : Type} (m : Op ε α) (w : World) :
    (Op.attempt m : Op ε2 (Except ε α)) w = (.ok (m w).1, (m w).2) := rfl

theorem run_ofExcept {ε α : Type} (x : Except ε α) (w : World) :
    (Op.ofExcept x : Op ε α) w = (x, w) := rfl

theorem run_orReturn {α : Type} (m : Op Err α) (w : World) :
    orReturn m w = match (m w).1 with
      | .ok a => (.ok a, (m w).2)
      | .error e => (.error ({}, some e), (m w).2) := rfl

/-! ## The client calls -/

theorem Client.call_log {α : Type} (verb : Verb) (key : Key) (obj : Option Obj)
    (sem : Store → Except Err (α × Store)) (w : World) :
    (Client.call verb key obj sem w).2.log
      = w.log ++ [⟨verb, key, obj, errOf (Client.call verb key obj sem w).1, w.objs⟩] := by
  unfold Client.call
  cases h : w.injected <;> simp only [h]
  · cases h2 : sem w.objs with
    | ok v => obtain ⟨a, s⟩ := v; simp [errOf]
    | error e => simp [errOf]
  · simp [errOf]

theorem Client.call_faults {α : Type} (verb : Verb) (key : Key) (obj : Option Obj)
    (sem : Store → Except Err (α × Store)) (w : World) :
    (Client.call verb key obj sem w).2.faults = w.faults.tail := by
  unfold Client.call
  cases h : w.injected <;> simp only [h]
  cases h2 : sem w.objs with
  | ok v => obtain ⟨a, s⟩ := v; simp
  | error e => simp

theorem Client.call_objs_of_error {α : Type} (verb : Verb) (key : Key) (obj : Option Obj)
    (sem : Store → Except Err (α × Store)) (w : World) (e : Err)
    (h : (Client.call verb key obj sem w).1 = .error e) :
    (Client.call verb key obj sem w).2.objs = w.objs := by
  unfold Client.call at h ⊢
  cases hi : w.injected <;> simp only [hi] at h ⊢
  cases h2 : sem w.objs with
  | ok v => obtain ⟨a, s⟩ := v; simp [h2] at h
  | error e => simp

/-- A call that succeeds was answered by the store and leaves the store `sem` computes. -/
theorem Client.call_ok {α : Type} (verb : Verb) (key : Key) (obj : Option Obj)
    (sem : Store → Except Err (α × Store)) (w : World) (a : α)
    (h : (Client.call verb key obj sem w).1 = .ok a) :
    w.injected = none ∧ sem w.objs = .ok (a, (Client.call verb key obj sem w).2.objs) := by
  unfold Client.call at h ⊢
  cases hi : w.injected <;> simp only [hi] at h ⊢
  · cases h2 : sem w.objs with
    | ok v =>
      obtain ⟨b, s⟩ := v
      simp only [h2] at h ⊢
      simp only [Except.ok.injEq] at h
      simp [h]
    | error e => simp [h2] at h
  · simp at h

/-- Without an injected answer the store's own answer is returned. -/
theorem Client.call_of_not_injected {α : Type} (verb : Verb) (key : Key) (obj : Option Obj)
    (sem : Store → Except Err (α × Store)) (w : World) (hi : w.injected = none) :
    (Client.call verb key obj sem w).1 = (sem w.objs).map Prod.fst ∧
    (Client.call verb key obj sem w).2.objs
      = (match sem w.objs with
        | .ok v => v.2
        | .error _ => w.objs) := by
  unfold Client.call
  simp only [hi]
  cases h2 : sem w.objs with
  | ok v => obtain ⟨b, s⟩ := v; simp [Except.map]
  | error e => simp [Except.map]

theorem Client.Get_objs (key : Key) (w : World) : (Client.Get key w).2.objs = w.objs := by
  unfold Client.Get Client.call
  cases hi : w.injected <;> simp only [hi]
  cases h2 : w.objs.get? key <;> simp

theorem Store.get?_key (s : Store) (k : Key) (o : Obj) (h : s.get? k = some o) : o.key = k := by
  unfold Store.get? at h
  have := List.find?_some h
  simpa using this

/-- A read that succeeds returns the stored object, whose key is the one asked for. -/
theorem Client.Get_ok (key : Key) (w : World) (o : Obj) (h : (Client.Get key w).1 = .ok o) :
    w.objs.get? key = some o ∧ o.key = key := by
  have h1 := (Client.call_ok _ _ _ _ w o h).2
  cases hg : w.objs.get? key with
  | none => simp [hg] at h1
  | some o2 =>
    simp only [hg, Except.ok.injEq, Prod.mk.injEq] at h1
    rw [h1.1]
    exact ⟨rfl, h1.1 ▸ Store.get?_key _ _ _ hg⟩

end Cryostat

namespace Cryostat

/-! ## Reads into an object that is not empty -/

theorem Obj.readInto_key (dec : Obj → Obj → Obj) (stored obj : Obj) :
    (Obj.readInto dec stored obj).key = stored.key := by
  unfold Obj.readInto Obj.key
  cases stored with
  | mk m body => cases body <;> rfl

/-- A client whose `Get` overwrites the object leaves the stored object in it. -/
theorem Obj.readInto_of_overwrite (dec : Obj → Obj → Obj) (stored obj : Obj)
    (h : dec stored obj = stored) : Obj.readInto dec stored obj = stored := by
  unfold Obj.readInto
  rw [h]
  cases stored with
  | mk m body => cases body <;> rfl

theorem Obj.readInto_routeIngress (dec : Obj → Obj → Obj) (stored obj : Obj) :
    (Obj.readInto dec stored obj).routeIngress = stored.routeIngress := by
  unfold Obj.readInto Obj.routeIngress
  cases stored with
  | mk m body => cases body <;> rfl

theorem Obj.readInto_podSpec (dec : Obj → Obj → Obj) (stored obj : Obj) :
    (Obj.readInto dec stored obj).deploymentSpec.Template.Spec
      = stored.deploymentSpec.Template.Spec := by
  unfold Obj.readInto Obj.deploymentSpec
  cases stored with
  | mk m body => cases body <;> rfl

/-- What is read into the object is left alone by the assignment of a Route spec exactly
when the stored object is. -/
theorem Obj.readInto_setRouteSpec (dec : Obj → Obj → Obj) (stored obj : Obj)
    (spec : RouteSpec) :
    (Obj.readInto dec stored obj).setRouteSpec spec = Obj.readInto dec stored obj ↔
      stored.setRouteSpec spec = stored := by
  unfold Obj.readInto Obj.setRouteSpec
  cases stored with
  | mk m body => cases body <;> simp

/-- What is read into the object is left alone by the assignment of a pod spec exactly
when the stored object is. -/
theorem Obj.readInto_setPodSpec (dec : Obj → Obj → Obj) (stored obj : Obj)
    (podSpec : PodSpec) :
    (Obj.readInto dec stored obj).setPodSpec podSpec = Obj.readInto dec stored obj ↔
      stored.setPodSpec podSpec = stored := by
  unfold Obj.readInto Obj.setPodSpec
  cases stored with
  | mk m body =>
    cases body <;> simp
    case Deployment s =>
      constructor
      · intro h
        rw [h]
      · intro h
        have h2 := congrArg (fun d : DeploymentSpec => d.Template.Spec) h
        exact h2

theorem Client.call_decodeInto {α : Type} (verb : Verb) (key : Key) (obj : Option Obj)
    (sem : Store → Except Err (α × Store)) (w : World) :
    (Client.call verb key obj sem w).2.decodeInto = w.decodeInto := by
  unfold Client.call
  cases h : w.injected <;> simp only [h]
  cases h2 : sem w.objs with
  | ok v => obtain ⟨a, s⟩ := v; rfl
  | error e => rfl

/-- No call changes how the client decodes. -/
theorem respects_decodeInto (T : List Touch) (D : Obj → Obj → Obj) :
    Respects T (fun w => w.decodeInto = D) :=
  ⟨fun _ w h => (Client.call_decodeInto _ _ _ _ w).trans h,
    fun _ _ w h => (Client.call_decodeInto _ _ _ _ w).trans h,
    fun _ _ w h => (Client.call_decodeInto _ _ _ _ w).trans h,
    fun _ _ w h => (Client.call_decodeInto _ _ _ _ w).trans h,
    fun _ _ w h => (Client.call_decodeInto _ _ _ _ w).trans h⟩

theorem Client.GetInto_world (obj : Obj) (w : World) :
    (Client.GetInto obj w).2 = (Client.Get obj.key w).2 := by
  unfold Client.GetInto
  split <;> rfl

theorem Client.GetInto_of_ok (obj : Obj) (w : World) (stored : Obj)
    (h : (Client.Get obj.key w).1 = .ok stored) :
    (Client.GetInto obj w).1 = .ok (Obj.readInto w.decodeInto stored obj) := by
  unfold Client.GetInto
  rw [h]

theorem Client.GetInto_of_error (obj : Obj) (w : World) (e : Err)
    (h : (Client.Get obj.key w).1 = .error e) : (Client.GetInto obj w).1 = .error e := by
  unfold Client.GetInto
  rw [h]

theorem Client.GetInto_errOf (obj : Obj) (w : World) :
    errOf (Client.GetInto obj w).1 = errOf (Client.Get obj.key w).1 := by
  cases hg : (Client.Get obj.key w).1 with
  | ok stored => rw [Client.GetInto_of_ok obj w stored hg]; rfl
  | error e => rw [Client.GetInto_of_error obj w e hg]

/-- A read into an object that succeeds leaves in it what `Obj.readInto` makes of the
stored object, under the key asked for. -/
theorem Client.GetInto_ok (obj : Obj) (w : World) (o : Obj)
    (h : (Client.GetInto obj w).1 = .ok o) :
    ∃ stored, (Client.Get obj.key w).1 = .ok stored ∧ w.objs.get? obj.key = some stored ∧
      o = Obj.readInto w.decodeInto stored obj ∧ o.key = obj.key := by
  cases hg : (Client.Get obj.key w).1 with
  | error e => rw [Client.GetInto_of_error obj w e hg] at h; cases h
  | ok stored =>
    rw [Client.GetInto_of_ok obj w stored hg] at h
    simp only [Except.ok.injEq] at h
    obtain ⟨h1, h2⟩ := Client.Get_ok _ _ _ hg
    exact ⟨stored, rfl, h1, h.symm, by rw [← h, Obj.readInto_key, h2]⟩

theorem Client.GetInto_error (obj : Obj) (w : World) (e : Err)
    (h : (Client.GetInto obj w).1 = .error e) : (Client.Get obj.key w).1 = .error e := by
  cases hg : (Client.Get obj.key w).1 with
  | error e2 => rw [Client.GetInto_of_error obj w e2 hg] at h; exact h
  | ok stored => rw [Client.GetInto_of_ok obj w stored hg] at h; cases h

/-- A read into an object keeps what the read of its key keeps. -/
theorem Client.GetInto_keeps {I : World → Prop} (obj : Obj) (h : Keeps I (Client.Get obj.key)) :
    Keeps I (Client.GetInto obj) := by
  intro w hw
  rw [Client.GetInto_world]
  exact h w hw

/-- One run of `controllerutil.CreateOrUpdate`, with the read of the key and what the
decoding of that world leaves in the object. -/
theorem CreateOrUpdate_run (obj : Obj) (f : Obj → Obj) (w : World) :
    CreateOrUpdate obj f w
      = (Op.attempt (Client.Get obj.key) >>= fun res =>
          (match res with
          | .error err =>
            if err.IsNotFound then
              (Client.Create (f obj) >>= fun _ => pure (OperationResult.Created, f obj))
            else Op.fail err
          | .ok stored =>
            if Obj.readInto w.decodeInto stored obj = f (Obj.readInto w.decodeInto stored obj)
            then pure (OperationResult.None, Obj.readInto w.decodeInto stored obj)
            else
              (Client.Update (f (Obj.readInto w.decodeInto stored obj)) >>= fun _ =>
                pure (OperationResult.Updated, f (Obj.readInto w.decodeInto stored obj))) :
            Op Err (OperationResult × Obj))) w := by
  unfold CreateOrUpdate
  rw [run_bind, run_attempt, run_bind, run_attempt]
  simp only
  cases hg : (Client.Get obj.key w).1 with
  | error e => rw [Client.GetInto_of_error obj w e hg, Client.GetInto_world]
  | ok stored => rw [Client.GetInto_of_ok obj w stored hg, Client.GetInto_world]

theorem Client.GetInto_objs (obj : Obj) (w : World) : (Client.GetInto obj w).2.objs = w.objs := by
  rw [Client.GetInto_world]; exact Client.Get_objs _ w

end Cryostat

namespace Cryostat

/-! ## Invariants through the control structure -/

theorem keeps_pure {ε α : Type} {I : World → Prop} (a : α) : Keeps I (pure a : Op ε α) :=
  fun _ h => h

theorem keeps_fail {ε α : Type} {I : World → Prop} (e : ε) : Keeps I (Op.fail e : Op ε α) :=
  fun _ h => h

theorem keeps_ofExcept {ε α : Type} {I : World → Prop} (x : Except ε α) :
    Keeps I (Op.ofExcept x : Op ε α) :=
  fun _ h => h

theorem keeps_bind {ε α β : Type} {I : World → Prop} {m : Op ε α} {f : α → Op ε β}
    (hm : Keeps I m) (hf : ∀ a, Keeps I (f a)) : Keeps I (m >>= f) := by
  intro w hw
  rw [run_bind]
  split
  · exact hf _ _ (hm w hw)
  · exact hm w hw

theorem keeps_attempt {ε ε2 α : Type} {I : World → Prop} {m : Op ε α} (hm : Keeps I m) :
    Keeps I (Op.attempt m : Op ε2 (Except ε α)) :=
  fun w hw => hm w hw

theorem keeps_orReturn {α : Type} {I : World → Prop} {m : Op Err α} (hm : Keeps I m) :
    Keeps I (orReturn m) := by
  intro w hw
  rw [run_orReturn]
  split <;> exact hm w hw

/-- After a read handed on as a value, the continuation may rely on the key of what was read. -/
theorem keeps_bind_get {ε β : Type} {I : World → Prop} (k : Key) {f : Except Err Obj → Op ε β}
    (hG : Keeps I (Client.Get k))
    (hf : ∀ res, (∀ o, res = .ok o → o.key = k) → Keeps I (f res)) :
    Keeps I (Op.attempt (Client.Get k) >>= f) := by
  intro w hw
  rw [run_bind, run_attempt]
  exact hf _ (fun o ho => (Client.Get_ok k w o ho).2) _ (hG w hw)

/-- After a read into an object handed on as a value, the continuation may rely on the key
of what was read. -/
theorem keeps_bind_getInto {ε β : Type} {I : World → Prop} (obj : Obj)
    {f : Except Err Obj → Op ε β} (hG : Keeps I (Client.Get obj.key))
    (hf : ∀ res, (∀ o, res = .ok o → o.key = obj.key) → Keeps I (f res)) :
    Keeps I (Op.attempt (Client.GetInto obj) >>= f) := by
  intro w hw
  rw [run_bind, run_attempt]
  exact hf _ (fun o ho => (Client.GetInto_ok obj w o ho).choose_spec.2.2.2) _
    (Client.GetInto_keeps obj hG w hw)

theorem keeps_and {ε α : Type} {I J : World → Prop} {m : Op ε α}
    (hI : Keeps I m) (hJ : Keeps J m) : Keeps (fun w => I w ∧ J w) m :=
  fun w h => ⟨hI w h.1, hJ w h.2⟩

theorem Respects.mono {T U : List Touch} {I : World → Prop} (h : Respects T I)
    (hUT : ∀ t ∈ U, t ∈ T) : Respects U I :=
  ⟨h.get, fun o ho => h.create o (hUT _ ho), fun o ho => h.update o (hUT _ ho),
    fun o ho => h.delete o (hUT _ ho), fun o ho => h.status o (hUT _ ho)⟩

theorem Respects.and {T : List Touch} {I J : World → Prop} (hI : Respects T I)
    (hJ : Respects T J) : Respects T (fun w => I w ∧ J w) :=
  ⟨fun k => keeps_and (hI.get k) (hJ.get k), fun o ho => keeps_and (hI.create o ho) (hJ.create o ho),
    fun o ho => keeps_and (hI.update o ho) (hJ.update o ho),
    fun o ho => keeps_and (hI.delete o ho) (hJ.delete o ho),
    fun o ho => keeps_and (hI.status o ho) (hJ.status o ho)⟩

/-! ## Library functions and helpers keep what their calls keep -/

theorem SetControllerReference_meta (owner object o : Obj)
    (h : SetControllerReference owner object = .ok o) :
    o.meta.Name = object.meta.Name ∧ o.meta.Namespace = object.meta.Namespace ∧
    o.body = object.body := by
  unfold SetControllerReference at h
  split at h
  · cases h
  · split at h
    · cases h
    · split at h
      · cases h
      · simp only [Except.ok.injEq] at h
        subst h
        exact ⟨rfl, rfl, rfl⟩

theorem SetControllerReference_key (owner object o : Obj)
    (h : SetControllerReference owner object = .ok o) : o.key = object.key := by
  obtain ⟨h1, h2, h3⟩ := SetControllerReference_meta owner object o h
  simp [Obj.key, h1, h2, h3]

theorem createObjectIfNotExists_keeps {T : List Touch} {I : World → Prop} (hR : Respects T I)
    (ns : NamespacedName) (found : Kind) (toCreate : Obj)
    (hT : (Verb.Create, toCreate.key) ∈ T) :
    Keeps I (createObjectIfNotExists ns found toCreate) := by
  unfold createObjectIfNotExists
  apply keeps_bind (keeps_attempt (hR.get _))
  intro res
  split
  · split
    · exact hR.create _ hT
    · exact keeps_fail _
  · exact keeps_pure _

theorem CreateOrUpdate_keeps {T : List Touch} {I : World → Prop} (hR : Respects T I)
    (obj : Obj) (f : Obj → Obj) (hf : ∀ o, (f o).key = o.key)
    (hC : (Verb.Create, obj.key) ∈ T) (hU : (Verb.Update, obj.key) ∈ T) :
    Keeps I (CreateOrUpdate obj f) := by
  unfold CreateOrUpdate
  apply keeps_bind_getInto _ (hR.get _)
  intro res hres
  split
  · split
    · apply keeps_bind (hR.create _ (by rw [hf]; exact hC))
      intro _
      exact keeps_pure _
    · exact keeps_fail _
  · rename_i existing
    split
    · exact keeps_pure _
    · apply keeps_bind (hR.update _ (by rw [hf, hres existing rfl]; exact hU))
      intro _
      exact keeps_pure _

end Cryostat

namespace Cryostat

theorem keeps_bind_ofExcept {ε α β : Type} {I : World → Prop} {x : Except ε α} {f : α → Op ε β}
    (hf : ∀ a, x = .ok a → Keeps I (f a)) : Keeps I (Op.ofExcept x >>= f) := by
  intro w hw
  rw [run_bind, run_ofExcept]
  cases x with
  | ok a => exact hf a rfl w hw
  | error e => exact hw

theorem keeps_bind_orReturn_ofExcept {α β : Type} {I : World → Prop} {x : Except Err α}
    {f : α → Op Return β} (hf : ∀ a, x = .ok a → Keeps I (f a)) :
    Keeps I (orReturn (Op.ofExcept x) >>= f) := by
  intro w hw
  rw [run_bind, run_orReturn, run_ofExcept]
  cases x with
  | ok a => exact hf a rfl w hw
  | error e => exact hw

theorem createRBAC_keeps {I : World → Prop} (r : CryostatReconciler) (cr : Obj)
    (hR : Respects (createRBACTouches r cr.meta.Namespace cr.meta.Name) I) :
    Keeps I (createRBAC r cr) := by
  unfold createRBAC
  apply keeps_bind_ofExcept; intro sa h1
  apply keeps_bind (createObjectIfNotExists_keeps hR _ _ _ (by
    rw [SetControllerReference_key _ _ _ h1]
    simp [createRBACTouches, NewServiceAccountForCR, Obj.key, Body.kind])); intro _
  apply keeps_bind_ofExcept; intro role h2
  apply keeps_bind (createObjectIfNotExists_keeps hR _ _ _ (by
    rw [SetControllerReference_key _ _ _ h2]
    simp [createRBACTouches, NewRoleForCR, Obj.key, Body.kind])); intro _
  apply keeps_bind_ofExcept; intro binding h3
  apply keeps_bind (createObjectIfNotExists_keeps hR _ _ _ (by
    rw [SetControllerReference_key _ _ _ h3]
    simp [createRBACTouches, NewRoleBindingForCR, Obj.key, Body.kind])); intro _
  exact createObjectIfNotExists_keeps hR _ _ _ (by
    simp [createRBACTouches, NewClusterRoleBindingForCR, Obj.key, Body.kind])

theorem Obj.setRouteSpec_key (o : Obj) (spec : RouteSpec) : (o.setRouteSpec spec).key = o.key := by
  unfold Obj.setRouteSpec
  split
  · rename_i h; simp [Obj.key, h, Body.kind]
  · rfl

theorem Obj.setPodSpec_key (o : Obj) (p : PodSpec) : (o.setPodSpec p).key = o.key := by
  unfold Obj.setPodSpec
  split
  · rename_i h; simp [Obj.key, h, Body.kind]
  · rfl

theorem createRouteForService_keeps {I : World → Prop} {T : List Touch} (hR : Respects T I)
    (cr svc : Obj) (exposePort : ServicePort) (tlsConfig : Option TLSConfig)
    (hC : (Verb.Create, ⟨.Route, svc.meta.Namespace, svc.meta.Name⟩) ∈ T)
    (hU : (Verb.Update, ⟨.Route, svc.meta.Namespace, svc.meta.Name⟩) ∈ T) :
    Keeps I (createRouteForService cr svc exposePort tlsConfig) := by
  unfold createRouteForService
  apply keeps_bind_ofExcept; intro route h1
  have hk : route.key = ⟨.Route, svc.meta.Namespace, svc.meta.Name⟩ := by
    rw [SetControllerReference_key _ _ _ h1]; rfl
  apply keeps_bind (CreateOrUpdate_keeps hR _ _ (fun o => Obj.setRouteSpec_key o _)
    (by rw [hk]; exact hC) (by rw [hk]; exact hU))
  intro res
  split
  split
  · exact keeps_fail _
  · exact keeps_pure _

theorem createIngressForService_keeps {I : World → Prop} {T : List Touch} (hR : Respects T I)
    (controller svc : Obj) (networkConfig : NetworkConfiguration)
    (hC : (Verb.Create, ⟨.Ingress, svc.meta.Namespace, svc.meta.Name⟩) ∈ T) :
    Keeps I (createIngressForService controller svc networkConfig) := by
  unfold createIngressForService
  split
  · exact keeps_fail _
  · apply keeps_bind_ofExcept; intro ingress h1
    have hk : ingress.key = ⟨.Ingress, svc.meta.Namespace, svc.meta.Name⟩ := by
      rw [SetControllerReference_key _ _ _ h1]; rfl
    apply keeps_bind (keeps_attempt (hR.get _)); intro res
    apply keeps_bind
    · split
      · split
        · exact hR.create _ (by rw [hk]; exact hC)
        · exact keeps_fail _
      · exact keeps_pure _
    · intro _
      apply keeps_bind
      · split
        · exact keeps_pure _
        · exact keeps_fail _
        · exact keeps_pure _
      · intro _; exact keeps_pure _

theorem createService_keeps {I : World → Prop} (r : CryostatReconciler) (controller svc : Obj)
    (exposePort : ServicePort) (tlsConfig : Option TLSConfig)
    (hR : Respects (createServiceTouches r svc.meta.Namespace svc.meta.Name) I)
    (hk : svc.body.kind = .Service) :
    Keeps I (createService r controller svc exposePort tlsConfig) := by
  unfold createService
  apply keeps_bind_ofExcept; intro svc2 h1
  obtain ⟨m1, m2, m3⟩ := SetControllerReference_meta _ _ _ h1
  apply keeps_bind (createObjectIfNotExists_keeps hR _ _ _ (by
    simp [createServiceTouches, Obj.key, m1, m2, m3, hk])); intro _
  split
  · rename_i hos
    exact createRouteForService_keeps hR _ _ _ _
      (by simp [createServiceTouches, hos, m1, m2]) (by simp [createServiceTouches, hos, m1, m2])
  · rename_i hos
    split
    · exact keeps_pure _
    · apply keeps_bind_ofExcept; intro nc _
      split
      · exact keeps_pure _
      · split
        · exact keeps_pure _
        · exact createIngressForService_keeps hR _ _ _
            (by simp [createServiceTouches, hos, m1, m2])

theorem getFSGroup_keeps {I : World → Prop} {T : List Touch} (hR : Respects T I)
    (r : CryostatReconciler) (ns : String) : Keeps I (getFSGroup r ns) := by
  unfold getFSGroup
  split
  · apply keeps_bind (hR.get _); intro nsObj
    split
    · exact keeps_ofExcept _
    · exact keeps_pure _
  · exact keeps_pure _

theorem Reconcile.deleteDeployment_keeps {I : World → Prop} (inst : Obj) (mismatch : Nat → Bool)
    (hR : Respects (deleteDeploymentTouches inst.meta.Namespace inst.meta.Name) I) :
    Keeps I (Reconcile.deleteDeployment inst mismatch) := by
  unfold Reconcile.deleteDeployment
  apply keeps_bind_get _ (hR.get _)
  intro res hres
  split
  · rename_i deployment
    split
    · apply keeps_bind (keeps_attempt (hR.delete _ (by
        rw [hres deployment rfl]; simp [deleteDeploymentTouches]))); intro del
      split
      · split
        · exact keeps_fail _
        · exact keeps_pure _
      · exact keeps_pure _
    · exact keeps_pure _
  · exact keeps_pure _

theorem Reconcile.deleteExposure_keeps {I : World → Prop} {T : List Touch} (hR : Respects T I)
    (kind : Kind) (svc : Obj)
    (hD : (Verb.Delete, ⟨kind, svc.meta.Namespace, svc.meta.Name⟩) ∈ T) :
    Keeps I (Reconcile.deleteExposure kind svc) := by
  unfold Reconcile.deleteExposure
  apply keeps_bind_get _ (hR.get _)
  intro res hres
  split
  · split
    · exact keeps_fail _
    · exact keeps_pure _
  · rename_i exposure
    apply keeps_bind (keeps_attempt (hR.delete _ (by rw [hres exposure rfl]; exact hD))); intro del
    split
    · split
      · exact keeps_fail _
      · exact keeps_pure _
    · exact keeps_pure _

theorem Reconcile.deleteGrafanaService_keeps {I : World → Prop} {T : List Touch}
    (hR : Respects T I) (svc : Obj)
    (hD : (Verb.Delete, ⟨.Service, svc.meta.Namespace, svc.meta.Name⟩) ∈ T) :
    Keeps I (Reconcile.deleteGrafanaService svc) := by
  unfold Reconcile.deleteGrafanaService
  apply keeps_bind_get _ (hR.get _)
  intro res hres
  split
  · rename_i found
    apply keeps_bind (keeps_attempt (hR.delete _ (by rw [hres found rfl]; exact hD))); intro del
    split
    · split
      · exact keeps_fail _
      · exact keeps_pure _
    · exact keeps_pure _
  · exact keeps_pure _

end Cryostat

namespace Cryostat

/-! ## The sections of `Reconcile` keep what their footprint keeps -/

theorem Reconcile.storage_keeps {I : World → Prop} (r : CryostatReconciler) (inst : Obj)
    (hR : Respects (storageTouches inst.meta.Namespace inst.meta.Name) I) :
    Keeps I (Reconcile.storage r inst) := by
  unfold Reconcile.storage
  apply keeps_bind_orReturn_ofExcept; intro pvc h1
  exact keeps_orReturn (createObjectIfNotExists_keeps hR _ _ _ (by
    rw [SetControllerReference_key _ _ _ h1]
    simp [storageTouches, NewPersistentVolumeClaimForCR, Obj.key, Body.kind]))

theorem Reconcile.secrets_keeps {I : World → Prop} (r : CryostatReconciler) (inst : Obj)
    (hR : Respects (secretsTouches inst.meta.Namespace inst.meta.Name) I) :
    Keeps I (Reconcile.secrets r inst) := by
  unfold Reconcile.secrets
  apply keeps_bind_orReturn_ofExcept; intro s1 h1
  apply keeps_bind (keeps_orReturn (createObjectIfNotExists_keeps hR _ _ _ (by
    rw [SetControllerReference_key _ _ _ h1]
    simp [secretsTouches, NewGrafanaSecretForCR, Obj.key, Body.kind]))); intro _
  apply keeps_bind_orReturn_ofExcept; intro s2 h2
  exact keeps_orReturn (createObjectIfNotExists_keeps hR _ _ _ (by
    rw [SetControllerReference_key _ _ _ h2]
    simp [secretsTouches, NewJmxSecretForCR, Obj.key, Body.kind]))

theorem Reconcile.tls_keeps {I : World → Prop} (r : CryostatReconciler) (inst : Obj) :
    Keeps I (Reconcile.tls r inst) := by
  unfold Reconcile.tls
  split
  · split
    · split
      · exact keeps_fail _
      · exact keeps_fail _
    · split
      · exact keeps_fail _
      · exact keeps_pure _
  · exact keeps_pure _

theorem Reconcile.rbac_keeps {I : World → Prop} (r : CryostatReconciler) (inst : Obj)
    (hR : Respects (createRBACTouches r inst.meta.Namespace inst.meta.Name) I) :
    Keeps I (Reconcile.rbac r inst) :=
  keeps_orReturn (createRBAC_keeps r inst hR)

theorem grafanaTouches_false (r : CryostatReconciler) (ns name : String) :
    grafanaTouches r ns name false
      = createServiceTouches r ns (name ++ "-grafana") ++ deleteDeploymentTouches ns name := rfl

theorem grafanaTouches_true (r : CryostatReconciler) (ns name : String) :
    grafanaTouches r ns name true
      = [(.Delete, ⟨if r.IsOpenShift then .Route else .Ingress, ns, name ++ "-grafana"⟩),
          (.Delete, ⟨.Service, ns, name ++ "-grafana"⟩)] ++ deleteDeploymentTouches ns name := rfl

theorem Reconcile.grafana_keeps {I : World → Prop} (r : CryostatReconciler) (inst : Obj)
    (routeTLS : Option TLSConfig)
    (hR : Respects (grafanaTouches r inst.meta.Namespace inst.meta.Name inst.Spec.Minimal) I) :
    Keeps I (Reconcile.grafana r inst routeTLS) := by
  unfold Reconcile.grafana
  split
  · rename_i hmin
    have hmin2 : inst.Spec.Minimal = false := by simpa using hmin
    rw [hmin2, grafanaTouches_false] at hR
    apply keeps_bind (keeps_attempt (createService_keeps r inst (NewGrafanaService r.resources inst)
      _ _ (hR.mono (fun t ht => List.mem_append_left _ ht)) rfl)); intro res
    split
    · exact keeps_fail _
    · apply keeps_bind (Reconcile.deleteDeployment_keeps inst _
        (hR.mono (fun t ht => List.mem_append_right _ ht))); intro _
      exact keeps_pure _
  · rename_i hmin
    have hmin2 : inst.Spec.Minimal = true := by simpa using hmin
    rw [hmin2, grafanaTouches_true] at hR
    apply keeps_bind (Reconcile.deleteExposure_keeps hR _ _ (by
      simp [NewGrafanaService, NewService])); intro _
    apply keeps_bind (Reconcile.deleteGrafanaService_keeps hR _ (by
      simp [NewGrafanaService, NewService])); intro _
    apply keeps_bind (Reconcile.deleteDeployment_keeps inst _
      (hR.mono (fun t ht => List.mem_append_right _ ht))); intro _
    exact keeps_pure _

theorem Reconcile.core_keeps {I : World → Prop} (r : CryostatReconciler) (inst : Obj)
    (routeTLS : Option TLSConfig)
    (hR : Respects (createServiceTouches r inst.meta.Namespace inst.meta.Name) I) :
    Keeps I (Reconcile.core r inst routeTLS) := by
  unfold Reconcile.core
  apply keeps_bind (keeps_attempt (createService_keeps r inst (NewExporterService r.resources inst)
    _ _ hR rfl)); intro res
  split
  · exact keeps_fail _
  · exact keeps_pure _

theorem Reconcile.command_keeps {I : World → Prop} (r : CryostatReconciler) (inst : Obj)
    (routeTLS : Option TLSConfig)
    (hR : Respects (createServiceTouches r inst.meta.Namespace (inst.meta.Name ++ "-command")) I) :
    Keeps I (Reconcile.command r inst routeTLS) := by
  unfold Reconcile.command
  apply keeps_bind (keeps_attempt (createService_keeps r inst
    (NewCommandChannelService r.resources inst) _ _ hR rfl)); intro res
  split
  · exact keeps_fail _
  · exact keeps_pure _

theorem Reconcile.deployment_keeps {I : World → Prop} (r : CryostatReconciler) (inst : Obj)
    (serviceSpecs : ServiceSpecs) (tlsConfig : Option ResourcesTLSConfig)
    (hR : Respects (deploymentTouches inst.meta.Namespace inst.meta.Name) I) :
    Keeps I (Reconcile.deployment r inst serviceSpecs tlsConfig) := by
  unfold Reconcile.deployment
  apply keeps_bind (keeps_orReturn (getFSGroup_keeps hR r _)); intro fsGroup
  simp only []
  apply keeps_bind_orReturn_ofExcept; intro deployment h1
  have hk : deployment.key = ⟨.Deployment, inst.meta.Namespace, inst.meta.Name⟩ := by
    rw [SetControllerReference_key _ _ _ h1]; rfl
  apply keeps_bind (keeps_orReturn (CreateOrUpdate_keeps hR _ _
    (fun o => Obj.setPodSpec_key o _) (by rw [hk]; simp [deploymentTouches])
    (by rw [hk]; simp [deploymentTouches]))); intro _
  exact keeps_pure _

theorem Obj.setApplicationURL_meta (o : Obj) (url : String) :
    (o.setApplicationURL url).meta = o.meta := by
  unfold Obj.setApplicationURL
  split <;> rfl

theorem Obj.setApplicationURL_key (o : Obj) (url : String) :
    (o.setApplicationURL url).key = o.key := by
  unfold Obj.setApplicationURL
  split
  · rename_i h; simp [Obj.key, h, Body.kind]
  · rfl

theorem Obj.setApplicationURL_Spec (o : Obj) (url : String) :
    (o.setApplicationURL url).Spec = o.Spec := by
  unfold Obj.setApplicationURL
  split
  · rename_i h; simp [Obj.Spec, h]
  · rfl

theorem Reconcile.status_keeps {I : World → Prop} (inst : Obj) (serviceSpecs : ServiceSpecs)
    (hk : inst.body.kind = .Cryostat)
    (hR : Respects (statusTouches inst.meta.Namespace inst.meta.Name) I) :
    Keeps I (Reconcile.status inst serviceSpecs) := by
  unfold Reconcile.status
  split
  · apply keeps_bind (keeps_orReturn (hR.status _ (by
      rw [Obj.setApplicationURL_key]; simp [statusTouches, Obj.key, hk]))); intro _
    exact keeps_pure _
  · exact keeps_pure _

theorem Reconcile.consoleLink_keeps {I : World → Prop} (r : CryostatReconciler) (inst : Obj)
    (serviceSpecs : ServiceSpecs)
    (hR : Respects (consoleLinkTouches r inst.meta.Namespace inst.meta.Name) I) :
    Keeps I (Reconcile.consoleLink r inst serviceSpecs) := by
  unfold Reconcile.consoleLink
  split
  · rename_i hos
    split
    · exact keeps_fail _
    · exact keeps_orReturn (createObjectIfNotExists_keeps hR _ _ _ (by
        simp [consoleLinkTouches, hos, NewConsoleLink, Obj.key, Body.kind]))
  · exact keeps_pure _

end Cryostat

namespace Cryostat

/-! ## What the pass has in hand at each point -/

/-- A sequence that yields a value ran both parts to a value. -/
theorem bind_ok {ε α β : Type} (m : Op ε α) (f : α → Op ε β) (w : World) (b : β)
    (h : ((m >>= f) w).1 = .ok b) : ∃ a, (m w).1 = .ok a ∧ (f a (m w).2).1 = .ok b := by
  rw [run_bind] at h
  cases hm : (m w).1 with
  | ok a => rw [hm] at h; exact ⟨a, rfl, h⟩
  | error e => rw [hm] at h; cases h

theorem bind_of_ok {ε α β : Type} (m : Op ε α) (f : α → Op ε β) (w : World) (a : α)
    (h : (m w).1 = .ok a) : (m >>= f) w = f a (m w).2 := by
  rw [run_bind, h]

theorem bind_of_error {ε α β : Type} (m : Op ε α) (f : α → Op ε β) (w : World) (e : ε)
    (h : (m w).1 = .error e) : (m >>= f) w = (.error e, (m w).2) := by
  rw [run_bind, h]

theorem orReturn_ok {α : Type} (m : Op Err α) (w : World) (a : α)
    (h : (orReturn m w).1 = .ok a) : (m w).1 = .ok a := by
  rw [run_orReturn] at h
  cases hm : (m w).1 with
  | ok b =>
    simp only [hm, Except.ok.injEq] at h
    rw [h]
  | error e => simp only [hm] at h; cases h

theorem orReturn_world {α : Type} (m : Op Err α) (w : World) : (orReturn m w).2 = (m w).2 := by
  rw [run_orReturn]
  split <;> rfl

theorem controllerutil.AddFinalizer_key (o : Obj) (f : String) :
    (controllerutil.AddFinalizer o f).key = o.key := by
  unfold controllerutil.AddFinalizer
  split <;> rfl

theorem controllerutil.AddFinalizer_body (o : Obj) (f : String) :
    (controllerutil.AddFinalizer o f).body = o.body := by
  unfold controllerutil.AddFinalizer
  split <;> rfl

theorem controllerutil.AddFinalizer_contains (o : Obj) (f : String) :
    ContainsFinalizer (controllerutil.AddFinalizer o f) f = true := by
  unfold controllerutil.AddFinalizer ContainsFinalizer
  split
  · assumption
  · simp

theorem controllerutil.AddFinalizer_of_contains (o : Obj) (f : String)
    (h : ContainsFinalizer o f = true) : controllerutil.AddFinalizer o f = o := by
  unfold controllerutil.AddFinalizer
  unfold ContainsFinalizer at h
  rw [if_pos h]

theorem controllerutil.AddFinalizer_deletion (o : Obj) (f : String) :
    (controllerutil.AddFinalizer o f).meta.DeletionTimestamp = o.meta.DeletionTimestamp := by
  unfold controllerutil.AddFinalizer
  split <;> rfl

theorem Reconcile.fetch_ok (request : NamespacedName) (w : World) (inst : Obj)
    (h : (Reconcile.fetch request w).1 = .ok inst) :
    (Client.Get ⟨.Cryostat, request.Namespace, request.Name⟩ w).1 = .ok inst := by
  unfold Reconcile.fetch at h
  rw [run_bind, run_attempt] at h
  simp only at h
  cases hg : (Client.Get ⟨.Cryostat, request.Namespace, request.Name⟩ w).1 with
  | error e =>
    simp only [hg] at h
    split at h <;> cases h
  | ok read =>
    simp only [hg, run_pure, Except.ok.injEq] at h
    rw [h]

theorem Reconcile.fetch_world (request : NamespacedName) (w : World) :
    (Reconcile.fetch request w).2 = (Client.Get ⟨.Cryostat, request.Namespace, request.Name⟩ w).2 := by
  unfold Reconcile.fetch
  rw [run_bind, run_attempt]
  simp only
  cases (Client.Get ⟨.Cryostat, request.Namespace, request.Name⟩ w).1 with
  | error e =>
    simp only
    split <;> rfl
  | ok read => rfl

/-- An instance that is not being deleted passes the deletion check untouched. -/
theorem Reconcile.finalize_of_active (r : CryostatReconciler) (inst : Obj) (w : World)
    (h : inst.meta.DeletionTimestamp = none) : Reconcile.finalize r inst w = (.ok (), w) := by
  unfold Reconcile.finalize
  simp only [h, Option.isSome_none, Bool.false_eq_true, if_false]
  rfl

/-- Only an instance that is not being deleted gets past the deletion check. -/
theorem Reconcile.finalize_ok (r : CryostatReconciler) (inst : Obj) (w : World) (u : Unit)
    (h : (Reconcile.finalize r inst w).1 = .ok u) : inst.meta.DeletionTimestamp = none := by
  cases hd : inst.meta.DeletionTimestamp with
  | none => rfl
  | some t =>
    unfold Reconcile.finalize at h
    simp only [hd, Option.isSome_some, if_true] at h
    obtain ⟨_, _, h2⟩ := bind_ok _ _ _ _ h
    cases h2

theorem Reconcile.addFinalizer_ok (inst : Obj) (w : World) (o : Obj)
    (h : (Reconcile.addFinalizer inst w).1 = .ok o) :
    o = controllerutil.AddFinalizer inst cryostatFinalizer := by
  unfold Reconcile.addFinalizer at h
  split at h
  · have h1 := orReturn_ok _ _ _ h
    unfold common.AddFinalizer at h1
    obtain ⟨_, _, h2⟩ := bind_ok _ _ _ _ h1
    rw [run_pure] at h2
    simp only [Except.ok.injEq] at h2
    exact h2.symm
  · rename_i hc
    rw [run_pure] at h
    simp only [Except.ok.injEq] at h
    subst h
    rw [controllerutil.AddFinalizer_of_contains]
    simpa using hc

/-- The instance the pass works on after the finalizer section: it is the one that was read,
with the finalizer added in memory, and it is not being deleted. -/
theorem Reconcile.toFinalizer_ok (r : CryostatReconciler) (request : NamespacedName) (w : World)
    (inst : Obj) (h : (Reconcile.toFinalizer r request w).1 = .ok inst) :
    ∃ read, (Client.Get ⟨.Cryostat, request.Namespace, request.Name⟩ w).1 = .ok read ∧
      inst = controllerutil.AddFinalizer read cryostatFinalizer ∧
      read.meta.DeletionTimestamp = none := by
  unfold Reconcile.toFinalizer at h
  obtain ⟨read, h1, h2⟩ := bind_ok _ _ _ _ h
  obtain ⟨u, h3, h4⟩ := bind_ok _ _ _ _ h2
  exact ⟨read, Reconcile.fetch_ok _ _ _ h1, Reconcile.addFinalizer_ok _ _ _ h4,
    Reconcile.finalize_ok _ _ _ _ h3⟩

/-- Name, namespace, kind, specification and finalizer of the instance after the finalizer
section. -/
theorem Reconcile.toFinalizer_inst (r : CryostatReconciler) (request : NamespacedName) (w : World)
    (inst : Obj) (h : (Reconcile.toFinalizer r request w).1 = .ok inst) :
    inst.meta.Namespace = request.Namespace ∧ inst.meta.Name = request.Name ∧
      inst.body.kind = .Cryostat ∧ inst.meta.DeletionTimestamp = none ∧
      ContainsFinalizer inst cryostatFinalizer = true := by
  obtain ⟨read, h1, h2, h3⟩ := Reconcile.toFinalizer_ok r request w inst h
  have hk := (Client.Get_ok _ _ _ h1).2
  have hk2 : inst.key = ⟨.Cryostat, request.Namespace, request.Name⟩ := by
    rw [h2, controllerutil.AddFinalizer_key, hk]
  simp only [Obj.key, Key.mk.injEq] at hk2
  refine ⟨hk2.2.1, hk2.2.2, hk2.1, ?_, ?_⟩
  · rw [h2, controllerutil.AddFinalizer_deletion, h3]
  · rw [h2]; exact controllerutil.AddFinalizer_contains _ _

end Cryostat

namespace Cryostat

theorem Reconcile.toSecrets_ok (r : CryostatReconciler) (request : NamespacedName) (w : World)
    (inst : Obj) (h : (Reconcile.toSecrets r request w).1 = .ok inst) :
    (Reconcile.toFinalizer r request w).1 = .ok inst := by
  unfold Reconcile.toSecrets at h
  obtain ⟨i, h1, h2⟩ := bind_ok _ _ _ _ h
  obtain ⟨_, _, h3⟩ := bind_ok _ _ _ _ h2
  obtain ⟨_, _, h4⟩ := bind_ok _ _ _ _ h3
  rw [run_pure] at h4
  simp only [Except.ok.injEq] at h4
  rw [← h4]; exact h1

theorem Reconcile.toRBAC_ok (r : CryostatReconciler) (request : NamespacedName) (w : World)
    (st : PassState) (h : (Reconcile.toRBAC r request w).1 = .ok st) :
    (Reconcile.toSecrets r request w).1 = .ok st.inst ∧ st.serviceSpecs = {} ∧
      (Reconcile.tls r st.inst (Reconcile.toSecrets r request w).2).1
        = .ok (st.tlsConfig, st.routeTLS) := by
  unfold Reconcile.toRBAC at h
  obtain ⟨i, h1, h2⟩ := bind_ok _ _ _ _ h
  obtain ⟨t, h3, h4⟩ := bind_ok _ _ _ _ h2
  obtain ⟨_, _, h5⟩ := bind_ok _ _ _ _ h4
  rw [run_pure] at h5
  simp only [Except.ok.injEq] at h5
  subst h5
  exact ⟨h1, rfl, h3⟩

theorem Reconcile.toGrafana_ok (r : CryostatReconciler) (request : NamespacedName) (w : World)
    (st : PassState) (h : (Reconcile.toGrafana r request w).1 = .ok st) :
    ∃ st0, (Reconcile.toRBAC r request w).1 = .ok st0 ∧ st.inst = st0.inst ∧
      st.tlsConfig = st0.tlsConfig ∧ st.routeTLS = st0.routeTLS ∧
      (Reconcile.grafana r st0.inst st0.routeTLS (Reconcile.toRBAC r request w).2).1
        = .ok st.serviceSpecs.GrafanaURL := by
  unfold Reconcile.toGrafana at h
  obtain ⟨st0, h1, h2⟩ := bind_ok _ _ _ _ h
  obtain ⟨url, h3, h4⟩ := bind_ok _ _ _ _ h2
  rw [run_pure] at h4
  simp only [Except.ok.injEq] at h4
  subst h4
  exact ⟨st0, h1, rfl, rfl, rfl, h3⟩

theorem Reconcile.toCore_ok (r : CryostatReconciler) (request : NamespacedName) (w : World)
    (st : PassState) (h : (Reconcile.toCore r request w).1 = .ok st) :
    ∃ st0, (Reconcile.toGrafana r request w).1 = .ok st0 ∧ st.inst = st0.inst ∧
      st.tlsConfig = st0.tlsConfig ∧ st.routeTLS = st0.routeTLS ∧
      (Reconcile.core r st0.inst st0.routeTLS (Reconcile.toGrafana r request w).2).1
        = .ok st.serviceSpecs.CoreURL := by
  unfold Reconcile.toCore at h
  obtain ⟨st0, h1, h2⟩ := bind_ok _ _ _ _ h
  obtain ⟨url, h3, h4⟩ := bind_ok _ _ _ _ h2
  rw [run_pure] at h4
  simp only [Except.ok.injEq] at h4
  subst h4
  exact ⟨st0, h1, rfl, rfl, rfl, h3⟩

theorem Reconcile.toCommand_ok (r : CryostatReconciler) (request : NamespacedName) (w : World)
    (st : PassState) (h : (Reconcile.toCommand r request w).1 = .ok st) :
    ∃ st0, (Reconcile.toCore r request w).1 = .ok st0 ∧ st.inst = st0.inst ∧
      st.tlsConfig = st0.tlsConfig ∧ st.routeTLS = st0.routeTLS ∧
      st.serviceSpecs.CoreURL = st0.serviceSpecs.CoreURL ∧
      (Reconcile.command r st0.inst st0.routeTLS (Reconcile.toCore r request w).2).1
        = .ok st.serviceSpecs.CommandURL := by
  unfold Reconcile.toCommand at h
  obtain ⟨st0, h1, h2⟩ := bind_ok _ _ _ _ h
  obtain ⟨url, h3, h4⟩ := bind_ok _ _ _ _ h2
  rw [run_pure] at h4
  simp only [Except.ok.injEq] at h4
  subst h4
  exact ⟨st0, h1, rfl, rfl, rfl, rfl, h3⟩

theorem Reconcile.toRBAC_inst (r : CryostatReconciler) (request : NamespacedName) (w : World)
    (st : PassState) (h : (Reconcile.toRBAC r request w).1 = .ok st) :
    (Reconcile.toFinalizer r request w).1 = .ok st.inst :=
  Reconcile.toSecrets_ok _ _ _ _ (Reconcile.toRBAC_ok _ _ _ _ h).1

theorem Reconcile.toGrafana_inst (r : CryostatReconciler) (request : NamespacedName) (w : World)
    (st : PassState) (h : (Reconcile.toGrafana r request w).1 = .ok st) :
    (Reconcile.toFinalizer r request w).1 = .ok st.inst := by
  obtain ⟨st0, h1, h2, _⟩ := Reconcile.toGrafana_ok _ _ _ _ h
  rw [h2]; exact Reconcile.toRBAC_inst _ _ _ _ h1

theorem Reconcile.toCore_inst (r : CryostatReconciler) (request : NamespacedName) (w : World)
    (st : PassState) (h : (Reconcile.toCore r request w).1 = .ok st) :
    (Reconcile.toFinalizer r request w).1 = .ok st.inst := by
  obtain ⟨st0, h1, h2, _⟩ := Reconcile.toCore_ok _ _ _ _ h
  rw [h2]; exact Reconcile.toGrafana_inst _ _ _ _ h1

theorem Reconcile.toCommand_inst (r : CryostatReconciler) (request : NamespacedName) (w : World)
    (st : PassState) (h : (Reconcile.toCommand r request w).1 = .ok st) :
    (Reconcile.toFinalizer r request w).1 = .ok st.inst := by
  obtain ⟨st0, h1, h2, _⟩ := Reconcile.toCommand_ok _ _ _ _ h
  rw [h2]; exact Reconcile.toCore_inst _ _ _ _ h1

/-! ## The frame rule along the pass

If `I` holds once the finalizer section is through, and `I` is respected by the footprint
of the sections that follow, then `I` holds wherever the pass stops. -/

theorem Reconcile.toSecrets_frame {I : World → Prop} (r : CryostatReconciler)
    (request : NamespacedName) (w : World) (h0 : I (Reconcile.toFinalizer r request w).2)
    (hR : ∀ inst, (Reconcile.toFinalizer r request w).1 = .ok inst →
      Respects (servicesTouches r inst.meta.Namespace inst.meta.Name inst.Spec.Minimal) I) :
    I (Reconcile.toSecrets r request w).2 := by
  unfold Reconcile.toSecrets
  rw [run_bind]
  cases h1 : (Reconcile.toFinalizer r request w).1 with
  | error e => exact h0
  | ok inst =>
    simp only
    have hR1 := hR inst h1
    refine keeps_bind (Reconcile.storage_keeps r inst (hR1.mono ?_)) (fun _ =>
      keeps_bind (Reconcile.secrets_keeps r inst (hR1.mono ?_)) (fun _ => keeps_pure _)) _ h0
    · intro t ht; simp only [servicesTouches, List.mem_append]; tauto
    · intro t ht; simp only [servicesTouches, List.mem_append]; tauto

theorem Reconcile.toRBAC_frame {I : World → Prop} (r : CryostatReconciler)
    (request : NamespacedName) (w : World) (h0 : I (Reconcile.toFinalizer r request w).2)
    (hR : ∀ inst, (Reconcile.toFinalizer r request w).1 = .ok inst →
      Respects (servicesTouches r inst.meta.Namespace inst.meta.Name inst.Spec.Minimal) I) :
    I (Reconcile.toRBAC r request w).2 := by
  have hp := Reconcile.toSecrets_frame r request w h0 hR
  unfold Reconcile.toRBAC
  rw [run_bind]
  cases h1 : (Reconcile.toSecrets r request w).1 with
  | error e => exact hp
  | ok inst =>
    simp only
    have hR1 := hR inst (Reconcile.toSecrets_ok _ _ _ _ h1)
    refine keeps_bind (Reconcile.tls_keeps r inst) (fun _ =>
      keeps_bind (Reconcile.rbac_keeps r inst (hR1.mono ?_)) (fun _ => keeps_pure _)) _ hp
    intro t ht; simp only [servicesTouches, List.mem_append]; tauto

theorem Reconcile.toGrafana_frame {I : World → Prop} (r : CryostatReconciler)
    (request : NamespacedName) (w : World) (h0 : I (Reconcile.toFinalizer r request w).2)
    (hR : ∀ inst, (Reconcile.toFinalizer r request w).1 = .ok inst →
      Respects (servicesTouches r inst.meta.Namespace inst.meta.Name inst.Spec.Minimal) I) :
    I (Reconcile.toGrafana r request w).2 := by
  have hp := Reconcile.toRBAC_frame r request w h0 hR
  unfold Reconcile.toGrafana
  rw [run_bind]
  cases h1 : (Reconcile.toRBAC r request w).1 with
  | error e => exact hp
  | ok st =>
    simp only
    have hR1 := hR st.inst (Reconcile.toRBAC_inst _ _ _ _ h1)
    refine keeps_bind (Reconcile.grafana_keeps r st.inst _ (hR1.mono ?_))
      (fun _ => keeps_pure _) _ hp
    intro t ht; simp only [servicesTouches, List.mem_append]; tauto

theorem Reconcile.toCore_frame {I : World → Prop} (r : CryostatReconciler)
    (request : NamespacedName) (w : World) (h0 : I (Reconcile.toFinalizer r request w).2)
    (hR : ∀ inst, (Reconcile.toFinalizer r request w).1 = .ok inst →
      Respects (servicesTouches r inst.meta.Namespace inst.meta.Name inst.Spec.Minimal) I) :
    I (Reconcile.toCore r request w).2 := by
  have hp := Reconcile.toGrafana_frame r request w h0 hR
  unfold Reconcile.toCore
  rw [run_bind]
  cases h1 : (Reconcile.toGrafana r request w).1 with
  | error e => exact hp
  | ok st =>
    simp only
    have hR1 := hR st.inst (Reconcile.toGrafana_inst _ _ _ _ h1)
    refine keeps_bind (Reconcile.core_keeps r st.inst _ (hR1.mono ?_))
      (fun _ => keeps_pure _) _ hp
    intro t ht; simp only [servicesTouches, List.mem_append]; tauto

theorem Reconcile.toCommand_frame {I : World → Prop} (r : CryostatReconciler)
    (request : NamespacedName) (w : World) (h0 : I (Reconcile.toFinalizer r request w).2)
    (hR : ∀ inst, (Reconcile.toFinalizer r request w).1 = .ok inst →
      Respects (servicesTouches r inst.meta.Namespace inst.meta.Name inst.Spec.Minimal) I) :
    I (Reconcile.toCommand r request w).2 := by
  have hp := Reconcile.toCore_frame r request w h0 hR
  unfold Reconcile.toCommand
  rw [run_bind]
  cases h1 : (Reconcile.toCore r request w).1 with
  | error e => exact hp
  | ok st =>
    simp only
    have hR1 := hR st.inst (Reconcile.toCore_inst _ _ _ _ h1)
    refine keeps_bind (Reconcile.command_keeps r st.inst _ (hR1.mono ?_))
      (fun _ => keeps_pure _) _ hp
    intro t ht; simp only [servicesTouches, List.mem_append]; tauto

theorem Reconcile.status_ok (inst : Obj) (serviceSpecs : ServiceSpecs) (w : World) (o : Obj)
    (h : (Reconcile.status inst serviceSpecs w).1 = .ok o) : o.meta = inst.meta := by
  unfold Reconcile.status at h
  cases hc : serviceSpecs.CoreURL with
  | some coreURL =>
    simp only [hc] at h
    obtain ⟨_, _, h2⟩ := bind_ok _ _ _ _ h
    rw [run_pure] at h2
    simp only [Except.ok.injEq] at h2
    rw [← h2, Obj.setApplicationURL_meta]
  | none =>
    simp only [hc, run_pure, Except.ok.injEq] at h
    rw [h]

theorem Reconcile.pass_world (r : CryostatReconciler) (request : NamespacedName) (w : World) :
    (Reconcile r request w).2 = (Reconcile.pass r request w).2 := by
  unfold Reconcile
  split <;> rfl

theorem Reconcile.pass_frame {I : World → Prop} (r : CryostatReconciler)
    (request : NamespacedName) (w : World) (h0 : I (Reconcile.toFinalizer r request w).2)
    (hR : ∀ inst, (Reconcile.toFinalizer r request w).1 = .ok inst →
      Respects (dependentTouches r inst.meta.Namespace inst.meta.Name inst.Spec.Minimal) I) :
    I (Reconcile r request w).2 := by
  rw [Reconcile.pass_world]
  have hp := Reconcile.toCommand_frame r request w h0 (fun inst hi => (hR inst hi).mono (by
    intro t ht; simp only [dependentTouches, List.mem_append]; tauto))
  unfold Reconcile.pass
  rw [run_bind]
  cases h1 : (Reconcile.toCommand r request w).1 with
  | error e => exact hp
  | ok st =>
    simp only
    have hi := Reconcile.toCommand_inst _ _ _ _ h1
    have hR1 := hR st.inst hi
    have hk := (Reconcile.toFinalizer_inst _ _ _ _ hi).2.2.1
    refine keeps_bind (Reconcile.deployment_keeps r st.inst _ _ (hR1.mono ?_)) (fun _ => ?_) _ hp
    · intro t ht; simp only [dependentTouches, List.mem_append]; tauto
    · intro w1 hw1
      have hs := Reconcile.status_keeps st.inst st.serviceSpecs hk (hR1.mono (by
        intro t ht; simp only [dependentTouches, List.mem_append]; tauto)) w1 hw1
      rw [run_bind]
      cases h2 : (Reconcile.status st.inst st.serviceSpecs w1).1 with
      | error e => exact hs
      | ok inst2 =>
        simp only
        have hm := Reconcile.status_ok _ _ _ _ h2
        refine Reconcile.consoleLink_keeps r inst2 _ (hR1.mono ?_) _ hs
        rw [hm]
        intro t ht; simp only [dependentTouches, List.mem_append]; tauto

end Cryostat

namespace Cryostat

/-! ## The store -/

theorem Store.get?_nil (k : Key) : Store.get? [] k = none := rfl

theorem Store.get?_cons (x : Obj) (s : Store) (k : Key) :
    Store.get? (x :: s) k = if x.key = k then some x else Store.get? s k := by
  unfold Store.get?
  rw [List.find?_cons]
  by_cases h : x.key = k <;> simp [h]

theorem Store.get?_append_of_some (s : Store) (x o : Obj) (k : Key) (h : s.get? k = some o) :
    Store.get? (s ++ [x]) k = some o := by
  induction s with
  | nil => simp [Store.get?_nil] at h
  | cons y s ih =>
    rw [List.cons_append, Store.get?_cons]
    rw [Store.get?_cons] at h
    split
    · rename_i hy; rw [if_pos hy] at h; exact h
    · rename_i hy; rw [if_neg hy] at h; exact ih h

theorem Store.get?_append_ne (s : Store) (x : Obj) (k : Key) (h : x.key ≠ k) :
    Store.get? (s ++ [x]) k = s.get? k := by
  induction s with
  | nil => simp [Store.get?_cons, Store.get?_nil, h]
  | cons y s ih =>
    rw [List.cons_append, Store.get?_cons, Store.get?_cons, ih]

theorem Store.get?_append_self (s : Store) (x : Obj) (h : s.get? x.key = none) :
    Store.get? (s ++ [x]) x.key = some x := by
  induction s with
  | nil => simp [Store.get?_cons]
  | cons y s ih =>
    rw [List.cons_append, Store.get?_cons]
    rw [Store.get?_cons] at h
    split
    · rename_i hy; rw [if_pos hy] at h; cases h
    · rename_i hy; rw [if_neg hy] at h; exact ih h

theorem Store.get?_replace_ne (s : Store) (o : Obj) (k : Key) (h : o.key ≠ k) :
    (s.replace o).get? k = s.get? k := by
  induction s with
  | nil => rfl
  | cons y s ih =>
    unfold Store.replace at ih ⊢
    rw [List.map_cons, Store.get?_cons, Store.get?_cons, ih]
    by_cases hy : y.key = o.key
    · rw [if_pos hy, if_neg h, if_neg (by rw [hy]; exact h)]
    · rw [if_neg hy]

theorem Store.get?_replace_self (s : Store) (o x : Obj) (h : s.get? o.key = some x) :
    (s.replace o).get? o.key = some o := by
  induction s with
  | nil => simp [Store.get?_nil] at h
  | cons y s ih =>
    unfold Store.replace at ih ⊢
    rw [List.map_cons, Store.get?_cons]
    rw [Store.get?_cons] at h
    by_cases hy : y.key = o.key
    · rw [if_pos hy, if_pos rfl]
    · rw [if_neg hy] at h ⊢
      rw [if_neg hy]
      exact ih h

theorem Store.get?_remove_ne (s : Store) (k2 k : Key) (h : k2 ≠ k) :
    (s.remove k2).get? k = s.get? k := by
  induction s with
  | nil => rfl
  | cons y s ih =>
    unfold Store.remove at ih ⊢
    rw [List.filter_cons]
    by_cases hy : y.key = k2
    · simp only [hy, decide_True, Bool.not_true, Bool.false_eq_true, if_false]
      rw [ih, Store.get?_cons, if_neg (by rw [hy]; exact h)]
    · simp only [hy, decide_False, Bool.not_false, if_true]
      rw [Store.get?_cons, Store.get?_cons, ih]

theorem Store.get?_remove_self (s : Store) (k : Key) : (s.remove k).get? k = none := by
  induction s with
  | nil => rfl
  | cons y s ih =>
    unfold Store.remove at ih ⊢
    rw [List.filter_cons]
    by_cases hy : y.key = k
    · simp only [hy, decide_True, Bool.not_true, Bool.false_eq_true, if_false]
      exact ih
    · simp only [hy, decide_False, Bool.not_false, if_true]
      rw [Store.get?_cons, if_neg hy]
      exact ih

theorem Obj.withStatusOf_meta (stored o : Obj) : (stored.withStatusOf o).meta = stored.meta := by
  unfold Obj.withStatusOf
  split <;> rfl

theorem Obj.withStatusOf_key (stored o : Obj) : (stored.withStatusOf o).key = stored.key := by
  unfold Obj.withStatusOf
  split
  · rename_i h _; simp [Obj.key, h, Body.kind]
  · rename_i h _; simp [Obj.key, h, Body.kind]
  · rfl

theorem Store.get?_replaceStatus (s : Store) (o : Obj) (k : Key) :
    (s.replaceStatus o).get? k
      = (s.get? k).map (fun x => if x.key = o.key then x.withStatusOf o else x) := by
  induction s with
  | nil => rfl
  | cons y s ih =>
    unfold Store.replaceStatus at ih ⊢
    rw [List.map_cons, Store.get?_cons, Store.get?_cons, ih]
    by_cases hy : y.key = o.key
    · rw [if_pos hy, Obj.withStatusOf_key]
      by_cases hk : y.key = k
      · rw [if_pos hk, if_pos hk]; simp [hy]
      · rw [if_neg hk, if_neg hk]
    · rw [if_neg hy]
      by_cases hk : y.key = k
      · rw [if_pos hk, if_pos hk]; simp [hy]
      · rw [if_neg hk, if_neg hk]

/-! ## Invariants of the calls themselves -/

theorem List.mem_drop_append_singleton {α : Type} (l : List α) (a x : α) (n : Nat)
    (h : x ∈ (l ++ [a]).drop n) : x ∈ l.drop n ∨ x = a := by
  rw [List.drop_append_eq_append_drop] at h
  rcases List.mem_append.mp h with h1 | h1
  · exact Or.inl h1
  · exact Or.inr (by simpa using List.mem_of_mem_drop h1)

/-- A call keeps `Inv n S Q` when its trace entry satisfies `Q` and its effect keeps `S`. -/
theorem Client.call_keeps {α : Type} (n : Nat) (S : Store → Prop) (Q : Call → Prop)
    (verb : Verb) (key : Key) (obj : Option Obj) (sem : Store → Except Err (α × Store))
    (hQ : ∀ s e, S s → Q ⟨verb, key, obj, e, s⟩)
    (hS : ∀ s a s2, S s → sem s = .ok (a, s2) → S s2) :
    Keeps (Inv n S Q) (Client.call verb key obj sem) := by
  intro w hw
  obtain ⟨hs, hq⟩ := hw
  constructor
  · cases hr : (Client.call verb key obj sem w).1 with
    | ok a => exact hS _ _ _ hs (Client.call_ok _ _ _ _ w a hr).2
    | error e => rw [Client.call_objs_of_error _ _ _ _ w e hr]; exact hs
  · intro c hc
    rw [Client.call_log] at hc
    rcases List.mem_drop_append_singleton _ _ _ _ hc with h1 | h1
    · exact hq c h1
    · rw [h1]; exact hQ _ _ hs

theorem Client.Get_keeps (n : Nat) (S : Store → Prop) (Q : Call → Prop) (key : Key)
    (hQ : ∀ s e, S s → Q ⟨.Get, key, none, e, s⟩) : Keeps (Inv n S Q) (Client.Get key) := by
  apply Client.call_keeps n S Q _ _ _ _ hQ
  intro s a s2 hs h
  split at h
  · simp only [Except.ok.injEq, Prod.mk.injEq] at h; rw [← h.2]; exact hs
  · cases h

theorem Client.Create_keeps (n : Nat) (S : Store → Prop) (Q : Call → Prop) (o : Obj)
    (hQ : ∀ s e, S s → Q ⟨.Create, o.key, some o, e, s⟩)
    (hS : ∀ s, S s → s.get? o.key = none → S (s ++ [o])) :
    Keeps (Inv n S Q) (Client.Create o) := by
  apply Client.call_keeps n S Q _ _ _ _ hQ
  intro s a s2 hs h
  split at h
  · cases h
  · rename_i hn
    simp only [Except.ok.injEq, Prod.mk.injEq] at h; rw [← h.2]; exact hS s hs hn

theorem Client.Update_keeps (n : Nat) (S : Store → Prop) (Q : Call → Prop) (o : Obj)
    (hQ : ∀ s e, S s → Q ⟨.Update, o.key, some o, e, s⟩)
    (hS : ∀ s x, S s → s.get? o.key = some x → S (s.replace o)) :
    Keeps (Inv n S Q) (Client.Update o) := by
  apply Client.call_keeps n S Q _ _ _ _ hQ
  intro s a s2 hs h
  split at h
  · rename_i x hn
    simp only [Except.ok.injEq, Prod.mk.injEq] at h; rw [← h.2]; exact hS s x hs hn
  · cases h

theorem Client.Delete_keeps (n : Nat) (S : Store → Prop) (Q : Call → Prop) (o : Obj)
    (hQ : ∀ s e, S s → Q ⟨.Delete, o.key, some o, e, s⟩)
    (hS : ∀ s x, S s → s.get? o.key = some x → S (s.remove o.key)) :
    Keeps (Inv n S Q) (Client.Delete o) := by
  apply Client.call_keeps n S Q _ _ _ _ hQ
  intro s a s2 hs h
  split at h
  · rename_i x hn
    simp only [Except.ok.injEq, Prod.mk.injEq] at h; rw [← h.2]; exact hS s x hs hn
  · cases h

theorem Client.StatusUpdate_keeps (n : Nat) (S : Store → Prop) (Q : Call → Prop) (o : Obj)
    (hQ : ∀ s e, S s → Q ⟨.StatusUpdate, o.key, some o, e, s⟩)
    (hS : ∀ s x, S s → s.get? o.key = some x → S (s.replaceStatus o)) :
    Keeps (Inv n S Q) (Client.StatusUpdate o) := by
  apply Client.call_keeps n S Q _ _ _ _ hQ
  intro s a s2 hs h
  split at h
  · rename_i x hn
    simp only [Except.ok.injEq, Prod.mk.injEq] at h; rw [← h.2]; exact hS s x hs hn
  · cases h

end Cryostat

namespace Cryostat

/-! ## Trace entries of the calls -/

theorem Client.Get_log (key : Key) (w : World) :
    (Client.Get key w).2.log = w.log ++ [⟨.Get, key, none, errOf (Client.Get key w).1, w.objs⟩] :=
  Client.call_log _ _ _ _ w

theorem Client.Create_log (o : Obj) (w : World) :
    (Client.Create o w).2.log
      = w.log ++ [⟨.Create, o.key, some o, errOf (Client.Create o w).1, w.objs⟩] :=
  Client.call_log _ _ _ _ w

theorem Client.Update_log (o : Obj) (w : World) :
    (Client.Update o w).2.log
      = w.log ++ [⟨.Update, o.key, some o, errOf (Client.Update o w).1, w.objs⟩] :=
  Client.call_log _ _ _ _ w

theorem Client.Delete_log (o : Obj) (w : World) :
    (Client.Delete o w).2.log
      = w.log ++ [⟨.Delete, o.key, some o, errOf (Client.Delete o w).1, w.objs⟩] :=
  Client.call_log _ _ _ _ w

theorem Client.StatusUpdate_log (o : Obj) (w : World) :
    (Client.StatusUpdate o w).2.log
      = w.log ++ [⟨.StatusUpdate, o.key, some o, errOf (Client.StatusUpdate o w).1, w.objs⟩] :=
  Client.call_log _ _ _ _ w

theorem Client.Delete_objs (o : Obj) (w : World) :
    (Client.Delete o w).2.objs = w.objs ∨ (Client.Delete o w).2.objs = w.objs.remove o.key := by
  cases h : (Client.Delete o w).1 with
  | error e => exact Or.inl (Client.call_objs_of_error _ _ _ _ w e h)
  | ok u =>
    have h2 := (Client.call_ok _ _ _ _ w u h).2
    split at h2
    · simp only [Except.ok.injEq, Prod.mk.injEq] at h2
      exact Or.inr h2.2.symm
    · cases h2

theorem Client.Delete_objs_of_error (o : Obj) (w : World) (e : Err)
    (h : (Client.Delete o w).1 = .error e) : (Client.Delete o w).2.objs = w.objs :=
  Client.call_objs_of_error _ _ _ _ w e h

theorem Client.Update_objs_of_error (o : Obj) (w : World) (e : Err)
    (h : (Client.Update o w).1 = .error e) : (Client.Update o w).2.objs = w.objs :=
  Client.call_objs_of_error _ _ _ _ w e h

theorem Client.Create_objs_of_error (o : Obj) (w : World) (e : Err)
    (h : (Client.Create o w).1 = .error e) : (Client.Create o w).2.objs = w.objs :=
  Client.call_objs_of_error _ _ _ _ w e h

/-- Deleting an object of another key leaves the lookup of `k` as it was. -/
theorem Client.Delete_get? (o : Obj) (w : World) (k : Key) (h : o.key ≠ k) :
    (Client.Delete o w).2.objs.get? k = w.objs.get? k := by
  rcases Client.Delete_objs o w with h1 | h1
  · rw [h1]
  · rw [h1, Store.get?_remove_ne _ _ _ h]

/-! ## The pass on an instance that is being deleted -/

/-- When the finalizer section ends the pass, `Reconcile` returns what it returned. -/
theorem Reconcile.of_toFinalizer_error (r : CryostatReconciler) (request : NamespacedName)
    (w : World) (ret : Return) (h : (Reconcile.toFinalizer r request w).1 = .error ret) :
    Reconcile r request w = (ret, (Reconcile.toFinalizer r request w).2) := by
  have h1 : Reconcile.toSecrets r request w = (.error ret, (Reconcile.toFinalizer r request w).2) := by
    unfold Reconcile.toSecrets; rw [bind_of_error _ _ _ _ h]
  have h2 : Reconcile.toRBAC r request w = (.error ret, (Reconcile.toFinalizer r request w).2) := by
    unfold Reconcile.toRBAC; rw [bind_of_error _ _ _ ret (by rw [h1]), h1]
  have h3 : Reconcile.toGrafana r request w = (.error ret, (Reconcile.toFinalizer r request w).2) := by
    unfold Reconcile.toGrafana; rw [bind_of_error _ _ _ ret (by rw [h2]), h2]
  have h4 : Reconcile.toCore r request w = (.error ret, (Reconcile.toFinalizer r request w).2) := by
    unfold Reconcile.toCore; rw [bind_of_error _ _ _ ret (by rw [h3]), h3]
  have h5 : Reconcile.toCommand r request w = (.error ret, (Reconcile.toFinalizer r request w).2) := by
    unfold Reconcile.toCommand; rw [bind_of_error _ _ _ ret (by rw [h4]), h4]
  have h6 : Reconcile.pass r request w = (.error ret, (Reconcile.toFinalizer r request w).2) := by
    unfold Reconcile.pass; rw [bind_of_error _ _ _ ret (by rw [h5]), h5]
  unfold Reconcile
  rw [h6]

/-- For an instance that is being deleted the pass is the read followed by `finalize`. -/
theorem Reconcile.of_deleting (r : CryostatReconciler) (request : NamespacedName) (w : World)
    (inst : Obj) (hget : (Client.Get ⟨.Cryostat, request.Namespace, request.Name⟩ w).1 = .ok inst)
    (hdel : inst.meta.DeletionTimestamp.isSome = true) :
    ∃ ret, Reconcile.finalize r inst (Client.Get ⟨.Cryostat, request.Namespace, request.Name⟩ w).2
        = (.error ret, (Reconcile r request w).2) ∧ (Reconcile r request w).1 = ret := by
  have hf : (Reconcile.fetch request w).1 = .ok inst := by
    unfold Reconcile.fetch
    rw [run_bind, run_attempt]
    simp only [hget, run_pure]
  have hfw := Reconcile.fetch_world request w
  cases hfin : (Reconcile.finalize r inst (Client.Get ⟨.Cryostat, request.Namespace, request.Name⟩ w).2).1 with
  | ok u =>
    have := Reconcile.finalize_ok _ _ _ _ hfin
    rw [this] at hdel
    cases hdel
  | error ret =>
    have ht : Reconcile.toFinalizer r request w
        = (.error ret, (Reconcile.finalize r inst (Client.Get ⟨.Cryostat, request.Namespace, request.Name⟩ w).2).2) := by
      unfold Reconcile.toFinalizer
      rw [bind_of_ok _ _ _ _ hf, hfw, bind_of_error _ _ _ _ hfin]
    have hR := Reconcile.of_toFinalizer_error r request w ret (by rw [ht])
    rw [ht] at hR
    refine ⟨ret, ?_, by rw [hR]⟩
    rw [hR]
    exact Prod.ext hfin rfl

end Cryostat

namespace Cryostat

theorem NewClusterRoleBindingForCR_kind (rd : ResourceDefinitions) (cr : Obj) :
    (NewClusterRoleBindingForCR rd cr).key.kind = .ClusterRoleBinding := rfl

theorem NewConsoleLink_kind (rd : ResourceDefinitions) (cr : Obj) (url : String) :
    (NewConsoleLink rd cr url).key.kind = .ConsoleLink := rfl

theorem controllerutil.RemoveFinalizer_key (o : Obj) (f : String) :
    (controllerutil.RemoveFinalizer o f).key = o.key := rfl

/-- The outcomes of `finalize` on an instance that is being deleted and carries the
finalizer: the trace it adds, what it returns, and that a failed clean-up leaves every
Cryostat object in the store as it was. -/
theorem Reconcile.finalize_trace (r : CryostatReconciler) (inst : Obj) (w : World)
    (hdel : inst.meta.DeletionTimestamp.isSome = true)
    (hfin : ContainsFinalizer inst cryostatFinalizer = true) :
    (∃ d e, (Reconcile.finalize r inst w).2.log = w.log ++ [d] ∧
        d.is .Delete (NewClusterRoleBindingForCR r.resources inst).key (some e) ∧
        (Reconcile.finalize r inst w).1 = .error ({}, some e) ∧
        ∀ k, k.kind = .Cryostat → (Reconcile.finalize r inst w).2.objs.get? k = w.objs.get? k) ∨
    (r.IsOpenShift = true ∧ ∃ d1 d2 e, (Reconcile.finalize r inst w).2.log = w.log ++ [d1, d2] ∧
        d1.is .Delete (NewClusterRoleBindingForCR r.resources inst).key none ∧
        d2.is .Delete (NewConsoleLink r.resources inst "").key (some e) ∧
        (Reconcile.finalize r inst w).1 = .error ({}, some e) ∧
        ∀ k, k.kind = .Cryostat → (Reconcile.finalize r inst w).2.objs.get? k = w.objs.get? k) ∨
    (r.IsOpenShift = true ∧ ∃ d1 d2 u, (Reconcile.finalize r inst w).2.log = w.log ++ [d1, d2, u] ∧
        d1.is .Delete (NewClusterRoleBindingForCR r.resources inst).key none ∧
        d2.is .Delete (NewConsoleLink r.resources inst "").key none ∧
        u.verb = .Update ∧ u.key = inst.key ∧
        u.obj = some (controllerutil.RemoveFinalizer inst cryostatFinalizer) ∧
        (Reconcile.finalize r inst w).1 = .error ({}, u.err)) ∨
    (r.IsOpenShift = false ∧ ∃ d1 u, (Reconcile.finalize r inst w).2.log = w.log ++ [d1, u] ∧
        d1.is .Delete (NewClusterRoleBindingForCR r.resources inst).key none ∧
        u.verb = .Update ∧ u.key = inst.key ∧
        u.obj = some (controllerutil.RemoveFinalizer inst cryostatFinalizer) ∧
        (Reconcile.finalize r inst w).1 = .error ({}, u.err)) := by
  have hrem : ∀ w3 : World,
      ((orReturn (common.RemoveFinalizer inst cryostatFinalizer) >>= fun _ =>
          (pure () : Op Return Unit)) >>= fun _ => (Op.fail ({}, none) : Op Return Unit)) w3
        = (.error ({}, errOf (Client.Update (controllerutil.RemoveFinalizer inst cryostatFinalizer) w3).1),
            (Client.Update (controllerutil.RemoveFinalizer inst cryostatFinalizer) w3).2) := by
    intro w3
    simp only [run_bind, run_orReturn, common.RemoveFinalizer, run_pure, run_fail]
    cases (Client.Update (controllerutil.RemoveFinalizer inst cryostatFinalizer) w3).1 <;> simp [errOf]
  cases h1 : (Client.Delete (NewClusterRoleBindingForCR r.resources inst) w).1 with
  | error e =>
    left
    have hrun : Reconcile.finalize r inst w
        = (.error ({}, some e), (Client.Delete (NewClusterRoleBindingForCR r.resources inst) w).2) := by
      unfold Reconcile.finalize
      simp only [hdel, hfin, if_true, run_bind, run_orReturn, deleteClusterRoleBinding, h1]
    rw [hrun]
    refine ⟨⟨.Delete, (NewClusterRoleBindingForCR r.resources inst).key,
      some (NewClusterRoleBindingForCR r.resources inst), some e, w.objs⟩, e, ?_, ⟨rfl, rfl, rfl⟩,
      rfl, ?_⟩
    · simp only [Client.Delete_log, h1, errOf]
    · intro k _
      simp only [Client.Delete_objs_of_error _ w e h1]
  | ok u1 =>
    right
    cases hos : r.IsOpenShift with
    | true =>
      cases h2 : (Client.Delete (NewConsoleLink r.resources inst "")
          (Client.Delete (NewClusterRoleBindingForCR r.resources inst) w).2).1 with
      | error e =>
        left
        have hrun : Reconcile.finalize r inst w
            = (.error ({}, some e), (Client.Delete (NewConsoleLink r.resources inst "")
                (Client.Delete (NewClusterRoleBindingForCR r.resources inst) w).2).2) := by
          unfold Reconcile.finalize
          simp only [hdel, hfin, hos, if_true, run_bind, run_orReturn, deleteClusterRoleBinding,
            deleteConsoleLink, h1, h2]
        rw [hrun]
        refine ⟨rfl, ⟨.Delete, (NewClusterRoleBindingForCR r.resources inst).key,
            some (NewClusterRoleBindingForCR r.resources inst), none, w.objs⟩,
          ⟨.Delete, (NewConsoleLink r.resources inst "").key,
            some (NewConsoleLink r.resources inst ""), some e,
            (Client.Delete (NewClusterRoleBindingForCR r.resources inst) w).2.objs⟩, e, ?_,
          ⟨rfl, rfl, rfl⟩, ⟨rfl, rfl, rfl⟩, rfl, ?_⟩
        · simp only [Client.Delete_log, h1, h2, errOf, List.append_assoc, List.singleton_append]
        · intro k hk
          simp only
          rw [Client.Delete_objs_of_error _ _ e h2, Client.Delete_get?]
          intro hc
          rw [← hc] at hk
          cases hk
      | ok u2 =>
        right; left
        have hrun : Reconcile.finalize r inst w
            = (.error ({}, errOf (Client.Update (controllerutil.RemoveFinalizer inst cryostatFinalizer)
                  (Client.Delete (NewConsoleLink r.resources inst "")
                    (Client.Delete (NewClusterRoleBindingForCR r.resources inst) w).2).2).1),
                (Client.Update (controllerutil.RemoveFinalizer inst cryostatFinalizer)
                  (Client.Delete (NewConsoleLink r.resources inst "")
                    (Client.Delete (NewClusterRoleBindingForCR r.resources inst) w).2).2).2) := by
          have := hrem (Client.Delete (NewConsoleLink r.resources inst "")
                    (Client.Delete (NewClusterRoleBindingForCR r.resources inst) w).2).2
          unfold Reconcile.finalize
          simp only [hdel, hfin, hos, if_true, run_bind, run_orReturn, deleteClusterRoleBinding,
            deleteConsoleLink, h1, h2] at this ⊢
          exact this
        rw [hrun]
        refine ⟨rfl, ⟨.Delete, (NewClusterRoleBindingForCR r.resources inst).key,
            some (NewClusterRoleBindingForCR r.resources inst), none, w.objs⟩,
          ⟨.Delete, (NewConsoleLink r.resources inst "").key,
            some (NewConsoleLink r.resources inst ""), none,
            (Client.Delete (NewClusterRoleBindingForCR r.resources inst) w).2.objs⟩,
          ⟨.Update, inst.key, some (controllerutil.RemoveFinalizer inst cryostatFinalizer),
            errOf (Client.Update (controllerutil.RemoveFinalizer inst cryostatFinalizer)
                  (Client.Delete (NewConsoleLink r.resources inst "")
                    (Client.Delete (NewClusterRoleBindingForCR r.resources inst) w).2).2).1,
            (Client.Delete (NewConsoleLink r.resources inst "")
                    (Client.Delete (NewClusterRoleBindingForCR r.resources inst) w).2).2.objs⟩, ?_,
          ⟨rfl, rfl, rfl⟩, ⟨rfl, rfl, rfl⟩, rfl, rfl, rfl, rfl⟩
        simp [Client.Update_log, Client.Delete_log, h1, h2, errOf,
          controllerutil.RemoveFinalizer_key]
    | false =>
      right; right
      have hrun : Reconcile.finalize r inst w
          = (.error ({}, errOf (Client.Update (controllerutil.RemoveFinalizer inst cryostatFinalizer)
                  (Client.Delete (NewClusterRoleBindingForCR r.resources inst) w).2).1),
              (Client.Update (controllerutil.RemoveFinalizer inst cryostatFinalizer)
                  (Client.Delete (NewClusterRoleBindingForCR r.resources inst) w).2).2) := by
        have := hrem (Client.Delete (NewClusterRoleBindingForCR r.resources inst) w).2
        unfold Reconcile.finalize
        simp only [hdel, hfin, hos, if_true, run_bind, run_orReturn, deleteClusterRoleBinding, h1,
          run_pure, Bool.false_eq_true, if_false] at this ⊢
        exact this
      rw [hrun]
      refine ⟨rfl, ⟨.Delete, (NewClusterRoleBindingForCR r.resources inst).key,
            some (NewClusterRoleBindingForCR r.resources inst), none, w.objs⟩,
          ⟨.Update, inst.key, some (controllerutil.RemoveFinalizer inst cryostatFinalizer),
            errOf (Client.Update (controllerutil.RemoveFinalizer inst cryostatFinalizer)
                    (Client.Delete (NewClusterRoleBindingForCR r.resources inst) w).2).1,
            (Client.Delete (NewClusterRoleBindingForCR r.resources inst) w).2.objs⟩, ?_,
          ⟨rfl, rfl, rfl⟩, rfl, rfl, rfl, rfl⟩
      simp [Client.Update_log, Client.Delete_log, h1, errOf, controllerutil.RemoveFinalizer_key]

end Cryostat

namespace Cryostat

/-! ## Footprints by kind -/

/-- After the finalizer section the pass writes the instance only through its status, and
everything else it writes is of another kind. -/
theorem dependentTouches_kind (r : CryostatReconciler) (ns name : String) (minimal : Bool) :
    ∀ t ∈ dependentTouches r ns name minimal,
      (t.1 = .StatusUpdate ∧ t.2 = ⟨.Cryostat, ns, name⟩) ∨
      (t.1 ≠ .StatusUpdate ∧ t.2.kind ≠ .Cryostat) := by
  cases minimal <;> cases hos : r.IsOpenShift <;>
    simp [dependentTouches, servicesTouches, storageTouches, secretsTouches, createRBACTouches,
      grafanaTouches, createServiceTouches, deleteDeploymentTouches, deploymentTouches,
      statusTouches, consoleLinkTouches, hos, List.forall_mem_append]

/-- Up to the command channel Service the pass issues no status update and writes no
Cryostat object. -/
theorem servicesTouches_kind (r : CryostatReconciler) (ns name : String) (minimal : Bool) :
    ∀ t ∈ servicesTouches r ns name minimal, t.1 ≠ .StatusUpdate ∧ t.2.kind ≠ .Cryostat := by
  cases minimal <;> cases hos : r.IsOpenShift <;>
    simp [servicesTouches, storageTouches, secretsTouches, createRBACTouches,
      grafanaTouches, createServiceTouches, deleteDeploymentTouches, hos, List.forall_mem_append]

/-- The finalizer section writes the instance only by Update and otherwise deletes. -/
theorem finalizerTouches_kind (r : CryostatReconciler) (ns name : String) :
    ∀ t ∈ finalizerTouches r ns name,
      (t.1 = .Update ∧ t.2 = ⟨.Cryostat, ns, name⟩) ∨ (t.1 = .Delete ∧ t.2.kind ≠ .Cryostat) := by
  simp [finalizerTouches]

end Cryostat

namespace Cryostat

/-! ## The finalizer section -/

theorem Reconcile.finalize_keeps {I : World → Prop} (r : CryostatReconciler) (inst : Obj)
    (hk : inst.body.kind = .Cryostat)
    (hR : Respects (finalizerTouches r inst.meta.Namespace inst.meta.Name) I) :
    Keeps I (Reconcile.finalize r inst) := by
  unfold Reconcile.finalize
  split
  · apply keeps_bind
    · split
      · apply keeps_bind (keeps_orReturn (hR.delete _ (by
          simp [finalizerTouches, NewClusterRoleBindingForCR, Obj.key, Body.kind]))); intro _
        apply keeps_bind
        · split
          · exact keeps_orReturn (hR.delete _ (by
              simp [finalizerTouches, NewConsoleLink, Obj.key, Body.kind]))
          · exact keeps_pure _
        · intro _
          apply keeps_bind
          · apply keeps_orReturn
            unfold common.RemoveFinalizer
            apply keeps_bind (hR.update _ (by
              simp [finalizerTouches, controllerutil.RemoveFinalizer, Obj.key, hk])); intro _
            exact keeps_pure _
          · intro _; exact keeps_pure _
      · exact keeps_pure _
    · intro _; exact keeps_fail _
  · exact keeps_pure _

theorem Reconcile.addFinalizer_keeps {I : World → Prop} (r : CryostatReconciler) (inst : Obj)
    (hk : inst.body.kind = .Cryostat)
    (hR : Respects (finalizerTouches r inst.meta.Namespace inst.meta.Name) I) :
    Keeps I (Reconcile.addFinalizer inst) := by
  unfold Reconcile.addFinalizer
  split
  · apply keeps_orReturn
    unfold common.AddFinalizer
    apply keeps_bind (hR.update _ (by
      rw [controllerutil.AddFinalizer_key]; simp [finalizerTouches, Obj.key, hk])); intro _
    exact keeps_pure _
  · exact keeps_pure _

/-- The frame rule for the finalizer section. -/
theorem Reconcile.toFinalizer_frame {I : World → Prop} (r : CryostatReconciler)
    (request : NamespacedName) (w : World) (h0 : I w)
    (hR : Respects (finalizerTouches r request.Namespace request.Name) I) :
    I (Reconcile.toFinalizer r request w).2 := by
  unfold Reconcile.toFinalizer
  rw [run_bind]
  have hf : I (Reconcile.fetch request w).2 := by
    rw [Reconcile.fetch_world]; exact hR.get _ w h0
  cases h1 : (Reconcile.fetch request w).1 with
  | error e => exact hf
  | ok inst =>
    simp only
    have hk := (Client.Get_ok _ _ _ (Reconcile.fetch_ok _ _ _ h1)).2
    simp only [Obj.key, Key.mk.injEq] at hk
    have hR2 : Respects (finalizerTouches r inst.meta.Namespace inst.meta.Name) I := by
      rw [hk.2.1, hk.2.2]; exact hR
    exact keeps_bind (Reconcile.finalize_keeps r inst hk.1 hR2)
      (fun _ => Reconcile.addFinalizer_keeps r inst hk.1 hR2) _ hf

/-- On an instance that is not being deleted and carries the finalizer, the finalizer
section is the read alone. -/
theorem Reconcile.toFinalizer_of_present (r : CryostatReconciler) (request : NamespacedName)
    (w : World) (inst : Obj)
    (hget : (Client.Get ⟨.Cryostat, request.Namespace, request.Name⟩ w).1 = .ok inst)
    (hact : inst.meta.DeletionTimestamp = none)
    (hfin : ContainsFinalizer inst cryostatFinalizer = true) :
    Reconcile.toFinalizer r request w
      = (.ok inst, (Client.Get ⟨.Cryostat, request.Namespace, request.Name⟩ w).2) := by
  have hf : (Reconcile.fetch request w).1 = .ok inst := by
    unfold Reconcile.fetch
    rw [run_bind, run_attempt]
    simp only [hget, run_pure]
  unfold Reconcile.toFinalizer
  rw [bind_of_ok _ _ _ _ hf, Reconcile.fetch_world, run_bind,
    Reconcile.finalize_of_active r inst _ hact]
  simp only [Reconcile.addFinalizer, hfin, Bool.not_true, Bool.false_eq_true, if_false, run_pure]

/-- On an instance that is not being deleted and lacks the finalizer, the finalizer
section is the read followed by the Update that adds the finalizer. -/
theorem Reconcile.toFinalizer_of_absent (r : CryostatReconciler) (request : NamespacedName)
    (w : World) (inst : Obj)
    (hget : (Client.Get ⟨.Cryostat, request.Namespace, request.Name⟩ w).1 = .ok inst)
    (hact : inst.meta.DeletionTimestamp = none)
    (hfin : ContainsFinalizer inst cryostatFinalizer = false) :
    Reconcile.toFinalizer r request w
      = (match (Client.Update (controllerutil.AddFinalizer inst cryostatFinalizer)
            (Client.Get ⟨.Cryostat, request.Namespace, request.Name⟩ w).2).1 with
          | .ok _ => .ok (controllerutil.AddFinalizer inst cryostatFinalizer)
          | .error e => .error ({}, some e),
        (Client.Update (controllerutil.AddFinalizer inst cryostatFinalizer)
            (Client.Get ⟨.Cryostat, request.Namespace, request.Name⟩ w).2).2) := by
  have hf : (Reconcile.fetch request w).1 = .ok inst := by
    unfold Reconcile.fetch
    rw [run_bind, run_attempt]
    simp only [hget, run_pure]
  unfold Reconcile.toFinalizer
  rw [bind_of_ok _ _ _ _ hf, Reconcile.fetch_world, run_bind,
    Reconcile.finalize_of_active r inst _ hact]
  simp only [Reconcile.addFinalizer, hfin, Bool.not_false, if_true, run_orReturn,
    common.AddFinalizer, run_bind, run_pure]
  cases (Client.Update (controllerutil.AddFinalizer inst cryostatFinalizer)
      (Client.Get ⟨.Cryostat, request.Namespace, request.Name⟩ w).2).1 <;> rfl

/-! ## A section that ends the pass decides what `Reconcile` returns -/

theorem Reconcile.of_toCommand_error (r : CryostatReconciler) (request : NamespacedName)
    (w : World) (ret : Return) (h : (Reconcile.toCommand r request w).1 = .error ret) :
    Reconcile r request w = (ret, (Reconcile.toCommand r request w).2) := by
  have h6 : Reconcile.pass r request w = (.error ret, (Reconcile.toCommand r request w).2) := by
    unfold Reconcile.pass; rw [bind_of_error _ _ _ ret h]
  unfold Reconcile
  rw [h6]

theorem Reconcile.of_toCore_error (r : CryostatReconciler) (request : NamespacedName)
    (w : World) (ret : Return) (h : (Reconcile.toCore r request w).1 = .error ret) :
    Reconcile r request w = (ret, (Reconcile.toCore r request w).2) := by
  have h5 : Reconcile.toCommand r request w = (.error ret, (Reconcile.toCore r request w).2) := by
    unfold Reconcile.toCommand; rw [bind_of_error _ _ _ ret h]
  rw [Reconcile.of_toCommand_error r request w ret (by rw [h5]), h5]

theorem Reconcile.of_toGrafana_error (r : CryostatReconciler) (request : NamespacedName)
    (w : World) (ret : Return) (h : (Reconcile.toGrafana r request w).1 = .error ret) :
    Reconcile r request w = (ret, (Reconcile.toGrafana r request w).2) := by
  have h5 : Reconcile.toCore r request w = (.error ret, (Reconcile.toGrafana r request w).2) := by
    unfold Reconcile.toCore; rw [bind_of_error _ _ _ ret h]
  rw [Reconcile.of_toCore_error r request w ret (by rw [h5]), h5]

theorem Reconcile.of_toRBAC_error (r : CryostatReconciler) (request : NamespacedName)
    (w : World) (ret : Return) (h : (Reconcile.toRBAC r request w).1 = .error ret) :
    Reconcile r request w = (ret, (Reconcile.toRBAC r request w).2) := by
  have h5 : Reconcile.toGrafana r request w = (.error ret, (Reconcile.toRBAC r request w).2) := by
    unfold Reconcile.toGrafana; rw [bind_of_error _ _ _ ret h]
  rw [Reconcile.of_toGrafana_error r request w ret (by rw [h5]), h5]

theorem Reconcile.of_toSecrets_error (r : CryostatReconciler) (request : NamespacedName)
    (w : World) (ret : Return) (h : (Reconcile.toSecrets r request w).1 = .error ret) :
    Reconcile r request w = (ret, (Reconcile.toSecrets r request w).2) := by
  have h5 : Reconcile.toRBAC r request w = (.error ret, (Reconcile.toSecrets r request w).2) := by
    unfold Reconcile.toRBAC; rw [bind_of_error _ _ _ ret h]
  rw [Reconcile.of_toRBAC_error r request w ret (by rw [h5]), h5]

/-! ## Invariants that only speak of the trace -/

/-- A property of calls that every read has and every write of the footprint has is
respected by the footprint. -/
theorem respects_of_calls (T : List Touch) (n : Nat) (Q : Call → Prop)
    (hG : ∀ k e s, Q ⟨.Get, k, none, e, s⟩)
    (hW : ∀ v o e s, (v, o.key) ∈ T → Q ⟨v, o.key, some o, e, s⟩) :
    Respects T (Inv n (fun _ => True) Q) :=
  ⟨fun k => Client.Get_keeps n _ Q k (fun s e _ => hG k e s),
    fun o ho => Client.Create_keeps n _ Q o (fun s e _ => hW _ o e s ho) (fun _ _ _ => trivial),
    fun o ho => Client.Update_keeps n _ Q o (fun s e _ => hW _ o e s ho) (fun _ _ _ _ => trivial),
    fun o ho => Client.Delete_keeps n _ Q o (fun s e _ => hW _ o e s ho) (fun _ _ _ _ => trivial),
    fun o ho => Client.StatusUpdate_keeps n _ Q o (fun s e _ => hW _ o e s ho)
      (fun _ _ _ _ => trivial)⟩

theorem Inv_start (S : Store → Prop) (Q : Call → Prop) (w : World) (h : S w.objs) :
    Inv w.log.length S Q w :=
  ⟨h, by intro c hc; simp at hc⟩

end Cryostat

namespace Cryostat

/-! ## The trace only grows -/

theorem Client.call_extends {α : Type} (base : List Call) (verb : Verb) (key : Key)
    (obj : Option Obj) (sem : Store → Except Err (α × Store)) :
    Keeps (fun w => ∃ rest, w.log = base ++ rest) (Client.call verb key obj sem) := by
  intro w hw
  obtain ⟨rest, hrest⟩ := hw
  refine ⟨rest ++ [⟨verb, key, obj, errOf (Client.call verb key obj sem w).1, w.objs⟩], ?_⟩
  rw [Client.call_log, hrest, List.append_assoc]

theorem respects_extends (T : List Touch) (base : List Call) :
    Respects T (fun w => ∃ rest, w.log = base ++ rest) :=
  ⟨fun _ => Client.call_extends base _ _ _ _, fun _ _ => Client.call_extends base _ _ _ _,
    fun _ _ => Client.call_extends base _ _ _ _, fun _ _ => Client.call_extends base _ _ _ _,
    fun _ _ => Client.call_extends base _ _ _ _⟩

/-- What the pass has logged when the finalizer section is through stays in the trace. -/
theorem Reconcile.log_extends (r : CryostatReconciler) (request : NamespacedName) (w : World) :
    ∃ rest, (Reconcile r request w).2.log = (Reconcile.toFinalizer r request w).2.log ++ rest :=
  Reconcile.pass_frame r request w ⟨[], by simp⟩ (fun _ _ => respects_extends _ _)

/-! ## The finalizer stays on the stored instance -/

theorem Store.HasFinalizer_replaceStatus (s : Store) (key : Key) (o : Obj)
    (h : s.HasFinalizer key) : Store.HasFinalizer (s.replaceStatus o) key := by
  obtain ⟨x, hx, hf⟩ := h
  refine ⟨if x.key = o.key then x.withStatusOf o else x, ?_, ?_⟩
  · rw [Store.get?_replaceStatus, hx]; rfl
  · split
    · unfold ContainsFinalizer at hf ⊢
      rw [Obj.withStatusOf_meta]; exact hf
    · exact hf

/-- The writes after the finalizer section keep the finalizer on the stored instance, never
update the instance, and find the finalizer in place whenever they create something. -/
theorem respects_finalizer_kept (r : CryostatReconciler) (ns name : String) (minimal : Bool)
    (n : Nat) :
    Respects (dependentTouches r ns name minimal)
      (Inv n (fun s => s.HasFinalizer ⟨.Cryostat, ns, name⟩)
        (fun c => (c.verb = .Create → c.before.HasFinalizer ⟨.Cryostat, ns, name⟩) ∧
          ¬(c.verb = .Update ∧ c.key = ⟨.Cryostat, ns, name⟩))) := by
  have hkind := dependentTouches_kind r ns name minimal
  refine ⟨?_, ?_, ?_, ?_, ?_⟩
  · intro k
    exact Client.Get_keeps _ _ _ k (fun s e _ => ⟨(by intro h; cases h), (by intro h; cases h.1)⟩)
  · intro o ho
    refine Client.Create_keeps _ _ _ o
      (fun s e hs => ⟨fun _ => hs, (by intro h; cases h.1)⟩) ?_
    intro s hs _
    obtain ⟨x, hx, hf⟩ := hs
    exact ⟨x, Store.get?_append_of_some _ _ _ _ hx, hf⟩
  · intro o ho
    have hne : o.key ≠ ⟨.Cryostat, ns, name⟩ := by
      rcases hkind _ ho with h | h
      · cases h.1
      · intro hc; exact h.2 (by rw [hc])
    refine Client.Update_keeps _ _ _ o
      (fun s e hs => ⟨(by intro h; cases h), fun h => hne h.2⟩) ?_
    intro s x hs _
    obtain ⟨y, hy, hf⟩ := hs
    exact ⟨y, by rw [Store.get?_replace_ne _ _ _ hne]; exact hy, hf⟩
  · intro o ho
    have hne : o.key ≠ ⟨.Cryostat, ns, name⟩ := by
      rcases hkind _ ho with h | h
      · cases h.1
      · intro hc; exact h.2 (by rw [hc])
    refine Client.Delete_keeps _ _ _ o
      (fun s e hs => ⟨(by intro h; cases h), (by intro h; cases h.1)⟩) ?_
    intro s x hs _
    obtain ⟨y, hy, hf⟩ := hs
    exact ⟨y, by rw [Store.get?_remove_ne _ _ _ hne]; exact hy, hf⟩
  · intro o ho
    refine Client.StatusUpdate_keeps _ _ _ o
      (fun s e hs => ⟨(by intro h; cases h), (by intro h; cases h.1)⟩) ?_
    intro s x hs _
    exact Store.HasFinalizer_replaceStatus s _ o hs

end Cryostat

namespace Cryostat

/-! ## The claims -/

/-- C1: when the read of the instance returns NotFound, `Reconcile` returns the empty result
with a nil error; the read is the only call of the pass, so no Create, Update, Delete or
status update is issued and the store is left as it was. -/
theorem Reconcile_instance_not_found (r : CryostatReconciler) (request : NamespacedName)
    (w : World)
    (h : (Client.Get ⟨.Cryostat, request.Namespace, request.Name⟩ w).1 = .error .NotFound) :
    (Reconcile r request w).1 = ({ Requeue := false, RequeueAfter := 0 }, none) ∧
    (Reconcile r request w).2.objs = w.objs ∧
    (Reconcile r request w).2.log
      = w.log ++ [⟨.Get, ⟨.Cryostat, request.Namespace, request.Name⟩, none, some .NotFound, w.objs⟩] := by
  have hf : (Reconcile.fetch request w).1 = .error ({}, none) := by
    unfold Reconcile.fetch
    rw [run_bind, run_attempt]
    simp only [h, Err.IsNotFound, if_true, run_fail]
  have ht : (Reconcile.toFinalizer r request w).1 = .error ({}, none) := by
    unfold Reconcile.toFinalizer
    rw [bind_of_error _ _ _ _ hf]
  have hw : (Reconcile.toFinalizer r request w).2
      = (Client.Get ⟨.Cryostat, request.Namespace, request.Name⟩ w).2 := by
    unfold Reconcile.toFinalizer
    rw [bind_of_error _ _ _ _ hf, Reconcile.fetch_world]
  rw [Reconcile.of_toFinalizer_error r request w _ ht, hw]
  refine ⟨rfl, Client.Get_objs _ _, ?_⟩
  simp only [Client.Get_log, h, errOf]

/-- Witness for C1: a request for an instance that is not in the store. -/
theorem Reconcile_instance_not_found_witness :
    (Client.Get ⟨.Cryostat, "default", "does-not-exist"⟩ { objs := [test.NewNamespace] }).1
        = .error .NotFound ∧
    (Reconcile (test.reconciler true) ⟨"default", "does-not-exist"⟩
        { objs := [test.NewNamespace] }).1 = ({ Requeue := false, RequeueAfter := 0 }, none) :=
  ⟨by decide, (Reconcile_instance_not_found (test.reconciler true) ⟨"default", "does-not-exist"⟩
    { objs := [test.NewNamespace] } (by decide)).1⟩

/-- C2: for an instance that carries a deletion timestamp and the finalizer, the pass is the
read followed by one of four traces. Either the ClusterRoleBinding delete fails, or (on
OpenShift) it succeeds and the ConsoleLink delete fails: then `Reconcile` returns that
error, no Update is issued and the stored instance, finalizer included, is untouched. Or
both deletes (on OpenShift), respectively the one delete (elsewhere), have succeeded and
only then the Update that removes the finalizer follows. -/
theorem Reconcile_removes_finalizer_after_cleanup (r : CryostatReconciler)
    (request : NamespacedName) (w : World) (inst : Obj)
    (hget : (Client.Get ⟨.Cryostat, request.Namespace, request.Name⟩ w).1 = .ok inst)
    (hdel : inst.meta.DeletionTimestamp.isSome = true)
    (hfin : ContainsFinalizer inst cryostatFinalizer = true) :
    ∃ g : Call, g.is .Get ⟨.Cryostat, request.Namespace, request.Name⟩ none ∧
    ((∃ d e, (Reconcile r request w).2.log = w.log ++ [g, d] ∧
        d.is .Delete (NewClusterRoleBindingForCR r.resources inst).key (some e) ∧
        (Reconcile r request w).1 = ({ Requeue := false, RequeueAfter := 0 }, some e) ∧
        (Reconcile r request w).2.objs.get? ⟨.Cryostat, request.Namespace, request.Name⟩
          = some inst) ∨
    (r.IsOpenShift = true ∧ ∃ d1 d2 e, (Reconcile r request w).2.log = w.log ++ [g, d1, d2] ∧
        d1.is .Delete (NewClusterRoleBindingForCR r.resources inst).key none ∧
        d2.is .Delete (NewConsoleLink r.resources inst "").key (some e) ∧
        (Reconcile r request w).1 = ({ Requeue := false, RequeueAfter := 0 }, some e) ∧
        (Reconcile r request w).2.objs.get? ⟨.Cryostat, request.Namespace, request.Name⟩
          = some inst) ∨
    (r.IsOpenShift = true ∧ ∃ d1 d2 u, (Reconcile r request w).2.log = w.log ++ [g, d1, d2, u] ∧
        d1.is .Delete (NewClusterRoleBindingForCR r.resources inst).key none ∧
        d2.is .Delete (NewConsoleLink r.resources inst "").key none ∧
        u.verb = .Update ∧ u.key = ⟨.Cryostat, request.Namespace, request.Name⟩ ∧
        u.obj = some (controllerutil.RemoveFinalizer inst cryostatFinalizer) ∧
        (Reconcile r request w).1 = ({ Requeue := false, RequeueAfter := 0 }, u.err)) ∨
    (r.IsOpenShift = false ∧ ∃ d1 u, (Reconcile r request w).2.log = w.log ++ [g, d1, u] ∧
        d1.is .Delete (NewClusterRoleBindingForCR r.resources inst).key none ∧
        u.verb = .Update ∧ u.key = ⟨.Cryostat, request.Namespace, request.Name⟩ ∧
        u.obj = some (controllerutil.RemoveFinalizer inst cryostatFinalizer) ∧
        (Reconcile r request w).1 = ({ Requeue := false, RequeueAfter := 0 }, u.err))) := by
  obtain ⟨ret, hrun, hret⟩ := Reconcile.of_deleting r request w inst hget hdel
  have hk := (Client.Get_ok _ _ _ hget).2
  have hs := (Client.Get_ok _ _ _ hget).1
  have hlog := Client.Get_log ⟨.Cryostat, request.Namespace, request.Name⟩ w
  have hobjs := Client.Get_objs ⟨.Cryostat, request.Namespace, request.Name⟩ w
  have hw2 : (Reconcile r request w).2
      = (Reconcile.finalize r inst (Client.Get ⟨.Cryostat, request.Namespace, request.Name⟩ w).2).2 := by
    rw [hrun]
  have hr1 : (Reconcile.finalize r inst (Client.Get ⟨.Cryostat, request.Namespace, request.Name⟩ w).2).1
      = .error (Reconcile r request w).1 := by
    rw [hrun, hret]
  refine ⟨⟨.Get, ⟨.Cryostat, request.Namespace, request.Name⟩, none, none, w.objs⟩,
    ⟨rfl, rfl, rfl⟩, ?_⟩
  rw [hget] at hlog
  rcases Reconcile.finalize_trace r inst _ hdel hfin with
    ⟨d, e, h1, h2, h3, h4⟩ | ⟨hos, d1, d2, e, h1, h2, h3, h4, h5⟩ |
    ⟨hos, d1, d2, u, h1, h2, h3, h4, h5, h6, h7⟩ | ⟨hos, d1, u, h1, h2, h4, h5, h6, h7⟩
  · left
    refine ⟨d, e, ?_, h2, ?_, ?_⟩
    · rw [hw2, h1, hlog]; simp [errOf]
    · rw [hr1] at h3; simpa using h3
    · rw [hw2, h4 _ rfl, hobjs, hs]
  · right; left
    refine ⟨hos, d1, d2, e, ?_, h2, h3, ?_, ?_⟩
    · rw [hw2, h1, hlog]; simp [errOf]
    · rw [hr1] at h4; simpa using h4
    · rw [hw2, h5 _ rfl, hobjs, hs]
  · right; right; left
    refine ⟨hos, d1, d2, u, ?_, h2, h3, h4, by rw [h5, hk], h6, ?_⟩
    · rw [hw2, h1, hlog]; simp [errOf]
    · rw [hr1] at h7; simpa using h7
  · right; right; right
    refine ⟨hos, d1, u, ?_, h2, h4, by rw [h5, hk], h6, ?_⟩
    · rw [hw2, h1, hlog]; simp [errOf]
    · rw [hr1] at h7; simpa using h7

end Cryostat

namespace Cryostat

/-- Witness for C2: the example instance, deletion requested and finalizer present, on a
plain Kubernetes cluster that holds its ClusterRoleBinding. -/
theorem Reconcile_removes_finalizer_after_cleanup_witness :
    (Client.Get ⟨.Cryostat, test.request.Namespace, test.request.Name⟩
        { objs := [test.NewCryostatDeleting, test.NewClusterRoleBinding] }).1
      = .ok test.NewCryostatDeleting ∧
    test.NewCryostatDeleting.meta.DeletionTimestamp.isSome = true ∧
    ContainsFinalizer test.NewCryostatDeleting cryostatFinalizer = true ∧
    ∃ g : Call, g.is .Get ⟨.Cryostat, test.request.Namespace, test.request.Name⟩ none ∧
    ((∃ d e, (Reconcile (test.reconciler false) test.request
          { objs := [test.NewCryostatDeleting, test.NewClusterRoleBinding] }).2.log
            = ([] : List Call) ++ [g, d] ∧
        d.is .Delete (NewClusterRoleBindingForCR (test.reconciler false).resources
          test.NewCryostatDeleting).key (some e) ∧
        (Reconcile (test.reconciler false) test.request
          { objs := [test.NewCryostatDeleting, test.NewClusterRoleBinding] }).1
            = ({ Requeue := false, RequeueAfter := 0 }, some e) ∧
        (Reconcile (test.reconciler false) test.request
          { objs := [test.NewCryostatDeleting, test.NewClusterRoleBinding] }).2.objs.get?
            ⟨.Cryostat, test.request.Namespace, test.request.Name⟩ = some test.NewCryostatDeleting) ∨
    ((test.reconciler false).IsOpenShift = true ∧ ∃ d1 d2 e,
        (Reconcile (test.reconciler false) test.request
          { objs := [test.NewCryostatDeleting, test.NewClusterRoleBinding] }).2.log
            = ([] : List Call) ++ [g, d1, d2] ∧
        d1.is .Delete (NewClusterRoleBindingForCR (test.reconciler false).resources
          test.NewCryostatDeleting).key none ∧
        d2.is .Delete (NewConsoleLink (test.reconciler false).resources
          test.NewCryostatDeleting "").key (some e) ∧
        (Reconcile (test.reconciler false) test.request
          { objs := [test.NewCryostatDeleting, test.NewClusterRoleBinding] }).1
            = ({ Requeue := false, RequeueAfter := 0 }, some e) ∧
        (Reconcile (test.reconciler false) test.request
          { objs := [test.NewCryostatDeleting, test.NewClusterRoleBinding] }).2.objs.get?
            ⟨.Cryostat, test.request.Namespace, test.request.Name⟩ = some test.NewCryostatDeleting) ∨
    ((test.reconciler false).IsOpenShift = true ∧ ∃ d1 d2 u,
        (Reconcile (test.reconciler false) test.request
          { objs := [test.NewCryostatDeleting, test.NewClusterRoleBinding] }).2.log
            = ([] : List Call) ++ [g, d1, d2, u] ∧
        d1.is .Delete (NewClusterRoleBindingForCR (test.reconciler false).resources
          test.NewCryostatDeleting).key none ∧
        d2.is .Delete (NewConsoleLink (test.reconciler false).resources
          test.NewCryostatDeleting "").key none ∧
        u.verb = .Update ∧ u.key = ⟨.Cryostat, test.request.Namespace, test.request.Name⟩ ∧
        u.obj = some (controllerutil.RemoveFinalizer test.NewCryostatDeleting cryostatFinalizer) ∧
        (Reconcile (test.reconciler false) test.request
          { objs := [test.NewCryostatDeleting, test.NewClusterRoleBinding] }).1
            = ({ Requeue := false, RequeueAfter := 0 }, u.err)) ∨
    ((test.reconciler false).IsOpenShift = false ∧ ∃ d1 u,
        (Reconcile (test.reconciler false) test.request
          { objs := [test.NewCryostatDeleting, test.NewClusterRoleBinding] }).2.log
            = ([] : List Call) ++ [g, d1, u] ∧
        d1.is .Delete (NewClusterRoleBindingForCR (test.reconciler false).resources
          test.NewCryostatDeleting).key none ∧
        u.verb = .Update ∧ u.key = ⟨.Cryostat, test.request.Namespace, test.request.Name⟩ ∧
        u.obj = some (controllerutil.RemoveFinalizer test.NewCryostatDeleting cryostatFinalizer) ∧
        (Reconcile (test.reconciler false) test.request
          { objs := [test.NewCryostatDeleting, test.NewClusterRoleBinding] }).1
            = ({ Requeue := false, RequeueAfter := 0 }, u.err))) :=
  ⟨by decide, by decide, by decide,
    Reconcile_removes_finalizer_after_cleanup (test.reconciler false) test.request
      { objs := [test.NewCryostatDeleting, test.NewClusterRoleBinding] } test.NewCryostatDeleting
      (by decide) (by decide) (by decide)⟩

/-- C3, evaluated where it fails: the example instance carries a deletion timestamp and the
finalizer, and its ClusterRoleBinding is already absent. The delete returns NotFound, which
`deleteClusterRoleBinding` hands on: `Reconcile` returns NotFound, issues no Update, and the
stored instance keeps its finalizer. -/
theorem Reconcile_absent_binding_blocks_finalizer :
    (Reconcile (test.reconciler false) test.request { objs := [test.NewCryostatDeleting] }).1
      = ({ Requeue := false, RequeueAfter := 0 }, some .NotFound) ∧
    (Reconcile (test.reconciler false) test.request { objs := [test.NewCryostatDeleting] }).2.log.map
        (fun c => (c.verb, c.key.kind, c.err))
      = [(.Get, .Cryostat, none), (.Delete, .ClusterRoleBinding, some .NotFound)] ∧
    (Reconcile (test.reconciler false) test.request { objs := [test.NewCryostatDeleting] }).2.objs
      = [test.NewCryostatDeleting] ∧
    ContainsFinalizer test.NewCryostatDeleting cryostatFinalizer = true := by
  decide

/-- C4: for an instance that carries a deletion timestamp, every call after the read is the
ClusterRoleBinding delete, the ConsoleLink delete (on OpenShift only), or the Update of the
instance that removes the finalizer; so no Create, no Update of a dependent object and no
status update is issued. When the finalizer is already absent nothing follows the read, the
store is unchanged, and `Reconcile` returns the empty result with a nil error. -/
theorem Reconcile_deleting_only_cleans_up (r : CryostatReconciler) (request : NamespacedName)
    (w : World) (inst : Obj)
    (hget : (Client.Get ⟨.Cryostat, request.Namespace, request.Name⟩ w).1 = .ok inst)
    (hdel : inst.meta.DeletionTimestamp.isSome = true) :
    ∃ rest, (Reconcile r request w).2.log
        = w.log ++ ⟨.Get, ⟨.Cryostat, request.Namespace, request.Name⟩, none, none, w.objs⟩ :: rest ∧
      (∀ c ∈ rest,
        (c.verb = .Delete ∧ c.key = (NewClusterRoleBindingForCR r.resources inst).key) ∨
        (r.IsOpenShift = true ∧ c.verb = .Delete ∧
          c.key = (NewConsoleLink r.resources inst "").key) ∨
        (c.verb = .Update ∧ c.key = ⟨.Cryostat, request.Namespace, request.Name⟩ ∧
          c.obj = some (controllerutil.RemoveFinalizer inst cryostatFinalizer))) ∧
      (ContainsFinalizer inst cryostatFinalizer = false →
        rest = [] ∧ (Reconcile r request w).2.objs = w.objs ∧
        (Reconcile r request w).1 = ({ Requeue := false, RequeueAfter := 0 }, none)) := by
  obtain ⟨ret, hrun, hret⟩ := Reconcile.of_deleting r request w inst hget hdel
  have hk := (Client.Get_ok _ _ _ hget).2
  have hlog := Client.Get_log ⟨.Cryostat, request.Namespace, request.Name⟩ w
  have hobjs := Client.Get_objs ⟨.Cryostat, request.Namespace, request.Name⟩ w
  have hw2 : (Reconcile r request w).2
      = (Reconcile.finalize r inst (Client.Get ⟨.Cryostat, request.Namespace, request.Name⟩ w).2).2 := by
    rw [hrun]
  have hr1 : (Reconcile.finalize r inst (Client.Get ⟨.Cryostat, request.Namespace, request.Name⟩ w).2).1
      = .error (Reconcile r request w).1 := by
    rw [hrun, hret]
  rw [hget] at hlog
  simp only [errOf] at hlog
  cases hfin : ContainsFinalizer inst cryostatFinalizer with
  | false =>
    have hf : Reconcile.finalize r inst (Client.Get ⟨.Cryostat, request.Namespace, request.Name⟩ w).2
        = (.error ({}, none), (Client.Get ⟨.Cryostat, request.Namespace, request.Name⟩ w).2) := by
      unfold Reconcile.finalize
      simp only [hdel, hfin, if_true, Bool.false_eq_true, if_false, run_bind, run_pure, run_fail]
    refine ⟨[], ?_, ?_, ?_⟩
    · rw [hw2, hf, hlog]
    · intro c hc; cases hc
    · intro _
      refine ⟨rfl, by rw [hw2, hf, hobjs], ?_⟩
      rw [hf] at hr1
      simpa using hr1.symm
  | true =>
    rcases Reconcile.finalize_trace r inst _ hdel hfin with
      ⟨d, e, h1, h2, h3, h4⟩ | ⟨hos, d1, d2, e, h1, h2, h3, h4, h5⟩ |
      ⟨hos, d1, d2, u, h1, h2, h3, h4, h5, h6, h7⟩ | ⟨hos, d1, u, h1, h2, h4, h5, h6, h7⟩
    · refine ⟨[d], ?_, ?_, by intro hc; cases hc⟩
      · rw [hw2, h1, hlog]; simp
      · intro c hc
        simp only [List.mem_singleton] at hc
        subst hc
        exact Or.inl ⟨h2.1, h2.2.1⟩
    · refine ⟨[d1, d2], ?_, ?_, by intro hc; cases hc⟩
      · rw [hw2, h1, hlog]; simp
      · intro c hc
        simp only [List.mem_cons, List.mem_singleton, List.not_mem_nil, or_false] at hc
        rcases hc with hc | hc <;> subst hc
        · exact Or.inl ⟨h2.1, h2.2.1⟩
        · exact Or.inr (Or.inl ⟨hos, h3.1, h3.2.1⟩)
    · refine ⟨[d1, d2, u], ?_, ?_, by intro hc; cases hc⟩
      · rw [hw2, h1, hlog]; simp
      · intro c hc
        simp only [List.mem_cons, List.mem_singleton, List.not_mem_nil, or_false] at hc
        rcases hc with hc | hc | hc <;> subst hc
        · exact Or.inl ⟨h2.1, h2.2.1⟩
        · exact Or.inr (Or.inl ⟨hos, h3.1, h3.2.1⟩)
        · exact Or.inr (Or.inr ⟨h4, by rw [h5, hk], h6⟩)
    · refine ⟨[d1, u], ?_, ?_, by intro hc; cases hc⟩
      · rw [hw2, h1, hlog]; simp
      · intro c hc
        simp only [List.mem_cons, List.mem_singleton, List.not_mem_nil, or_false] at hc
        rcases hc with hc | hc <;> subst hc
        · exact Or.inl ⟨h2.1, h2.2.1⟩
        · exact Or.inr (Or.inr ⟨h4, by rw [h5, hk], h6⟩)

/-- Witness for C4: the example instance on OpenShift, deletion requested, finalizer gone. -/
theorem Reconcile_deleting_only_cleans_up_witness :
    (Client.Get ⟨.Cryostat, test.request.Namespace, test.request.Name⟩
        { objs := [test.NewCryostatDeleted, test.NewClusterRoleBinding] }).1
      = .ok test.NewCryostatDeleted ∧
    test.NewCryostatDeleted.meta.DeletionTimestamp.isSome = true ∧
    (Reconcile (test.reconciler true) test.request
        { objs := [test.NewCryostatDeleted, test.NewClusterRoleBinding] }).2.objs
      = [test.NewCryostatDeleted, test.NewClusterRoleBinding] ∧
    (Reconcile (test.reconciler true) test.request
        { objs := [test.NewCryostatDeleted, test.NewClusterRoleBinding] }).1
      = ({ Requeue := false, RequeueAfter := 0 }, none) := by
  obtain ⟨rest, _, _, h⟩ := Reconcile_deleting_only_cleans_up (test.reconciler true) test.request
    { objs := [test.NewCryostatDeleted, test.NewClusterRoleBinding] } test.NewCryostatDeleted
    (by decide) (by decide)
  exact ⟨by decide, by decide, (h (by decide)).2.1, (h (by decide)).2.2⟩

end Cryostat

namespace Cryostat

/-- C6: `createObjectIfNotExists` is create-if-absent only. If the read succeeds it returns
nil, the read is its only call and the store is unchanged, whatever the stored object.
If the read returns NotFound it issues exactly one Create, of the desired object, and
returns what that Create returns; the store gains the object exactly when the Create
succeeds. On any other read error it returns that error after the read alone. Every call
it issues is a Get or a Create. -/
theorem createObjectIfNotExists_only_creates (ns : NamespacedName) (found : Kind)
    (toCreate : Obj) (w : World) :
    (∀ o, (Client.Get ⟨found, ns.Namespace, ns.Name⟩ w).1 = .ok o →
      (createObjectIfNotExists ns found toCreate w).1 = .ok () ∧
      (createObjectIfNotExists ns found toCreate w).2.objs = w.objs ∧
      (createObjectIfNotExists ns found toCreate w).2.log
        = w.log ++ [⟨.Get, ⟨found, ns.Namespace, ns.Name⟩, none, none, w.objs⟩]) ∧
    ((Client.Get ⟨found, ns.Namespace, ns.Name⟩ w).1 = .error .NotFound →
      (createObjectIfNotExists ns found toCreate w).2.log
        = w.log ++ [⟨.Get, ⟨found, ns.Namespace, ns.Name⟩, none, some .NotFound, w.objs⟩,
            ⟨.Create, toCreate.key, some toCreate,
              errOf (createObjectIfNotExists ns found toCreate w).1, w.objs⟩] ∧
      ((createObjectIfNotExists ns found toCreate w).1 = .ok () →
        (createObjectIfNotExists ns found toCreate w).2.objs = w.objs ++ [toCreate]) ∧
      (∀ e, (createObjectIfNotExists ns found toCreate w).1 = .error e →
        (createObjectIfNotExists ns found toCreate w).2.objs = w.objs)) ∧
    (∀ e, (Client.Get ⟨found, ns.Namespace, ns.Name⟩ w).1 = .error e → e ≠ .NotFound →
      (createObjectIfNotExists ns found toCreate w).1 = .error e ∧
      (createObjectIfNotExists ns found toCreate w).2.objs = w.objs ∧
      (createObjectIfNotExists ns found toCreate w).2.log
        = w.log ++ [⟨.Get, ⟨found, ns.Namespace, ns.Name⟩, none, some e, w.objs⟩]) ∧
    (∀ c ∈ (createObjectIfNotExists ns found toCreate w).2.callsSince w,
      c.verb = .Get ∨ (c.verb = .Create ∧ c.obj = some toCreate)) := by
  have hlog := Client.Get_log ⟨found, ns.Namespace, ns.Name⟩ w
  have hobjs := Client.Get_objs ⟨found, ns.Namespace, ns.Name⟩ w
  have hok : ∀ o, (Client.Get ⟨found, ns.Namespace, ns.Name⟩ w).1 = .ok o →
      createObjectIfNotExists ns found toCreate w
        = (.ok (), (Client.Get ⟨found, ns.Namespace, ns.Name⟩ w).2) := by
    intro o h
    unfold createObjectIfNotExists
    rw [run_bind, run_attempt]
    simp only [h, run_pure]
  have hnf : (Client.Get ⟨found, ns.Namespace, ns.Name⟩ w).1 = .error .NotFound →
      createObjectIfNotExists ns found toCreate w
        = Client.Create toCreate (Client.Get ⟨found, ns.Namespace, ns.Name⟩ w).2 := by
    intro h
    unfold createObjectIfNotExists
    rw [run_bind, run_attempt]
    simp only [h, Err.IsNotFound, if_true]
  have herr : ∀ e, (Client.Get ⟨found, ns.Namespace, ns.Name⟩ w).1 = .error e → e ≠ .NotFound →
      createObjectIfNotExists ns found toCreate w
        = (.error e, (Client.Get ⟨found, ns.Namespace, ns.Name⟩ w).2) := by
    intro e h hne
    unfold createObjectIfNotExists
    rw [run_bind, run_attempt]
    have : e.IsNotFound = false := by cases e <;> first | rfl | exact absurd rfl hne
    simp only [h, this, Bool.false_eq_true, if_false, run_fail]
  refine ⟨?_, ?_, ?_, ?_⟩
  · intro o h
    rw [hok o h]
    refine ⟨rfl, hobjs, ?_⟩
    rw [hlog, h]; rfl
  · intro h
    rw [hnf h]
    refine ⟨?_, ?_, ?_⟩
    · rw [Client.Create_log, hlog, h, hobjs]; simp [errOf]
    · intro hc
      have h2 := (Client.call_ok _ _ _ _ _ _ hc).2
      split at h2
      · cases h2
      · simp only [Except.ok.injEq, Prod.mk.injEq, true_and] at h2
        rw [Client.Create, ← h2, hobjs]
    · intro e hc
      rw [Client.Create_objs_of_error _ _ e hc, hobjs]
  · intro e h hne
    rw [herr e h hne]
    refine ⟨rfl, hobjs, ?_⟩
    rw [hlog, h]; rfl
  · intro c hc
    unfold World.callsSince at hc
    cases hg : (Client.Get ⟨found, ns.Namespace, ns.Name⟩ w).1 with
    | ok o =>
      rw [hok o hg, hlog] at hc
      simp at hc
      left; rw [hc]
    | error e =>
      by_cases hne : e = .NotFound
      · subst hne
        rw [hnf hg, Client.Create_log, hlog] at hc
        simp at hc
        rcases hc with hc | hc
        · left; rw [hc]
        · right; rw [hc]; exact ⟨rfl, rfl⟩
      · rw [herr e hg hne, hlog] at hc
        simp at hc
        left; rw [hc]

/-- Witness for C6: an existing PersistentVolumeClaim that differs from the desired one is
read and left alone. -/
theorem createObjectIfNotExists_only_creates_witness :
    (createObjectIfNotExists ⟨"default", "cryostat"⟩ .PersistentVolumeClaim
        (NewPersistentVolumeClaimForCR test.resources test.NewCryostat)
        { objs := [test.NewCustomPVC] }).1 = .ok () ∧
    (createObjectIfNotExists ⟨"default", "cryostat"⟩ .PersistentVolumeClaim
        (NewPersistentVolumeClaimForCR test.resources test.NewCryostat)
        { objs := [test.NewCustomPVC] }).2.objs = [test.NewCustomPVC] ∧
    NewPersistentVolumeClaimForCR test.resources test.NewCryostat ≠ test.NewCustomPVC :=
  ⟨((createObjectIfNotExists_only_creates ⟨"default", "cryostat"⟩ .PersistentVolumeClaim
      (NewPersistentVolumeClaimForCR test.resources test.NewCryostat)
      { objs := [test.NewCustomPVC] }).1 test.NewCustomPVC (by decide)).1,
   ((createObjectIfNotExists_only_creates ⟨"default", "cryostat"⟩ .PersistentVolumeClaim
      (NewPersistentVolumeClaimForCR test.resources test.NewCryostat)
      { objs := [test.NewCustomPVC] }).1 test.NewCustomPVC (by decide)).2.1,
   by decide⟩

end Cryostat

namespace Cryostat

/-- C5: for an instance without a deletion timestamp. If it carries the finalizer, no
Update of the instance is issued in the pass. If it lacks the finalizer, the call right
after the read is the Update that adds it, no further Update of the instance follows, and
if that Update fails nothing follows at all: the pass returns its error, having created
nothing. Every Create of the pass is issued against a store in which the instance carries
the finalizer. -/
theorem Reconcile_finalizer_before_dependents (r : CryostatReconciler)
    (request : NamespacedName) (w : World) (inst : Obj)
    (hget : (Client.Get ⟨.Cryostat, request.Namespace, request.Name⟩ w).1 = .ok inst)
    (hact : inst.meta.DeletionTimestamp = none) :
    (ContainsFinalizer inst cryostatFinalizer = true →
      ∀ c ∈ (Reconcile r request w).2.callsSince w,
        ¬(c.verb = .Update ∧ c.key = ⟨.Cryostat, request.Namespace, request.Name⟩)) ∧
    (ContainsFinalizer inst cryostatFinalizer = false →
      ∃ u rest, (Reconcile r request w).2.log
          = w.log ++ ⟨.Get, ⟨.Cryostat, request.Namespace, request.Name⟩, none, none, w.objs⟩
              :: u :: rest ∧
        u.verb = .Update ∧ u.key = ⟨.Cryostat, request.Namespace, request.Name⟩ ∧
        u.obj = some (controllerutil.AddFinalizer inst cryostatFinalizer) ∧
        (∀ e, u.err = some e →
          rest = [] ∧ (Reconcile r request w).1 = ({ Requeue := false, RequeueAfter := 0 }, some e)) ∧
        ∀ c ∈ rest, ¬(c.verb = .Update ∧ c.key = ⟨.Cryostat, request.Namespace, request.Name⟩)) ∧
    (∀ c ∈ (Reconcile r request w).2.callsSince w,
      c.verb = .Create → c.before.HasFinalizer ⟨.Cryostat, request.Namespace, request.Name⟩) := by
  have hk := (Client.Get_ok _ _ _ hget).2
  have hs := (Client.Get_ok _ _ _ hget).1
  have hlog := Client.Get_log ⟨.Cryostat, request.Namespace, request.Name⟩ w
  have hobjs := Client.Get_objs ⟨.Cryostat, request.Namespace, request.Name⟩ w
  rw [hget] at hlog
  simp only [errOf] at hlog
  have hR : ∀ n i, (Reconcile.toFinalizer r request w).1 = .ok i →
      Respects (dependentTouches r i.meta.Namespace i.meta.Name i.Spec.Minimal)
        (Inv n (fun s => s.HasFinalizer ⟨.Cryostat, request.Namespace, request.Name⟩)
          (fun c =>
            (c.verb = .Create → c.before.HasFinalizer ⟨.Cryostat, request.Namespace, request.Name⟩) ∧
            ¬(c.verb = .Update ∧ c.key = ⟨.Cryostat, request.Namespace, request.Name⟩))) := by
    intro n i hi
    obtain ⟨h1, h2, _⟩ := Reconcile.toFinalizer_inst r request w i hi
    have := respects_finalizer_kept r i.meta.Namespace i.meta.Name i.Spec.Minimal n
    rw [h1, h2] at this ⊢
    exact this
  cases hfin : ContainsFinalizer inst cryostatFinalizer with
  | true =>
    have ht := Reconcile.toFinalizer_of_present r request w inst hget hact hfin
    have h0 : Inv w.log.length (fun s => s.HasFinalizer ⟨.Cryostat, request.Namespace, request.Name⟩)
        (fun c =>
          (c.verb = .Create → c.before.HasFinalizer ⟨.Cryostat, request.Namespace, request.Name⟩) ∧
          ¬(c.verb = .Update ∧ c.key = ⟨.Cryostat, request.Namespace, request.Name⟩))
        (Reconcile.toFinalizer r request w).2 := by
      rw [ht]
      exact Client.Get_keeps _ _ _ _ (fun s e _ => ⟨(by intro h; cases h), (by intro h; cases h.1)⟩)
        w (Inv_start _ _ w ⟨inst, hs, hfin⟩)
    have hfinal := Reconcile.pass_frame r request w h0 (hR _)
    refine ⟨fun _ c hc => (hfinal.2 c hc).2, (by intro h; cases h), fun c hc => (hfinal.2 c hc).1⟩
  | false =>
    have ht := Reconcile.toFinalizer_of_absent r request w inst hget hact hfin
    have hulog := Client.Update_log (controllerutil.AddFinalizer inst cryostatFinalizer)
      (Client.Get ⟨.Cryostat, request.Namespace, request.Name⟩ w).2
    rw [hlog, hobjs, controllerutil.AddFinalizer_key, hk] at hulog
    cases hu : (Client.Update (controllerutil.AddFinalizer inst cryostatFinalizer)
        (Client.Get ⟨.Cryostat, request.Namespace, request.Name⟩ w).2).1 with
    | error e =>
      rw [hu] at ht hulog
      simp only [errOf] at hulog
      have hrun := Reconcile.of_toFinalizer_error r request w ({}, some e) (by rw [ht])
      rw [ht] at hrun
      simp only at hrun
      have hl : (Reconcile r request w).2.log
          = w.log ++ ⟨.Get, ⟨.Cryostat, request.Namespace, request.Name⟩, none, none, w.objs⟩
              :: ⟨.Update, ⟨.Cryostat, request.Namespace, request.Name⟩,
                  some (controllerutil.AddFinalizer inst cryostatFinalizer), some e, w.objs⟩ :: [] := by
        rw [hrun, hulog]; simp
      refine ⟨(by intro h; cases h), fun _ => ⟨_, [], hl, rfl, rfl, rfl, ?_, ?_⟩, ?_⟩
      · intro e2 he2
        simp only [Option.some.injEq] at he2
        subst he2
        exact ⟨rfl, by rw [hrun]⟩
      · intro c hc; cases hc
      · intro c hc hv
        unfold World.callsSince at hc
        rw [hl] at hc
        simp at hc
        rcases hc with hc | hc <;> rw [hc] at hv <;> cases hv
    | ok u0 =>
      rw [hu] at ht hulog
      simp only [errOf] at hulog
      have hstore : (Client.Update (controllerutil.AddFinalizer inst cryostatFinalizer)
          (Client.Get ⟨.Cryostat, request.Namespace, request.Name⟩ w).2).2.objs.HasFinalizer
            ⟨.Cryostat, request.Namespace, request.Name⟩ := by
        have h2 := (Client.call_ok _ _ _ _ _ _ hu).2
        split at h2
        · rename_i x hx
          simp only [Except.ok.injEq, Prod.mk.injEq, true_and] at h2
          refine ⟨controllerutil.AddFinalizer inst cryostatFinalizer, ?_,
            controllerutil.AddFinalizer_contains _ _⟩
          rw [Client.Update, ← h2]
          have := Store.get?_replace_self _ _ _ hx
          rw [controllerutil.AddFinalizer_key, hk] at this
          exact this
        · cases h2
      have h0 : Inv (w.log.length + 2)
          (fun s => s.HasFinalizer ⟨.Cryostat, request.Namespace, request.Name⟩)
          (fun c =>
            (c.verb = .Create → c.before.HasFinalizer ⟨.Cryostat, request.Namespace, request.Name⟩) ∧
            ¬(c.verb = .Update ∧ c.key = ⟨.Cryostat, request.Namespace, request.Name⟩))
          (Reconcile.toFinalizer r request w).2 := by
        rw [ht]
        refine ⟨hstore, ?_⟩
        intro c hc
        simp only [hulog] at hc
        simp at hc
      have hfinal := Reconcile.pass_frame r request w h0 (hR _)
      obtain ⟨rest, hrest⟩ := Reconcile.log_extends r request w
      rw [ht] at hrest
      simp only [hulog] at hrest
      have hl : (Reconcile r request w).2.log
          = w.log ++ ⟨.Get, ⟨.Cryostat, request.Namespace, request.Name⟩, none, none, w.objs⟩
              :: ⟨.Update, ⟨.Cryostat, request.Namespace, request.Name⟩,
                  some (controllerutil.AddFinalizer inst cryostatFinalizer), none, w.objs⟩ :: rest := by
        rw [hrest]; simp
      have hdrop : (Reconcile r request w).2.log.drop (w.log.length + 2) = rest := by
        rw [hl]
        rw [List.drop_append_eq_append_drop]
        simp
      have hrestQ := hfinal.2
      rw [hdrop] at hrestQ
      refine ⟨(by intro h; cases h), fun _ => ⟨_, rest, hl, rfl, rfl, rfl, ?_, ?_⟩, ?_⟩
      · intro e2 he2; cases he2
      · intro c hc; exact (hrestQ c hc).2
      · intro c hc hv
        unfold World.callsSince at hc
        rw [hl] at hc
        simp at hc
        rcases hc with hc | hc | hc
        · rw [hc] at hv; cases hv
        · rw [hc] at hv; cases hv
        · exact (hrestQ c hc).1 hv

end Cryostat

namespace Cryostat

/-- Witness for C5: the example instance, fresh, on a plain Kubernetes cluster. -/
theorem Reconcile_finalizer_before_dependents_witness :
    (Client.Get ⟨.Cryostat, test.request.Namespace, test.request.Name⟩
        { objs := [test.NewCryostat] }).1 = .ok test.NewCryostat ∧
    test.NewCryostat.meta.DeletionTimestamp = none ∧
    (∀ c ∈ (Reconcile (test.reconciler false) test.request
        { objs := [test.NewCryostat] }).2.callsSince { objs := [test.NewCryostat] },
      c.verb = .Create →
        c.before.HasFinalizer ⟨.Cryostat, test.request.Namespace, test.request.Name⟩) :=
  ⟨by decide, by decide,
    (Reconcile_finalizer_before_dependents (test.reconciler false) test.request
      { objs := [test.NewCryostat] } test.NewCryostat (by decide) (by decide)).2.2⟩

/-- The trace property of C7, respected by every write that is not a status update. -/
theorem respects_no_status (T : List Touch) (n : Nat)
    (hT : ∀ t ∈ T, t.1 ≠ .StatusUpdate) :
    Respects T (Inv n (fun _ => True) (fun c => c.verb ≠ .StatusUpdate)) :=
  respects_of_calls T n _ (fun _ _ _ => by intro h; cases h) (fun v o _ _ h => hT (v, o.key) h)

/-- C7: when the TLS set-up returns ErrCertNotReady, or the exposure of the Grafana, core
or command channel Service returns ErrIngressNotReady, at the point where the pass reaches
it, `Reconcile` returns RequeueAfter = 5 s with Requeue unset and a nil error, and no call
of the pass is a status update. -/
theorem Reconcile_requeues_when_not_ready (r : CryostatReconciler) (request : NamespacedName)
    (w : World)
    (h : (∃ inst, (Reconcile.toSecrets r request w).1 = .ok inst ∧
            r.ReconcilerTLS.IsCertManagerEnabled inst.declared = true ∧
            r.setupTLS inst.declared = .error .ErrCertNotReady) ∨
         (∃ st, (Reconcile.toRBAC r request w).1 = .ok st ∧ st.inst.Spec.Minimal = false ∧
            (createService r st.inst (NewGrafanaService r.resources st.inst)
              (r.resources.GrafanaService st.inst.declared).Port st.routeTLS
              (Reconcile.toRBAC r request w).2).1 = .error ErrIngressNotReady) ∨
         (∃ st, (Reconcile.toGrafana r request w).1 = .ok st ∧
            (createService r st.inst (NewExporterService r.resources st.inst)
              (r.resources.ExporterService st.inst.declared).Port st.routeTLS
              (Reconcile.toGrafana r request w).2).1 = .error ErrIngressNotReady) ∨
         (∃ st, (Reconcile.toCore r request w).1 = .ok st ∧
            (createService r st.inst (NewCommandChannelService r.resources st.inst)
              (r.resources.CommandChannelService st.inst.declared).Port st.routeTLS
              (Reconcile.toCore r request w).2).1 = .error ErrIngressNotReady)) :
    (Reconcile r request w).1 = ({ Requeue := false, RequeueAfter := 5 * Second }, none) ∧
    ∀ c ∈ (Reconcile r request w).2.callsSince w, c.verb ≠ .StatusUpdate := by
  have hI0 : Inv w.log.length (fun _ => True) (fun c => c.verb ≠ .StatusUpdate) w :=
    Inv_start _ _ w trivial
  have hIf := Reconcile.toFinalizer_frame r request w hI0
    (respects_no_status _ _ (fun t ht => by
      rcases finalizerTouches_kind r _ _ t ht with h1 | h1 <;> rw [h1.1] <;> intro hc <;> cases hc))
  have hRs : ∀ inst, (Reconcile.toFinalizer r request w).1 = .ok inst →
      Respects (servicesTouches r inst.meta.Namespace inst.meta.Name inst.Spec.Minimal)
        (Inv w.log.length (fun _ => True) (fun c => c.verb ≠ .StatusUpdate)) :=
    fun inst _ => respects_no_status _ _ (fun t ht => (servicesTouches_kind r _ _ _ t ht).1)
  rcases h with ⟨inst, h1, h2, h3⟩ | ⟨st, h1, h2, h3⟩ | ⟨st, h1, h3⟩ | ⟨st, h1, h3⟩
  · have ht : Reconcile.toRBAC r request w
        = (.error ({ RequeueAfter := 5 * Second }, none), (Reconcile.toSecrets r request w).2) := by
      unfold Reconcile.toRBAC
      rw [bind_of_ok _ _ _ _ h1]
      have : Reconcile.tls r inst (Reconcile.toSecrets r request w).2
          = (.error ({ RequeueAfter := 5 * Second }, none), (Reconcile.toSecrets r request w).2) := by
        unfold Reconcile.tls
        simp only [h2, h3, if_true, run_fail]
      rw [bind_of_error _ _ _ _ (by rw [this]), this]
    rw [Reconcile.of_toRBAC_error r request w _ (by rw [ht]), ht]
    exact ⟨rfl, (Reconcile.toSecrets_frame r request w hIf hRs).2⟩
  · have hg : Reconcile.grafana r st.inst st.routeTLS (Reconcile.toRBAC r request w).2
        = (.error ({ RequeueAfter := 5 * Second }, none),
            (createService r st.inst (NewGrafanaService r.resources st.inst)
              (r.resources.GrafanaService st.inst.declared).Port st.routeTLS
              (Reconcile.toRBAC r request w).2).2) := by
      unfold Reconcile.grafana
      simp only [h2, Bool.not_false, if_true, run_bind, run_attempt, h3, run_fail,
        requeueIfIngressNotReady]
    have ht : Reconcile.toGrafana r request w
        = (.error ({ RequeueAfter := 5 * Second }, none),
            (createService r st.inst (NewGrafanaService r.resources st.inst)
              (r.resources.GrafanaService st.inst.declared).Port st.routeTLS
              (Reconcile.toRBAC r request w).2).2) := by
      unfold Reconcile.toGrafana
      rw [bind_of_ok _ _ _ _ h1, bind_of_error _ _ _ _ (by rw [hg]), hg]
    rw [Reconcile.of_toGrafana_error r request w _ (by rw [ht]), ht]
    refine ⟨rfl, ?_⟩
    have hR1 := hRs st.inst (Reconcile.toRBAC_inst _ _ _ _ h1)
    rw [h2] at hR1
    exact (createService_keeps r st.inst (NewGrafanaService r.resources st.inst) _ _
      (hR1.mono (by
        intro t ht
        simp only [servicesTouches, grafanaTouches_false, List.mem_append]
        exact Or.inl (Or.inl (Or.inr (Or.inl ht))))) rfl _
      (Reconcile.toRBAC_frame r request w hIf hRs)).2
  · have hg : Reconcile.core r st.inst st.routeTLS (Reconcile.toGrafana r request w).2
        = (.error ({ RequeueAfter := 5 * Second }, none),
            (createService r st.inst (NewExporterService r.resources st.inst)
              (r.resources.ExporterService st.inst.declared).Port st.routeTLS
              (Reconcile.toGrafana r request w).2).2) := by
      unfold Reconcile.core
      simp only [run_bind, run_attempt, h3, run_fail, requeueIfIngressNotReady, if_true]
    have ht : Reconcile.toCore r request w
        = (.error ({ RequeueAfter := 5 * Second }, none),
            (createService r st.inst (NewExporterService r.resources st.inst)
              (r.resources.ExporterService st.inst.declared).Port st.routeTLS
              (Reconcile.toGrafana r request w).2).2) := by
      unfold Reconcile.toCore
      rw [bind_of_ok _ _ _ _ h1, bind_of_error _ _ _ _ (by rw [hg]), hg]
    rw [Reconcile.of_toCore_error r request w _ (by rw [ht]), ht]
    refine ⟨rfl, ?_⟩
    have hR1 := hRs st.inst (Reconcile.toGrafana_inst _ _ _ _ h1)
    exact (createService_keeps r st.inst (NewExporterService r.resources st.inst) _ _
      (hR1.mono (by
        intro t ht
        simp only [servicesTouches, List.mem_append]
        exact Or.inl (Or.inr ht))) rfl _
      (Reconcile.toGrafana_frame r request w hIf hRs)).2
  · have hg : Reconcile.command r st.inst st.routeTLS (Reconcile.toCore r request w).2
        = (.error ({ RequeueAfter := 5 * Second }, none),
            (createService r st.inst (NewCommandChannelService r.resources st.inst)
              (r.resources.CommandChannelService st.inst.declared).Port st.routeTLS
              (Reconcile.toCore r request w).2).2) := by
      unfold Reconcile.command
      simp only [run_bind, run_attempt, h3, run_fail, requeueIfIngressNotReady, if_true]
    have ht : Reconcile.toCommand r request w
        = (.error ({ RequeueAfter := 5 * Second }, none),
            (createService r st.inst (NewCommandChannelService r.resources st.inst)
              (r.resources.CommandChannelService st.inst.declared).Port st.routeTLS
              (Reconcile.toCore r request w).2).2) := by
      unfold Reconcile.toCommand
      rw [bind_of_ok _ _ _ _ h1, bind_of_error _ _ _ _ (by rw [hg]), hg]
    rw [Reconcile.of_toCommand_error r request w _ (by rw [ht]), ht]
    refine ⟨rfl, ?_⟩
    have hR1 := hRs st.inst (Reconcile.toCore_inst _ _ _ _ h1)
    exact (createService_keeps r st.inst (NewCommandChannelService r.resources st.inst) _ _
      (hR1.mono (by
        intro t ht
        simp only [servicesTouches, List.mem_append]
        exact Or.inr ht)) rfl _
      (Reconcile.toCore_frame r request w hIf hRs)).2

/-- Witness for C7: the example instance while its certificates are not issued yet. -/
theorem Reconcile_requeues_when_not_ready_witness :
    (Reconcile.toSecrets (test.reconcilerCertNotReady true) test.request
        { objs := [test.NewCryostatWithFinalizer] }).1 = .ok test.NewCryostatWithFinalizer ∧
    (test.reconcilerCertNotReady true).ReconcilerTLS.IsCertManagerEnabled
        test.NewCryostatWithFinalizer.declared = true ∧
    (test.reconcilerCertNotReady true).setupTLS test.NewCryostatWithFinalizer.declared
        = .error .ErrCertNotReady ∧
    (Reconcile (test.reconcilerCertNotReady true) test.request
        { objs := [test.NewCryostatWithFinalizer] }).1
      = ({ Requeue := false, RequeueAfter := 5 * Second }, none) :=
  ⟨by decide, by decide, by decide,
    (Reconcile_requeues_when_not_ready (test.reconcilerCertNotReady true) test.request
      { objs := [test.NewCryostatWithFinalizer] }
      (Or.inl ⟨test.NewCryostatWithFinalizer, by decide, by decide, by decide⟩)).1⟩

end Cryostat

namespace Cryostat

/-! ## One section at a time -/

theorem Reconcile.toCore_step {I : World → Prop} (r : CryostatReconciler)
    (request : NamespacedName) (w : World) (hp : I (Reconcile.toGrafana r request w).2)
    (hR : ∀ st, (Reconcile.toGrafana r request w).1 = .ok st →
      Respects (createServiceTouches r st.inst.meta.Namespace st.inst.meta.Name) I) :
    I (Reconcile.toCore r request w).2 := by
  unfold Reconcile.toCore
  rw [run_bind]
  cases h1 : (Reconcile.toGrafana r request w).1 with
  | error e => exact hp
  | ok st =>
    simp only
    exact keeps_bind (Reconcile.core_keeps r st.inst _ (hR st h1)) (fun _ => keeps_pure _) _ hp

theorem Reconcile.toCommand_step {I : World → Prop} (r : CryostatReconciler)
    (request : NamespacedName) (w : World) (hp : I (Reconcile.toCore r request w).2)
    (hR : ∀ st, (Reconcile.toCore r request w).1 = .ok st →
      Respects (createServiceTouches r st.inst.meta.Namespace (st.inst.meta.Name ++ "-command")) I) :
    I (Reconcile.toCommand r request w).2 := by
  unfold Reconcile.toCommand
  rw [run_bind]
  cases h1 : (Reconcile.toCore r request w).1 with
  | error e => exact hp
  | ok st =>
    simp only
    exact keeps_bind (Reconcile.command_keeps r st.inst _ (hR st h1)) (fun _ => keeps_pure _) _ hp

theorem Reconcile.pass_step {I : World → Prop} (r : CryostatReconciler)
    (request : NamespacedName) (w : World) (hp : I (Reconcile.toCommand r request w).2)
    (hR : ∀ st, (Reconcile.toCommand r request w).1 = .ok st →
      Respects (deploymentTouches st.inst.meta.Namespace st.inst.meta.Name
        ++ statusTouches st.inst.meta.Namespace st.inst.meta.Name
        ++ consoleLinkTouches r st.inst.meta.Namespace st.inst.meta.Name) I) :
    I (Reconcile r request w).2 := by
  rw [Reconcile.pass_world]
  unfold Reconcile.pass
  rw [run_bind]
  cases h1 : (Reconcile.toCommand r request w).1 with
  | error e => exact hp
  | ok st =>
    simp only
    have hi := Reconcile.toCommand_inst _ _ _ _ h1
    have hR1 := hR st h1
    have hk := (Reconcile.toFinalizer_inst _ _ _ _ hi).2.2.1
    refine keeps_bind (Reconcile.deployment_keeps r st.inst _ _ (hR1.mono ?_)) (fun _ => ?_) _ hp
    · intro t ht; simp only [List.mem_append]; tauto
    · intro w1 hw1
      have hs := Reconcile.status_keeps st.inst st.serviceSpecs hk (hR1.mono (by
        intro t ht; simp only [List.mem_append]; tauto)) w1 hw1
      rw [run_bind]
      cases h2 : (Reconcile.status st.inst st.serviceSpecs w1).1 with
      | error e => exact hs
      | ok inst2 =>
        simp only
        have hm := Reconcile.status_ok _ _ _ _ h2
        refine Reconcile.consoleLink_keeps r inst2 _ (hR1.mono ?_) _ hs
        rw [hm]
        intro t ht; simp only [List.mem_append]; tauto

/-! ## Absence of a key -/

theorem Store.get?_eq_none_iff (s : Store) (k : Key) : s.get? k = none ↔ ∀ x ∈ s, x.key ≠ k := by
  induction s with
  | nil => simp [Store.get?_nil]
  | cons y s ih =>
    rw [Store.get?_cons]
    by_cases hy : y.key = k
    · simp [hy]
    · simp [hy, ih]

theorem Store.get?_replace_none (s : Store) (o : Obj) (k : Key) (h : s.get? k = none) :
    (s.replace o).get? k = none := by
  rw [Store.get?_eq_none_iff] at h ⊢
  intro x hx
  unfold Store.replace at hx
  obtain ⟨y, hy, rfl⟩ := List.mem_map.mp hx
  split
  · rename_i hk; rw [← hk]; exact h y hy
  · exact h y hy

theorem Store.get?_replaceStatus_none (s : Store) (o : Obj) (k : Key) (h : s.get? k = none) :
    (s.replaceStatus o).get? k = none := by
  rw [Store.get?_replaceStatus, h]; rfl

theorem Store.get?_remove_none (s : Store) (k2 k : Key) (h : s.get? k = none) :
    (s.remove k2).get? k = none := by
  rw [Store.get?_eq_none_iff] at h ⊢
  intro x hx
  unfold Store.remove at hx
  exact h x (List.mem_filter.mp hx).1

/-- A key that is absent stays absent under every write that does not create it. -/
theorem respects_absent (T : List Touch) (n : Nat) (k : Key)
    (hT : ∀ t ∈ T, t.1 = .Create → t.2 ≠ k) :
    Respects T (Inv n (fun s => s.get? k = none) (fun _ => True)) :=
  ⟨fun k2 => Client.Get_keeps n _ _ k2 (fun _ _ _ => trivial),
    fun o ho => Client.Create_keeps n _ _ o (fun _ _ _ => trivial)
      (fun s hs _ => by rw [Store.get?_append_ne _ _ _ (hT _ ho rfl)]; exact hs),
    fun o _ => Client.Update_keeps n _ _ o (fun _ _ _ => trivial)
      (fun s _ hs _ => Store.get?_replace_none s o k hs),
    fun o _ => Client.Delete_keeps n _ _ o (fun _ _ _ => trivial)
      (fun s _ hs _ => Store.get?_remove_none s _ k hs),
    fun o _ => Client.StatusUpdate_keeps n _ _ o (fun _ _ _ => trivial)
      (fun s _ hs _ => Store.get?_replaceStatus_none s o k hs)⟩

/-! ## A store that answers every call itself -/

theorem World.Reliable.injected {w : World} (h : w.Reliable) : w.injected = none := by
  unfold World.injected
  cases hf : w.faults with
  | nil => rfl
  | cons f fs =>
    simp only
    exact h f (by rw [hf]; exact List.mem_cons_self _ _)

theorem Client.call_reliable {α : Type} (verb : Verb) (key : Key) (obj : Option Obj)
    (sem : Store → Except Err (α × Store)) : Keeps World.Reliable (Client.call verb key obj sem) := by
  intro w hw f hf
  rw [Client.call_faults] at hf
  exact hw f (List.mem_of_mem_tail hf)

theorem respects_reliable (T : List Touch) : Respects T World.Reliable :=
  ⟨fun _ => Client.call_reliable _ _ _ _, fun _ _ => Client.call_reliable _ _ _ _,
    fun _ _ => Client.call_reliable _ _ _ _, fun _ _ => Client.call_reliable _ _ _ _,
    fun _ _ => Client.call_reliable _ _ _ _⟩

/-- On a reliable store a read returns the stored object or NotFound. -/
theorem Client.Get_reliable (key : Key) (w : World) (h : w.Reliable) :
    (Client.Get key w).1 = (match w.objs.get? key with
      | some o => .ok o
      | none => .error .NotFound) := by
  rw [Client.Get, (Client.call_of_not_injected _ _ _ _ w h.injected).1]
  cases w.objs.get? key <;> rfl

/-- On a reliable store the delete of a stored object removes its key. -/
theorem Client.Delete_reliable (o x : Obj) (w : World) (h : w.Reliable)
    (hx : w.objs.get? o.key = some x) :
    (Client.Delete o w).1 = .ok () ∧ (Client.Delete o w).2.objs = w.objs.remove o.key := by
  have := Client.call_of_not_injected .Delete o.key (some o) (fun s =>
    match s.get? o.key with
    | some _ => .ok ((), s.remove o.key)
    | none => .error .NotFound) w h.injected
  simp only [hx, Except.map] at this
  exact this

theorem String.ne_append_grafana (n : String) : n ≠ n ++ "-grafana" := by
  intro h
  have := congrArg String.length h
  simp [String.length_append] at this
  revert this
  decide

theorem String.command_ne_grafana (n : String) : n ++ "-command" ≠ n ++ "-grafana" := by
  intro h
  have h2 := congrArg String.data h
  simp only [String.data_append, List.append_cancel_left_eq] at h2
  revert h2
  decide

end Cryostat

namespace Cryostat

/-! ## How the pass can end -/

theorem bind_error {ε α β : Type} (m : Op ε α) (f : α → Op ε β) (w : World) (e : ε)
    (h : ((m >>= f) w).1 = .error e) :
    (m w).1 = .error e ∨ ∃ a, (m w).1 = .ok a ∧ (f a (m w).2).1 = .error e := by
  rw [run_bind] at h
  cases hm : (m w).1 with
  | ok a => simp only [hm] at h; exact Or.inr ⟨a, rfl, h⟩
  | error e2 =>
    simp only [hm, Except.error.injEq] at h
    exact Or.inl (by rw [h])

theorem exits_pure {α : Type} (a : α) : Exits (pure a : Op Return α) := by
  intro w ret h; cases h

theorem exits_fail {α : Type} (ret : Return)
    (h : ret ≠ ({ Requeue := false, RequeueAfter := 0 }, none)) :
    Exits (Op.fail ret : Op Return α) := by
  intro w ret2 h2
  rw [run_fail] at h2
  simp only [Except.error.injEq] at h2
  rw [← h2]; exact h

theorem exits_bind {α β : Type} {m : Op Return α} {f : α → Op Return β}
    (hm : Exits m) (hf : ∀ a, Exits (f a)) : Exits (m >>= f) := by
  intro w ret h
  rcases bind_error m f w ret h with h1 | ⟨a, _, h1⟩
  · exact hm w ret h1
  · exact hf a _ ret h1

theorem exits_attempt {ε α : Type} (m : Op ε α) : Exits (Op.attempt m : Op Return (Except ε α)) := by
  intro w ret h; cases h

theorem exits_orReturn {α : Type} (m : Op Err α) : Exits (orReturn m) := by
  intro w ret h
  rw [run_orReturn] at h
  split at h
  · cases h
  · simp only [Except.error.injEq] at h
    rw [← h]
    intro hc
    cases hc

theorem requeueIfIngressNotReady_ne (err : Err) :
    requeueIfIngressNotReady err ≠ ({ Requeue := false, RequeueAfter := 0 }, none) := by
  unfold requeueIfIngressNotReady
  split
  · decide
  · intro hc; cases hc

theorem Reconcile.storage_exits (r : CryostatReconciler) (inst : Obj) :
    Exits (Reconcile.storage r inst) := by
  unfold Reconcile.storage
  exact exits_bind (exits_orReturn _) (fun _ => exits_orReturn _)

theorem Reconcile.secrets_exits (r : CryostatReconciler) (inst : Obj) :
    Exits (Reconcile.secrets r inst) := by
  unfold Reconcile.secrets
  exact exits_bind (exits_orReturn _) (fun _ => exits_bind (exits_orReturn _)
    (fun _ => exits_bind (exits_orReturn _) (fun _ => exits_orReturn _)))

theorem Reconcile.tls_exits (r : CryostatReconciler) (inst : Obj) :
    Exits (Reconcile.tls r inst) := by
  unfold Reconcile.tls
  split
  · split
    · split
      · exact exits_fail _ (by decide)
      · exact exits_fail _ (by intro hc; cases hc)
    · split
      · exact exits_fail _ (by intro hc; cases hc)
      · exact exits_pure _
  · exact exits_pure _

theorem Reconcile.rbac_exits (r : CryostatReconciler) (inst : Obj) :
    Exits (Reconcile.rbac r inst) :=
  exits_orReturn _

theorem Reconcile.deleteDeployment_exits (inst : Obj) (mismatch : Nat → Bool) :
    Exits (Reconcile.deleteDeployment inst mismatch) := by
  unfold Reconcile.deleteDeployment
  apply exits_bind (exits_attempt _); intro res
  split
  · split
    · apply exits_bind (exits_attempt _); intro del
      split
      · split
        · exact exits_fail _ (by intro hc; cases hc)
        · exact exits_pure _
      · exact exits_pure _
    · exact exits_pure _
  · exact exits_pure _

theorem Reconcile.deleteExposure_exits (kind : Kind) (svc : Obj) :
    Exits (Reconcile.deleteExposure kind svc) := by
  unfold Reconcile.deleteExposure
  apply exits_bind (exits_attempt _); intro res
  split
  · split
    · exact exits_fail _ (by intro hc; cases hc)
    · exact exits_pure _
  · apply exits_bind (exits_attempt _); intro del
    split
    · split
      · exact exits_fail _ (by intro hc; cases hc)
      · exact exits_pure _
    · exact exits_pure _

theorem Reconcile.deleteGrafanaService_exits (svc : Obj) :
    Exits (Reconcile.deleteGrafanaService svc) := by
  unfold Reconcile.deleteGrafanaService
  apply exits_bind (exits_attempt _); intro res
  split
  · apply exits_bind (exits_attempt _); intro del
    split
    · split
      · exact exits_fail _ (by intro hc; cases hc)
      · exact exits_pure _
    · exact exits_pure _
  · exact exits_pure _

theorem Reconcile.grafana_exits (r : CryostatReconciler) (inst : Obj)
    (routeTLS : Option TLSConfig) : Exits (Reconcile.grafana r inst routeTLS) := by
  unfold Reconcile.grafana
  split
  · apply exits_bind (exits_attempt _); intro res
    split
    · exact exits_fail _ (requeueIfIngressNotReady_ne _)
    · exact exits_bind (Reconcile.deleteDeployment_exits _ _) (fun _ => exits_pure _)
  · exact exits_bind (Reconcile.deleteExposure_exits _ _) (fun _ =>
      exits_bind (Reconcile.deleteGrafanaService_exits _) (fun _ =>
        exits_bind (Reconcile.deleteDeployment_exits _ _) (fun _ => exits_pure _)))

theorem Reconcile.core_exits (r : CryostatReconciler) (inst : Obj)
    (routeTLS : Option TLSConfig) : Exits (Reconcile.core r inst routeTLS) := by
  unfold Reconcile.core
  apply exits_bind (exits_attempt _); intro res
  split
  · exact exits_fail _ (requeueIfIngressNotReady_ne _)
  · exact exits_pure _

theorem Reconcile.command_exits (r : CryostatReconciler) (inst : Obj)
    (routeTLS : Option TLSConfig) : Exits (Reconcile.command r inst routeTLS) := by
  unfold Reconcile.command
  apply exits_bind (exits_attempt _); intro res
  split
  · exact exits_fail _ (requeueIfIngressNotReady_ne _)
  · exact exits_pure _

theorem Reconcile.deployment_exits (r : CryostatReconciler) (inst : Obj)
    (serviceSpecs : ServiceSpecs) (tlsConfig : Option ResourcesTLSConfig) :
    Exits (Reconcile.deployment r inst serviceSpecs tlsConfig) := by
  unfold Reconcile.deployment
  apply exits_bind (exits_orReturn _); intro fsGroup
  simp only []
  exact exits_bind (exits_orReturn _) (fun _ => exits_bind (exits_orReturn _)
    (fun _ => exits_pure _))

theorem Reconcile.status_exits (inst : Obj) (serviceSpecs : ServiceSpecs) :
    Exits (Reconcile.status inst serviceSpecs) := by
  unfold Reconcile.status
  split
  · exact exits_bind (exits_orReturn _) (fun _ => exits_pure _)
  · exact exits_pure _

theorem Reconcile.consoleLink_exits (r : CryostatReconciler) (inst : Obj)
    (serviceSpecs : ServiceSpecs) : Exits (Reconcile.consoleLink r inst serviceSpecs) := by
  unfold Reconcile.consoleLink
  split
  · split
    · exact exits_fail _ (by intro hc; cases hc)
    · exact exits_orReturn _
  · exact exits_pure _

theorem Reconcile.addFinalizer_exits (inst : Obj) : Exits (Reconcile.addFinalizer inst) := by
  unfold Reconcile.addFinalizer
  split
  · exact exits_orReturn _
  · exact exits_pure _

/-- After the finalizer section the pass never ends with the empty result and a nil
error before its last section is through. -/
theorem Reconcile.plain_exit (r : CryostatReconciler) (request : NamespacedName) (w : World)
    (h : (Reconcile.pass r request w).1 = .error ({ Requeue := false, RequeueAfter := 0 }, none)) :
    (Reconcile.toFinalizer r request w).1
      = .error ({ Requeue := false, RequeueAfter := 0 }, none) := by
  have e1 : ∀ (a : Obj), Exits (do
      Reconcile.storage r a
      Reconcile.secrets r a
      (pure a : Op Return Obj)) := fun a =>
    exits_bind (Reconcile.storage_exits r a) (fun _ =>
      exits_bind (Reconcile.secrets_exits r a) (fun _ => exits_pure _))
  have e2 : ∀ (a : Obj), Exits (do
      let tls ← Reconcile.tls r a
      Reconcile.rbac r a
      (pure { inst := a, tlsConfig := tls.1, routeTLS := tls.2 } : Op Return PassState)) := fun a =>
    exits_bind (Reconcile.tls_exits r a) (fun _ =>
      exits_bind (Reconcile.rbac_exits r a) (fun _ => exits_pure _))
  unfold Reconcile.pass at h
  rcases bind_error _ _ _ _ h with h1 | ⟨st, _, h1⟩
  · unfold Reconcile.toCommand at h1
    rcases bind_error _ _ _ _ h1 with h2 | ⟨st, _, h2⟩
    · unfold Reconcile.toCore at h2
      rcases bind_error _ _ _ _ h2 with h3 | ⟨st, _, h3⟩
      · unfold Reconcile.toGrafana at h3
        rcases bind_error _ _ _ _ h3 with h4 | ⟨st, _, h4⟩
        · unfold Reconcile.toRBAC at h4
          rcases bind_error _ _ _ _ h4 with h5 | ⟨a, _, h5⟩
          · unfold Reconcile.toSecrets at h5
            rcases bind_error _ _ _ _ h5 with h6 | ⟨a, _, h6⟩
            · exact h6
            · exact absurd rfl (e1 a _ _ h6)
          · exact absurd rfl (e2 a _ _ h5)
        · exact absurd rfl (exits_bind (Reconcile.grafana_exits r _ _)
            (fun _ => exits_pure _) _ _ h4)
      · exact absurd rfl (exits_bind (Reconcile.core_exits r _ _) (fun _ => exits_pure _) _ _ h3)
    · exact absurd rfl (exits_bind (Reconcile.command_exits r _ _) (fun _ => exits_pure _) _ _ h2)
  · exact absurd rfl (exits_bind (Reconcile.deployment_exits r _ _ _) (fun _ =>
      exits_bind (Reconcile.status_exits _ _) (fun _ => Reconcile.consoleLink_exits r _ _)) _ _ h1)

/-- On an instance that is read and is not being deleted, `Reconcile` returns the empty
result with a nil error only when the pass has run to its end. -/
theorem Reconcile.completed (r : CryostatReconciler) (request : NamespacedName) (w : World)
    (inst : Obj)
    (hget : (Client.Get ⟨.Cryostat, request.Namespace, request.Name⟩ w).1 = .ok inst)
    (hact : inst.meta.DeletionTimestamp = none)
    (hret : (Reconcile r request w).1 = ({ Requeue := false, RequeueAfter := 0 }, none)) :
    (Reconcile.pass r request w).1 = .ok () := by
  cases hp : (Reconcile.pass r request w).1 with
  | ok u => rfl
  | error ret =>
    exfalso
    have hr : ret = ({ Requeue := false, RequeueAfter := 0 }, none) := by
      unfold Reconcile at hret
      rw [hp] at hret
      exact hret
    subst hr
    have hf : (Reconcile.fetch request w).1 = .ok inst := by
      unfold Reconcile.fetch
      rw [run_bind, run_attempt]
      simp only [hget, run_pure]
    have ht := Reconcile.plain_exit r request w hp
    unfold Reconcile.toFinalizer at ht
    rw [bind_of_ok _ _ _ _ hf, run_bind, Reconcile.finalize_of_active r inst _ hact] at ht
    exact absurd rfl (Reconcile.addFinalizer_exits inst _ _ ht)

/-- When the pass has run to its end, every section of it yielded a value. -/
theorem Reconcile.pass_ok (r : CryostatReconciler) (request : NamespacedName) (w : World)
    (h : (Reconcile.pass r request w).1 = .ok ()) :
    ∃ st, (Reconcile.toCommand r request w).1 = .ok st := by
  unfold Reconcile.pass at h
  obtain ⟨st, h1, _⟩ := bind_ok _ _ _ _ h
  exact ⟨st, h1⟩

end Cryostat

namespace Cryostat

/-! ## The minimal case removes the Grafana objects -/

theorem Reconcile.deleteExposure_removes (kind : Kind) (svc : Obj) (w : World)
    (hrel : w.Reliable) :
    (Reconcile.deleteExposure kind svc w).2.objs.get? ⟨kind, svc.meta.Namespace, svc.meta.Name⟩
      = none := by
  have hg := Client.Get_reliable ⟨kind, svc.meta.Namespace, svc.meta.Name⟩ w hrel
  have hobjs := Client.Get_objs ⟨kind, svc.meta.Namespace, svc.meta.Name⟩ w
  have hrel2 := (respects_reliable []).get ⟨kind, svc.meta.Namespace, svc.meta.Name⟩ w hrel
  unfold Reconcile.deleteExposure
  rw [run_bind, run_attempt]
  cases hs : w.objs.get? ⟨kind, svc.meta.Namespace, svc.meta.Name⟩ with
  | none =>
    rw [hs] at hg
    simp only [hg, Err.IsNotFound, Bool.not_true, Bool.false_eq_true, if_false, run_pure]
    rw [hobjs, hs]
  | some x =>
    rw [hs] at hg
    have hk := Store.get?_key _ _ _ hs
    have hx : (Client.Get ⟨kind, svc.meta.Namespace, svc.meta.Name⟩ w).2.objs.get? x.key = some x := by
      rw [hobjs, hk, hs]
    obtain ⟨hd1, hd2⟩ := Client.Delete_reliable x x _ hrel2 hx
    simp only [hg, run_bind, run_attempt, hd1, run_pure]
    rw [hd2, hk]
    exact Store.get?_remove_self _ _

theorem Reconcile.deleteGrafanaService_removes (svc : Obj) (w : World)
    (hrel : w.Reliable) :
    (Reconcile.deleteGrafanaService svc w).2.objs.get? ⟨.Service, svc.meta.Namespace, svc.meta.Name⟩
      = none := by
  have hg := Client.Get_reliable ⟨.Service, svc.meta.Namespace, svc.meta.Name⟩ w hrel
  have hobjs := Client.Get_objs ⟨.Service, svc.meta.Namespace, svc.meta.Name⟩ w
  have hrel2 := (respects_reliable []).get ⟨.Service, svc.meta.Namespace, svc.meta.Name⟩ w hrel
  unfold Reconcile.deleteGrafanaService
  rw [run_bind, run_attempt]
  cases hs : w.objs.get? ⟨.Service, svc.meta.Namespace, svc.meta.Name⟩ with
  | none =>
    rw [hs] at hg
    simp only [hg, run_pure]
    rw [hobjs, hs]
  | some x =>
    rw [hs] at hg
    have hk := Store.get?_key _ _ _ hs
    have hx : (Client.Get ⟨.Service, svc.meta.Namespace, svc.meta.Name⟩ w).2.objs.get? x.key
        = some x := by
      rw [hobjs, hk, hs]
    obtain ⟨hd1, hd2⟩ := Client.Delete_reliable x x _ hrel2 hx
    simp only [hg, run_bind, run_attempt, hd1, run_pure]
    rw [hd2, hk]
    exact Store.get?_remove_self _ _

theorem Reconcile.deleteExposure_reliable (kind : Kind) (svc : Obj) :
    Keeps World.Reliable (Reconcile.deleteExposure kind svc) :=
  Reconcile.deleteExposure_keeps
    (T := [(Verb.Delete, ⟨kind, svc.meta.Namespace, svc.meta.Name⟩)])
    (respects_reliable _) kind svc (by simp)

/-- On a reliable store, the Grafana section of a minimal instance that yields a value
leaves neither the Grafana Service nor the exposure object of its name. -/
theorem Reconcile.grafana_minimal_removes (r : CryostatReconciler) (inst : Obj)
    (routeTLS : Option TLSConfig) (w : World) (url : Option URL) (hrel : w.Reliable)
    (hmin : inst.Spec.Minimal = true)
    (hok : (Reconcile.grafana r inst routeTLS w).1 = .ok url) :
    (Reconcile.grafana r inst routeTLS w).2.objs.get?
        ⟨.Service, inst.meta.Namespace, inst.meta.Name ++ "-grafana"⟩ = none ∧
    (Reconcile.grafana r inst routeTLS w).2.objs.get?
        ⟨if r.IsOpenShift then .Route else .Ingress, inst.meta.Namespace,
          inst.meta.Name ++ "-grafana"⟩ = none := by
  unfold Reconcile.grafana at hok ⊢
  simp only [hmin, Bool.not_true, Bool.false_eq_true, if_false] at hok ⊢
  obtain ⟨u1, h1, hok2⟩ := bind_ok _ _ _ _ hok
  obtain ⟨u2, h2, hok3⟩ := bind_ok _ _ _ _ hok2
  rw [bind_of_ok _ _ _ _ h1, bind_of_ok _ _ _ _ h2]
  have a1 := Reconcile.deleteExposure_removes (if r.IsOpenShift then .Route else .Ingress)
    (NewGrafanaService r.resources inst) w hrel
  have r1 := Reconcile.deleteExposure_reliable (if r.IsOpenShift then .Route else .Ingress)
    (NewGrafanaService r.resources inst) w hrel
  have a2 := Reconcile.deleteGrafanaService_removes (NewGrafanaService r.resources inst) _ r1
  have a1b : (Reconcile.deleteGrafanaService (NewGrafanaService r.resources inst)
      (Reconcile.deleteExposure (if r.IsOpenShift then .Route else .Ingress)
        (NewGrafanaService r.resources inst) w).2).2.objs.get?
      ⟨if r.IsOpenShift then .Route else .Ingress, inst.meta.Namespace,
        inst.meta.Name ++ "-grafana"⟩ = none :=
    (Reconcile.deleteGrafanaService_keeps
      (T := [(Verb.Delete, ⟨.Service, (NewGrafanaService r.resources inst).meta.Namespace,
        (NewGrafanaService r.resources inst).meta.Name⟩)])
      (respects_absent _ 0 _ (by simp)) _ (by simp) _ ⟨a1, fun _ _ => trivial⟩).1
  constructor
  · exact (keeps_bind (Reconcile.deleteDeployment_keeps inst _
      (respects_absent _ 0 _ (by simp [deleteDeploymentTouches]))) (fun _ => keeps_pure _) _
      ⟨a2, fun _ _ => trivial⟩).1
  · exact (keeps_bind (Reconcile.deleteDeployment_keeps inst _
      (respects_absent _ 0 _ (by simp [deleteDeploymentTouches]))) (fun _ => keeps_pure _) _
      ⟨a1b, fun _ _ => trivial⟩).1

theorem Reconcile.toGrafana_world (r : CryostatReconciler) (request : NamespacedName) (w : World)
    (st : PassState) (h : (Reconcile.toRBAC r request w).1 = .ok st) :
    (Reconcile.toGrafana r request w).2
      = (Reconcile.grafana r st.inst st.routeTLS (Reconcile.toRBAC r request w).2).2 := by
  unfold Reconcile.toGrafana
  rw [bind_of_ok _ _ _ _ h, run_bind]
  split <;> rfl

/-- The Services that follow the Grafana section, the Deployment, the status and the
ConsoleLink create nothing under the name of the Grafana Service. -/
theorem later_creates_ne_grafana (r : CryostatReconciler) (ns name : String) (kind : Kind)
    (hk : kind = .Service ∨ kind = .Route ∨ kind = .Ingress) :
    (∀ t ∈ createServiceTouches r ns name, t.1 = .Create → t.2 ≠ ⟨kind, ns, name ++ "-grafana"⟩) ∧
    (∀ t ∈ createServiceTouches r ns (name ++ "-command"),
      t.1 = .Create → t.2 ≠ ⟨kind, ns, name ++ "-grafana"⟩) ∧
    (∀ t ∈ deploymentTouches ns name ++ statusTouches ns name ++ consoleLinkTouches r ns name,
      t.1 = .Create → t.2 ≠ ⟨kind, ns, name ++ "-grafana"⟩) := by
  have n1 := String.ne_append_grafana name
  have n2 := String.command_ne_grafana name
  refine ⟨?_, ?_, ?_⟩
  · cases hos : r.IsOpenShift <;> rcases hk with h | h | h <;> subst h <;>
      simp [createServiceTouches, hos, n1]
  · cases hos : r.IsOpenShift <;> rcases hk with h | h | h <;> subst h <;>
      simp [createServiceTouches, hos, n2]
  · cases hos : r.IsOpenShift <;> rcases hk with h | h | h <;> subst h <;>
      simp [deploymentTouches, statusTouches, consoleLinkTouches, hos, List.forall_mem_append]

end Cryostat

namespace Cryostat

/-- What the Grafana section leaves absent under the Grafana Service's name stays absent
to the end of the pass. -/
theorem Reconcile.grafana_absent_kept (r : CryostatReconciler) (request : NamespacedName)
    (w : World) (kind : Kind) (hk : kind = .Service ∨ kind = .Route ∨ kind = .Ingress)
    (h : (Reconcile.toGrafana r request w).2.objs.get?
      ⟨kind, request.Namespace, request.Name ++ "-grafana"⟩ = none) :
    (Reconcile r request w).2.objs.get?
      ⟨kind, request.Namespace, request.Name ++ "-grafana"⟩ = none := by
  have hc := later_creates_ne_grafana r request.Namespace request.Name kind hk
  have h3 : Inv 0 (fun s => s.get? ⟨kind, request.Namespace, request.Name ++ "-grafana"⟩ = none)
      (fun _ => True) (Reconcile.toGrafana r request w).2 := ⟨h, fun _ _ => trivial⟩
  have h4 := Reconcile.toCore_step r request w h3 (fun st hst => by
    obtain ⟨hns, hname, -⟩ := Reconcile.toFinalizer_inst _ _ _ _ (Reconcile.toGrafana_inst _ _ _ _ hst)
    rw [hns, hname]
    exact respects_absent _ 0 _ hc.1)
  have h5 := Reconcile.toCommand_step r request w h4 (fun st hst => by
    obtain ⟨hns, hname, -⟩ := Reconcile.toFinalizer_inst _ _ _ _ (Reconcile.toCore_inst _ _ _ _ hst)
    rw [hns, hname]
    exact respects_absent _ 0 _ hc.2.1)
  exact (Reconcile.pass_step r request w h5 (fun st hst => by
    obtain ⟨hns, hname, -⟩ := Reconcile.toFinalizer_inst _ _ _ _ (Reconcile.toCommand_inst _ _ _ _ hst)
    rw [hns, hname]
    exact respects_absent _ 0 _ hc.2.2)).1

/-- A reliable store stays reliable up to the Grafana section. -/
theorem Reconcile.toRBAC_reliable (r : CryostatReconciler) (request : NamespacedName) (w : World)
    (hrel : w.Reliable) : (Reconcile.toRBAC r request w).2.Reliable :=
  Reconcile.toRBAC_frame r request w
    (Reconcile.toFinalizer_frame r request w hrel (respects_reliable _))
    (fun _ _ => respects_reliable _)

/-- A reliable store stays reliable to the end of the pass. -/
theorem Reconcile.reliable (r : CryostatReconciler) (request : NamespacedName) (w : World)
    (hrel : w.Reliable) : (Reconcile r request w).2.Reliable :=
  Reconcile.pass_frame r request w
    (Reconcile.toFinalizer_frame r request w hrel (respects_reliable _))
    (fun _ _ => respects_reliable _)

end Cryostat

namespace Cryostat

/-- Counterexample for C10: on OpenShift the minimal example instance is reconciled with an
empty result and a nil error, and the Ingress named after the Grafana Service that the
store held before the pass is still there afterwards: on OpenShift the pass removes the
Route of that name only. -/
theorem Reconcile_minimal_keeps_ingress_on_openshift :
    test.NewMinimalCryostat.Spec.Minimal = true ∧
    (Reconcile (test.reconciler true) test.request
      { objs := [test.NewMinimalCryostat, test.NewNamespace, test.NewRoute "cryostat",
          test.NewRoute "cryostat-command", test.NewGrafanaIngress] }).1
      = ({ Requeue := false, RequeueAfter := 0 }, none) ∧
    (Reconcile (test.reconciler true) test.request
      { objs := [test.NewMinimalCryostat, test.NewNamespace, test.NewRoute "cryostat",
          test.NewRoute "cryostat-command", test.NewGrafanaIngress] }).2.objs.get?
        ⟨.Ingress, "default", "cryostat-grafana"⟩ = some test.NewGrafanaIngress := by
  decide

/-- C10, amended: for a non-deleting instance with Minimal = true on a store that answers
every call itself, when `Reconcile` returns the empty result with a nil error the store
afterwards holds no Service named `<name>-grafana` in the instance's namespace and no
exposure object of that name of the platform's kind: no Route on OpenShift, no Ingress
elsewhere. -/
theorem Reconcile_minimal_removes_grafana (r : CryostatReconciler) (request : NamespacedName)
    (w : World) (inst : Obj) (hrel : w.Reliable)
    (hget : (Client.Get ⟨.Cryostat, request.Namespace, request.Name⟩ w).1 = .ok inst)
    (hact : inst.meta.DeletionTimestamp = none)
    (hmin : inst.Spec.Minimal = true)
    (hret : (Reconcile r request w).1 = ({ Requeue := false, RequeueAfter := 0 }, none)) :
    (Reconcile r request w).2.objs.get?
        ⟨.Service, request.Namespace, request.Name ++ "-grafana"⟩ = none ∧
    (Reconcile r request w).2.objs.get?
        ⟨if r.IsOpenShift then .Route else .Ingress, request.Namespace,
          request.Name ++ "-grafana"⟩ = none := by
  have hp := Reconcile.completed r request w inst hget hact hret
  obtain ⟨st5, h5⟩ := Reconcile.pass_ok r request w hp
  obtain ⟨st4, h4, -⟩ := Reconcile.toCommand_ok _ _ _ _ h5
  obtain ⟨st3, h3, -⟩ := Reconcile.toCore_ok _ _ _ _ h4
  obtain ⟨st2, h2, -, -, -, hg⟩ := Reconcile.toGrafana_ok _ _ _ _ h3
  have hfin := Reconcile.toRBAC_inst _ _ _ _ h2
  obtain ⟨read, hr1, hr2, -⟩ := Reconcile.toFinalizer_ok _ _ _ _ hfin
  rw [hget] at hr1
  simp only [Except.ok.injEq] at hr1
  subst hr1
  obtain ⟨hns, hname, -⟩ := Reconcile.toFinalizer_inst _ _ _ _ hfin
  have hmin2 : st2.inst.Spec.Minimal = true := by
    rw [hr2]
    simp only [Obj.Spec, controllerutil.AddFinalizer_body]
    exact hmin
  have hrem := Reconcile.grafana_minimal_removes r st2.inst st2.routeTLS _ _
    (Reconcile.toRBAC_reliable r request w hrel) hmin2 hg
  rw [← Reconcile.toGrafana_world r request w st2 h2, hns, hname] at hrem
  refine ⟨Reconcile.grafana_absent_kept r request w _ (Or.inl rfl) hrem.1,
    Reconcile.grafana_absent_kept r request w _ ?_ hrem.2⟩
  cases r.IsOpenShift
  · exact Or.inr (Or.inr rfl)
  · exact Or.inr (Or.inl rfl)

/-- Witness for C10: on plain Kubernetes the minimal example instance, with the Grafana
Service and an Ingress of its name left in the store, is reconciled and both are gone. -/
theorem Reconcile_minimal_removes_grafana_witness :
    ({ objs := [test.NewMinimalCryostat, test.NewNamespace, test.NewGrafanaService,
        test.NewGrafanaIngress] } : World).Reliable ∧
    test.NewMinimalCryostat.Spec.Minimal = true ∧
    ({ objs := [test.NewMinimalCryostat, test.NewNamespace, test.NewGrafanaService,
        test.NewGrafanaIngress] } : World).objs.get? ⟨.Service, "default", "cryostat-grafana"⟩
      = some test.NewGrafanaService ∧
    (Reconcile (test.reconciler false) test.request
      { objs := [test.NewMinimalCryostat, test.NewNamespace, test.NewGrafanaService,
        test.NewGrafanaIngress] }).2.objs.get?
        ⟨.Service, test.request.Namespace, test.request.Name ++ "-grafana"⟩ = none ∧
    (Reconcile (test.reconciler false) test.request
      { objs := [test.NewMinimalCryostat, test.NewNamespace, test.NewGrafanaService,
        test.NewGrafanaIngress] }).2.objs.get?
        ⟨if (test.reconciler false).IsOpenShift then .Route else .Ingress,
          test.request.Namespace, test.request.Name ++ "-grafana"⟩ = none :=
  ⟨(fun _ hf => by cases hf), (by decide), (by decide),
    Reconcile_minimal_removes_grafana (test.reconciler false) test.request
      { objs := [test.NewMinimalCryostat, test.NewNamespace, test.NewGrafanaService,
        test.NewGrafanaIngress] } test.NewMinimalCryostat
      (fun _ hf => by cases hf) (by decide) (by decide) (by decide) (by decide)⟩

end Cryostat

namespace Cryostat

/-! ## Calls on a reliable store -/

theorem Client.Create_reliable (o : Obj) (w : World) (h : w.Reliable)
    (hx : w.objs.get? o.key = none) :
    (Client.Create o w).1 = .ok () ∧ (Client.Create o w).2.objs = w.objs ++ [o] := by
  have := Client.call_of_not_injected .Create o.key (some o) (fun s =>
    match s.get? o.key with
    | some _ => .error .AlreadyExists
    | none => .ok ((), s ++ [o])) w h.injected
  simp only [hx, Except.map] at this
  exact this

theorem Client.Update_reliable (o x : Obj) (w : World) (h : w.Reliable)
    (hx : w.objs.get? o.key = some x) :
    (Client.Update o w).1 = .ok () ∧ (Client.Update o w).2.objs = w.objs.replace o := by
  have := Client.call_of_not_injected .Update o.key (some o) (fun s =>
    match s.get? o.key with
    | some _ => .ok ((), s.replace o)
    | none => .error .NotFound) w h.injected
  simp only [hx, Except.map] at this
  exact this

theorem Client.StatusUpdate_reliable (o x : Obj) (w : World) (h : w.Reliable)
    (hx : w.objs.get? o.key = some x) :
    (Client.StatusUpdate o w).1 = .ok () ∧
      (Client.StatusUpdate o w).2.objs = w.objs.replaceStatus o := by
  have := Client.call_of_not_injected .StatusUpdate o.key (some o) (fun s =>
    match s.get? o.key with
    | some _ => .ok ((), s.replaceStatus o)
    | none => .error .NotFound) w h.injected
  simp only [hx, Except.map] at this
  exact this

theorem Client.Get_reliable_world (key : Key) (w : World) (h : w.Reliable) :
    (Client.Get key w).2.Reliable := (respects_reliable []).get key w h

/-- On a reliable store `createObjectIfNotExists` succeeds when it reads the key it would
create. -/
theorem createObjectIfNotExists_reliable (ns : NamespacedName) (found : Kind) (toCreate : Obj)
    (w : World) (hrel : w.Reliable) (hkey : toCreate.key = ⟨found, ns.Namespace, ns.Name⟩) :
    (createObjectIfNotExists ns found toCreate w).1 = .ok () := by
  have hg := Client.Get_reliable ⟨found, ns.Namespace, ns.Name⟩ w hrel
  unfold createObjectIfNotExists
  rw [run_bind, run_attempt]
  cases hs : w.objs.get? ⟨found, ns.Namespace, ns.Name⟩ with
  | none =>
    rw [hs] at hg
    simp only [hg, Err.IsNotFound, if_true]
    refine (Client.Create_reliable toCreate _ (Client.Get_reliable_world _ w hrel) ?_).1
    rw [Client.Get_objs, hkey, hs]
  | some x =>
    rw [hs] at hg
    simp only [hg, run_pure]

/-! ## Outcomes that do not depend on the world -/

theorem detOn_const {ε α : Type} {O : World → Prop} {m : Op ε α} (x : Except ε α)
    (h : ∀ w, O w → (m w).1 = x) : DetOn O m :=
  fun w1 w2 h1 h2 => by rw [h w1 h1, h w2 h2]

theorem detOn_pure {ε α : Type} {O : World → Prop} (a : α) : DetOn O (pure a : Op ε α) :=
  fun _ _ _ _ => rfl

theorem detOn_fail {ε α : Type} {O : World → Prop} (e : ε) : DetOn O (Op.fail e : Op ε α) :=
  fun _ _ _ _ => rfl

theorem detOn_ofExcept {ε α : Type} {O : World → Prop} (x : Except ε α) :
    DetOn O (Op.ofExcept x : Op ε α) :=
  fun _ _ _ _ => rfl

theorem detOn_bind {ε α β : Type} {O : World → Prop} {m : Op ε α} {f : α → Op ε β}
    (hm : DetOn O m) (hk : Keeps O m)
    (hf : ∀ a, (∃ w, O w ∧ (m w).1 = .ok a) → DetOn O (f a)) : DetOn O (m >>= f) := by
  intro w1 w2 h1 h2
  have he := hm w1 w2 h1 h2
  rw [run_bind, run_bind]
  cases hr : (m w1).1 with
  | error e =>
    rw [hr] at he
    simp only [← he]
  | ok a =>
    rw [hr] at he
    simp only [← he]
    exact hf a ⟨w1, h1, hr⟩ _ _ (hk w1 h1) (hk w2 h2)

theorem detOn_orReturn {α : Type} {O : World → Prop} {m : Op Err α} (hm : DetOn O m) :
    DetOn O (orReturn m) := by
  intro w1 w2 h1 h2
  rw [run_orReturn, run_orReturn, hm w1 w2 h1 h2]
  cases (m w2).1 <;> rfl

theorem detOn_attempt {ε ε2 α : Type} {O : World → Prop} {m : Op ε α} (hm : DetOn O m) :
    DetOn O (Op.attempt m : Op ε2 (Except ε α)) := by
  intro w1 w2 h1 h2
  rw [run_attempt, run_attempt, hm w1 w2 h1 h2]

theorem detOn_bind_ofExcept {ε α β : Type} {O : World → Prop} {x : Except ε α}
    {f : α → Op ε β} (hf : ∀ a, x = .ok a → DetOn O (f a)) : DetOn O (Op.ofExcept x >>= f) :=
  detOn_bind (detOn_ofExcept x) (keeps_ofExcept x) (fun a ⟨_, _, h⟩ => hf a h)

theorem detOn_bind_orReturn_ofExcept {α β : Type} {O : World → Prop} {x : Except Err α}
    {f : α → Op Return β} (hf : ∀ a, x = .ok a → DetOn O (f a)) :
    DetOn O (orReturn (Op.ofExcept x) >>= f) :=
  detOn_bind (detOn_orReturn (detOn_ofExcept x)) (keeps_orReturn (keeps_ofExcept x))
    (fun a ⟨w, _, h⟩ => hf a (orReturn_ok _ w a h))

/-! ## Store facts that calls elsewhere leave alone -/

theorem Keeps.congr_iff {ε α : Type} {I J : World → Prop} {m : Op ε α} (h : ∀ w, I w ↔ J w)
    (hI : Keeps I m) : Keeps J m :=
  fun w hw => (h _).1 (hI w ((h w).2 hw))

theorem Respects.transfer {T : List Touch} {I J : World → Prop} (h : ∀ w, I w ↔ J w)
    (hI : Respects T I) : Respects T J :=
  ⟨fun k => Keeps.congr_iff h (hI.get k), fun o ho => Keeps.congr_iff h (hI.create o ho),
    fun o ho => Keeps.congr_iff h (hI.update o ho), fun o ho => Keeps.congr_iff h (hI.delete o ho),
    fun o ho => Keeps.congr_iff h (hI.status o ho)⟩

/-- A property of the store is respected when every write of the footprint keeps it. -/
theorem respects_store (T : List Touch) (S : Store → Prop)
    (hC : ∀ (o : Obj) (s : Store), (Verb.Create, o.key) ∈ T → S s → s.get? o.key = none →
      S (s ++ [o]))
    (hU : ∀ (o : Obj) (s : Store) (x : Obj), (Verb.Update, o.key) ∈ T → S s →
      s.get? o.key = some x → S (s.replace o))
    (hD : ∀ (o : Obj) (s : Store) (x : Obj), (Verb.Delete, o.key) ∈ T → S s →
      s.get? o.key = some x → S (s.remove o.key))
    (hS : ∀ (o : Obj) (s : Store) (x : Obj), (Verb.StatusUpdate, o.key) ∈ T → S s →
      s.get? o.key = some x → S (s.replaceStatus o)) :
    Respects T (fun w => S w.objs) := by
  have h : Respects T (Inv 0 S (fun _ => True)) :=
    ⟨fun k => Client.Get_keeps 0 _ _ k (fun _ _ _ => trivial),
      fun o ho => Client.Create_keeps 0 _ _ o (fun _ _ _ => trivial) (fun s hs hn => hC o s ho hs hn),
      fun o ho => Client.Update_keeps 0 _ _ o (fun _ _ _ => trivial)
        (fun s x hs hx => hU o s x ho hs hx),
      fun o ho => Client.Delete_keeps 0 _ _ o (fun _ _ _ => trivial)
        (fun s x hs hx => hD o s x ho hs hx),
      fun o ho => Client.StatusUpdate_keeps 0 _ _ o (fun _ _ _ => trivial)
        (fun s x hs hx => hS o s x ho hs hx)⟩
  exact Respects.transfer (fun _ => ⟨fun h => h.1, fun h => ⟨h, fun _ _ => trivial⟩⟩) h

/-- What the store holds under `k` is left alone by a footprint without a write to `k`. -/
theorem respects_get? (T : List Touch) (k : Key) (g : Option Obj → Prop)
    (hT : ∀ t ∈ T, t.2 ≠ k) : Respects T (fun w => g (w.objs.get? k)) :=
  respects_store T (fun s => g (s.get? k))
    (fun o s ho hs _ => by
      beta_reduce at hs ⊢
      rw [Store.get?_append_ne _ _ _ (hT _ ho)]; exact hs)
    (fun o s _ ho hs _ => by
      beta_reduce at hs ⊢
      rw [Store.get?_replace_ne _ _ _ (hT _ ho)]; exact hs)
    (fun o s _ ho hs _ => by
      beta_reduce at hs ⊢
      rw [Store.get?_remove_ne _ _ _ (hT _ ho)]; exact hs)
    (fun o s _ ho hs _ => by
      beta_reduce at hs ⊢
      have hne : o.key ≠ k := hT _ ho
      rw [Store.get?_replaceStatus]
      cases hg : s.get? k with
      | none => rw [hg] at hs; exact hs
      | some x =>
        have hk := Store.get?_key _ _ _ hg
        rw [hg] at hs
        have hne2 : ¬ k = o.key := fun h => hne h.symm
        simp only [Option.map, hk, hne2, if_false]
        exact hs)

/-- That the store holds something under `k` is left alone by a footprint that does not
delete `k`. -/
theorem respects_present (T : List Touch) (k : Key) (hT : (Verb.Delete, k) ∉ T) :
    Respects T (fun w => w.objs.get? k ≠ none) :=
  respects_store T (fun s => s.get? k ≠ none)
    (fun o s _ hs _ => by
      beta_reduce at hs ⊢
      cases hg : s.get? k with
      | none => exact absurd hg hs
      | some x => rw [Store.get?_append_of_some _ _ _ _ hg]; exact Option.some_ne_none _)
    (fun o s x _ hs hx => by
      beta_reduce at hs ⊢
      by_cases hk : o.key = k
      · rw [← hk, Store.get?_replace_self _ _ _ hx]; exact Option.some_ne_none _
      · rw [Store.get?_replace_ne _ _ _ hk]; exact hs)
    (fun o s _ ho hs _ => by
      beta_reduce at hs ⊢
      have hk : o.key ≠ k := fun h => hT (h ▸ ho)
      rw [Store.get?_remove_ne _ _ _ hk]; exact hs)
    (fun o s _ _ hs _ => by
      beta_reduce at hs ⊢
      rw [Store.get?_replaceStatus]
      cases hg : s.get? k with
      | none => exact absurd hg hs
      | some x => simp)

end Cryostat

namespace Cryostat

/-! ## Routes: what a pass reads of them and what it leaves -/

theorem Client.Update_objs (o : Obj) (w : World) :
    (Client.Update o w).2.objs = w.objs ∨ (Client.Update o w).2.objs = w.objs.replace o := by
  cases h : (Client.Update o w).1 with
  | error e => exact Or.inl (Client.call_objs_of_error _ _ _ _ w e h)
  | ok u =>
    have h2 := (Client.call_ok _ _ _ _ w u h).2
    split at h2
    · simp only [Except.ok.injEq, Prod.mk.injEq] at h2
      exact Or.inr h2.2.symm
    · cases h2

theorem Client.Create_objs (o : Obj) (w : World) :
    (Client.Create o w).2.objs = w.objs ∨
      (w.objs.get? o.key = none ∧ (Client.Create o w).2.objs = w.objs ++ [o]) := by
  cases h : (Client.Create o w).1 with
  | error e => exact Or.inl (Client.call_objs_of_error _ _ _ _ w e h)
  | ok u =>
    have h2 := (Client.call_ok _ _ _ _ w u h).2
    split at h2
    · cases h2
    · rename_i hn
      simp only [Except.ok.injEq, Prod.mk.injEq] at h2
      exact Or.inr ⟨hn, h2.2.symm⟩

theorem Store.routeIngress_replace (s : Store) (o x : Obj) (k : Key)
    (hx : s.get? o.key = some x) (hri : o.routeIngress = x.routeIngress) :
    (s.replace o).routeIngress k = s.routeIngress k := by
  unfold Store.routeIngress
  by_cases hk : o.key = k
  · rw [← hk, Store.get?_replace_self _ _ _ hx, hx]
    exact hri
  · rw [Store.get?_replace_ne _ _ _ hk]

theorem Store.routeIngress_append (s : Store) (o : Obj) (k : Key)
    (hx : s.get? o.key = none) (hri : o.routeIngress = []) :
    Store.routeIngress (s ++ [o]) k = s.routeIngress k := by
  unfold Store.routeIngress
  by_cases hk : o.key = k
  · rw [← hk, Store.get?_append_self _ _ hx, hx]
    exact hri
  · rw [Store.get?_append_ne _ _ _ hk]

theorem Obj.setRouteSpec_routeIngress (o : Obj) (spec : RouteSpec) :
    (o.setRouteSpec spec).routeIngress = o.routeIngress := by
  cases o with
  | mk m body => cases body <;> rfl

/-- The function `controllerutil.CreateOrUpdate` keeps the hosts every Route reports, for a
mutate function that leaves them alone. -/
theorem CreateOrUpdate_keeps_routeIngress (obj : Obj) (f : Obj → Obj) (k : Key)
    (L : List RouteIngress) (hf : ∀ o, (f o).routeIngress = o.routeIngress)
    (hkey : ∀ o, (f o).key = o.key) (hobj : obj.routeIngress = []) :
    Keeps (fun w => w.objs.routeIngress k = L) (CreateOrUpdate obj f) := by
  intro w hw
  have hobjs := Client.GetInto_objs obj w
  unfold CreateOrUpdate
  rw [run_bind, run_attempt]
  simp only
  cases hg : (Client.GetInto obj w).1 with
  | error err =>
    simp only
    split
    · rw [run_bind]
      have hc : ((Client.Create (f obj) (Client.GetInto obj w).2).2).objs.routeIngress k = L := by
        rcases Client.Create_objs (f obj) (Client.GetInto obj w).2 with h | ⟨hn, h⟩
        · rw [h, hobjs]; exact hw
        · rw [h, hobjs, Store.routeIngress_append _ _ _ (by rw [← hobjs]; exact hn)
            (by rw [hf, hobj])]
          exact hw
      split
      · exact hc
      · exact hc
    · rw [run_fail]
      show (Client.GetInto obj w).2.objs.routeIngress k = L
      rw [hobjs]; exact hw
  | ok existing =>
    obtain ⟨stored, _, hex, hrd, hek⟩ := Client.GetInto_ok _ _ _ hg
    simp only
    split
    · rw [run_pure]
      show (Client.GetInto obj w).2.objs.routeIngress k = L
      rw [hobjs]; exact hw
    · rw [run_bind]
      have hc : ((Client.Update (f existing) (Client.GetInto obj w).2).2).objs.routeIngress k
          = L := by
        rcases Client.Update_objs (f existing) (Client.GetInto obj w).2 with h | h
        · rw [h, hobjs]; exact hw
        · rw [h, hobjs, Store.routeIngress_replace _ _ stored _
            (by rw [hkey, hek]; exact hex)
            (by rw [hf, hrd, Obj.readInto_routeIngress])]
          exact hw
      split
      · exact hc
      · exact hc

/-- On a reliable store `controllerutil.CreateOrUpdate` succeeds and leaves in memory the
mutated object: what the read has left in it when the object is stored, the new one
otherwise. -/
theorem CreateOrUpdate_reliable (obj : Obj) (f : Obj → Obj) (w : World) (hrel : w.Reliable)
    (hkey : ∀ o, (f o).key = o.key) :
    ∃ op, (CreateOrUpdate obj f w).1 = .ok (op, match w.objs.get? obj.key with
      | some x => f (Obj.readInto w.decodeInto x obj)
      | none => f obj) := by
  have hg := Client.Get_reliable obj.key w hrel
  have hobjs := Client.GetInto_objs obj w
  have hrel2 : (Client.GetInto obj w).2.Reliable := by
    rw [Client.GetInto_world]; exact Client.Get_reliable_world obj.key w hrel
  unfold CreateOrUpdate
  rw [run_bind, run_attempt]
  simp only
  cases hs : w.objs.get? obj.key with
  | none =>
    rw [hs] at hg
    have hgi := Client.GetInto_of_error obj w _ hg
    have hc := (Client.Create_reliable (f obj) _ hrel2 (by rw [hobjs, hkey, hs])).1
    simp only [hgi, Err.IsNotFound, if_true, run_bind, hc, run_pure]
    exact ⟨_, rfl⟩
  | some x =>
    rw [hs] at hg
    have hgi := Client.GetInto_of_ok obj w _ hg
    simp only [hgi]
    have hxk := Store.get?_key _ _ _ hs
    by_cases hx : Obj.readInto w.decodeInto x obj = f (Obj.readInto w.decodeInto x obj)
    · rw [if_pos hx, run_pure]
      exact ⟨_, by rw [← hx]⟩
    · have hu := (Client.Update_reliable (f (Obj.readInto w.decodeInto x obj)) x _ hrel2
        (by rw [hobjs, hkey, Obj.readInto_key, hxk, hs])).1
      rw [if_neg hx]
      simp only [run_bind, hu, run_pure]
      exact ⟨_, rfl⟩

theorem SetControllerReference_routeIngress (owner object o : Obj)
    (h : SetControllerReference owner object = .ok o) : o.routeIngress = object.routeIngress := by
  unfold Obj.routeIngress
  rw [(SetControllerReference_meta _ _ _ h).2.2]

theorem createRouteForService_keeps_routeIngress (cr svc : Obj) (exposePort : ServicePort)
    (tlsConfig : Option TLSConfig) (k : Key) (L : List RouteIngress) :
    Keeps (fun w => w.objs.routeIngress k = L)
      (createRouteForService cr svc exposePort tlsConfig) := by
  unfold createRouteForService
  refine keeps_bind_ofExcept (fun route hroute => keeps_bind
    (CreateOrUpdate_keeps_routeIngress route _ k L
      (fun o => Obj.setRouteSpec_routeIngress o _) (fun o => Obj.setRouteSpec_key o _)
      (by rw [SetControllerReference_routeIngress _ _ _ hroute]; rfl)) (fun res => ?_))
  split
  split
  · exact keeps_fail _
  · exact keeps_pure _

/-- On a reliable store `createRouteForService` reports the first host the stored Route
carries, and asks to wait when there is none. -/
theorem createRouteForService_result (cr svc : Obj) (exposePort : ServicePort)
    (tlsConfig : Option TLSConfig) (w : World) (hrel : w.Reliable) :
    (createRouteForService cr svc exposePort tlsConfig w).1
      = (match SetControllerReference cr
            { meta := { Name := svc.meta.Name, Namespace := svc.meta.Namespace },
              body := .Route {} {} } with
        | .error e => .error e
        | .ok _ =>
          match w.objs.routeIngress ⟨.Route, svc.meta.Namespace, svc.meta.Name⟩ with
          | [] => .error ErrIngressNotReady
          | ingress :: _ => .ok (some { Scheme := getProtocol tlsConfig, Host := ingress.Host })) := by
  unfold createRouteForService
  rw [run_bind, run_ofExcept]
  cases hroute : SetControllerReference cr
      { meta := { Name := svc.meta.Name, Namespace := svc.meta.Namespace },
        body := .Route {} {} } with
  | error e => rfl
  | ok route =>
    have hk := SetControllerReference_key _ _ _ hroute
    have hri := SetControllerReference_routeIngress _ _ _ hroute
    obtain ⟨op, hcu⟩ := CreateOrUpdate_reliable route (fun route =>
      route.setRouteSpec
        { To := { Kind := "Service", Name := svc.meta.Name },
          Port := some exposePort.TargetPort,
          TLS := tlsConfig }) w hrel (fun o => Obj.setRouteSpec_key o _)
    simp only [run_bind, hcu]
    have hkk : route.key = ⟨.Route, svc.meta.Namespace, svc.meta.Name⟩ := by rw [hk]; rfl
    unfold Store.routeIngress
    rw [← hkk]
    cases hs : w.objs.get? route.key with
    | none =>
      simp only [Obj.setRouteSpec_routeIngress, hri]
      rfl
    | some x =>
      simp only [Obj.setRouteSpec_routeIngress, Obj.readInto_routeIngress]
      cases x.routeIngress <;> rfl

end Cryostat

namespace Cryostat

/-! ## What a pass observes is what it leaves -/

theorem keeps_forall_mem {ε α : Type} {ks : List Key} {I : Key → World → Prop} {m : Op ε α}
    (h : ∀ k ∈ ks, Keeps (I k) m) : Keeps (fun w => ∀ k ∈ ks, I k w) m :=
  fun w hw k hk => h k hk w (hw k hk)

theorem respects_forall_mem {T : List Touch} {ks : List Key} {I : Key → World → Prop}
    (h : ∀ k ∈ ks, Respects T (I k)) : Respects T (fun w => ∀ k ∈ ks, I k w) :=
  ⟨fun k2 => keeps_forall_mem (fun k hk => (h k hk).get k2),
    fun o ho => keeps_forall_mem (fun k hk => (h k hk).create o ho),
    fun o ho => keeps_forall_mem (fun k hk => (h k hk).update o ho),
    fun o ho => keeps_forall_mem (fun k hk => (h k hk).delete o ho),
    fun o ho => keeps_forall_mem (fun k hk => (h k hk).status o ho)⟩

/-- The part of `Observed` that is not about Routes. -/
theorem respects_observed_base (T : List Touch) (ck nk : Key) (v : Option Obj)
    (hT : ∀ t ∈ T, t.2 ≠ nk ∧ t ≠ (Verb.Delete, ck)) :
    Respects T (fun w => w.Reliable ∧ w.objs.get? ck ≠ none ∧ w.objs.get? nk = v) :=
  (respects_reliable T).and ((respects_present T ck (fun h => (hT _ h).2 rfl)).and
    (respects_get? T nk (fun o => o = v) (fun t ht => (hT t ht).1)))

theorem respects_routes (T : List Touch) (ks : List Key) (L : Key → List RouteIngress)
    (hT : ∀ t ∈ T, ∀ k ∈ ks, t.2 ≠ k) :
    Respects T (fun w => ∀ k ∈ ks, w.objs.routeIngress k = L k) :=
  respects_forall_mem (fun k hk => respects_get? T k
    (fun o => (match o with
      | some x => x.routeIngress
      | none => []) = L k) (fun t ht => hT t ht k hk))

/-- A footprint that writes neither the Namespace nor an observed Route and does not delete
the instance respects what a pass observes. -/
theorem respects_observed (T : List Touch) (ck nk : Key) (v : Option Obj) (ks : List Key)
    (L : Key → List RouteIngress)
    (hT : ∀ t ∈ T, t.2 ≠ nk ∧ t ≠ (Verb.Delete, ck) ∧ ∀ k ∈ ks, t.2 ≠ k) :
    Respects T (Observed ck nk v ks L) :=
  (respects_observed_base T ck nk v (fun t ht => ⟨(hT t ht).1, (hT t ht).2.1⟩)).and
    (respects_routes T ks L (fun t ht => (hT t ht).2.2))

theorem createRouteForService_keeps_observed (cr svc : Obj) (exposePort : ServicePort)
    (tlsConfig : Option TLSConfig) (ck nk : Key) (v : Option Obj) (ks : List Key)
    (L : Key → List RouteIngress) (hnk : nk.kind ≠ .Route) :
    Keeps (Observed ck nk v ks L) (createRouteForService cr svc exposePort tlsConfig) :=
  keeps_and
    (createRouteForService_keeps
      (respects_observed_base
        [(Verb.Create, ⟨.Route, svc.meta.Namespace, svc.meta.Name⟩),
          (Verb.Update, ⟨.Route, svc.meta.Namespace, svc.meta.Name⟩)] ck nk v
        (fun t ht => by
          simp only [List.mem_cons, List.mem_singleton, List.not_mem_nil, or_false] at ht
          rcases ht with h | h <;> subst h
          · exact ⟨fun h => hnk (h ▸ rfl), fun h => by cases h⟩
          · exact ⟨fun h => hnk (h ▸ rfl), fun h => by cases h⟩))
      cr svc exposePort tlsConfig (by simp) (by simp))
    (keeps_forall_mem (fun k _ =>
      createRouteForService_keeps_routeIngress cr svc exposePort tlsConfig k (L k)))

/-- The function `createService` keeps what a pass observes. -/
theorem createService_keeps_observed (r : CryostatReconciler) (controller svc : Obj)
    (exposePort : ServicePort) (tlsConfig : Option TLSConfig) (ck nk : Key) (v : Option Obj)
    (ks : List Key) (L : Key → List RouteIngress) (hk : svc.body.kind = .Service)
    (hnk : nk.kind = .Namespace) (hks : ∀ k ∈ ks, k.kind = .Route) :
    Keeps (Observed ck nk v ks L) (createService r controller svc exposePort tlsConfig) := by
  have hR : Respects [(Verb.Create, ⟨.Service, svc.meta.Namespace, svc.meta.Name⟩),
      (Verb.Create, ⟨.Ingress, svc.meta.Namespace, svc.meta.Name⟩)] (Observed ck nk v ks L) :=
    respects_observed _ ck nk v ks L (fun t ht => by
      simp only [List.mem_cons, List.mem_singleton, List.not_mem_nil, or_false] at ht
      rcases ht with h | h <;> subst h
      · refine ⟨fun h => ?_, fun h => (by cases h), fun k hk2 h => ?_⟩
        · rw [← h] at hnk; cases hnk
        · have := hks k hk2; rw [← h] at this; cases this
      · refine ⟨fun h => ?_, fun h => (by cases h), fun k hk2 h => ?_⟩
        · rw [← h] at hnk; cases hnk
        · have := hks k hk2; rw [← h] at this; cases this)
  unfold createService
  apply keeps_bind_ofExcept; intro svc2 h1
  obtain ⟨m1, m2, m3⟩ := SetControllerReference_meta _ _ _ h1
  apply keeps_bind (createObjectIfNotExists_keeps hR _ _ _ (by
    simp [Obj.key, m1, m2, m3, hk])); intro _
  split
  · exact createRouteForService_keeps_observed _ _ _ _ ck nk v ks L
      (by rw [hnk]; intro h; cases h)
  · split
    · exact keeps_pure _
    · apply keeps_bind_ofExcept; intro nc _
      split
      · exact keeps_pure _
      · split
        · exact keeps_pure _
        · exact createIngressForService_keeps hR _ _ _ (by simp [m1, m2])

end Cryostat

namespace Cryostat

theorem respects_passObserved (T : List Touch) (ns name : String) (minimal : Bool)
    (v : Option Obj) (L : Key → List RouteIngress)
    (hT : ∀ t ∈ T, t.2.kind ≠ .Namespace ∧ (t.2.kind = .Cryostat → t.1 ≠ .Delete) ∧
      t.2 ∉ exposureKeys ns name minimal) :
    Respects T (PassObserved ns name minimal v L) :=
  respects_observed T _ _ v _ L (fun t ht =>
    ⟨fun h => (hT t ht).1 (by rw [h]),
      fun h => (hT t ht).2.1 (by rw [h]) (by rw [h]),
      fun k hk h => (hT t ht).2.2 (by rw [h]; exact hk)⟩)

/-- The sections that write no Route respect what a pass observes. -/
theorem respects_passObserved_plain (r : CryostatReconciler) (ns name : String) (minimal : Bool)
    (v : Option Obj) (L : Key → List RouteIngress) :
    Respects (storageTouches ns name ++ secretsTouches ns name ++ createRBACTouches r ns name
        ++ deleteDeploymentTouches ns name ++ deploymentTouches ns name ++ statusTouches ns name
        ++ consoleLinkTouches r ns name)
      (PassObserved ns name minimal v L) :=
  respects_passObserved _ ns name minimal v L (by
    cases minimal <;> cases hos : r.IsOpenShift <;>
      simp [storageTouches, secretsTouches, createRBACTouches, deleteDeploymentTouches,
        deploymentTouches, statusTouches, consoleLinkTouches, exposureKeys, hos,
        List.forall_mem_append])

/-- The removal of the Grafana objects respects what a pass for a minimal instance
observes. -/
theorem respects_passObserved_minimal (r : CryostatReconciler) (ns name : String)
    (v : Option Obj) (L : Key → List RouteIngress) :
    Respects (grafanaTouches r ns name true) (PassObserved ns name true v L) :=
  respects_passObserved _ ns name true v L (by
    have n1 := String.ne_append_grafana name
    have n2 := String.command_ne_grafana name
    have n3 : ¬ name ++ "-grafana" = name := fun h => n1 h.symm
    have n4 : ¬ name ++ "-grafana" = name ++ "-command" := fun h => n2 h.symm
    cases hos : r.IsOpenShift <;>
      simp [grafanaTouches, deleteDeploymentTouches, exposureKeys, hos, n3, n4])

theorem Reconcile.storage_observed (r : CryostatReconciler) (inst : Obj) (minimal : Bool)
    (v : Option Obj) (L : Key → List RouteIngress) :
    Keeps (PassObserved inst.meta.Namespace inst.meta.Name minimal v L)
      (Reconcile.storage r inst) :=
  Reconcile.storage_keeps r inst ((respects_passObserved_plain r _ _ minimal v L).mono
    (fun t ht => by simp only [List.mem_append]; tauto))

theorem Reconcile.secrets_observed (r : CryostatReconciler) (inst : Obj) (minimal : Bool)
    (v : Option Obj) (L : Key → List RouteIngress) :
    Keeps (PassObserved inst.meta.Namespace inst.meta.Name minimal v L)
      (Reconcile.secrets r inst) :=
  Reconcile.secrets_keeps r inst ((respects_passObserved_plain r _ _ minimal v L).mono
    (fun t ht => by simp only [List.mem_append]; tauto))

theorem Reconcile.rbac_observed (r : CryostatReconciler) (inst : Obj) (minimal : Bool)
    (v : Option Obj) (L : Key → List RouteIngress) :
    Keeps (PassObserved inst.meta.Namespace inst.meta.Name minimal v L)
      (Reconcile.rbac r inst) :=
  Reconcile.rbac_keeps r inst ((respects_passObserved_plain r _ _ minimal v L).mono
    (fun t ht => by simp only [List.mem_append]; tauto))

theorem Reconcile.deleteDeployment_observed (r : CryostatReconciler) (inst : Obj)
    (mismatch : Nat → Bool) (minimal : Bool) (v : Option Obj) (L : Key → List RouteIngress) :
    Keeps (PassObserved inst.meta.Namespace inst.meta.Name minimal v L)
      (Reconcile.deleteDeployment inst mismatch) :=
  Reconcile.deleteDeployment_keeps inst mismatch
    ((respects_passObserved_plain r _ _ minimal v L).mono
      (fun t ht => by simp only [List.mem_append]; tauto))

theorem Reconcile.deployment_observed (r : CryostatReconciler) (inst : Obj)
    (serviceSpecs : ServiceSpecs) (tlsConfig : Option ResourcesTLSConfig) (minimal : Bool)
    (v : Option Obj) (L : Key → List RouteIngress) :
    Keeps (PassObserved inst.meta.Namespace inst.meta.Name minimal v L)
      (Reconcile.deployment r inst serviceSpecs tlsConfig) :=
  Reconcile.deployment_keeps r inst _ _ ((respects_passObserved_plain r _ _ minimal v L).mono
    (fun t ht => by simp only [List.mem_append]; tauto))

theorem Reconcile.status_observed (r : CryostatReconciler) (inst : Obj)
    (serviceSpecs : ServiceSpecs) (hk : inst.body.kind = .Cryostat) (minimal : Bool)
    (v : Option Obj) (L : Key → List RouteIngress) :
    Keeps (PassObserved inst.meta.Namespace inst.meta.Name minimal v L)
      (Reconcile.status inst serviceSpecs) :=
  Reconcile.status_keeps inst _ hk ((respects_passObserved_plain r _ _ minimal v L).mono
    (fun t ht => by simp only [List.mem_append]; tauto))

theorem Reconcile.consoleLink_observed (r : CryostatReconciler) (inst : Obj)
    (serviceSpecs : ServiceSpecs) (minimal : Bool)
    (v : Option Obj) (L : Key → List RouteIngress) :
    Keeps (PassObserved inst.meta.Namespace inst.meta.Name minimal v L)
      (Reconcile.consoleLink r inst serviceSpecs) :=
  Reconcile.consoleLink_keeps r inst _ ((respects_passObserved_plain r _ _ minimal v L).mono
    (fun t ht => by simp only [List.mem_append]; tauto))

theorem exposureKeys_kind (ns name : String) (minimal : Bool) :
    ∀ k ∈ exposureKeys ns name minimal, k.kind = .Route := by
  cases minimal <;> simp [exposureKeys]

theorem Reconcile.createService_observed (r : CryostatReconciler) (inst svc : Obj)
    (exposePort : ServicePort) (tlsConfig : Option TLSConfig) (hk : svc.body.kind = .Service)
    (ns name : String) (minimal : Bool) (v : Option Obj) (L : Key → List RouteIngress) :
    Keeps (PassObserved ns name minimal v L) (createService r inst svc exposePort tlsConfig) :=
  createService_keeps_observed r inst svc exposePort tlsConfig _ _ v _ L hk rfl
    (exposureKeys_kind ns name minimal)

theorem Reconcile.grafana_observed (r : CryostatReconciler) (inst : Obj)
    (routeTLS : Option TLSConfig) (v : Option Obj) (L : Key → List RouteIngress) :
    Keeps (PassObserved inst.meta.Namespace inst.meta.Name inst.Spec.Minimal v L)
      (Reconcile.grafana r inst routeTLS) := by
  cases hmin : inst.Spec.Minimal with
  | true =>
    have := Reconcile.grafana_keeps r inst routeTLS
      (I := PassObserved inst.meta.Namespace inst.meta.Name true v L)
    rw [hmin] at this
    exact this (respects_passObserved_minimal r _ _ v L)
  | false =>
    unfold Reconcile.grafana
    simp only [hmin, Bool.not_false, if_true]
    apply keeps_bind (keeps_attempt (Reconcile.createService_observed r inst
      (NewGrafanaService r.resources inst) _ _ rfl _ _ _ v L))
    intro res
    split
    · exact keeps_fail _
    · apply keeps_bind (Reconcile.deleteDeployment_observed r inst _ false v L); intro _
      exact keeps_pure _

theorem Reconcile.core_observed (r : CryostatReconciler) (inst : Obj)
    (routeTLS : Option TLSConfig) (minimal : Bool) (v : Option Obj)
    (L : Key → List RouteIngress) :
    Keeps (PassObserved inst.meta.Namespace inst.meta.Name minimal v L)
      (Reconcile.core r inst routeTLS) := by
  unfold Reconcile.core
  apply keeps_bind (keeps_attempt (Reconcile.createService_observed r inst
    (NewExporterService r.resources inst) _ _ rfl _ _ _ v L))
  intro res
  split
  · exact keeps_fail _
  · exact keeps_pure _

theorem Reconcile.command_observed (r : CryostatReconciler) (inst : Obj)
    (routeTLS : Option TLSConfig) (minimal : Bool) (v : Option Obj)
    (L : Key → List RouteIngress) :
    Keeps (PassObserved inst.meta.Namespace inst.meta.Name minimal v L)
      (Reconcile.command r inst routeTLS) := by
  unfold Reconcile.command
  apply keeps_bind (keeps_attempt (Reconcile.createService_observed r inst
    (NewCommandChannelService r.resources inst) _ _ rfl _ _ _ v L))
  intro res
  split
  · exact keeps_fail _
  · exact keeps_pure _

end Cryostat

namespace Cryostat

/-! ## What the sections return on a reliable store -/

theorem createIngressForService_result (controller svc : Obj) (nc : NetworkConfiguration)
    (w : World) (hrel : w.Reliable) :
    (createIngressForService controller svc nc w).1
      = (match nc.IngressSpec with
        | none => .error (.Panic "nil pointer dereference")
        | some ingressSpec =>
          match SetControllerReference controller
              { meta := { Name := svc.meta.Name, Namespace := svc.meta.Namespace,
                          Annotations := nc.Annotations, Labels := nc.Labels },
                body := .Ingress ingressSpec } with
          | .error e => .error e
          | .ok _ =>
            match ingressSpec.Rules with
            | none => .ok (some { Scheme := if ingressSpec.TLS.isSome then "https" else "http",
                                  Host := "" })
            | some [] => .error (.Panic "index out of range [0] with length 0")
            | some (rule :: _) =>
              .ok (some { Scheme := if ingressSpec.TLS.isSome then "https" else "http",
                          Host := rule.Host })) := by
  unfold createIngressForService
  cases hspec : nc.IngressSpec with
  | none => rfl
  | some ingressSpec =>
    simp only
    rw [run_bind, run_ofExcept]
    cases hscr : SetControllerReference controller
        { meta := { Name := svc.meta.Name, Namespace := svc.meta.Namespace,
                    Annotations := nc.Annotations, Labels := nc.Labels },
          body := .Ingress ingressSpec } with
    | error e => rfl
    | ok ingress =>
      have hk : ingress.key = ⟨.Ingress, svc.meta.Namespace, svc.meta.Name⟩ := by
        rw [SetControllerReference_key _ _ _ hscr]; rfl
      have hg := Client.Get_reliable ⟨.Ingress, svc.meta.Namespace, svc.meta.Name⟩ w hrel
      have hobjs := Client.Get_objs ⟨.Ingress, svc.meta.Namespace, svc.meta.Name⟩ w
      have hrel2 := Client.Get_reliable_world ⟨.Ingress, svc.meta.Namespace, svc.meta.Name⟩ w hrel
      simp only
      rw [run_bind, run_attempt]
      simp only
      cases hs : w.objs.get? ⟨.Ingress, svc.meta.Namespace, svc.meta.Name⟩ with
      | none =>
        rw [hs] at hg
        have hc := (Client.Create_reliable ingress _ hrel2 (by rw [hobjs, hk, hs])).1
        simp only [hg, Err.IsNotFound, if_true, run_bind, hc]
        cases ingressSpec.Rules with
        | none => rfl
        | some rules => cases rules <;> rfl
      | some x =>
        rw [hs] at hg
        simp only [hg, run_bind, run_pure]
        cases ingressSpec.Rules with
        | none => rfl
        | some rules => cases rules <;> rfl

theorem createIngressForService_det (controller svc : Obj) (nc : NetworkConfiguration)
    {O : World → Prop} (hO : ∀ w, O w → w.Reliable) :
    DetOn O (createIngressForService controller svc nc) :=
  detOn_const _ (fun w hw => createIngressForService_result controller svc nc w (hO w hw))

theorem createRouteForService_det (cr svc : Obj) (exposePort : ServicePort)
    (tlsConfig : Option TLSConfig) {O : World → Prop} (L : List RouteIngress)
    (hO : ∀ w, O w → w.Reliable)
    (hL : ∀ w, O w → w.objs.routeIngress ⟨.Route, svc.meta.Namespace, svc.meta.Name⟩ = L) :
    DetOn O (createRouteForService cr svc exposePort tlsConfig) := by
  intro w1 w2 h1 h2
  rw [createRouteForService_result cr svc exposePort tlsConfig w1 (hO w1 h1),
    createRouteForService_result cr svc exposePort tlsConfig w2 (hO w2 h2), hL w1 h1, hL w2 h2]

theorem createObjectIfNotExists_det (ns : NamespacedName) (found : Kind) (toCreate : Obj)
    {O : World → Prop} (hO : ∀ w, O w → w.Reliable)
    (hkey : toCreate.key = ⟨found, ns.Namespace, ns.Name⟩) :
    DetOn O (createObjectIfNotExists ns found toCreate) :=
  detOn_const (.ok ()) (fun w hw => createObjectIfNotExists_reliable ns found toCreate w (hO w hw) hkey)

/-- Of the world, `createService` reads only the hosts of the Route it maintains. -/
theorem createService_det (r : CryostatReconciler) (controller svc : Obj)
    (exposePort : ServicePort) (tlsConfig : Option TLSConfig) {O : World → Prop}
    (L : List RouteIngress) (hk : svc.body.kind = .Service)
    (hO : ∀ w, O w → w.Reliable)
    (hR : Respects [(Verb.Create, ⟨.Service, svc.meta.Namespace, svc.meta.Name⟩)] O)
    (hL : ∀ w, O w → w.objs.routeIngress ⟨.Route, svc.meta.Namespace, svc.meta.Name⟩ = L) :
    DetOn O (createService r controller svc exposePort tlsConfig) := by
  unfold createService
  apply detOn_bind_ofExcept; intro svc2 h1
  obtain ⟨m1, m2, m3⟩ := SetControllerReference_meta _ _ _ h1
  have hkey : svc2.key = ⟨.Service, svc2.meta.Namespace, svc2.meta.Name⟩ := by
    simp [Obj.key, m3, hk]
  apply detOn_bind (createObjectIfNotExists_det _ _ _ hO hkey)
    (createObjectIfNotExists_keeps hR _ _ _ (by simp [Obj.key, m1, m2, m3, hk]))
  intro _ _
  split
  · exact createRouteForService_det _ _ _ _ L hO (by rw [m1, m2]; exact hL)
  · split
    · exact detOn_pure _
    · apply detOn_bind_ofExcept; intro nc _
      split
      · exact detOn_pure _
      · split
        · exact detOn_pure _
        · exact createIngressForService_det _ _ _ hO

theorem Reconcile.deleteDeployment_reliable (inst : Obj) (mismatch : Nat → Bool) (w : World)
    (hrel : w.Reliable) : (Reconcile.deleteDeployment inst mismatch w).1 = .ok () := by
  have hg := Client.Get_reliable ⟨.Deployment, inst.meta.Namespace, inst.meta.Name⟩ w hrel
  have hobjs := Client.Get_objs ⟨.Deployment, inst.meta.Namespace, inst.meta.Name⟩ w
  have hrel2 := Client.Get_reliable_world ⟨.Deployment, inst.meta.Namespace, inst.meta.Name⟩ w hrel
  unfold Reconcile.deleteDeployment
  rw [run_bind, run_attempt]
  cases hs : w.objs.get? ⟨.Deployment, inst.meta.Namespace, inst.meta.Name⟩ with
  | none =>
    rw [hs] at hg
    simp only [hg, run_pure]
  | some x =>
    rw [hs] at hg
    have hk := Store.get?_key _ _ _ hs
    have hd := (Client.Delete_reliable x x _ hrel2 (by rw [hobjs, hk, hs])).1
    simp only [hg]
    split
    · simp only [run_bind, run_attempt, hd, run_pure]
    · rfl

theorem Reconcile.deleteExposure_reliable_ok (kind : Kind) (svc : Obj) (w : World)
    (hrel : w.Reliable) : (Reconcile.deleteExposure kind svc w).1 = .ok () := by
  have hg := Client.Get_reliable ⟨kind, svc.meta.Namespace, svc.meta.Name⟩ w hrel
  have hobjs := Client.Get_objs ⟨kind, svc.meta.Namespace, svc.meta.Name⟩ w
  have hrel2 := Client.Get_reliable_world ⟨kind, svc.meta.Namespace, svc.meta.Name⟩ w hrel
  unfold Reconcile.deleteExposure
  rw [run_bind, run_attempt]
  cases hs : w.objs.get? ⟨kind, svc.meta.Namespace, svc.meta.Name⟩ with
  | none =>
    rw [hs] at hg
    simp only [hg, Err.IsNotFound, Bool.not_true, Bool.false_eq_true, if_false, run_pure]
  | some x =>
    rw [hs] at hg
    have hk := Store.get?_key _ _ _ hs
    have hd := (Client.Delete_reliable x x _ hrel2 (by rw [hobjs, hk, hs])).1
    simp only [hg, run_bind, run_attempt, hd, run_pure]

theorem Reconcile.deleteGrafanaService_reliable (svc : Obj) (w : World)
    (hrel : w.Reliable) : (Reconcile.deleteGrafanaService svc w).1 = .ok () := by
  have hg := Client.Get_reliable ⟨.Service, svc.meta.Namespace, svc.meta.Name⟩ w hrel
  have hobjs := Client.Get_objs ⟨.Service, svc.meta.Namespace, svc.meta.Name⟩ w
  have hrel2 := Client.Get_reliable_world ⟨.Service, svc.meta.Namespace, svc.meta.Name⟩ w hrel
  unfold Reconcile.deleteGrafanaService
  rw [run_bind, run_attempt]
  cases hs : w.objs.get? ⟨.Service, svc.meta.Namespace, svc.meta.Name⟩ with
  | none =>
    rw [hs] at hg
    simp only [hg, run_pure]
  | some x =>
    rw [hs] at hg
    have hk := Store.get?_key _ _ _ hs
    have hd := (Client.Delete_reliable x x _ hrel2 (by rw [hobjs, hk, hs])).1
    simp only [hg, run_bind, run_attempt, hd, run_pure]

end Cryostat

namespace Cryostat

theorem PassObserved.isReliable {ns name : String} {minimal : Bool} {v : Option Obj}
    {L : Key → List RouteIngress} (w : World) (h : PassObserved ns name minimal v L w) :
    w.Reliable := h.1.1

theorem Reconcile.storage_det (r : CryostatReconciler) (inst : Obj) {O : World → Prop}
    (hO : ∀ w, O w → w.Reliable) : DetOn O (Reconcile.storage r inst) := by
  unfold Reconcile.storage
  apply detOn_bind_orReturn_ofExcept; intro pvc h1
  obtain ⟨m1, m2, m3⟩ := SetControllerReference_meta _ _ _ h1
  exact detOn_orReturn (createObjectIfNotExists_det _ _ _ hO (by
    simp [Obj.key, m3, NewPersistentVolumeClaimForCR, Body.kind]))

theorem Reconcile.secrets_det (r : CryostatReconciler) (inst : Obj) {O : World → Prop}
    (hO : ∀ w, O w → w.Reliable)
    (hR : Respects (secretsTouches inst.meta.Namespace inst.meta.Name) O) :
    DetOn O (Reconcile.secrets r inst) := by
  unfold Reconcile.secrets
  apply detOn_bind_orReturn_ofExcept; intro s1 h1
  obtain ⟨m1, m2, m3⟩ := SetControllerReference_meta _ _ _ h1
  apply detOn_bind (detOn_orReturn (createObjectIfNotExists_det _ _ _ hO (by
      simp [Obj.key, m3, NewGrafanaSecretForCR, Body.kind])))
    (keeps_orReturn (createObjectIfNotExists_keeps hR _ _ _ (by
      simp [secretsTouches, Obj.key, m1, m2, m3, NewGrafanaSecretForCR, Body.kind])))
  intro _ _
  apply detOn_bind_orReturn_ofExcept; intro s2 h2
  obtain ⟨n1, n2, n3⟩ := SetControllerReference_meta _ _ _ h2
  exact detOn_orReturn (createObjectIfNotExists_det _ _ _ hO (by
    simp [Obj.key, n3, NewJmxSecretForCR, Body.kind]))

theorem Reconcile.tls_det (r : CryostatReconciler) (inst : Obj) {O : World → Prop} :
    DetOn O (Reconcile.tls r inst) := by
  unfold Reconcile.tls
  split
  · split
    · split
      · exact detOn_fail _
      · exact detOn_fail _
    · split
      · exact detOn_fail _
      · exact detOn_pure _
  · exact detOn_pure _

theorem createRBAC_det (r : CryostatReconciler) (cr : Obj) {O : World → Prop}
    (hO : ∀ w, O w → w.Reliable)
    (hR : Respects (createRBACTouches r cr.meta.Namespace cr.meta.Name) O) :
    DetOn O (createRBAC r cr) := by
  unfold createRBAC
  apply detOn_bind_ofExcept; intro sa h1
  obtain ⟨a1, a2, a3⟩ := SetControllerReference_meta _ _ _ h1
  apply detOn_bind (createObjectIfNotExists_det _ _ _ hO (by
      simp [Obj.key, a3, NewServiceAccountForCR, Body.kind]))
    (createObjectIfNotExists_keeps hR _ _ _ (by
      simp [createRBACTouches, Obj.key, a1, a2, a3, NewServiceAccountForCR, Body.kind]))
  intro _ _
  apply detOn_bind_ofExcept; intro role h2
  obtain ⟨b1, b2, b3⟩ := SetControllerReference_meta _ _ _ h2
  apply detOn_bind (createObjectIfNotExists_det _ _ _ hO (by
      simp [Obj.key, b3, NewRoleForCR, Body.kind]))
    (createObjectIfNotExists_keeps hR _ _ _ (by
      simp [createRBACTouches, Obj.key, b1, b2, b3, NewRoleForCR, Body.kind]))
  intro _ _
  apply detOn_bind_ofExcept; intro binding h3
  obtain ⟨c1, c2, c3⟩ := SetControllerReference_meta _ _ _ h3
  apply detOn_bind (createObjectIfNotExists_det _ _ _ hO (by
      simp [Obj.key, c3, NewRoleBindingForCR, Body.kind]))
    (createObjectIfNotExists_keeps hR _ _ _ (by
      simp [createRBACTouches, Obj.key, c1, c2, c3, NewRoleBindingForCR, Body.kind]))
  intro _ _
  exact createObjectIfNotExists_det _ _ _ hO (by
    simp [Obj.key, NewClusterRoleBindingForCR, Body.kind])

theorem Reconcile.rbac_det (r : CryostatReconciler) (inst : Obj) {O : World → Prop}
    (hO : ∀ w, O w → w.Reliable)
    (hR : Respects (createRBACTouches r inst.meta.Namespace inst.meta.Name) O) :
    DetOn O (Reconcile.rbac r inst) :=
  detOn_orReturn (createRBAC_det r inst hO hR)

theorem exposureKeys_core (ns name : String) (minimal : Bool) :
    (⟨.Route, ns, name⟩ : Key) ∈ exposureKeys ns name minimal := by
  simp [exposureKeys]

theorem exposureKeys_command (ns name : String) (minimal : Bool) :
    (⟨.Route, ns, name ++ "-command"⟩ : Key) ∈ exposureKeys ns name minimal := by
  simp [exposureKeys]

theorem exposureKeys_grafana (ns name : String) :
    (⟨.Route, ns, name ++ "-grafana"⟩ : Key) ∈ exposureKeys ns name false := by
  simp [exposureKeys]

theorem respects_passObserved_service (ns name svcName : String) (minimal : Bool)
    (v : Option Obj) (L : Key → List RouteIngress) :
    Respects [(Verb.Create, ⟨.Service, ns, svcName⟩)] (PassObserved ns name minimal v L) :=
  respects_passObserved _ ns name minimal v L (by
    cases minimal <;> simp [exposureKeys])

theorem Reconcile.grafana_det (r : CryostatReconciler) (inst : Obj)
    (routeTLS : Option TLSConfig) (v : Option Obj) (L : Key → List RouteIngress) :
    DetOn (PassObserved inst.meta.Namespace inst.meta.Name inst.Spec.Minimal v L)
      (Reconcile.grafana r inst routeTLS) := by
  cases hmin : inst.Spec.Minimal with
  | true =>
    have hR := respects_passObserved_minimal r inst.meta.Namespace inst.meta.Name v L
    unfold Reconcile.grafana
    simp only [hmin, Bool.not_true, Bool.false_eq_true, if_false]
    apply detOn_bind (detOn_const (.ok ()) (fun w hw =>
        Reconcile.deleteExposure_reliable_ok _ _ w hw.isReliable))
      (Reconcile.deleteExposure_keeps hR _ _ (by
        simp [grafanaTouches, NewGrafanaService, NewService]))
    intro _ _
    apply detOn_bind (detOn_const (.ok ()) (fun w hw =>
        Reconcile.deleteGrafanaService_reliable _ w hw.isReliable))
      (Reconcile.deleteGrafanaService_keeps hR _ (by
        simp [grafanaTouches, NewGrafanaService, NewService]))
    intro _ _
    apply detOn_bind (detOn_const (.ok ()) (fun w hw =>
        Reconcile.deleteDeployment_reliable _ _ w hw.isReliable))
      (Reconcile.deleteDeployment_observed r inst _ true v L)
    intro _ _
    exact detOn_pure _
  | false =>
    unfold Reconcile.grafana
    simp only [hmin, Bool.not_false, if_true]
    apply detOn_bind (detOn_attempt (createService_det r inst
        (NewGrafanaService r.resources inst) _ _
        (L ⟨.Route, inst.meta.Namespace, inst.meta.Name ++ "-grafana"⟩) rfl
        (fun w hw => hw.isReliable)
        (respects_passObserved_service _ _ _ false v L)
        (fun w hw => hw.2 _ (exposureKeys_grafana _ _))))
      (keeps_attempt (Reconcile.createService_observed r inst
        (NewGrafanaService r.resources inst) _ _ rfl _ _ _ v L))
    intro res _
    split
    · exact detOn_fail _
    · apply detOn_bind (detOn_const (.ok ()) (fun w hw =>
          Reconcile.deleteDeployment_reliable _ _ w hw.isReliable))
        (Reconcile.deleteDeployment_observed r inst _ false v L)
      intro _ _
      exact detOn_pure _

theorem Reconcile.core_det (r : CryostatReconciler) (inst : Obj)
    (routeTLS : Option TLSConfig) (minimal : Bool) (v : Option Obj)
    (L : Key → List RouteIngress) :
    DetOn (PassObserved inst.meta.Namespace inst.meta.Name minimal v L)
      (Reconcile.core r inst routeTLS) := by
  unfold Reconcile.core
  apply detOn_bind (detOn_attempt (createService_det r inst
      (NewExporterService r.resources inst) _ _
      (L ⟨.Route, inst.meta.Namespace, inst.meta.Name⟩) rfl
      (fun w hw => hw.isReliable)
      (respects_passObserved_service _ _ _ minimal v L)
      (fun w hw => hw.2 _ (exposureKeys_core _ _ _))))
    (keeps_attempt (Reconcile.createService_observed r inst
      (NewExporterService r.resources inst) _ _ rfl _ _ _ v L))
  intro res _
  split
  · exact detOn_fail _
  · exact detOn_pure _

theorem Reconcile.command_det (r : CryostatReconciler) (inst : Obj)
    (routeTLS : Option TLSConfig) (minimal : Bool) (v : Option Obj)
    (L : Key → List RouteIngress) :
    DetOn (PassObserved inst.meta.Namespace inst.meta.Name minimal v L)
      (Reconcile.command r inst routeTLS) := by
  unfold Reconcile.command
  apply detOn_bind (detOn_attempt (createService_det r inst
      (NewCommandChannelService r.resources inst) _ _
      (L ⟨.Route, inst.meta.Namespace, inst.meta.Name ++ "-command"⟩) rfl
      (fun w hw => hw.isReliable)
      (respects_passObserved_service _ _ _ minimal v L)
      (fun w hw => hw.2 _ (exposureKeys_command _ _ _))))
    (keeps_attempt (Reconcile.createService_observed r inst
      (NewCommandChannelService r.resources inst) _ _ rfl _ _ _ v L))
  intro res _
  split
  · exact detOn_fail _
  · exact detOn_pure _

end Cryostat

namespace Cryostat

theorem getFSGroup_det (r : CryostatReconciler) (ns : String) {O : World → Prop}
    (v : Option Obj) (hO : ∀ w, O w → w.Reliable)
    (hv : ∀ w, O w → w.objs.get? ⟨.Namespace, "", ns⟩ = v) : DetOn O (getFSGroup r ns) := by
  unfold getFSGroup
  split
  · intro w1 w2 h1 h2
    rw [run_bind, run_bind, Client.Get_reliable _ w1 (hO w1 h1),
      Client.Get_reliable _ w2 (hO w2 h2), hv w1 h1, hv w2 h2]
    cases v with
    | none => rfl
    | some nsObj =>
      simp only
      cases List.lookup SupplementalGroupsAnnotation nsObj.meta.Annotations <;> rfl
  · exact detOn_pure _

theorem Reconcile.deployment_det (r : CryostatReconciler) (inst : Obj)
    (serviceSpecs : ServiceSpecs) (tlsConfig : Option ResourcesTLSConfig) (minimal : Bool)
    (v : Option Obj) (L : Key → List RouteIngress) :
    DetOn (PassObserved inst.meta.Namespace inst.meta.Name minimal v L)
      (Reconcile.deployment r inst serviceSpecs tlsConfig) := by
  have hR := respects_passObserved_plain r inst.meta.Namespace inst.meta.Name minimal v L
  unfold Reconcile.deployment
  apply detOn_bind (detOn_orReturn (getFSGroup_det r _ v (fun w hw => hw.isReliable)
      (fun w hw => hw.1.2.2)))
    (keeps_orReturn (getFSGroup_keeps hR r _))
  intro fsGroup _
  simp only []
  apply detOn_bind_orReturn_ofExcept; intro deployment h1
  refine detOn_const (.ok ()) (fun w hw => ?_)
  obtain ⟨op, hcu⟩ := CreateOrUpdate_reliable deployment
    (fun deployment => deployment.setPodSpec
      (NewDeploymentForCR r.resources inst serviceSpecs (getImageTags r) tlsConfig
        fsGroup).deploymentSpec.Template.Spec) w hw.isReliable (fun o => Obj.setPodSpec_key o _)
  rw [run_bind, run_orReturn]
  simp only [hcu, run_pure]

theorem Reconcile.status_det (inst : Obj) (serviceSpecs : ServiceSpecs)
    (hk : inst.body.kind = .Cryostat) (minimal : Bool)
    (v : Option Obj) (L : Key → List RouteIngress) :
    DetOn (PassObserved inst.meta.Namespace inst.meta.Name minimal v L)
      (Reconcile.status inst serviceSpecs) := by
  unfold Reconcile.status
  split
  · rename_i coreURL _
    refine detOn_const (.ok (inst.setApplicationURL coreURL.String)) (fun w hw => ?_)
    have hp := hw.1.2.1
    cases hs : w.objs.get? ⟨.Cryostat, inst.meta.Namespace, inst.meta.Name⟩ with
    | none => exact absurd hs hp
    | some x =>
      have hkey : (inst.setApplicationURL coreURL.String).key
          = ⟨.Cryostat, inst.meta.Namespace, inst.meta.Name⟩ := by
        rw [Obj.setApplicationURL_key]; simp [Obj.key, hk]
      have hu := (Client.StatusUpdate_reliable (inst.setApplicationURL coreURL.String) x w
        hw.isReliable (by rw [hkey, hs])).1
      rw [run_bind, run_orReturn]
      simp only [hu, run_pure]
  · exact detOn_pure _

theorem Reconcile.consoleLink_det (r : CryostatReconciler) (inst : Obj)
    (serviceSpecs : ServiceSpecs) {O : World → Prop} (hO : ∀ w, O w → w.Reliable) :
    DetOn O (Reconcile.consoleLink r inst serviceSpecs) := by
  unfold Reconcile.consoleLink
  split
  · split
    · exact detOn_fail _
    · exact detOn_orReturn (createObjectIfNotExists_det _ _ _ hO (by
        simp [Obj.key, NewConsoleLink, Body.kind]))
  · exact detOn_pure _

end Cryostat

namespace Cryostat

/-! ## The pass reads of the instance its identity and its specification only -/

theorem SetControllerReference_congr {a b : Obj} (h : a.Alike b) (o : Obj) :
    SetControllerReference a o = SetControllerReference b o := by
  unfold SetControllerReference
  simp only [Obj.kind, h.1, h.2.2]

theorem Obj.declared_congr {a b : Obj} (h : a.Alike b) : a.declared = b.declared := by
  unfold Obj.declared
  rw [h.1, h.2.1]

theorem getNetworkConfig_congr {a b : Obj} (h : a.Alike b) (svc : Obj) :
    getNetworkConfig a svc = getNetworkConfig b svc := by
  unfold getNetworkConfig
  simp only [h.1, h.2.1]

theorem NewPersistentVolumeClaimForCR_congr {a b : Obj} (h : a.Alike b)
    (rd : ResourceDefinitions) :
    NewPersistentVolumeClaimForCR rd a = NewPersistentVolumeClaimForCR rd b := by
  unfold NewPersistentVolumeClaimForCR
  rw [h.1, Obj.declared_congr h]

theorem NewGrafanaSecretForCR_congr {a b : Obj} (h : a.Alike b) (rd : ResourceDefinitions) :
    NewGrafanaSecretForCR rd a = NewGrafanaSecretForCR rd b := by
  unfold NewGrafanaSecretForCR
  rw [h.1, Obj.declared_congr h]

theorem NewJmxSecretForCR_congr {a b : Obj} (h : a.Alike b) (rd : ResourceDefinitions) :
    NewJmxSecretForCR rd a = NewJmxSecretForCR rd b := by
  unfold NewJmxSecretForCR
  rw [h.1, Obj.declared_congr h]

theorem NewServiceAccountForCR_congr {a b : Obj} (h : a.Alike b) (rd : ResourceDefinitions) :
    NewServiceAccountForCR rd a = NewServiceAccountForCR rd b := by
  unfold NewServiceAccountForCR
  rw [h.1]

theorem NewRoleForCR_congr {a b : Obj} (h : a.Alike b) (rd : ResourceDefinitions) :
    NewRoleForCR rd a = NewRoleForCR rd b := by
  unfold NewRoleForCR
  rw [h.1, Obj.declared_congr h]

theorem NewRoleBindingForCR_congr {a b : Obj} (h : a.Alike b) (rd : ResourceDefinitions) :
    NewRoleBindingForCR rd a = NewRoleBindingForCR rd b := by
  unfold NewRoleBindingForCR
  rw [h.1, Obj.declared_congr h]

theorem NewClusterRoleBindingForCR_congr {a b : Obj} (h : a.Alike b)
    (rd : ResourceDefinitions) :
    NewClusterRoleBindingForCR rd a = NewClusterRoleBindingForCR rd b := by
  unfold NewClusterRoleBindingForCR
  rw [h.1, Obj.declared_congr h]

theorem NewGrafanaService_congr {a b : Obj} (h : a.Alike b) (rd : ResourceDefinitions) :
    NewGrafanaService rd a = NewGrafanaService rd b := by
  unfold NewGrafanaService NewService
  rw [h.1, Obj.declared_congr h]

theorem NewExporterService_congr {a b : Obj} (h : a.Alike b) (rd : ResourceDefinitions) :
    NewExporterService rd a = NewExporterService rd b := by
  unfold NewExporterService NewService
  rw [h.1, Obj.declared_congr h]

theorem NewCommandChannelService_congr {a b : Obj} (h : a.Alike b) (rd : ResourceDefinitions) :
    NewCommandChannelService rd a = NewCommandChannelService rd b := by
  unfold NewCommandChannelService NewService
  rw [h.1, Obj.declared_congr h]

theorem NewDeploymentForCR_congr {a b : Obj} (h : a.Alike b) (rd : ResourceDefinitions)
    (specs : ServiceSpecs) (imageTags : ImageTags) (tls : Option ResourcesTLSConfig)
    (fsGroup : Int) :
    NewDeploymentForCR rd a specs imageTags tls fsGroup
      = NewDeploymentForCR rd b specs imageTags tls fsGroup := by
  unfold NewDeploymentForCR
  rw [h.1, Obj.declared_congr h]

theorem NewConsoleLink_congr {a b : Obj} (h : a.Alike b) (rd : ResourceDefinitions)
    (url : String) : NewConsoleLink rd a url = NewConsoleLink rd b url := by
  unfold NewConsoleLink
  rw [h.1]

theorem createRouteForService_congr {a b : Obj} (h : a.Alike b) (svc : Obj)
    (exposePort : ServicePort) (tlsConfig : Option TLSConfig) :
    createRouteForService a svc exposePort tlsConfig
      = createRouteForService b svc exposePort tlsConfig := by
  unfold createRouteForService
  rw [SetControllerReference_congr h]

theorem createIngressForService_congr {a b : Obj} (h : a.Alike b) (svc : Obj)
    (nc : NetworkConfiguration) :
    createIngressForService a svc nc = createIngressForService b svc nc := by
  unfold createIngressForService
  simp only [SetControllerReference_congr h]

theorem createService_congr {a b : Obj} (h : a.Alike b) (r : CryostatReconciler) (svc : Obj)
    (exposePort : ServicePort) (tlsConfig : Option TLSConfig) :
    createService r a svc exposePort tlsConfig = createService r b svc exposePort tlsConfig := by
  unfold createService
  simp only [SetControllerReference_congr h, createRouteForService_congr h,
    createIngressForService_congr h, getNetworkConfig_congr h, h.2.1]

theorem createRBAC_congr {a b : Obj} (h : a.Alike b) (r : CryostatReconciler) :
    createRBAC r a = createRBAC r b := by
  unfold createRBAC
  simp only [SetControllerReference_congr h, NewServiceAccountForCR_congr h,
    NewRoleForCR_congr h, NewRoleBindingForCR_congr h, NewClusterRoleBindingForCR_congr h]

theorem Reconcile.storage_congr {a b : Obj} (h : a.Alike b) (r : CryostatReconciler) :
    Reconcile.storage r a = Reconcile.storage r b := by
  unfold Reconcile.storage
  simp only [SetControllerReference_congr h, NewPersistentVolumeClaimForCR_congr h]

theorem Reconcile.secrets_congr {a b : Obj} (h : a.Alike b) (r : CryostatReconciler) :
    Reconcile.secrets r a = Reconcile.secrets r b := by
  unfold Reconcile.secrets
  simp only [SetControllerReference_congr h, NewGrafanaSecretForCR_congr h,
    NewJmxSecretForCR_congr h]

theorem Reconcile.tls_congr {a b : Obj} (h : a.Alike b) (r : CryostatReconciler) :
    Reconcile.tls r a = Reconcile.tls r b := by
  unfold Reconcile.tls
  simp only [Obj.declared_congr h]

theorem Reconcile.rbac_congr {a b : Obj} (h : a.Alike b) (r : CryostatReconciler) :
    Reconcile.rbac r a = Reconcile.rbac r b := by
  unfold Reconcile.rbac
  rw [createRBAC_congr h]

theorem Reconcile.deleteDeployment_congr {a b : Obj} (h : a.Alike b) (mismatch : Nat → Bool) :
    Reconcile.deleteDeployment a mismatch = Reconcile.deleteDeployment b mismatch := by
  unfold Reconcile.deleteDeployment
  rw [h.1]

theorem Reconcile.grafana_congr {a b : Obj} (h : a.Alike b) (r : CryostatReconciler)
    (routeTLS : Option TLSConfig) :
    Reconcile.grafana r a routeTLS = Reconcile.grafana r b routeTLS := by
  unfold Reconcile.grafana
  simp only [createService_congr h, NewGrafanaService_congr h, Obj.declared_congr h,
    Reconcile.deleteDeployment_congr h, h.2.1]

theorem Reconcile.core_congr {a b : Obj} (h : a.Alike b) (r : CryostatReconciler)
    (routeTLS : Option TLSConfig) :
    Reconcile.core r a routeTLS = Reconcile.core r b routeTLS := by
  unfold Reconcile.core
  simp only [createService_congr h, NewExporterService_congr h, Obj.declared_congr h]

theorem Reconcile.command_congr {a b : Obj} (h : a.Alike b) (r : CryostatReconciler)
    (routeTLS : Option TLSConfig) :
    Reconcile.command r a routeTLS = Reconcile.command r b routeTLS := by
  unfold Reconcile.command
  simp only [createService_congr h, NewCommandChannelService_congr h, Obj.declared_congr h]

theorem Reconcile.deployment_congr {a b : Obj} (h : a.Alike b) (r : CryostatReconciler)
    (serviceSpecs : ServiceSpecs) (tlsConfig : Option ResourcesTLSConfig) :
    Reconcile.deployment r a serviceSpecs tlsConfig
      = Reconcile.deployment r b serviceSpecs tlsConfig := by
  unfold Reconcile.deployment
  simp only [SetControllerReference_congr h, NewDeploymentForCR_congr h, h.1]

theorem Reconcile.consoleLink_congr {a b : Obj} (h : a.Alike b) (r : CryostatReconciler)
    (serviceSpecs : ServiceSpecs) :
    Reconcile.consoleLink r a serviceSpecs = Reconcile.consoleLink r b serviceSpecs := by
  unfold Reconcile.consoleLink createConsoleLink
  simp only [NewConsoleLink_congr h]

end Cryostat

namespace Cryostat

/-! ## Two runs of a pass that observe the same -/

theorem agrees_pure {σ : Type} {O : World → Prop} {R : σ → σ → Prop} {a b : σ} {w1 w2 : World}
    (h : R a b) (h1 : O w1) (h2 : O w2) :
    Agrees O R ((pure a : Op Return σ) w1) ((pure b : Op Return σ) w2) :=
  ⟨h, h1, h2⟩

theorem agrees_bind {σ τ : Type} {O : World → Prop} {R0 : σ → σ → Prop} {R : τ → τ → Prop}
    {p1 p2 : Op Return σ} {f1 f2 : σ → Op Return τ} {w1 w2 : World}
    (hp : Agrees O R0 (p1 w1) (p2 w2))
    (hf : ∀ a b u1 u2, R0 a b → O u1 → O u2 → Agrees O R (f1 a u1) (f2 b u2)) :
    Agrees O R ((p1 >>= f1) w1) ((p2 >>= f2) w2) := by
  obtain ⟨hA, h1, h2⟩ := hp
  rw [run_bind, run_bind]
  cases e1 : (p1 w1).1 with
  | error x =>
    cases e2 : (p2 w2).1 with
    | error y =>
      rw [e1, e2] at hA
      exact ⟨hA, h1, h2⟩
    | ok b => rw [e1, e2] at hA; exact hA.elim
  | ok a =>
    cases e2 : (p2 w2).1 with
    | error y => rw [e1, e2] at hA; exact hA.elim
    | ok b =>
      rw [e1, e2] at hA
      exact hf a b _ _ hA h1 h2

/-- A section whose outcome is determined by what is observed, run in both passes. -/
theorem agrees_bind_det {α τ : Type} {O : World → Prop} {R : τ → τ → Prop}
    {m : Op Return α} {g1 g2 : α → Op Return τ} {w1 w2 : World}
    (hm : DetOn O m ∧ Keeps O m) (h1 : O w1) (h2 : O w2)
    (hg : ∀ a u1 u2, O u1 → O u2 → Agrees O R (g1 a u1) (g2 a u2)) :
    Agrees O R ((m >>= g1) w1) ((m >>= g2) w2) := by
  have he := hm.1 w1 w2 h1 h2
  rw [run_bind, run_bind]
  cases e1 : (m w1).1 with
  | error x =>
    rw [e1] at he
    simp only [← he]
    exact ⟨rfl, hm.2 w1 h1, hm.2 w2 h2⟩
  | ok a =>
    rw [e1] at he
    simp only [← he]
    exact hg a _ _ (hm.2 w1 h1) (hm.2 w2 h2)

theorem Reconcile.storage_at (r : CryostatReconciler) (inst : Obj) (ns name : String)
    (minimal : Bool) (v : Option Obj) (L : Key → List RouteIngress)
    (hns : inst.meta.Namespace = ns) (hname : inst.meta.Name = name) :
    DetOn (PassObserved ns name minimal v L) (Reconcile.storage r inst) ∧
      Keeps (PassObserved ns name minimal v L) (Reconcile.storage r inst) := by
  subst hns hname
  exact ⟨Reconcile.storage_det r inst (fun w hw => hw.isReliable),
    Reconcile.storage_observed r inst minimal v L⟩

theorem Reconcile.secrets_at (r : CryostatReconciler) (inst : Obj) (ns name : String)
    (minimal : Bool) (v : Option Obj) (L : Key → List RouteIngress)
    (hns : inst.meta.Namespace = ns) (hname : inst.meta.Name = name) :
    DetOn (PassObserved ns name minimal v L) (Reconcile.secrets r inst) ∧
      Keeps (PassObserved ns name minimal v L) (Reconcile.secrets r inst) := by
  subst hns hname
  exact ⟨Reconcile.secrets_det r inst (fun w hw => hw.isReliable)
      ((respects_passObserved_plain r _ _ minimal v L).mono
        (fun t ht => by simp only [List.mem_append]; tauto)),
    Reconcile.secrets_observed r inst minimal v L⟩

theorem Reconcile.tls_at (r : CryostatReconciler) (inst : Obj) (O : World → Prop) :
    DetOn O (Reconcile.tls r inst) ∧ Keeps O (Reconcile.tls r inst) :=
  ⟨Reconcile.tls_det r inst, Reconcile.tls_keeps r inst⟩

theorem Reconcile.rbac_at (r : CryostatReconciler) (inst : Obj) (ns name : String)
    (minimal : Bool) (v : Option Obj) (L : Key → List RouteIngress)
    (hns : inst.meta.Namespace = ns) (hname : inst.meta.Name = name) :
    DetOn (PassObserved ns name minimal v L) (Reconcile.rbac r inst) ∧
      Keeps (PassObserved ns name minimal v L) (Reconcile.rbac r inst) := by
  subst hns hname
  exact ⟨Reconcile.rbac_det r inst (fun w hw => hw.isReliable)
      ((respects_passObserved_plain r _ _ minimal v L).mono
        (fun t ht => by simp only [List.mem_append]; tauto)),
    Reconcile.rbac_observed r inst minimal v L⟩

theorem Reconcile.grafana_at (r : CryostatReconciler) (inst : Obj)
    (routeTLS : Option TLSConfig) (ns name : String)
    (minimal : Bool) (v : Option Obj) (L : Key → List RouteIngress)
    (hns : inst.meta.Namespace = ns) (hname : inst.meta.Name = name)
    (hmin : inst.Spec.Minimal = minimal) :
    DetOn (PassObserved ns name minimal v L) (Reconcile.grafana r inst routeTLS) ∧
      Keeps (PassObserved ns name minimal v L) (Reconcile.grafana r inst routeTLS) := by
  subst hns hname hmin
  exact ⟨Reconcile.grafana_det r inst routeTLS v L, Reconcile.grafana_observed r inst routeTLS v L⟩

theorem Reconcile.core_at (r : CryostatReconciler) (inst : Obj)
    (routeTLS : Option TLSConfig) (ns name : String)
    (minimal : Bool) (v : Option Obj) (L : Key → List RouteIngress)
    (hns : inst.meta.Namespace = ns) (hname : inst.meta.Name = name) :
    DetOn (PassObserved ns name minimal v L) (Reconcile.core r inst routeTLS) ∧
      Keeps (PassObserved ns name minimal v L) (Reconcile.core r inst routeTLS) := by
  subst hns hname
  exact ⟨Reconcile.core_det r inst routeTLS minimal v L,
    Reconcile.core_observed r inst routeTLS minimal v L⟩

theorem Reconcile.command_at (r : CryostatReconciler) (inst : Obj)
    (routeTLS : Option TLSConfig) (ns name : String)
    (minimal : Bool) (v : Option Obj) (L : Key → List RouteIngress)
    (hns : inst.meta.Namespace = ns) (hname : inst.meta.Name = name) :
    DetOn (PassObserved ns name minimal v L) (Reconcile.command r inst routeTLS) ∧
      Keeps (PassObserved ns name minimal v L) (Reconcile.command r inst routeTLS) := by
  subst hns hname
  exact ⟨Reconcile.command_det r inst routeTLS minimal v L,
    Reconcile.command_observed r inst routeTLS minimal v L⟩

theorem Reconcile.deployment_at (r : CryostatReconciler) (inst : Obj)
    (serviceSpecs : ServiceSpecs) (tlsConfig : Option ResourcesTLSConfig) (ns name : String)
    (minimal : Bool) (v : Option Obj) (L : Key → List RouteIngress)
    (hns : inst.meta.Namespace = ns) (hname : inst.meta.Name = name) :
    DetOn (PassObserved ns name minimal v L)
        (Reconcile.deployment r inst serviceSpecs tlsConfig) ∧
      Keeps (PassObserved ns name minimal v L)
        (Reconcile.deployment r inst serviceSpecs tlsConfig) := by
  subst hns hname
  exact ⟨Reconcile.deployment_det r inst _ _ minimal v L,
    Reconcile.deployment_observed r inst _ _ minimal v L⟩

theorem Reconcile.consoleLink_at (r : CryostatReconciler) (inst : Obj)
    (serviceSpecs : ServiceSpecs) (ns name : String)
    (minimal : Bool) (v : Option Obj) (L : Key → List RouteIngress)
    (hns : inst.meta.Namespace = ns) (hname : inst.meta.Name = name) :
    DetOn (PassObserved ns name minimal v L) (Reconcile.consoleLink r inst serviceSpecs) ∧
      Keeps (PassObserved ns name minimal v L) (Reconcile.consoleLink r inst serviceSpecs) := by
  subst hns hname
  exact ⟨Reconcile.consoleLink_det r inst _ (fun w hw => hw.isReliable),
    Reconcile.consoleLink_observed r inst _ minimal v L⟩

end Cryostat

namespace Cryostat

theorem agrees_det {α : Type} {O : World → Prop} {m : Op Return α} {w1 w2 : World}
    (hm : DetOn O m ∧ Keeps O m) (h1 : O w1) (h2 : O w2) :
    Agrees O (fun _ _ => True) (m w1) (m w2) := by
  have he := hm.1 w1 w2 h1 h2
  refine ⟨?_, hm.2 w1 h1, hm.2 w2 h2⟩
  rw [he]
  cases (m w2).1 with
  | error e => exact rfl
  | ok a => exact trivial

theorem Reconcile.toSecrets_agrees (r : CryostatReconciler) (request : NamespacedName)
    (w1 w2 : World) (minimal : Bool) (v : Option Obj) (L : Key → List RouteIngress)
    (hF : Agrees (PassObserved request.Namespace request.Name minimal v L)
      (SameInstance request.Namespace request.Name minimal)
      (Reconcile.toFinalizer r request w1) (Reconcile.toFinalizer r request w2)) :
    Agrees (PassObserved request.Namespace request.Name minimal v L)
      (SameInstance request.Namespace request.Name minimal)
      (Reconcile.toSecrets r request w1) (Reconcile.toSecrets r request w2) := by
  unfold Reconcile.toSecrets
  refine agrees_bind hF (fun a b u1 u2 hab h1 h2 => ?_)
  rw [← Reconcile.storage_congr hab.1 r, ← Reconcile.secrets_congr hab.1 r]
  exact agrees_bind_det (Reconcile.storage_at r a _ _ minimal v L hab.2.2.1 hab.2.2.2.1) h1 h2
    (fun _ u1 u2 h1 h2 =>
      agrees_bind_det (Reconcile.secrets_at r a _ _ minimal v L hab.2.2.1 hab.2.2.2.1) h1 h2
        (fun _ u1 u2 h1 h2 => agrees_pure hab h1 h2))

theorem Reconcile.toRBAC_agrees (r : CryostatReconciler) (request : NamespacedName)
    (w1 w2 : World) (minimal : Bool) (v : Option Obj) (L : Key → List RouteIngress)
    (hF : Agrees (PassObserved request.Namespace request.Name minimal v L)
      (SameInstance request.Namespace request.Name minimal)
      (Reconcile.toFinalizer r request w1) (Reconcile.toFinalizer r request w2)) :
    Agrees (PassObserved request.Namespace request.Name minimal v L)
      (SameState request.Namespace request.Name minimal)
      (Reconcile.toRBAC r request w1) (Reconcile.toRBAC r request w2) := by
  unfold Reconcile.toRBAC
  refine agrees_bind (Reconcile.toSecrets_agrees r request w1 w2 minimal v L hF)
    (fun a b u1 u2 hab h1 h2 => ?_)
  rw [← Reconcile.tls_congr hab.1 r, ← Reconcile.rbac_congr hab.1 r]
  exact agrees_bind_det (Reconcile.tls_at r a _) h1 h2
    (fun _ u1 u2 h1 h2 =>
      agrees_bind_det (Reconcile.rbac_at r a _ _ minimal v L hab.2.2.1 hab.2.2.2.1) h1 h2
        (fun _ u1 u2 h1 h2 => agrees_pure ⟨hab, rfl, rfl, rfl⟩ h1 h2))

theorem Reconcile.toGrafana_agrees (r : CryostatReconciler) (request : NamespacedName)
    (w1 w2 : World) (minimal : Bool) (v : Option Obj) (L : Key → List RouteIngress)
    (hF : Agrees (PassObserved request.Namespace request.Name minimal v L)
      (SameInstance request.Namespace request.Name minimal)
      (Reconcile.toFinalizer r request w1) (Reconcile.toFinalizer r request w2)) :
    Agrees (PassObserved request.Namespace request.Name minimal v L)
      (SameState request.Namespace request.Name minimal)
      (Reconcile.toGrafana r request w1) (Reconcile.toGrafana r request w2) := by
  unfold Reconcile.toGrafana
  refine agrees_bind (Reconcile.toRBAC_agrees r request w1 w2 minimal v L hF)
    (fun s1 s2 u1 u2 hab h1 h2 => ?_)
  obtain ⟨i1, t1, rt1, sp1⟩ := s1
  obtain ⟨i2, t2, rt2, sp2⟩ := s2
  obtain ⟨hi, ht, hrt, hsp⟩ := hab
  simp only at hi ht hrt hsp
  subst ht hrt hsp
  simp only
  rw [← Reconcile.grafana_congr hi.1 r]
  exact agrees_bind_det (Reconcile.grafana_at r i1 _ _ _ minimal v L hi.2.2.1 hi.2.2.2.1
    hi.2.2.2.2) h1 h2 (fun _ u1 u2 h1 h2 => agrees_pure ⟨hi, rfl, rfl, rfl⟩ h1 h2)

theorem Reconcile.toCore_agrees (r : CryostatReconciler) (request : NamespacedName)
    (w1 w2 : World) (minimal : Bool) (v : Option Obj) (L : Key → List RouteIngress)
    (hF : Agrees (PassObserved request.Namespace request.Name minimal v L)
      (SameInstance request.Namespace request.Name minimal)
      (Reconcile.toFinalizer r request w1) (Reconcile.toFinalizer r request w2)) :
    Agrees (PassObserved request.Namespace request.Name minimal v L)
      (SameState request.Namespace request.Name minimal)
      (Reconcile.toCore r request w1) (Reconcile.toCore r request w2) := by
  unfold Reconcile.toCore
  refine agrees_bind (Reconcile.toGrafana_agrees r request w1 w2 minimal v L hF)
    (fun s1 s2 u1 u2 hab h1 h2 => ?_)
  obtain ⟨i1, t1, rt1, sp1⟩ := s1
  obtain ⟨i2, t2, rt2, sp2⟩ := s2
  obtain ⟨hi, ht, hrt, hsp⟩ := hab
  simp only at hi ht hrt hsp
  subst ht hrt hsp
  simp only
  rw [← Reconcile.core_congr hi.1 r]
  exact agrees_bind_det (Reconcile.core_at r i1 _ _ _ minimal v L hi.2.2.1 hi.2.2.2.1)
    h1 h2 (fun _ u1 u2 h1 h2 => agrees_pure ⟨hi, rfl, rfl, rfl⟩ h1 h2)

theorem Reconcile.toCommand_agrees (r : CryostatReconciler) (request : NamespacedName)
    (w1 w2 : World) (minimal : Bool) (v : Option Obj) (L : Key → List RouteIngress)
    (hF : Agrees (PassObserved request.Namespace request.Name minimal v L)
      (SameInstance request.Namespace request.Name minimal)
      (Reconcile.toFinalizer r request w1) (Reconcile.toFinalizer r request w2)) :
    Agrees (PassObserved request.Namespace request.Name minimal v L)
      (SameState request.Namespace request.Name minimal)
      (Reconcile.toCommand r request w1) (Reconcile.toCommand r request w2) := by
  unfold Reconcile.toCommand
  refine agrees_bind (Reconcile.toCore_agrees r request w1 w2 minimal v L hF)
    (fun s1 s2 u1 u2 hab h1 h2 => ?_)
  obtain ⟨i1, t1, rt1, sp1⟩ := s1
  obtain ⟨i2, t2, rt2, sp2⟩ := s2
  obtain ⟨hi, ht, hrt, hsp⟩ := hab
  simp only at hi ht hrt hsp
  subst ht hrt hsp
  simp only
  rw [← Reconcile.command_congr hi.1 r]
  exact agrees_bind_det (Reconcile.command_at r i1 _ _ _ minimal v L hi.2.2.1 hi.2.2.2.1)
    h1 h2 (fun _ u1 u2 h1 h2 => agrees_pure ⟨hi, rfl, rfl, rfl⟩ h1 h2)

theorem Obj.setApplicationURL_kind (o : Obj) (url : String) :
    (o.setApplicationURL url).body.kind = o.body.kind :=
  congrArg Key.kind (Obj.setApplicationURL_key o url)

/-- On a world as observed, the status section succeeds and yields the instance with the
application URL set. -/
theorem Reconcile.status_result (inst : Obj) (serviceSpecs : ServiceSpecs)
    (hk : inst.body.kind = .Cryostat) (minimal : Bool)
    (v : Option Obj) (L : Key → List RouteIngress) (w : World)
    (hw : PassObserved inst.meta.Namespace inst.meta.Name minimal v L w) :
    (Reconcile.status inst serviceSpecs w).1
      = .ok (match serviceSpecs.CoreURL with
        | some coreURL => inst.setApplicationURL coreURL.String
        | none => inst) := by
  unfold Reconcile.status
  cases hc : serviceSpecs.CoreURL with
  | none => rfl
  | some coreURL =>
    simp only
    have hp := hw.1.2.1
    cases hs : w.objs.get? ⟨.Cryostat, inst.meta.Namespace, inst.meta.Name⟩ with
    | none => exact absurd hs hp
    | some x =>
      have hkey : (inst.setApplicationURL coreURL.String).key
          = ⟨.Cryostat, inst.meta.Namespace, inst.meta.Name⟩ := by
        rw [Obj.setApplicationURL_key]; simp [Obj.key, hk]
      have hu := (Client.StatusUpdate_reliable (inst.setApplicationURL coreURL.String) x w
        hw.isReliable (by rw [hkey, hs])).1
      rw [run_bind, run_orReturn]
      simp only [hu, run_pure]

theorem Reconcile.status_agrees (r : CryostatReconciler) (a b : Obj)
    (serviceSpecs : ServiceSpecs) (ns name : String) (minimal : Bool)
    (v : Option Obj) (L : Key → List RouteIngress) (u1 u2 : World)
    (hab : SameInstance ns name minimal a b)
    (h1 : PassObserved ns name minimal v L u1) (h2 : PassObserved ns name minimal v L u2) :
    Agrees (PassObserved ns name minimal v L) (SameInstance ns name minimal)
      (Reconcile.status a serviceSpecs u1) (Reconcile.status b serviceSpecs u2) := by
  obtain ⟨⟨hm, hsp, hkk⟩, hka, hns, hname, hmin⟩ := hab
  have hkb : b.body.kind = .Cryostat := by rw [← hkk]; exact hka
  have hnsb : b.meta.Namespace = ns := by rw [← hm]; exact hns
  have hnameb : b.meta.Name = name := by rw [← hm]; exact hname
  subst hns hname
  have k1 := Reconcile.status_observed r a serviceSpecs hka minimal v L u1 h1
  have r1 := Reconcile.status_result a serviceSpecs hka minimal v L u1 h1
  rw [← hnsb, ← hnameb] at h2
  have k2 := Reconcile.status_observed r b serviceSpecs hkb minimal v L u2 h2
  have r2 := Reconcile.status_result b serviceSpecs hkb minimal v L u2 h2
  rw [hnsb, hnameb] at k2
  refine ⟨?_, k1, k2⟩
  rw [r1, r2]
  cases serviceSpecs.CoreURL with
  | none => exact ⟨⟨hm, hsp, hkk⟩, hka, rfl, rfl, hmin⟩
  | some coreURL =>
    refine ⟨⟨?_, ?_, ?_⟩, ?_, ?_, ?_, ?_⟩
    · rw [Obj.setApplicationURL_meta, Obj.setApplicationURL_meta, hm]
    · rw [Obj.setApplicationURL_Spec, Obj.setApplicationURL_Spec, hsp]
    · rw [Obj.setApplicationURL_kind, Obj.setApplicationURL_kind, hkk]
    · rw [Obj.setApplicationURL_kind, hka]
    · rw [Obj.setApplicationURL_meta]
    · rw [Obj.setApplicationURL_meta]
    · rw [Obj.setApplicationURL_Spec, hmin]

/-- Two passes that start from worlds observed alike, with the same instance up to its
status, return the same. -/
theorem Reconcile.agrees (r : CryostatReconciler) (request : NamespacedName)
    (w1 w2 : World) (minimal : Bool) (v : Option Obj) (L : Key → List RouteIngress)
    (hF : Agrees (PassObserved request.Namespace request.Name minimal v L)
      (SameInstance request.Namespace request.Name minimal)
      (Reconcile.toFinalizer r request w1) (Reconcile.toFinalizer r request w2)) :
    (Reconcile r request w1).1 = (Reconcile r request w2).1 ∧
      PassObserved request.Namespace request.Name minimal v L (Reconcile r request w1).2 ∧
      PassObserved request.Namespace request.Name minimal v L (Reconcile r request w2).2 := by
  have hp : Agrees (PassObserved request.Namespace request.Name minimal v L)
      (fun _ _ => True) (Reconcile.pass r request w1) (Reconcile.pass r request w2) := by
    unfold Reconcile.pass
    refine agrees_bind (Reconcile.toCommand_agrees r request w1 w2 minimal v L hF)
      (fun s1 s2 u1 u2 hab h1 h2 => ?_)
    obtain ⟨i1, t1, rt1, sp1⟩ := s1
    obtain ⟨i2, t2, rt2, sp2⟩ := s2
    obtain ⟨hi, ht, hrt, hsp⟩ := hab
    simp only at hi ht hrt hsp
    subst ht hrt hsp
    simp only
    rw [← Reconcile.deployment_congr hi.1 r]
    refine agrees_bind_det (Reconcile.deployment_at r i1 _ _ _ _ minimal v L hi.2.2.1
      hi.2.2.2.1) h1 h2 (fun _ u1 u2 h1 h2 => ?_)
    refine agrees_bind (Reconcile.status_agrees r i1 i2 sp1 _ _ minimal v L u1 u2 hi h1 h2)
      (fun a b u1 u2 hab h1 h2 => ?_)
    rw [← Reconcile.consoleLink_congr hab.1 r]
    exact agrees_det (Reconcile.consoleLink_at r a _ _ _ minimal v L hab.2.2.1 hab.2.2.2.1)
      h1 h2
  obtain ⟨hA, h1, h2⟩ := hp
  rw [Reconcile.pass_world, Reconcile.pass_world]
  refine ⟨?_, h1, h2⟩
  unfold Reconcile
  cases e1 : (Reconcile.pass r request w1).1 with
  | error x =>
    cases e2 : (Reconcile.pass r request w2).1 with
    | error y => rw [e1, e2] at hA; exact hA
    | ok b => rw [e1, e2] at hA; exact hA.elim
  | ok a =>
    cases e2 : (Reconcile.pass r request w2).1 with
    | error y => rw [e1, e2] at hA; exact hA.elim
    | ok b => rfl

end Cryostat

namespace Cryostat

/-! ## The instance a pass leaves in the store -/

/-- On a reliable store the finalizer section of a live instance yields the instance with
the finalizer, and that is what the store then holds. -/
theorem Reconcile.toFinalizer_reliable (r : CryostatReconciler) (request : NamespacedName)
    (w : World) (inst : Obj) (hrel : w.Reliable)
    (hget : (Client.Get ⟨.Cryostat, request.Namespace, request.Name⟩ w).1 = .ok inst)
    (hact : inst.meta.DeletionTimestamp = none) :
    (Reconcile.toFinalizer r request w).1
        = .ok (controllerutil.AddFinalizer inst cryostatFinalizer) ∧
      (Reconcile.toFinalizer r request w).2.objs.get?
          ⟨.Cryostat, request.Namespace, request.Name⟩
        = some (controllerutil.AddFinalizer inst cryostatFinalizer) := by
  obtain ⟨hs, hk⟩ := Client.Get_ok _ _ _ hget
  have hobjs := Client.Get_objs ⟨.Cryostat, request.Namespace, request.Name⟩ w
  cases hfin : ContainsFinalizer inst cryostatFinalizer with
  | true =>
    rw [Reconcile.toFinalizer_of_present r request w inst hget hact hfin,
      controllerutil.AddFinalizer_of_contains _ _ hfin]
    exact ⟨rfl, by rw [hobjs]; exact hs⟩
  | false =>
    rw [Reconcile.toFinalizer_of_absent r request w inst hget hact hfin]
    have hk2 : (controllerutil.AddFinalizer inst cryostatFinalizer).key
        = ⟨.Cryostat, request.Namespace, request.Name⟩ := by
      rw [controllerutil.AddFinalizer_key, hk]
    obtain ⟨hu1, hu2⟩ := Client.Update_reliable
      (controllerutil.AddFinalizer inst cryostatFinalizer) inst
      (Client.Get ⟨.Cryostat, request.Namespace, request.Name⟩ w).2
      (Client.Get_reliable_world _ w hrel) (by rw [hobjs, hk2]; exact hs)
    simp only [hu1, hu2, hobjs]
    refine ⟨trivial, ?_⟩
    rw [← hk2]
    exact Store.get?_replace_self _ _ inst (by rw [hk2]; exact hs)

theorem Obj.withStatusOf_setApplicationURL (o : Obj) (url : String) :
    o.withStatusOf (o.setApplicationURL url) = o.setApplicationURL url := by
  cases o with
  | mk m body => cases body <;> rfl

theorem Obj.setApplicationURL_idem (o : Obj) (url : String) :
    (o.setApplicationURL url).setApplicationURL url = o.setApplicationURL url := by
  cases o with
  | mk m body => cases body <;> rfl

theorem finalizerTouches_observed (r : CryostatReconciler) (ns name : String) (minimal : Bool)
    (v : Option Obj) (L : Key → List RouteIngress) :
    Respects (finalizerTouches r ns name) (PassObserved ns name minimal v L) :=
  respects_passObserved _ ns name minimal v L (by
    cases minimal <;> simp [finalizerTouches, exposureKeys])

end Cryostat

namespace Cryostat

/-- On a reliable store that holds the instance, the status section leaves it with the
application URL set, when there is a core URL, and untouched otherwise. -/
theorem Reconcile.status_stored (inst : Obj) (serviceSpecs : ServiceSpecs) (w : World)
    (hrel : w.Reliable) (hs : w.objs.get? inst.key = some inst) :
    (Reconcile.status inst serviceSpecs w).1
        = .ok (match serviceSpecs.CoreURL with
          | some c => inst.setApplicationURL c.String
          | none => inst) ∧
      (Reconcile.status inst serviceSpecs w).2.objs.get? inst.key
        = some (match serviceSpecs.CoreURL with
          | some c => inst.setApplicationURL c.String
          | none => inst) ∧
      (Reconcile.status inst serviceSpecs w).2.Reliable := by
  unfold Reconcile.status
  cases hc : serviceSpecs.CoreURL with
  | none => exact ⟨rfl, hs, hrel⟩
  | some c =>
    simp only
    have hkey := Obj.setApplicationURL_key inst c.String
    obtain ⟨hu1, hu2⟩ := Client.StatusUpdate_reliable (inst.setApplicationURL c.String) inst w
      hrel (by rw [hkey]; exact hs)
    have hrel2 : (Client.StatusUpdate (inst.setApplicationURL c.String) w).2.Reliable :=
      (respects_reliable [(Verb.StatusUpdate, (inst.setApplicationURL c.String).key)]).status _
        (by simp) w hrel
    rw [run_bind, run_orReturn]
    simp only [hu1, run_pure]
    refine ⟨trivial, ?_, hrel2⟩
    rw [hu2, Store.get?_replaceStatus, hs]
    simp only [Option.map, hkey, if_true, Obj.withStatusOf_setApplicationURL]

theorem servicesTouches_ne_instance (r : CryostatReconciler) (ns name : String) (minimal : Bool)
    (ck : Key) (hck : ck.kind = .Cryostat) :
    ∀ t ∈ servicesTouches r ns name minimal, t.2 ≠ ck :=
  fun t ht h => (servicesTouches_kind r ns name minimal t ht).2 (by rw [h]; exact hck)

/-- The instance the store holds after a pass over a live instance on a reliable store: the
instance with the finalizer, and with the application URL of the core URL once the
Deployment section has succeeded. -/
theorem Reconcile.stored_after (r : CryostatReconciler) (request : NamespacedName)
    (w : World) (inst : Obj) (hrel : w.Reliable)
    (hget : (Client.Get ⟨.Cryostat, request.Namespace, request.Name⟩ w).1 = .ok inst)
    (hact : inst.meta.DeletionTimestamp = none) :
    (Reconcile r request w).2.objs.get? ⟨.Cryostat, request.Namespace, request.Name⟩
      = some (match (Reconcile.toCommand r request w).1 with
        | .ok st =>
          (match (Reconcile.deployment r st.inst st.serviceSpecs st.tlsConfig
              (Reconcile.toCommand r request w).2).1 with
            | .ok _ =>
              (match st.serviceSpecs.CoreURL with
                | some c =>
                  (controllerutil.AddFinalizer inst cryostatFinalizer).setApplicationURL c.String
                | none => controllerutil.AddFinalizer inst cryostatFinalizer)
            | .error _ => controllerutil.AddFinalizer inst cryostatFinalizer)
        | .error _ => controllerutil.AddFinalizer inst cryostatFinalizer) := by
  obtain ⟨hF1, hF2⟩ := Reconcile.toFinalizer_reliable r request w inst hrel hget hact
  have hik : (controllerutil.AddFinalizer inst cryostatFinalizer).key
      = ⟨.Cryostat, request.Namespace, request.Name⟩ := by
    rw [controllerutil.AddFinalizer_key]; exact (Client.Get_ok _ _ _ hget).2
  have hG := Reconcile.toCommand_frame r request w
    (I := fun w => w.objs.get? ⟨.Cryostat, request.Namespace, request.Name⟩
      = some (controllerutil.AddFinalizer inst cryostatFinalizer)) hF2
    (fun i _ => respects_get? _ _ (fun o => o
        = some (controllerutil.AddFinalizer inst cryostatFinalizer))
      (servicesTouches_ne_instance r _ _ _ _ rfl))
  have hR := Reconcile.toCommand_frame r request w
    (Reconcile.toFinalizer_frame r request w hrel (respects_reliable _))
    (fun _ _ => respects_reliable _)
  rw [Reconcile.pass_world]
  unfold Reconcile.pass
  rw [run_bind]
  cases hc : (Reconcile.toCommand r request w).1 with
  | error e => exact hG
  | ok st =>
    have hst : st.inst = controllerutil.AddFinalizer inst cryostatFinalizer := by
      have := Reconcile.toCommand_inst _ _ _ _ hc
      rw [hF1] at this
      simp only [Except.ok.injEq] at this
      exact this.symm
    obtain ⟨hns, hname, -⟩ := Reconcile.toFinalizer_inst r request w _ hF1
    simp only
    rw [hst]
    have hD := Reconcile.deployment_keeps r (controllerutil.AddFinalizer inst cryostatFinalizer)
      st.serviceSpecs st.tlsConfig
      (I := fun w => w.Reliable ∧ w.objs.get? ⟨.Cryostat, request.Namespace, request.Name⟩
        = some (controllerutil.AddFinalizer inst cryostatFinalizer))
      ((respects_reliable _).and (respects_get? _ _ (fun o => o
          = some (controllerutil.AddFinalizer inst cryostatFinalizer))
        (fun t ht => by
          simp only [deploymentTouches, List.mem_cons, List.mem_singleton, List.not_mem_nil,
            or_false] at ht
          rcases ht with h | h <;> subst h <;> intro h <;> cases h)))
      _ ⟨hR, hG⟩
    rw [run_bind]
    cases hd : (Reconcile.deployment r (controllerutil.AddFinalizer inst cryostatFinalizer)
        st.serviceSpecs st.tlsConfig (Reconcile.toCommand r request w).2).1 with
    | error e => exact hD.2
    | ok u =>
      simp only
      obtain ⟨hs1, hs2, hs3⟩ := Reconcile.status_stored
        (controllerutil.AddFinalizer inst cryostatFinalizer) st.serviceSpecs
        (Reconcile.deployment r (controllerutil.AddFinalizer inst cryostatFinalizer)
          st.serviceSpecs st.tlsConfig (Reconcile.toCommand r request w).2).2 hD.1
        (by rw [hik]; exact hD.2)
      rw [hik] at hs2
      rw [bind_of_ok _ _ _ _ hs1]
      refine Reconcile.consoleLink_keeps r _ st.serviceSpecs
        (I := fun w => w.objs.get? ⟨.Cryostat, request.Namespace, request.Name⟩
          = some (match st.serviceSpecs.CoreURL with
            | some c =>
              (controllerutil.AddFinalizer inst cryostatFinalizer).setApplicationURL c.String
            | none => controllerutil.AddFinalizer inst cryostatFinalizer))
        (respects_get? _ _ (fun o => o = some (match st.serviceSpecs.CoreURL with
            | some c =>
              (controllerutil.AddFinalizer inst cryostatFinalizer).setApplicationURL c.String
            | none => controllerutil.AddFinalizer inst cryostatFinalizer))
          (fun t ht => by
            unfold consoleLinkTouches at ht
            split at ht
            · simp only [List.mem_singleton] at ht
              subst ht; intro h; cases h
            · cases ht)) _ hs2

end Cryostat

namespace Cryostat

/-- The world a pass over a live instance leaves on a reliable store, as the next pass finds
it: both passes observe the same, and the finalizer section of the next one yields the
stored instance, which differs from the first one's in its status at most. -/
theorem Reconcile.second_pass (r : CryostatReconciler) (request : NamespacedName)
    (w : World) (inst x : Obj) (hrel : w.Reliable)
    (hget : (Client.Get ⟨.Cryostat, request.Namespace, request.Name⟩ w).1 = .ok inst)
    (hact : inst.meta.DeletionTimestamp = none)
    (hx : (Reconcile r request w).2.objs.get? ⟨.Cryostat, request.Namespace, request.Name⟩
      = some x)
    (hxm : x.meta = (controllerutil.AddFinalizer inst cryostatFinalizer).meta)
    (hxs : x.Spec = (controllerutil.AddFinalizer inst cryostatFinalizer).Spec) :
    Agrees (PassObserved request.Namespace request.Name inst.Spec.Minimal
          (w.objs.get? ⟨.Namespace, "", request.Namespace⟩) (fun k => w.objs.routeIngress k))
        (SameInstance request.Namespace request.Name inst.Spec.Minimal)
        (Reconcile.toFinalizer r request w)
        (Reconcile.toFinalizer r request (Reconcile r request w).2) ∧
      (Client.Get ⟨.Cryostat, request.Namespace, request.Name⟩ (Reconcile r request w).2).1
        = .ok x ∧
      (Reconcile r request w).2.Reliable ∧ x.meta.DeletionTimestamp = none ∧
      controllerutil.AddFinalizer x cryostatFinalizer = x := by
  obtain ⟨hs, hk⟩ := Client.Get_ok _ _ _ hget
  obtain ⟨hF1, hF2⟩ := Reconcile.toFinalizer_reliable r request w inst hrel hget hact
  obtain ⟨hns, hname, hkind, hdel, hfin⟩ := Reconcile.toFinalizer_inst r request w _ hF1
  have hO : PassObserved request.Namespace request.Name inst.Spec.Minimal
      (w.objs.get? ⟨.Namespace, "", request.Namespace⟩) (fun k => w.objs.routeIngress k) w :=
    ⟨⟨hrel, by rw [hs]; exact Option.some_ne_none _, rfl⟩, fun _ _ => rfl⟩
  have hOF := Reconcile.toFinalizer_frame r request w hO (finalizerTouches_observed r _ _ _ _ _)
  have hmin : (controllerutil.AddFinalizer inst cryostatFinalizer).Spec.Minimal
      = inst.Spec.Minimal := by
    simp only [Obj.Spec, controllerutil.AddFinalizer_body]
  have hself : Agrees (PassObserved request.Namespace request.Name inst.Spec.Minimal
        (w.objs.get? ⟨.Namespace, "", request.Namespace⟩) (fun k => w.objs.routeIngress k))
      (SameInstance request.Namespace request.Name inst.Spec.Minimal)
      (Reconcile.toFinalizer r request w) (Reconcile.toFinalizer r request w) := by
    refine ⟨?_, hOF, hOF⟩
    rw [hF1]
    exact ⟨⟨rfl, rfl, rfl⟩, hkind, hns, hname, hmin⟩
  obtain ⟨-, hO2, -⟩ := Reconcile.agrees r request w w _ _ _ hself
  have hrel2 := hO2.isReliable
  have hget2 : (Client.Get ⟨.Cryostat, request.Namespace, request.Name⟩
      (Reconcile r request w).2).1 = .ok x := by
    rw [Client.Get_reliable _ _ hrel2, hx]
  have hxk := Store.get?_key _ _ _ hx
  have hdel2 : x.meta.DeletionTimestamp = none := by rw [hxm]; exact hdel
  have hfin2 : ContainsFinalizer x cryostatFinalizer = true := by
    unfold ContainsFinalizer at hfin ⊢
    rw [hxm]; exact hfin
  have hadd := controllerutil.AddFinalizer_of_contains x _ hfin2
  obtain ⟨hG1, -⟩ := Reconcile.toFinalizer_reliable r request _ x hrel2 hget2 hdel2
  rw [hadd] at hG1
  have hOF2 := Reconcile.toFinalizer_frame r request _ hO2
    (finalizerTouches_observed r _ _ _ _ _)
  refine ⟨⟨?_, hOF, hOF2⟩, hget2, hrel2, hdel2, hadd⟩
  rw [hF1, hG1]
  refine ⟨⟨hxm.symm, hxs.symm, ?_⟩, hkind, hns, hname, hmin⟩
  rw [hkind]
  exact (congrArg Key.kind hxk).symm

end Cryostat

namespace Cryostat

/-- C8: on a store that answers every call itself and for an instance that is not being
deleted, when `Reconcile` returns a result with a nil error, a second `Reconcile` on the
world the first one left returns the same result with a nil error, and the store holds
the very same instance object after the second pass as after the first: its spec and its
status are identical. -/
theorem Reconcile_idempotent (r : CryostatReconciler) (request : NamespacedName)
    (w : World) (inst : Obj) (res : Result) (hrel : w.Reliable)
    (hget : (Client.Get ⟨.Cryostat, request.Namespace, request.Name⟩ w).1 = .ok inst)
    (hact : inst.meta.DeletionTimestamp = none)
    (hok : (Reconcile r request w).1 = (res, none)) :
    (Reconcile r request (Reconcile r request w).2).1 = (res, none) ∧
    ∃ x, (Reconcile r request w).2.objs.get? ⟨.Cryostat, request.Namespace, request.Name⟩
          = some x ∧
      (Reconcile r request (Reconcile r request w).2).2.objs.get?
          ⟨.Cryostat, request.Namespace, request.Name⟩ = some x := by
  have hst := Reconcile.stored_after r request w inst hrel hget hact
  generalize hx : (match (Reconcile.toCommand r request w).1 with
    | .ok st =>
      (match (Reconcile.deployment r st.inst st.serviceSpecs st.tlsConfig
          (Reconcile.toCommand r request w).2).1 with
        | .ok _ =>
          (match st.serviceSpecs.CoreURL with
            | some c =>
              (controllerutil.AddFinalizer inst cryostatFinalizer).setApplicationURL c.String
            | none => controllerutil.AddFinalizer inst cryostatFinalizer)
        | .error _ => controllerutil.AddFinalizer inst cryostatFinalizer)
    | .error _ => controllerutil.AddFinalizer inst cryostatFinalizer) = x at hst
  have hxm : x.meta = (controllerutil.AddFinalizer inst cryostatFinalizer).meta := by
    rw [← hx]
    split
    · split
      · split
        · exact Obj.setApplicationURL_meta _ _
        · rfl
      · rfl
    · rfl
  have hxs : x.Spec = (controllerutil.AddFinalizer inst cryostatFinalizer).Spec := by
    rw [← hx]
    split
    · split
      · split
        · exact Obj.setApplicationURL_Spec _ _
        · rfl
      · rfl
    · rfl
  obtain ⟨hF, hget2, hrel2, hdel2, hadd⟩ :=
    Reconcile.second_pass r request w inst x hrel hget hact hst hxm hxs
  refine ⟨?_, x, hst, ?_⟩
  · rw [← (Reconcile.agrees r request w _ _ _ _ hF).1]
    exact hok
  · rw [Reconcile.stored_after r request _ x hrel2 hget2 hdel2, hadd]
    obtain ⟨hA, hO1, hO2⟩ := Reconcile.toCommand_agrees r request w _ _ _ _ hF
    cases e1 : (Reconcile.toCommand r request w).1 with
    | error y =>
      cases e2 : (Reconcile.toCommand r request (Reconcile r request w).2).1 with
      | error z => rfl
      | ok b => simp [e1, e2, Agree] at hA
    | ok s1 =>
      cases e2 : (Reconcile.toCommand r request (Reconcile r request w).2).1 with
      | error z => simp [e1, e2, Agree] at hA
      | ok s2 =>
        rw [e1, e2] at hA
        obtain ⟨hi, ht, hrt, hsp⟩ := hA
        have hd : (Reconcile.deployment r s2.inst s2.serviceSpecs s2.tlsConfig
              (Reconcile.toCommand r request (Reconcile r request w).2).2).1
            = (Reconcile.deployment r s1.inst s1.serviceSpecs s1.tlsConfig
              (Reconcile.toCommand r request w).2).1 := by
          rw [← ht, ← hsp, ← Reconcile.deployment_congr hi.1 r]
          exact ((Reconcile.deployment_at r s1.inst _ _ _ _ _ _ _ hi.2.2.1 hi.2.2.2.1).1
            _ _ hO1 hO2).symm
        rw [e1] at hx
        simp only at hx ⊢
        rw [hd, ← hsp]
        cases ed : (Reconcile.deployment r s1.inst s1.serviceSpecs s1.tlsConfig
            (Reconcile.toCommand r request w).2).1 with
        | error y => rfl
        | ok u =>
          rw [ed] at hx
          simp only at hx ⊢
          cases ec : s1.serviceSpecs.CoreURL with
          | none => rfl
          | some c =>
            rw [ec] at hx
            simp only at hx ⊢
            rw [← hx, Obj.setApplicationURL_idem]

/-- Witness for C8: the example instance on OpenShift, with the Routes of its three
Services already carrying a host. -/
theorem Reconcile_idempotent_witness :
    ({ objs := [test.NewCryostat, test.NewNamespace, test.NewRoute "cryostat",
        test.NewRoute "cryostat-command", test.NewRoute "cryostat-grafana"] } : World).Reliable ∧
    (Reconcile (test.reconciler true) test.request
      { objs := [test.NewCryostat, test.NewNamespace, test.NewRoute "cryostat",
        test.NewRoute "cryostat-command", test.NewRoute "cryostat-grafana"] }).1
      = ({ Requeue := false, RequeueAfter := 0 }, none) ∧
    (Reconcile (test.reconciler true) test.request
      (Reconcile (test.reconciler true) test.request
        { objs := [test.NewCryostat, test.NewNamespace, test.NewRoute "cryostat",
          test.NewRoute "cryostat-command", test.NewRoute "cryostat-grafana"] }).2).1
      = ({ Requeue := false, RequeueAfter := 0 }, none) :=
  ⟨(fun _ hf => by cases hf), (by decide),
    (Reconcile_idempotent (test.reconciler true) test.request
      { objs := [test.NewCryostat, test.NewNamespace, test.NewRoute "cryostat",
        test.NewRoute "cryostat-command", test.NewRoute "cryostat-grafana"] }
      test.NewCryostat { Requeue := false, RequeueAfter := 0 }
      (fun _ hf => by cases hf) (by decide) (by decide) (by decide)).1⟩

end Cryostat

namespace Cryostat

/-! ## What the operations of a pass bring about -/

theorem Client.Create_ok (o : Obj) (w : World) (h : (Client.Create o w).1 = .ok ()) :
    w.objs.get? o.key = none ∧ (Client.Create o w).2.objs = w.objs ++ [o] := by
  have h2 := (Client.call_ok _ _ _ _ w () h).2
  split at h2
  · cases h2
  · rename_i hn
    simp only [Except.ok.injEq, Prod.mk.injEq] at h2
    exact ⟨hn, h2.2.symm⟩

theorem Client.Update_ok (o : Obj) (w : World) (h : (Client.Update o w).1 = .ok ()) :
    (∃ x, w.objs.get? o.key = some x) ∧ (Client.Update o w).2.objs = w.objs.replace o := by
  have h2 := (Client.call_ok _ _ _ _ w () h).2
  split at h2
  · rename_i x hx
    simp only [Except.ok.injEq, Prod.mk.injEq] at h2
    exact ⟨⟨x, hx⟩, h2.2.symm⟩
  · cases h2

/-- After a successful `createObjectIfNotExists` the key it reads is taken. -/
theorem createObjectIfNotExists_has (ns : NamespacedName) (found : Kind) (toCreate : Obj)
    (w : World) (hkey : toCreate.key = ⟨found, ns.Namespace, ns.Name⟩)
    (hok : (createObjectIfNotExists ns found toCreate w).1 = .ok ()) :
    (createObjectIfNotExists ns found toCreate w).2.objs.Has ⟨found, ns.Namespace, ns.Name⟩ := by
  have hobjs := Client.Get_objs ⟨found, ns.Namespace, ns.Name⟩ w
  unfold createObjectIfNotExists at hok ⊢
  rw [run_bind, run_attempt] at hok ⊢
  simp only at hok ⊢
  cases hg : (Client.Get ⟨found, ns.Namespace, ns.Name⟩ w).1 with
  | error err =>
    rw [hg] at hok
    simp only at hok ⊢
    split
    · rename_i hnf
      rw [if_pos hnf] at hok
      obtain ⟨hn, hc⟩ := Client.Create_ok _ _ hok
      unfold Store.Has
      have hs := Store.get?_append_self _ _ hn
      rw [hkey] at hs
      rw [hc, hs]
      exact Option.some_ne_none _
    · rename_i hnf
      rw [if_neg hnf] at hok
      cases hok
  | ok x =>
    simp only
    rw [run_pure]
    unfold Store.Has
    show (Client.Get ⟨found, ns.Namespace, ns.Name⟩ w).2.objs.get? _ ≠ none
    rw [hobjs, (Client.Get_ok _ _ _ hg).1]
    exact Option.some_ne_none _

/-- After a successful `controllerutil.CreateOrUpdate` with an idempotent mutation that
tells from the stored parts alone whether it changes anything, the store holds under the key
an object the mutation leaves as it is: the object left in memory, or, when nothing was
written, the stored object that was read into it. -/
theorem CreateOrUpdate_fixed (obj : Obj) (f : Obj → Obj) (w : World)
    (hkey : ∀ o, (f o).key = o.key) (hidem : ∀ o, f (f o) = f o)
    (hloc : ∀ s, f (Obj.readInto w.decodeInto s obj) = Obj.readInto w.decodeInto s obj → f s = s)
    (op : OperationResult) (o : Obj) (hok : (CreateOrUpdate obj f w).1 = .ok (op, o)) :
    ∃ x, (CreateOrUpdate obj f w).2.objs.get? obj.key = some x ∧ f x = x ∧
      (o = x ∨ o = Obj.readInto w.decodeInto x obj) := by
  have hobjs := Client.GetInto_objs obj w
  unfold CreateOrUpdate at hok ⊢
  rw [run_bind, run_attempt] at hok ⊢
  simp only at hok ⊢
  cases hg : (Client.GetInto obj w).1 with
  | error err =>
    rw [hg] at hok
    simp only at hok ⊢
    by_cases hnf : err.IsNotFound = true
    · rw [if_pos hnf] at hok ⊢
      rw [run_bind] at hok ⊢
      cases hc : (Client.Create (f obj) (Client.GetInto obj w).2).1 with
      | error e => rw [hc] at hok; cases hok
      | ok u =>
        rw [hc] at hok
        simp only [run_pure, Except.ok.injEq, Prod.mk.injEq] at hok ⊢
        obtain ⟨hn, hcw⟩ := Client.Create_ok _ _ hc
        have hs := Store.get?_append_self _ _ hn
        rw [hkey] at hs
        rw [hcw, ← hok.2]
        exact ⟨_, hs, hidem obj, Or.inl rfl⟩
    · rw [if_neg hnf] at hok
      cases hok
  | ok existing =>
    obtain ⟨stored, _, hex, hrd, hek⟩ := Client.GetInto_ok _ _ _ hg
    rw [hg] at hok
    simp only at hok ⊢
    by_cases hx : existing = f existing
    · rw [if_pos hx] at hok ⊢
      simp only [run_pure, Except.ok.injEq, Prod.mk.injEq] at hok ⊢
      rw [← hok.2]
      refine ⟨stored, by rw [hobjs]; exact hex, hloc stored ?_, Or.inr hrd⟩
      rw [← hrd]; exact hx.symm
    · rw [if_neg hx] at hok ⊢
      rw [run_bind] at hok ⊢
      cases hc : (Client.Update (f existing) (Client.GetInto obj w).2).1 with
      | error e => rw [hc] at hok; cases hok
      | ok u =>
        rw [hc] at hok
        simp only [run_pure, Except.ok.injEq, Prod.mk.injEq] at hok ⊢
        obtain ⟨⟨y, hy⟩, hcw⟩ := Client.Update_ok _ _ hc
        have hk2 : (f existing).key = obj.key := by rw [hkey, hek]
        have hs := Store.get?_replace_self _ _ y hy
        rw [hk2] at hs
        rw [hcw, ← hok.2]
        exact ⟨_, hs, hidem existing, Or.inl rfl⟩

theorem Obj.setRouteSpec_idem (o : Obj) (spec : RouteSpec) :
    (o.setRouteSpec spec).setRouteSpec spec = o.setRouteSpec spec := by
  cases o with
  | mk m body => cases body <;> rfl

theorem Obj.setPodSpec_idem (o : Obj) (p : PodSpec) :
    (o.setPodSpec p).setPodSpec p = o.setPodSpec p := by
  cases o with
  | mk m body => cases body <;> rfl

theorem after_bind {ε α β : Type} {I : World → Prop} {m : Op ε α} {f : α → Op ε β}
    {w : World} {a : α} (h : (m w).1 = .ok a) (hI : I (m w).2) (hf : Keeps I (f a)) :
    I ((m >>= f) w).2 := by
  rw [bind_of_ok _ _ _ _ h]
  exact hf _ hI

/-- After `createRouteForService` has yielded a URL, the Route is stored with the
specification wanted. -/
theorem createRouteForService_fixed (cr svc : Obj) (exposePort : ServicePort)
    (tlsConfig : Option TLSConfig) (w : World) (url : Option URL)
    (hok : (createRouteForService cr svc exposePort tlsConfig w).1 = .ok url) :
    (createRouteForService cr svc exposePort tlsConfig w).2.objs.Fixed
      ⟨.Route, svc.meta.Namespace, svc.meta.Name⟩ (routeMutation svc exposePort tlsConfig) := by
  unfold createRouteForService at hok ⊢
  obtain ⟨route, h1, h2⟩ := bind_ok _ _ _ _ hok
  have h1b := h1
  rw [run_ofExcept] at h1b
  simp only at h1b
  have hk : route.key = ⟨.Route, svc.meta.Namespace, svc.meta.Name⟩ := by
    rw [SetControllerReference_key _ _ _ h1b]; rfl
  rw [bind_of_ok _ _ _ _ h1]
  obtain ⟨⟨op, o⟩, h3, h4⟩ := bind_ok _ _ _ _ h2
  obtain ⟨x, hf1, hf2, _⟩ := CreateOrUpdate_fixed route _ _ (fun o => Obj.setRouteSpec_key o _)
    (fun o => Obj.setRouteSpec_idem o _)
    (fun s => (Obj.readInto_setRouteSpec _ s route _).mp) op o h3
  refine after_bind (I := fun u => u.objs.Fixed ⟨.Route, svc.meta.Namespace, svc.meta.Name⟩
    (routeMutation svc exposePort tlsConfig)) h3 ⟨x, by rw [← hk]; exact hf1, hf2⟩ ?_
  intro u hu
  simp only
  cases o.routeIngress with
  | nil => exact hu
  | cons i _ => exact hu

end Cryostat

namespace Cryostat

theorem keeps_of_world {ε α : Type} {I : World → Prop} {m : Op ε α} (h : ∀ w, (m w).2 = w) :
    Keeps I m := fun w hw => by rw [h]; exact hw

/-- After `createIngressForService` has yielded a URL the Ingress is there. -/
theorem createIngressForService_has (controller svc : Obj) (nc : NetworkConfiguration)
    (w : World) (url : Option URL)
    (hok : (createIngressForService controller svc nc w).1 = .ok url) :
    (createIngressForService controller svc nc w).2.objs.Has
      ⟨.Ingress, svc.meta.Namespace, svc.meta.Name⟩ := by
  unfold createIngressForService at hok ⊢
  cases hspec : nc.IngressSpec with
  | none => rw [hspec] at hok; cases hok
  | some ingressSpec =>
    rw [hspec] at hok
    simp only at hok ⊢
    obtain ⟨ingress, h1, h2⟩ := bind_ok _ _ _ _ hok
    have h1b := h1
    rw [run_ofExcept] at h1b
    simp only at h1b
    have hk : ingress.key = ⟨.Ingress, svc.meta.Namespace, svc.meta.Name⟩ := by
      rw [SetControllerReference_key _ _ _ h1b]; rfl
    rw [bind_of_ok _ _ _ _ h1]
    simp only [run_ofExcept] at h2 ⊢
    obtain ⟨res, h3, h4⟩ := bind_ok _ _ _ _ h2
    rw [bind_of_ok _ _ _ _ h3]
    obtain ⟨u, h5, h6⟩ := bind_ok _ _ _ _ h4
    simp only [run_attempt] at h5
    have hobjs := Client.Get_objs ⟨.Ingress, svc.meta.Namespace, svc.meta.Name⟩ w
    rw [run_attempt] at h3
    simp only [Except.ok.injEq] at h3
    refine after_bind (I := fun u => u.objs.Has ⟨.Ingress, svc.meta.Namespace, svc.meta.Name⟩)
      h5 ?_ ?_
    · subst h3
      cases hg : (Client.Get ⟨.Ingress, svc.meta.Namespace, svc.meta.Name⟩ w).1 with
      | error err =>
        rw [hg] at h5
        simp only at h5 ⊢
        by_cases hnf : err.IsNotFound = true
        · rw [if_pos hnf] at h5 ⊢
          obtain ⟨hn, hc⟩ := Client.Create_ok _ _ h5
          have hs := Store.get?_append_self _ _ hn
          rw [hk] at hs
          unfold Store.Has
          simp only [run_attempt]
          rw [hc, hs]
          exact Option.some_ne_none _
        · rw [if_neg hnf] at h5
          cases h5
      | ok x =>
        simp only [run_pure, run_attempt]
        unfold Store.Has
        rw [hobjs, (Client.Get_ok _ _ _ hg).1]
        exact Option.some_ne_none _
    · refine keeps_bind (keeps_of_world (fun w => ?_)) (fun _ => keeps_pure _)
      cases ingressSpec.Rules with
      | none => rfl
      | some rules => cases rules <;> rfl

end Cryostat

namespace Cryostat

theorem respects_has (T : List Touch) (k : Key) (hT : (Verb.Delete, k) ∉ T) :
    Respects T (fun w => w.objs.Has k) := respects_present T k hT

theorem ServiceSettled_meta (r : CryostatReconciler) (controller svc svc2 : Obj)
    (exposePort : ServicePort) (tlsConfig : Option TLSConfig) (s : Store)
    (m1 : svc2.meta.Name = svc.meta.Name) (m2 : svc2.meta.Namespace = svc.meta.Namespace)
    (h : ServiceSettled r controller svc2 exposePort tlsConfig s) :
    ServiceSettled r controller svc exposePort tlsConfig s := by
  unfold ServiceSettled routeMutation needsIngress getNetworkConfig at h ⊢
  rw [m1, m2] at h
  exact h

/-- After `createService` has yielded a URL, the Service and its exposure are settled. -/
theorem createService_settled (r : CryostatReconciler) (controller svc : Obj)
    (exposePort : ServicePort) (tlsConfig : Option TLSConfig) (w : World) (url : Option URL)
    (hk : svc.body.kind = .Service)
    (hok : (createService r controller svc exposePort tlsConfig w).1 = .ok url) :
    ServiceSettled r controller svc exposePort tlsConfig
      (createService r controller svc exposePort tlsConfig w).2.objs := by
  unfold createService at hok ⊢
  obtain ⟨svc2, h1, h2⟩ := bind_ok _ _ _ _ hok
  have h1b := h1
  rw [run_ofExcept] at h1b
  simp only at h1b
  obtain ⟨m1, m2, m3⟩ := SetControllerReference_meta _ _ _ h1b
  have hkey : svc2.key = ⟨.Service, svc2.meta.Namespace, svc2.meta.Name⟩ := by
    simp [Obj.key, m3, hk]
  rw [bind_of_ok _ _ _ _ h1]
  simp only [run_ofExcept] at h2 ⊢
  obtain ⟨u, h3, h4⟩ := bind_ok _ _ _ _ h2
  have hsvc := createObjectIfNotExists_has _ _ _ w hkey h3
  rw [bind_of_ok _ _ _ _ h3]
  refine ServiceSettled_meta r controller svc svc2 exposePort tlsConfig _ m1 m2 ?_
  cases hos : r.IsOpenShift with
  | true =>
    simp only [hos, if_true] at h4 ⊢
    refine ⟨?_, fun _ => ?_, fun h => (by rw [hos] at h; cases h)⟩
    · exact createRouteForService_keeps (respects_has [(Verb.Create, ⟨.Route,
          svc2.meta.Namespace, svc2.meta.Name⟩), (Verb.Update, ⟨.Route, svc2.meta.Namespace,
          svc2.meta.Name⟩)] _ (by simp)) _ _ _ _ (by simp) (by simp) _ hsvc
    · exact createRouteForService_fixed controller svc2 exposePort (edgeByDefault tlsConfig)
        _ url h4
  | false =>
    simp only [hos, Bool.false_eq_true, if_false] at h4 ⊢
    refine ⟨?_, fun h => (by rw [hos] at h; cases h), fun _ hn => ?_⟩
    · cases hno : controller.Spec.NetworkOptions with
      | none => simp only [run_pure]; exact hsvc
      | some opts =>
        simp only
        refine keeps_bind_ofExcept (I := fun w => w.objs.Has ⟨.Service, svc2.meta.Namespace,
          svc2.meta.Name⟩) (fun nc _ => ?_) _ hsvc
        split
        · exact keeps_pure _
        · split
          · exact keeps_pure _
          · exact createIngressForService_keeps (respects_has [(Verb.Create, ⟨.Ingress,
              svc2.meta.Namespace, svc2.meta.Name⟩)] _ (by simp)) _ _ _ (by simp)
    · obtain ⟨opts, nc, spec, hn1, hn2, hn3⟩ := hn
      rw [hn1] at h4 ⊢
      simp only at h4 ⊢
      rw [hn2] at h4 ⊢
      simp only [run_bind, run_ofExcept, hn3] at h4 ⊢
      exact createIngressForService_has controller svc2 nc _ url h4

end Cryostat

namespace Cryostat

/-! ## Operations that find their work done -/

theorem replaying_get (s0 : Store) (n : Nat) (k : Key) :
    Keeps (Replaying s0 n) (Client.Get k) :=
  keeps_and ((respects_reliable []).get k)
    (Client.Get_keeps n _ _ k (fun _ _ _ => Or.inl rfl))

theorem respects_replaying (s0 : Store) (n : Nat) : Respects [] (Replaying s0 n) :=
  ⟨replaying_get s0 n, fun _ h => absurd h (List.not_mem_nil _),
    fun _ h => absurd h (List.not_mem_nil _), fun _ h => absurd h (List.not_mem_nil _),
    fun _ h => absurd h (List.not_mem_nil _)⟩

theorem Replaying.get (s0 : Store) (n : Nat) (k : Key) (w : World) (hw : Replaying s0 n w) :
    (Client.Get k w).1 = (match s0.get? k with
      | some o => .ok o
      | none => .error .NotFound) := by
  have h2 : w.objs.get? k = s0.get? k := hw.2.1 k
  rw [Client.Get_reliable k w hw.1, h2]

theorem replay_createObjectIfNotExists (s0 : Store) (n : Nat) (ns : NamespacedName)
    (found : Kind) (toCreate : Obj) (h : s0.Has ⟨found, ns.Namespace, ns.Name⟩) :
    Keeps (Replaying s0 n) (createObjectIfNotExists ns found toCreate) := by
  intro w hw
  have hg := Replaying.get s0 n ⟨found, ns.Namespace, ns.Name⟩ w hw
  unfold createObjectIfNotExists
  rw [run_bind, run_attempt]
  cases hs : s0.get? ⟨found, ns.Namespace, ns.Name⟩ with
  | none => exact absurd hs h
  | some x =>
    rw [hs] at hg
    simp only [hg, run_pure]
    exact replaying_get s0 n _ w hw

theorem replay_CreateOrUpdate (s0 : Store) (n : Nat) (obj : Obj) (f : Obj → Obj)
    (hloc : ∀ dec s, f s = s → f (Obj.readInto dec s obj) = Obj.readInto dec s obj)
    (h : s0.Fixed obj.key f) : Keeps (Replaying s0 n) (CreateOrUpdate obj f) := by
  intro w hw
  have hg := Replaying.get s0 n obj.key w hw
  obtain ⟨x, hx1, hx2⟩ := h
  unfold CreateOrUpdate
  rw [run_bind, run_attempt]
  rw [hx1] at hg
  simp only [Client.GetInto_of_ok obj w x hg, Client.GetInto_world]
  rw [if_pos (hloc w.decodeInto x hx2).symm, run_pure]
  exact replaying_get s0 n _ w hw

/-- On a replay, `createRouteForService` reads the Route and leaves it. -/
theorem replay_createRouteForService (s0 : Store) (n : Nat) (cr svc : Obj)
    (exposePort : ServicePort) (tlsConfig : Option TLSConfig)
    (h : s0.Fixed ⟨.Route, svc.meta.Namespace, svc.meta.Name⟩
      (routeMutation svc exposePort tlsConfig)) :
    Keeps (Replaying s0 n) (createRouteForService cr svc exposePort tlsConfig) := by
  unfold createRouteForService
  apply keeps_bind_ofExcept; intro route h1
  have hk : route.key = ⟨.Route, svc.meta.Namespace, svc.meta.Name⟩ := by
    rw [SetControllerReference_key _ _ _ h1]; rfl
  apply keeps_bind (replay_CreateOrUpdate s0 n route _
    (fun dec s => (Obj.readInto_setRouteSpec dec s route _).mpr) (by rw [hk]; exact h))
  intro res
  split
  split
  · exact keeps_fail _
  · exact keeps_pure _

/-- On a replay, `createIngressForService` reads the Ingress and leaves it. -/
theorem replay_createIngressForService (s0 : Store) (n : Nat) (controller svc : Obj)
    (nc : NetworkConfiguration)
    (h : s0.Has ⟨.Ingress, svc.meta.Namespace, svc.meta.Name⟩) :
    Keeps (Replaying s0 n) (createIngressForService controller svc nc) := by
  unfold createIngressForService
  split
  · exact keeps_fail _
  · apply keeps_bind_ofExcept; intro ingress h1
    intro w hw
    have hg := Replaying.get s0 n ⟨.Ingress, svc.meta.Namespace, svc.meta.Name⟩ w hw
    rw [run_bind, run_attempt]
    cases hs : s0.get? ⟨.Ingress, svc.meta.Namespace, svc.meta.Name⟩ with
    | none => exact absurd hs h
    | some x =>
      rw [hs] at hg
      simp only [hg]
      refine keeps_bind (keeps_pure _) (fun _ => keeps_bind ?_ (fun _ => keeps_pure _)) _
        (replaying_get s0 n _ w hw)
      split
      · exact keeps_pure _
      · exact keeps_fail _
      · exact keeps_pure _

/-- On a replay, `createService` only reads. -/
theorem replay_createService (s0 : Store) (n : Nat) (r : CryostatReconciler)
    (controller svc : Obj) (exposePort : ServicePort) (tlsConfig : Option TLSConfig)
    (h : ServiceSettled r controller svc exposePort tlsConfig s0) :
    Keeps (Replaying s0 n) (createService r controller svc exposePort tlsConfig) := by
  unfold createService
  apply keeps_bind_ofExcept; intro svc2 h1
  obtain ⟨m1, m2, m3⟩ := SetControllerReference_meta _ _ _ h1
  have h2 : ServiceSettled r controller svc2 exposePort tlsConfig s0 :=
    ServiceSettled_meta r controller svc2 svc exposePort tlsConfig s0 m1.symm m2.symm h
  apply keeps_bind (replay_createObjectIfNotExists s0 n _ _ _ h2.1); intro _
  split
  · rename_i hos
    exact replay_createRouteForService s0 n _ _ _ _ (h2.2.1 hos)
  · rename_i hos
    have hos2 : r.IsOpenShift = false := by simpa using hos
    cases hno : controller.Spec.NetworkOptions with
    | none => exact keeps_pure _
    | some opts =>
      simp only
      apply keeps_bind_ofExcept; intro nc hnc
      cases nc with
      | none => exact keeps_pure _
      | some nc =>
        simp only
        cases hspec : nc.IngressSpec with
        | none => exact keeps_pure _
        | some spec =>
          simp only
          exact replay_createIngressForService s0 n _ _ _
            (h2.2.2 hos2 ⟨opts, nc, spec, hno, hnc, hspec⟩)

theorem replay_deleteDeployment (s0 : Store) (n : Nat) (inst : Obj) (mismatch : Nat → Bool)
    (h : ∀ d, s0.get? ⟨.Deployment, inst.meta.Namespace, inst.meta.Name⟩ = some d →
      mismatch d.deploymentSpec.Template.Spec.Containers.length = false) :
    Keeps (Replaying s0 n) (Reconcile.deleteDeployment inst mismatch) := by
  intro w hw
  have hg := Replaying.get s0 n ⟨.Deployment, inst.meta.Namespace, inst.meta.Name⟩ w hw
  unfold Reconcile.deleteDeployment
  rw [run_bind, run_attempt]
  cases hs : s0.get? ⟨.Deployment, inst.meta.Namespace, inst.meta.Name⟩ with
  | none =>
    rw [hs] at hg
    simp only [hg, run_pure]
    exact replaying_get s0 n _ w hw
  | some d =>
    rw [hs] at hg
    simp only [hg, h d hs, Bool.false_eq_true, if_false, run_pure]
    exact replaying_get s0 n _ w hw

theorem replay_deleteExposure (s0 : Store) (n : Nat) (kind : Kind) (svc : Obj)
    (h : s0.get? ⟨kind, svc.meta.Namespace, svc.meta.Name⟩ = none) :
    Keeps (Replaying s0 n) (Reconcile.deleteExposure kind svc) := by
  intro w hw
  have hg := Replaying.get s0 n ⟨kind, svc.meta.Namespace, svc.meta.Name⟩ w hw
  unfold Reconcile.deleteExposure
  rw [run_bind, run_attempt]
  rw [h] at hg
  simp only [hg, Err.IsNotFound, Bool.not_true, Bool.false_eq_true, if_false, run_pure]
  exact replaying_get s0 n _ w hw

theorem replay_deleteGrafanaService (s0 : Store) (n : Nat) (svc : Obj)
    (h : s0.get? ⟨.Service, svc.meta.Namespace, svc.meta.Name⟩ = none) :
    Keeps (Replaying s0 n) (Reconcile.deleteGrafanaService svc) := by
  intro w hw
  have hg := Replaying.get s0 n ⟨.Service, svc.meta.Namespace, svc.meta.Name⟩ w hw
  unfold Reconcile.deleteGrafanaService
  rw [run_bind, run_attempt]
  rw [h] at hg
  simp only [hg, run_pure]
  exact replaying_get s0 n _ w hw

/-- A status update that writes the status the stored object has changes nothing. -/
theorem replay_StatusUpdate (s0 : Store) (n : Nat) (o x : Obj)
    (hx : s0.get? o.key = some x) (hxo : x.withStatusOf o = x) :
    Keeps (Replaying s0 n) (Client.StatusUpdate o) :=
  keeps_and ((respects_reliable [(Verb.StatusUpdate, o.key)]).status o (by simp))
    (Client.StatusUpdate_keeps n _ _ o (fun _ _ _ => Or.inr rfl) (fun s y hs _ k => by
      rw [Store.get?_replaceStatus, hs k]
      cases hk : s0.get? k with
      | none => rfl
      | some z =>
        simp only [Option.map]
        by_cases hz : z.key = o.key
        · rw [if_pos hz]
          have hkz := Store.get?_key _ _ _ hk
          rw [← hkz, hz, hx] at hk
          simp only [Option.some.injEq] at hk
          rw [← hk, hxo]
        · rw [if_neg hz]))

end Cryostat

namespace Cryostat

/-! ## Postconditions -/

theorem triple_pure {ε α : Type} (Q : α → World → Prop) (a : α) :
    Triple (Q a) (pure a : Op ε α) Q := by
  intro w hw b hb
  rw [run_pure] at hb ⊢
  simp only [Except.ok.injEq] at hb
  rw [← hb]; exact hw

theorem triple_bind {ε α β : Type} {P : World → Prop} {Q : α → World → Prop}
    {R : β → World → Prop} {m : Op ε α} {f : α → Op ε β}
    (hm : Triple P m Q) (hf : ∀ a, Triple (Q a) (f a) R) : Triple P (m >>= f) R := by
  intro w hw b hb
  obtain ⟨a, h1, h2⟩ := bind_ok _ _ _ _ hb
  rw [bind_of_ok _ _ _ _ h1]
  exact hf a _ (hm w hw a h1) b h2

theorem triple_conseq {ε α : Type} {P P2 : World → Prop} {Q Q2 : α → World → Prop}
    {m : Op ε α} (h : Triple P m Q) (hP : ∀ w, P2 w → P w) (hQ : ∀ a w, Q a w → Q2 a w) :
    Triple P2 m Q2 :=
  fun w hw a ha => hQ a _ (h w (hP w hw) a ha)

theorem triple_frame {ε α : Type} {P I : World → Prop} {Q : α → World → Prop}
    {m : Op ε α} (h : Triple P m Q) (hk : Keeps I m) :
    Triple (fun w => P w ∧ I w) m (fun a w => Q a w ∧ I w) :=
  fun w hw a ha => ⟨h w hw.1 a ha, hk w hw.2⟩

theorem triple_of_keeps {ε α : Type} {I : World → Prop} {m : Op ε α} (hk : Keeps I m) :
    Triple I m (fun _ w => I w) :=
  fun w hw _ _ => hk w hw

theorem triple_orReturn {α : Type} {P : World → Prop} {Q : α → World → Prop}
    {m : Op Err α} (h : Triple P m Q) : Triple P (orReturn m) Q := by
  intro w hw a ha
  rw [orReturn_world]
  exact h w hw a (orReturn_ok _ _ _ ha)

/-! ## Properties of the store that read a few keys -/

theorem respects_of_dependsOn (T : List Touch) (K : List Key) (S : Store → Prop)
    (hS : DependsOn K S) (hT : ∀ t ∈ T, t.2 ∉ K) : Respects T (fun w => S w.objs) :=
  respects_store T S
    (fun o s ho hs _ => hS s _ (fun k hk => (Store.get?_append_ne _ _ _
      (fun h => hT _ ho (show o.key ∈ K by rw [h]; exact hk))).symm) hs)
    (fun o s _ ho hs _ => hS s _ (fun k hk => (Store.get?_replace_ne _ _ _
      (fun h => hT _ ho (show o.key ∈ K by rw [h]; exact hk))).symm) hs)
    (fun o s _ ho hs _ => hS s _ (fun k hk => (Store.get?_remove_ne _ _ _
      (fun h => hT _ ho (show o.key ∈ K by rw [h]; exact hk))).symm) hs)
    (fun o s _ ho hs _ => hS s _ (fun k hk => by
      have hne : o.key ≠ k := fun h => hT _ ho (show o.key ∈ K by rw [h]; exact hk)
      rw [Store.get?_replaceStatus]
      cases hg : s.get? k with
      | none => rfl
      | some x =>
        have hkx := Store.get?_key _ _ _ hg
        have hne2 : ¬ x.key = o.key := fun h => hne (by rw [← h, hkx])
        simp only [Option.map, hne2, if_false]) hs)

theorem dependsOn_mono {K K2 : List Key} {S : Store → Prop} (h : DependsOn K S)
    (hK : ∀ k ∈ K, k ∈ K2) : DependsOn K2 S :=
  fun s1 s2 he hs => h s1 s2 (fun k hk => he k (hK k hk)) hs

theorem dependsOn_and {K L : List Key} {S1 S2 : Store → Prop} (h1 : DependsOn K S1)
    (h2 : DependsOn L S2) : DependsOn (K ++ L) (fun s => S1 s ∧ S2 s) :=
  fun s1 s2 he hs => ⟨h1 s1 s2 (fun k hk => he k (List.mem_append_left _ hk)) hs.1,
    h2 s1 s2 (fun k hk => he k (List.mem_append_right _ hk)) hs.2⟩

theorem dependsOn_get? (k : Key) (g : Option Obj → Prop) :
    DependsOn [k] (fun s => g (s.get? k)) :=
  fun s1 s2 he hs => by
    have := he k (List.mem_singleton_self k)
    beta_reduce at hs ⊢
    rw [← this]; exact hs

theorem dependsOn_imp {K : List Key} {S : Store → Prop} (p : Prop) (h : DependsOn K S) :
    DependsOn K (fun s => p → S s) :=
  fun s1 s2 he hs hp => h s1 s2 he (hs hp)

theorem dependsOn_has (k : Key) : DependsOn [k] (fun s => s.Has k) :=
  dependsOn_get? k (fun o => o ≠ none)

theorem dependsOn_fixed (k : Key) (f : Obj → Obj) : DependsOn [k] (fun s => s.Fixed k f) :=
  dependsOn_get? k (fun o => ∃ x, o = some x ∧ f x = x)

end Cryostat

namespace Cryostat

/-! ## What the sections bring about -/

theorem triple_createObjectIfNotExists (ns : NamespacedName) (found : Kind) (toCreate : Obj)
    (hkey : toCreate.key = ⟨found, ns.Namespace, ns.Name⟩) :
    Triple (fun _ => True) (createObjectIfNotExists ns found toCreate)
      (fun _ w => w.objs.Has ⟨found, ns.Namespace, ns.Name⟩) :=
  fun w _ _ ha => createObjectIfNotExists_has ns found toCreate w hkey ha

theorem triple_bind_ofExcept {ε α β : Type} {P : World → Prop} {R : β → World → Prop}
    {x : Except ε α} {f : α → Op ε β} (hf : ∀ a, x = .ok a → Triple P (f a) R) :
    Triple P (Op.ofExcept x >>= f) R := by
  intro w hw b hb
  obtain ⟨a, h1, h2⟩ := bind_ok _ _ _ _ hb
  rw [bind_of_ok _ _ _ _ h1]
  exact hf a h1 _ hw b h2

theorem triple_bind_orReturn_ofExcept {α β : Type} {P : World → Prop} {R : β → World → Prop}
    {x : Except Err α} {f : α → Op Return β} (hf : ∀ a, x = .ok a → Triple P (f a) R) :
    Triple P (orReturn (Op.ofExcept x) >>= f) R := by
  intro w hw b hb
  obtain ⟨a, h1, h2⟩ := bind_ok _ _ _ _ hb
  rw [bind_of_ok _ _ _ _ h1]
  have h3 := orReturn_ok _ _ _ h1
  rw [orReturn_world] at h2 ⊢
  exact hf a h3 _ hw b h2

theorem Store.Has_of_meta {s : Store} {kind : Kind} {o : Obj} {ns name : String}
    (h : s.Has ⟨kind, o.meta.Namespace, o.meta.Name⟩) (m1 : o.meta.Name = name)
    (m2 : o.meta.Namespace = ns) : s.Has ⟨kind, ns, name⟩ := by
  rw [← m1, ← m2]; exact h

theorem Reconcile.storage_settles (r : CryostatReconciler) (inst : Obj) :
    Triple (fun _ => True) (Reconcile.storage r inst)
      (fun _ w => StorageSettled inst.meta.Namespace inst.meta.Name w.objs) := by
  unfold Reconcile.storage
  apply triple_bind_orReturn_ofExcept; intro pvc h1
  obtain ⟨m1, m2, m3⟩ := SetControllerReference_meta _ _ _ h1
  exact triple_conseq (triple_orReturn (triple_createObjectIfNotExists
    ⟨pvc.meta.Namespace, pvc.meta.Name⟩ .PersistentVolumeClaim pvc
    (by simp [Obj.key, m3, NewPersistentVolumeClaimForCR, Body.kind])))
    (fun _ h => h) (fun _ w h => Store.Has_of_meta h m1 m2)

theorem Reconcile.secrets_settles (r : CryostatReconciler) (inst : Obj) :
    Triple (fun _ => True) (Reconcile.secrets r inst)
      (fun _ w => SecretsSettled inst.meta.Namespace inst.meta.Name w.objs) := by
  unfold Reconcile.secrets
  apply triple_bind_orReturn_ofExcept; intro s1 h1
  obtain ⟨m1, m2, m3⟩ := SetControllerReference_meta _ _ _ h1
  refine triple_bind (Q := fun _ w => w.objs.Has
      ⟨.Secret, inst.meta.Namespace, inst.meta.Name ++ "-grafana-basic"⟩)
    (triple_conseq (triple_orReturn (triple_createObjectIfNotExists
      ⟨s1.meta.Namespace, s1.meta.Name⟩ .Secret s1
      (by simp [Obj.key, m3, NewGrafanaSecretForCR, Body.kind])))
      (fun _ h => h) (fun _ w h => Store.Has_of_meta h m1 m2)) (fun _ => ?_)
  apply triple_bind_orReturn_ofExcept; intro s2 h2
  obtain ⟨n1, n2, n3⟩ := SetControllerReference_meta _ _ _ h2
  have t2 := triple_orReturn (triple_createObjectIfNotExists ⟨s2.meta.Namespace, s2.meta.Name⟩
    .Secret s2 (by simp [Obj.key, n3, NewJmxSecretForCR, Body.kind]))
  have k2 : Keeps (fun w => w.objs.Has
      (⟨.Secret, inst.meta.Namespace, inst.meta.Name ++ "-grafana-basic"⟩ : Key))
      (orReturn (createObjectIfNotExists ⟨s2.meta.Namespace, s2.meta.Name⟩ .Secret s2)) :=
    keeps_orReturn (createObjectIfNotExists_keeps (respects_has [(Verb.Create, s2.key)] _
      (by simp)) _ _ _ (by simp))
  exact triple_conseq (triple_frame t2 k2) (fun w hw => ⟨trivial, hw⟩)
    (fun _ w hw => ⟨hw.2, Store.Has_of_meta hw.1 n1 n2⟩)

end Cryostat

namespace Cryostat

theorem triple_create_framed (I : World → Prop) (ns : NamespacedName) (found : Kind)
    (toCreate : Obj) (hkey : toCreate.key = ⟨found, ns.Namespace, ns.Name⟩)
    (hR : Respects [(Verb.Create, toCreate.key)] I) :
    Triple I (createObjectIfNotExists ns found toCreate)
      (fun _ w => I w ∧ w.objs.Has ⟨found, ns.Namespace, ns.Name⟩) :=
  triple_conseq (triple_frame (triple_createObjectIfNotExists ns found toCreate hkey)
    (createObjectIfNotExists_keeps hR _ _ _ (by simp)))
    (fun _ hw => ⟨trivial, hw⟩) (fun _ _ hw => ⟨hw.2, hw.1⟩)

theorem createRBAC_settles (r : CryostatReconciler) (cr : Obj) :
    Triple (fun _ => True) (createRBAC r cr)
      (fun _ w => RBACSettled r cr.meta.Namespace cr.meta.Name w.objs) := by
  unfold createRBAC
  apply triple_bind_ofExcept; intro sa h1
  obtain ⟨a1, a2, a3⟩ := SetControllerReference_meta _ _ _ h1
  have ka : sa.key = ⟨.ServiceAccount, sa.meta.Namespace, sa.meta.Name⟩ := by
    simp [Obj.key, a3, NewServiceAccountForCR, Body.kind]
  refine triple_bind (Q := fun _ w => w.objs.Has ⟨.ServiceAccount, cr.meta.Namespace,
      cr.meta.Name⟩)
    (triple_conseq (triple_createObjectIfNotExists ⟨sa.meta.Namespace, sa.meta.Name⟩ _ sa ka)
      (fun _ h => h) (fun _ w h => Store.Has_of_meta h a1 a2)) (fun _ => ?_)
  apply triple_bind_ofExcept; intro role h2
  obtain ⟨b1, b2, b3⟩ := SetControllerReference_meta _ _ _ h2
  have kb : role.key = ⟨.Role, role.meta.Namespace, role.meta.Name⟩ := by
    simp [Obj.key, b3, NewRoleForCR, Body.kind]
  refine triple_bind (Q := fun _ w => w.objs.Has ⟨.ServiceAccount, cr.meta.Namespace,
      cr.meta.Name⟩ ∧ w.objs.Has ⟨.Role, cr.meta.Namespace, cr.meta.Name⟩)
    (triple_conseq (triple_create_framed _ ⟨role.meta.Namespace, role.meta.Name⟩ _ role kb
      (respects_has _ _ (by rw [kb]; simp)))
      (fun _ h => h) (fun _ w h => ⟨h.1, Store.Has_of_meta h.2 b1 b2⟩)) (fun _ => ?_)
  apply triple_bind_ofExcept; intro binding h3
  obtain ⟨c1, c2, c3⟩ := SetControllerReference_meta _ _ _ h3
  have kc : binding.key = ⟨.RoleBinding, binding.meta.Namespace, binding.meta.Name⟩ := by
    simp [Obj.key, c3, NewRoleBindingForCR, Body.kind]
  refine triple_bind (Q := fun _ w => (w.objs.Has ⟨.ServiceAccount, cr.meta.Namespace,
      cr.meta.Name⟩ ∧ w.objs.Has ⟨.Role, cr.meta.Namespace, cr.meta.Name⟩) ∧
      w.objs.Has ⟨.RoleBinding, cr.meta.Namespace, cr.meta.Name⟩)
    (triple_conseq (triple_create_framed _ ⟨binding.meta.Namespace, binding.meta.Name⟩ _
      binding kc ((respects_has _ _ (by rw [kc]; simp)).and
        (respects_has _ _ (by rw [kc]; simp))))
      (fun _ h => h) (fun _ w h => ⟨h.1, Store.Has_of_meta h.2 c1 c2⟩)) (fun _ => ?_)
  have kd : (NewClusterRoleBindingForCR r.resources cr).key
      = ⟨.ClusterRoleBinding, "", (NewClusterRoleBindingForCR r.resources cr).meta.Name⟩ := by
    simp [Obj.key, NewClusterRoleBindingForCR, Body.kind]
  exact triple_conseq (triple_create_framed _ ⟨"", (NewClusterRoleBindingForCR r.resources
      cr).meta.Name⟩ _ (NewClusterRoleBindingForCR r.resources cr) kd
      (((respects_has _ _ (by rw [kd]; simp)).and (respects_has _ _ (by rw [kd]; simp))).and
        (respects_has _ _ (by rw [kd]; simp))))
    (fun _ h => h) (fun _ w h => ⟨h.1.1.1, h.1.1.2, h.1.2, h.2⟩)

theorem Reconcile.rbac_settles (r : CryostatReconciler) (inst : Obj) :
    Triple (fun _ => True) (Reconcile.rbac r inst)
      (fun _ w => RBACSettled r inst.meta.Namespace inst.meta.Name w.objs) :=
  triple_orReturn (createRBAC_settles r inst)

theorem Reconcile.consoleLink_settles (r : CryostatReconciler) (inst : Obj)
    (serviceSpecs : ServiceSpecs) :
    Triple (fun _ => True) (Reconcile.consoleLink r inst serviceSpecs)
      (fun _ w => ConsoleLinkSettled r inst.meta.Namespace inst.meta.Name w.objs) := by
  intro w _ a ha hos
  unfold Reconcile.consoleLink at ha ⊢
  simp only [hos, if_true] at ha ⊢
  cases hc : serviceSpecs.CoreURL with
  | none => rw [hc] at ha; cases ha
  | some coreURL =>
    rw [hc] at ha
    simp only at ha ⊢
    have h2 := orReturn_ok _ _ _ ha
    rw [orReturn_world]
    exact createObjectIfNotExists_has _ _ _ w (by simp [Obj.key, NewConsoleLink, Body.kind]) h2

end Cryostat

namespace Cryostat

theorem dependsOn_service (r : CryostatReconciler) (controller svc : Obj)
    (exposePort : ServicePort) (tlsConfig : Option TLSConfig) :
    DependsOn [⟨.Service, svc.meta.Namespace, svc.meta.Name⟩,
        ⟨.Route, svc.meta.Namespace, svc.meta.Name⟩,
        ⟨.Ingress, svc.meta.Namespace, svc.meta.Name⟩]
      (ServiceSettled r controller svc exposePort tlsConfig) :=
  dependsOn_and (K := [_]) (dependsOn_has _)
    (dependsOn_and (K := [_]) (L := [_]) (dependsOn_imp _ (dependsOn_fixed _ _))
      (dependsOn_imp _ (dependsOn_imp _ (dependsOn_has _))))

theorem getFSGroup_objs (r : CryostatReconciler) (ns : String) (w : World) :
    (getFSGroup r ns w).2.objs = w.objs := by
  unfold getFSGroup
  split
  · rw [run_bind]
    have hobjs := Client.Get_objs ⟨.Namespace, "", ns⟩ w
    cases (Client.Get ⟨.Namespace, "", ns⟩ w).1 with
    | error e => exact hobjs
    | ok nsObj =>
      simp only
      cases List.lookup SupplementalGroupsAnnotation nsObj.meta.Annotations <;> exact hobjs
  · rfl

theorem getFSGroup_reliable (r : CryostatReconciler) (ns : String) (w : World)
    (hrel : w.Reliable) :
    (getFSGroup r ns w).1 = fsGroupOf r (w.objs.get? ⟨.Namespace, "", ns⟩) := by
  unfold getFSGroup fsGroupOf
  split
  · rw [run_bind, Client.Get_reliable _ w hrel]
    cases w.objs.get? ⟨.Namespace, "", ns⟩ with
    | none => rfl
    | some nsObj =>
      simp only
      cases List.lookup SupplementalGroupsAnnotation nsObj.meta.Annotations <;> rfl
  · rfl

theorem Reconcile.core_settles (r : CryostatReconciler) (inst : Obj)
    (routeTLS : Option TLSConfig) :
    Triple (fun _ => True) (Reconcile.core r inst routeTLS)
      (fun _ w => ServiceSettled r inst (NewExporterService r.resources inst)
        (r.resources.ExporterService inst.declared).Port routeTLS w.objs) := by
  intro w _ a ha
  unfold Reconcile.core at ha ⊢
  rw [run_bind, run_attempt] at ha ⊢
  simp only at ha ⊢
  cases hc : (createService r inst (NewExporterService r.resources inst)
      (r.resources.ExporterService inst.declared).Port routeTLS w).1 with
  | error e => rw [hc] at ha; cases ha
  | ok url =>
    simp only [run_pure]
    exact createService_settled r inst _ _ _ w url rfl hc

theorem Reconcile.command_settles (r : CryostatReconciler) (inst : Obj)
    (routeTLS : Option TLSConfig) :
    Triple (fun _ => True) (Reconcile.command r inst routeTLS)
      (fun _ w => ServiceSettled r inst (NewCommandChannelService r.resources inst)
        (r.resources.CommandChannelService inst.declared).Port routeTLS w.objs) := by
  intro w _ a ha
  unfold Reconcile.command at ha ⊢
  rw [run_bind, run_attempt] at ha ⊢
  simp only at ha ⊢
  cases hc : (createService r inst (NewCommandChannelService r.resources inst)
      (r.resources.CommandChannelService inst.declared).Port routeTLS w).1 with
  | error e => rw [hc] at ha; cases ha
  | ok url =>
    simp only [run_pure]
    exact createService_settled r inst _ _ _ w url rfl hc

theorem Reconcile.grafana_settles (r : CryostatReconciler) (inst : Obj)
    (routeTLS : Option TLSConfig) :
    Triple World.Reliable (Reconcile.grafana r inst routeTLS)
      (fun _ w => GrafanaSettled r inst routeTLS w.objs) := by
  intro w hrel a ha
  cases hmin : inst.Spec.Minimal with
  | true =>
    refine ⟨fun h => (by rw [hmin] at h; cases h), fun _ => ?_⟩
    exact Reconcile.grafana_minimal_removes r inst routeTLS w a hrel hmin ha
  | false =>
    refine ⟨fun _ => ?_, fun h => (by rw [hmin] at h; cases h)⟩
    unfold Reconcile.grafana at ha ⊢
    simp only [hmin, Bool.not_false, if_true] at ha ⊢
    rw [run_bind, run_attempt] at ha ⊢
    simp only at ha ⊢
    cases hc : (createService r inst (NewGrafanaService r.resources inst)
        (r.resources.GrafanaService inst.declared).Port routeTLS w).1 with
    | error e => rw [hc] at ha; cases ha
    | ok url =>
      simp only
      have hs := createService_settled r inst (NewGrafanaService r.resources inst) _ _ w url
        rfl hc
      exact keeps_bind (Reconcile.deleteDeployment_keeps inst _
          (respects_of_dependsOn _ _ _ (dependsOn_service r inst
            (NewGrafanaService r.resources inst) _ routeTLS)
            (by simp [deleteDeploymentTouches])))
        (fun _ => keeps_pure _) _ hs

/-- After the Deployment section has succeeded on a reliable store, the Deployment is
stored with the pod specification wanted. -/
theorem Reconcile.deployment_settles (r : CryostatReconciler) (inst : Obj)
    (serviceSpecs : ServiceSpecs) (tlsConfig : Option ResourcesTLSConfig) :
    Triple World.Reliable (Reconcile.deployment r inst serviceSpecs tlsConfig)
      (fun _ w => DeploymentSettled r inst serviceSpecs tlsConfig w.objs) := by
  intro w hrel a ha
  unfold Reconcile.deployment at ha ⊢
  obtain ⟨fsGroup, h1, h2⟩ := bind_ok _ _ _ _ ha
  have hfs := orReturn_ok _ _ _ h1
  rw [getFSGroup_reliable r _ w hrel] at hfs
  rw [bind_of_ok _ _ _ _ h1]
  simp only [orReturn_world] at h2 ⊢
  obtain ⟨deployment, h3, h4⟩ := bind_ok _ _ _ _ h2
  have h3b := orReturn_ok _ _ _ h3
  rw [run_ofExcept] at h3b
  simp only at h3b
  have hk : deployment.key = ⟨.Deployment, inst.meta.Namespace, inst.meta.Name⟩ := by
    rw [SetControllerReference_key _ _ _ h3b]; rfl
  rw [bind_of_ok _ _ _ _ h3]
  simp only [orReturn_world, run_ofExcept] at h4 ⊢
  obtain ⟨res, h5, h6⟩ := bind_ok _ _ _ _ h4
  have h5b := orReturn_ok _ _ _ h5
  rw [bind_of_ok _ _ _ _ h5, run_pure]
  simp only [orReturn_world]
  obtain ⟨x, hf1, hf2, _⟩ := CreateOrUpdate_fixed deployment _ _ (fun o => Obj.setPodSpec_key o _)
    (fun o => Obj.setPodSpec_idem o _)
    (fun s => (Obj.readInto_setPodSpec _ s deployment _).mp) res.1 res.2 h5b
  have hns := CreateOrUpdate_keeps (I := fun u => u.objs.get? ⟨.Namespace, "",
      inst.meta.Namespace⟩ = w.objs.get? ⟨.Namespace, "", inst.meta.Namespace⟩)
    (respects_get? [(Verb.Create, deployment.key), (Verb.Update, deployment.key)] _
      (fun o => o = w.objs.get? ⟨.Namespace, "", inst.meta.Namespace⟩)
      (by rw [hk]; simp)) deployment
    (fun deployment => deployment.setPodSpec
      (NewDeploymentForCR r.resources inst serviceSpecs (getImageTags r) tlsConfig
        fsGroup).deploymentSpec.Template.Spec) (fun o => Obj.setPodSpec_key o _)
    (by simp) (by simp) (getFSGroup r inst.meta.Namespace w).2
    (getFSGroup_objs r _ w ▸ rfl)
  refine ⟨fsGroup, ?_, x, ?_, hf2⟩
  · rw [hns]; exact hfs
  · rw [← hk]; exact hf1

end Cryostat

namespace Cryostat

/-! ## What a pass has brought about, section after section -/

theorem String.ne_append_command (n : String) : n ≠ n ++ "-command" := by
  intro h
  have := congrArg String.length h
  simp [String.length_append] at this
  revert this
  decide

theorem dependsOn_toSecrets (ns name : String) :
    DependsOn ([⟨.PersistentVolumeClaim, ns, name⟩] ++
      ([⟨.Secret, ns, name ++ "-grafana-basic"⟩] ++ [⟨.Secret, ns, name ++ "-jmx-auth"⟩]))
      (SettledToSecrets ns name) :=
  dependsOn_and (dependsOn_has _) (dependsOn_and (dependsOn_has _) (dependsOn_has _))

theorem dependsOn_toRBAC (r : CryostatReconciler) (ns name : String) :
    DependsOn (plainKeys r ns name) (SettledToRBAC r ns name) :=
  dependsOn_and (dependsOn_toSecrets ns name)
    (dependsOn_and (dependsOn_has _) (dependsOn_and (dependsOn_has _)
      (dependsOn_and (dependsOn_has _) (dependsOn_has _))))

theorem dependsOn_grafana (r : CryostatReconciler) (inst : Obj) (routeTLS : Option TLSConfig) :
    DependsOn (serviceKeys inst.meta.Namespace (inst.meta.Name ++ "-grafana"))
      (GrafanaSettled r inst routeTLS) := by
  intro s1 s2 he hs
  refine ⟨fun hm => dependsOn_service r inst (NewGrafanaService r.resources inst) _ routeTLS
    s1 s2 he (hs.1 hm), fun hm => ?_⟩
  obtain ⟨h1, h2⟩ := hs.2 hm
  refine ⟨by rw [← he _ (by simp [serviceKeys])]; exact h1, ?_⟩
  rw [← he _ (by cases r.IsOpenShift <;> simp [serviceKeys])]
  exact h2

theorem dependsOn_toGrafana (r : CryostatReconciler) (inst : Obj)
    (routeTLS : Option TLSConfig) :
    DependsOn (plainKeys r inst.meta.Namespace inst.meta.Name
        ++ serviceKeys inst.meta.Namespace (inst.meta.Name ++ "-grafana"))
      (SettledToGrafana r inst routeTLS) :=
  dependsOn_and (dependsOn_toRBAC r _ _) (dependsOn_grafana r inst routeTLS)

theorem dependsOn_toCore (r : CryostatReconciler) (inst : Obj)
    (routeTLS : Option TLSConfig) :
    DependsOn (plainKeys r inst.meta.Namespace inst.meta.Name
        ++ serviceKeys inst.meta.Namespace (inst.meta.Name ++ "-grafana")
        ++ serviceKeys inst.meta.Namespace inst.meta.Name)
      (SettledToCore r inst routeTLS) :=
  dependsOn_and (dependsOn_toGrafana r inst routeTLS)
    (dependsOn_service r inst (NewExporterService r.resources inst) _ routeTLS)

theorem dependsOn_toCommand (r : CryostatReconciler) (inst : Obj)
    (routeTLS : Option TLSConfig) :
    DependsOn (plainKeys r inst.meta.Namespace inst.meta.Name
        ++ serviceKeys inst.meta.Namespace (inst.meta.Name ++ "-grafana")
        ++ serviceKeys inst.meta.Namespace inst.meta.Name
        ++ serviceKeys inst.meta.Namespace (inst.meta.Name ++ "-command"))
      (SettledToCommand r inst routeTLS) :=
  dependsOn_and (dependsOn_toCore r inst routeTLS)
    (dependsOn_service r inst (NewCommandChannelService r.resources inst) _ routeTLS)

theorem dependsOn_deployment (r : CryostatReconciler) (inst : Obj)
    (serviceSpecs : ServiceSpecs) (tlsConfig : Option ResourcesTLSConfig) :
    DependsOn [⟨.Namespace, "", inst.meta.Namespace⟩,
        ⟨.Deployment, inst.meta.Namespace, inst.meta.Name⟩]
      (DeploymentSettled r inst serviceSpecs tlsConfig) := by
  intro s1 s2 he hs
  obtain ⟨fs, h1, x, h2, h3⟩ := hs
  refine ⟨fs, ?_, x, ?_, h3⟩
  · rw [← he _ (by simp)]; exact h1
  · rw [← he _ (by simp)]; exact h2

theorem dependsOn_toDeployment (r : CryostatReconciler) (st : PassState) :
    DependsOn (plainKeys r st.inst.meta.Namespace st.inst.meta.Name
        ++ serviceKeys st.inst.meta.Namespace (st.inst.meta.Name ++ "-grafana")
        ++ serviceKeys st.inst.meta.Namespace st.inst.meta.Name
        ++ serviceKeys st.inst.meta.Namespace (st.inst.meta.Name ++ "-command")
        ++ [⟨.Namespace, "", st.inst.meta.Namespace⟩,
          ⟨.Deployment, st.inst.meta.Namespace, st.inst.meta.Name⟩])
      (SettledToDeployment r st) :=
  dependsOn_and (dependsOn_toCommand r st.inst st.routeTLS)
    (dependsOn_deployment r st.inst st.serviceSpecs st.tlsConfig)

/-- A section with a postcondition of its own, run where an accumulated property of a
reliable store holds that its writes leave alone. -/
theorem triple_section {α : Type} {S Q : Store → Prop} {K : List Key} {T : List Touch}
    {m : Op Return α} (hS : DependsOn K S) (hT : ∀ t ∈ T, t.2 ∉ K)
    (hk : ∀ I : World → Prop, Respects T I → Keeps I m)
    (hm : Triple World.Reliable m (fun _ w => Q w.objs)) :
    Triple (fun w => w.Reliable ∧ S w.objs) m (fun _ w => w.Reliable ∧ S w.objs ∧ Q w.objs) :=
  fun w hw a ha =>
    ⟨hk _ (respects_reliable T) w hw.1,
      hk _ (respects_of_dependsOn T K S hS hT) w hw.2, hm w hw.1 a ha⟩

theorem triple_reliable {ε α : Type} {m : Op ε α} {Q : α → World → Prop}
    (h : Triple (fun _ => True) m Q) : Triple World.Reliable m Q :=
  triple_conseq h (fun _ _ => trivial) (fun _ _ hq => hq)

end Cryostat

namespace Cryostat

theorem Reconcile.toSecrets_settles (r : CryostatReconciler) (request : NamespacedName) :
    Triple World.Reliable (Reconcile.toSecrets r request)
      (fun inst w => w.Reliable ∧
        SettledToSecrets inst.meta.Namespace inst.meta.Name w.objs) := by
  unfold Reconcile.toSecrets
  refine triple_bind (Q := fun _ w => w.Reliable)
    (triple_of_keeps (fun w hw => Reconcile.toFinalizer_frame r request w hw
      (respects_reliable _))) (fun inst => ?_)
  refine triple_bind (Q := fun _ w => w.Reliable ∧
      StorageSettled inst.meta.Namespace inst.meta.Name w.objs)
    (fun w hw a ha => ⟨Reconcile.storage_keeps r inst (respects_reliable _) w hw,
      Reconcile.storage_settles r inst w trivial a ha⟩) (fun _ => ?_)
  refine triple_bind (Q := fun _ w => w.Reliable ∧
      StorageSettled inst.meta.Namespace inst.meta.Name w.objs ∧
      SecretsSettled inst.meta.Namespace inst.meta.Name w.objs)
    (triple_section (K := [_]) (T := secretsTouches inst.meta.Namespace inst.meta.Name)
      (dependsOn_has _) (by simp [secretsTouches])
      (fun I hR => Reconcile.secrets_keeps r inst hR)
      (triple_reliable (Reconcile.secrets_settles r inst))) (fun _ => ?_)
  exact triple_pure (fun inst w => w.Reliable ∧
    SettledToSecrets inst.meta.Namespace inst.meta.Name w.objs) inst

theorem Reconcile.toRBAC_settles (r : CryostatReconciler) (request : NamespacedName) :
    Triple World.Reliable (Reconcile.toRBAC r request)
      (fun st w => w.Reliable ∧
        SettledToRBAC r st.inst.meta.Namespace st.inst.meta.Name w.objs) := by
  unfold Reconcile.toRBAC
  refine triple_bind (Reconcile.toSecrets_settles r request) (fun inst => ?_)
  refine triple_bind (Q := fun _ w => w.Reliable ∧
      SettledToSecrets inst.meta.Namespace inst.meta.Name w.objs)
    (triple_of_keeps (Reconcile.tls_keeps r inst)) (fun tls => ?_)
  refine triple_bind (Q := fun _ w => w.Reliable ∧
      SettledToSecrets inst.meta.Namespace inst.meta.Name w.objs ∧
      RBACSettled r inst.meta.Namespace inst.meta.Name w.objs)
    (triple_section (T := createRBACTouches r inst.meta.Namespace inst.meta.Name)
      (dependsOn_toSecrets _ _) (by simp [createRBACTouches])
      (fun I hR => Reconcile.rbac_keeps r inst hR)
      (triple_reliable (Reconcile.rbac_settles r inst))) (fun _ => ?_)
  exact triple_pure (fun (st : PassState) w => w.Reliable ∧
    SettledToRBAC r st.inst.meta.Namespace st.inst.meta.Name w.objs)
    { inst := inst, tlsConfig := tls.1, routeTLS := tls.2 }

theorem Reconcile.toGrafana_settles (r : CryostatReconciler) (request : NamespacedName) :
    Triple World.Reliable (Reconcile.toGrafana r request)
      (fun st w => w.Reliable ∧ SettledToGrafana r st.inst st.routeTLS w.objs) := by
  unfold Reconcile.toGrafana
  refine triple_bind (Reconcile.toRBAC_settles r request) (fun st => ?_)
  refine triple_bind (Q := fun _ w => w.Reliable ∧
      SettledToRBAC r st.inst.meta.Namespace st.inst.meta.Name w.objs ∧
      GrafanaSettled r st.inst st.routeTLS w.objs)
    (triple_section
      (T := grafanaTouches r st.inst.meta.Namespace st.inst.meta.Name st.inst.Spec.Minimal)
      (dependsOn_toRBAC r _ _) (by
        cases st.inst.Spec.Minimal <;> cases hos : r.IsOpenShift <;>
          simp [grafanaTouches, createServiceTouches, deleteDeploymentTouches, plainKeys, hos])
      (fun I hR => Reconcile.grafana_keeps r st.inst st.routeTLS hR)
      (Reconcile.grafana_settles r st.inst st.routeTLS)) (fun url => ?_)
  exact triple_pure (fun (st : PassState) w => w.Reliable ∧
    SettledToGrafana r st.inst st.routeTLS w.objs)
    { st with serviceSpecs := { st.serviceSpecs with GrafanaURL := url } }

theorem Reconcile.toCore_settles (r : CryostatReconciler) (request : NamespacedName) :
    Triple World.Reliable (Reconcile.toCore r request)
      (fun st w => w.Reliable ∧ SettledToCore r st.inst st.routeTLS w.objs) := by
  unfold Reconcile.toCore
  refine triple_bind (Reconcile.toGrafana_settles r request) (fun st => ?_)
  refine triple_bind (Q := fun _ w => w.Reliable ∧
      SettledToGrafana r st.inst st.routeTLS w.objs ∧
      ServiceSettled r st.inst (NewExporterService r.resources st.inst)
        (r.resources.ExporterService st.inst.declared).Port st.routeTLS w.objs)
    (triple_section
      (T := createServiceTouches r st.inst.meta.Namespace st.inst.meta.Name)
      (dependsOn_toGrafana r _ _) (by
        have n1 := String.ne_append_grafana st.inst.meta.Name
        cases hos : r.IsOpenShift <;>
          simp [createServiceTouches, plainKeys, serviceKeys, hos, n1])
      (fun I hR => Reconcile.core_keeps r st.inst st.routeTLS hR)
      (triple_reliable (Reconcile.core_settles r st.inst st.routeTLS))) (fun url => ?_)
  exact triple_pure (fun (st : PassState) w => w.Reliable ∧
    SettledToCore r st.inst st.routeTLS w.objs)
    { st with serviceSpecs := { st.serviceSpecs with CoreURL := url } }

theorem Reconcile.toCommand_settles (r : CryostatReconciler) (request : NamespacedName) :
    Triple World.Reliable (Reconcile.toCommand r request)
      (fun st w => w.Reliable ∧ SettledToCommand r st.inst st.routeTLS w.objs) := by
  unfold Reconcile.toCommand
  refine triple_bind (Reconcile.toCore_settles r request) (fun st => ?_)
  refine triple_bind (Q := fun _ w => w.Reliable ∧
      SettledToCore r st.inst st.routeTLS w.objs ∧
      ServiceSettled r st.inst (NewCommandChannelService r.resources st.inst)
        (r.resources.CommandChannelService st.inst.declared).Port st.routeTLS w.objs)
    (triple_section
      (T := createServiceTouches r st.inst.meta.Namespace (st.inst.meta.Name ++ "-command"))
      (dependsOn_toCore r _ _) (by
        have n1 := String.command_ne_grafana st.inst.meta.Name
        have n2 : ¬ st.inst.meta.Name ++ "-command" = st.inst.meta.Name :=
          fun h => String.ne_append_command _ h.symm
        cases hos : r.IsOpenShift <;>
          simp [createServiceTouches, plainKeys, serviceKeys, hos, n1, n2])
      (fun I hR => Reconcile.command_keeps r st.inst st.routeTLS hR)
      (triple_reliable (Reconcile.command_settles r st.inst st.routeTLS))) (fun url => ?_)
  exact triple_pure (fun (st : PassState) w => w.Reliable ∧
    SettledToCommand r st.inst st.routeTLS w.objs)
    { st with serviceSpecs := { st.serviceSpecs with CommandURL := url } }

end Cryostat

namespace Cryostat

/-- After a complete pass on a reliable store, everything the pass maintains is settled. -/
theorem Reconcile.settled (r : CryostatReconciler) (request : NamespacedName) (w : World)
    (hrel : w.Reliable) (hok : (Reconcile.pass r request w).1 = .ok ()) :
    ∃ st, (Reconcile.toCommand r request w).1 = .ok st ∧
      (Reconcile r request w).2.Reliable ∧ Settled r st (Reconcile r request w).2.objs := by
  rw [Reconcile.pass_world]
  unfold Reconcile.pass at hok ⊢
  obtain ⟨st, h1, h2⟩ := bind_ok _ _ _ _ hok
  refine ⟨st, h1, ?_⟩
  rw [bind_of_ok _ _ _ _ h1]
  obtain ⟨hR6, hS6⟩ := Reconcile.toCommand_settles r request w hrel st h1
  obtain ⟨_, _, hkind, _, _⟩ := Reconcile.toFinalizer_inst r request w _
    (Reconcile.toCommand_inst _ _ _ _ h1)
  -- the Deployment
  obtain ⟨u, h3, h4⟩ := bind_ok _ _ _ _ h2
  rw [bind_of_ok _ _ _ _ h3]
  obtain ⟨hR7, hS7, hD7⟩ := triple_section
    (T := deploymentTouches st.inst.meta.Namespace st.inst.meta.Name)
    (dependsOn_toCommand r st.inst st.routeTLS)
    (by simp [deploymentTouches, plainKeys, serviceKeys])
    (fun I hR => Reconcile.deployment_keeps r st.inst st.serviceSpecs st.tlsConfig hR)
    (Reconcile.deployment_settles r st.inst st.serviceSpecs st.tlsConfig) _ ⟨hR6, hS6⟩ u h3
  -- the status
  obtain ⟨inst2, h5, h6⟩ := bind_ok _ _ _ _ h4
  rw [bind_of_ok _ _ _ _ h5]
  have hm := Reconcile.status_ok _ _ _ _ h5
  have hR8 := Reconcile.status_keeps st.inst st.serviceSpecs hkind (respects_reliable _) _ hR7
  have hS8 := Reconcile.status_keeps st.inst st.serviceSpecs hkind
    (respects_of_dependsOn (statusTouches st.inst.meta.Namespace st.inst.meta.Name) _ _
      (dependsOn_toDeployment r st)
      (by simp [statusTouches, plainKeys, serviceKeys])) _
    (show SettledToDeployment r st _ from ⟨hS7, hD7⟩)
  -- the ConsoleLink
  have hR9 := Reconcile.consoleLink_keeps r inst2 st.serviceSpecs (respects_reliable _) _ hR8
  have hS9 := Reconcile.consoleLink_keeps r inst2 st.serviceSpecs
    (respects_of_dependsOn (consoleLinkTouches r inst2.meta.Namespace inst2.meta.Name) _ _
      (dependsOn_toDeployment r st)
      (by cases hos : r.IsOpenShift <;> simp [consoleLinkTouches, plainKeys, serviceKeys, hos]))
    _ hS8
  have hC9 := Reconcile.consoleLink_settles r inst2 st.serviceSpecs _ trivial () h6
  rw [hm] at hC9
  exact ⟨hR9, hS9, hC9⟩

end Cryostat

namespace Cryostat

/-! ## Sections that find their work done -/

theorem Store.Has_to_meta {s : Store} {kind : Kind} {o : Obj} {ns name : String}
    (h : s.Has ⟨kind, ns, name⟩) (m1 : o.meta.Name = name) (m2 : o.meta.Namespace = ns) :
    s.Has ⟨kind, o.meta.Namespace, o.meta.Name⟩ := by
  rw [m1, m2]; exact h

theorem Reconcile.storage_replay (s0 : Store) (n : Nat) (r : CryostatReconciler) (inst : Obj)
    (h : StorageSettled inst.meta.Namespace inst.meta.Name s0) :
    Keeps (Replaying s0 n) (Reconcile.storage r inst) := by
  unfold Reconcile.storage
  apply keeps_bind_orReturn_ofExcept; intro pvc h1
  obtain ⟨m1, m2, m3⟩ := SetControllerReference_meta _ _ _ h1
  exact keeps_orReturn (replay_createObjectIfNotExists s0 n _ _ _ (Store.Has_to_meta h m1 m2))

theorem Reconcile.secrets_replay (s0 : Store) (n : Nat) (r : CryostatReconciler) (inst : Obj)
    (h : SecretsSettled inst.meta.Namespace inst.meta.Name s0) :
    Keeps (Replaying s0 n) (Reconcile.secrets r inst) := by
  unfold Reconcile.secrets
  apply keeps_bind_orReturn_ofExcept; intro s1 h1
  obtain ⟨m1, m2, m3⟩ := SetControllerReference_meta _ _ _ h1
  apply keeps_bind (keeps_orReturn (replay_createObjectIfNotExists s0 n _ _ _
    (Store.Has_to_meta h.1 m1 m2))); intro _
  apply keeps_bind_orReturn_ofExcept; intro s2 h2
  obtain ⟨n1, n2, n3⟩ := SetControllerReference_meta _ _ _ h2
  exact keeps_orReturn (replay_createObjectIfNotExists s0 n _ _ _ (Store.Has_to_meta h.2 n1 n2))

theorem Reconcile.rbac_replay (s0 : Store) (n : Nat) (r : CryostatReconciler) (inst : Obj)
    (h : RBACSettled r inst.meta.Namespace inst.meta.Name s0) :
    Keeps (Replaying s0 n) (Reconcile.rbac r inst) := by
  unfold Reconcile.rbac createRBAC
  apply keeps_orReturn
  apply keeps_bind_ofExcept; intro sa h1
  obtain ⟨a1, a2, a3⟩ := SetControllerReference_meta _ _ _ h1
  apply keeps_bind (replay_createObjectIfNotExists s0 n _ _ _
    (Store.Has_to_meta h.1 a1 a2)); intro _
  apply keeps_bind_ofExcept; intro role h2
  obtain ⟨b1, b2, b3⟩ := SetControllerReference_meta _ _ _ h2
  apply keeps_bind (replay_createObjectIfNotExists s0 n _ _ _
    (Store.Has_to_meta h.2.1 b1 b2)); intro _
  apply keeps_bind_ofExcept; intro binding h3
  obtain ⟨c1, c2, c3⟩ := SetControllerReference_meta _ _ _ h3
  apply keeps_bind (replay_createObjectIfNotExists s0 n _ _ _
    (Store.Has_to_meta h.2.2.1 c1 c2)); intro _
  exact replay_createObjectIfNotExists s0 n _ _ _ h.2.2.2

theorem Reconcile.core_replay (s0 : Store) (n : Nat) (r : CryostatReconciler) (inst : Obj)
    (routeTLS : Option TLSConfig)
    (h : ServiceSettled r inst (NewExporterService r.resources inst)
      (r.resources.ExporterService inst.declared).Port routeTLS s0) :
    Keeps (Replaying s0 n) (Reconcile.core r inst routeTLS) := by
  unfold Reconcile.core
  apply keeps_bind (keeps_attempt (replay_createService s0 n r inst _ _ _ h)); intro res
  split
  · exact keeps_fail _
  · exact keeps_pure _

theorem Reconcile.command_replay (s0 : Store) (n : Nat) (r : CryostatReconciler) (inst : Obj)
    (routeTLS : Option TLSConfig)
    (h : ServiceSettled r inst (NewCommandChannelService r.resources inst)
      (r.resources.CommandChannelService inst.declared).Port routeTLS s0) :
    Keeps (Replaying s0 n) (Reconcile.command r inst routeTLS) := by
  unfold Reconcile.command
  apply keeps_bind (keeps_attempt (replay_createService s0 n r inst _ _ _ h)); intro res
  split
  · exact keeps_fail _
  · exact keeps_pure _

theorem Reconcile.consoleLink_replay (s0 : Store) (n : Nat) (r : CryostatReconciler)
    (inst : Obj) (serviceSpecs : ServiceSpecs)
    (h : ConsoleLinkSettled r inst.meta.Namespace inst.meta.Name s0) :
    Keeps (Replaying s0 n) (Reconcile.consoleLink r inst serviceSpecs) := by
  unfold Reconcile.consoleLink
  split
  · rename_i hos
    split
    · exact keeps_fail _
    · exact keeps_orReturn (replay_createObjectIfNotExists s0 n _ _ _ (h hos))
  · exact keeps_pure _

/-- The Deployment a pass has settled is not one the Grafana section deletes. -/
theorem DeploymentSettled.sized (r : CryostatReconciler) (inst : Obj)
    (serviceSpecs : ServiceSpecs) (tlsConfig : Option ResourcesTLSConfig) (s0 : Store)
    (h : DeploymentSettled r inst serviceSpecs tlsConfig s0) (hsz : DeploymentSized r inst)
    (d : Obj) (hd : s0.get? ⟨.Deployment, inst.meta.Namespace, inst.meta.Name⟩ = some d) :
    (inst.Spec.Minimal = true → d.deploymentSpec.Template.Spec.Containers.length ≤ 1) ∧
    (inst.Spec.Minimal = false → d.deploymentSpec.Template.Spec.Containers.length ≠ 1) := by
  obtain ⟨fs, _, x, hx1, hx2⟩ := h
  rw [hd] at hx1
  simp only [Option.some.injEq] at hx1
  subst hx1
  have hk := Store.get?_key _ _ _ hd
  have hspec : d.deploymentSpec.Template.Spec
      = (r.resources.DeploymentSpec inst.declared serviceSpecs (getImageTags r) tlsConfig
          fs).Template.Spec := by
    cases d with
    | mk m body =>
      cases body
      case Deployment spec =>
        have h2 := congrArg Obj.deploymentSpec hx2
        simp only [Obj.setPodSpec, Obj.deploymentSpec] at h2
        rw [← h2]; rfl
      all_goals simp [Obj.key, Body.kind] at hk
  rw [hspec]
  exact hsz serviceSpecs (getImageTags r) tlsConfig fs

theorem Reconcile.grafana_replay (s0 : Store) (n : Nat) (r : CryostatReconciler) (inst : Obj)
    (routeTLS : Option TLSConfig) (serviceSpecs : ServiceSpecs)
    (tlsConfig : Option ResourcesTLSConfig)
    (h : GrafanaSettled r inst routeTLS s0)
    (hD : DeploymentSettled r inst serviceSpecs tlsConfig s0) (hsz : DeploymentSized r inst) :
    Keeps (Replaying s0 n) (Reconcile.grafana r inst routeTLS) := by
  cases hmin : inst.Spec.Minimal with
  | true =>
    obtain ⟨ha1, ha2⟩ := h.2 hmin
    unfold Reconcile.grafana
    simp only [hmin, Bool.not_true, Bool.false_eq_true, if_false]
    apply keeps_bind (replay_deleteExposure s0 n _ _ ha2); intro _
    apply keeps_bind (replay_deleteGrafanaService s0 n _ ha1); intro _
    apply keeps_bind (replay_deleteDeployment s0 n inst _ (fun d hd => by
      have := (DeploymentSettled.sized r inst _ _ s0 hD hsz d hd).1 hmin
      simp only [gt_iff_lt, decide_eq_false_iff_not, not_lt]
      exact this)); intro _
    exact keeps_pure _
  | false =>
    unfold Reconcile.grafana
    simp only [hmin, Bool.not_false, if_true]
    apply keeps_bind (keeps_attempt (replay_createService s0 n r inst _ _ _ (h.1 hmin)))
    intro res
    split
    · exact keeps_fail _
    · apply keeps_bind (replay_deleteDeployment s0 n inst _ (fun d hd => by
        have := (DeploymentSettled.sized r inst _ _ s0 hD hsz d hd).2 hmin
        simp only [beq_eq_false_iff_ne, ne_eq]
        exact this)); intro _
      exact keeps_pure _

theorem Reconcile.deployment_replay (s0 : Store) (n : Nat) (r : CryostatReconciler)
    (inst : Obj) (serviceSpecs : ServiceSpecs) (tlsConfig : Option ResourcesTLSConfig)
    (h : DeploymentSettled r inst serviceSpecs tlsConfig s0) :
    Keeps (Replaying s0 n) (Reconcile.deployment r inst serviceSpecs tlsConfig) := by
  intro w hw
  obtain ⟨fs, hfs, hfix⟩ := h
  have hns : w.objs.get? ⟨.Namespace, "", inst.meta.Namespace⟩
      = s0.get? ⟨.Namespace, "", inst.meta.Namespace⟩ := hw.2.1 _
  have hg : (orReturn (getFSGroup r inst.meta.Namespace) w).1 = .ok fs := by
    rw [run_orReturn, getFSGroup_reliable r _ w hw.1, hns, hfs]
  have hw2 : Replaying s0 n (orReturn (getFSGroup r inst.meta.Namespace) w).2 :=
    keeps_orReturn (getFSGroup_keeps (respects_replaying s0 n) r _) w hw
  unfold Reconcile.deployment
  rw [bind_of_ok _ _ _ _ hg]
  simp only []
  refine keeps_bind_orReturn_ofExcept (fun deployment h1 => ?_) _ hw2
  have hk : deployment.key = ⟨.Deployment, inst.meta.Namespace, inst.meta.Name⟩ := by
    rw [SetControllerReference_key _ _ _ h1]; rfl
  exact keeps_bind (keeps_orReturn (replay_CreateOrUpdate s0 n deployment _
    (fun dec s => (Obj.readInto_setPodSpec dec s deployment _).mpr)
    (by rw [hk]; exact hfix))) (fun _ => keeps_pure _)

theorem Reconcile.status_replay (s0 : Store) (n : Nat) (inst : Obj)
    (serviceSpecs : ServiceSpecs) (x : Obj) (hx : s0.get? inst.key = some x)
    (hxo : ∀ c, serviceSpecs.CoreURL = some c →
      x.withStatusOf (inst.setApplicationURL c.String) = x) :
    Keeps (Replaying s0 n) (Reconcile.status inst serviceSpecs) := by
  unfold Reconcile.status
  cases hc : serviceSpecs.CoreURL with
  | none => exact keeps_pure _
  | some c =>
    simp only
    exact keeps_bind (keeps_orReturn (replay_StatusUpdate s0 n _ x
      (by rw [Obj.setApplicationURL_key]; exact hx) (hxo c hc))) (fun _ => keeps_pure _)

end Cryostat

namespace Cryostat

/-! ## A pass over what a complete pass has left -/

/-- A pass that starts where everything is settled reads, and writes the status at most:
every section finds its objects as it would leave them. -/
theorem Reconcile.replay (r : CryostatReconciler) (request : NamespacedName)
    (w1 w2 : World) (minimal : Bool) (v : Option Obj) (L : Key → List RouteIngress)
    (s0 : Store) (n : Nat) (st : PassState) (x : Obj)
    (hF : Agrees (PassObserved request.Namespace request.Name minimal v L)
      (SameInstance request.Namespace request.Name minimal)
      (Reconcile.toFinalizer r request w1) (Reconcile.toFinalizer r request w2))
    (hcmd : (Reconcile.toCommand r request w1).1 = .ok st)
    (hS : Settled r st s0) (hsz : DeploymentSized r st.inst)
    (hfin : (Reconcile.toFinalizer r request w2).1 = .ok x)
    (hx : s0.get? x.key = some x)
    (hxc : ∀ c, st.serviceSpecs.CoreURL = some c → x.setApplicationURL c.String = x)
    (h0 : Replaying s0 n (Reconcile.toFinalizer r request w2).2) :
    Replaying s0 n (Reconcile.pass r request w2).2 := by
  obtain ⟨hA, _, _⟩ := Reconcile.toCommand_agrees r request w1 w2 minimal v L hF
  rw [hcmd] at hA
  cases e2 : (Reconcile.toCommand r request w2).1 with
  | error z => simp [e2, Agree] at hA
  | ok st2 =>
    rw [e2] at hA
    obtain ⟨hi, ht, hrt, hsp⟩ := hA
    have hal : st.inst.Alike st2.inst := hi.1
    obtain ⟨s5, c5, i5, t5, rt5, _, _⟩ := Reconcile.toCommand_ok _ _ _ _ e2
    obtain ⟨s4, c4, i4, t4, rt4, _⟩ := Reconcile.toCore_ok _ _ _ _ c5
    obtain ⟨s3, c3, i3, t3, rt3, _⟩ := Reconcile.toGrafana_ok _ _ _ _ c4
    obtain ⟨c2, _, _⟩ := Reconcile.toRBAC_ok _ _ _ _ c3
    have c1 := Reconcile.toSecrets_ok _ _ _ _ c2
    have e5 : s5.inst = st2.inst := i5.symm
    have e4 : s4.inst = st2.inst := by rw [← i4, e5]
    have e3 : s3.inst = st2.inst := by rw [← i3, e4]
    have r5 : s5.routeTLS = st.routeTLS := by rw [← rt5, hrt]
    have r4 : s4.routeTLS = st.routeTLS := by rw [← rt4, r5]
    have r3 : s3.routeTLS = st.routeTLS := by rw [← rt3, r4]
    have ex : st2.inst = x := by
      rw [e3, hfin] at c1
      simp only [Except.ok.injEq] at c1
      exact c1.symm
    obtain ⟨⟨⟨⟨⟨⟨⟨hSt, hSe⟩, hRB⟩, hGr⟩, hCo⟩, hCm⟩, hDe⟩, hCL⟩ := hS
    -- the sections up to the Secrets
    have k2 : Replaying s0 n (Reconcile.toSecrets r request w2).2 := by
      unfold Reconcile.toSecrets
      rw [bind_of_ok _ _ _ _ c1, e3, ← Reconcile.storage_congr hal r,
        ← Reconcile.secrets_congr hal r]
      exact keeps_bind (Reconcile.storage_replay s0 n r st.inst hSt)
        (fun _ => keeps_bind (Reconcile.secrets_replay s0 n r st.inst hSe)
          (fun _ => keeps_pure _)) _ h0
    -- RBAC
    have k3 : Replaying s0 n (Reconcile.toRBAC r request w2).2 := by
      unfold Reconcile.toRBAC
      rw [bind_of_ok _ _ _ _ c2, e3, ← Reconcile.rbac_congr hal r]
      exact keeps_bind (Reconcile.tls_keeps r st2.inst)
        (fun _ => keeps_bind (Reconcile.rbac_replay s0 n r st.inst hRB)
          (fun _ => keeps_pure _)) _ k2
    -- the three Services
    have k4 : Replaying s0 n (Reconcile.toGrafana r request w2).2 := by
      unfold Reconcile.toGrafana
      rw [bind_of_ok _ _ _ _ c3, e3, r3, ← Reconcile.grafana_congr hal r]
      exact keeps_bind (Reconcile.grafana_replay s0 n r st.inst st.routeTLS _ _ hGr hDe hsz)
        (fun _ => keeps_pure _) _ k3
    have k5 : Replaying s0 n (Reconcile.toCore r request w2).2 := by
      unfold Reconcile.toCore
      rw [bind_of_ok _ _ _ _ c4, e4, r4, ← Reconcile.core_congr hal r]
      exact keeps_bind (Reconcile.core_replay s0 n r st.inst st.routeTLS hCo)
        (fun _ => keeps_pure _) _ k4
    have k6 : Replaying s0 n (Reconcile.toCommand r request w2).2 := by
      unfold Reconcile.toCommand
      rw [bind_of_ok _ _ _ _ c5, e5, r5, ← Reconcile.command_congr hal r]
      exact keeps_bind (Reconcile.command_replay s0 n r st.inst st.routeTLS hCm)
        (fun _ => keeps_pure _) _ k5
    -- the Deployment, the status and the ConsoleLink
    unfold Reconcile.pass
    rw [bind_of_ok _ _ _ _ e2, ← ht, ← hsp, ← Reconcile.deployment_congr hal r]
    have k7 := Reconcile.deployment_replay s0 n r st.inst st.serviceSpecs st.tlsConfig hDe _ k6
    have hst : Keeps (Replaying s0 n) (Reconcile.status st2.inst st.serviceSpecs) := by
      rw [ex]
      exact Reconcile.status_replay s0 n x st.serviceSpecs x hx
        (fun c hc => by rw [Obj.withStatusOf_setApplicationURL]; exact hxc c hc)
    rw [run_bind]
    split
    · rw [run_bind]
      split
      · rename_i a ha
        have hm := Reconcile.status_ok _ _ _ _ ha
        refine Reconcile.consoleLink_replay s0 n r a st.serviceSpecs ?_ _ (hst _ k7)
        rw [hm, ← hal.1]
        exact hCL
      · exact hst _ k7
    · exact k7

end Cryostat

namespace Cryostat

/-! ## The status update of a pass -/

theorem DeploymentSized.addFinalizer (r : CryostatReconciler) (inst : Obj) (f : String)
    (h : DeploymentSized r inst) : DeploymentSized r (controllerutil.AddFinalizer inst f) := by
  have hd : (controllerutil.AddFinalizer inst f).declared = inst.declared := by
    unfold controllerutil.AddFinalizer
    split <;> rfl
  have hs : (controllerutil.AddFinalizer inst f).Spec = inst.Spec := by
    unfold controllerutil.AddFinalizer
    split <;> rfl
  intro specs tags tls fs
  rw [hd, hs]
  exact h specs tags tls fs

/-- A pass that runs to its end with a core URL in hand has issued the status update, and
the store has taken it. -/
theorem Reconcile.status_issued (r : CryostatReconciler) (request : NamespacedName)
    (w : World) (st : PassState) (url : URL)
    (hp : (Reconcile.pass r request w).1 = .ok ())
    (hc : (Reconcile.toCommand r request w).1 = .ok st)
    (hu : st.serviceSpecs.CoreURL = some url) :
    ∃ c ∈ (Reconcile r request w).2.callsSince w,
      c.verb = .StatusUpdate ∧ c.err = none ∧
        c.obj = some (st.inst.setApplicationURL url.String) := by
  have hJ0 := Reconcile.toFinalizer_frame r request w
    (I := fun u => ∃ rest, u.log = w.log ++ rest) ⟨[], by simp⟩ (respects_extends _ _)
  have hJ1 := Reconcile.toCommand_frame r request w hJ0 (fun _ _ => respects_extends _ _)
  have hJ2 := Reconcile.deployment_keeps r st.inst st.serviceSpecs st.tlsConfig
    (respects_extends _ w.log) _ hJ1
  rw [Reconcile.pass_world]
  unfold Reconcile.pass at hp ⊢
  rw [bind_of_ok _ _ _ _ hc] at hp ⊢
  obtain ⟨u, h3, h4⟩ := bind_ok _ _ _ _ hp
  rw [bind_of_ok _ _ _ _ h3]
  obtain ⟨i2, h5, h6⟩ := bind_ok _ _ _ _ h4
  rw [bind_of_ok _ _ _ _ h5]
  have hJ3 := Reconcile.consoleLink_keeps r i2 st.serviceSpecs
    (respects_extends _ (Reconcile.status st.inst st.serviceSpecs
      (Reconcile.deployment r st.inst st.serviceSpecs st.tlsConfig
        (Reconcile.toCommand r request w).2).2).2.log)
    (Reconcile.status st.inst st.serviceSpecs
      (Reconcile.deployment r st.inst st.serviceSpecs st.tlsConfig
        (Reconcile.toCommand r request w).2).2).2 ⟨[], by simp⟩
  obtain ⟨rest2, hr2⟩ := hJ3
  obtain ⟨rest1, hr1⟩ := hJ2
  have hlog : (Reconcile.status st.inst st.serviceSpecs
      (Reconcile.deployment r st.inst st.serviceSpecs st.tlsConfig
        (Reconcile.toCommand r request w).2).2).2.log
      = (w.log ++ rest1) ++ [⟨.StatusUpdate, (st.inst.setApplicationURL url.String).key,
          some (st.inst.setApplicationURL url.String), none,
          (Reconcile.deployment r st.inst st.serviceSpecs st.tlsConfig
            (Reconcile.toCommand r request w).2).2.objs⟩] := by
    unfold Reconcile.status at h5 ⊢
    simp only [hu] at h5 ⊢
    obtain ⟨_, h7, _⟩ := bind_ok _ _ _ _ h5
    rw [bind_of_ok _ _ _ _ h7, run_pure]
    have h9 := orReturn_ok _ _ _ h7
    simp only [orReturn_world]
    rw [Client.StatusUpdate_log, h9, hr1]
    rfl
  refine ⟨⟨.StatusUpdate, (st.inst.setApplicationURL url.String).key,
    some (st.inst.setApplicationURL url.String), none,
    (Reconcile.deployment r st.inst st.serviceSpecs st.tlsConfig
      (Reconcile.toCommand r request w).2).2.objs⟩, ?_, rfl, rfl, rfl⟩
  unfold World.callsSince
  rw [hr2, hlog, List.append_assoc, List.append_assoc, List.drop_left]
  simp

end Cryostat

namespace Cryostat

/-- Counterexample to C9: on OpenShift, with the Routes of the three Services carrying a
host, the first pass runs to its end and returns the empty result with a nil error; the
second pass on the world it left issues a status update all the same, which the store
accepts, and the object it carries is the instance exactly as the store already holds it:
the URL it writes is the one already in the status. -/
theorem Reconcile_second_pass_updates_status :
    (Reconcile (test.reconciler true) test.request
      { objs := [test.NewCryostat, test.NewNamespace, test.NewRoute "cryostat",
        test.NewRoute "cryostat-command", test.NewRoute "cryostat-grafana"] }).1
      = ({ Requeue := false, RequeueAfter := 0 }, none) ∧
    ∃ c ∈ (Reconcile (test.reconciler true) test.request
        (Reconcile (test.reconciler true) test.request
          { objs := [test.NewCryostat, test.NewNamespace, test.NewRoute "cryostat",
            test.NewRoute "cryostat-command", test.NewRoute "cryostat-grafana"] }).2).2.callsSince
        (Reconcile (test.reconciler true) test.request
          { objs := [test.NewCryostat, test.NewNamespace, test.NewRoute "cryostat",
            test.NewRoute "cryostat-command", test.NewRoute "cryostat-grafana"] }).2,
      c.verb = .StatusUpdate ∧ c.err = none ∧
        c.obj = (Reconcile (test.reconciler true) test.request
          { objs := [test.NewCryostat, test.NewNamespace, test.NewRoute "cryostat",
            test.NewRoute "cryostat-command", test.NewRoute "cryostat-grafana"] }).2.objs.get?
          ⟨.Cryostat, "default", "cryostat"⟩ := by
  decide

/-- C9 (amended): on a store that answers every call itself, for an instance that is not
being deleted and a Deployment template with one container for a minimal instance and
several otherwise, when `Reconcile` has run to its end (the empty result with a nil error),
a second `Reconcile` on the world the first one left issues no Create, no Update and no
Delete: every call it makes is a read or a status update, and every key of the store holds
after it what it held before. The status update is not conditional on a change: whenever
the second pass resolves a core URL it issues the status update, the store accepts it, and
the object it carries is the instance exactly as the store already holds it. -/
theorem Reconcile_second_pass_writes_status_only (r : CryostatReconciler)
    (request : NamespacedName) (w : World) (inst : Obj) (hrel : w.Reliable)
    (hget : (Client.Get ⟨.Cryostat, request.Namespace, request.Name⟩ w).1 = .ok inst)
    (hact : inst.meta.DeletionTimestamp = none)
    (hsz : DeploymentSized r inst)
    (hok : (Reconcile r request w).1 = ({ Requeue := false, RequeueAfter := 0 }, none)) :
    (∀ c ∈ (Reconcile r request (Reconcile r request w).2).2.callsSince (Reconcile r request w).2,
      c.verb = .Get ∨ c.verb = .StatusUpdate) ∧
    (∀ k, (Reconcile r request (Reconcile r request w).2).2.objs.get? k
      = (Reconcile r request w).2.objs.get? k) ∧
    (∀ st url, (Reconcile.toCommand r request (Reconcile r request w).2).1 = .ok st →
      st.serviceSpecs.CoreURL = some url →
      ∃ c ∈ (Reconcile r request (Reconcile r request w).2).2.callsSince
          (Reconcile r request w).2,
        c.verb = .StatusUpdate ∧ c.err = none ∧
          c.obj = (Reconcile r request w).2.objs.get?
            ⟨.Cryostat, request.Namespace, request.Name⟩) := by
  have hpass := Reconcile.completed r request w inst hget hact hok
  obtain ⟨st, hcmd, _, hS⟩ := Reconcile.settled r request w hrel hpass
  have hF1 := (Reconcile.toFinalizer_reliable r request w inst hrel hget hact).1
  have hsti : st.inst = controllerutil.AddFinalizer inst cryostatFinalizer := by
    have := Reconcile.toCommand_inst _ _ _ _ hcmd
    rw [hF1] at this
    simp only [Except.ok.injEq] at this
    exact this.symm
  have hdep : ∃ u, (Reconcile.deployment r st.inst st.serviceSpecs st.tlsConfig
      (Reconcile.toCommand r request w).2).1 = .ok u := by
    have hp := hpass
    unfold Reconcile.pass at hp
    rw [bind_of_ok _ _ _ _ hcmd] at hp
    obtain ⟨u, h3, _⟩ := bind_ok _ _ _ _ hp
    exact ⟨u, h3⟩
  obtain ⟨u, hdep⟩ := hdep
  have hst := Reconcile.stored_after r request w inst hrel hget hact
  rw [hcmd] at hst
  simp only [hdep] at hst
  obtain ⟨x, hst, hxm, hxs, hxc⟩ : ∃ x,
      (Reconcile r request w).2.objs.get? ⟨.Cryostat, request.Namespace, request.Name⟩
        = some x ∧
      x.meta = (controllerutil.AddFinalizer inst cryostatFinalizer).meta ∧
      x.Spec = (controllerutil.AddFinalizer inst cryostatFinalizer).Spec ∧
      ∀ c, st.serviceSpecs.CoreURL = some c → x.setApplicationURL c.String = x := by
    cases hc : st.serviceSpecs.CoreURL with
    | none =>
      rw [hc] at hst
      exact ⟨_, hst, rfl, rfl, fun c h => by cases h⟩
    | some c0 =>
      rw [hc] at hst
      exact ⟨_, hst, Obj.setApplicationURL_meta _ _, Obj.setApplicationURL_Spec _ _,
        fun c h => by cases h; exact Obj.setApplicationURL_idem _ _⟩
  obtain ⟨hF, hget2, hrel2, hdel2, hadd⟩ :=
    Reconcile.second_pass r request w inst x hrel hget hact hst hxm hxs
  have hfx : ContainsFinalizer x cryostatFinalizer = true := by
    have := controllerutil.AddFinalizer_contains inst cryostatFinalizer
    unfold ContainsFinalizer at this ⊢
    rw [hxm]; exact this
  have hT := Reconcile.toFinalizer_of_present r request _ x hget2 hdel2 hfx
  have hfin : (Reconcile.toFinalizer r request (Reconcile r request w).2).1 = .ok x := by
    rw [hT]
  have hxk := (Client.Get_ok _ _ _ hget2).2
  have h0 : Replaying (Reconcile r request w).2.objs (Reconcile r request w).2.log.length
      (Reconcile.toFinalizer r request (Reconcile r request w).2).2 := by
    rw [hT]
    exact replaying_get _ _ _ _ ⟨hrel2, fun _ => rfl, by simp⟩
  have hrep := Reconcile.replay r request w (Reconcile r request w).2 _ _ _
    (Reconcile r request w).2.objs (Reconcile r request w).2.log.length st x hF hcmd hS
    (by rw [hsti]; exact DeploymentSized.addFinalizer r inst _ hsz) hfin
    (by rw [hxk]; exact hst) hxc h0
  rw [← Reconcile.pass_world] at hrep
  refine ⟨hrep.2.2, hrep.2.1, ?_⟩
  intro st2 url hc2 hu
  have hok2 : (Reconcile r request (Reconcile r request w).2).1
      = ({ Requeue := false, RequeueAfter := 0 }, none) := by
    rw [← (Reconcile.agrees r request w _ _ _ _ hF).1]; exact hok
  have hpass2 := Reconcile.completed r request _ x hget2 hdel2 hok2
  obtain ⟨c, hc, hv, he, ho⟩ := Reconcile.status_issued r request _ st2 url hpass2 hc2 hu
  refine ⟨c, hc, hv, he, ?_⟩
  have hi2 : st2.inst = x := by
    have := Reconcile.toCommand_inst _ _ _ _ hc2
    rw [hfin] at this
    simp only [Except.ok.injEq] at this
    exact this.symm
  obtain ⟨hA, _, _⟩ := Reconcile.toCommand_agrees r request w _ _ _ _ hF
  rw [hcmd, hc2] at hA
  have hu1 : st.serviceSpecs.CoreURL = some url := by rw [hA.2.2.2]; exact hu
  rw [ho, hi2, hxc url hu1, hst]

/-- Witness for C9: the example instance on OpenShift, with the Routes of its three
Services already carrying a host, and the example templates. -/
theorem Reconcile_second_pass_writes_status_only_witness :
    (Reconcile (test.reconciler true) test.request
      { objs := [test.NewCryostat, test.NewNamespace, test.NewRoute "cryostat",
        test.NewRoute "cryostat-command", test.NewRoute "cryostat-grafana"] }).1
      = ({ Requeue := false, RequeueAfter := 0 }, none) ∧
    ∀ c ∈ (Reconcile (test.reconciler true) test.request
        (Reconcile (test.reconciler true) test.request
          { objs := [test.NewCryostat, test.NewNamespace, test.NewRoute "cryostat",
            test.NewRoute "cryostat-command", test.NewRoute "cryostat-grafana"] }).2).2.callsSince
        (Reconcile (test.reconciler true) test.request
          { objs := [test.NewCryostat, test.NewNamespace, test.NewRoute "cryostat",
            test.NewRoute "cryostat-command", test.NewRoute "cryostat-grafana"] }).2,
      c.verb = .Get ∨ c.verb = .StatusUpdate :=
  ⟨(by decide),
    (Reconcile_second_pass_writes_status_only (test.reconciler true) test.request
      { objs := [test.NewCryostat, test.NewNamespace, test.NewRoute "cryostat",
        test.NewRoute "cryostat-command", test.NewRoute "cryostat-grafana"] }
      test.NewCryostat (fun _ hf => by cases hf) (by decide) (by decide)
      (fun _ _ _ _ => ⟨fun h => absurd h (by decide),
        fun _ => (by show (3 : Nat) ≠ 1; decide)⟩) (by decide)).1⟩

end Cryostat

namespace Cryostat

/-! ## Owner references on fresh objects -/

/-- The owner reference is all `SetControllerReference` changes. -/
theorem SetControllerReference_labels (owner object o : Obj)
    (h : SetControllerReference owner object = .ok o) :
    o.meta.Annotations = object.meta.Annotations ∧ o.meta.Labels = object.meta.Labels := by
  unfold SetControllerReference at h
  split at h
  · cases h
  · split at h
    · cases h
    · split at h
      · cases h
      · simp only [Except.ok.injEq] at h
        subst h
        exact ⟨rfl, rfl⟩

/-- An object without owner references, in the namespace of the owner or owned by a
cluster-scoped owner, takes the owner reference. -/
theorem SetControllerReference_fresh (owner object : Obj)
    (hns : owner.meta.Namespace = "" ∨ object.meta.Namespace = owner.meta.Namespace)
    (hrefs : object.meta.OwnerReferences = []) :
    ∃ o, SetControllerReference owner object = .ok o := by
  unfold SetControllerReference
  rw [if_neg, if_neg, if_neg]
  · exact ⟨_, rfl⟩
  · rw [hrefs]; simp
  · rintro ⟨h1, h2⟩
    rcases hns with h | h
    · exact h1 h
    · exact h2 h.symm
  · rintro ⟨h1, h2⟩
    rcases hns with h | h
    · exact h1 h
    · rw [h] at h2; exact h1 h2

/-- An object that has taken the owner reference is in a namespace the owner may own in. -/
theorem SetControllerReference_namespace (owner object o : Obj)
    (h : SetControllerReference owner object = .ok o) :
    owner.meta.Namespace = "" ∨ object.meta.Namespace = owner.meta.Namespace := by
  unfold SetControllerReference at h
  split at h
  · cases h
  · split at h
    · cases h
    · rename_i h1 h2
      by_cases hn : owner.meta.Namespace = ""
      · exact Or.inl hn
      · right
        by_contra hc
        exact h2 ⟨hn, fun e => hc e.symm⟩

/-! ## What `createIngressForService` stores -/

/-- After `createIngressForService` has yielded a URL, the Ingress under the name of the
Service is the declared one if none was stored before, and the stored one otherwise. -/
theorem createIngressForService_stored (controller svc : Obj) (nc : NetworkConfiguration)
    (w : World) (url : Option URL)
    (hok : (createIngressForService controller svc nc w).1 = .ok url) :
    ∃ spec ingress, nc.IngressSpec = some spec ∧
      SetControllerReference controller
        { meta := { Name := svc.meta.Name, Namespace := svc.meta.Namespace,
                    Annotations := nc.Annotations, Labels := nc.Labels },
          body := .Ingress spec } = .ok ingress ∧
      (w.objs.get? ⟨.Ingress, svc.meta.Namespace, svc.meta.Name⟩ = none →
        (createIngressForService controller svc nc w).2.objs.get?
          ⟨.Ingress, svc.meta.Namespace, svc.meta.Name⟩ = some ingress) ∧
      (∀ x, w.objs.get? ⟨.Ingress, svc.meta.Namespace, svc.meta.Name⟩ = some x →
        (createIngressForService controller svc nc w).2.objs.get?
          ⟨.Ingress, svc.meta.Namespace, svc.meta.Name⟩ = some x) := by
  unfold createIngressForService at hok ⊢
  cases hspec : nc.IngressSpec with
  | none => rw [hspec] at hok; cases hok
  | some ingressSpec =>
    rw [hspec] at hok
    simp only at hok ⊢
    obtain ⟨ingress, h1, h2⟩ := bind_ok _ _ _ _ hok
    have h1b := h1
    rw [run_ofExcept] at h1b
    simp only at h1b
    have hk : ingress.key = ⟨.Ingress, svc.meta.Namespace, svc.meta.Name⟩ := by
      rw [SetControllerReference_key _ _ _ h1b]; rfl
    refine ⟨ingressSpec, ingress, rfl, h1b, ?_⟩
    rw [bind_of_ok _ _ _ _ h1]
    simp only [run_ofExcept] at h2 ⊢
    obtain ⟨res, h3, h4⟩ := bind_ok _ _ _ _ h2
    rw [bind_of_ok _ _ _ _ h3]
    obtain ⟨u, h5, h6⟩ := bind_ok _ _ _ _ h4
    simp only [run_attempt] at h5
    have hobjs := Client.Get_objs ⟨.Ingress, svc.meta.Namespace, svc.meta.Name⟩ w
    rw [run_attempt] at h3
    simp only [Except.ok.injEq] at h3
    refine after_bind
      (I := fun u =>
        (w.objs.get? ⟨.Ingress, svc.meta.Namespace, svc.meta.Name⟩ = none →
          u.objs.get? ⟨.Ingress, svc.meta.Namespace, svc.meta.Name⟩ = some ingress) ∧
        (∀ x, w.objs.get? ⟨.Ingress, svc.meta.Namespace, svc.meta.Name⟩ = some x →
          u.objs.get? ⟨.Ingress, svc.meta.Namespace, svc.meta.Name⟩ = some x))
      h5 ?_ ?_
    · subst h3
      cases hg : (Client.Get ⟨.Ingress, svc.meta.Namespace, svc.meta.Name⟩ w).1 with
      | error err =>
        rw [hg] at h5
        simp only at h5 ⊢
        by_cases hnf : err.IsNotFound = true
        · rw [if_pos hnf] at h5 ⊢
          obtain ⟨hn, hc⟩ := Client.Create_ok _ _ h5
          have hs := Store.get?_append_self _ _ hn
          rw [hk] at hs hn
          simp only [run_attempt]
          rw [hc, hs]
          rw [hobjs] at hn
          exact ⟨fun _ => rfl, fun x hx => by rw [hx] at hn; cases hn⟩
        · rw [if_neg hnf] at h5
          cases h5
      | ok x =>
        simp only [run_pure, run_attempt]
        rw [hobjs, (Client.Get_ok _ _ _ hg).1]
        exact ⟨fun h => (by cases h), fun y hy => hy⟩
    · refine keeps_bind (keeps_of_world (fun w => ?_)) (fun _ => keeps_pure _)
      cases ingressSpec.Rules with
      | none => rfl
      | some rules => cases rules <;> rfl

end Cryostat

namespace Cryostat

/-! ## Kinds a computation leaves alone -/

theorem avoids_pure {ε α : Type} (K : Kind) (a : α) : Avoids K (pure a : Op ε α) :=
  fun _ => keeps_pure a

theorem avoids_fail {ε α : Type} (K : Kind) (e : ε) : Avoids K (Op.fail e : Op ε α) :=
  fun _ => keeps_fail e

theorem avoids_ofExcept {ε α : Type} (K : Kind) (x : Except ε α) :
    Avoids K (Op.ofExcept x : Op ε α) :=
  fun _ => keeps_ofExcept x

theorem avoids_bind {ε α β : Type} {K : Kind} {m : Op ε α} {f : α → Op ε β}
    (hm : Avoids K m) (hf : ∀ a, Avoids K (f a)) : Avoids K (m >>= f) :=
  fun n => keeps_bind (hm n) (fun a => hf a n)

theorem avoids_attempt {ε ε2 α : Type} {K : Kind} {m : Op ε α} (hm : Avoids K m) :
    Avoids K (Op.attempt m : Op ε2 (Except ε α)) :=
  fun n => keeps_attempt (hm n)

theorem avoids_orReturn {α : Type} {K : Kind} {m : Op Err α} (hm : Avoids K m) :
    Avoids K (orReturn m) :=
  fun n => keeps_orReturn (hm n)

theorem avoids_bind_ofExcept {ε α β : Type} {K : Kind} {x : Except ε α} {f : α → Op ε β}
    (hf : ∀ a, x = .ok a → Avoids K (f a)) : Avoids K (Op.ofExcept x >>= f) :=
  fun n => keeps_bind_ofExcept (fun a h => hf a h n)

theorem avoids_bind_orReturn_ofExcept {α β : Type} {K : Kind} {x : Except Err α}
    {f : α → Op Return β} (hf : ∀ a, x = .ok a → Avoids K (f a)) :
    Avoids K (orReturn (Op.ofExcept x) >>= f) :=
  fun n => keeps_bind_orReturn_ofExcept (fun a h => hf a h n)

theorem avoids_call {α : Type} (K : Kind) (verb : Verb) (key : Key) (obj : Option Obj)
    (sem : Store → Except Err (α × Store)) (h : key.kind ≠ K) :
    Avoids K (Client.call verb key obj sem) := by
  intro n w hw c hc
  rw [Client.call_log] at hc
  rcases List.mem_drop_append_singleton _ _ _ _ hc with h1 | h1
  · exact hw c h1
  · rw [h1]; exact h

theorem avoids_get (K : Kind) (key : Key) (h : key.kind ≠ K) : Avoids K (Client.Get key) :=
  avoids_call K _ _ _ _ h

theorem avoids_create (K : Kind) (o : Obj) (h : o.key.kind ≠ K) : Avoids K (Client.Create o) :=
  avoids_call K _ _ _ _ h

theorem avoids_update (K : Kind) (o : Obj) (h : o.key.kind ≠ K) : Avoids K (Client.Update o) :=
  avoids_call K _ _ _ _ h

theorem avoids_delete (K : Kind) (o : Obj) (h : o.key.kind ≠ K) : Avoids K (Client.Delete o) :=
  avoids_call K _ _ _ _ h

theorem avoids_statusUpdate (K : Kind) (o : Obj) (h : o.key.kind ≠ K) :
    Avoids K (Client.StatusUpdate o) :=
  avoids_call K _ _ _ _ h

/-- After a read handed on as a value, the continuation may rely on the key of what was
read. -/
theorem avoids_bind_get {ε β : Type} {K : Kind} (k : Key) {f : Except Err Obj → Op ε β}
    (h : k.kind ≠ K) (hf : ∀ res, (∀ o, res = .ok o → o.key = k) → Avoids K (f res)) :
    Avoids K (Op.attempt (Client.Get k) >>= f) :=
  fun n => keeps_bind_get k (avoids_get K k h n) (fun res hres => hf res hres n)

theorem avoids_bind_getInto {ε β : Type} {K : Kind} (obj : Obj)
    {f : Except Err Obj → Op ε β} (h : obj.key.kind ≠ K)
    (hf : ∀ res, (∀ o, res = .ok o → o.key = obj.key) → Avoids K (f res)) :
    Avoids K (Op.attempt (Client.GetInto obj) >>= f) :=
  fun n => keeps_bind_getInto obj (avoids_get K obj.key h n) (fun res hres => hf res hres n)

/-- What a computation that avoids `K` has issued holds no call on an object of kind `K`. -/
theorem Avoids.calls {ε α : Type} {K : Kind} {m : Op ε α} (h : Avoids K m) (w : World) :
    ∀ c ∈ (m w).2.callsSince w, c.key.kind ≠ K :=
  h w.log.length w (by simp)

theorem createObjectIfNotExists_avoids (K : Kind) (ns : NamespacedName) (found : Kind)
    (toCreate : Obj) (h1 : found ≠ K) (h2 : toCreate.key.kind ≠ K) :
    Avoids K (createObjectIfNotExists ns found toCreate) := by
  unfold createObjectIfNotExists
  apply avoids_bind (avoids_attempt (avoids_get K _ h1)); intro res
  split
  · split
    · exact avoids_create K _ h2
    · exact avoids_fail K _
  · exact avoids_pure K _

theorem CreateOrUpdate_avoids (K : Kind) (obj : Obj) (f : Obj → Obj)
    (hkey : ∀ o, (f o).key = o.key) (h : obj.key.kind ≠ K) :
    Avoids K (CreateOrUpdate obj f) := by
  unfold CreateOrUpdate
  apply avoids_bind_getInto obj h; intro res hres
  split
  · split
    · exact avoids_bind (avoids_create K _ (by rw [hkey]; exact h)) (fun _ => avoids_pure K _)
    · exact avoids_fail K _
  · rename_i existing
    split
    · exact avoids_pure K _
    · exact avoids_bind (avoids_update K _ (by rw [hkey, hres existing rfl]; exact h))
        (fun _ => avoids_pure K _)

theorem createRouteForService_avoids (K : Kind) (cr svc : Obj) (exposePort : ServicePort)
    (tlsConfig : Option TLSConfig) (h : K ≠ .Route) :
    Avoids K (createRouteForService cr svc exposePort tlsConfig) := by
  unfold createRouteForService
  apply avoids_bind_ofExcept; intro route h1
  have hk : route.key = ⟨.Route, svc.meta.Namespace, svc.meta.Name⟩ := by
    rw [SetControllerReference_key _ _ _ h1]; rfl
  apply avoids_bind (CreateOrUpdate_avoids K route _ (fun o => Obj.setRouteSpec_key o _)
    (by rw [hk]; exact fun e => h e.symm))
  rintro ⟨_, o⟩
  simp only
  split
  · exact avoids_fail K _
  · exact avoids_pure K _

theorem createIngressForService_avoids (K : Kind) (controller svc : Obj)
    (nc : NetworkConfiguration) (h : K ≠ .Ingress) :
    Avoids K (createIngressForService controller svc nc) := by
  unfold createIngressForService
  split
  · exact avoids_fail K _
  · apply avoids_bind_ofExcept; intro ingress h1
    have hk : ingress.key = ⟨.Ingress, svc.meta.Namespace, svc.meta.Name⟩ := by
      rw [SetControllerReference_key _ _ _ h1]; rfl
    apply avoids_bind (avoids_attempt (avoids_get K _ (fun e => h e.symm))); intro res
    apply avoids_bind
    · split
      · split
        · exact avoids_create K _ (by rw [hk]; exact fun e => h e.symm)
        · exact avoids_fail K _
      · exact avoids_pure K _
    · intro _
      apply avoids_bind
      · split
        · exact avoids_pure K _
        · exact avoids_fail K _
        · exact avoids_pure K _
      · intro _
        exact avoids_pure K _

end Cryostat

namespace Cryostat

/-! ## The Route `createRouteForService` leaves -/

/-- A stored Route that the mutation of `createRouteForService` leaves as it is carries
the specification wanted. -/
theorem Store.Fixed.routeSpec {s : Store} {ns name : String} {spec : RouteSpec}
    (h : s.Fixed ⟨.Route, ns, name⟩ (fun route => route.setRouteSpec spec)) :
    ∃ route status, s.get? ⟨.Route, ns, name⟩ = some route ∧ route.body = .Route spec status := by
  obtain ⟨x, hx, hf⟩ := h
  have hk := Store.get?_key _ _ _ hx
  cases x with
  | mk m body =>
    cases body
    case Route sp st =>
      refine ⟨_, st, hx, ?_⟩
      have := congrArg Obj.body hf
      simp only [Obj.setRouteSpec] at this
      rw [← this]
    all_goals simp [Obj.key, Body.kind] at hk

/-- On a store that answers every call itself, `createRouteForService` leaves the Route
with the specification wanted, whether or not the Route reports a host yet. -/
theorem createRouteForService_leaves (cr svc : Obj) (exposePort : ServicePort)
    (tlsConfig : Option TLSConfig) (w : World) (hrel : w.Reliable)
    (hns : cr.meta.Namespace = "" ∨ svc.meta.Namespace = cr.meta.Namespace) :
    (createRouteForService cr svc exposePort tlsConfig w).2.objs.Fixed
      ⟨.Route, svc.meta.Namespace, svc.meta.Name⟩ (routeMutation svc exposePort tlsConfig) := by
  obtain ⟨route, hroute⟩ := SetControllerReference_fresh cr
    { meta := { Name := svc.meta.Name, Namespace := svc.meta.Namespace }, body := .Route {} {} }
    hns rfl
  have hk : route.key = ⟨.Route, svc.meta.Namespace, svc.meta.Name⟩ := by
    rw [SetControllerReference_key _ _ _ hroute]; rfl
  unfold createRouteForService
  have h1 : (Op.ofExcept (SetControllerReference cr
      { meta := { Name := svc.meta.Name, Namespace := svc.meta.Namespace },
        body := .Route {} {} }) w : Except Err Obj × World).1 = .ok route := by
    rw [run_ofExcept, hroute]
  rw [bind_of_ok _ _ _ _ h1]
  simp only [run_ofExcept]
  obtain ⟨op, o, h3⟩ : ∃ op o, (CreateOrUpdate route (fun route =>
      route.setRouteSpec
        { To := { Kind := "Service", Name := svc.meta.Name },
          Port := some exposePort.TargetPort,
          TLS := tlsConfig }) w).1 = .ok (op, o) := by
    obtain ⟨op, h⟩ := CreateOrUpdate_reliable route (fun route =>
      route.setRouteSpec
        { To := { Kind := "Service", Name := svc.meta.Name },
          Port := some exposePort.TargetPort,
          TLS := tlsConfig }) w hrel (fun o => Obj.setRouteSpec_key o _)
    exact ⟨op, _, h⟩
  obtain ⟨x, hf1, hf2, _⟩ := CreateOrUpdate_fixed route _ _ (fun o => Obj.setRouteSpec_key o _)
    (fun o => Obj.setRouteSpec_idem o _)
    (fun s => (Obj.readInto_setRouteSpec _ s route _).mp) op o h3
  refine after_bind (I := fun u => u.objs.Fixed ⟨.Route, svc.meta.Namespace, svc.meta.Name⟩
    (routeMutation svc exposePort tlsConfig)) h3 ⟨x, by rw [← hk]; exact hf1, hf2⟩ ?_
  intro u hu
  simp only
  cases o.routeIngress with
  | nil => exact hu
  | cons i _ => exact hu

end Cryostat

namespace Cryostat

/-! ## Invariants along the pass, section by section -/

/-- What every section up to the command channel Service keeps holds when the pass has
come that far or has stopped before. -/
theorem Reconcile.toCommand_by {I : World → Prop} (r : CryostatReconciler)
    (request : NamespacedName) (w : World) (h0 : I (Reconcile.toFinalizer r request w).2)
    (hS : ∀ inst, (Reconcile.toFinalizer r request w).1 = .ok inst →
      Keeps I (Reconcile.storage r inst) ∧ Keeps I (Reconcile.secrets r inst) ∧
      Keeps I (Reconcile.rbac r inst) ∧ (∀ tls, Keeps I (Reconcile.grafana r inst tls)) ∧
      (∀ tls, Keeps I (Reconcile.core r inst tls)) ∧
      (∀ tls, Keeps I (Reconcile.command r inst tls))) :
    I (Reconcile.toCommand r request w).2 := by
  have h2 : I (Reconcile.toSecrets r request w).2 := by
    unfold Reconcile.toSecrets
    rw [run_bind]
    cases h1 : (Reconcile.toFinalizer r request w).1 with
    | error e => exact h0
    | ok inst =>
      simp only
      obtain ⟨k1, k2, _⟩ := hS inst h1
      exact keeps_bind k1 (fun _ => keeps_bind k2 (fun _ => keeps_pure _)) _ h0
  have h3 : I (Reconcile.toRBAC r request w).2 := by
    unfold Reconcile.toRBAC
    rw [run_bind]
    cases h1 : (Reconcile.toSecrets r request w).1 with
    | error e => exact h2
    | ok inst =>
      simp only
      obtain ⟨_, _, k3, _⟩ := hS inst (Reconcile.toSecrets_ok _ _ _ _ h1)
      exact keeps_bind (Reconcile.tls_keeps r inst)
        (fun _ => keeps_bind k3 (fun _ => keeps_pure _)) _ h2
  have h4 : I (Reconcile.toGrafana r request w).2 := by
    unfold Reconcile.toGrafana
    rw [run_bind]
    cases h1 : (Reconcile.toRBAC r request w).1 with
    | error e => exact h3
    | ok st =>
      simp only
      obtain ⟨_, _, _, k4, _⟩ := hS st.inst (Reconcile.toRBAC_inst _ _ _ _ h1)
      exact keeps_bind (k4 _) (fun _ => keeps_pure _) _ h3
  have h5 : I (Reconcile.toCore r request w).2 := by
    unfold Reconcile.toCore
    rw [run_bind]
    cases h1 : (Reconcile.toGrafana r request w).1 with
    | error e => exact h4
    | ok st =>
      simp only
      obtain ⟨_, _, _, _, k5, _⟩ := hS st.inst (Reconcile.toGrafana_inst _ _ _ _ h1)
      exact keeps_bind (k5 _) (fun _ => keeps_pure _) _ h4
  unfold Reconcile.toCommand
  rw [run_bind]
  cases h1 : (Reconcile.toCore r request w).1 with
  | error e => exact h5
  | ok st =>
    simp only
    obtain ⟨_, _, _, _, _, k6⟩ := hS st.inst (Reconcile.toCore_inst _ _ _ _ h1)
    exact keeps_bind (k6 _) (fun _ => keeps_pure _) _ h5

/-- What the status update and the ConsoleLink keep, and holds once the Deployment section
is through, holds at the end of the pass. -/
theorem Reconcile.pass_tail {I : World → Prop} (r : CryostatReconciler)
    (request : NamespacedName) (w : World) (st : PassState)
    (h1 : (Reconcile.toCommand r request w).1 = .ok st)
    (hd : I (Reconcile.deployment r st.inst st.serviceSpecs st.tlsConfig
      (Reconcile.toCommand r request w).2).2)
    (hR : Respects (statusTouches st.inst.meta.Namespace st.inst.meta.Name
      ++ consoleLinkTouches r st.inst.meta.Namespace st.inst.meta.Name) I) :
    I (Reconcile r request w).2 := by
  rw [Reconcile.pass_world]
  unfold Reconcile.pass
  rw [bind_of_ok _ _ _ _ h1, run_bind]
  have hk := (Reconcile.toFinalizer_inst _ _ _ _ (Reconcile.toCommand_inst _ _ _ _ h1)).2.2.1
  cases h2 : (Reconcile.deployment r st.inst st.serviceSpecs st.tlsConfig
      (Reconcile.toCommand r request w).2).1 with
  | error e => exact hd
  | ok u =>
    simp only
    have hs := Reconcile.status_keeps st.inst st.serviceSpecs hk (hR.mono (by
      intro t ht; simp only [List.mem_append]; tauto)) _ hd
    rw [run_bind]
    cases h3 : (Reconcile.status st.inst st.serviceSpecs
        (Reconcile.deployment r st.inst st.serviceSpecs st.tlsConfig
          (Reconcile.toCommand r request w).2).2).1 with
    | error e => exact hs
    | ok inst2 =>
      simp only
      have hm := Reconcile.status_ok _ _ _ _ h3
      refine Reconcile.consoleLink_keeps r inst2 st.serviceSpecs (hR.mono ?_) _ hs
      intro t ht
      rw [hm] at ht
      simp only [List.mem_append]; tauto

end Cryostat

namespace Cryostat

/-! ## The Deployment that is there already -/

/-- When the object is in the store already, a successful `controllerutil.CreateOrUpdate`
leaves the stored object as it is if the mutation changes nothing of what the read has left
in the object handed over, and replaces it by the mutation of that otherwise. -/
theorem CreateOrUpdate_of_present (obj : Obj) (f : Obj → Obj) (w : World) (d : Obj)
    (hkey : ∀ o, (f o).key = o.key) (hd : w.objs.get? obj.key = some d)
    (op : OperationResult) (o : Obj) (hok : (CreateOrUpdate obj f w).1 = .ok (op, o)) :
    (CreateOrUpdate obj f w).2.objs.get? obj.key
      = some (if Obj.readInto w.decodeInto d obj = f (Obj.readInto w.decodeInto d obj) then d
          else f (Obj.readInto w.decodeInto d obj)) := by
  have hobjs := Client.GetInto_objs obj w
  unfold CreateOrUpdate at hok ⊢
  rw [run_bind, run_attempt] at hok ⊢
  simp only at hok ⊢
  cases hg : (Client.GetInto obj w).1 with
  | error err =>
    rw [hg] at hok
    simp only at hok ⊢
    by_cases hnf : err.IsNotFound = true
    · rw [if_pos hnf] at hok
      rw [run_bind] at hok
      cases hc : (Client.Create (f obj) (Client.GetInto obj w).2).1 with
      | error e => rw [hc] at hok; cases hok
      | ok u =>
        obtain ⟨hn, _⟩ := Client.Create_ok _ _ hc
        rw [hkey, hobjs, hd] at hn
        cases hn
    · rw [if_neg hnf] at hok
      cases hok
  | ok existing =>
    obtain ⟨stored, _, hex, hrd, hek⟩ := Client.GetInto_ok _ _ _ hg
    rw [hd] at hex
    simp only [Option.some.injEq] at hex
    subst hex
    subst hrd
    rw [hg] at hok
    simp only at hok ⊢
    by_cases hx : Obj.readInto w.decodeInto d obj = f (Obj.readInto w.decodeInto d obj)
    · rw [if_pos hx] at hok ⊢
      simp only [run_pure]
      rw [hobjs, hd, if_pos hx]
    · rw [if_neg hx] at hok ⊢
      rw [run_bind] at hok ⊢
      cases hc : (Client.Update (f (Obj.readInto w.decodeInto d obj))
          (Client.GetInto obj w).2).1 with
      | error e => rw [hc] at hok; cases hok
      | ok u =>
        simp only [run_pure]
        obtain ⟨⟨y, hy⟩, hcw⟩ := Client.Update_ok _ _ hc
        have hk2 : (f (Obj.readInto w.decodeInto d obj)).key = obj.key := by rw [hkey, hek]
        have hs := Store.get?_replace_self _ _ y hy
        rw [hk2] at hs
        rw [hcw, if_neg hx]
        exact hs

/-- When the Deployment is in the store already, a Deployment section that succeeds leaves
it as it is if the read has left the pod spec computed in this pass in the Deployment
object, and otherwise replaces it by what the read has left in that object, with the pod
spec computed in this pass. -/
theorem Reconcile.deployment_updates (r : CryostatReconciler) (inst : Obj)
    (serviceSpecs : ServiceSpecs) (tlsConfig : Option ResourcesTLSConfig) (w : World) (d : Obj)
    (hd : w.objs.get? ⟨.Deployment, inst.meta.Namespace, inst.meta.Name⟩ = some d)
    (hok : (Reconcile.deployment r inst serviceSpecs tlsConfig w).1 = .ok ()) :
    ∃ fsGroup dep, (getFSGroup r inst.meta.Namespace w).1 = .ok fsGroup ∧
      SetControllerReference inst (NewDeploymentForCR r.resources inst serviceSpecs
        (getImageTags r) tlsConfig fsGroup) = .ok dep ∧
      (Reconcile.deployment r inst serviceSpecs tlsConfig w).2.objs.get?
          ⟨.Deployment, inst.meta.Namespace, inst.meta.Name⟩
        = some (if Obj.readInto w.decodeInto d dep
              = (Obj.readInto w.decodeInto d dep).setPodSpec (r.resources.DeploymentSpec
                  inst.declared serviceSpecs (getImageTags r) tlsConfig fsGroup).Template.Spec
            then d
            else (Obj.readInto w.decodeInto d dep).setPodSpec (r.resources.DeploymentSpec
              inst.declared serviceSpecs (getImageTags r) tlsConfig fsGroup).Template.Spec) := by
  unfold Reconcile.deployment at hok ⊢
  obtain ⟨fs, h1, h2⟩ := bind_ok _ _ _ _ hok
  rw [bind_of_ok _ _ _ _ h1]
  simp only at h2 ⊢
  obtain ⟨dep, h3, h4⟩ := bind_ok _ _ _ _ h2
  rw [bind_of_ok _ _ _ _ h3]
  have h3b := orReturn_ok _ _ _ h3
  rw [run_ofExcept] at h3b
  simp only at h3b
  refine ⟨fs, dep, orReturn_ok _ _ _ h1, h3b, ?_⟩
  have hk : dep.key = ⟨.Deployment, inst.meta.Namespace, inst.meta.Name⟩ := by
    rw [SetControllerReference_key _ _ _ h3b]; rfl
  simp only [orReturn_world, run_ofExcept] at h4 ⊢
  obtain ⟨res, h5, _⟩ := bind_ok _ _ _ _ h4
  rw [bind_of_ok _ _ _ _ h5, run_pure]
  have h5b := orReturn_ok _ _ _ h5
  have hobjs : (getFSGroup r inst.meta.Namespace w).2.objs = w.objs := getFSGroup_objs r _ w
  have hdec : (getFSGroup r inst.meta.Namespace w).2.decodeInto = w.decodeInto :=
    getFSGroup_keeps (respects_decodeInto [] w.decodeInto) r _ w rfl
  have hd2 : (getFSGroup r inst.meta.Namespace w).2.objs.get? dep.key = some d := by
    rw [hobjs, hk]; exact hd
  have := CreateOrUpdate_of_present dep _ _ d (fun o => Obj.setPodSpec_key o _) hd2 res.1 res.2
    h5b
  rw [hk, hdec] at this
  simp only [orReturn_world]
  exact this

/-- A Deployment whose container count is not the stale one stays where it is. -/
theorem Reconcile.deleteDeployment_spares (inst : Obj) (mismatch : Nat → Bool) (d : Obj)
    (h : mismatch d.deploymentSpec.Template.Spec.Containers.length = false) :
    Keeps (fun w => w.objs.get? ⟨.Deployment, inst.meta.Namespace, inst.meta.Name⟩ = some d)
      (Reconcile.deleteDeployment inst mismatch) := by
  intro w hw
  have hobjs := Client.Get_objs ⟨.Deployment, inst.meta.Namespace, inst.meta.Name⟩ w
  unfold Reconcile.deleteDeployment
  rw [run_bind, run_attempt]
  simp only
  cases hg : (Client.Get ⟨.Deployment, inst.meta.Namespace, inst.meta.Name⟩ w).1 with
  | error e =>
    simp only [run_pure]
    rw [hobjs]; exact hw
  | ok x =>
    have hx := (Client.Get_ok _ _ _ hg).1
    rw [hw] at hx
    simp only [Option.some.injEq] at hx
    subst hx
    simp only [h, Bool.false_eq_true, if_false, run_pure]
    rw [hobjs]; exact hw

end Cryostat

namespace Cryostat

/-- The Grafana section leaves a Deployment alone whose container count is not the stale
one for the instance. -/
theorem Reconcile.grafana_spares (r : CryostatReconciler) (inst : Obj)
    (routeTLS : Option TLSConfig) (d : Obj)
    (hmin : inst.Spec.Minimal = true → d.deploymentSpec.Template.Spec.Containers.length ≤ 1)
    (hfull : inst.Spec.Minimal = false → d.deploymentSpec.Template.Spec.Containers.length ≠ 1) :
    Keeps (fun w => w.objs.get? ⟨.Deployment, inst.meta.Namespace, inst.meta.Name⟩ = some d)
      (Reconcile.grafana r inst routeTLS) := by
  unfold Reconcile.grafana
  split
  · rename_i hm
    have hm2 : inst.Spec.Minimal = false := by simpa using hm
    apply keeps_bind (keeps_attempt (createService_keeps r inst
      (NewGrafanaService r.resources inst) _ _
      (respects_get? _ _ (fun o => o = some d) (by
        cases hos : r.IsOpenShift <;>
          simp [createServiceTouches, hos, NewGrafanaService, NewService])) rfl)); intro res
    split
    · exact keeps_fail _
    · apply keeps_bind (Reconcile.deleteDeployment_spares inst _ d (by
        simp only [beq_eq_false_iff_ne, ne_eq]
        exact hfull hm2)); intro _
      exact keeps_pure _
  · rename_i hm
    have hm2 : inst.Spec.Minimal = true := by simpa using hm
    apply keeps_bind (Reconcile.deleteExposure_keeps
      (T := [(Verb.Delete, ⟨if r.IsOpenShift then .Route else .Ingress,
        (NewGrafanaService r.resources inst).meta.Namespace,
        (NewGrafanaService r.resources inst).meta.Name⟩)])
      (respects_get? _ _ (fun o => o = some d) (by
        cases hos : r.IsOpenShift <;> simp)) _ _ (by simp)); intro _
    apply keeps_bind (Reconcile.deleteGrafanaService_keeps
      (T := [(Verb.Delete, ⟨.Service, (NewGrafanaService r.resources inst).meta.Namespace,
        (NewGrafanaService r.resources inst).meta.Name⟩)])
      (respects_get? _ _ (fun o => o = some d) (by simp)) _ (by simp)); intro _
    apply keeps_bind (Reconcile.deleteDeployment_spares inst _ d (by
      simp only [gt_iff_lt, decide_eq_false_iff_not, not_lt]
      exact hmin hm2)); intro _
    exact keeps_pure _

/-- A Deployment that is there before the pass and is not stale is there when the
Deployment section begins. -/
theorem Reconcile.deployment_reached (r : CryostatReconciler) (request : NamespacedName)
    (w : World) (d : Obj)
    (hd : w.objs.get? ⟨.Deployment, request.Namespace, request.Name⟩ = some d)
    (hfresh : ∀ inst, (Reconcile.toFinalizer r request w).1 = .ok inst →
      (inst.Spec.Minimal = true → d.deploymentSpec.Template.Spec.Containers.length ≤ 1) ∧
      (inst.Spec.Minimal = false → d.deploymentSpec.Template.Spec.Containers.length ≠ 1)) :
    (Reconcile.toCommand r request w).2.objs.get?
      ⟨.Deployment, request.Namespace, request.Name⟩ = some d := by
  have h0 := Reconcile.toFinalizer_frame r request w
    (I := fun w => w.objs.get? ⟨.Deployment, request.Namespace, request.Name⟩ = some d) hd
    (respects_get? _ _ (fun o => o = some d) (by simp [finalizerTouches]))
  refine Reconcile.toCommand_by r request w
    (I := fun w => w.objs.get? ⟨.Deployment, request.Namespace, request.Name⟩ = some d) h0
    (fun inst hi => ?_)
  obtain ⟨hns, hname, _⟩ := Reconcile.toFinalizer_inst r request w inst hi
  rw [← hns, ← hname]
  refine ⟨?_, ?_, ?_, fun tls => ?_, fun tls => ?_, fun tls => ?_⟩
  · exact Reconcile.storage_keeps r inst
      (respects_get? _ _ (fun o => o = some d) (by simp [storageTouches]))
  · exact Reconcile.secrets_keeps r inst
      (respects_get? _ _ (fun o => o = some d) (by simp [secretsTouches]))
  · exact Reconcile.rbac_keeps r inst
      (respects_get? _ _ (fun o => o = some d) (by simp [createRBACTouches]))
  · exact Reconcile.grafana_spares r inst tls d (hfresh inst hi).1 (hfresh inst hi).2
  · exact Reconcile.core_keeps r inst tls
      (respects_get? _ _ (fun o => o = some d) (by
        cases hos : r.IsOpenShift <;> simp [createServiceTouches, hos]))
  · exact Reconcile.command_keeps r inst tls
      (respects_get? _ _ (fun o => o = some d) (by
        cases hos : r.IsOpenShift <;> simp [createServiceTouches, hos]))

end Cryostat

namespace Cryostat

/-! ## Kinds the sections of a pass leave alone -/

/-- A sequence avoids `K` when its first part does and the second does after every value
the first part can yield. -/
theorem avoids_bind_of {ε α β : Type} {K : Kind} {m : Op ε α} {f : α → Op ε β}
    (hm : Avoids K m) (hf : ∀ a, (∃ w, (m w).1 = .ok a) → Avoids K (f a)) :
    Avoids K (m >>= f) := by
  intro n w hw
  rw [run_bind]
  cases h : (m w).1 with
  | error e => exact hm n w hw
  | ok a => exact hf a ⟨w, h⟩ n _ (hm n w hw)

theorem createRBAC_avoids (K : Kind) (r : CryostatReconciler) (cr : Obj)
    (h : K ∉ [Kind.ServiceAccount, .Role, .RoleBinding, .ClusterRoleBinding]) :
    Avoids K (createRBAC r cr) := by
  simp only [List.mem_cons, List.mem_singleton, List.not_mem_nil, or_false, not_or] at h
  obtain ⟨k1, k2, k3, k4⟩ := h
  unfold createRBAC
  apply avoids_bind_ofExcept; intro sa h1
  apply avoids_bind (createObjectIfNotExists_avoids K _ _ _ (fun e => k1 e.symm) (by
    rw [SetControllerReference_key _ _ _ h1]; exact fun e => k1 e.symm)); intro _
  apply avoids_bind_ofExcept; intro role h2
  apply avoids_bind (createObjectIfNotExists_avoids K _ _ _ (fun e => k2 e.symm) (by
    rw [SetControllerReference_key _ _ _ h2]; exact fun e => k2 e.symm)); intro _
  apply avoids_bind_ofExcept; intro binding h3
  apply avoids_bind (createObjectIfNotExists_avoids K _ _ _ (fun e => k3 e.symm) (by
    rw [SetControllerReference_key _ _ _ h3]; exact fun e => k3 e.symm)); intro _
  exact createObjectIfNotExists_avoids K _ _ _ (fun e => k4 e.symm) (fun e => k4 e.symm)

theorem createService_avoids (K : Kind) (r : CryostatReconciler) (controller svc : Obj)
    (exposePort : ServicePort) (tlsConfig : Option TLSConfig) (hsk : svc.body.kind = .Service)
    (h : K ∉ [Kind.Service, .Route, .Ingress]) :
    Avoids K (createService r controller svc exposePort tlsConfig) := by
  simp only [List.mem_cons, List.mem_singleton, List.not_mem_nil, or_false, not_or] at h
  obtain ⟨k1, k2, k3⟩ := h
  unfold createService
  apply avoids_bind_ofExcept; intro svc2 h1
  apply avoids_bind (createObjectIfNotExists_avoids K _ _ _ (fun e => k1 e.symm) (by
    rw [SetControllerReference_key _ _ _ h1]
    show svc.body.kind ≠ K
    rw [hsk]; exact fun e => k1 e.symm)); intro _
  split
  · exact createRouteForService_avoids K _ _ _ _ k2
  · split
    · exact avoids_pure K _
    · apply avoids_bind_ofExcept; intro cfg _
      split
      · exact avoids_pure K _
      · split
        · exact avoids_pure K _
        · exact createIngressForService_avoids K _ _ _ k3

theorem getFSGroup_avoids (K : Kind) (r : CryostatReconciler) (ns : String)
    (h : K ≠ .Namespace) : Avoids K (getFSGroup r ns) := by
  unfold getFSGroup
  split
  · apply avoids_bind (avoids_get K _ (fun e => h e.symm)); intro nsObj
    split
    · exact avoids_ofExcept K _
    · exact avoids_pure K _
  · exact avoids_pure K _

theorem Reconcile.deleteDeployment_avoids (K : Kind) (inst : Obj) (mismatch : Nat → Bool)
    (h : K ≠ .Deployment) : Avoids K (Reconcile.deleteDeployment inst mismatch) := by
  unfold Reconcile.deleteDeployment
  apply avoids_bind_get _ (fun e => h e.symm); intro res hres
  split
  · rename_i deployment
    split
    · apply avoids_bind (avoids_attempt (avoids_delete K _ (by
        rw [hres deployment rfl]; exact fun e => h e.symm))); intro del
      split
      · split
        · exact avoids_fail K _
        · exact avoids_pure K _
      · exact avoids_pure K _
    · exact avoids_pure K _
  · exact avoids_pure K _

theorem Reconcile.deleteExposure_avoids (K kind : Kind) (svc : Obj) (h : K ≠ kind) :
    Avoids K (Reconcile.deleteExposure kind svc) := by
  unfold Reconcile.deleteExposure
  apply avoids_bind_get _ (fun e => h e.symm); intro res hres
  split
  · split
    · exact avoids_fail K _
    · exact avoids_pure K _
  · rename_i exposure
    apply avoids_bind (avoids_attempt (avoids_delete K _ (by
      rw [hres exposure rfl]; exact fun e => h e.symm))); intro del
    split
    · split
      · exact avoids_fail K _
      · exact avoids_pure K _
    · exact avoids_pure K _

theorem Reconcile.deleteGrafanaService_avoids (K : Kind) (svc : Obj) (h : K ≠ .Service) :
    Avoids K (Reconcile.deleteGrafanaService svc) := by
  unfold Reconcile.deleteGrafanaService
  apply avoids_bind_get _ (fun e => h e.symm); intro res hres
  split
  · rename_i found
    apply avoids_bind (avoids_attempt (avoids_delete K _ (by
      rw [hres found rfl]; exact fun e => h e.symm))); intro del
    split
    · split
      · exact avoids_fail K _
      · exact avoids_pure K _
    · exact avoids_pure K _
  · exact avoids_pure K _

theorem Reconcile.storage_avoids (K : Kind) (r : CryostatReconciler) (inst : Obj)
    (h : K ≠ .PersistentVolumeClaim) : Avoids K (Reconcile.storage r inst) := by
  unfold Reconcile.storage
  apply avoids_bind_orReturn_ofExcept; intro pvc h1
  exact avoids_orReturn (createObjectIfNotExists_avoids K _ _ _ (fun e => h e.symm) (by
    rw [SetControllerReference_key _ _ _ h1]; exact fun e => h e.symm))

theorem Reconcile.secrets_avoids (K : Kind) (r : CryostatReconciler) (inst : Obj)
    (h : K ≠ .Secret) : Avoids K (Reconcile.secrets r inst) := by
  unfold Reconcile.secrets
  apply avoids_bind_orReturn_ofExcept; intro s1 h1
  apply avoids_bind (avoids_orReturn (createObjectIfNotExists_avoids K _ _ _
    (fun e => h e.symm) (by
      rw [SetControllerReference_key _ _ _ h1]; exact fun e => h e.symm))); intro _
  apply avoids_bind_orReturn_ofExcept; intro s2 h2
  exact avoids_orReturn (createObjectIfNotExists_avoids K _ _ _ (fun e => h e.symm) (by
    rw [SetControllerReference_key _ _ _ h2]; exact fun e => h e.symm))

theorem Reconcile.tls_avoids (K : Kind) (r : CryostatReconciler) (inst : Obj) :
    Avoids K (Reconcile.tls r inst) :=
  fun _ => Reconcile.tls_keeps r inst

theorem Reconcile.grafana_avoids (K : Kind) (r : CryostatReconciler) (inst : Obj)
    (routeTLS : Option TLSConfig) (h : K ∉ [Kind.Service, .Route, .Ingress, .Deployment]) :
    Avoids K (Reconcile.grafana r inst routeTLS) := by
  simp only [List.mem_cons, List.mem_singleton, List.not_mem_nil, or_false, not_or] at h
  obtain ⟨k1, k2, k3, k4⟩ := h
  unfold Reconcile.grafana
  split
  · apply avoids_bind (avoids_attempt (createService_avoids K r inst
      (NewGrafanaService r.resources inst) _ _ rfl (by simp [k1, k2, k3]))); intro res
    split
    · exact avoids_fail K _
    · exact avoids_bind (Reconcile.deleteDeployment_avoids K inst _ k4)
        (fun _ => avoids_pure K _)
  · apply avoids_bind (Reconcile.deleteExposure_avoids K _ _ (by
      split
      · exact k2
      · exact k3)); intro _
    apply avoids_bind (Reconcile.deleteGrafanaService_avoids K _ k1); intro _
    exact avoids_bind (Reconcile.deleteDeployment_avoids K inst _ k4) (fun _ => avoids_pure K _)

theorem Reconcile.core_avoids (K : Kind) (r : CryostatReconciler) (inst : Obj)
    (routeTLS : Option TLSConfig) (h : K ∉ [Kind.Service, .Route, .Ingress]) :
    Avoids K (Reconcile.core r inst routeTLS) := by
  unfold Reconcile.core
  apply avoids_bind (avoids_attempt (createService_avoids K r inst
    (NewExporterService r.resources inst) _ _ rfl h)); intro res
  split
  · exact avoids_fail K _
  · exact avoids_pure K _

theorem Reconcile.command_avoids (K : Kind) (r : CryostatReconciler) (inst : Obj)
    (routeTLS : Option TLSConfig) (h : K ∉ [Kind.Service, .Route, .Ingress]) :
    Avoids K (Reconcile.command r inst routeTLS) := by
  unfold Reconcile.command
  apply avoids_bind (avoids_attempt (createService_avoids K r inst
    (NewCommandChannelService r.resources inst) _ _ rfl h)); intro res
  split
  · exact avoids_fail K _
  · exact avoids_pure K _

theorem Reconcile.deployment_avoids (K : Kind) (r : CryostatReconciler) (inst : Obj)
    (serviceSpecs : ServiceSpecs) (tlsConfig : Option ResourcesTLSConfig)
    (h : K ∉ [Kind.Namespace, .Deployment]) :
    Avoids K (Reconcile.deployment r inst serviceSpecs tlsConfig) := by
  simp only [List.mem_cons, List.mem_singleton, List.not_mem_nil, or_false, not_or] at h
  obtain ⟨k1, k2⟩ := h
  unfold Reconcile.deployment
  apply avoids_bind (avoids_orReturn (getFSGroup_avoids K r _ k1)); intro fsGroup
  simp only []
  apply avoids_bind_orReturn_ofExcept; intro deployment h1
  exact avoids_bind (avoids_orReturn (CreateOrUpdate_avoids K deployment _
    (fun o => Obj.setPodSpec_key o _) (by
      rw [SetControllerReference_key _ _ _ h1]; exact fun e => k2 e.symm)))
    (fun _ => avoids_pure K _)

theorem Reconcile.status_avoids (K : Kind) (inst : Obj) (serviceSpecs : ServiceSpecs)
    (hk : inst.body.kind = .Cryostat) (h : K ≠ .Cryostat) :
    Avoids K (Reconcile.status inst serviceSpecs) := by
  unfold Reconcile.status
  split
  · exact avoids_bind (avoids_orReturn (avoids_statusUpdate K _ (by
      rw [Obj.setApplicationURL_key]
      show inst.body.kind ≠ K
      rw [hk]; exact fun e => h e.symm))) (fun _ => avoids_pure K _)
  · exact avoids_pure K _

theorem Reconcile.consoleLink_avoids (K : Kind) (r : CryostatReconciler) (inst : Obj)
    (serviceSpecs : ServiceSpecs) (h : r.IsOpenShift = false ∨ K ≠ .ConsoleLink) :
    Avoids K (Reconcile.consoleLink r inst serviceSpecs) := by
  unfold Reconcile.consoleLink
  split
  · rename_i hos
    rcases h with h | h
    · rw [h] at hos; cases hos
    · split
      · exact avoids_fail K _
      · exact avoids_orReturn (createObjectIfNotExists_avoids K _ _ _ (fun e => h e.symm)
          (fun e => h e.symm))
  · exact avoids_pure K _

end Cryostat

namespace Cryostat

/-! ## Off OpenShift the pass keeps away from ConsoleLinks -/

theorem Reconcile.fetch_avoids (K : Kind) (request : NamespacedName) (h : K ≠ .Cryostat) :
    Avoids K (Reconcile.fetch request) := by
  unfold Reconcile.fetch
  apply avoids_bind (avoids_attempt (avoids_get K _ (fun e => h e.symm))); intro res
  split
  · split
    · exact avoids_fail K _
    · exact avoids_fail K _
  · exact avoids_pure K _

theorem Reconcile.finalize_avoids_consoleLink (r : CryostatReconciler) (inst : Obj)
    (hos : r.IsOpenShift = false) (hk : inst.body.kind = .Cryostat) :
    Avoids .ConsoleLink (Reconcile.finalize r inst) := by
  have hik : inst.key.kind ≠ .ConsoleLink := by
    show inst.body.kind ≠ .ConsoleLink
    rw [hk]; decide
  unfold Reconcile.finalize
  split
  · apply avoids_bind
    · split
      · apply avoids_bind (avoids_orReturn (avoids_delete _ _ (by
          rw [NewClusterRoleBindingForCR_kind]; decide))); intro _
        apply avoids_bind
        · rw [hos]
          exact avoids_pure _ _
        · intro _
          apply avoids_bind (avoids_orReturn (avoids_bind (avoids_update _ _ (by
            rw [controllerutil.RemoveFinalizer_key]; exact hik)) (fun _ => avoids_pure _ _)))
          intro _
          exact avoids_pure _ _
      · exact avoids_pure _ _
    · intro _
      exact avoids_fail _ _
  · exact avoids_pure _ _

theorem Reconcile.addFinalizer_avoids (K : Kind) (inst : Obj)
    (hk : inst.body.kind = .Cryostat) (h : K ≠ .Cryostat) :
    Avoids K (Reconcile.addFinalizer inst) := by
  unfold Reconcile.addFinalizer
  split
  · exact avoids_orReturn (avoids_bind (avoids_update K _ (by
      rw [controllerutil.AddFinalizer_key]
      show inst.body.kind ≠ K
      rw [hk]; exact fun e => h e.symm)) (fun _ => avoids_pure K _))
  · exact avoids_pure K _

/-- Off OpenShift no call of the pass, read or write, is on a ConsoleLink. -/
theorem Reconcile.pass_avoids_consoleLink (r : CryostatReconciler) (request : NamespacedName)
    (hos : r.IsOpenShift = false) : Avoids .ConsoleLink (Reconcile.pass r request) := by
  have h1 : Avoids .ConsoleLink (Reconcile.toFinalizer r request) := by
    unfold Reconcile.toFinalizer
    apply avoids_bind_of (Reconcile.fetch_avoids _ request (by decide))
    rintro inst ⟨w, hw⟩
    have hk : inst.body.kind = .Cryostat := by
      have := (Client.Get_ok _ _ _ (Reconcile.fetch_ok _ _ _ hw)).2
      simp only [Obj.key, Key.mk.injEq] at this
      exact this.1
    exact avoids_bind (Reconcile.finalize_avoids_consoleLink r inst hos hk)
      (fun _ => Reconcile.addFinalizer_avoids _ inst hk (by decide))
  have h2 : Avoids .ConsoleLink (Reconcile.toSecrets r request) := by
    unfold Reconcile.toSecrets
    apply avoids_bind h1; intro inst
    exact avoids_bind (Reconcile.storage_avoids _ r inst (by decide))
      (fun _ => avoids_bind (Reconcile.secrets_avoids _ r inst (by decide))
        (fun _ => avoids_pure _ _))
  have h3 : Avoids .ConsoleLink (Reconcile.toRBAC r request) := by
    unfold Reconcile.toRBAC
    apply avoids_bind h2; intro inst
    exact avoids_bind (Reconcile.tls_avoids _ r inst)
      (fun _ => avoids_bind (avoids_orReturn (createRBAC_avoids _ r inst (by decide)))
        (fun _ => avoids_pure _ _))
  have h4 : Avoids .ConsoleLink (Reconcile.toGrafana r request) := by
    unfold Reconcile.toGrafana
    apply avoids_bind h3; intro st
    exact avoids_bind (Reconcile.grafana_avoids _ r st.inst _ (by decide))
      (fun _ => avoids_pure _ _)
  have h5 : Avoids .ConsoleLink (Reconcile.toCore r request) := by
    unfold Reconcile.toCore
    apply avoids_bind h4; intro st
    exact avoids_bind (Reconcile.core_avoids _ r st.inst _ (by decide))
      (fun _ => avoids_pure _ _)
  have h6 : Avoids .ConsoleLink (Reconcile.toCommand r request) := by
    unfold Reconcile.toCommand
    apply avoids_bind h5; intro st
    exact avoids_bind (Reconcile.command_avoids _ r st.inst _ (by decide))
      (fun _ => avoids_pure _ _)
  unfold Reconcile.pass
  apply avoids_bind_of h6
  rintro st ⟨w, hw⟩
  have hk := (Reconcile.toFinalizer_inst _ _ _ _ (Reconcile.toCommand_inst _ _ _ _ hw)).2.2.1
  apply avoids_bind (Reconcile.deployment_avoids _ r st.inst _ _ (by decide)); intro _
  apply avoids_bind (Reconcile.status_avoids _ st.inst _ hk (by decide)); intro inst2
  exact Reconcile.consoleLink_avoids _ r inst2 _ (Or.inl hos)

end Cryostat

namespace Cryostat

/-! ## What create-if-absent leaves under its key -/

/-- After a successful `createObjectIfNotExists` the key holds the object to create if it
was free before, and the object it held before otherwise. -/
theorem createObjectIfNotExists_stored (ns : NamespacedName) (found : Kind) (toCreate : Obj)
    (w : World) (hkey : toCreate.key = ⟨found, ns.Namespace, ns.Name⟩)
    (hok : (createObjectIfNotExists ns found toCreate w).1 = .ok ()) :
    (w.objs.get? ⟨found, ns.Namespace, ns.Name⟩ = none →
      (createObjectIfNotExists ns found toCreate w).2.objs.get? ⟨found, ns.Namespace, ns.Name⟩
        = some toCreate) ∧
    (∀ x, w.objs.get? ⟨found, ns.Namespace, ns.Name⟩ = some x →
      (createObjectIfNotExists ns found toCreate w).2.objs.get? ⟨found, ns.Namespace, ns.Name⟩
        = some x) := by
  have hobjs := Client.Get_objs ⟨found, ns.Namespace, ns.Name⟩ w
  unfold createObjectIfNotExists at hok ⊢
  rw [run_bind, run_attempt] at hok ⊢
  simp only at hok ⊢
  cases hg : (Client.Get ⟨found, ns.Namespace, ns.Name⟩ w).1 with
  | error err =>
    rw [hg] at hok
    simp only at hok ⊢
    split
    · rename_i hnf
      rw [if_pos hnf] at hok
      obtain ⟨hn, hc⟩ := Client.Create_ok _ _ hok
      have hs := Store.get?_append_self _ _ hn
      rw [hkey] at hs hn
      rw [hc, hs]
      rw [hobjs] at hn
      exact ⟨fun _ => rfl, fun x hx => by rw [hx] at hn; cases hn⟩
    · rename_i hnf
      rw [if_neg hnf] at hok
      cases hok
  | ok x =>
    simp only
    rw [run_pure]
    show (_ → (Client.Get ⟨found, ns.Namespace, ns.Name⟩ w).2.objs.get? _ = _) ∧
      (∀ y, _ → (Client.Get ⟨found, ns.Namespace, ns.Name⟩ w).2.objs.get? _ = _)
    rw [hobjs, (Client.Get_ok _ _ _ hg).1]
    exact ⟨fun h => (by cases h), fun y hy => hy⟩

/-- The finalizer section on a live instance: what the read and the Update of the instance
keep holds when the section is through. -/
theorem Reconcile.toFinalizer_active_frame {I : World → Prop} (r : CryostatReconciler)
    (request : NamespacedName) (w : World) (inst : Obj)
    (hget : (Client.Get ⟨.Cryostat, request.Namespace, request.Name⟩ w).1 = .ok inst)
    (hact : inst.meta.DeletionTimestamp = none) (h0 : I w)
    (hR : Respects [(Verb.Update, ⟨.Cryostat, request.Namespace, request.Name⟩)] I) :
    I (Reconcile.toFinalizer r request w).2 := by
  have hk := (Client.Get_ok _ _ _ hget).2
  have hg := hR.get ⟨.Cryostat, request.Namespace, request.Name⟩ w h0
  cases hfin : ContainsFinalizer inst cryostatFinalizer with
  | true =>
    rw [Reconcile.toFinalizer_of_present r request w inst hget hact hfin]
    exact hg
  | false =>
    rw [Reconcile.toFinalizer_of_absent r request w inst hget hact hfin]
    exact hR.update _ (by rw [controllerutil.AddFinalizer_key, hk]; simp) _ hg

end Cryostat

namespace Cryostat

/-! ## Progress: the sections of a pass succeed -/

theorem total_pure {ε α : Type} {P : World → Prop} {Q : α → Prop} (a : α) (h : Q a) :
    Total P (pure a : Op ε α) Q :=
  fun _ hw => ⟨a, rfl, h, hw⟩

theorem total_bind {ε α β : Type} {P : World → Prop} {m : Op ε α} {f : α → Op ε β}
    {Q : α → Prop} {R : β → Prop} (hm : Total P m Q) (hf : ∀ a, Q a → Total P (f a) R) :
    Total P (m >>= f) R := by
  intro w hw
  obtain ⟨a, h1, h2, h3⟩ := hm w hw
  obtain ⟨b, h4, h5, h6⟩ := hf a h2 _ h3
  rw [bind_of_ok _ _ _ _ h1]
  exact ⟨b, h4, h5, h6⟩

theorem total_of_keeps {ε α : Type} {P : World → Prop} {m : Op ε α} {Q : α → Prop}
    (h : ∀ w, P w → ∃ a, (m w).1 = .ok a ∧ Q a) (hk : Keeps P m) : Total P m Q :=
  fun w hw => by
    obtain ⟨a, h1, h2⟩ := h w hw
    exact ⟨a, h1, h2, hk w hw⟩

theorem total_mono {ε α : Type} {P : World → Prop} {m : Op ε α} {Q R : α → Prop}
    (h : Total P m Q) (hQ : ∀ a, Q a → R a) : Total P m R :=
  fun w hw => by
    obtain ⟨a, h1, h2, h3⟩ := h w hw
    exact ⟨a, h1, hQ a h2, h3⟩

theorem total_orReturn {α : Type} {P : World → Prop} {m : Op Err α} {Q : α → Prop}
    (h : Total P m Q) : Total P (orReturn m) Q := by
  intro w hw
  obtain ⟨a, h1, h2, h3⟩ := h w hw
  rw [run_orReturn, h1]
  exact ⟨a, rfl, h2, h3⟩

theorem total_ofExcept {ε α : Type} {P : World → Prop} {x : Except ε α} {Q : α → Prop}
    (a : α) (hx : x = .ok a) (h : Q a) : Total P (Op.ofExcept x : Op ε α) Q := by
  intro w hw
  rw [run_ofExcept, hx]
  exact ⟨a, rfl, h, hw⟩

theorem total_attempt {ε ε2 α : Type} {P : World → Prop} {m : Op ε α} {Q : α → Prop}
    (h : Total P m Q) :
    Total P (Op.attempt m : Op ε2 (Except ε α)) (fun res => ∃ a, res = .ok a ∧ Q a) := by
  intro w hw
  obtain ⟨a, h1, h2, h3⟩ := h w hw
  rw [run_attempt]
  exact ⟨_, rfl, ⟨a, h1, h2⟩, h3⟩

theorem total_bind_ofExcept {ε α β : Type} {P : World → Prop} {x : Except ε α}
    {f : α → Op ε β} {R : β → Prop} (a : α) (hx : x = .ok a) (hf : Total P (f a) R) :
    Total P (Op.ofExcept x >>= f) R := by
  intro w hw
  rw [run_bind, run_ofExcept, hx]
  exact hf w hw

theorem total_bind_orReturn_ofExcept {α β : Type} {P : World → Prop} {x : Except Err α}
    {f : α → Op Return β} {R : β → Prop} (a : α) (hx : x = .ok a) (hf : Total P (f a) R) :
    Total P (orReturn (Op.ofExcept x) >>= f) R := by
  intro w hw
  rw [run_bind, run_orReturn, run_ofExcept, hx]
  exact hf w hw

/-- A prefix that has yielded `a` at `w`, followed by a continuation that is total. -/
theorem total_after {ε α β : Type} {P : World → Prop} {m : Op ε α} {f : α → Op ε β}
    {R : β → Prop} (w : World) (a : α) (h : (m w).1 = .ok a) (hP : P (m w).2)
    (hf : Total P (f a) R) :
    ∃ b, ((m >>= f) w).1 = .ok b ∧ R b ∧ P ((m >>= f) w).2 := by
  rw [bind_of_ok _ _ _ _ h]
  exact hf _ hP

/-- On a store that answers every call itself, create-if-absent succeeds. -/
theorem createObjectIfNotExists_total {P : World → Prop} (hP : ∀ w, P w → w.Reliable)
    (ns : NamespacedName) (found : Kind) (toCreate : Obj)
    (hkey : toCreate.key = ⟨found, ns.Namespace, ns.Name⟩)
    (hk : Keeps P (createObjectIfNotExists ns found toCreate)) :
    Total P (createObjectIfNotExists ns found toCreate) (fun _ => True) :=
  total_of_keeps (fun w hw =>
    ⟨(), createObjectIfNotExists_reliable ns found toCreate w (hP w hw) hkey, trivial⟩) hk

/-- The storage section succeeds on a store that answers every call itself. -/
theorem Reconcile.storage_succeeds (r : CryostatReconciler) (inst : Obj) (w : World)
    (hrel : w.Reliable) : (Reconcile.storage r inst w).1 = .ok () := by
  obtain ⟨pvc, hpvc⟩ := SetControllerReference_fresh inst
    (NewPersistentVolumeClaimForCR r.resources inst) (Or.inr rfl) rfl
  obtain ⟨m1, m2, m3⟩ := SetControllerReference_meta _ _ _ hpvc
  unfold Reconcile.storage
  rw [run_bind, run_orReturn, run_ofExcept, hpvc]
  simp only
  rw [run_orReturn, createObjectIfNotExists_reliable _ _ _ _ hrel (by
    simp [Obj.key, m3, NewPersistentVolumeClaimForCR, Body.kind])]

/-- The Secrets section succeeds on a store that answers every call itself. -/
theorem Reconcile.secrets_succeeds (r : CryostatReconciler) (inst : Obj) (w : World)
    (hrel : w.Reliable) : (Reconcile.secrets r inst w).1 = .ok () := by
  obtain ⟨g, hg⟩ := SetControllerReference_fresh inst
    (NewGrafanaSecretForCR r.resources inst) (Or.inr rfl) rfl
  obtain ⟨g1, g2, g3⟩ := SetControllerReference_meta _ _ _ hg
  obtain ⟨j, hj⟩ := SetControllerReference_fresh inst
    (NewJmxSecretForCR r.resources inst) (Or.inr rfl) rfl
  obtain ⟨j1, j2, j3⟩ := SetControllerReference_meta _ _ _ hj
  have hgk : g.key = ⟨.Secret, g.meta.Namespace, g.meta.Name⟩ := by
    simp [Obj.key, g3, NewGrafanaSecretForCR, Body.kind]
  have hjk : j.key = ⟨.Secret, j.meta.Namespace, j.meta.Name⟩ := by
    simp [Obj.key, j3, NewJmxSecretForCR, Body.kind]
  have h1 : Total World.Reliable
      (orReturn (createObjectIfNotExists ⟨g.meta.Namespace, g.meta.Name⟩ .Secret g))
      (fun _ => True) :=
    total_orReturn (createObjectIfNotExists_total (fun _ h => h) _ _ _ hgk
      (createObjectIfNotExists_keeps (respects_reliable [(Verb.Create, g.key)]) _ _ _
        (by simp)))
  have h2 : Total World.Reliable
      (orReturn (createObjectIfNotExists ⟨j.meta.Namespace, j.meta.Name⟩ .Secret j))
      (fun _ => True) :=
    total_orReturn (createObjectIfNotExists_total (fun _ h => h) _ _ _ hjk
      (createObjectIfNotExists_keeps (respects_reliable [(Verb.Create, j.key)]) _ _ _
        (by simp)))
  have ht : Total World.Reliable (Reconcile.secrets r inst) (fun _ => True) := by
    unfold Reconcile.secrets
    refine total_bind_orReturn_ofExcept g hg (total_bind h1 (fun _ _ => ?_))
    exact total_bind_orReturn_ofExcept j hj h2
  obtain ⟨u, hu, _⟩ := ht w hrel
  exact hu

/-- The function `createRBAC` succeeds on a store that answers every call itself. -/
theorem createRBAC_succeeds (r : CryostatReconciler) (cr : Obj) (w : World)
    (hrel : w.Reliable) : (createRBAC r cr w).1 = .ok () := by
  obtain ⟨sa, hsa⟩ := SetControllerReference_fresh cr
    (NewServiceAccountForCR r.resources cr) (Or.inr rfl) rfl
  obtain ⟨s1, s2, s3⟩ := SetControllerReference_meta _ _ _ hsa
  obtain ⟨role, hrole⟩ := SetControllerReference_fresh cr
    (NewRoleForCR r.resources cr) (Or.inr rfl) rfl
  obtain ⟨r1, r2, r3⟩ := SetControllerReference_meta _ _ _ hrole
  obtain ⟨b, hb⟩ := SetControllerReference_fresh cr
    (NewRoleBindingForCR r.resources cr) (Or.inr rfl) rfl
  obtain ⟨b1, b2, b3⟩ := SetControllerReference_meta _ _ _ hb
  have mk : ∀ (ns : NamespacedName) (found : Kind) (o : Obj),
      o.key = ⟨found, ns.Namespace, ns.Name⟩ →
      Total World.Reliable (createObjectIfNotExists ns found o) (fun _ => True) :=
    fun ns found o hk => createObjectIfNotExists_total (fun _ h => h) _ _ _ hk
      (createObjectIfNotExists_keeps (respects_reliable [(Verb.Create, o.key)]) _ _ _
        (by simp))
  have ht : Total World.Reliable (createRBAC r cr) (fun _ => True) := by
    unfold createRBAC
    refine total_bind_ofExcept sa hsa (total_bind (mk _ _ _ (by
      simp [Obj.key, s3, NewServiceAccountForCR, Body.kind])) (fun _ _ => ?_))
    refine total_bind_ofExcept role hrole (total_bind (mk _ _ _ (by
      simp [Obj.key, r3, NewRoleForCR, Body.kind])) (fun _ _ => ?_))
    refine total_bind_ofExcept b hb (total_bind (mk _ _ _ (by
      simp [Obj.key, b3, NewRoleBindingForCR, Body.kind])) (fun _ _ => ?_))
    exact mk _ _ _ (by simp [Obj.key, NewClusterRoleBindingForCR, Body.kind])
  obtain ⟨u, hu, _⟩ := ht w hrel
  exact hu

/-- The RBAC section succeeds on a store that answers every call itself. -/
theorem Reconcile.rbac_succeeds (r : CryostatReconciler) (inst : Obj) (w : World)
    (hrel : w.Reliable) : (Reconcile.rbac r inst w).1 = .ok () := by
  unfold Reconcile.rbac
  rw [run_orReturn, createRBAC_succeeds r inst w hrel]

/-- With cert-manager enabled and the certificates issued, the TLS section yields the
certificate names and a re-encrypting Route configuration. -/
theorem Reconcile.tls_succeeds (r : CryostatReconciler) (inst : Obj) (tc : ResourcesTLSConfig)
    (ca : String) (hcm : r.ReconcilerTLS.IsCertManagerEnabled inst.declared = true)
    (htls : r.setupTLS inst.declared = .ok tc)
    (hca : r.ReconcilerTLS.GetCryostatCABytes inst.declared = .ok ca) (w : World) :
    Reconcile.tls r inst w
      = (.ok (some tc, some { Termination := .Reencrypt, DestinationCACertificate := ca }), w) := by
  unfold Reconcile.tls
  rw [if_pos hcm]
  simp only [htls, hca, run_pure]

/-- On OpenShift, on a store that answers every call itself and whose Route for the
Service has been assigned a host, `createService` yields the URL of that host. -/
theorem createService_succeeds (r : CryostatReconciler) (controller svc : Obj)
    (exposePort : ServicePort) (tlsConfig : Option TLSConfig) (w : World)
    (ingress : RouteIngress) (rest : List RouteIngress)
    (hos : r.IsOpenShift = true) (hsk : svc.body.kind = .Service)
    (hns : svc.meta.Namespace = controller.meta.Namespace)
    (hrefs : svc.meta.OwnerReferences = [])
    (hrel : w.Reliable)
    (hL : w.objs.routeIngress ⟨.Route, svc.meta.Namespace, svc.meta.Name⟩ = ingress :: rest) :
    (createService r controller svc exposePort tlsConfig w).1
      = .ok (some { Scheme := getProtocol (edgeByDefault tlsConfig), Host := ingress.Host }) := by
  obtain ⟨svc2, hsvc⟩ := SetControllerReference_fresh controller svc (Or.inr hns) hrefs
  obtain ⟨m1, m2, m3⟩ := SetControllerReference_meta _ _ _ hsvc
  obtain ⟨route, hroute⟩ := SetControllerReference_fresh controller
    { meta := { Name := svc2.meta.Name, Namespace := svc2.meta.Namespace },
      body := .Route {} {} } (Or.inr (by rw [m2]; exact hns)) rfl
  have hkey : svc2.key = ⟨.Service, svc2.meta.Namespace, svc2.meta.Name⟩ := by
    simp [Obj.key, m3, hsk]
  have hc := createObjectIfNotExists_reliable ⟨svc2.meta.Namespace, svc2.meta.Name⟩ .Service
    svc2 w hrel hkey
  have hrel2 : (createObjectIfNotExists ⟨svc2.meta.Namespace, svc2.meta.Name⟩ .Service
      svc2 w).2.Reliable :=
    createObjectIfNotExists_keeps (respects_reliable [(Verb.Create, svc2.key)]) _ _ _
      (by simp) w hrel
  have hL2 : (createObjectIfNotExists ⟨svc2.meta.Namespace, svc2.meta.Name⟩ .Service
      svc2 w).2.objs.routeIngress ⟨.Route, svc2.meta.Namespace, svc2.meta.Name⟩
        = ingress :: rest := by
    have hR := respects_get? [(Verb.Create, svc2.key)]
      ⟨.Route, svc2.meta.Namespace, svc2.meta.Name⟩
      (fun o => (match o with
        | some x => x.routeIngress
        | none => []) = ingress :: rest)
      (fun t ht => by
        simp only [List.mem_singleton] at ht
        subst ht
        rw [hkey]
        simp)
    refine createObjectIfNotExists_keeps hR _ _ _ (by simp) w ?_
    rw [m1, m2]
    exact hL
  unfold createService
  rw [run_bind, run_ofExcept, hsvc]
  simp only
  rw [bind_of_ok _ _ _ _ hc, if_pos hos, createRouteForService_result _ _ _ _ _ hrel2, hroute]
  simp only [hL2]

end Cryostat

namespace Cryostat

/-- On OpenShift, for an instance that is not minimal, the Grafana section yields the URL
of the host assigned to the Grafana Route. -/
theorem Reconcile.grafana_succeeds (r : CryostatReconciler) (inst : Obj)
    (routeTLS : Option TLSConfig) (w : World) (ingress : RouteIngress)
    (rest : List RouteIngress) (hos : r.IsOpenShift = true)
    (hmin : inst.Spec.Minimal = false) (hrel : w.Reliable)
    (hL : w.objs.routeIngress ⟨.Route, inst.meta.Namespace, inst.meta.Name ++ "-grafana"⟩
      = ingress :: rest) :
    (Reconcile.grafana r inst routeTLS w).1
      = .ok (some { Scheme := getProtocol (edgeByDefault routeTLS), Host := ingress.Host }) := by
  have hc := createService_succeeds r inst (NewGrafanaService r.resources inst)
    (r.resources.GrafanaService inst.declared).Port routeTLS w ingress rest hos rfl rfl rfl
    hrel hL
  have hrel2 := createService_keeps r inst (NewGrafanaService r.resources inst)
    (r.resources.GrafanaService inst.declared).Port routeTLS (respects_reliable _) rfl w hrel
  unfold Reconcile.grafana
  rw [if_pos (by simp [hmin]), run_bind, run_attempt]
  simp only [hc]
  rw [run_bind, Reconcile.deleteDeployment_reliable inst _ _ hrel2]
  rfl

/-- On OpenShift the core section yields the URL of the host assigned to the core Route. -/
theorem Reconcile.core_succeeds (r : CryostatReconciler) (inst : Obj)
    (routeTLS : Option TLSConfig) (w : World) (ingress : RouteIngress)
    (rest : List RouteIngress) (hos : r.IsOpenShift = true) (hrel : w.Reliable)
    (hL : w.objs.routeIngress ⟨.Route, inst.meta.Namespace, inst.meta.Name⟩
      = ingress :: rest) :
    (Reconcile.core r inst routeTLS w).1
      = .ok (some { Scheme := getProtocol (edgeByDefault routeTLS), Host := ingress.Host }) := by
  have hc := createService_succeeds r inst (NewExporterService r.resources inst)
    (r.resources.ExporterService inst.declared).Port routeTLS w ingress rest hos rfl rfl rfl
    hrel hL
  unfold Reconcile.core
  rw [run_bind, run_attempt]
  simp only [hc]
  rfl

/-- On OpenShift the command section yields the URL of the host assigned to the command
channel Route. -/
theorem Reconcile.command_succeeds (r : CryostatReconciler) (inst : Obj)
    (routeTLS : Option TLSConfig) (w : World) (ingress : RouteIngress)
    (rest : List RouteIngress) (hos : r.IsOpenShift = true) (hrel : w.Reliable)
    (hL : w.objs.routeIngress ⟨.Route, inst.meta.Namespace, inst.meta.Name ++ "-command"⟩
      = ingress :: rest) :
    (Reconcile.command r inst routeTLS w).1
      = .ok (some { Scheme := getProtocol (edgeByDefault routeTLS), Host := ingress.Host }) := by
  have hc := createService_succeeds r inst (NewCommandChannelService r.resources inst)
    (r.resources.CommandChannelService inst.declared).Port routeTLS w ingress rest hos rfl
    rfl rfl hrel hL
  unfold Reconcile.command
  rw [run_bind, run_attempt]
  simp only [hc]
  rfl

/-- The Deployment section succeeds on a store that answers every call itself and holds a
Namespace object from which the group can be read. -/
theorem Reconcile.deployment_succeeds (r : CryostatReconciler) (inst : Obj)
    (serviceSpecs : ServiceSpecs) (tlsConfig : Option ResourcesTLSConfig) (w : World)
    (fsGroup : Int) (hrel : w.Reliable)
    (hfs : fsGroupOf r (w.objs.get? ⟨.Namespace, "", inst.meta.Namespace⟩) = .ok fsGroup) :
    (Reconcile.deployment r inst serviceSpecs tlsConfig w).1 = .ok () := by
  have h1 : (orReturn (getFSGroup r inst.meta.Namespace) w).1 = .ok fsGroup := by
    rw [run_orReturn, getFSGroup_reliable r _ w hrel, hfs]
  have hrel2 : (orReturn (getFSGroup r inst.meta.Namespace) w).2.Reliable :=
    keeps_orReturn (getFSGroup_keeps (respects_reliable []) r _) w hrel
  obtain ⟨d, hd⟩ := SetControllerReference_fresh inst
    (NewDeploymentForCR r.resources inst serviceSpecs (getImageTags r) tlsConfig fsGroup)
    (Or.inr rfl) rfl
  obtain ⟨op, hop⟩ := CreateOrUpdate_reliable d (fun deployment => deployment.setPodSpec
    (NewDeploymentForCR r.resources inst serviceSpecs (getImageTags r) tlsConfig
      fsGroup).deploymentSpec.Template.Spec) _ hrel2 (fun o => Obj.setPodSpec_key o _)
  unfold Reconcile.deployment
  rw [bind_of_ok _ _ _ _ h1]
  simp only []
  rw [run_bind, run_orReturn, run_ofExcept, hd]
  simp only
  rw [run_bind, run_orReturn, hop]
  rfl

/-- The ConsoleLink section succeeds on a store that answers every call itself once the
core URL has resolved. -/
theorem Reconcile.consoleLink_succeeds (r : CryostatReconciler) (inst : Obj)
    (serviceSpecs : ServiceSpecs) (w : World) (url : URL) (hrel : w.Reliable)
    (hc : serviceSpecs.CoreURL = some url) :
    (Reconcile.consoleLink r inst serviceSpecs w).1 = .ok () := by
  unfold Reconcile.consoleLink
  split
  · simp only [hc]
    unfold createConsoleLink
    rw [run_orReturn, createObjectIfNotExists_reliable _ _ _ _ hrel (by
      simp [Obj.key, NewConsoleLink, Body.kind])]
  · rfl

end Cryostat

namespace Cryostat

theorem controllerutil.AddFinalizer_namespace (o : Obj) (f : String) :
    (controllerutil.AddFinalizer o f).meta.Namespace = o.meta.Namespace := by
  unfold controllerutil.AddFinalizer
  split <;> rfl

theorem controllerutil.AddFinalizer_name (o : Obj) (f : String) :
    (controllerutil.AddFinalizer o f).meta.Name = o.meta.Name := by
  unfold controllerutil.AddFinalizer
  split <;> rfl

theorem controllerutil.AddFinalizer_declared (o : Obj) (f : String) :
    (controllerutil.AddFinalizer o f).declared = o.declared := by
  unfold Obj.declared Obj.Spec
  rw [controllerutil.AddFinalizer_namespace, controllerutil.AddFinalizer_name,
    controllerutil.AddFinalizer_body]

theorem controllerutil.AddFinalizer_minimal (o : Obj) (f : String) :
    (controllerutil.AddFinalizer o f).Spec.Minimal = o.Spec.Minimal := by
  unfold Obj.Spec
  rw [controllerutil.AddFinalizer_body]

/-- Progress of a pass. On OpenShift, on a store that answers every call itself and holds
the live instance (not minimal, cert-manager enabled, certificates issued), a Namespace
object from which the group can be read, and Routes for the three Services to which the
platform has assigned a host: the pass runs through every section, and the core URL it
resolves has the scheme `https` and the host of the core Route. -/
theorem Reconcile.pass_succeeds (r : CryostatReconciler) (request : NamespacedName)
    (w : World) (inst : Obj) (tc : ResourcesTLSConfig) (ca : String) (fsGroup : Int)
    (core command grafana : RouteIngress) (rest1 rest2 rest3 : List RouteIngress)
    (hos : r.IsOpenShift = true) (hrel : w.Reliable)
    (hget : (Client.Get ⟨.Cryostat, request.Namespace, request.Name⟩ w).1 = .ok inst)
    (hact : inst.meta.DeletionTimestamp = none)
    (hmin : inst.Spec.Minimal = false)
    (hcm : r.ReconcilerTLS.IsCertManagerEnabled inst.declared = true)
    (htls : r.setupTLS inst.declared = .ok tc)
    (hca : r.ReconcilerTLS.GetCryostatCABytes inst.declared = .ok ca)
    (hfs : fsGroupOf r (w.objs.get? ⟨.Namespace, "", request.Namespace⟩) = .ok fsGroup)
    (hcore : w.objs.routeIngress ⟨.Route, request.Namespace, request.Name⟩ = core :: rest1)
    (hcommand : w.objs.routeIngress ⟨.Route, request.Namespace, request.Name ++ "-command"⟩
      = command :: rest2)
    (hgrafana : w.objs.routeIngress ⟨.Route, request.Namespace, request.Name ++ "-grafana"⟩
      = grafana :: rest3) :
    (Reconcile.pass r request w).1 = .ok () ∧
      ∃ st, (Reconcile.toCommand r request w).1 = .ok st ∧
        st.inst = controllerutil.AddFinalizer inst cryostatFinalizer ∧
        st.serviceSpecs.CoreURL = some { Scheme := "https", Host := core.Host } := by
  obtain ⟨hs, hk⟩ := Client.Get_ok _ _ _ hget
  obtain ⟨h1, _⟩ := Reconcile.toFinalizer_reliable r request w inst hrel hget hact
  obtain ⟨hns, hname, hkind, _, _⟩ := Reconcile.toFinalizer_inst r request w _ h1
  generalize hi : controllerutil.AddFinalizer inst cryostatFinalizer = i0 at h1 hns hname hkind
  have hmin0 : i0.Spec.Minimal = false := by
    rw [← hi, controllerutil.AddFinalizer_minimal]; exact hmin
  have hdecl : i0.declared = inst.declared := by
    rw [← hi, controllerutil.AddFinalizer_declared]
  -- what the outcome of the pass depends on
  generalize hO : PassObserved request.Namespace request.Name false
    (w.objs.get? ⟨.Namespace, "", request.Namespace⟩) (fun k => w.objs.routeIngress k) = O
  have hOrel : ∀ w2, O w2 → w2.Reliable := fun w2 h => by subst hO; exact h.1.1
  have hOns : ∀ w2, O w2 → w2.objs.get? ⟨.Namespace, "", request.Namespace⟩
      = w.objs.get? ⟨.Namespace, "", request.Namespace⟩ := fun w2 h => by
    subst hO; exact h.1.2.2
  have hOL : ∀ w2, O w2 → ∀ k ∈ exposureKeys request.Namespace request.Name false,
      w2.objs.routeIngress k = w.objs.routeIngress k := fun w2 h => by subst hO; exact h.2
  have hO0 : O w := by
    subst hO
    exact ⟨⟨hrel, (by rw [hs]; exact fun h => by cases h), rfl⟩, fun _ _ => rfl⟩
  have hO1 : O (Reconcile.toFinalizer r request w).2 := by
    subst hO
    exact Reconcile.toFinalizer_frame r request w hO0 (finalizerTouches_observed r _ _ _ _ _)
  -- the sections, one by one
  have tStorage : Total O (Reconcile.storage r i0) (fun _ => True) := by
    subst hO
    exact total_of_keeps (fun w2 h => ⟨(), Reconcile.storage_succeeds r i0 w2 h.1.1, trivial⟩)
      (Reconcile.storage_at r i0 _ _ _ _ _ hns hname).2
  have tSecrets : Total O (Reconcile.secrets r i0) (fun _ => True) := by
    subst hO
    exact total_of_keeps (fun w2 h => ⟨(), Reconcile.secrets_succeeds r i0 w2 h.1.1, trivial⟩)
      (Reconcile.secrets_at r i0 _ _ _ _ _ hns hname).2
  have tTLS : Total O (Reconcile.tls r i0)
      (fun t => t = (some tc, some { Termination := .Reencrypt, DestinationCACertificate := ca })) :=
    fun w2 h => by
      rw [Reconcile.tls_succeeds r i0 tc ca (by rw [hdecl]; exact hcm) (by rw [hdecl]; exact htls)
        (by rw [hdecl]; exact hca) w2]
      exact ⟨_, rfl, rfl, h⟩
  have tRBAC : Total O (Reconcile.rbac r i0) (fun _ => True) := by
    subst hO
    exact total_of_keeps (fun w2 h => ⟨(), Reconcile.rbac_succeeds r i0 w2 h.1.1, trivial⟩)
      (Reconcile.rbac_at r i0 _ _ _ _ _ hns hname).2
  have tGrafana : ∀ routeTLS, Total O (Reconcile.grafana r i0 routeTLS) (fun _ => True) := by
    intro routeTLS
    refine total_of_keeps (fun w2 h => ⟨_, Reconcile.grafana_succeeds r i0 routeTLS w2 grafana
      rest3 hos hmin0 (hOrel w2 h) ?_, trivial⟩) ?_
    · rw [hns, hname, hOL w2 h _ (exposureKeys_grafana _ _)]; exact hgrafana
    · subst hO
      exact (Reconcile.grafana_at r i0 routeTLS _ _ _ _ _ hns hname hmin0).2
  have tCore : ∀ routeTLS, Total O (Reconcile.core r i0 routeTLS)
      (fun url => url = some ⟨getProtocol (edgeByDefault routeTLS), core.Host⟩) := by
    intro routeTLS
    refine total_of_keeps (fun w2 h => ⟨_, Reconcile.core_succeeds r i0 routeTLS w2 core
      rest1 hos (hOrel w2 h) ?_, rfl⟩) ?_
    · rw [hns, hname, hOL w2 h _ (exposureKeys_core _ _ _)]; exact hcore
    · subst hO
      exact (Reconcile.core_at r i0 routeTLS _ _ _ _ _ hns hname).2
  have tCommand : ∀ routeTLS, Total O (Reconcile.command r i0 routeTLS) (fun _ => True) := by
    intro routeTLS
    refine total_of_keeps (fun w2 h => ⟨_, Reconcile.command_succeeds r i0 routeTLS w2 command
      rest2 hos (hOrel w2 h) ?_, trivial⟩) ?_
    · rw [hns, hname, hOL w2 h _ (exposureKeys_command _ _ _)]; exact hcommand
    · subst hO
      exact (Reconcile.command_at r i0 routeTLS _ _ _ _ _ hns hname).2
  have tDeployment : ∀ specs tls, Total O (Reconcile.deployment r i0 specs tls)
      (fun _ => True) := by
    intro specs tls
    refine total_of_keeps (fun w2 h => ⟨(), Reconcile.deployment_succeeds r i0 specs tls w2
      fsGroup (hOrel w2 h) ?_, trivial⟩) ?_
    · rw [hns, hOns w2 h]; exact hfs
    · subst hO
      exact (Reconcile.deployment_at r i0 specs tls _ _ _ _ _ hns hname).2
  have tStatus : ∀ specs, Total O (Reconcile.status i0 specs)
      (fun i => i.meta = i0.meta) := by
    intro specs
    subst hO
    refine total_of_keeps (fun w2 h => ⟨_, Reconcile.status_result i0 specs hkind false _ _ w2
      (by rw [hns, hname]; exact h), ?_⟩) ?_
    · cases specs.CoreURL with
      | none => rfl
      | some c =>
        simp only
        unfold Obj.setApplicationURL
        split <;> rfl
    · have := Reconcile.status_observed r i0 specs hkind false
        (w.objs.get? ⟨.Namespace, "", request.Namespace⟩) (fun k => w.objs.routeIngress k)
      rw [hns, hname] at this
      exact this
  have tConsole : ∀ i specs url, i.meta = i0.meta → specs.CoreURL = some url →
      Total O (Reconcile.consoleLink r i specs) (fun _ => True) := by
    intro i specs url hm hc
    refine total_of_keeps (fun w2 h => ⟨(), Reconcile.consoleLink_succeeds r i specs w2 url
      (hOrel w2 h) hc, trivial⟩) ?_
    subst hO
    exact (Reconcile.consoleLink_at r i specs _ _ _ _ _ (by rw [hm]; exact hns)
      (by rw [hm]; exact hname)).2
  -- the prefixes of the pass
  have A2 : ∃ i, (Reconcile.toSecrets r request w).1 = .ok i ∧ i = i0 ∧
      O (Reconcile.toSecrets r request w).2 := by
    unfold Reconcile.toSecrets
    exact total_after w i0 h1 hO1
      (total_bind tStorage (fun _ _ => total_bind tSecrets (fun _ _ => total_pure i0 rfl)))
  obtain ⟨i2, h2, hi2, hO2⟩ := A2
  rw [hi2] at h2
  have A3 : ∃ st, (Reconcile.toRBAC r request w).1 = .ok st ∧
      st = { inst := i0, tlsConfig := some tc,
             routeTLS := some { Termination := .Reencrypt, DestinationCACertificate := ca } } ∧
      O (Reconcile.toRBAC r request w).2 := by
    unfold Reconcile.toRBAC
    exact total_after w i0 h2 hO2
      (total_bind tTLS (fun t ht => total_bind tRBAC (fun _ _ => total_pure _ (by rw [ht]))))
  obtain ⟨st3, h3, hst3, hO3⟩ := A3
  have A4 : ∃ st, (Reconcile.toGrafana r request w).1 = .ok st ∧
      (st.inst = i0 ∧ st.tlsConfig = some tc ∧
        st.routeTLS = some { Termination := .Reencrypt, DestinationCACertificate := ca }) ∧
      O (Reconcile.toGrafana r request w).2 := by
    unfold Reconcile.toGrafana
    refine total_after w st3 h3 hO3 ?_
    rw [hst3]
    exact total_bind (tGrafana _) (fun _ _ => total_pure _ ⟨rfl, rfl, rfl⟩)
  obtain ⟨st4, h4, ⟨hi4, ht4, hr4⟩, hO4⟩ := A4
  have A5 : ∃ st, (Reconcile.toCore r request w).1 = .ok st ∧
      (st.inst = i0 ∧ st.tlsConfig = some tc ∧
        st.routeTLS = some { Termination := .Reencrypt, DestinationCACertificate := ca } ∧
        st.serviceSpecs.CoreURL = some ⟨"https", core.Host⟩) ∧
      O (Reconcile.toCore r request w).2 := by
    unfold Reconcile.toCore
    refine total_after w st4 h4 hO4 ?_
    rw [hi4]
    exact total_bind (tCore _) (fun url hu => total_pure _ ⟨rfl, ht4, hr4, (by
      rw [hu, hr4]; rfl)⟩)
  obtain ⟨st5, h5, ⟨hi5, ht5, hr5, hc5⟩, hO5⟩ := A5
  have A6 : ∃ st, (Reconcile.toCommand r request w).1 = .ok st ∧
      (st.inst = i0 ∧ st.serviceSpecs.CoreURL = some ⟨"https", core.Host⟩) ∧
      O (Reconcile.toCommand r request w).2 := by
    unfold Reconcile.toCommand
    refine total_after w st5 h5 hO5 ?_
    rw [hi5]
    exact total_bind (tCommand _) (fun url _ => total_pure _ ⟨rfl, hc5⟩)
  obtain ⟨st6, h6, ⟨hi6, hc6⟩, hO6⟩ := A6
  have A7 : ∃ u, (Reconcile.pass r request w).1 = .ok u ∧ True ∧
      O (Reconcile.pass r request w).2 := by
    unfold Reconcile.pass
    refine total_after w st6 h6 hO6 ?_
    rw [hi6]
    exact total_bind (tDeployment _ _) (fun _ _ =>
      total_bind (tStatus _) (fun i hm => tConsole i _ _ hm hc6))
  obtain ⟨u, h7, _, _⟩ := A7
  exact ⟨h7, st6, h6, hi6, hc6⟩

end Cryostat

namespace Cryostat

/-- The instance the finalizer section hands on declares what the stored one declares. -/
theorem Reconcile.toFinalizer_spec (r : CryostatReconciler) (request : NamespacedName)
    (w : World) (inst i : Obj)
    (hget : (Client.Get ⟨.Cryostat, request.Namespace, request.Name⟩ w).1 = .ok inst)
    (hact : inst.meta.DeletionTimestamp = none)
    (hi : (Reconcile.toFinalizer r request w).1 = .ok i) : i.Spec = inst.Spec := by
  cases hfin : ContainsFinalizer inst cryostatFinalizer with
  | true =>
    rw [Reconcile.toFinalizer_of_present r request w inst hget hact hfin] at hi
    simp only [Except.ok.injEq] at hi
    rw [hi]
  | false =>
    rw [Reconcile.toFinalizer_of_absent r request w inst hget hact hfin] at hi
    simp only at hi
    split at hi
    · simp only [Except.ok.injEq] at hi
      rw [← hi]
      unfold Obj.Spec
      rw [controllerutil.AddFinalizer_body]
    · cases hi

/-- Counterexample to C11: on OpenShift, with the Routes carrying a host, a pass over
the example instance succeeds and leaves the labels of the pod template of the live
Deployment as they were, although the desired pod template has none: only the pod spec
inside the template is overwritten. And a live Deployment with the single container of a
minimal instance is deleted by the Grafana section and created anew, so its replica count
is not what it was before the pass. -/
theorem Reconcile_keeps_template_labels :
    (Reconcile (test.reconciler true) test.request
      { objs := test.NewCluster ++ [test.NewScaledDeployment] }).1
      = ({ Requeue := false, RequeueAfter := 0 }, none) ∧
    ((Reconcile (test.reconciler true) test.request
      { objs := test.NewCluster ++ [test.NewScaledDeployment] }).2.objs.get?
        ⟨.Deployment, "default", "cryostat"⟩).map (fun d => d.deploymentSpec.Template.Labels)
      = some [("app", "old")] ∧
    (∀ decl specs tags tls fsGroup,
      (test.resources.DeploymentSpec decl specs tags tls fsGroup).Template.Labels = []) ∧
    (Reconcile (test.reconciler true) test.request
      { objs := test.NewCluster ++ [test.NewStaleDeployment] }).1
      = ({ Requeue := false, RequeueAfter := 0 }, none) ∧
    test.NewStaleDeployment.deploymentSpec.Replicas = some 3 ∧
    ((Reconcile (test.reconciler true) test.request
      { objs := test.NewCluster ++ [test.NewStaleDeployment] }).2.objs.get?
        ⟨.Deployment, "default", "cryostat"⟩).map (fun d => d.deploymentSpec.Replicas)
      = some none :=
  ⟨(by decide), (by decide), (fun _ _ _ _ _ => rfl), (by decide), (by decide), (by decide)⟩

/-- C11 (amended): when the Deployment exists before the pass and its container count is
not the one by which the Grafana section tells a stale Deployment, a pass over a live
object of kind Cryostat which runs to its end (the empty result with a nil error)
overwrites only the pod spec inside the pod template: after the pass the pod spec of the
live Deployment is the one computed from the instance in this pass, and the live
Deployment is either the one it was (nothing was written) or what the `Get` of the client
has left in the Deployment object handed to it (the desired Deployment with the controller
reference of line 326), with that pod spec. So with a client whose `Get` overwrites the
object by the stored one, the object metadata, the replica count, the selector, the
strategy and the labels of the pod template are what they were before the pass. -/
theorem Reconcile_overwrites_pod_spec_only (r : CryostatReconciler) (request : NamespacedName)
    (w : World) (inst d : Obj)
    (hget : (Client.Get ⟨.Cryostat, request.Namespace, request.Name⟩ w).1 = .ok inst)
    (hact : inst.meta.DeletionTimestamp = none)
    (hok : (Reconcile r request w).1 = ({ Requeue := false, RequeueAfter := 0 }, none))
    (hd : w.objs.get? ⟨.Deployment, request.Namespace, request.Name⟩ = some d)
    (hmin : inst.Spec.Minimal = true → d.deploymentSpec.Template.Spec.Containers.length ≤ 1)
    (hfull : inst.Spec.Minimal = false → d.deploymentSpec.Template.Spec.Containers.length ≠ 1) :
    ∃ st fsGroup dep d2,
      (Reconcile.toCommand r request w).1 = .ok st ∧
      (getFSGroup r request.Namespace (Reconcile.toCommand r request w).2).1 = .ok fsGroup ∧
      SetControllerReference st.inst (NewDeploymentForCR r.resources st.inst st.serviceSpecs
        (getImageTags r) st.tlsConfig fsGroup) = .ok dep ∧
      (Reconcile r request w).2.objs.get? ⟨.Deployment, request.Namespace, request.Name⟩
        = some d2 ∧
      d2.deploymentSpec.Template.Spec
        = (r.resources.DeploymentSpec st.inst.declared st.serviceSpecs (getImageTags r)
            st.tlsConfig fsGroup).Template.Spec ∧
      (d2 = d ∨
        d2 = (Obj.readInto w.decodeInto d dep).setPodSpec
          (r.resources.DeploymentSpec st.inst.declared st.serviceSpecs (getImageTags r)
            st.tlsConfig fsGroup).Template.Spec) ∧
      (w.decodeInto d dep = d →
        d2.meta = d.meta ∧
        d2.deploymentSpec.Replicas = d.deploymentSpec.Replicas ∧
        d2.deploymentSpec.Selector = d.deploymentSpec.Selector ∧
        d2.deploymentSpec.Strategy = d.deploymentSpec.Strategy ∧
        d2.deploymentSpec.Template.Labels = d.deploymentSpec.Template.Labels) := by
  have hpass := Reconcile.completed r request w inst hget hact hok
  obtain ⟨st, hcmd⟩ := Reconcile.pass_ok r request w hpass
  have hfi := Reconcile.toCommand_inst _ _ _ _ hcmd
  obtain ⟨hns, hname, _⟩ := Reconcile.toFinalizer_inst r request w st.inst hfi
  have hreach := Reconcile.deployment_reached r request w d hd (fun i hi => by
    rw [Reconcile.toFinalizer_spec r request w inst i hget hact hi]
    exact ⟨hmin, hfull⟩)
  have hdec : (Reconcile.toCommand r request w).2.decodeInto = w.decodeInto :=
    Reconcile.toCommand_frame (I := fun u => u.decodeInto = w.decodeInto) r request w
      (Reconcile.toFinalizer_frame (I := fun u => u.decodeInto = w.decodeInto) r request w rfl
        (respects_decodeInto _ _))
      (fun _ _ => respects_decodeInto _ _)
  have hdep : (Reconcile.deployment r st.inst st.serviceSpecs st.tlsConfig
      (Reconcile.toCommand r request w).2).1 = .ok () := by
    have hp := hpass
    unfold Reconcile.pass at hp
    rw [bind_of_ok _ _ _ _ hcmd] at hp
    obtain ⟨u, h3, _⟩ := bind_ok _ _ _ _ hp
    exact h3
  rw [← hns, ← hname] at hreach hd ⊢
  obtain ⟨fs, dep, hfs, hsc, hupd⟩ := Reconcile.deployment_updates r st.inst st.serviceSpecs
    st.tlsConfig _ d hreach hdep
  rw [hdec] at hupd
  generalize hP : (r.resources.DeploymentSpec st.inst.declared st.serviceSpecs
    (getImageTags r) st.tlsConfig fs).Template.Spec = P at hupd
  generalize hx : (if Obj.readInto w.decodeInto d dep
      = (Obj.readInto w.decodeInto d dep).setPodSpec P then d
    else (Obj.readInto w.decodeInto d dep).setPodSpec P) = x at hupd
  have hfinal := Reconcile.pass_tail r request w st hcmd
    (I := fun u => u.objs.get? ⟨.Deployment, st.inst.meta.Namespace, st.inst.meta.Name⟩
      = some x) hupd
    (respects_get? _ _ (fun o => o = some x) (by
      cases hos : r.IsOpenShift <;> simp [statusTouches, consoleLinkTouches, hos]))
  have hk := Store.get?_key _ _ _ hd
  have hkind : d.body.kind = .Deployment := congrArg Key.kind hk
  have hspec : ∀ y : Obj, y.body.kind = .Deployment →
      (y.setPodSpec P).deploymentSpec.Template.Spec = P := by
    intro y hy
    cases y with
    | mk m body =>
      cases body <;> first
        | rfl
        | (simp [Body.kind] at hy)
  have hrk : (Obj.readInto w.decodeInto d dep).body.kind = .Deployment := by
    have := congrArg Key.kind (Obj.readInto_key w.decodeInto d dep)
    exact this.trans hkind
  refine ⟨st, fs, dep, x, hcmd, hfs, hsc, hfinal, ?_, ?_, ?_⟩
  · rw [hP, ← hx]
    split
    · rename_i he
      rw [← Obj.readInto_podSpec w.decodeInto d dep, he]
      exact hspec _ hrk
    · exact hspec _ hrk
  · rw [hP, ← hx]
    split
    · exact Or.inl rfl
    · exact Or.inr rfl
  · intro hov
    have hr := Obj.readInto_of_overwrite w.decodeInto d dep hov
    rw [hr] at hx
    have hframe : (d.setPodSpec P).meta = d.meta ∧
        (d.setPodSpec P).deploymentSpec.Replicas = d.deploymentSpec.Replicas ∧
        (d.setPodSpec P).deploymentSpec.Selector = d.deploymentSpec.Selector ∧
        (d.setPodSpec P).deploymentSpec.Strategy = d.deploymentSpec.Strategy ∧
        (d.setPodSpec P).deploymentSpec.Template.Labels = d.deploymentSpec.Template.Labels := by
      cases d with
      | mk m body => cases body <;> exact ⟨rfl, rfl, rfl, rfl, rfl⟩
    rw [← hx]
    split
    · exact ⟨rfl, rfl, rfl, rfl, rfl⟩
    · exact hframe

/-- Witness for C11: the example instance on OpenShift with a live Deployment that another
actor has scaled to three replicas. The client of the example overwrites the object it
reads into, and the Deployment keeps its metadata, replica count, selector, strategy and
template labels. With a client that decodes into the object instead, the same pass leaves
the live Deployment with the controller reference of the Deployment object, which it had
not before. -/
theorem Reconcile_overwrites_pod_spec_only_witness :
    (Reconcile (test.reconciler true) test.request
      { objs := test.NewCluster ++ [test.NewScaledDeployment] }).1
      = ({ Requeue := false, RequeueAfter := 0 }, none) ∧
    test.NewScaledDeployment.meta.OwnerReferences = [] ∧
    ((Reconcile (test.reconciler true) test.request
      { objs := test.NewCluster ++ [test.NewScaledDeployment],
        decodeInto := test.mergeInto }).2.objs.get? ⟨.Deployment, "default", "cryostat"⟩).map
        (fun x => (x.meta.OwnerReferences, x.deploymentSpec.Replicas,
          x.deploymentSpec.Template.Labels))
      = some ([⟨.Cryostat, "cryostat", true⟩], some 3, [("app", "old")]) ∧
    ∃ st fsGroup dep d2,
      (Reconcile.toCommand (test.reconciler true) test.request
        { objs := test.NewCluster ++ [test.NewScaledDeployment] }).1 = .ok st ∧
      (getFSGroup (test.reconciler true) test.request.Namespace
        (Reconcile.toCommand (test.reconciler true) test.request
          { objs := test.NewCluster ++ [test.NewScaledDeployment] }).2).1 = .ok fsGroup ∧
      SetControllerReference st.inst (NewDeploymentForCR (test.reconciler true).resources
        st.inst st.serviceSpecs (getImageTags (test.reconciler true)) st.tlsConfig fsGroup)
        = .ok dep ∧
      (Reconcile (test.reconciler true) test.request
        { objs := test.NewCluster ++ [test.NewScaledDeployment] }).2.objs.get?
          ⟨.Deployment, test.request.Namespace, test.request.Name⟩ = some d2 ∧
      d2.deploymentSpec.Template.Spec
        = ((test.reconciler true).resources.DeploymentSpec st.inst.declared st.serviceSpecs
            (getImageTags (test.reconciler true)) st.tlsConfig fsGroup).Template.Spec ∧
      (d2 = test.NewScaledDeployment ∨
        d2 = (Obj.readInto (fun stored _ => stored) test.NewScaledDeployment dep).setPodSpec
          ((test.reconciler true).resources.DeploymentSpec st.inst.declared st.serviceSpecs
            (getImageTags (test.reconciler true)) st.tlsConfig fsGroup).Template.Spec) ∧
      ((fun stored _ => stored : Obj → Obj → Obj) test.NewScaledDeployment dep
          = test.NewScaledDeployment →
        d2.meta = test.NewScaledDeployment.meta ∧
        d2.deploymentSpec.Replicas = test.NewScaledDeployment.deploymentSpec.Replicas ∧
        d2.deploymentSpec.Selector = test.NewScaledDeployment.deploymentSpec.Selector ∧
        d2.deploymentSpec.Strategy = test.NewScaledDeployment.deploymentSpec.Strategy ∧
        d2.deploymentSpec.Template.Labels
          = test.NewScaledDeployment.deploymentSpec.Template.Labels) :=
  ⟨(by decide), (by decide), (by decide),
    Reconcile_overwrites_pod_spec_only (test.reconciler true) test.request
      { objs := test.NewCluster ++ [test.NewScaledDeployment] } test.NewCryostat
      test.NewScaledDeployment (by decide) (by decide) (by decide) (by decide)
      (fun h => absurd h (by decide)) (fun _ => (by decide))⟩

end Cryostat

namespace Cryostat

theorem URL.String_of_host (u : URL) (hs : u.Scheme ≠ "") (hh : u.Host ≠ "") :
    u.String = u.Scheme ++ "://" ++ escapeHost u.Host := by
  unfold URL.String
  rw [if_neg hs, if_neg hh, String.append_assoc, String.append_assoc,
    ← String.append_assoc ":" "//" (escapeHost u.Host)]
  rfl

/-- A host without a character that `shouldEscape` names is written as it is. -/
theorem escapeHost_of_plain (s : String) (h : ∀ c ∈ s.data, shouldEscapeHost c = false) :
    escapeHost s = s := by
  unfold escapeHost
  have : ∀ l : List Char, (∀ c ∈ l, shouldEscapeHost c = false) →
      l.flatMap (fun c =>
        if shouldEscapeHost c then (utf8Bytes c).flatMap escapeByte else [c]) = l := by
    intro l
    induction l with
    | nil => intro _; rfl
    | cons a t ih =>
      intro hl
      rw [List.flatMap_cons, ih (fun c hc => hl c (List.mem_cons_of_mem _ hc)),
        hl a (List.mem_cons_self _ _)]
      rfl
  rw [this s.data h]

theorem Obj.setApplicationURL_Status (o : Obj) (url : String) (hk : o.body.kind = .Cryostat) :
    (o.setApplicationURL url).Status.ApplicationURL = url := by
  cases o with
  | mk m body =>
    cases body <;> first
      | rfl
      | (simp [Body.kind] at hk)

/-- Counterexample to C12, on plain Kubernetes. The example instance carries the URL of an
earlier pass in its status and declares no `NetworkOptions`: the pass succeeds, resolves no
core URL, and the status URL is not empty afterwards but the one it was. And the
same instance declaring an Ingress without rules for the core Service: the pass succeeds,
resolves a core URL with the scheme `http` and an empty host, and writes `http:` to the
status, not `http://`. And on OpenShift, with the core Route reporting the host
`a b.example.com`, the pass succeeds and writes `https://a%20b.example.com`: the host is
escaped. -/
theorem Reconcile_keeps_stale_status_url :
    (Reconcile (test.reconciler false) test.request { objs := [test.NewCryostatWithURL] }).1
      = ({ Requeue := false, RequeueAfter := 0 }, none) ∧
    (Reconcile.toCommand (test.reconciler false) test.request
      { objs := [test.NewCryostatWithURL] }).1.toOption.map (fun st => st.serviceSpecs.CoreURL)
      = some none ∧
    ((Reconcile (test.reconciler false) test.request
      { objs := [test.NewCryostatWithURL] }).2.objs.get? ⟨.Cryostat, "default", "cryostat"⟩).map
        (fun x => x.Status.ApplicationURL) = some "https://cryostat.example.com" ∧
    (Reconcile (test.reconciler false) test.request
      { objs := [test.NewCryostatWithBareIngress] }).1
      = ({ Requeue := false, RequeueAfter := 0 }, none) ∧
    (Reconcile.toCommand (test.reconciler false) test.request
      { objs := [test.NewCryostatWithBareIngress] }).1.toOption.map
        (fun st => st.serviceSpecs.CoreURL) = some (some { Scheme := "http", Host := "" }) ∧
    ((Reconcile (test.reconciler false) test.request
      { objs := [test.NewCryostatWithBareIngress] }).2.objs.get?
        ⟨.Cryostat, "default", "cryostat"⟩).map (fun x => x.Status.ApplicationURL)
      = some "http:" ∧
    (Reconcile (test.reconciler true) test.request
      { objs := test.NewClusterWithHost "a b.example.com" }).1
      = ({ Requeue := false, RequeueAfter := 0 }, none) ∧
    (Reconcile.toCommand (test.reconciler true) test.request
      { objs := test.NewClusterWithHost "a b.example.com" }).1.toOption.map
        (fun st => st.serviceSpecs.CoreURL)
      = some (some { Scheme := "https", Host := "a b.example.com" }) ∧
    ((Reconcile (test.reconciler true) test.request
      { objs := test.NewClusterWithHost "a b.example.com" }).2.objs.get?
        ⟨.Cryostat, "default", "cryostat"⟩).map (fun x => x.Status.ApplicationURL)
      = some "https://a%20b.example.com" := by
  decide

/-- C12 (amended): on a store that answers every call itself, after a pass over a
live instance that runs to its end (the empty result with a nil error), if the core endpoint
has resolved to a URL then `Status.ApplicationURL` of the stored instance is that URL as
`String()` renders it, which is `scheme://host` with the host escaped when scheme and host
are not empty, that is `scheme://host` itself when the host holds only letters, digits and
characters that a host is written with as they are (and `scheme:` alone for an empty
host); if no URL has resolved, the status URL is the one the instance had before the pass,
empty or not. -/
theorem Reconcile_status_url (r : CryostatReconciler) (request : NamespacedName)
    (w : World) (inst : Obj) (hrel : w.Reliable)
    (hget : (Client.Get ⟨.Cryostat, request.Namespace, request.Name⟩ w).1 = .ok inst)
    (hact : inst.meta.DeletionTimestamp = none)
    (hok : (Reconcile r request w).1 = ({ Requeue := false, RequeueAfter := 0 }, none)) :
    ∃ st x,
      (Reconcile.toCommand r request w).1 = .ok st ∧
      (Reconcile r request w).2.objs.get? ⟨.Cryostat, request.Namespace, request.Name⟩
        = some x ∧
      (∀ url, st.serviceSpecs.CoreURL = some url →
        x.Status.ApplicationURL = url.String ∧
        (url.Scheme ≠ "" → url.Host ≠ "" →
          x.Status.ApplicationURL = url.Scheme ++ "://" ++ escapeHost url.Host) ∧
        (url.Scheme ≠ "" → url.Host ≠ "" →
          (∀ c ∈ url.Host.data, shouldEscapeHost c = false) →
          x.Status.ApplicationURL = url.Scheme ++ "://" ++ url.Host) ∧
        (url.Host = "" → x.Status.ApplicationURL = if url.Scheme = "" then "" else url.Scheme ++ ":")) ∧
      (st.serviceSpecs.CoreURL = none →
        x.Status.ApplicationURL = inst.Status.ApplicationURL) := by
  have hpass := Reconcile.completed r request w inst hget hact hok
  obtain ⟨st, hcmd⟩ := Reconcile.pass_ok r request w hpass
  have hkind : inst.body.kind = .Cryostat := by
    have := (Client.Get_ok _ _ _ hget).2
    simp only [Obj.key, Key.mk.injEq] at this
    exact this.1
  obtain ⟨u, hdep⟩ : ∃ u, (Reconcile.deployment r st.inst st.serviceSpecs st.tlsConfig
      (Reconcile.toCommand r request w).2).1 = .ok u := by
    have hp := hpass
    unfold Reconcile.pass at hp
    rw [bind_of_ok _ _ _ _ hcmd] at hp
    obtain ⟨u, h3, _⟩ := bind_ok _ _ _ _ hp
    exact ⟨u, h3⟩
  have hst := Reconcile.stored_after r request w inst hrel hget hact
  rw [hcmd] at hst
  simp only [hdep] at hst
  have hak : (controllerutil.AddFinalizer inst cryostatFinalizer).body.kind = .Cryostat := by
    rw [controllerutil.AddFinalizer_body]; exact hkind
  cases hc : st.serviceSpecs.CoreURL with
  | none =>
    simp only [hc] at hst
    refine ⟨st, _, hcmd, hst, fun url h => ?_, fun _ => ?_⟩
    · rw [hc] at h; cases h
    · unfold Obj.Status
      rw [controllerutil.AddFinalizer_body]
  | some c =>
    simp only [hc] at hst
    refine ⟨st, _, hcmd, hst, fun url h => ?_, fun h => ?_⟩
    · rw [hc] at h
      simp only [Option.some.injEq] at h
      subst h
      have h1 := Obj.setApplicationURL_Status
        (controllerutil.AddFinalizer inst cryostatFinalizer) c.String hak
      refine ⟨h1, fun hs hh => by rw [h1]; exact URL.String_of_host c hs hh,
        fun hs hh hp => ?_, fun hh => ?_⟩
      · rw [h1, URL.String_of_host c hs hh, escapeHost_of_plain _ hp]
      · rw [h1]
        unfold URL.String
        rw [if_pos hh, String.append_empty]
    · rw [hc] at h; cases h

/-- Witness for C12: the example instance on OpenShift, with the Routes of its three
Services carrying a host. -/
theorem Reconcile_status_url_witness :
    (Reconcile (test.reconciler true) test.request { objs := test.NewCluster }).1
      = ({ Requeue := false, RequeueAfter := 0 }, none) ∧
    ∃ st x,
      (Reconcile.toCommand (test.reconciler true) test.request
        { objs := test.NewCluster }).1 = .ok st ∧
      (Reconcile (test.reconciler true) test.request { objs := test.NewCluster }).2.objs.get?
        ⟨.Cryostat, test.request.Namespace, test.request.Name⟩ = some x ∧
      (∀ url, st.serviceSpecs.CoreURL = some url →
        x.Status.ApplicationURL = url.String ∧
        (url.Scheme ≠ "" → url.Host ≠ "" →
          x.Status.ApplicationURL = url.Scheme ++ "://" ++ escapeHost url.Host) ∧
        (url.Scheme ≠ "" → url.Host ≠ "" →
          (∀ c ∈ url.Host.data, shouldEscapeHost c = false) →
          x.Status.ApplicationURL = url.Scheme ++ "://" ++ url.Host) ∧
        (url.Host = "" → x.Status.ApplicationURL = if url.Scheme = "" then "" else url.Scheme ++ ":")) ∧
      (st.serviceSpecs.CoreURL = none →
        x.Status.ApplicationURL = test.NewCryostat.Status.ApplicationURL) :=
  ⟨(by decide),
    Reconcile_status_url (test.reconciler true) test.request { objs := test.NewCluster }
      test.NewCryostat (fun _ hf => by cases hf) (by decide) (by decide) (by decide)⟩

end Cryostat

namespace Cryostat

/-- Counterexample to C13, on OpenShift with cert-manager enabled and the certificates
issued. From the store that holds only the example instance, the pass creates the Route
of the Grafana Service, finds no host on it, and ends with a request to be run again in
five seconds: the core Service, the command Service and the Deployment are not there
afterwards, and the status URL is empty. The same from a store that also holds the
Namespace. And from a store that holds the instance and the three Routes with a host but
not the Namespace, the pass ends with the error NotFound and without the Deployment. And
from a store that holds the instance, the Namespace and the three Routes, the core Route
with the host `a b.example.com`, the pass succeeds and the status URL is
`https://a%20b.example.com`, in which the host is escaped. -/
theorem Reconcile_first_pass_requeues :
    (Reconcile (test.reconciler true) test.request { objs := [test.NewCryostat] }).1
      = ({ Requeue := false, RequeueAfter := 5 * Second }, none) ∧
    ((Reconcile (test.reconciler true) test.request { objs := [test.NewCryostat] }).2.objs.map
        (fun o => o.key)).filter
          (fun k => k.kind = .Service ∨ k.kind = .Route ∨ k.kind = .Deployment)
      = [⟨.Service, "default", "cryostat-grafana"⟩, ⟨.Route, "default", "cryostat-grafana"⟩] ∧
    ((Reconcile (test.reconciler true) test.request
      { objs := [test.NewCryostat] }).2.objs.get? ⟨.Cryostat, "default", "cryostat"⟩).map
        (fun x => x.Status.ApplicationURL) = some "" ∧
    (Reconcile (test.reconciler true) test.request
      { objs := [test.NewCryostat, test.NewNamespace] }).1
      = ({ Requeue := false, RequeueAfter := 5 * Second }, none) ∧
    (Reconcile (test.reconciler true) test.request
      { objs := [test.NewCryostat, test.NewNamespace] }).2.objs.get?
        ⟨.Deployment, "default", "cryostat"⟩ = none ∧
    (Reconcile (test.reconciler true) test.request
      { objs := [test.NewCryostat, test.NewRoute "cryostat", test.NewRoute "cryostat-command",
                 test.NewRoute "cryostat-grafana"] }).1
      = ({ Requeue := false, RequeueAfter := 0 }, some .NotFound) ∧
    (Reconcile (test.reconciler true) test.request
      { objs := [test.NewCryostat, test.NewRoute "cryostat", test.NewRoute "cryostat-command",
                 test.NewRoute "cryostat-grafana"] }).2.objs.get?
        ⟨.Deployment, "default", "cryostat"⟩ = none ∧
    (Reconcile (test.reconciler true) test.request
      { objs := test.NewClusterWithHost "a b.example.com" }).1
      = ({ Requeue := false, RequeueAfter := 0 }, none) ∧
    (test.NewClusterWithHost "a b.example.com").routeIngress ⟨.Route, "default", "cryostat"⟩
      = [⟨"a b.example.com"⟩] ∧
    ((Reconcile (test.reconciler true) test.request
      { objs := test.NewClusterWithHost "a b.example.com" }).2.objs.get?
        ⟨.Cryostat, "default", "cryostat"⟩).map (fun x => x.Status.ApplicationURL)
      = some "https://a%20b.example.com" := by
  decide

/-- C13 (amended): on OpenShift, for a live instance that is not minimal, with
cert-manager enabled and the certificates issued, a pass that starts from a store which
answers every call itself and holds, besides the instance, a Namespace object from which
the group can be read and the Routes named after the three Services, each with a host
assigned (the core Route with a host that is not empty), succeeds with the empty result
and leaves in the store: the PVC, the two credential Secrets, the ServiceAccount, Role,
RoleBinding and ClusterRoleBinding, the three Services (Grafana, core, command), one
Route per Service, and the Deployment; and the status URL of the stored instance is
`https://` followed by the host of the core Route as `String()` escapes it, which is the
host itself when it holds only letters, digits and characters that a host is written with
as they are. -/
theorem Reconcile_creates_everything (r : CryostatReconciler) (request : NamespacedName)
    (w : World) (inst : Obj) (tc : ResourcesTLSConfig) (ca : String) (fsGroup : Int)
    (core command grafana : RouteIngress) (rest1 rest2 rest3 : List RouteIngress)
    (hos : r.IsOpenShift = true) (hrel : w.Reliable)
    (hget : (Client.Get ⟨.Cryostat, request.Namespace, request.Name⟩ w).1 = .ok inst)
    (hact : inst.meta.DeletionTimestamp = none)
    (hmin : inst.Spec.Minimal = false)
    (hcm : r.ReconcilerTLS.IsCertManagerEnabled inst.declared = true)
    (htls : r.setupTLS inst.declared = .ok tc)
    (hca : r.ReconcilerTLS.GetCryostatCABytes inst.declared = .ok ca)
    (hfs : fsGroupOf r (w.objs.get? ⟨.Namespace, "", request.Namespace⟩) = .ok fsGroup)
    (hcore : w.objs.routeIngress ⟨.Route, request.Namespace, request.Name⟩ = core :: rest1)
    (hhost : core.Host ≠ "")
    (hcommand : w.objs.routeIngress ⟨.Route, request.Namespace, request.Name ++ "-command"⟩
      = command :: rest2)
    (hgrafana : w.objs.routeIngress ⟨.Route, request.Namespace, request.Name ++ "-grafana"⟩
      = grafana :: rest3) :
    (Reconcile r request w).1 = ({ Requeue := false, RequeueAfter := 0 }, none) ∧
    (∀ k ∈ [(⟨.PersistentVolumeClaim, request.Namespace, request.Name⟩ : Key),
        ⟨.Secret, request.Namespace, request.Name ++ "-grafana-basic"⟩,
        ⟨.Secret, request.Namespace, request.Name ++ "-jmx-auth"⟩,
        ⟨.ServiceAccount, request.Namespace, request.Name⟩,
        ⟨.Role, request.Namespace, request.Name⟩,
        ⟨.RoleBinding, request.Namespace, request.Name⟩,
        ⟨.ClusterRoleBinding, "", r.resources.ClusterUniqueName request.Namespace request.Name⟩,
        ⟨.Service, request.Namespace, request.Name ++ "-grafana"⟩,
        ⟨.Service, request.Namespace, request.Name⟩,
        ⟨.Service, request.Namespace, request.Name ++ "-command"⟩,
        ⟨.Route, request.Namespace, request.Name ++ "-grafana"⟩,
        ⟨.Route, request.Namespace, request.Name⟩,
        ⟨.Route, request.Namespace, request.Name ++ "-command"⟩,
        ⟨.Deployment, request.Namespace, request.Name⟩],
      (Reconcile r request w).2.objs.Has k) ∧
    ∃ x, (Reconcile r request w).2.objs.get? ⟨.Cryostat, request.Namespace, request.Name⟩
        = some x ∧
      x.Status.ApplicationURL = "https://" ++ escapeHost core.Host ∧
      ((∀ c ∈ core.Host.data, shouldEscapeHost c = false) →
        x.Status.ApplicationURL = "https://" ++ core.Host) := by
  obtain ⟨hpass, st, hcmd, hinst, hurl⟩ := Reconcile.pass_succeeds r request w inst tc ca fsGroup
    core command grafana rest1 rest2 rest3 hos hrel hget hact hmin hcm htls hca hfs hcore
    hcommand hgrafana
  have hres : (Reconcile r request w).1 = ({ Requeue := false, RequeueAfter := 0 }, none) := by
    unfold Reconcile
    rw [hpass]
  obtain ⟨hns, hname, hkind, _⟩ := Reconcile.toFinalizer_inst r request w st.inst
    (Reconcile.toCommand_inst _ _ _ _ hcmd)
  have hmin2 : st.inst.Spec.Minimal = false := by
    rw [hinst, controllerutil.AddFinalizer_minimal]; exact hmin
  refine ⟨hres, ?_, ?_⟩
  · obtain ⟨st2, hcmd2, _, hS⟩ := Reconcile.settled r request w hrel hpass
    rw [hcmd] at hcmd2
    simp only [Except.ok.injEq] at hcmd2
    subst hcmd2
    obtain ⟨⟨⟨⟨⟨⟨⟨hpvc, hg, hj⟩, hsa, hrole, hrb, hcrb⟩, hgraf, _⟩, hcoreS⟩, hcmdS⟩, hdep⟩, _⟩ := hS
    obtain ⟨hgs, hgr, _⟩ := hgraf hmin2
    obtain ⟨hcs, hcr, _⟩ := hcoreS
    obtain ⟨hms, hmr, _⟩ := hcmdS
    obtain ⟨_, _, hd⟩ := hdep
    have fixed : ∀ (s : Store) (k : Key) (f : Obj → Obj), s.Fixed k f → s.Has k :=
      fun s k f h => by
        obtain ⟨x, hx, _⟩ := h
        unfold Store.Has
        rw [hx]
        exact fun h2 => by cases h2
    have hgr2 := fixed _ _ _ (hgr hos)
    have hcr2 := fixed _ _ _ (hcr hos)
    have hmr2 := fixed _ _ _ (hmr hos)
    have hd2 := fixed _ _ _ hd
    unfold StorageSettled at hpvc
    simp only [NewGrafanaService, NewExporterService, NewCommandChannelService, NewService]
      at hgs hgr2 hcs hcr2 hms hmr2
    rw [hns, hname] at hpvc hg hj hsa hrole hrb hcrb hgs hgr2 hcs hcr2 hms hmr2 hd2
    intro k hk
    simp only [List.mem_cons, List.mem_singleton, List.not_mem_nil, or_false] at hk
    rcases hk with h | h | h | h | h | h | h | h | h | h | h | h | h | h <;> subst h <;>
      assumption
  · obtain ⟨u, hdep⟩ : ∃ u, (Reconcile.deployment r st.inst st.serviceSpecs st.tlsConfig
        (Reconcile.toCommand r request w).2).1 = .ok u := by
      have hp := hpass
      unfold Reconcile.pass at hp
      rw [bind_of_ok _ _ _ _ hcmd] at hp
      obtain ⟨u, h3, _⟩ := bind_ok _ _ _ _ hp
      exact ⟨u, h3⟩
    have hst := Reconcile.stored_after r request w inst hrel hget hact
    rw [hcmd] at hst
    simp only [hdep, hurl] at hst
    have hak : (controllerutil.AddFinalizer inst cryostatFinalizer).body.kind = .Cryostat := by
      rw [← hinst]; exact hkind
    have hurl2 : ((controllerutil.AddFinalizer inst cryostatFinalizer).setApplicationURL
        (URL.String { Scheme := "https", Host := core.Host })).Status.ApplicationURL
        = "https://" ++ escapeHost core.Host := by
      rw [Obj.setApplicationURL_Status _ _ hak,
        URL.String_of_host _ (by show "https" ≠ ""; decide) hhost]
      rfl
    refine ⟨_, hst, hurl2, fun hp => ?_⟩
    rw [hurl2, escapeHost_of_plain _ hp]

/-- Witness for C13: the example instance on OpenShift, with its Namespace and with the
Routes of its three Services carrying a host. -/
theorem Reconcile_creates_everything_witness :
    (Reconcile (test.reconciler true) test.request { objs := test.NewCluster }).1
      = ({ Requeue := false, RequeueAfter := 0 }, none) ∧
    (∀ k ∈ [(⟨.PersistentVolumeClaim, "default", "cryostat"⟩ : Key),
        ⟨.Secret, "default", "cryostat" ++ "-grafana-basic"⟩,
        ⟨.Secret, "default", "cryostat" ++ "-jmx-auth"⟩,
        ⟨.ServiceAccount, "default", "cryostat"⟩,
        ⟨.Role, "default", "cryostat"⟩,
        ⟨.RoleBinding, "default", "cryostat"⟩,
        ⟨.ClusterRoleBinding, "", test.resources.ClusterUniqueName "default" "cryostat"⟩,
        ⟨.Service, "default", "cryostat" ++ "-grafana"⟩,
        ⟨.Service, "default", "cryostat"⟩,
        ⟨.Service, "default", "cryostat" ++ "-command"⟩,
        ⟨.Route, "default", "cryostat" ++ "-grafana"⟩,
        ⟨.Route, "default", "cryostat"⟩,
        ⟨.Route, "default", "cryostat" ++ "-command"⟩,
        ⟨.Deployment, "default", "cryostat"⟩],
      (Reconcile (test.reconciler true) test.request
        { objs := test.NewCluster }).2.objs.Has k) ∧
    ∃ x, (Reconcile (test.reconciler true) test.request
        { objs := test.NewCluster }).2.objs.get? ⟨.Cryostat, "default", "cryostat"⟩ = some x ∧
      x.Status.ApplicationURL = "https://" ++ escapeHost "cryostat.example.com" ∧
      x.Status.ApplicationURL = "https://" ++ "cryostat.example.com" := by
  obtain ⟨h1, h2, x, hx, hu, hp⟩ := Reconcile_creates_everything (test.reconciler true)
    test.request { objs := test.NewCluster }
    test.NewCryostat ⟨"cryostat-tls", "cryostat-grafana-tls", "cryostat-keystore"⟩ "ca"
    defaultFSGroup ⟨"cryostat.example.com"⟩ ⟨"cryostat-command.example.com"⟩
    ⟨"cryostat-grafana.example.com"⟩ [] [] []
    rfl (fun _ hf => by cases hf) (by decide) (by decide) (by decide) (by decide) (by decide)
    (by decide) (by decide) (by decide) (by decide) (by decide) (by decide)
  exact ⟨h1, h2, x, hx, hu, hp (by decide)⟩

end Cryostat

namespace Cryostat

/-- Counterexample to C14: on OpenShift a ConsoleLink for the example instance exists
before the pass and links to another address; the pass succeeds, resolves the core URL
`https://cryostat.example.com`, and leaves the ConsoleLink with the address it had. -/
theorem Reconcile_keeps_stale_console_link :
    (Reconcile (test.reconciler true) test.request
      { objs := test.NewCluster ++ [test.NewStaleConsoleLink] }).1
      = ({ Requeue := false, RequeueAfter := 0 }, none) ∧
    (Reconcile.toCommand (test.reconciler true) test.request
      { objs := test.NewCluster ++ [test.NewStaleConsoleLink] }).1.toOption.map
        (fun st => st.serviceSpecs.CoreURL.map URL.String)
      = some (some "https://cryostat.example.com") ∧
    (Reconcile (test.reconciler true) test.request
      { objs := test.NewCluster ++ [test.NewStaleConsoleLink] }).2.objs.get?
        ⟨.ConsoleLink, "", "cryostat-default.cryostat"⟩
      = some { meta := { Name := "cryostat-default.cryostat" },
               body := .ConsoleLink { Text := "Cryostat", Href := "https://old.example.com",
                                      Namespaces := ["default"] } } := by
  decide

/-- C14 (amended): on OpenShift, after a pass over a live instance that runs to its end
(the empty result with a nil error) the store holds a ConsoleLink for the instance. If
none existed before the pass, it is the one built in this pass and its link target is the
core URL resolved in this pass; a ConsoleLink that existed before the pass is left as it
was, whatever its link target. Off OpenShift no call of `Reconcile`, read or write, is on
a ConsoleLink. -/
theorem Reconcile_console_link (r : CryostatReconciler) (request : NamespacedName)
    (w : World) (inst : Obj)
    (hget : (Client.Get ⟨.Cryostat, request.Namespace, request.Name⟩ w).1 = .ok inst)
    (hact : inst.meta.DeletionTimestamp = none)
    (hok : (Reconcile r request w).1 = ({ Requeue := false, RequeueAfter := 0 }, none)) :
    (r.IsOpenShift = true →
      ∃ st url link,
        (Reconcile.toCommand r request w).1 = .ok st ∧
        st.serviceSpecs.CoreURL = some url ∧
        (Reconcile r request w).2.objs.get?
          ⟨.ConsoleLink, "", r.resources.ClusterUniqueName request.Namespace request.Name⟩
          = some link ∧
        (w.objs.get?
            ⟨.ConsoleLink, "", r.resources.ClusterUniqueName request.Namespace request.Name⟩
            = none →
          link = NewConsoleLink r.resources inst url.String ∧
          link.body = .ConsoleLink { Text := r.resources.ConsoleLinkText, Href := url.String,
                                     Namespaces := [request.Namespace] }) ∧
        (∀ x, w.objs.get?
            ⟨.ConsoleLink, "", r.resources.ClusterUniqueName request.Namespace request.Name⟩
            = some x → link = x)) ∧
    (∀ w2, r.IsOpenShift = false →
      ∀ c ∈ (Reconcile r request w2).2.callsSince w2, c.key.kind ≠ .ConsoleLink) := by
  constructor
  · intro hos
    have hpass := Reconcile.completed r request w inst hget hact hok
    obtain ⟨st, hcmd⟩ := Reconcile.pass_ok r request w hpass
    have hfi := Reconcile.toCommand_inst _ _ _ _ hcmd
    obtain ⟨hns, hname, hkind, _⟩ := Reconcile.toFinalizer_inst r request w st.inst hfi
    have hik := (Client.Get_ok _ _ _ hget).2
    simp only [Obj.key, Key.mk.injEq] at hik
    -- the key of the ConsoleLink is left alone until the last section
    have h0 := Reconcile.toFinalizer_active_frame r request w inst hget hact
      (I := fun u => u.objs.get?
        ⟨.ConsoleLink, "", r.resources.ClusterUniqueName request.Namespace request.Name⟩
        = w.objs.get?
          ⟨.ConsoleLink, "", r.resources.ClusterUniqueName request.Namespace request.Name⟩)
      rfl (respects_get? _ _ (fun o => o = w.objs.get? _) (by simp))
    have h1 := Reconcile.toCommand_frame r request w h0 (fun i _ =>
      respects_get? _ _ (fun o => o = w.objs.get? _) (by
        cases i.Spec.Minimal <;>
          simp [servicesTouches, storageTouches, secretsTouches, createRBACTouches,
            grafanaTouches, createServiceTouches, deleteDeploymentTouches, hos,
            List.forall_mem_append]))
    have h2 := Reconcile.deployment_keeps r st.inst st.serviceSpecs st.tlsConfig
      (respects_get? _ _ (fun o => o = w.objs.get?
        ⟨.ConsoleLink, "", r.resources.ClusterUniqueName request.Namespace request.Name⟩)
        (by simp [deploymentTouches])) _ h1
    have h3 := Reconcile.status_keeps st.inst st.serviceSpecs hkind
      (respects_get? _ _ (fun o => o = w.objs.get?
        ⟨.ConsoleLink, "", r.resources.ClusterUniqueName request.Namespace request.Name⟩)
        (by simp [statusTouches])) _ h2
    -- the last section
    rw [Reconcile.pass_world]
    have hp := hpass
    unfold Reconcile.pass at hp ⊢
    rw [bind_of_ok _ _ _ _ hcmd] at hp ⊢
    obtain ⟨u, h4, h5⟩ := bind_ok _ _ _ _ hp
    rw [bind_of_ok _ _ _ _ h4]
    obtain ⟨inst2, h6, h7⟩ := bind_ok _ _ _ _ h5
    rw [bind_of_ok _ _ _ _ h6]
    have hm := Reconcile.status_ok _ _ _ _ h6
    unfold Reconcile.consoleLink at h7 ⊢
    rw [if_pos hos] at h7 ⊢
    cases hc : st.serviceSpecs.CoreURL with
    | none =>
      rw [hc] at h7
      cases h7
    | some url =>
      rw [hc] at h7
      simp only at h7 ⊢
      have h8 := orReturn_ok _ _ _ h7
      have hlink : NewConsoleLink r.resources inst2 url.String
          = NewConsoleLink r.resources inst url.String := by
        unfold NewConsoleLink
        rw [hm, hns, hname, hik.2.1, hik.2.2]
      have hname2 : (NewConsoleLink r.resources inst2 url.String).meta.Name
          = r.resources.ClusterUniqueName request.Namespace request.Name := by
        unfold NewConsoleLink
        simp only [hm, hns, hname]
      unfold createConsoleLink at h8 ⊢
      obtain ⟨ha, hb⟩ := createObjectIfNotExists_stored _ _ _ _ rfl h8
      simp only [orReturn_world]
      rw [hname2] at ha hb
      rw [h3] at ha hb
      cases hbefore : w.objs.get?
          ⟨.ConsoleLink, "", r.resources.ClusterUniqueName request.Namespace request.Name⟩ with
      | none =>
        refine ⟨st, url, _, hcmd, hc, ?_, fun _ => ⟨hlink, ?_⟩, fun x hx => (by cases hx)⟩
        · rw [hname2]; exact ha hbefore
        · unfold NewConsoleLink
          simp only [hm, hns]
      | some x =>
        refine ⟨st, url, x, hcmd, hc, ?_, fun h => (by cases h), fun y hy => ?_⟩
        · rw [hname2]; exact hb x hbefore
        · simp only [Option.some.injEq] at hy
          exact hy
  · intro w2 hos c hc
    rw [Reconcile.pass_world] at hc
    exact (Reconcile.pass_avoids_consoleLink r request hos).calls w2 c hc

/-- Witness for C14: the example instance on OpenShift, with the Routes of its three
Services carrying a host and no ConsoleLink in the store. -/
theorem Reconcile_console_link_witness :
    (Reconcile (test.reconciler true) test.request { objs := test.NewCluster }).1
      = ({ Requeue := false, RequeueAfter := 0 }, none) ∧
    ∃ st url link,
      (Reconcile.toCommand (test.reconciler true) test.request
        { objs := test.NewCluster }).1 = .ok st ∧
      st.serviceSpecs.CoreURL = some url ∧
      (Reconcile (test.reconciler true) test.request { objs := test.NewCluster }).2.objs.get?
        ⟨.ConsoleLink, "", (test.reconciler true).resources.ClusterUniqueName
          test.request.Namespace test.request.Name⟩ = some link ∧
      (({ objs := test.NewCluster } : World).objs.get?
          ⟨.ConsoleLink, "", (test.reconciler true).resources.ClusterUniqueName
            test.request.Namespace test.request.Name⟩ = none →
        link = NewConsoleLink (test.reconciler true).resources test.NewCryostat url.String ∧
        link.body = .ConsoleLink
          { Text := (test.reconciler true).resources.ConsoleLinkText, Href := url.String,
            Namespaces := [test.request.Namespace] }) ∧
      (∀ x, ({ objs := test.NewCluster } : World).objs.get?
          ⟨.ConsoleLink, "", (test.reconciler true).resources.ClusterUniqueName
            test.request.Namespace test.request.Name⟩ = some x → link = x) :=
  ⟨(by decide),
    (Reconcile_console_link (test.reconciler true) test.request { objs := test.NewCluster }
      test.NewCryostat (by decide) (by decide) (by decide)).1 rfl⟩

end Cryostat

namespace Cryostat

/-- On OpenShift and a store that answers every call itself, `createService` leaves the
Route of a Service that took the owner reference with the specification wanted. -/
theorem createService_leaves_route (r : CryostatReconciler) (controller svc svc2 : Obj)
    (exposePort : ServicePort) (tlsConfig : Option TLSConfig) (w : World)
    (hos : r.IsOpenShift = true) (hsk : svc.body.kind = .Service) (hrel : w.Reliable)
    (hsvc : SetControllerReference controller svc = .ok svc2) :
    (createService r controller svc exposePort tlsConfig w).2.objs.Fixed
      ⟨.Route, svc.meta.Namespace, svc.meta.Name⟩
      (routeMutation svc exposePort (edgeByDefault tlsConfig)) := by
  obtain ⟨m1, m2, m3⟩ := SetControllerReference_meta _ _ _ hsvc
  have hk2 : svc2.key = ⟨.Service, svc2.meta.Namespace, svc2.meta.Name⟩ := by
    simp only [Obj.key]
    rw [m3, hsk]
  have hns : controller.meta.Namespace = "" ∨
      svc2.meta.Namespace = controller.meta.Namespace := by
    rw [m2]; exact SetControllerReference_namespace _ _ _ hsvc
  have hc := createObjectIfNotExists_reliable ⟨svc2.meta.Namespace, svc2.meta.Name⟩
    .Service svc2 w hrel hk2
  have hrel2 : (createObjectIfNotExists ⟨svc2.meta.Namespace, svc2.meta.Name⟩
      .Service svc2 w).2.Reliable :=
    createObjectIfNotExists_keeps (respects_reliable [(Verb.Create, svc2.key)]) _ _ _
      (by simp) w hrel
  have hroute := createRouteForService_leaves controller svc2 exposePort
    (edgeByDefault tlsConfig) _ hrel2 hns
  have hmut : routeMutation svc2 exposePort (edgeByDefault tlsConfig)
      = routeMutation svc exposePort (edgeByDefault tlsConfig) := by
    unfold routeMutation
    rw [m1]
  rw [m1, m2, hmut] at hroute
  unfold createService
  rw [run_bind, run_ofExcept, hsvc]
  simp only
  rw [bind_of_ok _ _ _ _ hc, hos]
  simp only [if_true]
  rw [m1, m2]
  exact hroute

/-- C15: on OpenShift and a store that answers every call itself, for every Service that
takes the owner reference `createService` leaves a Route with the name and namespace of
the Service that targets the Service and the target port of the exposed port. With the
`routeTLS` that `Reconcile` computes, the TLS of the Route is re-encrypt termination with
the Cryostat CA certificate as destination CA certificate when cert-manager is enabled for
the instance, and edge termination with insecure-traffic policy Redirect otherwise. -/
theorem createService_route_as_wanted (r : CryostatReconciler) (controller svc svc2 : Obj)
    (exposePort : ServicePort) (w w0 : World) (tlsConfig : Option ResourcesTLSConfig)
    (routeTLS : Option TLSConfig)
    (hos : r.IsOpenShift = true) (hsk : svc.body.kind = .Service) (hrel : w.Reliable)
    (hsvc : SetControllerReference controller svc = .ok svc2)
    (htls : (Reconcile.tls r controller w0).1 = .ok (tlsConfig, routeTLS)) :
    ∃ route status tls,
      (createService r controller svc exposePort routeTLS w).2.objs.get?
        ⟨.Route, svc.meta.Namespace, svc.meta.Name⟩ = some route ∧
      route.meta.Name = svc.meta.Name ∧ route.meta.Namespace = svc.meta.Namespace ∧
      route.body = .Route
        { To := { Kind := "Service", Name := svc.meta.Name },
          Port := some exposePort.TargetPort,
          TLS := some tls } status ∧
      (r.ReconcilerTLS.IsCertManagerEnabled controller.declared = true →
        ∃ caCert, r.ReconcilerTLS.GetCryostatCABytes controller.declared = .ok caCert ∧
          tls = { Termination := .Reencrypt, DestinationCACertificate := caCert }) ∧
      (r.ReconcilerTLS.IsCertManagerEnabled controller.declared = false →
        tls = { Termination := .Edge, InsecureEdgeTerminationPolicy := "Redirect" }) := by
  have hfix := createService_leaves_route r controller svc svc2 exposePort routeTLS w hos hsk
    hrel hsvc
  unfold routeMutation at hfix
  obtain ⟨route, status, hget, hbody⟩ := Store.Fixed.routeSpec hfix
  have hrk := Store.get?_key _ _ _ hget
  simp only [Obj.key, Key.mk.injEq] at hrk
  unfold Reconcile.tls at htls
  cases hen : r.ReconcilerTLS.IsCertManagerEnabled controller.declared with
  | false =>
    rw [hen] at htls
    simp only [Bool.false_eq_true, if_false, run_pure, Except.ok.injEq, Prod.mk.injEq] at htls
    rw [← htls.2] at hbody
    exact ⟨route, status, _, hget, hrk.2.2, hrk.2.1, hbody, fun h => (by cases h), fun _ => rfl⟩
  | true =>
    rw [hen] at htls
    simp only [if_true] at htls
    cases hs : r.setupTLS controller.declared with
    | error e =>
      rw [hs] at htls
      simp only at htls
      split at htls <;> cases htls
    | ok tc =>
      rw [hs] at htls
      simp only at htls
      cases hca : r.ReconcilerTLS.GetCryostatCABytes controller.declared with
      | error e =>
        rw [hca] at htls
        cases htls
      | ok caCert =>
        rw [hca] at htls
        simp only [run_pure, Except.ok.injEq, Prod.mk.injEq] at htls
        rw [← htls.2] at hbody
        exact ⟨route, status, _, hget, hrk.2.2, hrk.2.1, hbody,
          fun _ => ⟨caCert, rfl, rfl⟩, fun h => (by cases h)⟩

/-- Witness for C15: the core Service of the example instance on OpenShift, with
cert-manager enabled. -/
theorem createService_route_as_wanted_witness :
    (test.reconciler true).IsOpenShift = true ∧
    (Reconcile.tls (test.reconciler true) test.NewCryostat { objs := [test.NewCryostat] }).1
      = .ok (some ⟨"cryostat-tls", "cryostat-grafana-tls", "cryostat-keystore"⟩,
          some { Termination := .Reencrypt, DestinationCACertificate := "ca" }) ∧
    ∃ route status tls,
      (createService (test.reconciler true) test.NewCryostat
        (NewExporterService test.resources test.NewCryostat) ⟨"export", 8181, 8181⟩
        (some { Termination := .Reencrypt, DestinationCACertificate := "ca" })
        { objs := [test.NewCryostat] }).2.objs.get? ⟨.Route, "default", "cryostat"⟩
        = some route ∧
      route.meta.Name = "cryostat" ∧ route.meta.Namespace = "default" ∧
      route.body = .Route
        { To := { Kind := "Service", Name := "cryostat" },
          Port := some 8181,
          TLS := some tls } status ∧
      ((test.reconciler true).ReconcilerTLS.IsCertManagerEnabled test.NewCryostat.declared
          = true →
        ∃ caCert, (test.reconciler true).ReconcilerTLS.GetCryostatCABytes
            test.NewCryostat.declared = .ok caCert ∧
          tls = { Termination := .Reencrypt, DestinationCACertificate := caCert }) ∧
      ((test.reconciler true).ReconcilerTLS.IsCertManagerEnabled test.NewCryostat.declared
          = false →
        tls = { Termination := .Edge, InsecureEdgeTerminationPolicy := "Redirect" }) :=
  ⟨rfl, (by decide),
    createService_route_as_wanted (test.reconciler true) test.NewCryostat
      (NewExporterService test.resources test.NewCryostat)
      { meta := { Name := "cryostat", Namespace := "default",
                  OwnerReferences := [⟨.Cryostat, "cryostat", true⟩] },
        body := .Service { Ports := [⟨"export", 8181, 8181⟩] } }
      ⟨"export", 8181, 8181⟩ { objs := [test.NewCryostat] } { objs := [test.NewCryostat] }
      (some ⟨"cryostat-tls", "cryostat-grafana-tls", "cryostat-keystore"⟩)
      (some { Termination := .Reencrypt, DestinationCACertificate := "ca" })
      rfl rfl (fun _ hf => by cases hf) (by decide) (by decide)⟩

end Cryostat

namespace Cryostat

/-- Counterexample to C16: the Route of the core Service has one ingress entry and its
host is empty; `createRouteForService` returns no error but a URL, with an empty host. -/
theorem createRouteForService_empty_host_is_ready :
    Store.routeIngress [test.NewRouteWithoutHost "cryostat"] ⟨.Route, "default", "cryostat"⟩
      = [⟨""⟩] ∧
    (createRouteForService test.NewCryostat (NewExporterService test.resources test.NewCryostat)
      ⟨"export", 8181, 8181⟩ (edgeByDefault none)
      { objs := [test.NewRouteWithoutHost "cryostat"] }).1
      = .ok (some { Scheme := "https", Host := "" }) := by
  decide

/-- C16 (amended): on a store that answers every call itself, for a Service in a namespace
the instance may own in, `createRouteForService` returns `ErrIngressNotReady`, and no URL,
exactly when the status of the Route has no ingress entry (as for a Route it has just
created); when the status has an ingress entry it returns a URL whose host is the host of
the first entry, also when that host is empty. -/
theorem createRouteForService_ready_iff_ingress (cr svc : Obj) (exposePort : ServicePort)
    (tlsConfig : Option TLSConfig) (w : World) (hrel : w.Reliable)
    (hns : cr.meta.Namespace = "" ∨ svc.meta.Namespace = cr.meta.Namespace) :
    (w.objs.routeIngress ⟨.Route, svc.meta.Namespace, svc.meta.Name⟩ = [] →
      (createRouteForService cr svc exposePort tlsConfig w).1 = .error ErrIngressNotReady) ∧
    (∀ ingress rest,
      w.objs.routeIngress ⟨.Route, svc.meta.Namespace, svc.meta.Name⟩ = ingress :: rest →
      (createRouteForService cr svc exposePort tlsConfig w).1
        = .ok (some { Scheme := getProtocol tlsConfig, Host := ingress.Host })) := by
  obtain ⟨route, hroute⟩ := SetControllerReference_fresh cr
    { meta := { Name := svc.meta.Name, Namespace := svc.meta.Namespace }, body := .Route {} {} }
    hns rfl
  have hres := createRouteForService_result cr svc exposePort tlsConfig w hrel
  rw [hroute] at hres
  simp only at hres
  constructor
  · intro h
    rw [hres, h]
  · intro ingress rest h
    rw [hres, h]

/-- Witness for C16: the Route of the core Service of the example instance, with the host
the platform has assigned. -/
theorem createRouteForService_ready_iff_ingress_witness :
    ({ objs := [test.NewRoute "cryostat"] } : World).Reliable ∧
    (createRouteForService test.NewCryostat (NewExporterService test.resources test.NewCryostat)
      ⟨"export", 8181, 8181⟩ (edgeByDefault none) { objs := [test.NewRoute "cryostat"] }).1
      = .ok (some { Scheme := "https", Host := "cryostat.example.com" }) :=
  ⟨(fun _ hf => by cases hf),
    (createRouteForService_ready_iff_ingress test.NewCryostat
      (NewExporterService test.resources test.NewCryostat) ⟨"export", 8181, 8181⟩
      (edgeByDefault none) { objs := [test.NewRoute "cryostat"] }
      (fun _ hf => by cases hf) (Or.inr rfl)).2 ⟨"cryostat.example.com"⟩ [] (by decide)⟩

end Cryostat

namespace Cryostat

theorem getNetworkConfig_congr_name (controller a b : Obj) (h : a.meta.Name = b.meta.Name) :
    getNetworkConfig controller a = getNetworkConfig controller b := by
  unfold getNetworkConfig
  rw [h]

/-- Off OpenShift, `createService` keeps away from Ingress objects unless the instance
declares an Ingress for the endpoint of the Service. -/
theorem createService_avoids_ingress (r : CryostatReconciler) (controller svc : Obj)
    (exposePort : ServicePort) (tlsConfig : Option TLSConfig) (hos : r.IsOpenShift = false)
    (hsk : svc.body.kind = .Service)
    (hno : ¬ ∃ opts nc spec, controller.Spec.NetworkOptions = some opts ∧
      getNetworkConfig controller svc = .ok (some nc) ∧ nc.IngressSpec = some spec) :
    Avoids .Ingress (createService r controller svc exposePort tlsConfig) := by
  unfold createService
  apply avoids_bind_ofExcept; intro svc2 h1
  have hm := SetControllerReference_meta _ _ _ h1
  have hk2 : svc2.key.kind = .Service := by
    rw [SetControllerReference_key _ _ _ h1]; exact hsk
  apply avoids_bind (createObjectIfNotExists_avoids _ _ _ _ (by decide) (by
    rw [hk2]; decide)); intro _
  rw [hos]
  simp only [Bool.false_eq_true, if_false]
  cases hopts : controller.Spec.NetworkOptions with
  | none => exact avoids_pure _ _
  | some opts =>
    simp only
    apply avoids_bind_ofExcept; intro cfg h2
    rw [getNetworkConfig_congr_name controller svc2 svc hm.1] at h2
    cases cfg with
    | none => exact avoids_pure _ _
    | some nc =>
      simp only
      cases hspec : nc.IngressSpec with
      | none => exact avoids_pure _ _
      | some spec => exact absurd ⟨opts, nc, spec, hopts, h2, hspec⟩ hno

/-- C17: off OpenShift, `createService` issues a call on an Ingress only when the instance
declares `NetworkOptions` with a configuration for the endpoint of the Service that has
an `IngressSpec`. When the instance declares no `NetworkOptions`, or no configuration for
that endpoint, or one without an `IngressSpec`, then, given that the Service takes the
owner reference and the store answers every call itself, `createService` returns neither
a URL nor an error, the Service is in the store, and no Ingress was read or created. -/
theorem createService_ingress_opt_in (r : CryostatReconciler) (controller svc : Obj)
    (exposePort : ServicePort) (tlsConfig : Option TLSConfig) (w : World)
    (hos : r.IsOpenShift = false) (hsk : svc.body.kind = .Service) :
    ((∃ c ∈ (createService r controller svc exposePort tlsConfig w).2.callsSince w,
        c.key.kind = .Ingress) →
      ∃ opts nc spec, controller.Spec.NetworkOptions = some opts ∧
        getNetworkConfig controller svc = .ok (some nc) ∧ nc.IngressSpec = some spec) ∧
    (∀ svc2, SetControllerReference controller svc = .ok svc2 → w.Reliable →
      (controller.Spec.NetworkOptions = none ∨
        getNetworkConfig controller svc = .ok none ∨
        ∃ nc, getNetworkConfig controller svc = .ok (some nc) ∧ nc.IngressSpec = none) →
      (createService r controller svc exposePort tlsConfig w).1 = .ok none ∧
      (createService r controller svc exposePort tlsConfig w).2.objs.Has
        ⟨.Service, svc.meta.Namespace, svc.meta.Name⟩ ∧
      ∀ c ∈ (createService r controller svc exposePort tlsConfig w).2.callsSince w,
        c.key.kind ≠ .Ingress) := by
  constructor
  · rintro ⟨c, hc, hk⟩
    by_contra hno
    exact (createService_avoids_ingress r controller svc exposePort tlsConfig hos hsk hno).calls
      w c hc hk
  · intro svc2 h1 hrel hq
    have hm := SetControllerReference_meta _ _ _ h1
    have hk2 : svc2.key = ⟨.Service, svc2.meta.Namespace, svc2.meta.Name⟩ := by
      have := SetControllerReference_key _ _ _ h1
      simp only [Obj.key] at this ⊢
      rw [hm.2.2, hsk]
    have hno : ¬ ∃ opts nc spec, controller.Spec.NetworkOptions = some opts ∧
        getNetworkConfig controller svc = .ok (some nc) ∧ nc.IngressSpec = some spec := by
      rintro ⟨opts, nc, spec, h2, h3, h4⟩
      rcases hq with h | h | ⟨nc2, h, h5⟩
      · rw [h] at h2; cases h2
      · rw [h] at h3; cases h3
      · rw [h] at h3
        simp only [Except.ok.injEq, Option.some.injEq] at h3
        rw [h3, h4] at h5
        cases h5
    have hres : (createService r controller svc exposePort tlsConfig w).1 = .ok none := by
      have hc := createObjectIfNotExists_reliable ⟨svc2.meta.Namespace, svc2.meta.Name⟩
        .Service svc2 w hrel hk2
      unfold createService
      rw [run_bind, run_ofExcept, h1]
      simp only
      rw [bind_of_ok _ _ _ _ hc, hos]
      simp only [Bool.false_eq_true, if_false]
      rw [getNetworkConfig_congr_name controller svc2 svc hm.1]
      rcases hq with h | h | ⟨nc2, h, h5⟩
      · rw [h]; rfl
      · cases hopts : controller.Spec.NetworkOptions with
        | none => rfl
        | some opts =>
          simp only
          rw [run_bind, run_ofExcept, h]
          rfl
      · cases hopts : controller.Spec.NetworkOptions with
        | none => rfl
        | some opts =>
          simp only
          rw [run_bind, run_ofExcept, h]
          simp only [h5]
          rfl
    exact ⟨hres,
      (createService_settled r controller svc exposePort tlsConfig w none hsk hres).1,
      (createService_avoids_ingress r controller svc exposePort tlsConfig hos hsk hno).calls w⟩

/-- Witness for C17: the core Service of the example instance, which declares no
`NetworkOptions`, on plain Kubernetes. -/
theorem createService_ingress_opt_in_witness :
    (test.reconciler false).IsOpenShift = false ∧
    test.NewCryostat.Spec.NetworkOptions = none ∧
    (createService (test.reconciler false) test.NewCryostat
      (NewExporterService test.resources test.NewCryostat) ⟨"export", 8181, 8181⟩ none
      { objs := [test.NewCryostat] }).1 = .ok none ∧
    (createService (test.reconciler false) test.NewCryostat
      (NewExporterService test.resources test.NewCryostat) ⟨"export", 8181, 8181⟩ none
      { objs := [test.NewCryostat] }).2.objs.Has ⟨.Service, "default", "cryostat"⟩ :=
  ⟨rfl, rfl,
    ((createService_ingress_opt_in (test.reconciler false) test.NewCryostat
      (NewExporterService test.resources test.NewCryostat) ⟨"export", 8181, 8181⟩ none
      { objs := [test.NewCryostat] } rfl rfl).2
      { meta := { Name := "cryostat", Namespace := "default",
                  OwnerReferences := [⟨.Cryostat, "cryostat", true⟩] },
        body := .Service { Ports := [⟨"export", 8181, 8181⟩] } }
      (by decide) (fun _ hf => by cases hf) (Or.inl rfl)).1,
    ((createService_ingress_opt_in (test.reconciler false) test.NewCryostat
      (NewExporterService test.resources test.NewCryostat) ⟨"export", 8181, 8181⟩ none
      { objs := [test.NewCryostat] } rfl rfl).2
      { meta := { Name := "cryostat", Namespace := "default",
                  OwnerReferences := [⟨.Cryostat, "cryostat", true⟩] },
        body := .Service { Ports := [⟨"export", 8181, 8181⟩] } }
      (by decide) (fun _ hf => by cases hf) (Or.inl rfl)).2.1⟩

end Cryostat

namespace Cryostat

/-- What `createIngressForService` returns, by the rules the Ingress declares: on a store
that answers every call itself and for a Service in a namespace the instance may own in,
a missing rule list gives a URL with an empty host, a first rule gives a URL with its
host, and an empty rule list that is not nil ends in the index panic of line 492. -/
theorem createIngressForService_by_rules (controller svc : Obj) (nc : NetworkConfiguration)
    (spec : IngressSpec) (w : World) (hrel : w.Reliable)
    (hns : controller.meta.Namespace = "" ∨ svc.meta.Namespace = controller.meta.Namespace)
    (hspec : nc.IngressSpec = some spec) :
    (spec.Rules = none →
      (createIngressForService controller svc nc w).1
        = .ok (some { Scheme := if spec.TLS.isSome then "https" else "http", Host := "" })) ∧
    (∀ rule rest, spec.Rules = some (rule :: rest) →
      (createIngressForService controller svc nc w).1
        = .ok (some { Scheme := if spec.TLS.isSome then "https" else "http",
                      Host := rule.Host })) ∧
    (spec.Rules = some [] →
      (createIngressForService controller svc nc w).1
        = .error (.Panic "index out of range [0] with length 0")) := by
  obtain ⟨ingress, hing⟩ := SetControllerReference_fresh controller
    { meta := { Name := svc.meta.Name, Namespace := svc.meta.Namespace,
                Annotations := nc.Annotations, Labels := nc.Labels },
      body := .Ingress spec } hns rfl
  have hres := createIngressForService_result controller svc nc w hrel
  rw [hspec] at hres
  simp only [hing] at hres
  refine ⟨fun h => ?_, fun rule rest h => ?_, fun h => ?_⟩ <;> rw [hres, h]

/-- C18, as the code has it: for the core Service of the example instance on plain
Kubernetes, with an Ingress declared whose rule list is present but empty,
`createIngressForService` does not return a URL with an empty host: it fails with the
index panic of `Rules[0]`, after the store has taken the Ingress. -/
theorem createIngressForService_empty_rules_panics :
    (createIngressForService test.NewCryostat
      (NewExporterService test.resources test.NewCryostat)
      test.NewNetworkConfigurationNoRules { objs := [test.NewCryostat] }).1
      = .error (.Panic "index out of range [0] with length 0") ∧
    (createIngressForService test.NewCryostat
      (NewExporterService test.resources test.NewCryostat)
      test.NewNetworkConfigurationNoRules { objs := [test.NewCryostat] }).2.objs.get?
        ⟨.Ingress, "default", "cryostat"⟩
      = some { meta := { Name := "cryostat", Namespace := "default",
                         OwnerReferences := [⟨.Cryostat, "cryostat", true⟩] },
               body := .Ingress { Rules := some [] } } := by
  decide

end Cryostat

namespace Cryostat

/-- Counterexample to C19: an Ingress with another host is stored under the name of the
core Service; `createIngressForService` succeeds with the URL of the declared host and
leaves the stored Ingress as it was, so the URL does not describe the Ingress in the
store. -/
theorem createIngressForService_keeps_stale_ingress :
    (createIngressForService test.NewCryostatWithIngress
      (NewExporterService test.resources test.NewCryostatWithIngress)
      (test.NewNetworkConfiguration "cryostat") { objs := [test.NewStaleIngress] }).1
      = .ok (some { Scheme := "http", Host := "testing.cryostat" }) ∧
    (createIngressForService test.NewCryostatWithIngress
      (NewExporterService test.resources test.NewCryostatWithIngress)
      (test.NewNetworkConfiguration "cryostat") { objs := [test.NewStaleIngress] }).2.objs.get?
        ⟨.Ingress, "default", "cryostat"⟩
      = some { meta := { Name := "cryostat", Namespace := "default" },
               body := .Ingress { Rules := some [⟨"old.example.com", "/"⟩] } } := by
  decide

/-- C19 (amended): after `createIngressForService` has succeeded for a Service, an Ingress
is stored under the name and namespace of the Service. If none was stored there before
the call, it has exactly the annotations, labels and spec the network configuration
supplies, so the URL returned describes it; an Ingress that was stored there before the
call is left as it was, whatever it declares. -/
theorem createIngressForService_stores_declared_when_absent (controller svc : Obj)
    (nc : NetworkConfiguration) (w : World) (url : Option URL)
    (hok : (createIngressForService controller svc nc w).1 = .ok url) :
    (w.objs.get? ⟨.Ingress, svc.meta.Namespace, svc.meta.Name⟩ = none →
      ∃ ingress spec,
        (createIngressForService controller svc nc w).2.objs.get?
          ⟨.Ingress, svc.meta.Namespace, svc.meta.Name⟩ = some ingress ∧
        nc.IngressSpec = some spec ∧ ingress.body = .Ingress spec ∧
        ingress.meta.Annotations = nc.Annotations ∧ ingress.meta.Labels = nc.Labels) ∧
    (∀ x, w.objs.get? ⟨.Ingress, svc.meta.Namespace, svc.meta.Name⟩ = some x →
      (createIngressForService controller svc nc w).2.objs.get?
        ⟨.Ingress, svc.meta.Namespace, svc.meta.Name⟩ = some x) := by
  obtain ⟨spec, ingress, hspec, hing, habs, hpres⟩ :=
    createIngressForService_stored controller svc nc w url hok
  refine ⟨fun h => ⟨ingress, spec, habs h, hspec, ?_, ?_, ?_⟩, hpres⟩
  · exact (SetControllerReference_meta _ _ _ hing).2.2
  · exact (SetControllerReference_labels _ _ _ hing).1
  · exact (SetControllerReference_labels _ _ _ hing).2

/-- Witness for C19: the core Service of the example instance with Ingress configuration,
on a store without an Ingress. -/
theorem createIngressForService_stores_declared_when_absent_witness :
    (createIngressForService test.NewCryostatWithIngress
      (NewExporterService test.resources test.NewCryostatWithIngress)
      (test.NewNetworkConfiguration "cryostat") { objs := [test.NewCryostatWithIngress] }).1
      = .ok (some { Scheme := "http", Host := "testing.cryostat" }) ∧
    ∃ ingress spec,
      (createIngressForService test.NewCryostatWithIngress
        (NewExporterService test.resources test.NewCryostatWithIngress)
        (test.NewNetworkConfiguration "cryostat")
        { objs := [test.NewCryostatWithIngress] }).2.objs.get?
          ⟨.Ingress, "default", "cryostat"⟩ = some ingress ∧
      (test.NewNetworkConfiguration "cryostat").IngressSpec = some spec ∧
      ingress.body = .Ingress spec ∧
      ingress.meta.Annotations = (test.NewNetworkConfiguration "cryostat").Annotations ∧
      ingress.meta.Labels = (test.NewNetworkConfiguration "cryostat").Labels :=
  ⟨(by decide),
    (createIngressForService_stores_declared_when_absent test.NewCryostatWithIngress
      (NewExporterService test.resources test.NewCryostatWithIngress)
      (test.NewNetworkConfiguration "cryostat") { objs := [test.NewCryostatWithIngress] }
      (some { Scheme := "http", Host := "testing.cryostat" }) (by decide)).1 (by decide)⟩

end Cryostat

namespace Cryostat

/-- C20: for an instance named `n` with `NetworkOptions` set and a Service named `s`,
`getNetworkConfig` returns the core configuration if `s = n`, the command configuration if
`s = n ++ "-command"`, the Grafana configuration if `s = n ++ "-grafana"`, and fails with
"Service name not recognized" otherwise; the three derived names are pairwise distinct, and
comparing them in any order gives what `getNetworkConfig` gives. -/
theorem getNetworkConfig_matches_one (controller svc : Obj) (opts : NetworkConfigurationList)
    (order : List Endpoint)
    (hopts : controller.Spec.NetworkOptions = some opts)
    (hperm : order.Perm [.core, .command, .grafana]) :
    (svc.meta.Name = controller.meta.Name →
      getNetworkConfig controller svc = .ok opts.CoreConfig) ∧
    (svc.meta.Name = controller.meta.Name ++ "-command" →
      getNetworkConfig controller svc = .ok opts.CommandConfig) ∧
    (svc.meta.Name = controller.meta.Name ++ "-grafana" →
      getNetworkConfig controller svc = .ok opts.GrafanaConfig) ∧
    (svc.meta.Name ≠ controller.meta.Name →
      svc.meta.Name ≠ controller.meta.Name ++ "-command" →
      svc.meta.Name ≠ controller.meta.Name ++ "-grafana" →
      getNetworkConfig controller svc = .error .ServiceNameNotRecognized) ∧
    (controller.meta.Name ≠ controller.meta.Name ++ "-command" ∧
      controller.meta.Name ≠ controller.meta.Name ++ "-grafana" ∧
      controller.meta.Name ++ "-command" ≠ controller.meta.Name ++ "-grafana") ∧
    getNetworkConfigBy order controller svc = getNetworkConfig controller svc := by
  have d1 := String.ne_append_command controller.meta.Name
  have d2 := String.ne_append_grafana controller.meta.Name
  have d3 := String.command_ne_grafana controller.meta.Name
  refine ⟨?_, ?_, ?_, ?_, ⟨d1, d2, d3⟩, ?_⟩
  · intro h
    simp [getNetworkConfig, h, hopts]
  · intro h
    simp [getNetworkConfig, h, hopts, d1.symm]
  · intro h
    simp [getNetworkConfig, h, hopts, d2.symm, d3.symm]
  · intro h1 h2 h3
    simp [getNetworkConfig, h1, h2, h3]
  · obtain ⟨x, y, z, rfl⟩ := List.length_eq_three.1 hperm.length_eq
    have hcases : ([x, y, z] : List Endpoint) = [.core, .command, .grafana] ∨
        [x, y, z] = [.command, .core, .grafana] ∨ [x, y, z] = [.grafana, .command, .core] ∨
        [x, y, z] = [.command, .grafana, .core] ∨ [x, y, z] = [.grafana, .core, .command] ∨
        [x, y, z] = [.core, .grafana, .command] := by
      cases x <;> cases y <;> cases z <;>
        first
          | (exact absurd hperm (by decide))
          | simp
    by_cases h1 : svc.meta.Name = controller.meta.Name
    · rcases hcases with h | h | h | h | h | h <;>
        (simp only [List.cons.injEq, and_true] at h
         obtain ⟨rfl, rfl, rfl⟩ := h
         simp [getNetworkConfigBy, getNetworkConfig, List.find?, Endpoint.serviceName,
           Endpoint.config, h1, hopts, d1, d2])
    · by_cases h2 : svc.meta.Name = controller.meta.Name ++ "-command"
      · rcases hcases with h | h | h | h | h | h <;>
          (simp only [List.cons.injEq, and_true] at h
           obtain ⟨rfl, rfl, rfl⟩ := h
           simp [getNetworkConfigBy, getNetworkConfig, List.find?, Endpoint.serviceName,
             Endpoint.config, h2, hopts, d1.symm, d3])
      · by_cases h3 : svc.meta.Name = controller.meta.Name ++ "-grafana"
        · rcases hcases with h | h | h | h | h | h <;>
            (simp only [List.cons.injEq, and_true] at h
             obtain ⟨rfl, rfl, rfl⟩ := h
             simp [getNetworkConfigBy, getNetworkConfig, List.find?, Endpoint.serviceName,
               Endpoint.config, h3, hopts, d2.symm, d3.symm])
        · rcases hcases with h | h | h | h | h | h <;>
            (simp only [List.cons.injEq, and_true] at h
             obtain ⟨rfl, rfl, rfl⟩ := h
             simp [getNetworkConfigBy, getNetworkConfig, List.find?, Endpoint.serviceName,
               Endpoint.config, h1, h2, h3])

/-- Witness for C20: the command channel Service of the example instance with Ingress
configuration, the names compared dashboard first. -/
theorem getNetworkConfig_matches_one_witness :
    test.NewCryostatWithIngress.Spec.NetworkOptions = some test.NewNetworkConfigurationList ∧
    [Endpoint.grafana, .core, .command].Perm [.core, .command, .grafana] ∧
    getNetworkConfig test.NewCryostatWithIngress
        (NewCommandChannelService test.resources test.NewCryostatWithIngress)
      = .ok (some (test.NewNetworkConfiguration "cryostat-command")) ∧
    getNetworkConfigBy [.grafana, .core, .command] test.NewCryostatWithIngress
        (NewCommandChannelService test.resources test.NewCryostatWithIngress)
      = getNetworkConfig test.NewCryostatWithIngress
        (NewCommandChannelService test.resources test.NewCryostatWithIngress) :=
  ⟨rfl, (by decide),
    (getNetworkConfig_matches_one test.NewCryostatWithIngress
      (NewCommandChannelService test.resources test.NewCryostatWithIngress)
      test.NewNetworkConfigurationList [.grafana, .core, .command] rfl (by decide)).2.1 rfl,
    (getNetworkConfig_matches_one test.NewCryostatWithIngress
      (NewCommandChannelService test.resources test.NewCryostatWithIngress)
      test.NewNetworkConfigurationList [.grafana, .core, .command] rfl (by decide)).2.2.2.2.2⟩

end Cryostat

namespace Cryostat

/-! ## The URLs of the Route path -/

theorem getProtocol_edgeByDefault (tlsConfig : Option TLSConfig) :
    getProtocol (edgeByDefault tlsConfig) = "https" := by
  cases tlsConfig <;> rfl

/-- Whatever the store answers, a URL that `createRouteForService` returns is there and
has the scheme `getProtocol` gives for the TLS configuration. -/
theorem createRouteForService_ok (cr svc : Obj) (exposePort : ServicePort)
    (tlsConfig : Option TLSConfig) (w : World) (x : Option URL)
    (h : (createRouteForService cr svc exposePort tlsConfig w).1 = .ok x) :
    ∃ host, x = some { Scheme := getProtocol tlsConfig, Host := host } := by
  unfold createRouteForService at h
  obtain ⟨route, _, h2⟩ := bind_ok _ _ _ _ h
  obtain ⟨res, _, h3⟩ := bind_ok _ _ _ _ h2
  obtain ⟨op, o⟩ := res
  simp only at h3
  cases hi : o.routeIngress with
  | nil =>
    simp only [hi] at h3
    cases h3
  | cons ingress rest =>
    simp only [hi, run_pure, Except.ok.injEq] at h3
    exact ⟨ingress.Host, h3.symm⟩

/-- On OpenShift, whatever the store answers, `createService` returns an error or a URL
with the scheme `https`, never neither. -/
theorem createService_openshift_ok (r : CryostatReconciler) (controller svc : Obj)
    (exposePort : ServicePort) (tlsConfig : Option TLSConfig) (w : World) (x : Option URL)
    (hos : r.IsOpenShift = true)
    (h : (createService r controller svc exposePort tlsConfig w).1 = .ok x) :
    ∃ host, x = some { Scheme := "https", Host := host } := by
  unfold createService at h
  obtain ⟨svc2, _, h2⟩ := bind_ok _ _ _ _ h
  obtain ⟨_, _, h3⟩ := bind_ok _ _ _ _ h2
  rw [if_pos hos] at h3
  obtain ⟨host, hx⟩ := createRouteForService_ok _ _ _ _ _ _ h3
  rw [getProtocol_edgeByDefault] at hx
  exact ⟨host, hx⟩

theorem Reconcile.grafana_ok (r : CryostatReconciler) (inst : Obj)
    (routeTLS : Option TLSConfig) (w : World) (url : Option URL)
    (hmin : inst.Spec.Minimal = false)
    (h : (Reconcile.grafana r inst routeTLS w).1 = .ok url) :
    (createService r inst (NewGrafanaService r.resources inst)
      (r.resources.GrafanaService inst.declared).Port routeTLS w).1 = .ok url := by
  unfold Reconcile.grafana at h
  rw [if_pos (by simp [hmin])] at h
  obtain ⟨res, h1, h2⟩ := bind_ok _ _ _ _ h
  rw [run_attempt] at h1
  simp only [Except.ok.injEq] at h1
  cases res with
  | error e => simp only at h2; cases h2
  | ok u =>
    simp only at h2
    obtain ⟨_, _, h3⟩ := bind_ok _ _ _ _ h2
    rw [run_pure] at h3
    simp only [Except.ok.injEq] at h3
    rw [h1, h3]

theorem Reconcile.grafana_minimal_ok (r : CryostatReconciler) (inst : Obj)
    (routeTLS : Option TLSConfig) (w : World) (url : Option URL)
    (hmin : inst.Spec.Minimal = true)
    (h : (Reconcile.grafana r inst routeTLS w).1 = .ok url) : url = none := by
  unfold Reconcile.grafana at h
  rw [if_neg (by simp [hmin])] at h
  obtain ⟨_, _, h2⟩ := bind_ok _ _ _ _ h
  obtain ⟨_, _, h3⟩ := bind_ok _ _ _ _ h2
  obtain ⟨_, _, h4⟩ := bind_ok _ _ _ _ h3
  rw [run_pure] at h4
  simp only [Except.ok.injEq] at h4
  exact h4.symm

theorem Reconcile.core_ok (r : CryostatReconciler) (inst : Obj)
    (routeTLS : Option TLSConfig) (w : World) (url : Option URL)
    (h : (Reconcile.core r inst routeTLS w).1 = .ok url) :
    (createService r inst (NewExporterService r.resources inst)
      (r.resources.ExporterService inst.declared).Port routeTLS w).1 = .ok url := by
  unfold Reconcile.core at h
  obtain ⟨res, h1, h2⟩ := bind_ok _ _ _ _ h
  rw [run_attempt] at h1
  simp only [Except.ok.injEq] at h1
  cases res with
  | error e => simp only at h2; cases h2
  | ok u =>
    simp only [run_pure, Except.ok.injEq] at h2
    rw [h1, h2]

theorem Reconcile.command_ok (r : CryostatReconciler) (inst : Obj)
    (routeTLS : Option TLSConfig) (w : World) (url : Option URL)
    (h : (Reconcile.command r inst routeTLS w).1 = .ok url) :
    (createService r inst (NewCommandChannelService r.resources inst)
      (r.resources.CommandChannelService inst.declared).Port routeTLS w).1 = .ok url := by
  unfold Reconcile.command at h
  obtain ⟨res, h1, h2⟩ := bind_ok _ _ _ _ h
  rw [run_attempt] at h1
  simp only [Except.ok.injEq] at h1
  cases res with
  | error e => simp only at h2; cases h2
  | ok u =>
    simp only [run_pure, Except.ok.injEq] at h2
    rw [h1, h2]

end Cryostat

namespace Cryostat

/-- The three URLs of a pass that has come through the command section are the ones the
three sections have yielded. -/
theorem Reconcile.toCommand_urls (r : CryostatReconciler) (request : NamespacedName)
    (w : World) (st : PassState) (h : (Reconcile.toCommand r request w).1 = .ok st) :
    (Reconcile.grafana r st.inst st.routeTLS (Reconcile.toRBAC r request w).2).1
        = .ok st.serviceSpecs.GrafanaURL ∧
      (Reconcile.core r st.inst st.routeTLS (Reconcile.toGrafana r request w).2).1
        = .ok st.serviceSpecs.CoreURL ∧
      (Reconcile.command r st.inst st.routeTLS (Reconcile.toCore r request w).2).1
        = .ok st.serviceSpecs.CommandURL := by
  unfold Reconcile.toCommand at h
  obtain ⟨st5, h5, h5b⟩ := bind_ok _ _ _ _ h
  obtain ⟨u5, h5c, h5d⟩ := bind_ok _ _ _ _ h5b
  rw [run_pure] at h5d
  simp only [Except.ok.injEq] at h5d
  have h5e := h5
  unfold Reconcile.toCore at h5e
  obtain ⟨st4, h4, h4b⟩ := bind_ok _ _ _ _ h5e
  obtain ⟨u4, h4c, h4d⟩ := bind_ok _ _ _ _ h4b
  rw [run_pure] at h4d
  simp only [Except.ok.injEq] at h4d
  have h4e := h4
  unfold Reconcile.toGrafana at h4e
  obtain ⟨st3, h3, h3b⟩ := bind_ok _ _ _ _ h4e
  obtain ⟨u3, h3c, h3d⟩ := bind_ok _ _ _ _ h3b
  rw [run_pure] at h3d
  simp only [Except.ok.injEq] at h3d
  subst h5d h4d h3d
  exact ⟨h3c, h4c, h5c⟩

end Cryostat

namespace Cryostat

/-! ## The error policy: a failed call ends the computation -/

theorem stops_pure {ε α : Type} {A : Call → Prop} {F : ε → Call → Prop} (a : α) :
    Stops A F (pure a : Op ε α) :=
  fun w => ⟨[], by rw [run_pure, List.append_nil], fun pre c post h => by
    cases pre <;> cases h⟩

theorem stops_fail {ε α : Type} {A : Call → Prop} {F : ε → Call → Prop} (e : ε) :
    Stops A F (Op.fail e : Op ε α) :=
  fun w => ⟨[], by rw [run_fail, List.append_nil], fun pre c post h => by
    cases pre <;> cases h⟩

theorem stops_ofExcept {ε α : Type} {A : Call → Prop} {F : ε → Call → Prop}
    (x : Except ε α) : Stops A F (Op.ofExcept x : Op ε α) :=
  fun w => ⟨[], by rw [run_ofExcept, List.append_nil], fun pre c post h => by
    cases pre <;> cases h⟩

theorem stops_bind_of {ε α β : Type} {A : Call → Prop} {F : ε → Call → Prop}
    {m : Op ε α} {f : α → Op ε β} (hm : Stops A F m)
    (hf : ∀ a, (∃ w, (m w).1 = .ok a) → Stops A F (f a)) : Stops A F (m >>= f) := by
  intro w
  obtain ⟨Lm, hLm, hm2⟩ := hm w
  cases h : (m w).1 with
  | error x =>
    refine ⟨Lm, by rw [bind_of_error _ _ _ _ h]; exact hLm, fun pre c post hL hc hA => ?_⟩
    obtain ⟨hp, y, hy, hF⟩ := hm2 pre c post hL hc hA
    refine ⟨hp, y, ?_, hF⟩
    rw [bind_of_error _ _ _ _ h]
    rw [h] at hy
    simp only [Except.error.injEq] at hy
    rw [hy]
  | ok a =>
    obtain ⟨Lf, hLf, hf2⟩ := hf a ⟨w, h⟩ (m w).2
    refine ⟨Lm ++ Lf, by rw [bind_of_ok _ _ _ _ h, hLf, hLm, List.append_assoc],
      fun pre c post hL hc hA => ?_⟩
    rw [bind_of_ok _ _ _ _ h]
    rcases List.append_eq_append_iff.1 hL with ⟨a2, _, h2⟩ | ⟨c2, h1, h2⟩
    · exact hf2 a2 c post h2 hc hA
    · cases c2 with
      | nil =>
        rw [List.nil_append] at h2
        exact hf2 [] c post h2.symm hc hA
      | cons d rest =>
        rw [List.cons_append, List.cons.injEq] at h2
        exfalso
        obtain ⟨_, y, hy, _⟩ := hm2 pre c rest (by rw [h1, h2.1]) hc hA
        rw [h] at hy
        cases hy

theorem stops_bind {ε α β : Type} {A : Call → Prop} {F : ε → Call → Prop}
    {m : Op ε α} {f : α → Op ε β} (hm : Stops A F m) (hf : ∀ a, Stops A F (f a)) :
    Stops A F (m >>= f) :=
  stops_bind_of hm (fun a _ => hf a)

theorem stops_mono {ε α : Type} {A B : Call → Prop} {F G : ε → Call → Prop} {m : Op ε α}
    (h : Stops A F m) (hA : ∀ c, A c → B c) (hF : ∀ x c, F x c → G x c) : Stops B G m := by
  intro w
  obtain ⟨L, hL, h2⟩ := h w
  refine ⟨L, hL, fun pre c post hs hc hB => ?_⟩
  obtain ⟨hp, x, hx, hf⟩ := h2 pre c post hs hc (fun ha => hB (hA c ha))
  exact ⟨hp, x, hx, hF x c hf⟩

/-- A function whose error is handed on by `return reconcile.Result{}, err`. -/
theorem stops_orReturn {α : Type} {A : Call → Prop} {m : Op Err α}
    (h : Stops A Raised m) : Stops A Surfaced (orReturn m) := by
  intro w
  obtain ⟨L, hL, h2⟩ := h w
  refine ⟨L, by rw [orReturn_world]; exact hL, fun pre c post hs hc hA => ?_⟩
  obtain ⟨hp, e, he, hr, hd⟩ := h2 pre c post hs hc hA
  refine ⟨hp, ({}, some e), by rw [run_orReturn, he], ?_⟩
  unfold Surfaced
  rw [hr]
  exact Or.inr ⟨hd, Or.inl rfl⟩

/-- One client call: if it fails, its error is returned. -/
theorem stops_call {α : Type} {A : Call → Prop} (verb : Verb) (key : Key) (obj : Option Obj)
    (sem : Store → Except Err (α × Store)) (hd : ¬ (verb = .Delete ∧ key.kind = .Deployment)) :
    Stops A Raised (Client.call verb key obj sem) := by
  intro w
  refine ⟨_, Client.call_log verb key obj sem w, fun pre c post hs hc hA => ?_⟩
  cases pre with
  | cons d rest =>
    rw [List.cons_append, List.cons.injEq] at hs
    cases rest <;> cases hs.2
  | nil =>
    rw [List.nil_append, List.cons.injEq] at hs
    obtain ⟨h1, h2⟩ := hs
    refine ⟨h2.symm, ?_⟩
    subst h1
    cases hr : (Client.call verb key obj sem w).1 with
    | ok a => rw [hr] at hc; exact absurd rfl hc
    | error e => exact ⟨e, rfl, rfl, hd⟩

/-- A call whose error is looked at: the continuation goes on after the errors `A`
tolerates and ends at once with any other. What the call returns satisfies `P`. -/
theorem stops_attempt_call_of {ε α β : Type} {A : Call → Prop} {F : ε → Call → Prop}
    (verb : Verb) (key : Key) (obj : Option Obj) (sem : Store → Except Err (α × Store))
    (P : Except Err α → Prop) (hP : ∀ w, P (Client.call verb key obj sem w).1)
    (f : Except Err α → Op ε β) (hf : ∀ res, P res → Stops A F (f res))
    (herr : ∀ e s, ¬ A ⟨verb, key, obj, some e, s⟩ →
      ∃ x, f (.error e) = Op.fail x ∧ F x ⟨verb, key, obj, some e, s⟩) :
    Stops A F (Op.attempt (Client.call verb key obj sem) >>= f) := by
  intro w
  obtain ⟨Lf, hLf, hf2⟩ := hf (Client.call verb key obj sem w).1 (hP w)
    (Client.call verb key obj sem w).2
  have hb : (Op.attempt (Client.call verb key obj sem) >>= f) w
      = f (Client.call verb key obj sem w).1 (Client.call verb key obj sem w).2 := by
    rw [run_bind, run_attempt]
  rw [hb]
  refine ⟨⟨verb, key, obj, errOf (Client.call verb key obj sem w).1, w.objs⟩ :: Lf, ?_,
    fun pre c post hs hc hA => ?_⟩
  · rw [hLf, Client.call_log, List.append_assoc]
    rfl
  · cases pre with
    | cons d rest =>
      rw [List.cons_append, List.cons.injEq] at hs
      exact hf2 rest c post hs.2 hc hA
    | nil =>
      rw [List.nil_append, List.cons.injEq] at hs
      obtain ⟨h1, h2⟩ := hs
      subst h1
      cases hr : (Client.call verb key obj sem w).1 with
      | ok a => rw [hr] at hc; exact absurd rfl hc
      | error e =>
        rw [hr] at hA hLf
        obtain ⟨x, hx, hF⟩ := herr e w.objs hA
        rw [hx, run_fail] at hLf
        have hnil : Lf = [] := by
          have := hLf
          nth_rewrite 1 [← List.append_nil (Client.call verb key obj sem w).2.log] at this
          exact (List.append_cancel_left this).symm
        rw [hx, run_fail]
        exact ⟨by rw [← h2, hnil], x, rfl, hF⟩

theorem stops_attempt_call {ε α β : Type} {A : Call → Prop} {F : ε → Call → Prop}
    (verb : Verb) (key : Key) (obj : Option Obj) (sem : Store → Except Err (α × Store))
    (f : Except Err α → Op ε β) (hf : ∀ res, Stops A F (f res))
    (herr : ∀ e s, ¬ A ⟨verb, key, obj, some e, s⟩ →
      ∃ x, f (.error e) = Op.fail x ∧ F x ⟨verb, key, obj, some e, s⟩) :
    Stops A F (Op.attempt (Client.call verb key obj sem) >>= f) :=
  stops_attempt_call_of verb key obj sem (fun _ => True) (fun _ => trivial) f
    (fun res _ => hf res) herr

/-- A read whose error is looked at; what it returns is stored under the key read. -/
theorem stops_attempt_get {ε β : Type} {A : Call → Prop} {F : ε → Call → Prop}
    (k : Key) (f : Except Err Obj → Op ε β)
    (hf : ∀ res, (∀ o, res = .ok o → o.key = k) → Stops A F (f res))
    (herr : ∀ e s, ¬ A ⟨.Get, k, none, some e, s⟩ →
      ∃ x, f (.error e) = Op.fail x ∧ F x ⟨.Get, k, none, some e, s⟩) :
    Stops A F (Op.attempt (Client.Get k) >>= f) :=
  stops_attempt_call_of _ _ _ _ (fun res => ∀ o, res = .ok o → o.key = k)
    (fun w o ho => (Client.Get_ok k w o ho).2) f hf herr

/-- A function whose error is looked at and ends the computation whatever it is. -/
theorem stops_attempt_bind {ε ε2 α β : Type} {A : Call → Prop} {F0 : ε → Call → Prop}
    {F : ε2 → Call → Prop} {m : Op ε α} (f : Except ε α → Op ε2 β) (hm : Stops A F0 m)
    (hok : ∀ a, Stops A F (f (.ok a)))
    (herr : ∀ e, ∃ x, f (.error e) = Op.fail x ∧ ∀ c, F0 e c → F x c) :
    Stops A F (Op.attempt m >>= f) := by
  intro w
  obtain ⟨Lm, hLm, hm2⟩ := hm w
  have hb : (Op.attempt m >>= f) w = f (m w).1 (m w).2 := by
    rw [run_bind, run_attempt]
  rw [hb]
  cases hr : (m w).1 with
  | error e =>
    obtain ⟨x, hx, hF⟩ := herr e
    rw [hx, run_fail]
    refine ⟨Lm, hLm, fun pre c post hs hc hA => ?_⟩
    obtain ⟨hp, y, hy, hF0⟩ := hm2 pre c post hs hc hA
    rw [hr] at hy
    simp only [Except.error.injEq] at hy
    subst hy
    exact ⟨hp, x, rfl, hF c hF0⟩
  | ok a =>
    obtain ⟨Lf, hLf, hf2⟩ := hok a (m w).2
    refine ⟨Lm ++ Lf, by rw [hLf, hLm, List.append_assoc], fun pre c post hL hc hA => ?_⟩
    rcases List.append_eq_append_iff.1 hL with ⟨a2, _, h2⟩ | ⟨c2, h1, h2⟩
    · exact hf2 a2 c post h2 hc hA
    · cases c2 with
      | nil =>
        rw [List.nil_append] at h2
        exact hf2 [] c post h2.symm hc hA
      | cons d rest =>
        rw [List.cons_append, List.cons.injEq] at h2
        exfalso
        obtain ⟨_, y, hy, _⟩ := hm2 pre c rest (by rw [h1, h2.1]) hc hA
        rw [hr] at hy
        cases hy

end Cryostat

namespace Cryostat

theorem Err.IsNotFound_iff (e : Err) : e.IsNotFound = true ↔ e = .NotFound := by
  cases e <;> simp [Err.IsNotFound]

theorem not_tolerated_get {ns name : String} {k : Key} {o : Option Obj} {e : Err} {s : Store}
    (h : ¬ Tolerated ns name ⟨.Get, k, o, some e, s⟩) : e.IsNotFound = false := by
  cases hn : e.IsNotFound with
  | false => rfl
  | true =>
    exfalso
    apply h
    rw [(Err.IsNotFound_iff e).1 hn]
    exact Or.inl ⟨rfl, Or.inl rfl⟩

theorem not_tolerated_delete {ns name : String} {k : Key} {o : Option Obj} {e : Err}
    {s : Store} (h : ¬ Tolerated ns name ⟨.Delete, k, o, some e, s⟩) :
    e.IsNotFound = false := by
  cases hn : e.IsNotFound with
  | false => rfl
  | true =>
    exfalso
    apply h
    rw [(Err.IsNotFound_iff e).1 hn]
    exact Or.inl ⟨rfl, Or.inr rfl⟩

theorem stops_get (ns name : String) (k : Key) :
    Stops (Tolerated ns name) Raised (Client.Get k) :=
  stops_call _ _ _ _ (fun h => by cases h.1)

theorem stops_create (ns name : String) (o : Obj) :
    Stops (Tolerated ns name) Raised (Client.Create o) :=
  stops_call _ _ _ _ (fun h => by cases h.1)

theorem stops_update (ns name : String) (o : Obj) :
    Stops (Tolerated ns name) Raised (Client.Update o) :=
  stops_call _ _ _ _ (fun h => by cases h.1)

theorem stops_statusUpdate (ns name : String) (o : Obj) :
    Stops (Tolerated ns name) Raised (Client.StatusUpdate o) :=
  stops_call _ _ _ _ (fun h => by cases h.1)

theorem stops_delete (ns name : String) (o : Obj) (h : o.key.kind ≠ .Deployment) :
    Stops (Tolerated ns name) Raised (Client.Delete o) :=
  stops_call _ _ _ _ (fun h2 => h h2.2)

theorem createObjectIfNotExists_stops (ns name : String) (nn : NamespacedName) (found : Kind)
    (toCreate : Obj) :
    Stops (Tolerated ns name) Raised (createObjectIfNotExists nn found toCreate) := by
  unfold createObjectIfNotExists Client.Get
  apply stops_attempt_call
  · intro res
    split
    · split
      · exact stops_create ns name _
      · exact stops_fail _
    · exact stops_pure _
  · intro e s hA
    have hn := not_tolerated_get hA
    refine ⟨e, ?_, rfl, fun h => by cases h.1⟩
    simp only [hn]
    rfl

theorem CreateOrUpdate_stops (ns name : String) (obj : Obj) (f : Obj → Obj) :
    Stops (Tolerated ns name) Raised (CreateOrUpdate obj f) := by
  have h : ∀ dec : Obj → Obj → Obj, Stops (Tolerated ns name) Raised
      (Op.attempt (Client.Get obj.key) >>= fun res =>
        (match res with
        | .error err =>
          if err.IsNotFound then
            (Client.Create (f obj) >>= fun _ => pure (OperationResult.Created, f obj))
          else Op.fail err
        | .ok stored =>
          if Obj.readInto dec stored obj = f (Obj.readInto dec stored obj)
          then pure (OperationResult.None, Obj.readInto dec stored obj)
          else
            (Client.Update (f (Obj.readInto dec stored obj)) >>= fun _ =>
              pure (OperationResult.Updated, f (Obj.readInto dec stored obj))) :
          Op Err (OperationResult × Obj))) := by
    intro dec
    unfold Client.Get
    apply stops_attempt_call
    · intro res
      split
      · split
        · exact stops_bind (stops_create ns name _) (fun _ => stops_pure _)
        · exact stops_fail _
      · split
        · exact stops_pure _
        · exact stops_bind (stops_update ns name _) (fun _ => stops_pure _)
    · intro e s hA
      have hn := not_tolerated_get hA
      refine ⟨e, ?_, rfl, fun h => by cases h.1⟩
      simp only [hn]
      rfl
  intro w
  rw [CreateOrUpdate_run]
  exact h w.decodeInto w

theorem createRouteForService_stops (ns name : String) (cr svc : Obj)
    (exposePort : ServicePort) (tlsConfig : Option TLSConfig) :
    Stops (Tolerated ns name) Raised (createRouteForService cr svc exposePort tlsConfig) := by
  unfold createRouteForService
  apply stops_bind (stops_ofExcept _); intro route
  apply stops_bind (CreateOrUpdate_stops ns name _ _); intro res
  obtain ⟨op, route2⟩ := res
  simp only
  split
  · exact stops_fail _
  · exact stops_pure _

theorem createIngressForService_stops (ns name : String) (controller svc : Obj)
    (networkConfig : NetworkConfiguration) :
    Stops (Tolerated ns name) Raised (createIngressForService controller svc networkConfig) := by
  unfold createIngressForService
  split
  · exact stops_fail _
  · apply stops_bind (stops_ofExcept _); intro ingress
    unfold Client.Get
    apply stops_attempt_call
    · intro res
      refine stops_bind ?_ (fun _ => stops_bind ?_ (fun _ => stops_pure _))
      · split
        · split
          · exact stops_create ns name _
          · exact stops_fail _
        · exact stops_pure _
      · split
        · exact stops_pure _
        · exact stops_fail _
        · exact stops_pure _
    · intro e s hA
      have hn := not_tolerated_get hA
      refine ⟨e, ?_, rfl, fun h => by cases h.1⟩
      simp only [hn]
      rfl

theorem createService_stops (ns name : String) (r : CryostatReconciler)
    (controller svc : Obj) (exposePort : ServicePort) (tlsConfig : Option TLSConfig) :
    Stops (Tolerated ns name) Raised (createService r controller svc exposePort tlsConfig) := by
  unfold createService
  apply stops_bind (stops_ofExcept _); intro svc2
  apply stops_bind (createObjectIfNotExists_stops ns name _ _ _); intro _
  split
  · exact createRouteForService_stops ns name _ _ _ _
  · split
    · exact stops_pure _
    · apply stops_bind (stops_ofExcept _); intro cfg
      split
      · exact stops_pure _
      · split
        · exact stops_pure _
        · exact createIngressForService_stops ns name _ _ _

theorem createRBAC_stops (ns name : String) (r : CryostatReconciler) (cr : Obj) :
    Stops (Tolerated ns name) Raised (createRBAC r cr) := by
  unfold createRBAC
  apply stops_bind (stops_ofExcept _); intro sa
  apply stops_bind (createObjectIfNotExists_stops ns name _ _ _); intro _
  apply stops_bind (stops_ofExcept _); intro role
  apply stops_bind (createObjectIfNotExists_stops ns name _ _ _); intro _
  apply stops_bind (stops_ofExcept _); intro binding
  apply stops_bind (createObjectIfNotExists_stops ns name _ _ _); intro _
  exact createObjectIfNotExists_stops ns name _ _ _

theorem getFSGroup_stops (ns name : String) (r : CryostatReconciler) (namespace_ : String) :
    Stops (Tolerated ns name) Raised (getFSGroup r namespace_) := by
  unfold getFSGroup
  split
  · apply stops_bind (stops_get ns name _); intro nsObj
    split
    · exact stops_ofExcept _
    · exact stops_pure _
  · exact stops_pure _

theorem deleteClusterRoleBinding_stops (ns name : String) (r : CryostatReconciler)
    (cr : Obj) : Stops (Tolerated ns name) Raised (deleteClusterRoleBinding r cr) :=
  stops_delete ns name _ (by simp [Obj.key, NewClusterRoleBindingForCR, Body.kind])

theorem deleteConsoleLink_stops (ns name : String) (r : CryostatReconciler)
    (cr : Obj) : Stops (Tolerated ns name) Raised (deleteConsoleLink r cr) :=
  stops_delete ns name _ (by simp [Obj.key, NewConsoleLink, Body.kind])

theorem createConsoleLink_stops (ns name : String) (r : CryostatReconciler)
    (cr : Obj) (url : String) :
    Stops (Tolerated ns name) Raised (createConsoleLink r cr url) :=
  createObjectIfNotExists_stops ns name _ _ _

theorem common.AddFinalizer_stops (ns name : String) (obj : Obj) (finalizer : String) :
    Stops (Tolerated ns name) Raised (common.AddFinalizer obj finalizer) :=
  stops_bind (stops_update ns name _) (fun _ => stops_pure _)

theorem common.RemoveFinalizer_stops (ns name : String) (obj : Obj) (finalizer : String) :
    Stops (Tolerated ns name) Raised (common.RemoveFinalizer obj finalizer) :=
  stops_bind (stops_update ns name _) (fun _ => stops_pure _)

end Cryostat

namespace Cryostat

theorem surfaced_plain (e : Err) (c : Call) (h : Raised e c) : Surfaced ({}, some e) c := by
  unfold Surfaced
  rw [h.1]
  exact Or.inr ⟨h.2, Or.inl rfl⟩

theorem surfaced_requeue (e : Err) (c : Call) (h : Raised e c) :
    Surfaced (requeueIfIngressNotReady e) c := by
  unfold Surfaced requeueIfIngressNotReady
  rw [h.1]
  simp only
  split
  · rename_i he
    exact Or.inr ⟨h.2, Or.inr ⟨he, rfl⟩⟩
  · exact Or.inr ⟨h.2, Or.inl rfl⟩

theorem Reconcile.fetch_stops (request : NamespacedName) :
    Stops (Tolerated request.Namespace request.Name) Surfaced (Reconcile.fetch request) := by
  unfold Reconcile.fetch Client.Get
  apply stops_attempt_call
  · intro res
    split
    · split
      · exact stops_fail _
      · exact stops_fail _
    · exact stops_pure _
  · intro e s hA
    have hn := not_tolerated_get hA
    refine ⟨({}, some e), ?_, surfaced_plain e _ ⟨rfl, fun h => by cases h.1⟩⟩
    simp only [hn]
    rfl

theorem Reconcile.finalize_stops (ns name : String) (r : CryostatReconciler) (inst : Obj) :
    Stops (Tolerated ns name) Surfaced (Reconcile.finalize r inst) := by
  unfold Reconcile.finalize
  split
  · refine stops_bind ?_ (fun _ => stops_fail _)
    split
    · refine stops_bind (stops_orReturn (deleteClusterRoleBinding_stops ns name r inst))
        (fun _ => stops_bind ?_ (fun _ => stops_bind
          (stops_orReturn (common.RemoveFinalizer_stops ns name _ _)) (fun _ => stops_pure _)))
      split
      · exact stops_orReturn (deleteConsoleLink_stops ns name r inst)
      · exact stops_pure _
    · exact stops_pure _
  · exact stops_pure _

theorem Reconcile.addFinalizer_stops (ns name : String) (inst : Obj) :
    Stops (Tolerated ns name) Surfaced (Reconcile.addFinalizer inst) := by
  unfold Reconcile.addFinalizer
  split
  · exact stops_orReturn (common.AddFinalizer_stops ns name _ _)
  · exact stops_pure _

theorem Reconcile.storage_stops (ns name : String) (r : CryostatReconciler) (inst : Obj) :
    Stops (Tolerated ns name) Surfaced (Reconcile.storage r inst) := by
  unfold Reconcile.storage
  exact stops_bind (stops_orReturn (stops_ofExcept _)) (fun _ =>
    stops_orReturn (createObjectIfNotExists_stops ns name _ _ _))

theorem Reconcile.secrets_stops (ns name : String) (r : CryostatReconciler) (inst : Obj) :
    Stops (Tolerated ns name) Surfaced (Reconcile.secrets r inst) := by
  unfold Reconcile.secrets
  exact stops_bind (stops_orReturn (stops_ofExcept _)) (fun _ =>
    stops_bind (stops_orReturn (createObjectIfNotExists_stops ns name _ _ _)) (fun _ =>
      stops_bind (stops_orReturn (stops_ofExcept _)) (fun _ =>
        stops_orReturn (createObjectIfNotExists_stops ns name _ _ _))))

theorem Reconcile.tls_stops (ns name : String) (r : CryostatReconciler) (inst : Obj) :
    Stops (Tolerated ns name) Surfaced (Reconcile.tls r inst) := by
  unfold Reconcile.tls
  split
  · split
    · split
      · exact stops_fail _
      · exact stops_fail _
    · split
      · exact stops_fail _
      · exact stops_pure _
  · exact stops_pure _

theorem Reconcile.rbac_stops (ns name : String) (r : CryostatReconciler) (inst : Obj) :
    Stops (Tolerated ns name) Surfaced (Reconcile.rbac r inst) :=
  stops_orReturn (createRBAC_stops ns name r inst)

theorem Reconcile.deleteDeployment_stops (inst : Obj) (mismatch : Nat → Bool) :
    Stops (Tolerated inst.meta.Namespace inst.meta.Name) Surfaced
      (Reconcile.deleteDeployment inst mismatch) := by
  unfold Reconcile.deleteDeployment
  apply stops_attempt_get
  · intro res hres
    split
    · rename_i deployment
      have hk := hres deployment rfl
      split
      · unfold Client.Delete
        apply stops_attempt_call
        · intro del
          split
          · split
            · exact stops_fail _
            · exact stops_pure _
          · exact stops_pure _
        · intro e s hA
          have hn := not_tolerated_delete hA
          refine ⟨({ Requeue := true, RequeueAfter := Second * 10 }, some e), ?_, ?_⟩
          · simp only [hn]
            rfl
          · unfold Surfaced
            exact Or.inl ⟨⟨rfl, by rw [hk]⟩, rfl⟩
      · exact stops_pure _
    · exact stops_pure _
  · intro e s hA
    exact absurd (Or.inr ⟨rfl, Or.inl rfl⟩) hA

theorem Reconcile.deleteExposure_stops (ns name : String) (kind : Kind) (svc : Obj)
    (hk : kind ≠ .Deployment) :
    Stops (Tolerated ns name) Surfaced (Reconcile.deleteExposure kind svc) := by
  unfold Reconcile.deleteExposure
  apply stops_attempt_get
  · intro res hres
    split
    · split
      · exact stops_fail _
      · exact stops_pure _
    · rename_i exposure
      have hke := hres exposure rfl
      unfold Client.Delete
      apply stops_attempt_call
      · intro del
        split
        · split
          · exact stops_fail _
          · exact stops_pure _
        · exact stops_pure _
      · intro e s hA
        have hn := not_tolerated_delete hA
        refine ⟨({}, some e), ?_, surfaced_plain e _ ⟨rfl, fun h => hk (by
          have := h.2
          rw [hke] at this
          exact this)⟩⟩
        simp only [hn]
        rfl
  · intro e s hA
    have hn := not_tolerated_get hA
    refine ⟨({}, some e), ?_, surfaced_plain e _ ⟨rfl, fun h => by cases h.1⟩⟩
    simp only [hn]
    rfl

theorem Reconcile.deleteGrafanaService_stops (r : CryostatReconciler) (inst : Obj) :
    Stops (Tolerated inst.meta.Namespace inst.meta.Name) Surfaced
      (Reconcile.deleteGrafanaService (NewGrafanaService r.resources inst)) := by
  unfold Reconcile.deleteGrafanaService
  apply stops_attempt_get
  · intro res hres
    split
    · rename_i found
      have hkf := hres found rfl
      unfold Client.Delete
      apply stops_attempt_call
      · intro del
        split
        · split
          · exact stops_fail _
          · exact stops_pure _
        · exact stops_pure _
      · intro e s hA
        have hn := not_tolerated_delete hA
        refine ⟨({}, some e), ?_, surfaced_plain e _ ⟨rfl, fun h => by
          have := h.2
          rw [hkf] at this
          cases this⟩⟩
        simp only [hn]
        rfl
    · exact stops_pure _
  · intro e s hA
    exact absurd (Or.inr ⟨rfl, Or.inr rfl⟩) hA

end Cryostat

namespace Cryostat

theorem Reconcile.grafana_stops (r : CryostatReconciler) (inst : Obj)
    (routeTLS : Option TLSConfig) :
    Stops (Tolerated inst.meta.Namespace inst.meta.Name) Surfaced
      (Reconcile.grafana r inst routeTLS) := by
  unfold Reconcile.grafana
  split
  · apply stops_attempt_bind _ (createService_stops _ _ r inst _ _ _)
    · intro url
      exact stops_bind (Reconcile.deleteDeployment_stops inst _) (fun _ => stops_pure _)
    · intro e
      exact ⟨_, rfl, fun c hc => surfaced_requeue e c hc⟩
  · refine stops_bind (Reconcile.deleteExposure_stops _ _ _ _ ?_) (fun _ =>
      stops_bind (Reconcile.deleteGrafanaService_stops r inst) (fun _ =>
        stops_bind (Reconcile.deleteDeployment_stops inst _) (fun _ => stops_pure _)))
    split <;> exact fun h => by cases h

theorem Reconcile.core_stops (ns name : String) (r : CryostatReconciler) (inst : Obj)
    (routeTLS : Option TLSConfig) :
    Stops (Tolerated ns name) Surfaced (Reconcile.core r inst routeTLS) := by
  unfold Reconcile.core
  apply stops_attempt_bind _ (createService_stops ns name r inst _ _ _)
  · intro url
    exact stops_pure _
  · intro e
    exact ⟨_, rfl, fun c hc => surfaced_requeue e c hc⟩

theorem Reconcile.command_stops (ns name : String) (r : CryostatReconciler) (inst : Obj)
    (routeTLS : Option TLSConfig) :
    Stops (Tolerated ns name) Surfaced (Reconcile.command r inst routeTLS) := by
  unfold Reconcile.command
  apply stops_attempt_bind _ (createService_stops ns name r inst _ _ _)
  · intro url
    exact stops_pure _
  · intro e
    exact ⟨_, rfl, fun c hc => surfaced_requeue e c hc⟩

theorem Reconcile.deployment_stops (ns name : String) (r : CryostatReconciler) (inst : Obj)
    (serviceSpecs : ServiceSpecs) (tlsConfig : Option ResourcesTLSConfig) :
    Stops (Tolerated ns name) Surfaced (Reconcile.deployment r inst serviceSpecs tlsConfig) := by
  unfold Reconcile.deployment
  exact stops_bind (stops_orReturn (getFSGroup_stops ns name r _)) (fun _ =>
    stops_bind (stops_orReturn (stops_ofExcept _)) (fun _ =>
      stops_bind (stops_orReturn (CreateOrUpdate_stops ns name _ _)) (fun _ => stops_pure _)))

theorem Reconcile.status_stops (ns name : String) (inst : Obj) (serviceSpecs : ServiceSpecs) :
    Stops (Tolerated ns name) Surfaced (Reconcile.status inst serviceSpecs) := by
  unfold Reconcile.status
  split
  · exact stops_bind (stops_orReturn (stops_statusUpdate ns name _)) (fun _ => stops_pure _)
  · exact stops_pure _

theorem Reconcile.consoleLink_stops (ns name : String) (r : CryostatReconciler) (inst : Obj)
    (serviceSpecs : ServiceSpecs) :
    Stops (Tolerated ns name) Surfaced (Reconcile.consoleLink r inst serviceSpecs) := by
  unfold Reconcile.consoleLink
  split
  · split
    · exact stops_fail _
    · exact stops_orReturn (createConsoleLink_stops ns name r inst _)
  · exact stops_pure _

/-- The error policy of a pass: a call that fails, unless it is one the pass may go on
after, is the last call of the pass, and the pass ends with its error. -/
theorem Reconcile.pass_stops (r : CryostatReconciler) (request : NamespacedName) :
    Stops (Tolerated request.Namespace request.Name) Surfaced (Reconcile.pass r request) := by
  have h1 : Stops (Tolerated request.Namespace request.Name) Surfaced
      (Reconcile.toFinalizer r request) := by
    unfold Reconcile.toFinalizer
    exact stops_bind (Reconcile.fetch_stops request) (fun inst =>
      stops_bind (Reconcile.finalize_stops _ _ r inst) (fun _ =>
        Reconcile.addFinalizer_stops _ _ inst))
  have h2 : Stops (Tolerated request.Namespace request.Name) Surfaced
      (Reconcile.toSecrets r request) := by
    unfold Reconcile.toSecrets
    exact stops_bind h1 (fun inst =>
      stops_bind (Reconcile.storage_stops _ _ r inst) (fun _ =>
        stops_bind (Reconcile.secrets_stops _ _ r inst) (fun _ => stops_pure _)))
  have h3 : Stops (Tolerated request.Namespace request.Name) Surfaced
      (Reconcile.toRBAC r request) := by
    unfold Reconcile.toRBAC
    exact stops_bind h2 (fun inst =>
      stops_bind (Reconcile.tls_stops _ _ r inst) (fun _ =>
        stops_bind (Reconcile.rbac_stops _ _ r inst) (fun _ => stops_pure _)))
  have h4 : Stops (Tolerated request.Namespace request.Name) Surfaced
      (Reconcile.toGrafana r request) := by
    unfold Reconcile.toGrafana
    refine stops_bind_of h3 (fun st hst => ?_)
    obtain ⟨w, hw⟩ := hst
    obtain ⟨hns, hname, _⟩ := Reconcile.toFinalizer_inst r request w st.inst
      (Reconcile.toRBAC_inst _ _ _ _ hw)
    have := Reconcile.grafana_stops r st.inst st.routeTLS
    rw [hns, hname] at this
    exact stops_bind this (fun _ => stops_pure _)
  have h5 : Stops (Tolerated request.Namespace request.Name) Surfaced
      (Reconcile.toCore r request) := by
    unfold Reconcile.toCore
    exact stops_bind h4 (fun st =>
      stops_bind (Reconcile.core_stops _ _ r st.inst st.routeTLS) (fun _ => stops_pure _))
  have h6 : Stops (Tolerated request.Namespace request.Name) Surfaced
      (Reconcile.toCommand r request) := by
    unfold Reconcile.toCommand
    exact stops_bind h5 (fun st =>
      stops_bind (Reconcile.command_stops _ _ r st.inst st.routeTLS) (fun _ => stops_pure _))
  unfold Reconcile.pass
  exact stops_bind h6 (fun st =>
    stops_bind (Reconcile.deployment_stops _ _ r st.inst st.serviceSpecs st.tlsConfig)
      (fun _ => stops_bind (Reconcile.status_stops _ _ st.inst st.serviceSpecs) (fun inst =>
        Reconcile.consoleLink_stops _ _ r inst st.serviceSpecs)))

end Cryostat

namespace Cryostat

/-! ## Where a pass asks for the 10 s requeue -/

theorem exitsAs_pure {α : Type} {P : Return → World → Prop} (a : α) :
    ExitsAs P (pure a : Op Return α) :=
  fun _ _ h => by cases h

theorem exitsAs_fail {α : Type} {P : Return → World → Prop} (ret : Return)
    (h : ∀ w, P ret w) : ExitsAs P (Op.fail ret : Op Return α) :=
  fun w ret2 h2 => by
    rw [run_fail] at h2 ⊢
    simp only [Except.error.injEq] at h2
    rw [← h2]
    exact h w

theorem exitsAs_bind {α β : Type} {P : Return → World → Prop} {m : Op Return α}
    {f : α → Op Return β} (hm : ExitsAs P m) (hf : ∀ a, ExitsAs P (f a)) :
    ExitsAs P (m >>= f) := by
  intro w ret h
  rcases bind_error _ _ _ _ h with h1 | ⟨a, h1, h2⟩
  · rw [bind_of_error _ _ _ _ h1]
    exact hm w ret h1
  · rw [bind_of_ok _ _ _ _ h1]
    exact hf a _ ret h2

theorem exitsAs_attempt {ε α : Type} {P : Return → World → Prop} (m : Op ε α) :
    ExitsAs P (Op.attempt m : Op Return (Except ε α)) :=
  fun _ _ h => by cases h

theorem exitsAs_orReturn {α : Type} {P : Return → World → Prop} (m : Op Err α)
    (h : ∀ e w, P ({}, some e) w) : ExitsAs P (orReturn m) := by
  intro w ret h2
  rw [run_orReturn] at h2
  cases hm : (m w).1 with
  | ok a => rw [hm] at h2; cases h2
  | error e =>
    rw [hm] at h2
    simp only [Except.error.injEq] at h2
    rw [← h2]
    exact h e _

theorem exitsAs_mono {α : Type} {P Q : Return → World → Prop} {m : Op Return α}
    (h : ExitsAs P m) (hPQ : ∀ ret w, P ret w → Q ret w) : ExitsAs Q m :=
  fun w ret h2 => hPQ _ _ (h w ret h2)

theorem noLongRequeue_plain (e : Option Err) : NoLongRequeue ({}, e) :=
  ⟨rfl, by show (0 : Nat) ≠ Second * 10; decide⟩

theorem noLongRequeue_short : NoLongRequeue ({ RequeueAfter := 5 * Second }, none) :=
  ⟨rfl, by decide⟩

theorem noLongRequeue_requeueIfIngressNotReady (e : Err) :
    NoLongRequeue (requeueIfIngressNotReady e) := by
  unfold requeueIfIngressNotReady
  split
  · exact noLongRequeue_short
  · exact noLongRequeue_plain _

theorem Reconcile.fetch_quiet (request : NamespacedName) :
    ExitsAs (fun ret _ => NoLongRequeue ret) (Reconcile.fetch request) := by
  unfold Reconcile.fetch
  refine exitsAs_bind (exitsAs_attempt _) (fun res => ?_)
  split
  · split
    · exact exitsAs_fail _ (fun _ => noLongRequeue_plain _)
    · exact exitsAs_fail _ (fun _ => noLongRequeue_plain _)
  · exact exitsAs_pure _

theorem Reconcile.finalize_quiet (r : CryostatReconciler) (inst : Obj) :
    ExitsAs (fun ret _ => NoLongRequeue ret) (Reconcile.finalize r inst) := by
  unfold Reconcile.finalize
  split
  · refine exitsAs_bind ?_ (fun _ => exitsAs_fail _ (fun _ => noLongRequeue_plain _))
    split
    · refine exitsAs_bind (exitsAs_orReturn _ (fun _ _ => noLongRequeue_plain _))
        (fun _ => exitsAs_bind ?_ (fun _ => exitsAs_bind
          (exitsAs_orReturn _ (fun _ _ => noLongRequeue_plain _)) (fun _ => exitsAs_pure _)))
      split
      · exact exitsAs_orReturn _ (fun _ _ => noLongRequeue_plain _)
      · exact exitsAs_pure _
    · exact exitsAs_pure _
  · exact exitsAs_pure _

theorem Reconcile.addFinalizer_quiet (inst : Obj) :
    ExitsAs (fun ret _ => NoLongRequeue ret) (Reconcile.addFinalizer inst) := by
  unfold Reconcile.addFinalizer
  split
  · exact exitsAs_orReturn _ (fun _ _ => noLongRequeue_plain _)
  · exact exitsAs_pure _

theorem Reconcile.storage_quiet (r : CryostatReconciler) (inst : Obj) :
    ExitsAs (fun ret _ => NoLongRequeue ret) (Reconcile.storage r inst) := by
  unfold Reconcile.storage
  exact exitsAs_bind (exitsAs_orReturn _ (fun _ _ => noLongRequeue_plain _)) (fun _ =>
    exitsAs_orReturn _ (fun _ _ => noLongRequeue_plain _))

theorem Reconcile.secrets_quiet (r : CryostatReconciler) (inst : Obj) :
    ExitsAs (fun ret _ => NoLongRequeue ret) (Reconcile.secrets r inst) := by
  unfold Reconcile.secrets
  exact exitsAs_bind (exitsAs_orReturn _ (fun _ _ => noLongRequeue_plain _)) (fun _ =>
    exitsAs_bind (exitsAs_orReturn _ (fun _ _ => noLongRequeue_plain _)) (fun _ =>
      exitsAs_bind (exitsAs_orReturn _ (fun _ _ => noLongRequeue_plain _)) (fun _ =>
        exitsAs_orReturn _ (fun _ _ => noLongRequeue_plain _))))

theorem Reconcile.tls_quiet (r : CryostatReconciler) (inst : Obj) :
    ExitsAs (fun ret _ => NoLongRequeue ret) (Reconcile.tls r inst) := by
  unfold Reconcile.tls
  split
  · split
    · split
      · exact exitsAs_fail _ (fun _ => noLongRequeue_short)
      · exact exitsAs_fail _ (fun _ => noLongRequeue_plain _)
    · split
      · exact exitsAs_fail _ (fun _ => noLongRequeue_plain _)
      · exact exitsAs_pure _
  · exact exitsAs_pure _

theorem Reconcile.rbac_quiet (r : CryostatReconciler) (inst : Obj) :
    ExitsAs (fun ret _ => NoLongRequeue ret) (Reconcile.rbac r inst) :=
  exitsAs_orReturn _ (fun _ _ => noLongRequeue_plain _)

theorem Reconcile.deleteExposure_quiet (kind : Kind) (svc : Obj) :
    ExitsAs (fun ret _ => NoLongRequeue ret) (Reconcile.deleteExposure kind svc) := by
  unfold Reconcile.deleteExposure
  refine exitsAs_bind (exitsAs_attempt _) (fun res => ?_)
  split
  · split
    · exact exitsAs_fail _ (fun _ => noLongRequeue_plain _)
    · exact exitsAs_pure _
  · refine exitsAs_bind (exitsAs_attempt _) (fun del => ?_)
    split
    · split
      · exact exitsAs_fail _ (fun _ => noLongRequeue_plain _)
      · exact exitsAs_pure _
    · exact exitsAs_pure _

theorem Reconcile.deleteGrafanaService_quiet (svc : Obj) :
    ExitsAs (fun ret _ => NoLongRequeue ret) (Reconcile.deleteGrafanaService svc) := by
  unfold Reconcile.deleteGrafanaService
  refine exitsAs_bind (exitsAs_attempt _) (fun res => ?_)
  split
  · refine exitsAs_bind (exitsAs_attempt _) (fun del => ?_)
    split
    · split
      · exact exitsAs_fail _ (fun _ => noLongRequeue_plain _)
      · exact exitsAs_pure _
    · exact exitsAs_pure _
  · exact exitsAs_pure _

theorem Reconcile.core_quiet (r : CryostatReconciler) (inst : Obj)
    (routeTLS : Option TLSConfig) :
    ExitsAs (fun ret _ => NoLongRequeue ret) (Reconcile.core r inst routeTLS) := by
  unfold Reconcile.core
  refine exitsAs_bind (exitsAs_attempt _) (fun res => ?_)
  split
  · exact exitsAs_fail _ (fun _ => noLongRequeue_requeueIfIngressNotReady _)
  · exact exitsAs_pure _

theorem Reconcile.command_quiet (r : CryostatReconciler) (inst : Obj)
    (routeTLS : Option TLSConfig) :
    ExitsAs (fun ret _ => NoLongRequeue ret) (Reconcile.command r inst routeTLS) := by
  unfold Reconcile.command
  refine exitsAs_bind (exitsAs_attempt _) (fun res => ?_)
  split
  · exact exitsAs_fail _ (fun _ => noLongRequeue_requeueIfIngressNotReady _)
  · exact exitsAs_pure _

theorem Reconcile.deployment_quiet (r : CryostatReconciler) (inst : Obj)
    (serviceSpecs : ServiceSpecs) (tlsConfig : Option ResourcesTLSConfig) :
    ExitsAs (fun ret _ => NoLongRequeue ret)
      (Reconcile.deployment r inst serviceSpecs tlsConfig) := by
  unfold Reconcile.deployment
  exact exitsAs_bind (exitsAs_orReturn _ (fun _ _ => noLongRequeue_plain _)) (fun _ =>
    exitsAs_bind (exitsAs_orReturn _ (fun _ _ => noLongRequeue_plain _)) (fun _ =>
      exitsAs_bind (exitsAs_orReturn _ (fun _ _ => noLongRequeue_plain _)) (fun _ =>
        exitsAs_pure _)))

theorem Reconcile.status_quiet (inst : Obj) (serviceSpecs : ServiceSpecs) :
    ExitsAs (fun ret _ => NoLongRequeue ret) (Reconcile.status inst serviceSpecs) := by
  unfold Reconcile.status
  split
  · exact exitsAs_bind (exitsAs_orReturn _ (fun _ _ => noLongRequeue_plain _)) (fun _ =>
      exitsAs_pure _)
  · exact exitsAs_pure _

theorem Reconcile.consoleLink_quiet (r : CryostatReconciler) (inst : Obj)
    (serviceSpecs : ServiceSpecs) :
    ExitsAs (fun ret _ => NoLongRequeue ret) (Reconcile.consoleLink r inst serviceSpecs) := by
  unfold Reconcile.consoleLink
  split
  · split
    · exact exitsAs_fail _ (fun _ => noLongRequeue_plain _)
    · exact exitsAs_orReturn _ (fun _ _ => noLongRequeue_plain _)
  · exact exitsAs_pure _

end Cryostat

namespace Cryostat

/-- The only way the minimality step ends the pass at the existing Deployment: the delete
failed with an error other than NotFound. -/
theorem Reconcile.deleteDeployment_exit (inst : Obj) (mismatch : Nat → Bool) :
    ExitsAs (DeleteFailed inst.meta.Namespace inst.meta.Name mismatch)
      (Reconcile.deleteDeployment inst mismatch) := by
  intro w ret h
  unfold Reconcile.deleteDeployment at h ⊢
  rw [run_bind, run_attempt] at h ⊢
  simp only at h ⊢
  cases hg : (Client.Get ⟨.Deployment, inst.meta.Namespace, inst.meta.Name⟩ w).1 with
  | error e =>
    rw [hg] at h
    cases h
  | ok d =>
    have hk := (Client.Get_ok _ _ _ hg).2
    rw [hg] at h
    simp only at h ⊢
    by_cases hm : mismatch d.deploymentSpec.Template.Spec.Containers.length = true
    · rw [if_pos hm] at h ⊢
      rw [run_bind, run_attempt] at h ⊢
      simp only at h ⊢
      cases hd : (Client.Delete d
          (Client.Get ⟨.Deployment, inst.meta.Namespace, inst.meta.Name⟩ w).2).1 with
      | ok u =>
        rw [hd] at h
        cases h
      | error e =>
        rw [hd] at h
        simp only at h ⊢
        cases hn : e.IsNotFound with
        | true =>
          simp only [hn, Bool.not_true, Bool.false_eq_true, if_false] at h
          cases h
        | false =>
          simp only [hn, Bool.not_false, if_true, run_fail, Except.error.injEq] at h ⊢
          refine ⟨⟨.Delete, d.key, some d, some e,
            (Client.Get ⟨.Deployment, inst.meta.Namespace, inst.meta.Name⟩ w).2.objs⟩, d, e,
            ?_, rfl, hk, rfl, rfl, hn, hm, h.symm⟩
          rw [Client.Delete_log, hd, List.getLast?_append]
          rfl
    · rw [if_neg hm] at h
      cases h

end Cryostat

namespace Cryostat

theorem Reconcile.grafana_exit (r : CryostatReconciler) (inst : Obj)
    (routeTLS : Option TLSConfig) :
    ExitsAs (fun ret w => NoLongRequeue ret ∨
        ∃ mismatch, DeleteFailed inst.meta.Namespace inst.meta.Name mismatch ret w ∧
          ∀ n, mismatch n = true →
            (inst.Spec.Minimal = true → n > 1) ∧ (inst.Spec.Minimal = false → n = 1))
      (Reconcile.grafana r inst routeTLS) := by
  unfold Reconcile.grafana
  split
  · rename_i hmin
    have hmin2 : inst.Spec.Minimal = false := by simpa using hmin
    refine exitsAs_bind (exitsAs_attempt _) (fun res => ?_)
    split
    · exact exitsAs_fail _ (fun _ => Or.inl (noLongRequeue_requeueIfIngressNotReady _))
    · refine exitsAs_bind (exitsAs_mono (Reconcile.deleteDeployment_exit inst _)
        (fun ret w h => Or.inr ⟨_, h, fun n hn => ⟨fun h2 => ?_, fun _ => ?_⟩⟩))
        (fun _ => exitsAs_pure _)
      · rw [hmin2] at h2; cases h2
      · simpa using hn
  · rename_i hmin
    have hmin2 : inst.Spec.Minimal = true := by simpa using hmin
    refine exitsAs_bind (exitsAs_mono (Reconcile.deleteExposure_quiet _ _)
        (fun _ _ h => Or.inl h)) (fun _ =>
      exitsAs_bind (exitsAs_mono (Reconcile.deleteGrafanaService_quiet _)
        (fun _ _ h => Or.inl h)) (fun _ =>
        exitsAs_bind (exitsAs_mono (Reconcile.deleteDeployment_exit inst _)
          (fun ret w h => Or.inr ⟨_, h, fun n hn => ⟨fun _ => ?_, fun h2 => ?_⟩⟩))
          (fun _ => exitsAs_pure _)))
    · simpa using hn
    · rw [hmin2] at h2; cases h2

theorem Reconcile.toRBAC_quiet (r : CryostatReconciler) (request : NamespacedName) :
    ExitsAs (fun ret _ => NoLongRequeue ret) (Reconcile.toRBAC r request) := by
  unfold Reconcile.toRBAC Reconcile.toSecrets Reconcile.toFinalizer
  exact exitsAs_bind
    (exitsAs_bind
      (exitsAs_bind (Reconcile.fetch_quiet request) (fun inst =>
        exitsAs_bind (Reconcile.finalize_quiet r inst) (fun _ =>
          Reconcile.addFinalizer_quiet inst)))
      (fun inst => exitsAs_bind (Reconcile.storage_quiet r inst) (fun _ =>
        exitsAs_bind (Reconcile.secrets_quiet r inst) (fun _ => exitsAs_pure _))))
    (fun inst => exitsAs_bind (Reconcile.tls_quiet r inst) (fun _ =>
      exitsAs_bind (Reconcile.rbac_quiet r inst) (fun _ => exitsAs_pure _)))

/-- A prefix whose exits satisfy `Q`, followed by steps that never ask for the 10 s
requeue. -/
theorem exits_after {α β : Type} {m : Op Return α} {f : α → Op Return β} (w : World)
    (Q : Return → World → Prop)
    (hm : ∀ ret, (m w).1 = .error ret → Q ret (m w).2)
    (hf : ∀ a, ExitsAs (fun ret _ => NoLongRequeue ret) (f a))
    (hQ : ∀ ret w2, NoLongRequeue ret → Q ret w2) :
    ∀ ret, ((m >>= f) w).1 = .error ret → Q ret ((m >>= f) w).2 := by
  intro ret h
  rcases bind_error _ _ _ _ h with h1 | ⟨a, h1, h2⟩
  · rw [bind_of_error _ _ _ _ h1]
    exact hm ret h1
  · rw [bind_of_ok _ _ _ _ h1]
    exact hQ _ _ (hf a _ ret h2)

/-- The only place where a pass asks for the 10 s requeue: the delete of the existing
Deployment, whose container count does not go with the minimality flag of the instance,
has failed with an error other than NotFound. It is the last call of the pass. -/
theorem Reconcile.long_requeue (r : CryostatReconciler) (request : NamespacedName)
    (w : World) (h : ¬ NoLongRequeue (Reconcile r request w).1) :
    ∃ inst mismatch,
      (Client.Get ⟨.Cryostat, request.Namespace, request.Name⟩ w).1 = .ok inst ∧
      inst.meta.DeletionTimestamp = none ∧
      DeleteFailed request.Namespace request.Name mismatch (Reconcile r request w).1
        (Reconcile r request w).2 ∧
      ∀ n, mismatch n = true →
        (inst.Spec.Minimal = true → n > 1) ∧ (inst.Spec.Minimal = false → n = 1) := by
  generalize hQ : (fun (ret : Return) (w2 : World) => NoLongRequeue ret ∨
    ∃ inst mismatch,
      (Client.Get ⟨.Cryostat, request.Namespace, request.Name⟩ w).1 = .ok inst ∧
      inst.meta.DeletionTimestamp = none ∧
      DeleteFailed request.Namespace request.Name mismatch ret w2 ∧
      ∀ n, mismatch n = true →
        (inst.Spec.Minimal = true → n > 1) ∧ (inst.Spec.Minimal = false → n = 1)) = Q
  have hQ0 : ∀ ret w2, NoLongRequeue ret → Q ret w2 := fun ret w2 h2 => by
    subst hQ; exact Or.inl h2
  have h4 : ∀ ret, (Reconcile.toGrafana r request w).1 = .error ret →
      Q ret (Reconcile.toGrafana r request w).2 := by
    intro ret he
    unfold Reconcile.toGrafana at he ⊢
    rcases bind_error _ _ _ _ he with h1 | ⟨st, h1, h2⟩
    · exact hQ0 _ _ (Reconcile.toRBAC_quiet r request w ret h1)
    · rw [bind_of_ok _ _ _ _ h1]
      rcases bind_error _ _ _ _ h2 with h3 | ⟨url, _, h3⟩
      · rw [bind_of_error _ _ _ _ h3]
        have hfi := Reconcile.toRBAC_inst _ _ _ _ h1
        obtain ⟨hns, hname, _⟩ := Reconcile.toFinalizer_inst r request w st.inst hfi
        obtain ⟨read, hget, _, hact⟩ := Reconcile.toFinalizer_ok r request w st.inst hfi
        have hspec := Reconcile.toFinalizer_spec r request w read st.inst hget hact hfi
        rcases Reconcile.grafana_exit r st.inst st.routeTLS _ ret h3 with hq | ⟨mm, hd, hmm⟩
        · exact hQ0 _ _ hq
        · subst hQ
          refine Or.inr ⟨read, mm, hget, hact, ?_, ?_⟩
          · rw [hns, hname] at hd; exact hd
          · intro n hn
            have := hmm n hn
            unfold Obj.Spec at this hspec ⊢
            rw [hspec] at this
            exact this
      · rw [run_pure] at h3
        cases h3
  have h5 : ∀ ret, (Reconcile.toCore r request w).1 = .error ret →
      Q ret (Reconcile.toCore r request w).2 := by
    unfold Reconcile.toCore
    exact exits_after w Q h4 (fun st => exitsAs_bind (Reconcile.core_quiet r _ _)
      (fun _ => exitsAs_pure _)) hQ0
  have h6 : ∀ ret, (Reconcile.toCommand r request w).1 = .error ret →
      Q ret (Reconcile.toCommand r request w).2 := by
    unfold Reconcile.toCommand
    exact exits_after w Q h5 (fun st => exitsAs_bind (Reconcile.command_quiet r _ _)
      (fun _ => exitsAs_pure _)) hQ0
  have h7 : ∀ ret, (Reconcile.pass r request w).1 = .error ret →
      Q ret (Reconcile.pass r request w).2 := by
    unfold Reconcile.pass
    exact exits_after w Q h6 (fun st => exitsAs_bind (Reconcile.deployment_quiet r _ _ _)
      (fun _ => exitsAs_bind (Reconcile.status_quiet _ _) (fun inst =>
        Reconcile.consoleLink_quiet r inst _))) hQ0
  have hw := Reconcile.pass_world r request w
  cases hp : (Reconcile.pass r request w).1 with
  | ok u =>
    exfalso
    apply h
    unfold Reconcile
    rw [hp]
    exact noLongRequeue_plain none
  | error ret =>
    have hr : (Reconcile r request w).1 = ret := by
      unfold Reconcile
      rw [hp]
    have := h7 ret hp
    subst hQ
    rw [hr] at h ⊢
    rw [hw]
    rcases this with hq | hq
    · exact absurd hq h
    · exact hq

end Cryostat

namespace Cryostat

/-! ## A NotFound from the Deployment delete does not end the pass -/

/-- After a client call other than a delete of a Deployment the trace does not end on a
Deployment delete. -/
theorem goesOn_call {α : Type} (verb : Verb) (key : Key) (obj : Option Obj)
    (sem : Store → Except Err (α × Store)) (h : ¬ (verb = .Delete ∧ key.kind = .Deployment))
    (w : World) : GoesOn (Client.call verb key obj sem w).2 := by
  intro c hc
  rw [Client.call_log] at hc
  simp only [List.getLast?_append, List.getLast?_singleton, Option.or_some, Option.getD_some,
    Option.some.injEq] at hc
  rw [← hc]
  exact fun hd => h hd.1

theorem goesOn_get (k : Key) (w : World) : GoesOn (Client.Get k w).2 :=
  goesOn_call _ _ _ _ (fun h => by cases h.1) w

/-- Reads, and writes other than deletes of Deployments, keep `GoesOn`. -/
theorem respects_goesOn (T : List Touch)
    (hT : ∀ t ∈ T, t.1 = Verb.Delete → t.2.kind ≠ .Deployment) : Respects T GoesOn where
  get := fun k w _ => goesOn_get k w
  create := fun o _ w _ => goesOn_call _ _ _ _ (fun h => by cases h.1) w
  update := fun o _ w _ => goesOn_call _ _ _ _ (fun h => by cases h.1) w
  delete := fun o ho w _ => goesOn_call _ _ _ _ (fun h => hT _ ho rfl h.2) w
  status := fun o _ w _ => goesOn_call _ _ _ _ (fun h => by cases h.1) w

theorem respects_goesOn_createService (r : CryostatReconciler) (ns name : String) :
    Respects (createServiceTouches r ns name) GoesOn :=
  respects_goesOn _ (fun t ht hv => by
    unfold createServiceTouches at ht
    split at ht
    · simp only [List.mem_cons, List.mem_singleton, List.not_mem_nil, or_false] at ht
      rcases ht with h | h | h <;> rw [h] at hv <;> cases hv
    · simp only [List.mem_cons, List.mem_singleton, List.not_mem_nil, or_false] at ht
      rcases ht with h | h <;> rw [h] at hv <;> cases hv)

/-- The function `createObjectIfNotExists` always reads, so the trace does not end on a
Deployment delete after it. -/
theorem createObjectIfNotExists_goesOn (ns : NamespacedName) (found : Kind) (toCreate : Obj)
    (w : World) : GoesOn (createObjectIfNotExists ns found toCreate w).2 := by
  unfold createObjectIfNotExists
  rw [run_bind, run_attempt]
  simp only
  have hg := goesOn_get ⟨found, ns.Namespace, ns.Name⟩ w
  cases (Client.Get ⟨found, ns.Namespace, ns.Name⟩ w).1 with
  | error e =>
    simp only
    split
    · exact goesOn_call _ _ _ _ (fun h => by cases h.1) _
    · exact hg
  | ok o => exact hg

/-- The function `createService` for a Service in the namespace of its controller always
issues a call, and none of its calls deletes a Deployment. -/
theorem createService_goesOn (r : CryostatReconciler) (controller svc : Obj)
    (exposePort : ServicePort) (tlsConfig : Option TLSConfig)
    (hns : svc.meta.Namespace = controller.meta.Namespace)
    (hrefs : svc.meta.OwnerReferences = []) (w : World) :
    GoesOn (createService r controller svc exposePort tlsConfig w).2 := by
  obtain ⟨svc2, h2⟩ := SetControllerReference_fresh controller svc (Or.inr hns) hrefs
  obtain ⟨m1, m2, m3⟩ := SetControllerReference_meta _ _ _ h2
  have hR := respects_goesOn_createService r svc.meta.Namespace svc.meta.Name
  unfold createService
  rw [run_bind, run_ofExcept, h2]
  simp only
  have hfirst := createObjectIfNotExists_goesOn ⟨svc2.meta.Namespace, svc2.meta.Name⟩ .Service svc2 w
  rw [run_bind]
  cases (createObjectIfNotExists ⟨svc2.meta.Namespace, svc2.meta.Name⟩ .Service svc2 w).1 with
  | error e => exact hfirst
  | ok u =>
    simp only
    split
    · rename_i hos
      refine createRouteForService_keeps hR controller svc2 exposePort _ ?_ ?_ _ hfirst
      · rw [m1, m2]; simp [createServiceTouches, hos]
      · rw [m1, m2]; simp [createServiceTouches, hos]
    · rename_i hos
      cases controller.Spec.NetworkOptions with
      | none => exact hfirst
      | some v =>
        simp only
        refine keeps_bind_ofExcept (fun nc _ => ?_) _ hfirst
        split
        · exact keeps_pure _
        · split
          · exact keeps_pure _
          · refine createIngressForService_keeps hR controller svc2 _ ?_
            rw [m1, m2]; simp [createServiceTouches, hos]

/-- The finalizer section always reads the instance and deletes no Deployment. -/
theorem Reconcile.toFinalizer_goesOn (r : CryostatReconciler) (request : NamespacedName)
    (w : World) : GoesOn (Reconcile.toFinalizer r request w).2 := by
  have h0 : GoesOn (Reconcile.fetch request w).2 := by
    rw [Reconcile.fetch_world]; exact goesOn_get _ w
  unfold Reconcile.toFinalizer
  rw [run_bind]
  cases h1 : (Reconcile.fetch request w).1 with
  | error e => exact h0
  | ok inst =>
    simp only
    have hk : inst.body.kind = .Cryostat := by
      have := (Client.Get_ok _ _ _ (Reconcile.fetch_ok _ _ _ h1)).2
      simp only [Obj.key, Key.mk.injEq] at this
      exact this.1
    have hR : Respects (finalizerTouches r inst.meta.Namespace inst.meta.Name) GoesOn :=
      respects_goesOn _ (fun t ht hv => by
        simp only [finalizerTouches, List.mem_cons, List.mem_singleton, List.not_mem_nil,
          or_false] at ht
        rcases ht with h | h | h <;> rw [h] <;> simp)
    exact keeps_bind (Reconcile.finalize_keeps r inst hk hR)
      (fun _ => Reconcile.addFinalizer_keeps r inst hk hR) _ h0

/-- Up to and including RBAC the pass deletes no Deployment. -/
theorem Reconcile.toRBAC_goesOn (r : CryostatReconciler) (request : NamespacedName)
    (w : World) : GoesOn (Reconcile.toRBAC r request w).2 := by
  have h1 := Reconcile.toFinalizer_goesOn r request w
  have h2 : GoesOn (Reconcile.toSecrets r request w).2 := by
    unfold Reconcile.toSecrets
    rw [run_bind]
    cases (Reconcile.toFinalizer r request w).1 with
    | error e => exact h1
    | ok inst =>
      simp only
      exact keeps_bind (Reconcile.storage_keeps r inst (respects_goesOn _ (fun t ht hv => by
          simp only [storageTouches, List.mem_singleton] at ht
          rw [ht] at hv; cases hv)))
        (fun _ => keeps_bind (Reconcile.secrets_keeps r inst (respects_goesOn _ (fun t ht hv => by
          simp only [secretsTouches, List.mem_cons, List.mem_singleton, List.not_mem_nil,
            or_false] at ht
          rcases ht with h | h <;> rw [h] at hv <;> cases hv)))
          (fun _ => keeps_pure _)) _ h1
  unfold Reconcile.toRBAC
  rw [run_bind]
  cases (Reconcile.toSecrets r request w).1 with
  | error e => exact h2
  | ok inst =>
    simp only
    exact keeps_bind (Reconcile.tls_keeps r inst)
      (fun _ => keeps_bind (Reconcile.rbac_keeps r inst (respects_goesOn _ (fun t ht hv => by
          simp only [createRBACTouches, List.mem_cons, List.mem_singleton, List.not_mem_nil,
            or_false] at ht
          rcases ht with h | h | h | h <;> rw [h] at hv <;> cases hv)))
        (fun _ => keeps_pure _)) _ h2

/-- When the Grafana section stops the pass, the trace does not end on a Deployment delete
that was answered NotFound. -/
theorem Reconcile.grafana_goesOn (r : CryostatReconciler) (inst : Obj)
    (routeTLS : Option TLSConfig) (w : World) (hw : GoesOn w) (ret : Return)
    (h : (Reconcile.grafana r inst routeTLS w).1 = .error ret) :
    GoesOn (Reconcile.grafana r inst routeTLS w).2 := by
  have hdel : ∀ mismatch w1 ret1,
      (Reconcile.deleteDeployment inst mismatch w1).1 = .error ret1 →
      GoesOn (Reconcile.deleteDeployment inst mismatch w1).2 := by
    intro mismatch w1 ret1 h1 c hc
    obtain ⟨c2, d, e, hl, _, _, _, he, hnf, _⟩ := Reconcile.deleteDeployment_exit inst mismatch w1 ret1 h1
    rw [hl] at hc
    simp only [Option.some.injEq] at hc
    rw [← hc, he]
    rintro ⟨_, h3⟩
    simp only [Option.some.injEq] at h3
    rw [h3] at hnf
    cases hnf
  unfold Reconcile.grafana at h ⊢
  split at h
  · rename_i hmin
    rw [if_pos hmin]
    rcases bind_error _ _ _ _ h with h1 | ⟨res, h1, h2⟩
    · rw [run_attempt] at h1; cases h1
    · rw [bind_of_ok _ _ _ _ h1]
      have hw1 : GoesOn (Op.attempt (createService r inst (NewGrafanaService r.resources inst)
          (r.resources.GrafanaService inst.declared).Port routeTLS) w : Except Return _ × World).2 :=
        createService_keeps r inst (NewGrafanaService r.resources inst) _ _
          (respects_goesOn_createService r _ _) rfl w hw
      cases res with
      | error err => exact hw1
      | ok url =>
        simp only at h2 ⊢
        rcases bind_error _ _ _ _ h2 with h3 | ⟨u, h3, h4⟩
        · rw [bind_of_error _ _ _ _ h3]
          exact hdel _ _ _ h3
        · rw [run_pure] at h4; cases h4
  · rename_i hmin
    rw [if_neg hmin]
    have hRe : Respects [(Verb.Delete, (⟨if r.IsOpenShift then .Route else .Ingress,
        (NewGrafanaService r.resources inst).meta.Namespace,
        (NewGrafanaService r.resources inst).meta.Name⟩ : Key))] GoesOn :=
      respects_goesOn _ (fun t ht _ => by
        simp only [List.mem_singleton] at ht
        rw [ht]
        split <;> simp)
    have hRs : Respects [(Verb.Delete, (⟨.Service,
        (NewGrafanaService r.resources inst).meta.Namespace,
        (NewGrafanaService r.resources inst).meta.Name⟩ : Key))] GoesOn :=
      respects_goesOn _ (fun t ht _ => by
        simp only [List.mem_singleton] at ht
        rw [ht]; simp)
    have k1 := Reconcile.deleteExposure_keeps hRe (if r.IsOpenShift then .Route else .Ingress)
      (NewGrafanaService r.resources inst) (List.mem_singleton.mpr rfl)
    have k2 := Reconcile.deleteGrafanaService_keeps hRs (NewGrafanaService r.resources inst)
      (List.mem_singleton.mpr rfl)
    rcases bind_error _ _ _ _ h with h1 | ⟨u1, h1, h2⟩
    · rw [bind_of_error _ _ _ _ h1]
      exact k1 w hw
    · rw [bind_of_ok _ _ _ _ h1]
      have hw1 := k1 w hw
      rcases bind_error _ _ _ _ h2 with h3 | ⟨u2, h3, h4⟩
      · rw [bind_of_error _ _ _ _ h3]
        exact k2 _ hw1
      · rw [bind_of_ok _ _ _ _ h3]
        rcases bind_error _ _ _ _ h4 with h5 | ⟨u3, h5, h6⟩
        · rw [bind_of_error _ _ _ _ h5]
          exact hdel _ _ _ h5
        · rw [run_pure] at h6; cases h6

/-- The core Service section always issues a call and deletes no Deployment. -/
theorem Reconcile.core_goesOn (r : CryostatReconciler) (inst : Obj)
    (routeTLS : Option TLSConfig) (w : World) :
    GoesOn (Reconcile.core r inst routeTLS w).2 := by
  have h1 := createService_goesOn r inst (NewExporterService r.resources inst)
    (r.resources.ExporterService inst.declared).Port routeTLS rfl rfl w
  unfold Reconcile.core
  rw [run_bind, run_attempt]
  simp only
  cases (createService r inst (NewExporterService r.resources inst)
    (r.resources.ExporterService inst.declared).Port routeTLS w).1 with
  | error e => exact h1
  | ok url => exact h1

/-- The pass never ends on a delete of the Deployment that was answered NotFound. -/
theorem Reconcile.goesOn (r : CryostatReconciler) (request : NamespacedName) (w : World) :
    GoesOn (Reconcile r request w).2 := by
  have h3 := Reconcile.toRBAC_goesOn r request w
  have h5 : GoesOn (Reconcile.toCore r request w).2 := by
    unfold Reconcile.toCore
    rw [run_bind]
    cases h4 : (Reconcile.toGrafana r request w).1 with
    | error ret =>
      simp only
      unfold Reconcile.toGrafana at h4 ⊢
      rcases bind_error _ _ _ _ h4 with h1 | ⟨st, h1, h2⟩
      · rw [bind_of_error _ _ _ _ h1]; exact h3
      · rw [bind_of_ok _ _ _ _ h1]
        rcases bind_error _ _ _ _ h2 with h6 | ⟨u, h6, h7⟩
        · rw [bind_of_error _ _ _ _ h6]
          exact Reconcile.grafana_goesOn r _ _ _ h3 _ h6
        · rw [run_pure] at h7; cases h7
    | ok st =>
      simp only
      rw [run_bind]
      have hc := Reconcile.core_goesOn r st.inst st.routeTLS (Reconcile.toGrafana r request w).2
      cases (Reconcile.core r st.inst st.routeTLS (Reconcile.toGrafana r request w).2).1 with
      | error e => exact hc
      | ok url => exact hc
  have h6 := Reconcile.toCommand_step r request w h5
    (fun st _ => respects_goesOn_createService r _ _)
  exact Reconcile.pass_step r request w h6 (fun st _ => respects_goesOn _ (fun t ht hv => by
    simp only [deploymentTouches, statusTouches, consoleLinkTouches, List.mem_append,
      List.mem_cons, List.mem_singleton, List.not_mem_nil, or_false] at ht
    rcases ht with ((h | h) | h) | h
    · rw [h] at hv; cases hv
    · rw [h] at hv; cases hv
    · rw [h] at hv; cases hv
    · split at h
      · simp only [List.mem_singleton] at h
        rw [h] at hv; cases hv
      · cases h))

end Cryostat

namespace Cryostat

/-- The calls of a pass of `Reconcile`: a failed call that is not tolerated is the last one
and its error is what `Reconcile` returns. -/
theorem Reconcile.calls_stop (r : CryostatReconciler) (request : NamespacedName) (w : World) :
    (Reconcile r request w).2.log = w.log ++ (Reconcile r request w).2.callsSince w ∧
    ∀ pre c post, (Reconcile r request w).2.callsSince w = pre ++ c :: post → c.err ≠ none →
      ¬ Tolerated request.Namespace request.Name c →
      post = [] ∧ Surfaced (Reconcile r request w).1 c := by
  obtain ⟨L, hL, h2⟩ := Reconcile.pass_stops r request w
  have hcalls : (Reconcile r request w).2.callsSince w = L := by
    unfold World.callsSince
    rw [Reconcile.pass_world, hL, List.drop_left]
  rw [hcalls]
  refine ⟨by rw [Reconcile.pass_world, hL], fun pre c post hs hc hA => ?_⟩
  obtain ⟨hp, x, hx, hF⟩ := h2 pre c post hs hc hA
  refine ⟨hp, ?_⟩
  have : (Reconcile r request w).1 = x := by
    unfold Reconcile
    rw [hx]
  rw [this]
  exact hF

/-- A failed delete of a Deployment, NotFound apart, is the last call of the pass, and
`Reconcile` returns its error with the request to requeue after 10 s. -/
theorem Reconcile.failed_delete (r : CryostatReconciler) (request : NamespacedName)
    (w : World) (pre : List Call) (c : Call) (post : List Call) (e : Err)
    (hs : (Reconcile r request w).2.callsSince w = pre ++ c :: post)
    (hd : DeletesDeployment c) (he : c.err = some e) (hnf : e.IsNotFound = false) :
    post = [] ∧
      (Reconcile r request w).1 = ({ Requeue := true, RequeueAfter := Second * 10 }, some e) := by
  have hA : ¬ Tolerated request.Namespace request.Name c := by
    rintro (⟨h1, _⟩ | ⟨h1, _⟩)
    · rw [he] at h1
      simp only [Option.some.injEq] at h1
      rw [h1] at hnf
      cases hnf
    · rw [hd.1] at h1; cases h1
  obtain ⟨hp, hS⟩ := (Reconcile.calls_stop r request w).2 pre c post hs (by rw [he]; simp) hA
  refine ⟨hp, ?_⟩
  unfold Surfaced at hS
  rw [he] at hS
  simp only at hS
  rcases hS with ⟨_, h⟩ | ⟨h, _⟩
  · exact h
  · exact absurd hd h

/-- A delete of a Deployment that is answered NotFound is not the last call of the pass. -/
theorem Reconcile.delete_notFound (r : CryostatReconciler) (request : NamespacedName)
    (w : World) (pre : List Call) (c : Call) (post : List Call)
    (hs : (Reconcile r request w).2.callsSince w = pre ++ c :: post)
    (hd : DeletesDeployment c) (he : c.err = some .NotFound) : post ≠ [] := by
  intro hp
  have hlog := (Reconcile.calls_stop r request w).1
  rw [hs, hp] at hlog
  refine Reconcile.goesOn r request w c ?_ ⟨hd, he⟩
  rw [hlog]
  simp

end Cryostat

namespace Cryostat

/-! ## The status of the instance when the pass returns an error -/

/-- Writes that are no status update and go to other keys leave the status alone. -/
theorem respects_statusUntouched (T : List Touch) (key : Key) (v : Option CryostatStatus)
    (n : Nat) (hT : ∀ t ∈ T, t.1 ≠ .StatusUpdate ∧ t.2 ≠ key) :
    Respects T (StatusUntouched key v n) :=
  ⟨fun k => Client.Get_keeps n _ _ k (fun _ _ _ h => by cases h),
    fun o ho => Client.Create_keeps n _ _ o (fun _ _ _ h => by cases h) (fun s hs _ => by
      rw [Store.get?_append_ne _ _ _ (hT _ ho).2]; exact hs),
    fun o ho => Client.Update_keeps n _ _ o (fun _ _ _ h => by cases h) (fun s _ hs _ => by
      rw [Store.get?_replace_ne _ _ _ (hT _ ho).2]; exact hs),
    fun o ho => Client.Delete_keeps n _ _ o (fun _ _ _ h => by cases h) (fun s _ hs _ => by
      rw [Store.get?_remove_ne _ _ _ (hT _ ho).2]; exact hs),
    fun o ho => absurd rfl (hT _ ho).1⟩

/-- An update of the object under `key` that carries the stored status leaves the status
alone. -/
theorem Client.Update_statusUntouched (o : Obj) (key : Key) (v : Option CryostatStatus)
    (n : Nat) (hk : o.key = key) (hv : some o.Status = v) :
    Keeps (StatusUntouched key v n) (Client.Update o) :=
  Client.Update_keeps n _ _ o (fun _ _ _ h => by cases h) (fun s x _ hx => by
    rw [← hk, Store.get?_replace_self s o x hx]; exact hv)

/-- A status update that fails leaves the status alone. -/
theorem Client.StatusUpdate_failed (o : Obj) (key : Key) (v : Option CryostatStatus)
    (n : Nat) (w : World) (e : Err) (h : (Client.StatusUpdate o w).1 = .error e)
    (hw : StatusUntouched key v n w) : StatusUntouched key v n (Client.StatusUpdate o w).2 := by
  obtain ⟨hs, hq⟩ := hw
  constructor
  · unfold Client.StatusUpdate at h ⊢
    rw [Client.call_objs_of_error _ _ _ _ w e h]; exact hs
  · intro c hc
    rw [Client.StatusUpdate_log] at hc
    rcases List.mem_drop_append_singleton _ _ _ _ hc with h1 | h1
    · exact hq c h1
    · intro _
      rw [h1, h]
      simp [errOf]

theorem controllerutil.AddFinalizer_Status (o : Obj) (f : String) :
    (controllerutil.AddFinalizer o f).Status = o.Status := by
  unfold controllerutil.AddFinalizer
  split <;> rfl

theorem controllerutil.RemoveFinalizer_Status (o : Obj) (f : String) :
    (controllerutil.RemoveFinalizer o f).Status = o.Status := rfl

/-- The finalizer section keeps what its two deletes and the update of the instance it has
read keep. -/
theorem Reconcile.finalize_keeps_of {I : World → Prop} (r : CryostatReconciler) (inst : Obj)
    (hR : Respects [(Verb.Delete,
        (⟨.ClusterRoleBinding, "", r.resources.ClusterUniqueName inst.meta.Namespace inst.meta.Name⟩ : Key)),
      (Verb.Delete,
        (⟨.ConsoleLink, "", r.resources.ClusterUniqueName inst.meta.Namespace inst.meta.Name⟩ : Key))] I)
    (hU : Keeps I (Client.Update (controllerutil.RemoveFinalizer inst cryostatFinalizer))) :
    Keeps I (Reconcile.finalize r inst) := by
  unfold Reconcile.finalize
  split
  · apply keeps_bind
    · split
      · apply keeps_bind (keeps_orReturn (hR.delete _ (by
          simp [NewClusterRoleBindingForCR, Obj.key, Body.kind]))); intro _
        apply keeps_bind
        · split
          · exact keeps_orReturn (hR.delete _ (by
              simp [NewConsoleLink, Obj.key, Body.kind]))
          · exact keeps_pure _
        · intro _
          apply keeps_bind
          · apply keeps_orReturn
            unfold common.RemoveFinalizer
            exact keeps_bind hU (fun _ => keeps_pure _)
          · intro _; exact keeps_pure _
      · exact keeps_pure _
    · intro _; exact keeps_fail _
  · exact keeps_pure _

theorem Reconcile.addFinalizer_keeps_of {I : World → Prop} (inst : Obj)
    (hU : Keeps I (Client.Update (controllerutil.AddFinalizer inst cryostatFinalizer))) :
    Keeps I (Reconcile.addFinalizer inst) := by
  unfold Reconcile.addFinalizer
  split
  · apply keeps_orReturn
    unfold common.AddFinalizer
    exact keeps_bind hU (fun _ => keeps_pure _)
  · exact keeps_pure _

/-- The finalizer section issues no status update and leaves the status of the instance
as it was. -/
theorem Reconcile.toFinalizer_statusUntouched (r : CryostatReconciler)
    (request : NamespacedName) (w : World) :
    StatusUntouched ⟨.Cryostat, request.Namespace, request.Name⟩
      ((w.objs.get? ⟨.Cryostat, request.Namespace, request.Name⟩).map Obj.Status) w.log.length
      (Reconcile.toFinalizer r request w).2 := by
  have h0 : StatusUntouched ⟨.Cryostat, request.Namespace, request.Name⟩
      ((w.objs.get? ⟨.Cryostat, request.Namespace, request.Name⟩).map Obj.Status) w.log.length w :=
    Inv_start _ _ w rfl
  have hf := (respects_statusUntouched [] _ _ _ (fun t ht => by cases ht)).get
    ⟨.Cryostat, request.Namespace, request.Name⟩ w h0
  rw [← Reconcile.fetch_world] at hf
  unfold Reconcile.toFinalizer
  rw [run_bind]
  cases h1 : (Reconcile.fetch request w).1 with
  | error e => exact hf
  | ok inst =>
    simp only
    obtain ⟨hst, hk⟩ := Client.Get_ok _ _ _ (Reconcile.fetch_ok _ _ _ h1)
    rw [hst]
    rw [hst] at hf
    refine keeps_bind (Reconcile.finalize_keeps_of r inst
        (respects_statusUntouched _ _ _ _ (fun t ht => by
          simp only [List.mem_cons, List.mem_singleton, List.not_mem_nil, or_false] at ht
          rcases ht with h | h <;> rw [h] <;>
            exact ⟨(fun hc => by cases hc), (fun hc => by cases hc)⟩))
        (Client.Update_statusUntouched _ _ _ _ hk rfl))
      (fun _ => Reconcile.addFinalizer_keeps_of inst
        (Client.Update_statusUntouched _ _ _ _
          (by rw [controllerutil.AddFinalizer_key]; exact hk)
          (by rw [controllerutil.AddFinalizer_Status]; rfl))) _ hf

/-- When `createObjectIfNotExists` fails, the error is that of its last call, which is the
read or the creation. -/
theorem createObjectIfNotExists_failed (ns : NamespacedName) (found : Kind) (toCreate : Obj)
    (w : World) (e : Err) (h : (createObjectIfNotExists ns found toCreate w).1 = .error e) :
    ∃ c, (createObjectIfNotExists ns found toCreate w).2.log.getLast? = some c ∧
      c.err = some e ∧ (c.key.kind = found ∨ c.key = toCreate.key) := by
  unfold createObjectIfNotExists at h ⊢
  rw [run_bind, run_attempt] at h ⊢
  simp only at h ⊢
  have hl := Client.Get_log ⟨found, ns.Namespace, ns.Name⟩ w
  cases hg : (Client.Get ⟨found, ns.Namespace, ns.Name⟩ w).1 with
  | ok o => rw [hg] at h; cases h
  | error err =>
    rw [hg] at h hl
    simp only at h ⊢
    split at h
    · rw [if_pos (by assumption)]
      have hl2 := Client.Create_log toCreate (Client.Get ⟨found, ns.Namespace, ns.Name⟩ w).2
      rw [h] at hl2
      refine ⟨⟨.Create, toCreate.key, some toCreate, some e,
        (Client.Get ⟨found, ns.Namespace, ns.Name⟩ w).2.objs⟩, ?_, rfl, Or.inr rfl⟩
      rw [hl2]; simp [errOf]
    · rw [if_neg (by assumption)]
      rw [run_fail] at h ⊢
      simp only [Except.error.injEq] at h
      refine ⟨⟨.Get, ⟨found, ns.Namespace, ns.Name⟩, none, some e, w.objs⟩, ?_, rfl, Or.inl rfl⟩
      rw [hl, ← h]; simp [errOf]

end Cryostat

namespace Cryostat

/-- What `orReturn` gives when it fails: the empty result with the error of the call. -/
theorem orReturn_error {α : Type} (m : Op Err α) (w : World) (ret : Return)
    (h : (orReturn m w).1 = .error ret) : ∃ e, (m w).1 = .error e ∧ ret = ({}, some e) := by
  rw [run_orReturn] at h
  cases hm : (m w).1 with
  | ok b => rw [hm] at h; cases h
  | error e =>
    rw [hm] at h
    simp only [Except.error.injEq] at h
    exact ⟨e, rfl, h.symm⟩

/-- On OpenShift a pass that has come through the command section has a core URL. -/
theorem Reconcile.toCommand_coreURL (r : CryostatReconciler) (request : NamespacedName)
    (w : World) (st : PassState) (hos : r.IsOpenShift = true)
    (h : (Reconcile.toCommand r request w).1 = .ok st) :
    ∃ url, st.serviceSpecs.CoreURL = some url := by
  obtain ⟨_, hc, _⟩ := Reconcile.toCommand_urls r request w st h
  obtain ⟨host, hx⟩ := createService_openshift_ok r _ _ _ _ _ _ hos
    (Reconcile.core_ok r _ _ _ _ hc)
  exact ⟨_, hx⟩

/-- When `Reconcile` returns an error, no status update of the pass has succeeded and the
stored status of the instance is what it was, unless the platform is OpenShift and the
error is that of the last call, made for the ConsoleLink. -/
theorem Reconcile.status_on_error (r : CryostatReconciler) (request : NamespacedName)
    (w : World) (e : Err) (h : (Reconcile r request w).1.2 = some e) :
    StatusUntouched ⟨.Cryostat, request.Namespace, request.Name⟩
        ((w.objs.get? ⟨.Cryostat, request.Namespace, request.Name⟩).map Obj.Status) w.log.length
        (Reconcile r request w).2 ∨
      (r.IsOpenShift = true ∧ ∃ c, (Reconcile r request w).2.log.getLast? = some c ∧
        c.key.kind = .ConsoleLink ∧ c.err = some e) := by
  have hF := Reconcile.toFinalizer_statusUntouched r request w
  have hC := Reconcile.toCommand_frame r request w hF (fun inst _ =>
    respects_statusUntouched _ _ _ _ (fun t ht =>
      ⟨(servicesTouches_kind r _ _ _ t ht).1,
        fun hk => (servicesTouches_kind r _ _ _ t ht).2 (by rw [hk])⟩))
  rw [Reconcile.pass_world]
  cases hp : (Reconcile.pass r request w).1 with
  | ok u =>
    unfold Reconcile at h
    rw [hp] at h
    cases h
  | error ret =>
    have hret : ret.2 = some e := by
      unfold Reconcile at h
      rw [hp] at h
      exact h
    unfold Reconcile.pass at hp ⊢
    rcases bind_error _ _ _ _ hp with h1 | ⟨st, h1, h2⟩
    · left; rw [bind_of_error _ _ _ _ h1]; exact hC
    · rw [bind_of_ok _ _ _ _ h1]
      have hD := Reconcile.deployment_keeps r st.inst st.serviceSpecs st.tlsConfig
        (respects_statusUntouched _ ⟨.Cryostat, request.Namespace, request.Name⟩
          ((w.objs.get? ⟨.Cryostat, request.Namespace, request.Name⟩).map Obj.Status)
          w.log.length (fun t ht => by
          simp only [deploymentTouches, List.mem_cons, List.mem_singleton, List.not_mem_nil,
            or_false] at ht
          rcases ht with h | h <;> rw [h] <;>
            exact ⟨(fun hc => by cases hc), (fun hc => by cases hc)⟩)) _ hC
      rcases bind_error _ _ _ _ h2 with h3 | ⟨u, h3, h4⟩
      · left; rw [bind_of_error _ _ _ _ h3]; exact hD
      · rw [bind_of_ok _ _ _ _ h3]
        rcases bind_error _ _ _ _ h4 with h5 | ⟨inst2, h5, h6⟩
        · left
          rw [bind_of_error _ _ _ _ h5]
          unfold Reconcile.status at h5 ⊢
          cases hcu : st.serviceSpecs.CoreURL with
          | none => rw [hcu] at h5; cases h5
          | some url =>
            rw [hcu] at h5
            simp only at h5 ⊢
            rcases bind_error _ _ _ _ h5 with h7 | ⟨_, _, h8⟩
            · rw [bind_of_error _ _ _ _ h7, orReturn_world]
              obtain ⟨e2, h9, _⟩ := orReturn_error _ _ _ h7
              exact Client.StatusUpdate_failed _ _ _ _ _ e2 h9 hD
            · cases h8
        · rw [bind_of_ok _ _ _ _ h5]
          right
          unfold Reconcile.consoleLink at h6 ⊢
          by_cases hos : r.IsOpenShift = true
          · rw [if_pos hos] at h6 ⊢
            obtain ⟨url, hu⟩ := Reconcile.toCommand_coreURL r request w st hos h1
            rw [hu] at h6 ⊢
            simp only at h6 ⊢
            obtain ⟨e2, h9, h10⟩ := orReturn_error _ _ _ h6
            rw [h10] at hret
            simp only [Option.some.injEq] at hret
            rw [hret] at h9
            rw [orReturn_world]
            unfold createConsoleLink at h9 ⊢
            obtain ⟨c, hl, he, hk⟩ := createObjectIfNotExists_failed _ _ _ _ _ h9
            refine ⟨hos, c, hl, ?_, he⟩
            rcases hk with hk | hk
            · exact hk
            · rw [hk]; rfl
          · rw [if_neg hos] at h6; cases h6

end Cryostat

namespace Cryostat

/-! ## On a store that answers, the stale Deployment is deleted -/

/-- What has been issued stays issued. -/
theorem respects_issued (T : List Touch) (n : Nat) (Q : Call → Prop) :
    Respects T (Issued n Q) := by
  have h : ∀ {α : Type} (verb : Verb) (key : Key) (obj : Option Obj)
      (sem : Store → Except Err (α × Store)), Keeps (Issued n Q) (Client.call verb key obj sem) := by
    intro α verb key obj sem w hw
    obtain ⟨c, hc, hq⟩ := hw
    refine ⟨c, ?_, hq⟩
    rw [Client.call_log, List.drop_append_eq_append_drop]
    exact List.mem_append_left _ hc
  exact ⟨fun _ => h _ _ _ _, fun _ _ => h _ _ _ _, fun _ _ => h _ _ _ _, fun _ _ => h _ _ _ _,
    fun _ _ => h _ _ _ _⟩

/-- The sections up to and including RBAC keep what their writes keep. -/
theorem Reconcile.toRBAC_by {I : World → Prop} (r : CryostatReconciler)
    (request : NamespacedName) (w : World) (h0 : I (Reconcile.toFinalizer r request w).2)
    (hS : ∀ inst, (Reconcile.toFinalizer r request w).1 = .ok inst →
      Keeps I (Reconcile.storage r inst) ∧ Keeps I (Reconcile.secrets r inst) ∧
      Keeps I (Reconcile.rbac r inst)) :
    I (Reconcile.toRBAC r request w).2 := by
  have h2 : I (Reconcile.toSecrets r request w).2 := by
    unfold Reconcile.toSecrets
    rw [run_bind]
    cases h1 : (Reconcile.toFinalizer r request w).1 with
    | error e => exact h0
    | ok inst =>
      simp only
      obtain ⟨k1, k2, _⟩ := hS inst h1
      exact keeps_bind k1 (fun _ => keeps_bind k2 (fun _ => keeps_pure _)) _ h0
  unfold Reconcile.toRBAC
  rw [run_bind]
  cases h1 : (Reconcile.toSecrets r request w).1 with
  | error e => exact h2
  | ok inst =>
    simp only
    obtain ⟨_, _, k3⟩ := hS inst (Reconcile.toSecrets_ok _ _ _ _ h1)
    exact keeps_bind (Reconcile.tls_keeps r inst)
      (fun _ => keeps_bind k3 (fun _ => keeps_pure _)) _ h2

/-- On a store that answers, the step of lines 240-249 and 293-302 deletes the stored
Deployment when `mismatch` holds of its container count, and the store accepts the
delete. -/
theorem Reconcile.deleteDeployment_issues (inst : Obj) (mismatch : Nat → Bool) (d : Obj)
    (w : World) (n : Nat) (hn : n ≤ w.log.length) (hrel : w.Reliable)
    (hd : w.objs.get? ⟨.Deployment, inst.meta.Namespace, inst.meta.Name⟩ = some d)
    (hm : mismatch d.deploymentSpec.Template.Spec.Containers.length = true) :
    Issued n (fun c => c.verb = .Delete ∧
        c.key = ⟨.Deployment, inst.meta.Namespace, inst.meta.Name⟩ ∧ c.obj = some d ∧
        c.err = none)
      (Reconcile.deleteDeployment inst mismatch w).2 := by
  have hg := Client.Get_reliable ⟨.Deployment, inst.meta.Namespace, inst.meta.Name⟩ w hrel
  rw [hd] at hg
  have hrel2 := Client.Get_reliable_world ⟨.Deployment, inst.meta.Namespace, inst.meta.Name⟩ w hrel
  have hobjs := Client.Get_objs ⟨.Deployment, inst.meta.Namespace, inst.meta.Name⟩ w
  have hk := Store.get?_key _ _ _ hd
  have hdel := (Client.Delete_reliable d d _ hrel2 (by rw [hobjs, hk]; exact hd)).1
  have hlog := Client.Delete_log d (Client.Get ⟨.Deployment, inst.meta.Namespace, inst.meta.Name⟩ w).2
  rw [hdel, Client.Get_log, hk] at hlog
  unfold Reconcile.deleteDeployment
  rw [run_bind, run_attempt]
  simp only [hg, hm, if_true]
  rw [run_bind, run_attempt]
  simp only [hdel, run_pure]
  refine ⟨⟨.Delete, ⟨.Deployment, inst.meta.Namespace, inst.meta.Name⟩, some d, none,
    (Client.Get ⟨.Deployment, inst.meta.Namespace, inst.meta.Name⟩ w).2.objs⟩, ?_,
    rfl, rfl, rfl, rfl⟩
  rw [hlog, List.drop_append_of_le_length (by simp; omega)]
  simp [errOf]

end Cryostat

namespace Cryostat

/-! ## Which Deployment the minimality step deletes -/

/-- A property of the Deployment deletes in the trace is kept by reads and by every write
that is no Deployment delete. -/
theorem respects_deletes (T : List Touch) (n : Nat) (P : Call → Prop)
    (hT : ∀ t ∈ T, ¬ (t.1 = Verb.Delete ∧ t.2.kind = .Deployment)) :
    Respects T (Inv n (fun _ => True) (fun c => DeletesDeployment c → P c)) :=
  respects_of_calls T n _ (fun _ _ _ h => by cases h.1)
    (fun v o _ _ h hd => absurd hd (hT (v, o.key) h))

/-- Writes to objects of other kinds issue no Deployment delete and leave what the store
holds under the key of a Deployment. -/
theorem respects_untouched (T : List Touch) (n : Nat) (key : Key) (v : Option Obj)
    (hkey : key.kind = .Deployment) (hT : ∀ t ∈ T, t.2.kind ≠ .Deployment) :
    Respects T (Inv n (fun s => s.get? key = v) (fun c => ¬ DeletesDeployment c)) :=
  ⟨fun k => Client.Get_keeps n _ _ k (fun _ _ _ h => by cases h.1),
    fun o ho => Client.Create_keeps n _ _ o (fun _ _ _ h => by cases h.1) (fun s hs _ => by
      rw [Store.get?_append_ne _ _ _ (fun hk => hT _ ho (by rw [hk]; exact hkey))]; exact hs),
    fun o ho => Client.Update_keeps n _ _ o (fun _ _ _ h => by cases h.1) (fun s _ hs _ => by
      rw [Store.get?_replace_ne _ _ _ (fun hk => hT _ ho (by rw [hk]; exact hkey))]; exact hs),
    fun o ho => Client.Delete_keeps n _ _ o (fun _ _ _ h => hT _ ho h.2) (fun s _ hs _ => by
      rw [Store.get?_remove_ne _ _ _ (fun hk => hT _ ho (by rw [hk]; exact hkey))]; exact hs),
    fun o ho => Client.StatusUpdate_keeps n _ _ o (fun _ _ _ h => by cases h.1)
      (fun s _ hs _ => by
        rw [Store.get?_replaceStatus, hs]
        cases v with
        | none => rfl
        | some x =>
          have hx := Store.get?_key _ _ _ hs
          simp only [Option.map_some', Option.some.injEq]
          rw [if_neg]
          rw [hx]
          exact fun hk => hT _ ho (by rw [← hk]; exact hkey))⟩

/-- Before the first Deployment delete nothing is to be shown of the Deployment deletes. -/
theorem Inv.deletes_of_untouched {n : Nat} {key : Key} {v : Option Obj} {P : Call → Prop}
    {w : World}
    (h : Inv n (fun s => s.get? key = v) (fun c => ¬ DeletesDeployment c) w) :
    Inv n (fun _ => True) (fun c => DeletesDeployment c → P c) w :=
  ⟨trivial, fun c hc hd => absurd hd (h.2 c hc)⟩

/-- The step of lines 240-249 and 293-302 deletes only the Deployment it has read, and only
when `mismatch` holds of its container count. -/
theorem Reconcile.deleteDeployment_phase (inst : Obj) (mismatch : Nat → Bool) (n : Nat)
    (v : Option Obj) (P : Call → Prop)
    (hP : ∀ d e s, s.get? ⟨.Deployment, inst.meta.Namespace, inst.meta.Name⟩ = some d →
      v = some d → mismatch d.deploymentSpec.Template.Spec.Containers.length = true →
      P ⟨.Delete, ⟨.Deployment, inst.meta.Namespace, inst.meta.Name⟩, some d, e, s⟩)
    (w : World)
    (hw : Inv n (fun s => s.get? ⟨.Deployment, inst.meta.Namespace, inst.meta.Name⟩ = v)
      (fun c => ¬ DeletesDeployment c) w) :
    Inv n (fun _ => True) (fun c => DeletesDeployment c → P c)
      (Reconcile.deleteDeployment inst mismatch w).2 := by
  have hG := Client.Get_keeps n (fun s => s.get? ⟨.Deployment, inst.meta.Namespace,
      inst.meta.Name⟩ = v) (fun c => ¬ DeletesDeployment c)
    ⟨.Deployment, inst.meta.Namespace, inst.meta.Name⟩ (fun _ _ _ h => by cases h.1) w hw
  have hobjs := Client.Get_objs ⟨.Deployment, inst.meta.Namespace, inst.meta.Name⟩ w
  unfold Reconcile.deleteDeployment
  rw [run_bind, run_attempt]
  simp only
  cases hg : (Client.Get ⟨.Deployment, inst.meta.Namespace, inst.meta.Name⟩ w).1 with
  | error e => exact hG.deletes_of_untouched
  | ok d =>
    obtain ⟨hd, hk⟩ := Client.Get_ok _ _ _ hg
    simp only
    split
    · rename_i hm
      have hD : Inv n (fun _ => True) (fun c => DeletesDeployment c → P c)
          (Client.Delete d (Client.Get ⟨.Deployment, inst.meta.Namespace, inst.meta.Name⟩ w).2).2 := by
        refine ⟨trivial, fun c hc => ?_⟩
        rw [Client.Delete_log] at hc
        rcases List.mem_drop_append_singleton _ _ _ _ hc with h1 | h1
        · exact fun hdd => absurd hdd (hG.2 c h1)
        · intro _
          rw [h1, hk, hobjs]
          exact hP d _ _ hd (by rw [← hw.1]; exact hd) hm
      rw [run_bind, run_attempt]
      simp only
      cases (Client.Delete d (Client.Get ⟨.Deployment, inst.meta.Namespace, inst.meta.Name⟩ w).2).1 with
      | error err =>
        simp only
        split <;> exact hD
      | ok u => exact hD
    · exact hG.deletes_of_untouched

/-- The Grafana section deletes only the Deployment named after the instance, as the store
holds it, and only by its container count. -/
theorem Reconcile.grafana_phase (r : CryostatReconciler) (inst : Obj)
    (routeTLS : Option TLSConfig) (n : Nat) (v : Option Obj) (P : Call → Prop)
    (hP : ∀ c, DeletesStale ⟨.Deployment, inst.meta.Namespace, inst.meta.Name⟩
      inst.Spec.Minimal c → c.before.get? ⟨.Deployment, inst.meta.Namespace, inst.meta.Name⟩ = v →
      P c)
    (w : World)
    (hw : Inv n (fun s => s.get? ⟨.Deployment, inst.meta.Namespace, inst.meta.Name⟩ = v)
      (fun c => ¬ DeletesDeployment c) w) :
    Inv n (fun _ => True) (fun c => DeletesDeployment c → P c)
      (Reconcile.grafana r inst routeTLS w).2 := by
  unfold Reconcile.grafana
  split
  · rename_i hmin
    have hmin2 : inst.Spec.Minimal = false := by simpa using hmin
    have hw1 := @keeps_attempt _ Return _ _ _ (createService_keeps r inst
      (NewGrafanaService r.resources inst) (r.resources.GrafanaService inst.declared).Port
      routeTLS (respects_untouched _ n _ v rfl (fun t ht => by
        unfold createServiceTouches at ht
        split at ht
        · simp only [List.mem_cons, List.mem_singleton, List.not_mem_nil, or_false] at ht
          rcases ht with h | h | h <;> rw [h] <;> exact fun hc => by cases hc
        · simp only [List.mem_cons, List.mem_singleton, List.not_mem_nil, or_false] at ht
          rcases ht with h | h <;> rw [h] <;> exact fun hc => by cases hc)) rfl) w hw
    rw [run_bind]
    rw [run_attempt] at hw1 ⊢
    simp only at hw1 ⊢
    cases (createService r inst (NewGrafanaService r.resources inst)
      (r.resources.GrafanaService inst.declared).Port routeTLS w).1 with
    | error err => exact hw1.deletes_of_untouched
    | ok url =>
      simp only
      rw [run_bind]
      have hD := Reconcile.deleteDeployment_phase inst (fun n => n == 1) n v P
        (fun d e s hd hv hm => hP _ ⟨d, rfl, rfl, rfl, hd, (fun _ => by simpa using hm),
          (fun h => by rw [hmin2] at h; cases h)⟩ (by rw [hd, hv])) _ hw1
      cases (Reconcile.deleteDeployment inst (fun n => n == 1) (createService r inst
        (NewGrafanaService r.resources inst) (r.resources.GrafanaService inst.declared).Port
        routeTLS w).2).1 with
      | error e => exact hD
      | ok u => exact hD
  · rename_i hmin
    have hmin2 : inst.Spec.Minimal = true := by simpa using hmin
    have hRe := respects_untouched [(Verb.Delete, (⟨if r.IsOpenShift then .Route else .Ingress,
        (NewGrafanaService r.resources inst).meta.Namespace,
        (NewGrafanaService r.resources inst).meta.Name⟩ : Key))] n
      ⟨.Deployment, inst.meta.Namespace, inst.meta.Name⟩ v rfl (fun t ht => by
        simp only [List.mem_singleton] at ht
        rw [ht]
        split <;> exact fun hc => by cases hc)
    have hRs := respects_untouched [(Verb.Delete, (⟨.Service,
        (NewGrafanaService r.resources inst).meta.Namespace,
        (NewGrafanaService r.resources inst).meta.Name⟩ : Key))] n
      ⟨.Deployment, inst.meta.Namespace, inst.meta.Name⟩ v rfl (fun t ht => by
        simp only [List.mem_singleton] at ht
        rw [ht]
        exact fun hc => by cases hc)
    have hw1 := Reconcile.deleteExposure_keeps hRe _ _ (List.mem_singleton.mpr rfl) w hw
    rw [run_bind]
    cases (Reconcile.deleteExposure (if r.IsOpenShift then .Route else .Ingress)
      (NewGrafanaService r.resources inst) w).1 with
    | error e => exact hw1.deletes_of_untouched
    | ok u1 =>
      simp only
      have hw2 := Reconcile.deleteGrafanaService_keeps hRs _ (List.mem_singleton.mpr rfl) _ hw1
      rw [run_bind]
      cases (Reconcile.deleteGrafanaService (NewGrafanaService r.resources inst)
        (Reconcile.deleteExposure (if r.IsOpenShift then .Route else .Ingress)
          (NewGrafanaService r.resources inst) w).2).1 with
      | error e => exact hw2.deletes_of_untouched
      | ok u2 =>
        simp only
        rw [run_bind]
        have hD := Reconcile.deleteDeployment_phase inst (fun n => n > 1) n v P
          (fun d e s hd hv hm => hP _ ⟨d, rfl, rfl, rfl, hd,
            (fun h => by rw [hmin2] at h; cases h), (fun _ => by simpa using hm)⟩
            (by rw [hd, hv])) _ hw2
        cases (Reconcile.deleteDeployment inst (fun n => decide (n > 1))
          (Reconcile.deleteGrafanaService (NewGrafanaService r.resources inst)
            (Reconcile.deleteExposure (if r.IsOpenShift then .Route else .Ingress)
              (NewGrafanaService r.resources inst) w).2).2).1 with
        | error e => exact hD
        | ok u => exact hD

/-- Every delete of a Deployment in a pass is the delete, in the minimality step, of the
Deployment named after the instance as the store holds it, which is as it was before the
pass, with a container count that does not fit the flag `Minimal` of the instance that
was read. -/
theorem Reconcile.deletes_stale (r : CryostatReconciler) (request : NamespacedName)
    (w : World) (c : Call) (hc : c ∈ (Reconcile r request w).2.callsSince w)
    (hd : DeletesDeployment c) :
    ∃ inst, (Client.Get ⟨.Cryostat, request.Namespace, request.Name⟩ w).1 = .ok inst ∧
      inst.meta.DeletionTimestamp = none ∧
      DeletesStale ⟨.Deployment, request.Namespace, request.Name⟩ inst.Spec.Minimal c ∧
      c.before.get? ⟨.Deployment, request.Namespace, request.Name⟩
        = w.objs.get? ⟨.Deployment, request.Namespace, request.Name⟩ := by
  have hkinds : ∀ (ns name : String) (t : Touch),
      t ∈ storageTouches ns name ++ secretsTouches ns name ++ createRBACTouches r ns name →
      t.2.kind ≠ .Deployment := by
    intro ns name t ht
    simp only [storageTouches, secretsTouches, createRBACTouches, List.mem_append,
      List.mem_cons, List.mem_singleton, List.not_mem_nil, or_false] at ht
    rcases ht with (h | h | h) | h | h | h | h <;> rw [h] <;> exact fun hc => by cases hc
  have h0 := Reconcile.toFinalizer_frame r request w
    (I := Inv w.log.length (fun s => s.get? ⟨.Deployment, request.Namespace, request.Name⟩
        = w.objs.get? ⟨.Deployment, request.Namespace, request.Name⟩)
      (fun c => ¬ DeletesDeployment c))
    (Inv_start _ _ w rfl)
    (respects_untouched _ _ _ _ rfl (fun t ht => by
      simp only [finalizerTouches, List.mem_cons, List.mem_singleton, List.not_mem_nil,
        or_false] at ht
      rcases ht with h | h | h <;> rw [h] <;> exact fun hc => by cases hc))
  have h3 := Reconcile.toRBAC_by r request w h0 (fun i hi =>
    ⟨Reconcile.storage_keeps r i (respects_untouched _ _ _ _ rfl (fun t ht =>
        hkinds _ _ t (by simp only [List.mem_append]; tauto))),
      Reconcile.secrets_keeps r i (respects_untouched _ _ _ _ rfl (fun t ht =>
        hkinds _ _ t (by simp only [List.mem_append]; tauto))),
      Reconcile.rbac_keeps r i (respects_untouched _ _ _ _ rfl (fun t ht =>
        hkinds _ _ t (by simp only [List.mem_append]; tauto)))⟩)
  have h4 : Inv w.log.length (fun _ => True) (fun c => DeletesDeployment c →
      ∃ inst, (Client.Get ⟨.Cryostat, request.Namespace, request.Name⟩ w).1 = .ok inst ∧
        inst.meta.DeletionTimestamp = none ∧
        DeletesStale ⟨.Deployment, request.Namespace, request.Name⟩ inst.Spec.Minimal c ∧
        c.before.get? ⟨.Deployment, request.Namespace, request.Name⟩
          = w.objs.get? ⟨.Deployment, request.Namespace, request.Name⟩)
      (Reconcile.toGrafana r request w).2 := by
    unfold Reconcile.toGrafana
    rw [run_bind]
    cases h1 : (Reconcile.toRBAC r request w).1 with
    | error e => exact h3.deletes_of_untouched
    | ok st =>
      simp only
      have hi := Reconcile.toRBAC_inst r request w st h1
      obtain ⟨read, hget, hinst, hact⟩ := Reconcile.toFinalizer_ok r request w st.inst hi
      obtain ⟨hns, hname, _⟩ := Reconcile.toFinalizer_inst r request w st.inst hi
      have hspec := Reconcile.toFinalizer_spec r request w read st.inst hget hact hi
      have hG := Reconcile.grafana_phase r st.inst st.routeTLS w.log.length
        (w.objs.get? ⟨.Deployment, request.Namespace, request.Name⟩)
        (fun c => ∃ inst, (Client.Get ⟨.Cryostat, request.Namespace, request.Name⟩ w).1
            = .ok inst ∧ inst.meta.DeletionTimestamp = none ∧
          DeletesStale ⟨.Deployment, request.Namespace, request.Name⟩ inst.Spec.Minimal c ∧
          c.before.get? ⟨.Deployment, request.Namespace, request.Name⟩
            = w.objs.get? ⟨.Deployment, request.Namespace, request.Name⟩)
        (fun c hc hb => ⟨read, hget, hact, by
          rw [hns, hname, hspec] at hc; exact hc, by rw [hns, hname] at hb; exact hb⟩)
        (Reconcile.toRBAC r request w).2 (by rw [hns, hname]; exact h3)
      rw [run_bind]
      cases (Reconcile.grafana r st.inst st.routeTLS (Reconcile.toRBAC r request w).2).1 with
      | error e => exact hG
      | ok url => exact hG
  have hsvc : ∀ ns name : String, ∀ t ∈ createServiceTouches r ns name,
      ¬ (t.1 = Verb.Delete ∧ t.2.kind = .Deployment) := by
    intro ns name t ht
    unfold createServiceTouches at ht
    split at ht
    · simp only [List.mem_cons, List.mem_singleton, List.not_mem_nil, or_false] at ht
      rcases ht with h | h | h <;> rw [h] <;> exact fun hc => by cases hc.1
    · simp only [List.mem_cons, List.mem_singleton, List.not_mem_nil, or_false] at ht
      rcases ht with h | h <;> rw [h] <;> exact fun hc => by cases hc.1
  have h5 := Reconcile.toCore_step r request w h4 (fun _ _ => respects_deletes _ _ _ (hsvc _ _))
  have h6 := Reconcile.toCommand_step r request w h5
    (fun _ _ => respects_deletes _ _ _ (hsvc _ _))
  have h7 := Reconcile.pass_step r request w h6 (fun st _ => respects_deletes _ _ _
    (fun t ht => by
      simp only [deploymentTouches, statusTouches, consoleLinkTouches, List.mem_append,
        List.mem_cons, List.mem_singleton, List.not_mem_nil, or_false] at ht
      rcases ht with ((h | h) | h) | h
      · rw [h]; exact fun hc => by cases hc.1
      · rw [h]; exact fun hc => by cases hc.1
      · rw [h]; exact fun hc => by cases hc.1
      · split at h
        · simp only [List.mem_singleton] at h
          rw [h]; exact fun hc => by cases hc.1
        · cases h))
  exact h7.2 c hc hd

end Cryostat

namespace Cryostat

/-- The trace never gets shorter. -/
theorem respects_log_le (T : List Touch) (n : Nat) :
    Respects T (fun w => n ≤ w.log.length) := by
  have h : ∀ {α : Type} (verb : Verb) (key : Key) (obj : Option Obj)
      (sem : Store → Except Err (α × Store)),
      Keeps (fun w => n ≤ w.log.length) (Client.call verb key obj sem) := by
    intro α verb key obj sem w hw
    show n ≤ (Client.call verb key obj sem w).2.log.length
    rw [Client.call_log, List.length_append]
    exact Nat.le_add_right_of_le hw
  exact ⟨fun _ => h _ _ _ _, fun _ _ => h _ _ _ _, fun _ _ => h _ _ _ _, fun _ _ => h _ _ _ _,
    fun _ _ => h _ _ _ _⟩

/-- Writes to other keys on a store that answers: the store still answers, it still holds
`d` under `k`, and the trace has not got shorter. -/
theorem respects_answering (T : List Touch) (k : Key) (d : Obj) (n : Nat)
    (hT : ∀ t ∈ T, t.2 ≠ k) :
    Respects T (fun w => (w.Reliable ∧ w.objs.get? k = some d) ∧ n ≤ w.log.length) :=
  ((respects_reliable T).and (respects_get? T k (fun o => o = some d) hT)).and
    (respects_log_le T n)

/-- On a store that answers, a Grafana section that succeeds has deleted the stored
Deployment when its container count does not fit the flag `Minimal`. -/
theorem Reconcile.grafana_issues (r : CryostatReconciler) (inst : Obj)
    (routeTLS : Option TLSConfig) (d : Obj) (w : World) (n : Nat) (url : Option URL)
    (hw : (w.Reliable ∧ w.objs.get? ⟨.Deployment, inst.meta.Namespace, inst.meta.Name⟩ = some d)
      ∧ n ≤ w.log.length)
    (hfull : inst.Spec.Minimal = false →
      d.deploymentSpec.Template.Spec.Containers.length = 1)
    (hmin : inst.Spec.Minimal = true → d.deploymentSpec.Template.Spec.Containers.length > 1)
    (hok : (Reconcile.grafana r inst routeTLS w).1 = .ok url) :
    Issued n (fun c => c.verb = .Delete ∧
        c.key = ⟨.Deployment, inst.meta.Namespace, inst.meta.Name⟩ ∧ c.obj = some d ∧
        c.err = none)
      (Reconcile.grafana r inst routeTLS w).2 := by
  unfold Reconcile.grafana at hok ⊢
  split at hok
  · rename_i hm
    have hm2 : inst.Spec.Minimal = false := by simpa using hm
    rw [if_pos hm]
    obtain ⟨res, h1, h2⟩ := bind_ok _ _ _ _ hok
    rw [bind_of_ok _ _ _ _ h1]
    have hw1 := @keeps_attempt _ Return _ _ _ (createService_keeps r inst
      (NewGrafanaService r.resources inst) (r.resources.GrafanaService inst.declared).Port
      routeTLS (respects_answering _ _ d n (by
        cases hos : r.IsOpenShift <;>
          simp [createServiceTouches, hos, NewGrafanaService, NewService])) rfl) w hw
    cases res with
    | error err => simp only at h2; cases h2
    | ok u =>
      simp only at h2 ⊢
      obtain ⟨_, h3, _⟩ := bind_ok _ _ _ _ h2
      rw [bind_of_ok _ _ _ _ h3, run_pure]
      exact Reconcile.deleteDeployment_issues inst _ d _ n hw1.2 hw1.1.1 hw1.1.2
        (by simp [hfull hm2])
  · rename_i hm
    have hm2 : inst.Spec.Minimal = true := by simpa using hm
    rw [if_neg hm]
    have hRe := respects_answering [(Verb.Delete, (⟨if r.IsOpenShift then .Route else .Ingress,
        (NewGrafanaService r.resources inst).meta.Namespace,
        (NewGrafanaService r.resources inst).meta.Name⟩ : Key))]
      ⟨.Deployment, inst.meta.Namespace, inst.meta.Name⟩ d n (fun t ht => by
        simp only [List.mem_singleton] at ht
        rw [ht]
        split <;> exact fun hc => by cases hc)
    have hRs := respects_answering [(Verb.Delete, (⟨.Service,
        (NewGrafanaService r.resources inst).meta.Namespace,
        (NewGrafanaService r.resources inst).meta.Name⟩ : Key))]
      ⟨.Deployment, inst.meta.Namespace, inst.meta.Name⟩ d n (fun t ht => by
        simp only [List.mem_singleton] at ht
        rw [ht]
        exact fun hc => by cases hc)
    obtain ⟨_, h1, h2⟩ := bind_ok _ _ _ _ hok
    rw [bind_of_ok _ _ _ _ h1]
    have hw1 := Reconcile.deleteExposure_keeps hRe _ _ (List.mem_singleton.mpr rfl) w hw
    obtain ⟨_, h3, h4⟩ := bind_ok _ _ _ _ h2
    rw [bind_of_ok _ _ _ _ h3]
    have hw2 := Reconcile.deleteGrafanaService_keeps hRs _ (List.mem_singleton.mpr rfl) _ hw1
    obtain ⟨_, h5, _⟩ := bind_ok _ _ _ _ h4
    rw [bind_of_ok _ _ _ _ h5, run_pure]
    exact Reconcile.deleteDeployment_issues inst _ d _ n hw2.2 hw2.1.1 hw2.1.2
      (by simp [hmin hm2])

/-- On a store that answers, a pass over a live instance that comes through the Grafana
section has deleted the stored Deployment when its container count does not fit the flag
`Minimal`, and the store has accepted the delete. -/
theorem Reconcile.delete_issued (r : CryostatReconciler) (request : NamespacedName)
    (w : World) (inst d : Obj) (st : PassState) (hrel : w.Reliable)
    (hget : (Client.Get ⟨.Cryostat, request.Namespace, request.Name⟩ w).1 = .ok inst)
    (hact : inst.meta.DeletionTimestamp = none)
    (hd : w.objs.get? ⟨.Deployment, request.Namespace, request.Name⟩ = some d)
    (hfull : inst.Spec.Minimal = false →
      d.deploymentSpec.Template.Spec.Containers.length = 1)
    (hmin : inst.Spec.Minimal = true → d.deploymentSpec.Template.Spec.Containers.length > 1)
    (hok : (Reconcile.toGrafana r request w).1 = .ok st) :
    ∃ c ∈ (Reconcile r request w).2.callsSince w, c.verb = .Delete ∧
      c.key = ⟨.Deployment, request.Namespace, request.Name⟩ ∧ c.obj = some d ∧
      c.err = none := by
  have h0 := Reconcile.toFinalizer_frame r request w
    (I := fun u => (u.Reliable ∧ u.objs.get? ⟨.Deployment, request.Namespace, request.Name⟩
      = some d) ∧ w.log.length ≤ u.log.length) ⟨⟨hrel, hd⟩, Nat.le_refl _⟩
    (respects_answering _ _ d _ (fun t ht => by
      simp only [finalizerTouches, List.mem_cons, List.mem_singleton, List.not_mem_nil,
        or_false] at ht
      rcases ht with h | h | h <;> rw [h] <;> exact fun hc => by cases hc))
  have h3 := Reconcile.toRBAC_by r request w h0 (fun i hi =>
    ⟨Reconcile.storage_keeps r i (respects_answering _ _ d _ (fun t ht => by
        simp only [storageTouches, List.mem_singleton] at ht
        rw [ht]; exact fun hc => by cases hc)),
      Reconcile.secrets_keeps r i (respects_answering _ _ d _ (fun t ht => by
        simp only [secretsTouches, List.mem_cons, List.mem_singleton, List.not_mem_nil,
          or_false] at ht
        rcases ht with h | h <;> rw [h] <;> exact fun hc => by cases hc)),
      Reconcile.rbac_keeps r i (respects_answering _ _ d _ (fun t ht => by
        simp only [createRBACTouches, List.mem_cons, List.mem_singleton, List.not_mem_nil,
          or_false] at ht
        rcases ht with h | h | h | h <;> rw [h] <;> exact fun hc => by cases hc))⟩)
  obtain ⟨st0, h4, _, _, _, h5⟩ := Reconcile.toGrafana_ok r request w st hok
  have hi := Reconcile.toRBAC_inst r request w st0 h4
  obtain ⟨hns, hname, _⟩ := Reconcile.toFinalizer_inst r request w st0.inst hi
  have hspec := Reconcile.toFinalizer_spec r request w inst st0.inst hget hact hi
  have h6 := Reconcile.grafana_issues r st0.inst st0.routeTLS d (Reconcile.toRBAC r request w).2
    w.log.length _ (by rw [hns, hname]; exact h3) (by rw [hspec]; exact hfull)
    (by rw [hspec]; exact hmin) h5
  rw [hns, hname] at h6
  have h7 : Issued w.log.length (fun c => c.verb = .Delete ∧
      c.key = ⟨.Deployment, request.Namespace, request.Name⟩ ∧ c.obj = some d ∧ c.err = none)
      (Reconcile.toGrafana r request w).2 := by
    unfold Reconcile.toGrafana
    rw [bind_of_ok _ _ _ _ h4, bind_of_ok _ _ _ _ h5, run_pure]
    exact h6
  have h8 := Reconcile.toCore_step r request w h7 (fun _ _ => respects_issued _ _ _)
  have h9 := Reconcile.toCommand_step r request w h8 (fun _ _ => respects_issued _ _ _)
  exact Reconcile.pass_step r request w h9 (fun _ _ => respects_issued _ _ _)

end Cryostat

namespace Cryostat

/-- An object of kind Deployment that `setPodSpec` leaves as it is has that pod spec. -/
theorem Obj.podSpec_of_fixed (o : Obj) (p : PodSpec) (hk : o.key.kind = .Deployment)
    (h : o.setPodSpec p = o) : o.deploymentSpec.Template.Spec = p := by
  cases o with
  | mk m body =>
    cases body
    case Deployment s =>
      simp only [Obj.setPodSpec, Obj.mk.injEq, Body.Deployment.injEq, true_and] at h
      show s.Template.Spec = p
      rw [← h]
    all_goals simp [Obj.key, Body.kind] at hk

/-- A Deployment step that succeeds leaves a Deployment with the desired pod spec. -/
theorem Reconcile.deployment_stored (r : CryostatReconciler) (inst : Obj)
    (serviceSpecs : ServiceSpecs) (tlsConfig : Option ResourcesTLSConfig) (w : World)
    (hok : (Reconcile.deployment r inst serviceSpecs tlsConfig w).1 = .ok ()) :
    ∃ fsGroup d2, (getFSGroup r inst.meta.Namespace w).1 = .ok fsGroup ∧
      (Reconcile.deployment r inst serviceSpecs tlsConfig w).2.objs.get?
          ⟨.Deployment, inst.meta.Namespace, inst.meta.Name⟩ = some d2 ∧
      d2.deploymentSpec.Template.Spec
        = (r.resources.DeploymentSpec inst.declared serviceSpecs (getImageTags r) tlsConfig
            fsGroup).Template.Spec := by
  unfold Reconcile.deployment at hok ⊢
  obtain ⟨fs, h1, h2⟩ := bind_ok _ _ _ _ hok
  rw [bind_of_ok _ _ _ _ h1]
  simp only at h2 ⊢
  obtain ⟨dep, h3, h4⟩ := bind_ok _ _ _ _ h2
  rw [bind_of_ok _ _ _ _ h3]
  have h3b := orReturn_ok _ _ _ h3
  rw [run_ofExcept] at h3b
  simp only at h3b
  have hk : dep.key = ⟨.Deployment, inst.meta.Namespace, inst.meta.Name⟩ := by
    rw [SetControllerReference_key _ _ _ h3b]; rfl
  simp only [orReturn_world, run_ofExcept] at h4 ⊢
  obtain ⟨res, h5, _⟩ := bind_ok _ _ _ _ h4
  rw [bind_of_ok _ _ _ _ h5, run_pure]
  have h5b := orReturn_ok _ _ _ h5
  obtain ⟨x, hst, hfix, _⟩ := CreateOrUpdate_fixed dep _ _ (fun o => Obj.setPodSpec_key o _)
    (fun o => Obj.setPodSpec_idem o _)
    (fun s => (Obj.readInto_setPodSpec _ s dep _).mp) res.1 res.2 h5b
  rw [hk] at hst
  simp only [orReturn_world]
  refine ⟨fs, x, orReturn_ok _ _ _ h1, hst, ?_⟩
  refine Obj.podSpec_of_fixed _ _ ?_ hfix
  rw [Store.get?_key _ _ _ hst]

/-- A pass over a live instance that runs to its end leaves a Deployment with the desired
pod spec. -/
theorem Reconcile.leaves_pod_spec (r : CryostatReconciler) (request : NamespacedName)
    (w : World) (hpass : (Reconcile.pass r request w).1 = .ok ()) :
    ∃ st fsGroup d2,
      (Reconcile.toCommand r request w).1 = .ok st ∧
      (getFSGroup r request.Namespace (Reconcile.toCommand r request w).2).1 = .ok fsGroup ∧
      (Reconcile r request w).2.objs.get? ⟨.Deployment, request.Namespace, request.Name⟩
        = some d2 ∧
      d2.deploymentSpec.Template.Spec
        = (r.resources.DeploymentSpec st.inst.declared st.serviceSpecs (getImageTags r)
            st.tlsConfig fsGroup).Template.Spec := by
  obtain ⟨st, hcmd⟩ := Reconcile.pass_ok r request w hpass
  have hfi := Reconcile.toCommand_inst _ _ _ _ hcmd
  obtain ⟨hns, hname, _⟩ := Reconcile.toFinalizer_inst r request w st.inst hfi
  have hdep : (Reconcile.deployment r st.inst st.serviceSpecs st.tlsConfig
      (Reconcile.toCommand r request w).2).1 = .ok () := by
    have hp := hpass
    unfold Reconcile.pass at hp
    rw [bind_of_ok _ _ _ _ hcmd] at hp
    obtain ⟨u, h3, _⟩ := bind_ok _ _ _ _ hp
    exact h3
  obtain ⟨fs, d2, hfs, hst, hspec⟩ := Reconcile.deployment_stored r st.inst st.serviceSpecs
    st.tlsConfig _ hdep
  have hfinal := Reconcile.pass_tail r request w st hcmd
    (I := fun u => u.objs.get? ⟨.Deployment, st.inst.meta.Namespace, st.inst.meta.Name⟩
      = some d2) hst
    (respects_get? _ _ (fun o => o = some d2) (by
      cases hos : r.IsOpenShift <;> simp [statusTouches, consoleLinkTouches, hos]))
  rw [hns, hname] at hfinal
  rw [hns] at hfs
  exact ⟨st, fs, d2, hcmd, hfs, hfinal, hspec⟩

end Cryostat

namespace Cryostat

/-! ## What the calls of a computation are like -/

theorem issues_pure {ε α : Type} (Q : Call → Prop) (a : α) : Issues Q (pure a : Op ε α) :=
  fun _ => keeps_pure a

theorem issues_fail {ε α : Type} (Q : Call → Prop) (e : ε) : Issues Q (Op.fail e : Op ε α) :=
  fun _ => keeps_fail e

theorem issues_bind {ε α β : Type} {Q : Call → Prop} {m : Op ε α} {f : α → Op ε β}
    (hm : Issues Q m) (hf : ∀ a, Issues Q (f a)) : Issues Q (m >>= f) :=
  fun n => keeps_bind (hm n) (fun a => hf a n)

/-- A sequence, where the second part may rely on the value being one the first part can
yield. -/
theorem issues_bind_of {ε α β : Type} {Q : Call → Prop} {m : Op ε α} {f : α → Op ε β}
    (hm : Issues Q m) (hf : ∀ a, (∃ w, (m w).1 = .ok a) → Issues Q (f a)) :
    Issues Q (m >>= f) := by
  intro n w hw
  rw [run_bind]
  cases h : (m w).1 with
  | error e => exact hm n w hw
  | ok a => exact hf a ⟨w, h⟩ n _ (hm n w hw)

theorem issues_attempt {ε ε2 α : Type} {Q : Call → Prop} {m : Op ε α} (hm : Issues Q m) :
    Issues Q (Op.attempt m : Op ε2 (Except ε α)) :=
  fun n => keeps_attempt (hm n)

theorem issues_orReturn {α : Type} {Q : Call → Prop} {m : Op Err α} (hm : Issues Q m) :
    Issues Q (orReturn m) :=
  fun n => keeps_orReturn (hm n)

theorem issues_bind_ofExcept {ε α β : Type} {Q : Call → Prop} {x : Except ε α}
    {f : α → Op ε β} (hf : ∀ a, x = .ok a → Issues Q (f a)) :
    Issues Q (Op.ofExcept x >>= f) :=
  fun n => keeps_bind_ofExcept (fun a h => hf a h n)

theorem issues_bind_orReturn_ofExcept {α β : Type} {Q : Call → Prop} {x : Except Err α}
    {f : α → Op Return β} (hf : ∀ a, x = .ok a → Issues Q (f a)) :
    Issues Q (orReturn (Op.ofExcept x) >>= f) :=
  fun n => keeps_bind_orReturn_ofExcept (fun a h => hf a h n)

theorem issues_call {α : Type} (Q : Call → Prop) (verb : Verb) (key : Key) (obj : Option Obj)
    (sem : Store → Except Err (α × Store)) (h : ∀ e s, Q ⟨verb, key, obj, e, s⟩) :
    Issues Q (Client.call verb key obj sem) := by
  intro n w hw c hc
  rw [Client.call_log] at hc
  rcases List.mem_drop_append_singleton _ _ _ _ hc with h1 | h1
  · exact hw c h1
  · rw [h1]; exact h _ _

theorem issues_get (Q : Call → Prop) (key : Key) (h : ∀ e s, Q ⟨.Get, key, none, e, s⟩) :
    Issues Q (Client.Get key) :=
  issues_call Q _ _ _ _ h

theorem issues_create (Q : Call → Prop) (o : Obj) (h : ∀ e s, Q ⟨.Create, o.key, some o, e, s⟩) :
    Issues Q (Client.Create o) :=
  issues_call Q _ _ _ _ h

theorem issues_update (Q : Call → Prop) (o : Obj) (h : ∀ e s, Q ⟨.Update, o.key, some o, e, s⟩) :
    Issues Q (Client.Update o) :=
  issues_call Q _ _ _ _ h

theorem issues_delete (Q : Call → Prop) (o : Obj) (h : ∀ e s, Q ⟨.Delete, o.key, some o, e, s⟩) :
    Issues Q (Client.Delete o) :=
  issues_call Q _ _ _ _ h

theorem issues_statusUpdate (Q : Call → Prop) (o : Obj)
    (h : ∀ e s, Q ⟨.StatusUpdate, o.key, some o, e, s⟩) : Issues Q (Client.StatusUpdate o) :=
  issues_call Q _ _ _ _ h

/-- After a read handed on as a value, the continuation may rely on the key of what was
read. -/
theorem issues_bind_get {ε β : Type} {Q : Call → Prop} (k : Key)
    {f : Except Err Obj → Op ε β} (h : ∀ e s, Q ⟨.Get, k, none, e, s⟩)
    (hf : ∀ res, (∀ o, res = .ok o → o.key = k) → Issues Q (f res)) :
    Issues Q (Op.attempt (Client.Get k) >>= f) :=
  fun n => keeps_bind_get k (issues_get Q k h n) (fun res hres => hf res hres n)

theorem issues_bind_getInto {ε β : Type} {Q : Call → Prop} (obj : Obj)
    {f : Except Err Obj → Op ε β} (h : ∀ e s, Q ⟨.Get, obj.key, none, e, s⟩)
    (hf : ∀ res, (∀ o, res = .ok o → o.key = obj.key) → Issues Q (f res)) :
    Issues Q (Op.attempt (Client.GetInto obj) >>= f) :=
  fun n => keeps_bind_getInto obj (issues_get Q obj.key h n) (fun res hres => hf res hres n)

/-- What a computation issues, said of the calls of one run. -/
theorem Issues.holds_of_calls {ε α : Type} {Q : Call → Prop} {m : Op ε α} (h : Issues Q m) (w : World) :
    ∀ c ∈ (m w).2.callsSince w, Q c :=
  h w.log.length w (by simp)

theorem createObjectIfNotExists_issues (Q : Call → Prop) (ns : NamespacedName) (found : Kind)
    (toCreate : Obj) (hG : ∀ e s, Q ⟨.Get, ⟨found, ns.Namespace, ns.Name⟩, none, e, s⟩)
    (hC : ∀ e s, Q ⟨.Create, toCreate.key, some toCreate, e, s⟩) :
    Issues Q (createObjectIfNotExists ns found toCreate) := by
  unfold createObjectIfNotExists
  apply issues_bind (issues_attempt (issues_get Q _ hG)); intro res
  split
  · split
    · exact issues_create Q _ hC
    · exact issues_fail Q _
  · exact issues_pure Q _

theorem CreateOrUpdate_issues (Q : Call → Prop) (obj : Obj) (f : Obj → Obj)
    (hG : ∀ e s, Q ⟨.Get, obj.key, none, e, s⟩)
    (hC : ∀ e s, Q ⟨.Create, (f obj).key, some (f obj), e, s⟩)
    (hU : ∀ x e s, x.key = obj.key → Q ⟨.Update, (f x).key, some (f x), e, s⟩) :
    Issues Q (CreateOrUpdate obj f) := by
  unfold CreateOrUpdate
  apply issues_bind_getInto obj hG; intro res hres
  split
  · split
    · exact issues_bind (issues_create Q _ hC) (fun _ => issues_pure Q _)
    · exact issues_fail Q _
  · rename_i existing
    split
    · exact issues_pure Q _
    · exact issues_bind (issues_update Q _ (fun e s => hU existing e s (hres existing rfl)))
        (fun _ => issues_pure Q _)

end Cryostat

namespace Cryostat

/-! ## Owner references of what the pass creates -/

/-- The object `SetControllerReference` yields has a controller reference to the owner. -/
theorem SetControllerReference_owned (owner object o : Obj)
    (h : SetControllerReference owner object = .ok o) :
    (⟨owner.kind, owner.meta.Name, true⟩ : OwnerReference) ∈ o.meta.OwnerReferences := by
  unfold SetControllerReference at h
  split at h
  · cases h
  · split at h
    · cases h
    · split at h
      · cases h
      · simp only [Except.ok.injEq] at h
        rw [← h]
        simp

/-- A call that is no Create and on no cluster-scoped object. -/
theorem owned_plain (r : CryostatReconciler) (ns name : String) (verb : Verb) (k : Key)
    (obj : Option Obj) (e : Option Err) (s : Store) (hv : verb ≠ .Create)
    (h1 : k.kind ≠ .ClusterRoleBinding) (h2 : k.kind ≠ .ConsoleLink) :
    Owned r ns name ⟨verb, k, obj, e, s⟩ :=
  ⟨fun h => by rcases h with h | h; exact absurd h h1; exact absurd h h2,
    fun h => absurd h hv⟩

/-- A call on a cluster-scoped object, under the derived name. -/
theorem owned_cluster (r : CryostatReconciler) (ns name : String) (verb : Verb) (K : Kind)
    (o : Obj) (obj : Option Obj) (e : Option Err) (s : Store)
    (hK : K = .ClusterRoleBinding ∨ K = .ConsoleLink)
    (hk : o.key = ⟨K, "", r.resources.ClusterUniqueName ns name⟩)
    (hobj : verb = .Create → obj = some o) (hrefs : o.meta.OwnerReferences = []) :
    Owned r ns name ⟨verb, o.key, obj, e, s⟩ := by
  refine ⟨fun _ => by rw [hk]; exact ⟨rfl, rfl⟩, fun hv => ⟨o, hobj hv, rfl, Or.inl ⟨?_, hrefs⟩⟩⟩
  show o.key.kind = .ClusterRoleBinding ∨ o.key.kind = .ConsoleLink
  rw [hk]; exact hK

/-- The Create of an object with the owner reference. -/
theorem owned_create (r : CryostatReconciler) (ns name : String) (o : Obj) (e : Option Err)
    (s : Store) (hk : o.key.kind ∈ namespacedKinds) (hns : o.meta.Namespace = ns)
    (href : (⟨.Cryostat, name, true⟩ : OwnerReference) ∈ o.meta.OwnerReferences) :
    Owned r ns name ⟨.Create, o.key, some o, e, s⟩ := by
  refine ⟨fun h => ?_, fun _ => ⟨o, rfl, rfl, Or.inr ⟨hk, hns, href⟩⟩⟩
  exfalso
  simp only [namespacedKinds, List.mem_cons, List.mem_singleton, List.not_mem_nil,
    or_false] at hk
  change o.key.kind = .ClusterRoleBinding ∨ o.key.kind = .ConsoleLink at h
  rcases h with h | h <;> rw [h] at hk <;> simp at hk

/-- The function `createObjectIfNotExists` for an object that has got its owner reference
from `SetControllerReference`. -/
theorem createObjectIfNotExists_owned (r : CryostatReconciler) (inst base o : Obj)
    (hk : inst.body.kind = .Cryostat) (hb : base.key.kind ∈ namespacedKinds)
    (hns : base.meta.Namespace = inst.meta.Namespace)
    (h : SetControllerReference inst base = .ok o) :
    Issues (Owned r inst.meta.Namespace inst.meta.Name)
      (createObjectIfNotExists ⟨o.meta.Namespace, o.meta.Name⟩ base.key.kind o) := by
  obtain ⟨m1, m2, m3⟩ := SetControllerReference_meta _ _ _ h
  have hkey := SetControllerReference_key _ _ _ h
  have hnc : base.key.kind ≠ .ClusterRoleBinding ∧ base.key.kind ≠ .ConsoleLink := by
    simp only [namespacedKinds, List.mem_cons, List.mem_singleton, List.not_mem_nil,
      or_false] at hb
    constructor <;> intro hc <;> rw [hc] at hb <;> simp at hb
  refine createObjectIfNotExists_issues _ _ _ _
    (fun e s => owned_plain r _ _ _ _ _ _ _ (by intro hc; cases hc) hnc.1 hnc.2)
    (fun e s => owned_create r _ _ o e s (by rw [hkey]; exact hb) (by rw [m2, hns]) ?_)
  have := SetControllerReference_owned _ _ _ h
  unfold Obj.kind at this
  rw [hk] at this
  exact this

theorem createRBAC_owned (r : CryostatReconciler) (inst : Obj)
    (hk : inst.body.kind = .Cryostat) :
    Issues (Owned r inst.meta.Namespace inst.meta.Name) (createRBAC r inst) := by
  unfold createRBAC
  apply issues_bind_ofExcept; intro sa h1
  apply issues_bind (createObjectIfNotExists_owned r inst (NewServiceAccountForCR r.resources inst)
    sa hk (by simp [namespacedKinds, NewServiceAccountForCR, Obj.key, Body.kind]) rfl h1)
  intro _
  apply issues_bind_ofExcept; intro role h2
  apply issues_bind (createObjectIfNotExists_owned r inst (NewRoleForCR r.resources inst)
    role hk (by simp [namespacedKinds, NewRoleForCR, Obj.key, Body.kind]) rfl h2)
  intro _
  apply issues_bind_ofExcept; intro binding h3
  apply issues_bind (createObjectIfNotExists_owned r inst (NewRoleBindingForCR r.resources inst)
    binding hk (by simp [namespacedKinds, NewRoleBindingForCR, Obj.key, Body.kind]) rfl h3)
  intro _
  exact createObjectIfNotExists_issues _ _ _ _
    (fun e s => owned_cluster r _ _ .Get .ClusterRoleBinding
      (NewClusterRoleBindingForCR r.resources inst) none e s (Or.inl rfl) rfl
      (fun hc => by cases hc) rfl)
    (fun e s => owned_cluster r _ _ .Create .ClusterRoleBinding
      (NewClusterRoleBindingForCR r.resources inst) _ e s (Or.inl rfl) rfl (fun _ => rfl) rfl)

theorem createConsoleLink_owned (r : CryostatReconciler) (inst : Obj) (url : String) :
    Issues (Owned r inst.meta.Namespace inst.meta.Name) (createConsoleLink r inst url) := by
  unfold createConsoleLink
  exact createObjectIfNotExists_issues _ _ _ _
    (fun e s => owned_cluster r _ _ .Get .ConsoleLink
      (NewConsoleLink r.resources inst url) none e s (Or.inr rfl) rfl
      (fun hc => by cases hc) rfl)
    (fun e s => owned_cluster r _ _ .Create .ConsoleLink
      (NewConsoleLink r.resources inst url) _ e s (Or.inr rfl) rfl (fun _ => rfl) rfl)

theorem Obj.setRouteSpec_meta (o : Obj) (spec : RouteSpec) : (o.setRouteSpec spec).meta = o.meta := by
  unfold Obj.setRouteSpec
  split <;> rfl

theorem Obj.setPodSpec_meta (o : Obj) (p : PodSpec) : (o.setPodSpec p).meta = o.meta := by
  unfold Obj.setPodSpec
  split <;> rfl

/-- The function `CreateOrUpdate` for an object that has got its owner reference from
`SetControllerReference` and a mutation that leaves key and metadata alone. -/
theorem CreateOrUpdate_owned (r : CryostatReconciler) (inst base o : Obj) (f : Obj → Obj)
    (hk : inst.body.kind = .Cryostat) (hb : base.key.kind ∈ namespacedKinds)
    (hns : base.meta.Namespace = inst.meta.Namespace)
    (h : SetControllerReference inst base = .ok o)
    (hfk : ∀ x, (f x).key = x.key) (hfm : ∀ x, (f x).meta = x.meta) :
    Issues (Owned r inst.meta.Namespace inst.meta.Name) (CreateOrUpdate o f) := by
  obtain ⟨m1, m2, m3⟩ := SetControllerReference_meta _ _ _ h
  have hkey := SetControllerReference_key _ _ _ h
  have hnc : base.key.kind ≠ .ClusterRoleBinding ∧ base.key.kind ≠ .ConsoleLink := by
    simp only [namespacedKinds, List.mem_cons, List.mem_singleton, List.not_mem_nil,
      or_false] at hb
    constructor <;> intro hc <;> rw [hc] at hb <;> simp at hb
  have href : (⟨.Cryostat, inst.meta.Name, true⟩ : OwnerReference) ∈ o.meta.OwnerReferences := by
    have := SetControllerReference_owned _ _ _ h
    unfold Obj.kind at this
    rw [hk] at this
    exact this
  refine CreateOrUpdate_issues _ _ _
    (fun e s => owned_plain r _ _ _ _ _ _ _ (by intro hc; cases hc)
      (by rw [hkey]; exact hnc.1) (by rw [hkey]; exact hnc.2))
    (fun e s => owned_create r _ _ (f o) e s (by rw [hfk, hkey]; exact hb)
      (by rw [hfm, m2, hns]) (by rw [hfm]; exact href))
    (fun x e s hx => owned_plain r _ _ _ _ _ _ _ (by intro hc; cases hc)
      (by rw [hfk, hx, hkey]; exact hnc.1) (by rw [hfk, hx, hkey]; exact hnc.2))

theorem createRouteForService_owned (r : CryostatReconciler) (inst svc : Obj)
    (exposePort : ServicePort) (tlsConfig : Option TLSConfig)
    (hk : inst.body.kind = .Cryostat) (hns : svc.meta.Namespace = inst.meta.Namespace) :
    Issues (Owned r inst.meta.Namespace inst.meta.Name)
      (createRouteForService inst svc exposePort tlsConfig) := by
  unfold createRouteForService
  apply issues_bind_ofExcept; intro route h1
  apply issues_bind (CreateOrUpdate_owned r inst
    (Obj.mk { Name := svc.meta.Name, Namespace := svc.meta.Namespace } (.Route {} {})) route _ hk
    (by simp [namespacedKinds, Obj.key, Body.kind]) hns h1
    (fun o => Obj.setRouteSpec_key o _) (fun o => Obj.setRouteSpec_meta o _))
  rintro ⟨_, o⟩
  simp only
  split
  · exact issues_fail _ _
  · exact issues_pure _ _

theorem createIngressForService_owned (r : CryostatReconciler) (inst svc : Obj)
    (nc : NetworkConfiguration)
    (hk : inst.body.kind = .Cryostat) (hns : svc.meta.Namespace = inst.meta.Namespace) :
    Issues (Owned r inst.meta.Namespace inst.meta.Name)
      (createIngressForService inst svc nc) := by
  unfold createIngressForService
  split
  · exact issues_fail _ _
  · apply issues_bind_ofExcept; intro ingress h1
    obtain ⟨m1, m2, m3⟩ := SetControllerReference_meta _ _ _ h1
    have hkey : ingress.key = ⟨.Ingress, svc.meta.Namespace, svc.meta.Name⟩ := by
      rw [SetControllerReference_key _ _ _ h1]; rfl
    have href : (⟨.Cryostat, inst.meta.Name, true⟩ : OwnerReference)
        ∈ ingress.meta.OwnerReferences := by
      have := SetControllerReference_owned _ _ _ h1
      unfold Obj.kind at this
      rw [hk] at this
      exact this
    apply issues_bind (issues_attempt (issues_get _ _ (fun e s =>
      owned_plain r _ _ _ _ _ _ _ (by intro hc; cases hc) (by intro hc; cases hc)
        (by intro hc; cases hc)))); intro res
    apply issues_bind
    · split
      · split
        · exact issues_create _ _ (fun e s => owned_create r _ _ ingress e s
            (by rw [hkey]; simp [namespacedKinds]) (by rw [m2]; exact hns) href)
        · exact issues_fail _ _
      · exact issues_pure _ _
    · intro _
      apply issues_bind
      · split
        · exact issues_pure _ _
        · exact issues_fail _ _
        · exact issues_pure _ _
      · intro _
        exact issues_pure _ _

theorem createService_owned (r : CryostatReconciler) (inst svc : Obj)
    (exposePort : ServicePort) (tlsConfig : Option TLSConfig)
    (hk : inst.body.kind = .Cryostat) (hsk : svc.body.kind = .Service)
    (hns : svc.meta.Namespace = inst.meta.Namespace) :
    Issues (Owned r inst.meta.Namespace inst.meta.Name)
      (createService r inst svc exposePort tlsConfig) := by
  unfold createService
  apply issues_bind_ofExcept; intro svc2 h1
  obtain ⟨m1, m2, m3⟩ := SetControllerReference_meta _ _ _ h1
  have h0 := createObjectIfNotExists_owned r inst svc svc2 hk
    (by show svc.body.kind ∈ namespacedKinds; rw [hsk]; simp [namespacedKinds]) hns h1
  have hkk : svc.key.kind = .Service := hsk
  rw [hkk] at h0
  apply issues_bind h0; intro _
  split
  · exact createRouteForService_owned r inst svc2 _ _ hk (by rw [m2]; exact hns)
  · split
    · exact issues_pure _ _
    · apply issues_bind_ofExcept; intro nc _
      split
      · exact issues_pure _ _
      · split
        · exact issues_pure _ _
        · exact createIngressForService_owned r inst svc2 _ hk (by rw [m2]; exact hns)

end Cryostat

namespace Cryostat

/-! ## Owner references, section by section -/

/-- A read and a delete of what was read, of a kind that is neither cluster-scoped kind. -/
theorem owned_get (r : CryostatReconciler) (ns name : String) (k : Key)
    (h1 : k.kind ≠ .ClusterRoleBinding) (h2 : k.kind ≠ .ConsoleLink) :
    ∀ e s, Owned r ns name ⟨.Get, k, none, e, s⟩ :=
  fun e s => owned_plain r ns name _ _ _ e s (by intro hc; cases hc) h1 h2

theorem Reconcile.fetch_owned (r : CryostatReconciler) (request : NamespacedName) :
    Issues (Owned r request.Namespace request.Name) (Reconcile.fetch request) := by
  unfold Reconcile.fetch
  apply issues_bind (issues_attempt (issues_get _ _
    (owned_get r _ _ _ (by intro hc; cases hc) (by intro hc; cases hc)))); intro res
  split
  · split
    · exact issues_fail _ _
    · exact issues_fail _ _
  · exact issues_pure _ _

theorem Reconcile.finalize_owned (r : CryostatReconciler) (inst : Obj)
    (hk : inst.body.kind = .Cryostat) :
    Issues (Owned r inst.meta.Namespace inst.meta.Name) (Reconcile.finalize r inst) := by
  unfold Reconcile.finalize
  split
  · apply issues_bind
    · split
      · apply issues_bind (issues_orReturn (issues_delete _ _ (fun e s =>
          owned_cluster r _ _ .Delete .ClusterRoleBinding
            (NewClusterRoleBindingForCR r.resources inst) _ e s (Or.inl rfl) rfl
            (fun hc => by cases hc) rfl))); intro _
        apply issues_bind
        · split
          · exact issues_orReturn (issues_delete _ _ (fun e s =>
              owned_cluster r _ _ .Delete .ConsoleLink
                (NewConsoleLink r.resources inst "") _ e s (Or.inr rfl) rfl
                (fun hc => by cases hc) rfl))
          · exact issues_pure _ _
        · intro _
          apply issues_bind (issues_orReturn (issues_bind (issues_update _ _ (fun e s =>
            owned_plain r _ _ _ _ _ e s (by intro hc; cases hc)
              (by rw [controllerutil.RemoveFinalizer_key]
                  show inst.body.kind ≠ _
                  rw [hk]; intro hc; cases hc)
              (by rw [controllerutil.RemoveFinalizer_key]
                  show inst.body.kind ≠ _
                  rw [hk]; intro hc; cases hc))) (fun _ => issues_pure _ _)))
          intro _
          exact issues_pure _ _
      · exact issues_pure _ _
    · intro _
      exact issues_fail _ _
  · exact issues_pure _ _

theorem Reconcile.addFinalizer_owned (r : CryostatReconciler) (inst : Obj)
    (hk : inst.body.kind = .Cryostat) :
    Issues (Owned r inst.meta.Namespace inst.meta.Name) (Reconcile.addFinalizer inst) := by
  unfold Reconcile.addFinalizer
  split
  · exact issues_orReturn (issues_bind (issues_update _ _ (fun e s =>
      owned_plain r _ _ _ _ _ e s (by intro hc; cases hc)
        (by rw [controllerutil.AddFinalizer_key]
            show inst.body.kind ≠ _
            rw [hk]; intro hc; cases hc)
        (by rw [controllerutil.AddFinalizer_key]
            show inst.body.kind ≠ _
            rw [hk]; intro hc; cases hc))) (fun _ => issues_pure _ _))
  · exact issues_pure _ _

theorem Reconcile.storage_owned (r : CryostatReconciler) (inst : Obj)
    (hk : inst.body.kind = .Cryostat) :
    Issues (Owned r inst.meta.Namespace inst.meta.Name) (Reconcile.storage r inst) := by
  unfold Reconcile.storage
  apply issues_bind_orReturn_ofExcept; intro pvc h1
  exact issues_orReturn (createObjectIfNotExists_owned r inst
    (NewPersistentVolumeClaimForCR r.resources inst) pvc hk
    (by simp [namespacedKinds, NewPersistentVolumeClaimForCR, Obj.key, Body.kind]) rfl h1)

theorem Reconcile.secrets_owned (r : CryostatReconciler) (inst : Obj)
    (hk : inst.body.kind = .Cryostat) :
    Issues (Owned r inst.meta.Namespace inst.meta.Name) (Reconcile.secrets r inst) := by
  unfold Reconcile.secrets
  apply issues_bind_orReturn_ofExcept; intro s1 h1
  apply issues_bind (issues_orReturn (createObjectIfNotExists_owned r inst
    (NewGrafanaSecretForCR r.resources inst) s1 hk
    (by simp [namespacedKinds, NewGrafanaSecretForCR, Obj.key, Body.kind]) rfl h1)); intro _
  apply issues_bind_orReturn_ofExcept; intro s2 h2
  exact issues_orReturn (createObjectIfNotExists_owned r inst
    (NewJmxSecretForCR r.resources inst) s2 hk
    (by simp [namespacedKinds, NewJmxSecretForCR, Obj.key, Body.kind]) rfl h2)

theorem Reconcile.tls_issues (Q : Call → Prop) (r : CryostatReconciler) (inst : Obj) :
    Issues Q (Reconcile.tls r inst) :=
  fun _ => Reconcile.tls_keeps r inst

theorem Reconcile.deleteDeployment_owned (r : CryostatReconciler) (ns name : String)
    (inst : Obj) (mismatch : Nat → Bool) :
    Issues (Owned r ns name) (Reconcile.deleteDeployment inst mismatch) := by
  unfold Reconcile.deleteDeployment
  apply issues_bind_get _ (owned_get r _ _ _ (by intro hc; cases hc) (by intro hc; cases hc))
  intro res hres
  split
  · rename_i d
    split
    · apply issues_bind (issues_attempt (issues_delete _ _ (fun e s =>
        owned_plain r _ _ _ _ _ e s (by intro hc; cases hc)
          (by rw [hres d rfl]; intro hc; cases hc)
          (by rw [hres d rfl]; intro hc; cases hc)))); intro del
      split
      · split
        · exact issues_fail _ _
        · exact issues_pure _ _
      · exact issues_pure _ _
    · exact issues_pure _ _
  · exact issues_pure _ _

theorem Reconcile.deleteExposure_owned (r : CryostatReconciler) (ns name : String)
    (kind : Kind) (svc : Obj) (h1 : kind ≠ .ClusterRoleBinding) (h2 : kind ≠ .ConsoleLink) :
    Issues (Owned r ns name) (Reconcile.deleteExposure kind svc) := by
  unfold Reconcile.deleteExposure
  apply issues_bind_get _ (owned_get r _ _ _ h1 h2)
  intro res hres
  split
  · split
    · exact issues_fail _ _
    · exact issues_pure _ _
  · rename_i x
    apply issues_bind (issues_attempt (issues_delete _ _ (fun e s =>
      owned_plain r _ _ _ _ _ e s (by intro hc; cases hc)
        (by rw [hres x rfl]; exact h1) (by rw [hres x rfl]; exact h2)))); intro del
    split
    · split
      · exact issues_fail _ _
      · exact issues_pure _ _
    · exact issues_pure _ _

theorem Reconcile.deleteGrafanaService_owned (r : CryostatReconciler) (ns name : String)
    (svc : Obj) : Issues (Owned r ns name) (Reconcile.deleteGrafanaService svc) := by
  unfold Reconcile.deleteGrafanaService
  apply issues_bind_get _ (owned_get r _ _ _ (by intro hc; cases hc) (by intro hc; cases hc))
  intro res hres
  split
  · rename_i x
    apply issues_bind (issues_attempt (issues_delete _ _ (fun e s =>
      owned_plain r _ _ _ _ _ e s (by intro hc; cases hc)
        (by rw [hres x rfl]; intro hc; cases hc)
        (by rw [hres x rfl]; intro hc; cases hc)))); intro del
    split
    · split
      · exact issues_fail _ _
      · exact issues_pure _ _
    · exact issues_pure _ _
  · exact issues_pure _ _

theorem Reconcile.grafana_owned (r : CryostatReconciler) (inst : Obj)
    (routeTLS : Option TLSConfig) (hk : inst.body.kind = .Cryostat) :
    Issues (Owned r inst.meta.Namespace inst.meta.Name) (Reconcile.grafana r inst routeTLS) := by
  unfold Reconcile.grafana
  split
  · apply issues_bind (issues_attempt (createService_owned r inst
      (NewGrafanaService r.resources inst) _ _ hk rfl rfl)); intro res
    split
    · exact issues_fail _ _
    · exact issues_bind (Reconcile.deleteDeployment_owned r _ _ inst _)
        (fun _ => issues_pure _ _)
  · apply issues_bind (Reconcile.deleteExposure_owned r _ _ _ _
      (by split <;> (intro hc; cases hc)) (by split <;> (intro hc; cases hc))); intro _
    apply issues_bind (Reconcile.deleteGrafanaService_owned r _ _ _); intro _
    exact issues_bind (Reconcile.deleteDeployment_owned r _ _ inst _)
      (fun _ => issues_pure _ _)

theorem Reconcile.core_owned (r : CryostatReconciler) (inst : Obj)
    (routeTLS : Option TLSConfig) (hk : inst.body.kind = .Cryostat) :
    Issues (Owned r inst.meta.Namespace inst.meta.Name) (Reconcile.core r inst routeTLS) := by
  unfold Reconcile.core
  apply issues_bind (issues_attempt (createService_owned r inst
    (NewExporterService r.resources inst) _ _ hk rfl rfl)); intro res
  split
  · exact issues_fail _ _
  · exact issues_pure _ _

theorem Reconcile.command_owned (r : CryostatReconciler) (inst : Obj)
    (routeTLS : Option TLSConfig) (hk : inst.body.kind = .Cryostat) :
    Issues (Owned r inst.meta.Namespace inst.meta.Name) (Reconcile.command r inst routeTLS) := by
  unfold Reconcile.command
  apply issues_bind (issues_attempt (createService_owned r inst
    (NewCommandChannelService r.resources inst) _ _ hk rfl rfl)); intro res
  split
  · exact issues_fail _ _
  · exact issues_pure _ _

theorem getFSGroup_owned (r : CryostatReconciler) (ns2 name2 ns : String) :
    Issues (Owned r ns2 name2) (getFSGroup r ns) := by
  unfold getFSGroup
  split
  · apply issues_bind (issues_get _ _
      (owned_get r _ _ _ (by intro hc; cases hc) (by intro hc; cases hc))); intro nsObj
    split
    · exact fun _ => keeps_ofExcept _
    · exact issues_pure _ _
  · exact issues_pure _ _

theorem Reconcile.deployment_owned (r : CryostatReconciler) (inst : Obj)
    (serviceSpecs : ServiceSpecs) (tlsConfig : Option ResourcesTLSConfig)
    (hk : inst.body.kind = .Cryostat) :
    Issues (Owned r inst.meta.Namespace inst.meta.Name)
      (Reconcile.deployment r inst serviceSpecs tlsConfig) := by
  unfold Reconcile.deployment
  apply issues_bind (issues_orReturn (getFSGroup_owned r _ _ _)); intro fsGroup
  simp only []
  apply issues_bind_orReturn_ofExcept; intro deployment h1
  apply issues_bind (issues_orReturn (CreateOrUpdate_owned r inst
    (NewDeploymentForCR r.resources inst serviceSpecs (getImageTags r) tlsConfig fsGroup)
    deployment _ hk (by simp [namespacedKinds, NewDeploymentForCR, Obj.key, Body.kind]) rfl h1
    (fun o => Obj.setPodSpec_key o _) (fun o => Obj.setPodSpec_meta o _))); intro _
  exact issues_pure _ _

theorem Reconcile.status_owned (r : CryostatReconciler) (inst : Obj)
    (serviceSpecs : ServiceSpecs) (hk : inst.body.kind = .Cryostat) :
    Issues (Owned r inst.meta.Namespace inst.meta.Name) (Reconcile.status inst serviceSpecs) := by
  unfold Reconcile.status
  split
  · exact issues_bind (issues_orReturn (issues_statusUpdate _ _ (fun e s =>
      owned_plain r _ _ _ _ _ e s (by intro hc; cases hc)
        (by rw [Obj.setApplicationURL_key]
            show inst.body.kind ≠ _
            rw [hk]; intro hc; cases hc)
        (by rw [Obj.setApplicationURL_key]
            show inst.body.kind ≠ _
            rw [hk]; intro hc; cases hc)))) (fun _ => issues_pure _ _)
  · exact issues_pure _ _

theorem Reconcile.consoleLink_owned (r : CryostatReconciler) (inst : Obj)
    (serviceSpecs : ServiceSpecs) :
    Issues (Owned r inst.meta.Namespace inst.meta.Name)
      (Reconcile.consoleLink r inst serviceSpecs) := by
  unfold Reconcile.consoleLink
  split
  · split
    · exact issues_fail _ _
    · exact issues_orReturn (createConsoleLink_owned r inst _)
  · exact issues_pure _ _

end Cryostat

namespace Cryostat

/-- What every section issues, the pass issues. The sections are taken at an instance that
has namespace and name of the request and is of kind Cryostat. -/
theorem Reconcile.pass_issues (Q : Call → Prop) (r : CryostatReconciler)
    (request : NamespacedName) (h0 : Issues Q (Reconcile.fetch request))
    (hS : ∀ inst : Obj, inst.meta.Namespace = request.Namespace →
      inst.meta.Name = request.Name → inst.body.kind = .Cryostat →
      Issues Q (Reconcile.finalize r inst) ∧ Issues Q (Reconcile.addFinalizer inst) ∧
      Issues Q (Reconcile.storage r inst) ∧ Issues Q (Reconcile.secrets r inst) ∧
      Issues Q (Reconcile.rbac r inst) ∧ (∀ tls, Issues Q (Reconcile.grafana r inst tls)) ∧
      (∀ tls, Issues Q (Reconcile.core r inst tls)) ∧
      (∀ tls, Issues Q (Reconcile.command r inst tls)) ∧
      (∀ specs tls, Issues Q (Reconcile.deployment r inst specs tls)) ∧
      (∀ specs, Issues Q (Reconcile.status inst specs)) ∧
      (∀ inst2 specs, inst2.meta = inst.meta → Issues Q (Reconcile.consoleLink r inst2 specs))) :
    Issues Q (Reconcile.pass r request) := by
  have h1 : Issues Q (Reconcile.toFinalizer r request) := by
    unfold Reconcile.toFinalizer
    apply issues_bind_of h0
    rintro inst ⟨w, hw⟩
    have hk := (Client.Get_ok _ _ _ (Reconcile.fetch_ok _ _ _ hw)).2
    simp only [Obj.key, Key.mk.injEq] at hk
    obtain ⟨k1, k2, _⟩ := hS inst hk.2.1 hk.2.2 hk.1
    exact issues_bind k1 (fun _ => k2)
  have hof : ∀ inst, (∃ w, (Reconcile.toFinalizer r request w).1 = .ok inst) →
      inst.meta.Namespace = request.Namespace ∧ inst.meta.Name = request.Name ∧
      inst.body.kind = .Cryostat := by
    rintro inst ⟨w, hw⟩
    obtain ⟨a, b, c, _⟩ := Reconcile.toFinalizer_inst r request w inst hw
    exact ⟨a, b, c⟩
  have h2 : Issues Q (Reconcile.toSecrets r request) := by
    unfold Reconcile.toSecrets
    apply issues_bind_of h1
    intro inst hw
    obtain ⟨a, b, c⟩ := hof inst hw
    obtain ⟨_, _, k3, k4, _⟩ := hS inst a b c
    exact issues_bind k3 (fun _ => issues_bind k4 (fun _ => issues_pure _ _))
  have h3 : Issues Q (Reconcile.toRBAC r request) := by
    unfold Reconcile.toRBAC
    apply issues_bind_of h2
    rintro inst ⟨w, hw⟩
    obtain ⟨a, b, c⟩ := hof inst ⟨w, Reconcile.toSecrets_ok _ _ _ _ hw⟩
    obtain ⟨_, _, _, _, k5, _⟩ := hS inst a b c
    exact issues_bind (Reconcile.tls_issues Q r inst)
      (fun _ => issues_bind k5 (fun _ => issues_pure _ _))
  have h4 : Issues Q (Reconcile.toGrafana r request) := by
    unfold Reconcile.toGrafana
    apply issues_bind_of h3
    rintro st ⟨w, hw⟩
    obtain ⟨a, b, c⟩ := hof st.inst ⟨w, Reconcile.toRBAC_inst _ _ _ _ hw⟩
    obtain ⟨_, _, _, _, _, k6, _⟩ := hS st.inst a b c
    exact issues_bind (k6 _) (fun _ => issues_pure _ _)
  have h5 : Issues Q (Reconcile.toCore r request) := by
    unfold Reconcile.toCore
    apply issues_bind_of h4
    rintro st ⟨w, hw⟩
    obtain ⟨a, b, c⟩ := hof st.inst ⟨w, Reconcile.toGrafana_inst _ _ _ _ hw⟩
    obtain ⟨_, _, _, _, _, _, k7, _⟩ := hS st.inst a b c
    exact issues_bind (k7 _) (fun _ => issues_pure _ _)
  have h6 : Issues Q (Reconcile.toCommand r request) := by
    unfold Reconcile.toCommand
    apply issues_bind_of h5
    rintro st ⟨w, hw⟩
    obtain ⟨a, b, c⟩ := hof st.inst ⟨w, Reconcile.toCore_inst _ _ _ _ hw⟩
    obtain ⟨_, _, _, _, _, _, _, k8, _⟩ := hS st.inst a b c
    exact issues_bind (k8 _) (fun _ => issues_pure _ _)
  unfold Reconcile.pass
  apply issues_bind_of h6
  rintro st ⟨w, hw⟩
  obtain ⟨a, b, c⟩ := hof st.inst ⟨w, Reconcile.toCommand_inst _ _ _ _ hw⟩
  obtain ⟨_, _, _, _, _, _, _, _, k9, k10, k11⟩ := hS st.inst a b c
  apply issues_bind (k9 _ _); intro _
  apply issues_bind_of (k10 _)
  rintro inst2 ⟨w2, hw2⟩
  exact k11 inst2 _ (Reconcile.status_ok _ _ _ _ hw2)

/-- The calls of a pass of `Reconcile` are the calls of `Reconcile.pass`. -/
theorem Reconcile.issues (Q : Call → Prop) (r : CryostatReconciler)
    (request : NamespacedName) (h : Issues Q (Reconcile.pass r request)) (w : World) :
    ∀ c ∈ (Reconcile r request w).2.callsSince w, Q c := by
  rw [Reconcile.pass_world]
  exact h.holds_of_calls w

/-- Every call of the pass treats ownership as `Owned` says. -/
theorem Reconcile.pass_owned (r : CryostatReconciler) (request : NamespacedName) :
    Issues (Owned r request.Namespace request.Name) (Reconcile.pass r request) := by
  refine Reconcile.pass_issues _ r request (Reconcile.fetch_owned r request)
    (fun inst hns hname hk => ?_)
  rw [← hns, ← hname]
  exact ⟨Reconcile.finalize_owned r inst hk, Reconcile.addFinalizer_owned r inst hk,
    Reconcile.storage_owned r inst hk, Reconcile.secrets_owned r inst hk,
    issues_orReturn (createRBAC_owned r inst hk), fun _ => Reconcile.grafana_owned r inst _ hk,
    fun _ => Reconcile.core_owned r inst _ hk, fun _ => Reconcile.command_owned r inst _ hk,
    fun _ _ => Reconcile.deployment_owned r inst _ _ hk,
    fun _ => Reconcile.status_owned r inst _ hk,
    fun inst2 specs hm => by
      have := Reconcile.consoleLink_owned r inst2 specs
      rw [hm] at this
      exact this⟩

end Cryostat

namespace Cryostat

/-- On the finalizer path, for an instance that carries the finalizer, the call after the
read is the delete of the ClusterRoleBinding under the name derived from namespace and name
of the request; on OpenShift, when the store has accepted it, the delete of the ConsoleLink
under the same name follows. -/
theorem Reconcile.finalizer_path (r : CryostatReconciler) (request : NamespacedName)
    (w : World) (inst : Obj)
    (hget : (Client.Get ⟨.Cryostat, request.Namespace, request.Name⟩ w).1 = .ok inst)
    (hdel : inst.meta.DeletionTimestamp.isSome = true)
    (hfin : ContainsFinalizer inst cryostatFinalizer = true) :
    ∃ g d rest, (Reconcile r request w).2.callsSince w = g :: d :: rest ∧
      g.verb = .Get ∧ d.verb = .Delete ∧
      d.key = ⟨.ClusterRoleBinding, "",
        r.resources.ClusterUniqueName request.Namespace request.Name⟩ ∧
      (r.IsOpenShift = true → d.err = none → ∃ d2 rest2, rest = d2 :: rest2 ∧
        d2.verb = .Delete ∧
        d2.key = ⟨.ConsoleLink, "",
          r.resources.ClusterUniqueName request.Namespace request.Name⟩) := by
  obtain ⟨ret, hrun, _⟩ := Reconcile.of_deleting r request w inst hget hdel
  have hk := (Client.Get_ok _ _ _ hget).2
  simp only [Obj.key, Key.mk.injEq] at hk
  have hw2 : (Reconcile r request w).2
      = (Reconcile.finalize r inst
          (Client.Get ⟨.Cryostat, request.Namespace, request.Name⟩ w).2).2 := by
    rw [hrun]
  obtain ⟨g0, hlog, hgv⟩ : ∃ g : Call,
      (Client.Get ⟨.Cryostat, request.Namespace, request.Name⟩ w).2.log = w.log ++ [g] ∧
        g.verb = .Get :=
    ⟨_, Client.Get_log ⟨.Cryostat, request.Namespace, request.Name⟩ w, rfl⟩
  have hck : (NewClusterRoleBindingForCR r.resources inst).key
      = ⟨.ClusterRoleBinding, "",
        r.resources.ClusterUniqueName request.Namespace request.Name⟩ := by
    rw [← hk.2.1, ← hk.2.2]; rfl
  have hlk : (NewConsoleLink r.resources inst "").key
      = ⟨.ConsoleLink, "",
        r.resources.ClusterUniqueName request.Namespace request.Name⟩ := by
    rw [← hk.2.1, ← hk.2.2]; rfl
  unfold World.callsSince
  rw [hw2]
  rcases Reconcile.finalize_trace r inst
      (Client.Get ⟨.Cryostat, request.Namespace, request.Name⟩ w).2 hdel hfin with
    ⟨d, e, h1, h2, _⟩ | ⟨hos, d1, d2, e, h1, h2, h3, _⟩ | ⟨hos, d1, d2, u, h1, h2, h3, _⟩ |
    ⟨hos, d1, u, h1, h2, _⟩
  · refine ⟨g0, d, [], by rw [h1, hlog]; simp, hgv, h2.1, by rw [h2.2.1, hck], ?_⟩
    intro _ he
    rw [h2.2.2] at he
    cases he
  · refine ⟨g0, d1, [d2], by rw [h1, hlog]; simp, hgv, h2.1, by rw [h2.2.1, hck], ?_⟩
    intro _ _
    exact ⟨d2, [], rfl, h3.1, by rw [h3.2.1, hlk]⟩
  · refine ⟨g0, d1, [d2, u], by rw [h1, hlog]; simp, hgv, h2.1, by rw [h2.2.1, hck], ?_⟩
    intro _ _
    exact ⟨d2, [u], rfl, h3.1, by rw [h3.2.1, hlk]⟩
  · refine ⟨g0, d1, [u], by rw [h1, hlog]; simp, hgv, h2.1, by rw [h2.2.1, hck], ?_⟩
    intro ho _
    rw [hos] at ho
    cases ho

end Cryostat

namespace Cryostat

/-! ## The stage order of the calls -/

theorem Ordered.weaken {n j k : Nat} {w : World} (h : Ordered n j w) (hjk : j ≤ k) :
    Ordered n k w :=
  ⟨h.1, fun c hc => Nat.le_trans (h.2 c hc) hjk⟩

theorem Ordered.start (k : Nat) (w : World) : Ordered w.log.length k w := by
  unfold Ordered StageOrdered
  rw [List.drop_length]
  exact ⟨List.Pairwise.nil, fun c hc => by cases hc⟩

theorem staged_pure {ε α : Type} (k : Nat) (a : α) : Staged k (pure a : Op ε α) :=
  fun _ => keeps_pure a

theorem staged_fail {ε α : Type} (k : Nat) (e : ε) : Staged k (Op.fail e : Op ε α) :=
  fun _ => keeps_fail e

theorem staged_bind {ε α β : Type} {k : Nat} {m : Op ε α} {f : α → Op ε β}
    (hm : Staged k m) (hf : ∀ a, Staged k (f a)) : Staged k (m >>= f) :=
  fun n => keeps_bind (hm n) (fun a => hf a n)

theorem staged_attempt {ε ε2 α : Type} {k : Nat} {m : Op ε α} (hm : Staged k m) :
    Staged k (Op.attempt m : Op ε2 (Except ε α)) :=
  fun n => keeps_attempt (hm n)

theorem staged_orReturn {α : Type} {k : Nat} {m : Op Err α} (hm : Staged k m) :
    Staged k (orReturn m) :=
  fun n => keeps_orReturn (hm n)

theorem staged_bind_ofExcept {ε α β : Type} {k : Nat} {x : Except ε α}
    {f : α → Op ε β} (hf : ∀ a, x = .ok a → Staged k (f a)) :
    Staged k (Op.ofExcept x >>= f) :=
  fun n => keeps_bind_ofExcept (fun a h => hf a h n)

theorem staged_bind_orReturn_ofExcept {α β : Type} {k : Nat} {x : Except Err α}
    {f : α → Op Return β} (hf : ∀ a, x = .ok a → Staged k (f a)) :
    Staged k (orReturn (Op.ofExcept x) >>= f) :=
  fun n => keeps_bind_orReturn_ofExcept (fun a h => hf a h n)

/-- A call of stage `k` after calls of stages up to `k`. -/
theorem staged_call {α : Type} (k : Nat) (verb : Verb) (key : Key) (obj : Option Obj)
    (sem : Store → Except Err (α × Store)) (K : Kind) (hK : key.kind = K)
    (h : firstStage verb K ≤ k ∧ k ≤ lastStage verb K) :
    Staged k (Client.call verb key obj sem) := by
  subst hK
  intro n w hw
  obtain ⟨hp, hb⟩ := hw
  unfold StageOrdered at hp
  unfold Ordered StageOrdered
  rw [Client.call_log, List.drop_append_eq_append_drop]
  have hmem : ∀ b ∈ List.drop (n - w.log.length)
      [(⟨verb, key, obj, errOf (Client.call verb key obj sem w).1, w.objs⟩ : Call)],
      b.verb = verb ∧ b.key = key := by
    intro b hb2
    have := List.mem_of_mem_drop hb2
    simp only [List.mem_singleton] at this
    rw [this]
    exact ⟨rfl, rfl⟩
  constructor
  · rw [List.pairwise_append]
    refine ⟨hp, List.Pairwise.sublist (List.drop_sublist _ _) (List.pairwise_singleton _ _), ?_⟩
    intro a ha b hb2
    obtain ⟨e1, e2⟩ := hmem b hb2
    rw [e1, e2]
    exact Nat.le_trans (hb a ha) h.2
  · intro c hc
    rcases List.mem_append.mp hc with h1 | h1
    · exact hb c h1
    · obtain ⟨e1, e2⟩ := hmem c h1
      rw [e1, e2]
      exact h.1

theorem staged_get (k : Nat) (key : Key) (K : Kind) (hK : key.kind = K)
    (h : firstStage .Get K ≤ k ∧ k ≤ lastStage .Get K) : Staged k (Client.Get key) :=
  staged_call k _ _ _ _ K hK h

theorem staged_create (k : Nat) (o : Obj) (K : Kind) (hK : o.key.kind = K)
    (h : firstStage .Create K ≤ k ∧ k ≤ lastStage .Create K) : Staged k (Client.Create o) :=
  staged_call k _ _ _ _ K hK h

theorem staged_update (k : Nat) (o : Obj) (K : Kind) (hK : o.key.kind = K)
    (h : firstStage .Update K ≤ k ∧ k ≤ lastStage .Update K) : Staged k (Client.Update o) :=
  staged_call k _ _ _ _ K hK h

theorem staged_delete (k : Nat) (o : Obj) (K : Kind) (hK : o.key.kind = K)
    (h : firstStage .Delete K ≤ k ∧ k ≤ lastStage .Delete K) : Staged k (Client.Delete o) :=
  staged_call k _ _ _ _ K hK h

theorem staged_statusUpdate (k : Nat) (o : Obj) (K : Kind) (hK : o.key.kind = K)
    (h : firstStage .StatusUpdate K ≤ k ∧ k ≤ lastStage .StatusUpdate K) :
    Staged k (Client.StatusUpdate o) :=
  staged_call k _ _ _ _ K hK h

theorem staged_bind_get {ε β : Type} {k : Nat} (key : Key) (K : Kind) (hK : key.kind = K)
    {f : Except Err Obj → Op ε β} (h : firstStage .Get K ≤ k ∧ k ≤ lastStage .Get K)
    (hf : ∀ res, (∀ o, res = .ok o → o.key = key) → Staged k (f res)) :
    Staged k (Op.attempt (Client.Get key) >>= f) :=
  fun n => keeps_bind_get key (staged_get k key K hK h n) (fun res hres => hf res hres n)

theorem staged_bind_getInto {ε β : Type} {k : Nat} (obj : Obj) (K : Kind)
    (hK : obj.key.kind = K) {f : Except Err Obj → Op ε β}
    (h : firstStage .Get K ≤ k ∧ k ≤ lastStage .Get K)
    (hf : ∀ res, (∀ o, res = .ok o → o.key = obj.key) → Staged k (f res)) :
    Staged k (Op.attempt (Client.GetInto obj) >>= f) :=
  fun n => keeps_bind_getInto obj (staged_get k obj.key K hK h n)
    (fun res hres => hf res hres n)

theorem Staged.advances {ε α : Type} {j k : Nat} {m : Op ε α} (h : Staged k m) (hjk : j ≤ k) :
    Advances j k m :=
  fun n w hw => h n w (hw.weaken hjk)

/-- A sequence of two advances; the second part may rely on the value being one the first
part can yield. -/
theorem advances_bind {ε α β : Type} {j k l : Nat} {m : Op ε α} {f : α → Op ε β}
    (hm : Advances j k m) (hf : ∀ a, (∃ w, (m w).1 = .ok a) → Advances k l (f a))
    (hkl : k ≤ l) : Advances j l (m >>= f) := by
  intro n w hw
  rw [run_bind]
  cases h : (m w).1 with
  | error e => exact (hm n w hw).weaken hkl
  | ok a => exact hf a ⟨w, h⟩ n _ (hm n w hw)

theorem advances_pure {ε α : Type} (k : Nat) (a : α) : Advances k k (pure a : Op ε α) :=
  fun _ _ h => h

theorem createObjectIfNotExists_staged (k : Nat) (ns : NamespacedName) (found : Kind)
    (toCreate : Obj) (hk : toCreate.key.kind = found)
    (hG : firstStage .Get found ≤ k ∧ k ≤ lastStage .Get found)
    (hC : firstStage .Create found ≤ k ∧ k ≤ lastStage .Create found) :
    Staged k (createObjectIfNotExists ns found toCreate) := by
  unfold createObjectIfNotExists
  apply staged_bind (staged_attempt (staged_get k _ found rfl hG)); intro res
  split
  · split
    · exact staged_create k _ found hk hC
    · exact staged_fail k _
  · exact staged_pure k _

theorem CreateOrUpdate_staged (k : Nat) (obj : Obj) (f : Obj → Obj) (K : Kind)
    (hK : obj.key.kind = K) (hkey : ∀ o, (f o).key = o.key)
    (hG : firstStage .Get K ≤ k ∧ k ≤ lastStage .Get K)
    (hC : firstStage .Create K ≤ k ∧ k ≤ lastStage .Create K)
    (hU : firstStage .Update K ≤ k ∧ k ≤ lastStage .Update K) :
    Staged k (CreateOrUpdate obj f) := by
  unfold CreateOrUpdate
  apply staged_bind_getInto obj K hK hG; intro res hres
  split
  · split
    · exact staged_bind (staged_create k _ K (by rw [hkey]; exact hK) hC)
        (fun _ => staged_pure k _)
    · exact staged_fail k _
  · rename_i existing
    split
    · exact staged_pure k _
    · exact staged_bind (staged_update k _ K (by rw [hkey, hres existing rfl]; exact hK) hU)
        (fun _ => staged_pure k _)

theorem createRBAC_staged (r : CryostatReconciler) (cr : Obj) : Staged 4 (createRBAC r cr) := by
  unfold createRBAC
  apply staged_bind_ofExcept; intro sa h1
  apply staged_bind (createObjectIfNotExists_staged 4 _ _ _
    (by rw [SetControllerReference_key _ _ _ h1]; rfl) (by decide) (by decide)); intro _
  apply staged_bind_ofExcept; intro role h2
  apply staged_bind (createObjectIfNotExists_staged 4 _ _ _
    (by rw [SetControllerReference_key _ _ _ h2]; rfl) (by decide) (by decide)); intro _
  apply staged_bind_ofExcept; intro binding h3
  apply staged_bind (createObjectIfNotExists_staged 4 _ _ _
    (by rw [SetControllerReference_key _ _ _ h3]; rfl) (by decide) (by decide)); intro _
  exact createObjectIfNotExists_staged 4 _ _ _ rfl (by decide) (by decide)

theorem createRouteForService_staged (cr svc : Obj) (exposePort : ServicePort)
    (tlsConfig : Option TLSConfig) :
    Staged 5 (createRouteForService cr svc exposePort tlsConfig) := by
  unfold createRouteForService
  apply staged_bind_ofExcept; intro route h1
  apply staged_bind (CreateOrUpdate_staged 5 route _ .Route
    (by rw [SetControllerReference_key _ _ _ h1]; rfl) (fun o => Obj.setRouteSpec_key o _)
    (by decide) (by decide) (by decide))
  rintro ⟨_, o⟩
  simp only
  split
  · exact staged_fail 5 _
  · exact staged_pure 5 _

theorem createIngressForService_staged (controller svc : Obj) (nc : NetworkConfiguration) :
    Staged 5 (createIngressForService controller svc nc) := by
  unfold createIngressForService
  split
  · exact staged_fail 5 _
  · apply staged_bind_ofExcept; intro ingress h1
    apply staged_bind (staged_attempt (staged_get 5 _ .Ingress rfl (by decide))); intro res
    apply staged_bind
    · split
      · split
        · exact staged_create 5 _ .Ingress
            (by rw [SetControllerReference_key _ _ _ h1]; rfl) (by decide)
        · exact staged_fail 5 _
      · exact staged_pure 5 _
    · intro _
      apply staged_bind
      · split
        · exact staged_pure 5 _
        · exact staged_fail 5 _
        · exact staged_pure 5 _
      · intro _
        exact staged_pure 5 _

theorem createService_staged (r : CryostatReconciler) (controller svc : Obj)
    (exposePort : ServicePort) (tlsConfig : Option TLSConfig)
    (hsk : svc.body.kind = .Service) :
    Staged 5 (createService r controller svc exposePort tlsConfig) := by
  unfold createService
  apply staged_bind_ofExcept; intro svc2 h1
  apply staged_bind (createObjectIfNotExists_staged 5 _ _ _
    (by rw [SetControllerReference_key _ _ _ h1]; exact hsk) (by decide) (by decide)); intro _
  split
  · exact createRouteForService_staged _ _ _ _
  · split
    · exact staged_pure 5 _
    · apply staged_bind_ofExcept; intro nc _
      split
      · exact staged_pure 5 _
      · split
        · exact staged_pure 5 _
        · exact createIngressForService_staged _ _ _

end Cryostat

namespace Cryostat

/-! ## The stage of every section -/

theorem Reconcile.fetch_staged (request : NamespacedName) :
    Staged 0 (Reconcile.fetch request) := by
  unfold Reconcile.fetch
  apply staged_bind (staged_attempt (staged_get 0 _ .Cryostat rfl (by decide))); intro res
  split
  · split
    · exact staged_fail 0 _
    · exact staged_fail 0 _
  · exact staged_pure 0 _

theorem Reconcile.finalize_staged (r : CryostatReconciler) (inst : Obj)
    (hk : inst.body.kind = .Cryostat) : Staged 0 (Reconcile.finalize r inst) := by
  unfold Reconcile.finalize
  split
  · apply staged_bind
    · split
      · apply staged_bind (staged_orReturn (staged_delete 0
          (NewClusterRoleBindingForCR r.resources inst) .ClusterRoleBinding rfl (by decide))); intro _
        apply staged_bind
        · split
          · exact staged_orReturn (staged_delete 0 (NewConsoleLink r.resources inst "")
              .ConsoleLink rfl (by decide))
          · exact staged_pure 0 _
        · intro _
          apply staged_bind (staged_orReturn (staged_bind (staged_update 0 _ .Cryostat
            (by rw [controllerutil.RemoveFinalizer_key]; exact hk) (by decide))
            (fun _ => staged_pure 0 _)))
          intro _
          exact staged_pure 0 _
      · exact staged_pure 0 _
    · intro _
      exact staged_fail 0 _
  · exact staged_pure 0 _

theorem Reconcile.addFinalizer_staged (inst : Obj) (hk : inst.body.kind = .Cryostat) :
    Staged 0 (Reconcile.addFinalizer inst) := by
  unfold Reconcile.addFinalizer
  split
  · exact staged_orReturn (staged_bind (staged_update 0 _ .Cryostat
      (by rw [controllerutil.AddFinalizer_key]; exact hk) (by decide))
      (fun _ => staged_pure 0 _))
  · exact staged_pure 0 _

theorem Reconcile.storage_staged (r : CryostatReconciler) (inst : Obj) :
    Staged 1 (Reconcile.storage r inst) := by
  unfold Reconcile.storage
  apply staged_bind_orReturn_ofExcept; intro pvc h1
  exact staged_orReturn (createObjectIfNotExists_staged 1 _ _ _
    (by rw [SetControllerReference_key _ _ _ h1]; rfl) (by decide) (by decide))

theorem Reconcile.secrets_staged (r : CryostatReconciler) (inst : Obj) :
    Staged 2 (Reconcile.secrets r inst) := by
  unfold Reconcile.secrets
  apply staged_bind_orReturn_ofExcept; intro s1 h1
  apply staged_bind (staged_orReturn (createObjectIfNotExists_staged 2 _ _ _
    (by rw [SetControllerReference_key _ _ _ h1]; rfl) (by decide) (by decide))); intro _
  apply staged_bind_orReturn_ofExcept; intro s2 h2
  exact staged_orReturn (createObjectIfNotExists_staged 2 _ _ _
    (by rw [SetControllerReference_key _ _ _ h2]; rfl) (by decide) (by decide))

theorem Reconcile.tls_staged (k : Nat) (r : CryostatReconciler) (inst : Obj) :
    Staged k (Reconcile.tls r inst) :=
  fun _ => Reconcile.tls_keeps r inst

theorem Reconcile.rbac_staged (r : CryostatReconciler) (inst : Obj) :
    Staged 4 (Reconcile.rbac r inst) :=
  staged_orReturn (createRBAC_staged r inst)

theorem Reconcile.deleteDeployment_staged (inst : Obj) (mismatch : Nat → Bool) :
    Staged 5 (Reconcile.deleteDeployment inst mismatch) := by
  unfold Reconcile.deleteDeployment
  apply staged_bind_get _ .Deployment rfl (by decide)
  intro res hres
  split
  · rename_i d
    split
    · apply staged_bind (staged_attempt (staged_delete 5 _ .Deployment
        (by rw [hres d rfl]) (by decide))); intro del
      split
      · split
        · exact staged_fail 5 _
        · exact staged_pure 5 _
      · exact staged_pure 5 _
    · exact staged_pure 5 _
  · exact staged_pure 5 _

theorem Reconcile.deleteExposure_staged (kind : Kind) (svc : Obj)
    (h : kind = .Route ∨ kind = .Ingress) :
    Staged 5 (Reconcile.deleteExposure kind svc) := by
  have hst : ∀ v : Verb, firstStage v kind ≤ 5 ∧ 5 ≤ lastStage v kind := by
    intro v
    rcases h with h | h <;> rw [h] <;> cases v <;> decide
  unfold Reconcile.deleteExposure
  apply staged_bind_get _ kind rfl (hst _)
  intro res hres
  split
  · split
    · exact staged_fail 5 _
    · exact staged_pure 5 _
  · rename_i x
    apply staged_bind (staged_attempt (staged_delete 5 _ kind
      (by rw [hres x rfl]) (hst _))); intro del
    split
    · split
      · exact staged_fail 5 _
      · exact staged_pure 5 _
    · exact staged_pure 5 _

theorem Reconcile.deleteGrafanaService_staged (svc : Obj) :
    Staged 5 (Reconcile.deleteGrafanaService svc) := by
  unfold Reconcile.deleteGrafanaService
  apply staged_bind_get _ .Service rfl (by decide)
  intro res hres
  split
  · rename_i x
    apply staged_bind (staged_attempt (staged_delete 5 _ .Service
      (by rw [hres x rfl]) (by decide))); intro del
    split
    · split
      · exact staged_fail 5 _
      · exact staged_pure 5 _
    · exact staged_pure 5 _
  · exact staged_pure 5 _

theorem Reconcile.grafana_staged (r : CryostatReconciler) (inst : Obj)
    (routeTLS : Option TLSConfig) : Staged 5 (Reconcile.grafana r inst routeTLS) := by
  unfold Reconcile.grafana
  split
  · apply staged_bind (staged_attempt (createService_staged r inst
      (NewGrafanaService r.resources inst) _ _ rfl)); intro res
    split
    · exact staged_fail 5 _
    · exact staged_bind (Reconcile.deleteDeployment_staged inst _) (fun _ => staged_pure 5 _)
  · apply staged_bind (Reconcile.deleteExposure_staged _ _
      (by cases r.IsOpenShift <;> simp)); intro _
    apply staged_bind (Reconcile.deleteGrafanaService_staged _); intro _
    exact staged_bind (Reconcile.deleteDeployment_staged inst _) (fun _ => staged_pure 5 _)

theorem Reconcile.core_staged (r : CryostatReconciler) (inst : Obj)
    (routeTLS : Option TLSConfig) : Staged 5 (Reconcile.core r inst routeTLS) := by
  unfold Reconcile.core
  apply staged_bind (staged_attempt (createService_staged r inst
    (NewExporterService r.resources inst) _ _ rfl)); intro res
  split
  · exact staged_fail 5 _
  · exact staged_pure 5 _

theorem Reconcile.command_staged (r : CryostatReconciler) (inst : Obj)
    (routeTLS : Option TLSConfig) : Staged 5 (Reconcile.command r inst routeTLS) := by
  unfold Reconcile.command
  apply staged_bind (staged_attempt (createService_staged r inst
    (NewCommandChannelService r.resources inst) _ _ rfl)); intro res
  split
  · exact staged_fail 5 _
  · exact staged_pure 5 _

theorem getFSGroup_staged (r : CryostatReconciler) (ns : String) :
    Staged 6 (getFSGroup r ns) := by
  unfold getFSGroup
  split
  · apply staged_bind (staged_get 6 _ .Namespace rfl (by decide)); intro nsObj
    split
    · exact fun _ => keeps_ofExcept _
    · exact staged_pure 6 _
  · exact staged_pure 6 _

theorem Reconcile.deployment_staged (r : CryostatReconciler) (inst : Obj)
    (serviceSpecs : ServiceSpecs) (tlsConfig : Option ResourcesTLSConfig) :
    Staged 6 (Reconcile.deployment r inst serviceSpecs tlsConfig) := by
  unfold Reconcile.deployment
  apply staged_bind (staged_orReturn (getFSGroup_staged r _)); intro fsGroup
  simp only []
  apply staged_bind_orReturn_ofExcept; intro deployment h1
  apply staged_bind (staged_orReturn (CreateOrUpdate_staged 6 deployment _ .Deployment
    (by rw [SetControllerReference_key _ _ _ h1]; rfl) (fun o => Obj.setPodSpec_key o _)
    (by decide) (by decide) (by decide))); intro _
  exact staged_pure 6 _

theorem Reconcile.status_staged (inst : Obj) (serviceSpecs : ServiceSpecs)
    (hk : inst.body.kind = .Cryostat) : Staged 7 (Reconcile.status inst serviceSpecs) := by
  unfold Reconcile.status
  split
  · exact staged_bind (staged_orReturn (staged_statusUpdate 7 _ .Cryostat
      (by rw [Obj.setApplicationURL_key]; exact hk) (by decide))) (fun _ => staged_pure 7 _)
  · exact staged_pure 7 _

theorem Reconcile.consoleLink_staged (r : CryostatReconciler) (inst : Obj)
    (serviceSpecs : ServiceSpecs) : Staged 8 (Reconcile.consoleLink r inst serviceSpecs) := by
  unfold Reconcile.consoleLink
  split
  · split
    · exact staged_fail 8 _
    · exact staged_orReturn (createObjectIfNotExists_staged 8 _ _ _ rfl (by decide)
        (by decide))
  · exact staged_pure 8 _

/-! ## The stage the pass has reached -/

theorem Reconcile.toFinalizer_advances (r : CryostatReconciler) (request : NamespacedName) :
    Advances 0 0 (Reconcile.toFinalizer r request) := by
  unfold Reconcile.toFinalizer
  refine advances_bind ((Reconcile.fetch_staged request).advances (Nat.le_refl _)) ?_
    (Nat.le_refl _)
  rintro inst ⟨w, hw⟩
  have hk := (Client.Get_ok _ _ _ (Reconcile.fetch_ok _ _ _ hw)).2
  simp only [Obj.key, Key.mk.injEq] at hk
  exact (staged_bind (Reconcile.finalize_staged r inst hk.1)
    (fun _ => Reconcile.addFinalizer_staged inst hk.1)).advances (Nat.le_refl _)

theorem Reconcile.toSecrets_advances (r : CryostatReconciler) (request : NamespacedName) :
    Advances 0 2 (Reconcile.toSecrets r request) := by
  unfold Reconcile.toSecrets
  refine advances_bind (Reconcile.toFinalizer_advances r request) (fun inst _ => ?_)
    (by decide)
  refine advances_bind (k := 1) ((Reconcile.storage_staged r inst).advances (by decide))
    (fun _ _ => ?_) (by decide)
  exact (staged_bind (Reconcile.secrets_staged r inst) (fun _ => staged_pure 2 _)).advances
    (by decide)

theorem Reconcile.toRBAC_advances (r : CryostatReconciler) (request : NamespacedName) :
    Advances 0 4 (Reconcile.toRBAC r request) := by
  unfold Reconcile.toRBAC
  refine advances_bind (Reconcile.toSecrets_advances r request) (fun inst _ => ?_)
    (by decide)
  exact (staged_bind (Reconcile.tls_staged 4 r inst) (fun _ =>
    staged_bind (Reconcile.rbac_staged r inst) (fun _ => staged_pure 4 _))).advances
    (by decide)

theorem Reconcile.toGrafana_advances (r : CryostatReconciler) (request : NamespacedName) :
    Advances 0 5 (Reconcile.toGrafana r request) := by
  unfold Reconcile.toGrafana
  refine advances_bind (Reconcile.toRBAC_advances r request) (fun st _ => ?_) (by decide)
  exact (staged_bind (Reconcile.grafana_staged r st.inst _)
    (fun _ => staged_pure 5 _)).advances (by decide)

theorem Reconcile.toCore_advances (r : CryostatReconciler) (request : NamespacedName) :
    Advances 0 5 (Reconcile.toCore r request) := by
  unfold Reconcile.toCore
  refine advances_bind (Reconcile.toGrafana_advances r request) (fun st _ => ?_)
    (Nat.le_refl _)
  exact (staged_bind (Reconcile.core_staged r st.inst _)
    (fun _ => staged_pure 5 _)).advances (Nat.le_refl _)

theorem Reconcile.toCommand_advances (r : CryostatReconciler) (request : NamespacedName) :
    Advances 0 5 (Reconcile.toCommand r request) := by
  unfold Reconcile.toCommand
  refine advances_bind (Reconcile.toCore_advances r request) (fun st _ => ?_)
    (Nat.le_refl _)
  exact (staged_bind (Reconcile.command_staged r st.inst _)
    (fun _ => staged_pure 5 _)).advances (Nat.le_refl _)

theorem Reconcile.pass_advances (r : CryostatReconciler) (request : NamespacedName) :
    Advances 0 8 (Reconcile.pass r request) := by
  unfold Reconcile.pass
  refine advances_bind (Reconcile.toCommand_advances r request) ?_ (by decide)
  rintro st ⟨w, hw⟩
  have hk := (Reconcile.toFinalizer_inst _ _ _ _ (Reconcile.toCommand_inst _ _ _ _ hw)).2.2.1
  refine advances_bind (k := 6) ((Reconcile.deployment_staged r st.inst _ _).advances
    (by decide)) (fun _ _ => ?_) (by decide)
  refine advances_bind (k := 7) ((Reconcile.status_staged st.inst _ hk).advances (by decide))
    (fun inst2 _ => ?_) (by decide)
  exact (Reconcile.consoleLink_staged r inst2 _).advances (by decide)

/-- The calls of a pass are in stage order. -/
theorem Reconcile.stage_ordered (r : CryostatReconciler) (request : NamespacedName)
    (w : World) : StageOrdered ((Reconcile r request w).2.callsSince w) := by
  rw [Reconcile.pass_world]
  exact (Reconcile.pass_advances r request w.log.length w (Ordered.start 0 w)).1

end Cryostat

namespace Cryostat

/-! ## A call of a stage is issued only after the stages before it have succeeded -/

/-- When the pass has ended in a world that holds calls up to stage `j` only, no call of
the pass is of a later stage. -/
theorem Reconcile.stage_le (r : CryostatReconciler) (request : NamespacedName) (w W : World)
    (j : Nat) (hW : (Reconcile r request w).2 = W) (hO : Ordered w.log.length j W)
    (c : Call) (hc : c ∈ (Reconcile r request w).2.callsSince w) :
    firstStage c.verb c.key.kind ≤ j := by
  rw [hW] at hc
  exact hO.2 c hc

theorem Reconcile.passed_finalizer (r : CryostatReconciler) (request : NamespacedName)
    (w : World) (c : Call) (hc : c ∈ (Reconcile r request w).2.callsSince w)
    (hk : 1 ≤ firstStage c.verb c.key.kind) :
    ∃ inst, (Reconcile.toFinalizer r request w).1 = .ok inst := by
  cases h : (Reconcile.toFinalizer r request w).1 with
  | ok inst => exact ⟨inst, rfl⟩
  | error ret =>
    exfalso
    have h2 : Reconcile.toSecrets r request w
        = (.error ret, (Reconcile.toFinalizer r request w).2) := by
      unfold Reconcile.toSecrets; rw [bind_of_error _ _ _ ret h]
    have h3 := Reconcile.of_toSecrets_error r request w ret (by rw [h2])
    rw [h2] at h3
    have := Reconcile.stage_le r request w _ 0 (by rw [h3])
      (Reconcile.toFinalizer_advances r request _ w (Ordered.start 0 w)) c hc
    omega

theorem Reconcile.passed_storage (r : CryostatReconciler) (request : NamespacedName)
    (w : World) (c : Call) (hc : c ∈ (Reconcile r request w).2.callsSince w)
    (hk : 2 ≤ firstStage c.verb c.key.kind) :
    ∃ inst, (Reconcile.toFinalizer r request w).1 = .ok inst ∧
      (Reconcile.storage r inst (Reconcile.toFinalizer r request w).2).1 = .ok () := by
  obtain ⟨inst, h1⟩ := Reconcile.passed_finalizer r request w c hc (by omega)
  refine ⟨inst, h1, ?_⟩
  cases h : (Reconcile.storage r inst (Reconcile.toFinalizer r request w).2).1 with
  | ok u => rfl
  | error ret =>
    exfalso
    have h2 : Reconcile.toSecrets r request w
        = (.error ret, (Reconcile.storage r inst (Reconcile.toFinalizer r request w).2).2) := by
      unfold Reconcile.toSecrets
      rw [bind_of_ok _ _ _ _ h1, bind_of_error _ _ _ ret h]
    have h3 := Reconcile.of_toSecrets_error r request w ret (by rw [h2])
    rw [h2] at h3
    have := Reconcile.stage_le r request w _ 1 (by rw [h3])
      ((Reconcile.storage_staged r inst).advances (by decide) _ _
        (Reconcile.toFinalizer_advances r request _ w (Ordered.start 0 w))) c hc
    omega

theorem Reconcile.passed_secrets (r : CryostatReconciler) (request : NamespacedName)
    (w : World) (c : Call) (hc : c ∈ (Reconcile r request w).2.callsSince w)
    (hk : 3 ≤ firstStage c.verb c.key.kind) :
    ∃ inst, (Reconcile.toSecrets r request w).1 = .ok inst := by
  cases h : (Reconcile.toSecrets r request w).1 with
  | ok inst => exact ⟨inst, rfl⟩
  | error ret =>
    exfalso
    have h3 := Reconcile.of_toSecrets_error r request w ret h
    have := Reconcile.stage_le r request w _ 2 (by rw [h3])
      (Reconcile.toSecrets_advances r request _ w (Ordered.start 0 w)) c hc
    omega

theorem Reconcile.passed_tls (r : CryostatReconciler) (request : NamespacedName)
    (w : World) (c : Call) (hc : c ∈ (Reconcile r request w).2.callsSince w)
    (hk : 4 ≤ firstStage c.verb c.key.kind) :
    ∃ inst tls, (Reconcile.toSecrets r request w).1 = .ok inst ∧
      (Reconcile.tls r inst (Reconcile.toSecrets r request w).2).1 = .ok tls := by
  obtain ⟨inst, h1⟩ := Reconcile.passed_secrets r request w c hc (by omega)
  cases h : (Reconcile.tls r inst (Reconcile.toSecrets r request w).2).1 with
  | ok tls => exact ⟨inst, tls, h1, h⟩
  | error ret =>
    exfalso
    have h2 : Reconcile.toRBAC r request w
        = (.error ret, (Reconcile.tls r inst (Reconcile.toSecrets r request w).2).2) := by
      unfold Reconcile.toRBAC
      rw [bind_of_ok _ _ _ _ h1, bind_of_error _ _ _ ret h]
    have h3 := Reconcile.of_toRBAC_error r request w ret (by rw [h2])
    rw [h2] at h3
    have := Reconcile.stage_le r request w _ 2 (by rw [h3])
      (Reconcile.tls_staged 2 r inst _ _
        (Reconcile.toSecrets_advances r request _ w (Ordered.start 0 w))) c hc
    omega

theorem Reconcile.passed_rbac (r : CryostatReconciler) (request : NamespacedName)
    (w : World) (c : Call) (hc : c ∈ (Reconcile r request w).2.callsSince w)
    (hk : 5 ≤ firstStage c.verb c.key.kind) :
    ∃ st, (Reconcile.toRBAC r request w).1 = .ok st := by
  cases h : (Reconcile.toRBAC r request w).1 with
  | ok st => exact ⟨st, rfl⟩
  | error ret =>
    exfalso
    have h3 := Reconcile.of_toRBAC_error r request w ret h
    have := Reconcile.stage_le r request w _ 4 (by rw [h3])
      (Reconcile.toRBAC_advances r request _ w (Ordered.start 0 w)) c hc
    omega

theorem Reconcile.passed_services (r : CryostatReconciler) (request : NamespacedName)
    (w : World) (c : Call) (hc : c ∈ (Reconcile r request w).2.callsSince w)
    (hk : 6 ≤ firstStage c.verb c.key.kind) :
    ∃ st, (Reconcile.toCommand r request w).1 = .ok st := by
  cases h : (Reconcile.toCommand r request w).1 with
  | ok st => exact ⟨st, rfl⟩
  | error ret =>
    exfalso
    have h3 := Reconcile.of_toCommand_error r request w ret h
    have := Reconcile.stage_le r request w _ 5 (by rw [h3])
      (Reconcile.toCommand_advances r request _ w (Ordered.start 0 w)) c hc
    omega

theorem Reconcile.passed_deployment (r : CryostatReconciler) (request : NamespacedName)
    (w : World) (c : Call) (hc : c ∈ (Reconcile r request w).2.callsSince w)
    (hk : 7 ≤ firstStage c.verb c.key.kind) :
    ∃ st, (Reconcile.toCommand r request w).1 = .ok st ∧
      (Reconcile.deployment r st.inst st.serviceSpecs st.tlsConfig
        (Reconcile.toCommand r request w).2).1 = .ok () := by
  obtain ⟨st, h1⟩ := Reconcile.passed_services r request w c hc (by omega)
  refine ⟨st, h1, ?_⟩
  cases h : (Reconcile.deployment r st.inst st.serviceSpecs st.tlsConfig
      (Reconcile.toCommand r request w).2).1 with
  | ok u => rfl
  | error ret =>
    exfalso
    have h2 : Reconcile.pass r request w
        = (.error ret, (Reconcile.deployment r st.inst st.serviceSpecs st.tlsConfig
            (Reconcile.toCommand r request w).2).2) := by
      unfold Reconcile.pass
      rw [bind_of_ok _ _ _ _ h1, bind_of_error _ _ _ ret h]
    have h3 : (Reconcile r request w).2 = (Reconcile.deployment r st.inst st.serviceSpecs
        st.tlsConfig (Reconcile.toCommand r request w).2).2 := by
      rw [Reconcile.pass_world, h2]
    have := Reconcile.stage_le r request w _ 6 h3
      ((Reconcile.deployment_staged r st.inst _ _).advances (by decide) _ _
        (Reconcile.toCommand_advances r request _ w (Ordered.start 0 w))) c hc
    omega

theorem Reconcile.passed_status (r : CryostatReconciler) (request : NamespacedName)
    (w : World) (c : Call) (hc : c ∈ (Reconcile r request w).2.callsSince w)
    (hk : 8 ≤ firstStage c.verb c.key.kind) :
    ∃ st inst2, (Reconcile.toCommand r request w).1 = .ok st ∧
      (Reconcile.status st.inst st.serviceSpecs
        (Reconcile.deployment r st.inst st.serviceSpecs st.tlsConfig
          (Reconcile.toCommand r request w).2).2).1 = .ok inst2 := by
  obtain ⟨st, h1, hd⟩ := Reconcile.passed_deployment r request w c hc (by omega)
  have hkind := (Reconcile.toFinalizer_inst _ _ _ _ (Reconcile.toCommand_inst _ _ _ _ h1)).2.2.1
  cases h : (Reconcile.status st.inst st.serviceSpecs
      (Reconcile.deployment r st.inst st.serviceSpecs st.tlsConfig
        (Reconcile.toCommand r request w).2).2).1 with
  | ok inst2 => exact ⟨st, inst2, h1, h⟩
  | error ret =>
    exfalso
    have h2 : Reconcile.pass r request w
        = (.error ret, (Reconcile.status st.inst st.serviceSpecs
            (Reconcile.deployment r st.inst st.serviceSpecs st.tlsConfig
              (Reconcile.toCommand r request w).2).2).2) := by
      unfold Reconcile.pass
      rw [bind_of_ok _ _ _ _ h1, bind_of_ok _ _ _ _ hd, bind_of_error _ _ _ ret h]
    have h3 : (Reconcile r request w).2 = (Reconcile.status st.inst st.serviceSpecs
        (Reconcile.deployment r st.inst st.serviceSpecs st.tlsConfig
          (Reconcile.toCommand r request w).2).2).2 := by
      rw [Reconcile.pass_world, h2]
    have := Reconcile.stage_le r request w _ 7 h3
      ((Reconcile.status_staged st.inst _ hkind).advances (by decide) _ _
        ((Reconcile.deployment_staged r st.inst _ _).advances (by decide) _ _
          (Reconcile.toCommand_advances r request _ w (Ordered.start 0 w)))) c hc
    omega

/-- A call of the pass is issued only when the sections of all stages before its own have
returned without error. -/
theorem Reconcile.passed (r : CryostatReconciler) (request : NamespacedName) (w : World)
    (c : Call) (hc : c ∈ (Reconcile r request w).2.callsSince w) :
    Reconcile.Passed r request w (firstStage c.verb c.key.kind) :=
  ⟨Reconcile.passed_finalizer r request w c hc, Reconcile.passed_storage r request w c hc,
    Reconcile.passed_secrets r request w c hc, Reconcile.passed_tls r request w c hc,
    Reconcile.passed_rbac r request w c hc, Reconcile.passed_services r request w c hc,
    Reconcile.passed_deployment r request w c hc, Reconcile.passed_status r request w c hc⟩

end Cryostat

namespace Cryostat

/-! ## The RBAC objects are in the store when the later stages issue their calls -/

/-- What a footprint keeps of the store holds of the store each call was issued on. -/
theorem respects_before (T : List Touch) (n : Nat) (S : Store → Prop) (P : Call → Prop)
    (h : Respects T (fun w => S w.objs)) :
    Respects T (Inv n S (fun c => P c → S c.before)) := by
  refine ⟨fun k w hw => ⟨h.get k w hw.1, ?_⟩, fun o ho w hw => ⟨h.create o ho w hw.1, ?_⟩,
    fun o ho w hw => ⟨h.update o ho w hw.1, ?_⟩, fun o ho w hw => ⟨h.delete o ho w hw.1, ?_⟩,
    fun o ho w hw => ⟨h.status o ho w hw.1, ?_⟩⟩
  · intro c hc
    rw [Client.Get_log] at hc
    rcases List.mem_drop_append_singleton _ _ _ _ hc with h1 | h1
    · exact hw.2 c h1
    · subst h1; exact fun _ => hw.1
  · intro c hc
    rw [Client.Create_log] at hc
    rcases List.mem_drop_append_singleton _ _ _ _ hc with h1 | h1
    · exact hw.2 c h1
    · subst h1; exact fun _ => hw.1
  · intro c hc
    rw [Client.Update_log] at hc
    rcases List.mem_drop_append_singleton _ _ _ _ hc with h1 | h1
    · exact hw.2 c h1
    · subst h1; exact fun _ => hw.1
  · intro c hc
    rw [Client.Delete_log] at hc
    rcases List.mem_drop_append_singleton _ _ _ _ hc with h1 | h1
    · exact hw.2 c h1
    · subst h1; exact fun _ => hw.1
  · intro c hc
    rw [Client.StatusUpdate_log] at hc
    rcases List.mem_drop_append_singleton _ _ _ _ hc with h1 | h1
    · exact hw.2 c h1
    · subst h1; exact fun _ => hw.1

/-- A footprint whose deletes are of Deployments, Services, Routes and Ingresses only
leaves the RBAC objects in the store. -/
theorem respects_rbacSettled (r : CryostatReconciler) (ns name : String) (T : List Touch)
    (hT : ∀ t ∈ T, t.1 = Verb.Delete →
      t.2.kind = .Deployment ∨ t.2.kind = .Service ∨ t.2.kind = .Route ∨ t.2.kind = .Ingress) :
    Respects T (fun w => RBACSettled r ns name w.objs) := by
  have hk : ∀ k : Key, (k.kind = .ServiceAccount ∨ k.kind = .Role ∨ k.kind = .RoleBinding ∨
      k.kind = .ClusterRoleBinding) → (Verb.Delete, k) ∉ T := by
    intro k hk hmem
    have := hT _ hmem rfl
    simp only at this
    rcases hk with h | h | h | h <;> rw [h] at this <;> simp at this
  exact (respects_has T _ (hk _ (Or.inl rfl))).and ((respects_has T _ (hk _ (Or.inr (Or.inl rfl)))).and
    ((respects_has T _ (hk _ (Or.inr (Or.inr (Or.inl rfl))))).and
      (respects_has T _ (hk _ (Or.inr (Or.inr (Or.inr rfl)))))))

/-- When the RBAC section is through, the four RBAC objects of the instance are in the
store. -/
theorem Reconcile.toRBAC_rbacSettled (r : CryostatReconciler) (request : NamespacedName) :
    Triple (fun _ => True) (Reconcile.toRBAC r request)
      (fun st w => RBACSettled r st.inst.meta.Namespace st.inst.meta.Name w.objs) := by
  unfold Reconcile.toRBAC
  refine triple_bind (Q := fun _ _ => True) (fun _ _ _ _ => trivial) (fun inst => ?_)
  refine triple_bind (Q := fun _ _ => True) (fun _ _ _ _ => trivial) (fun tls => ?_)
  refine triple_bind (Reconcile.rbac_settles r inst) (fun _ => ?_)
  exact triple_pure (fun (st : PassState) w =>
    RBACSettled r st.inst.meta.Namespace st.inst.meta.Name w.objs)
    { inst := inst, tlsConfig := tls.1, routeTLS := tls.2 }

/-- Every call of the stages after RBAC is issued on a store that holds the
ServiceAccount, the Role, the RoleBinding and the ClusterRoleBinding of the instance. -/
theorem Reconcile.rbac_before (r : CryostatReconciler) (request : NamespacedName) (w : World)
    (c : Call) (hc : c ∈ (Reconcile r request w).2.callsSince w)
    (hk : 5 ≤ firstStage c.verb c.key.kind) :
    RBACSettled r request.Namespace request.Name c.before := by
  obtain ⟨st, h⟩ := Reconcile.passed_rbac r request w c hc hk
  have hR : ∀ T : List Touch, (∀ t ∈ T, t.1 = Verb.Delete →
      t.2.kind = .Deployment ∨ t.2.kind = .Service ∨ t.2.kind = .Route ∨ t.2.kind = .Ingress) →
      Respects T (Inv w.log.length (RBACSettled r request.Namespace request.Name)
        (fun c => 5 ≤ firstStage c.verb c.key.kind →
          RBACSettled r request.Namespace request.Name c.before)) :=
    fun T hT => respects_before T _ _ _ (respects_rbacSettled r _ _ T hT)
  have hi := Reconcile.toFinalizer_inst _ _ _ _ (Reconcile.toRBAC_inst _ _ _ _ h)
  have h0 : Inv w.log.length (RBACSettled r request.Namespace request.Name)
      (fun c => 5 ≤ firstStage c.verb c.key.kind →
        RBACSettled r request.Namespace request.Name c.before)
      (Reconcile.toRBAC r request w).2 := by
    refine ⟨?_, fun d hd h5 => ?_⟩
    · have hs : RBACSettled r st.inst.meta.Namespace st.inst.meta.Name
          (Reconcile.toRBAC r request w).2.objs :=
        Reconcile.toRBAC_rbacSettled r request w trivial st h
      rw [hi.1, hi.2.1] at hs
      exact hs
    · have := (Reconcile.toRBAC_advances r request _ w (Ordered.start 0 w)).2 d hd
      omega
  have h1 : Inv w.log.length (RBACSettled r request.Namespace request.Name)
      (fun c => 5 ≤ firstStage c.verb c.key.kind →
        RBACSettled r request.Namespace request.Name c.before)
      (Reconcile.toGrafana r request w).2 := by
    unfold Reconcile.toGrafana
    rw [run_bind, h]
    simp only
    refine keeps_bind (Reconcile.grafana_keeps r st.inst _ (hR _ ?_)) (fun _ => keeps_pure _) _ h0
    cases hm : st.inst.Spec.Minimal <;> cases ho : r.IsOpenShift <;>
      simp [ho, grafanaTouches, createServiceTouches, deleteDeploymentTouches]
  have h2 := Reconcile.toCore_step r request w h1 (fun st2 _ => hR _ (by
    cases ho : r.IsOpenShift <;> simp [ho, createServiceTouches]))
  have h3 := Reconcile.toCommand_step r request w h2 (fun st2 _ => hR _ (by
    cases ho : r.IsOpenShift <;> simp [ho, createServiceTouches]))
  have h4 := Reconcile.pass_step r request w h3 (fun st2 _ => hR _ (by
    cases ho : r.IsOpenShift <;>
      simp [ho, deploymentTouches, statusTouches, consoleLinkTouches]))
  exact h4.2 c hc hk

end Cryostat

namespace Cryostat

/-- C21, as the code has it. In every pass, a store call that fails is the last call of
the pass and `Reconcile` returns its error (with the 10 s requeue for the delete of the
Deployment, and with the 5 s requeue and no error should the error equal the not-ready
sentinel), unless the call is a read or a delete answered NotFound, or it is the read of
the existing Deployment or of the Grafana Service in the minimality step: the error of
these two reads is not looked at. On OpenShift, with the read of the existing Deployment
answered Forbidden, the pass goes on for fourteen more calls and returns no error; on
plain Kubernetes, for a minimal instance whose Grafana Service is still stored, with the
read of that Service answered Forbidden, the pass returns no error and the Service is
still there. -/
theorem Reconcile_goes_on_after_failed_reads :
    (∀ (r : CryostatReconciler) (request : NamespacedName) (w : World)
        (pre : List Call) (c : Call) (post : List Call),
      (Reconcile r request w).2.callsSince w = pre ++ c :: post → c.err ≠ none →
      Tolerated request.Namespace request.Name c ∨
        (post = [] ∧ Surfaced (Reconcile r request w).1 c)) ∧
    (Reconcile (test.reconciler true) test.request
      { objs := test.NewCluster, faults := List.replicate 20 none ++ [some .Forbidden] }).1
      = ({ Requeue := false, RequeueAfter := 0 }, none) ∧
    ((Reconcile (test.reconciler true) test.request
      { objs := test.NewCluster,
        faults := List.replicate 20 none ++ [some .Forbidden] }).2.log.get? 20).map
        (fun c => (c.verb, c.key, c.err))
      = some (.Get, ⟨.Deployment, "default", "cryostat"⟩, some .Forbidden) ∧
    (Reconcile (test.reconciler true) test.request
      { objs := test.NewCluster,
        faults := List.replicate 20 none ++ [some .Forbidden] }).2.log.length = 35 ∧
    (Reconcile (test.reconciler false) test.request
      { objs := [test.NewMinimalCryostat, test.NewGrafanaService],
        faults := List.replicate 17 none ++ [some .Forbidden] }).1
      = ({ Requeue := false, RequeueAfter := 0 }, none) ∧
    ((Reconcile (test.reconciler false) test.request
      { objs := [test.NewMinimalCryostat, test.NewGrafanaService],
        faults := List.replicate 17 none ++ [some .Forbidden] }).2.log.get? 17).map
        (fun c => (c.verb, c.key, c.err))
      = some (.Get, ⟨.Service, "default", "cryostat-grafana"⟩, some .Forbidden) ∧
    ((Reconcile (test.reconciler false) test.request
      { objs := [test.NewMinimalCryostat, test.NewGrafanaService],
        faults := List.replicate 17 none ++ [some .Forbidden] }).2.objs.get?
        ⟨.Service, "default", "cryostat-grafana"⟩).isSome = true := by
  refine ⟨fun r request w pre c post hs hc => ?_, by decide, by decide, by decide, by decide,
    by decide, by decide⟩
  obtain ⟨L, hL, h2⟩ := Reconcile.pass_stops r request w
  have hw : (Reconcile r request w).2 = (Reconcile.pass r request w).2 := by
    unfold Reconcile
    split <;> rfl
  have hcalls : (Reconcile r request w).2.callsSince w = L := by
    unfold World.callsSince
    rw [hw, hL, List.drop_left]
  rw [hcalls] at hs
  by_cases hA : Tolerated request.Namespace request.Name c
  · exact Or.inl hA
  · obtain ⟨hp, x, hx, hF⟩ := h2 pre c post hs hc hA
    refine Or.inr ⟨hp, ?_⟩
    have : (Reconcile r request w).1 = x := by
      unfold Reconcile
      rw [hx]
    rw [this]
    exact hF

/-- Witness for C21: on OpenShift the creation of the PVC is answered Forbidden; it is
the fourth and last call of the pass, and `Reconcile` returns Forbidden. -/
theorem Reconcile_goes_on_after_failed_reads_witness :
    (Reconcile (test.reconciler true) test.request
      { objs := test.NewCluster, faults := [none, none, none, some .Forbidden] }).1
      = ({ Requeue := false, RequeueAfter := 0 }, some .Forbidden) ∧
    ((Reconcile (test.reconciler true) test.request
      { objs := test.NewCluster,
        faults := [none, none, none, some .Forbidden] }).2.log.map
        (fun c => (c.verb, c.key.kind, c.err)))
      = [(.Get, .Cryostat, none), (.Update, .Cryostat, none),
         (.Get, .PersistentVolumeClaim, some .NotFound),
         (.Create, .PersistentVolumeClaim, some .Forbidden)] ∧
    ∀ pre c post,
      (Reconcile (test.reconciler true) test.request
        { objs := test.NewCluster,
          faults := [none, none, none, some .Forbidden] }).2.callsSince
          { objs := test.NewCluster, faults := [none, none, none, some .Forbidden] }
        = pre ++ c :: post → c.err ≠ none →
      Tolerated test.request.Namespace test.request.Name c ∨
        (post = [] ∧ Surfaced (Reconcile (test.reconciler true) test.request
          { objs := test.NewCluster, faults := [none, none, none, some .Forbidden] }).1 c) :=
  ⟨by decide, by decide,
    Reconcile_goes_on_after_failed_reads.1 (test.reconciler true) test.request
      { objs := test.NewCluster, faults := [none, none, none, some .Forbidden] }⟩

end Cryostat

namespace Cryostat

/-- Counterexample to C22: on OpenShift, with the Routes of the three Services carrying a
host, the creation of the ConsoleLink (call 35 of the pass) is answered Forbidden.
`Reconcile` returns Forbidden, yet call 33 of the same pass is a status update that the
store has accepted, and the stored status of the instance has changed from the empty
application URL to `https://cryostat.example.com`. -/
theorem Reconcile_error_after_status_update :
    (Reconcile (test.reconciler true) test.request
      { objs := test.NewCluster, faults := List.replicate 34 none ++ [some .Forbidden] }).1
      = ({ Requeue := false, RequeueAfter := 0 }, some .Forbidden) ∧
    ((Reconcile (test.reconciler true) test.request
      { objs := test.NewCluster,
        faults := List.replicate 34 none ++ [some .Forbidden] }).2.log.map
        (fun c => (c.verb, c.key.kind, c.err))).drop 32
      = [(.StatusUpdate, .Cryostat, none), (.Get, .ConsoleLink, some .NotFound),
         (.Create, .ConsoleLink, some .Forbidden)] ∧
    (test.NewCluster.get? ⟨.Cryostat, "default", "cryostat"⟩).map Obj.Status
      = some { ApplicationURL := "" } ∧
    ((Reconcile (test.reconciler true) test.request
      { objs := test.NewCluster,
        faults := List.replicate 34 none ++ [some .Forbidden] }).2.objs.get?
        ⟨.Cryostat, "default", "cryostat"⟩).map Obj.Status
      = some { ApplicationURL := "https://cryostat.example.com" } := by
  decide

/-- C22 (amended): whenever `Reconcile` returns a non-nil error, either no status update of
that pass has succeeded and the status of the instance in the store is what it was before
the pass, or the platform is OpenShift and the error is that of the last call of the
pass, a call for the ConsoleLink (the step that follows the status update). -/
theorem Reconcile_error_keeps_status_unless_consoleLink (r : CryostatReconciler)
    (request : NamespacedName) (w : World) (e : Err)
    (h : (Reconcile r request w).1.2 = some e) :
    ((∀ c ∈ (Reconcile r request w).2.callsSince w, c.verb = .StatusUpdate → c.err ≠ none) ∧
      ((Reconcile r request w).2.objs.get? ⟨.Cryostat, request.Namespace, request.Name⟩).map
          Obj.Status
        = (w.objs.get? ⟨.Cryostat, request.Namespace, request.Name⟩).map Obj.Status) ∨
      (r.IsOpenShift = true ∧ ∃ c, (Reconcile r request w).2.log.getLast? = some c ∧
        c.key.kind = .ConsoleLink ∧ c.err = some e) := by
  rcases Reconcile.status_on_error r request w e h with h1 | h1
  · exact Or.inl ⟨h1.2, h1.1⟩
  · exact Or.inr h1

/-- Witness for C22: on OpenShift the creation of the PVC is answered Forbidden and
`Reconcile` returns Forbidden; the platform is OpenShift, but the last call is on the PVC,
not on the ConsoleLink, so the status is untouched. -/
theorem Reconcile_error_keeps_status_unless_consoleLink_witness :
    (Reconcile (test.reconciler true) test.request
      { objs := test.NewCluster, faults := [none, none, none, some .Forbidden] }).1.2
      = some .Forbidden ∧
    (((Reconcile (test.reconciler true) test.request
        { objs := test.NewCluster, faults := [none, none, none, some .Forbidden] }).2.log.getLast?).map
        (fun c => c.key.kind)) = some .PersistentVolumeClaim ∧
    (((∀ c ∈ (Reconcile (test.reconciler true) test.request
          { objs := test.NewCluster, faults := [none, none, none, some .Forbidden] }).2.callsSince
          { objs := test.NewCluster, faults := [none, none, none, some .Forbidden] },
        c.verb = .StatusUpdate → c.err ≠ none) ∧
      ((Reconcile (test.reconciler true) test.request
          { objs := test.NewCluster, faults := [none, none, none, some .Forbidden] }).2.objs.get?
          ⟨.Cryostat, test.request.Namespace, test.request.Name⟩).map Obj.Status
        = (({ objs := test.NewCluster,
              faults := [none, none, none, some .Forbidden] } : World).objs.get?
            ⟨.Cryostat, test.request.Namespace, test.request.Name⟩).map Obj.Status) ∨
      ((test.reconciler true).IsOpenShift = true ∧
        ∃ c, (Reconcile (test.reconciler true) test.request
          { objs := test.NewCluster,
            faults := [none, none, none, some .Forbidden] }).2.log.getLast? = some c ∧
          c.key.kind = .ConsoleLink ∧ c.err = some .Forbidden)) :=
  ⟨by decide, by decide,
    Reconcile_error_keeps_status_unless_consoleLink (test.reconciler true) test.request
      { objs := test.NewCluster, faults := [none, none, none, some .Forbidden] } .Forbidden
      (by decide)⟩

end Cryostat

namespace Cryostat

/-- C23. In every pass of `Reconcile`: a delete of a Deployment that fails with an error
other than NotFound is the last call of the pass, and `Reconcile` returns that error with
a result that has `Requeue` set and `RequeueAfter` of 10 s; a result with `Requeue` set or
with `RequeueAfter` of 10 s is returned only so, that is, the instance was read and is not
being deleted, the last call of the pass is the failed delete of the Deployment named
after the instance, and the Deployment that was read has exactly 1 container when
`Minimal` is false and more than 1 when `Minimal` is true; and a delete of a Deployment
that is answered NotFound is never the last call of the pass. -/
theorem Reconcile_requeues_after_failed_delete (r : CryostatReconciler)
    (request : NamespacedName) (w : World) :
    (∀ pre c post e, (Reconcile r request w).2.callsSince w = pre ++ c :: post →
      DeletesDeployment c → c.err = some e → e.IsNotFound = false →
      post = [] ∧
        (Reconcile r request w).1
          = ({ Requeue := true, RequeueAfter := Second * 10 }, some e)) ∧
    (¬ NoLongRequeue (Reconcile r request w).1 →
      ∃ inst mismatch,
        (Client.Get ⟨.Cryostat, request.Namespace, request.Name⟩ w).1 = .ok inst ∧
        inst.meta.DeletionTimestamp = none ∧
        DeleteFailed request.Namespace request.Name mismatch (Reconcile r request w).1
          (Reconcile r request w).2 ∧
        ∀ n, mismatch n = true →
          (inst.Spec.Minimal = true → n > 1) ∧ (inst.Spec.Minimal = false → n = 1)) ∧
    (∀ pre c post, (Reconcile r request w).2.callsSince w = pre ++ c :: post →
      DeletesDeployment c → c.err = some .NotFound → post ≠ []) :=
  ⟨fun pre c post e => Reconcile.failed_delete r request w pre c post e,
    Reconcile.long_requeue r request w,
    fun pre c post => Reconcile.delete_notFound r request w pre c post⟩

/-- Witness for C23. On OpenShift, for the example instance with a stored Deployment of
one container, the delete of that Deployment (call 22) is answered Forbidden: it is the
last call and `Reconcile` returns Forbidden with the 10 s requeue. On plain Kubernetes,
for the minimal instance with a stored Deployment of three containers, the same holds of
call 20. With NotFound for the answer, the pass goes on in both cases and returns no
error. -/
theorem Reconcile_requeues_after_failed_delete_witness :
    ((Reconcile (test.reconciler true) test.request
      { objs := test.NewCluster ++ [test.NewStaleDeployment],
        faults := List.replicate 21 none ++ [some .Forbidden] }).2.log.map
        (fun c => (c.verb, c.key, c.err))).drop 20
      = [(.Get, ⟨.Deployment, "default", "cryostat"⟩, none),
         (.Delete, ⟨.Deployment, "default", "cryostat"⟩, some .Forbidden)] ∧
    (Reconcile (test.reconciler true) test.request
      { objs := test.NewCluster ++ [test.NewStaleDeployment],
        faults := List.replicate 21 none ++ [some .Forbidden] }).1
      = ({ Requeue := true, RequeueAfter := 10000000000 }, some .Forbidden) ∧
    ((Reconcile (test.reconciler false) test.request
      { objs := [test.NewMinimalCryostat, test.NewScaledDeployment],
        faults := List.replicate 19 none ++ [some .Forbidden] }).2.log.map
        (fun c => (c.verb, c.key, c.err))).drop 18
      = [(.Get, ⟨.Deployment, "default", "cryostat"⟩, none),
         (.Delete, ⟨.Deployment, "default", "cryostat"⟩, some .Forbidden)] ∧
    (Reconcile (test.reconciler false) test.request
      { objs := [test.NewMinimalCryostat, test.NewScaledDeployment],
        faults := List.replicate 19 none ++ [some .Forbidden] }).1
      = ({ Requeue := true, RequeueAfter := 10000000000 }, some .Forbidden) ∧
    (Reconcile (test.reconciler true) test.request
      { objs := test.NewCluster ++ [test.NewStaleDeployment],
        faults := List.replicate 21 none ++ [some .NotFound] }).1
      = ({ Requeue := false, RequeueAfter := 0 }, none) ∧
    (Reconcile (test.reconciler true) test.request
      { objs := test.NewCluster ++ [test.NewStaleDeployment],
        faults := List.replicate 21 none ++ [some .NotFound] }).2.log.length = 36 ∧
    (Reconcile (test.reconciler false) test.request
      { objs := [test.NewMinimalCryostat, test.NewScaledDeployment],
        faults := List.replicate 19 none ++ [some .NotFound] }).1
      = ({ Requeue := false, RequeueAfter := 0 }, none) ∧
    ∃ inst mismatch,
      (Client.Get ⟨.Cryostat, "default", "cryostat"⟩
        { objs := test.NewCluster ++ [test.NewStaleDeployment],
          faults := List.replicate 21 none ++ [some .Forbidden] }).1 = .ok inst ∧
      inst.meta.DeletionTimestamp = none ∧
      DeleteFailed "default" "cryostat" mismatch
        (Reconcile (test.reconciler true) test.request
          { objs := test.NewCluster ++ [test.NewStaleDeployment],
            faults := List.replicate 21 none ++ [some .Forbidden] }).1
        (Reconcile (test.reconciler true) test.request
          { objs := test.NewCluster ++ [test.NewStaleDeployment],
            faults := List.replicate 21 none ++ [some .Forbidden] }).2 ∧
      ∀ n, mismatch n = true →
        (inst.Spec.Minimal = true → n > 1) ∧ (inst.Spec.Minimal = false → n = 1) :=
  ⟨by decide, by decide, by decide, by decide, by decide, by decide, by decide,
    (Reconcile_requeues_after_failed_delete (test.reconciler true) test.request
      { objs := test.NewCluster ++ [test.NewStaleDeployment],
        faults := List.replicate 21 none ++ [some .Forbidden] }).2.1 (by
      intro h
      have h2 : (Reconcile (test.reconciler true) test.request
          { objs := test.NewCluster ++ [test.NewStaleDeployment],
            faults := List.replicate 21 none ++ [some .Forbidden] }).1.1.Requeue = true := by
        decide
      rw [h.1] at h2
      cases h2)⟩

end Cryostat

namespace Cryostat

/-- C24. Every call of a pass of `Reconcile` treats ownership as follows. The object of
a Create is either of a namespaced dependent kind (PVC, Secret, ServiceAccount, Role,
RoleBinding, Service, Route, Ingress, Deployment), lies in the namespace of the request
and carries a controller owner reference to the Cryostat instance of the request, or it is
a ClusterRoleBinding or a ConsoleLink and has no owner reference. Every call on a
ClusterRoleBinding or a ConsoleLink, the reads and the deletes as well, names the object
without a namespace by the name derived from namespace and name of the request. And on the
finalizer path, for an instance that carries the finalizer, the call after the read is the
delete of the ClusterRoleBinding under that name, followed on OpenShift, once the store
has accepted it, by the delete of the ConsoleLink under that name. -/
theorem Reconcile_creates_with_owner_reference (r : CryostatReconciler)
    (request : NamespacedName) (w : World) :
    (∀ c ∈ (Reconcile r request w).2.callsSince w,
      Owned r request.Namespace request.Name c) ∧
    (∀ inst, (Client.Get ⟨.Cryostat, request.Namespace, request.Name⟩ w).1 = .ok inst →
      inst.meta.DeletionTimestamp.isSome = true →
      ContainsFinalizer inst cryostatFinalizer = true →
      ∃ g d rest, (Reconcile r request w).2.callsSince w = g :: d :: rest ∧
        g.verb = .Get ∧ d.verb = .Delete ∧
        d.key = ⟨.ClusterRoleBinding, "",
          r.resources.ClusterUniqueName request.Namespace request.Name⟩ ∧
        (r.IsOpenShift = true → d.err = none → ∃ d2 rest2, rest = d2 :: rest2 ∧
          d2.verb = .Delete ∧
          d2.key = ⟨.ConsoleLink, "",
            r.resources.ClusterUniqueName request.Namespace request.Name⟩)) :=
  ⟨Reconcile.issues _ r request (Reconcile.pass_owned r request) w,
    fun inst hget hdel hfin => Reconcile.finalizer_path r request w inst hget hdel hfin⟩

/-- Witness for C24. On OpenShift, with the Routes carrying a host, the pass over the
example instance creates twelve objects: ten namespaced ones, each with the controller
reference to the Cryostat `cryostat`, and the ClusterRoleBinding and the ConsoleLink,
both named `cryostat-default.cryostat` and without owner reference. From the store with
the instance and its Namespace alone the Route of the Grafana Service is created with the
reference too. And for the example instance with a deletion timestamp the pass deletes
the ClusterRoleBinding and the ConsoleLink of that name. -/
theorem Reconcile_creates_with_owner_reference_witness :
    ((Reconcile (test.reconciler true) test.request
      { objs := test.NewCluster }).2.log.filter (fun c => c.verb == .Create)).map
        (fun c => (c.key.kind, c.key.Name, c.obj.map (fun o => o.meta.OwnerReferences)))
      = [(.PersistentVolumeClaim, "cryostat", some [⟨.Cryostat, "cryostat", true⟩]),
         (.Secret, "cryostat-grafana-basic", some [⟨.Cryostat, "cryostat", true⟩]),
         (.Secret, "cryostat-jmx-auth", some [⟨.Cryostat, "cryostat", true⟩]),
         (.ServiceAccount, "cryostat", some [⟨.Cryostat, "cryostat", true⟩]),
         (.Role, "cryostat", some [⟨.Cryostat, "cryostat", true⟩]),
         (.RoleBinding, "cryostat", some [⟨.Cryostat, "cryostat", true⟩]),
         (.ClusterRoleBinding, "cryostat-default.cryostat", some []),
         (.Service, "cryostat-grafana", some [⟨.Cryostat, "cryostat", true⟩]),
         (.Service, "cryostat", some [⟨.Cryostat, "cryostat", true⟩]),
         (.Service, "cryostat-command", some [⟨.Cryostat, "cryostat", true⟩]),
         (.Deployment, "cryostat", some [⟨.Cryostat, "cryostat", true⟩]),
         (.ConsoleLink, "cryostat-default.cryostat", some [])] ∧
    (((Reconcile (test.reconciler true) test.request
      { objs := [test.NewCryostat, test.NewNamespace] }).2.log.filter
        (fun c => c.verb == .Create && c.key.kind == .Route)).map
        (fun c => (c.key.Name, c.obj.map (fun o => o.meta.OwnerReferences)))
      = [("cryostat-grafana", some [⟨.Cryostat, "cryostat", true⟩])]) ∧
    ((Reconcile (test.reconciler true) test.request
      { objs := [test.NewCryostatDeleting, test.NewClusterRoleBinding,
          test.NewStaleConsoleLink] }).2.log.map (fun c => (c.verb, c.key, c.err))
      = [(.Get, ⟨.Cryostat, "default", "cryostat"⟩, none),
         (.Delete, ⟨.ClusterRoleBinding, "", "cryostat-default.cryostat"⟩, none),
         (.Delete, ⟨.ConsoleLink, "", "cryostat-default.cryostat"⟩, none),
         (.Update, ⟨.Cryostat, "default", "cryostat"⟩, none)]) ∧
    (∀ c ∈ (Reconcile (test.reconciler true) test.request
        { objs := test.NewCluster }).2.callsSince { objs := test.NewCluster },
      Owned (test.reconciler true) test.request.Namespace test.request.Name c) ∧
    ∃ g d rest, (Reconcile (test.reconciler true) test.request
        { objs := [test.NewCryostatDeleting, test.NewClusterRoleBinding,
            test.NewStaleConsoleLink] }).2.callsSince
        { objs := [test.NewCryostatDeleting, test.NewClusterRoleBinding,
            test.NewStaleConsoleLink] } = g :: d :: rest ∧
      g.verb = .Get ∧ d.verb = .Delete ∧
      d.key = ⟨.ClusterRoleBinding, "",
        (test.reconciler true).resources.ClusterUniqueName test.request.Namespace
          test.request.Name⟩ ∧
      ((test.reconciler true).IsOpenShift = true → d.err = none → ∃ d2 rest2,
        rest = d2 :: rest2 ∧ d2.verb = .Delete ∧
        d2.key = ⟨.ConsoleLink, "",
          (test.reconciler true).resources.ClusterUniqueName test.request.Namespace
            test.request.Name⟩) :=
  ⟨(by decide), (by decide), (by decide),
    (Reconcile_creates_with_owner_reference (test.reconciler true) test.request
      { objs := test.NewCluster }).1,
    (Reconcile_creates_with_owner_reference (test.reconciler true) test.request
      { objs := [test.NewCryostatDeleting, test.NewClusterRoleBinding,
          test.NewStaleConsoleLink] }).2 test.NewCryostatDeleting (by decide) (by decide)
      (by decide)⟩

end Cryostat

namespace Cryostat

/-- C25, as the code has it. The calls of every pass of `Reconcile` come in the order of
the stages: fetch and finalizer, storage (PVC), credential Secrets, TLS set-up (which
calls no store), RBAC, Services with their Routes or Ingresses (and with them the read and
the delete of the existing Deployment), workload (the read of the Namespace and the
create-or-update of the Deployment), status update, ConsoleLink: no call is followed by a
call of an earlier stage. A call is issued only when the sections of all stages before its
own have returned without error. Every call that is followed by another one was answered
without error, or is a read or a delete answered NotFound, or is the read of the existing
Deployment or of the Grafana Service in the minimality step, whose error the code does
not look at (lines 242, 283, 294): after such a failed read the later stages are run all
the same. Every call of the stages after RBAC, the create and the update of the
Deployment among them, is issued on a store that holds the ServiceAccount, the Role, the
RoleBinding and the ClusterRoleBinding of the instance; and every call on a Route is
issued after the TLS set-up has returned its configuration. -/
theorem Reconcile_calls_follow_stage_order (r : CryostatReconciler)
    (request : NamespacedName) (w : World) :
    StageOrdered ((Reconcile r request w).2.callsSince w) ∧
    (∀ c ∈ (Reconcile r request w).2.callsSince w,
      Reconcile.Passed r request w (firstStage c.verb c.key.kind)) ∧
    (∀ pre c post, (Reconcile r request w).2.callsSince w = pre ++ c :: post → post ≠ [] →
      c.err = none ∨ Tolerated request.Namespace request.Name c) ∧
    (∀ c ∈ (Reconcile r request w).2.callsSince w, 5 ≤ firstStage c.verb c.key.kind →
      RBACSettled r request.Namespace request.Name c.before) ∧
    (∀ c ∈ (Reconcile r request w).2.callsSince w, c.key.kind = .Deployment →
      c.verb = .Create ∨ c.verb = .Update →
      RBACSettled r request.Namespace request.Name c.before) ∧
    (∀ c ∈ (Reconcile r request w).2.callsSince w, c.key.kind = .Route →
      ∃ inst tls, (Reconcile.toSecrets r request w).1 = .ok inst ∧
        (Reconcile.tls r inst (Reconcile.toSecrets r request w).2).1 = .ok tls) := by
  refine ⟨Reconcile.stage_ordered r request w, fun c hc => Reconcile.passed r request w c hc,
    fun pre c post hs hp => ?_, fun c hc hk => Reconcile.rbac_before r request w c hc hk,
    fun c hc hk hv => Reconcile.rbac_before r request w c hc ?_,
    fun c hc hk => Reconcile.passed_tls r request w c hc ?_⟩
  · by_cases he : c.err = none
    · exact Or.inl he
    · by_cases hA : Tolerated request.Namespace request.Name c
      · exact Or.inr hA
      · exact absurd ((Reconcile.calls_stop r request w).2 pre c post hs he hA).1 hp
  · rw [hk]
    rcases hv with hv | hv <;> rw [hv] <;> decide
  · rw [hk]
    cases c.verb <;> decide

/-- Witness for C25. On OpenShift the pass over the example instance issues 35 calls, in
the stages 0, 1, 2, 4, 5, 6, 7, 8 and in that order; the theorem holds of it. With the
read of the existing Deployment in the minimality step (the 21st call, of the stage of the
Services) answered Forbidden, the pass goes on all the same: the Deployment is created by
the 32nd call, and `Reconcile` returns no error. On plain Kubernetes, for the minimal
instance whose Grafana Service is still stored, with the read of that Service (the 18th
call) answered Forbidden, the two other Services and then the Deployment are created. -/
theorem Reconcile_calls_follow_stage_order_witness :
    ((Reconcile (test.reconciler true) test.request
      { objs := test.NewCluster }).2.log.map (fun c => firstStage c.verb c.key.kind)
      = [0, 0, 1, 1, 2, 2, 2, 2, 4, 4, 4, 4, 4, 4, 4, 4, 5, 5, 5, 5, 5, 5, 5, 5, 5, 5, 5, 5, 5,
         6, 5, 6, 7, 8, 8]) ∧
    (((Reconcile (test.reconciler true) test.request
      { objs := test.NewCluster }).2.log.drop 29).map (fun c => (c.verb, c.key.kind))
      = [(.Get, .Namespace), (.Get, .Deployment), (.Create, .Deployment),
         (.StatusUpdate, .Cryostat), (.Get, .ConsoleLink), (.Create, .ConsoleLink)]) ∧
    ((((Reconcile (test.reconciler true) test.request
      { objs := test.NewCluster,
        faults := List.replicate 20 none ++ [some .Forbidden] }).2.log.drop 20).map
        (fun c => (c.verb, c.key.kind, c.err))).take 3
      = [(.Get, .Deployment, some .Forbidden), (.Get, .Service, some .NotFound),
         (.Create, .Service, none)]) ∧
    ((((Reconcile (test.reconciler true) test.request
      { objs := test.NewCluster,
        faults := List.replicate 20 none ++ [some .Forbidden] }).2.log.drop 31).map
        (fun c => (c.verb, c.key.kind, c.err)))
      = [(.Create, .Deployment, none), (.StatusUpdate, .Cryostat, none),
         (.Get, .ConsoleLink, some .NotFound), (.Create, .ConsoleLink, none)]) ∧
    ((Reconcile (test.reconciler true) test.request
      { objs := test.NewCluster,
        faults := List.replicate 20 none ++ [some .Forbidden] }).1
      = ({ Requeue := false, RequeueAfter := 0 }, none)) ∧
    (((Reconcile (test.reconciler false) test.request
      { objs := [test.NewMinimalCryostat, test.NewGrafanaService],
        faults := List.replicate 17 none ++ [some .Forbidden] }).2.log.drop 17).map
        (fun c => (c.verb, c.key.kind, c.key.Name, c.err))
      = [(.Get, .Service, "cryostat-grafana", some .Forbidden),
         (.Get, .Deployment, "cryostat", some .NotFound),
         (.Get, .Service, "cryostat", some .NotFound), (.Create, .Service, "cryostat", none),
         (.Get, .Service, "cryostat-command", some .NotFound),
         (.Create, .Service, "cryostat-command", none),
         (.Get, .Deployment, "cryostat", some .NotFound),
         (.Create, .Deployment, "cryostat", none)]) ∧
    StageOrdered ((Reconcile (test.reconciler true) test.request
      { objs := test.NewCluster }).2.callsSince { objs := test.NewCluster }) ∧
    (∀ c ∈ (Reconcile (test.reconciler true) test.request
        { objs := test.NewCluster }).2.callsSince { objs := test.NewCluster },
      Reconcile.Passed (test.reconciler true) test.request { objs := test.NewCluster }
        (firstStage c.verb c.key.kind)) ∧
    (∀ pre c post, (Reconcile (test.reconciler true) test.request
        { objs := test.NewCluster }).2.callsSince { objs := test.NewCluster }
        = pre ++ c :: post → post ≠ [] →
      c.err = none ∨ Tolerated test.request.Namespace test.request.Name c) ∧
    (∀ c ∈ (Reconcile (test.reconciler true) test.request
        { objs := test.NewCluster }).2.callsSince { objs := test.NewCluster },
      5 ≤ firstStage c.verb c.key.kind →
      RBACSettled (test.reconciler true) test.request.Namespace test.request.Name c.before) ∧
    (∀ c ∈ (Reconcile (test.reconciler true) test.request
        { objs := test.NewCluster }).2.callsSince { objs := test.NewCluster },
      c.key.kind = .Deployment → c.verb = .Create ∨ c.verb = .Update →
      RBACSettled (test.reconciler true) test.request.Namespace test.request.Name c.before) ∧
    (∀ c ∈ (Reconcile (test.reconciler true) test.request
        { objs := test.NewCluster }).2.callsSince { objs := test.NewCluster },
      c.key.kind = .Route →
      ∃ inst tls, (Reconcile.toSecrets (test.reconciler true) test.request
          { objs := test.NewCluster }).1 = .ok inst ∧
        (Reconcile.tls (test.reconciler true) inst (Reconcile.toSecrets (test.reconciler true)
          test.request { objs := test.NewCluster }).2).1 = .ok tls) :=
  ⟨by decide, by decide, by decide, by decide, by decide, by decide,
    Reconcile_calls_follow_stage_order (test.reconciler true) test.request
      { objs := test.NewCluster }⟩

end Cryostat

namespace Cryostat

/-- Counterexample to C26. On OpenShift, with the Routes carrying a host, a pass over
the example instance and a live Deployment of three containers succeeds, and the pod
template of the Deployment it leaves still has the labels it had, which the desired pod
template has not. And with the read of the existing Deployment in the minimality step
answered Forbidden, a pass over the example instance (`Minimal` is false) and a live
Deployment of exactly one container succeeds too, without any delete. -/
theorem Reconcile_leaves_stale_template :
    (Reconcile (test.reconciler true) test.request
      { objs := test.NewCluster ++ [test.NewScaledDeployment] }).1
      = ({ Requeue := false, RequeueAfter := 0 }, none) ∧
    ((Reconcile (test.reconciler true) test.request
      { objs := test.NewCluster ++ [test.NewScaledDeployment] }).2.objs.get?
        ⟨.Deployment, "default", "cryostat"⟩).map
        (fun d => (d.deploymentSpec.Template.Labels,
          d.deploymentSpec.Template.Spec.Containers.length))
      = some ([("app", "old")], 3) ∧
    (∀ decl specs tags tls fsGroup,
      (test.resources.DeploymentSpec decl specs tags tls fsGroup).Template.Labels = []) ∧
    test.NewCryostat.Spec.Minimal = false ∧
    test.NewStaleDeployment.deploymentSpec.Template.Spec.Containers.length = 1 ∧
    (Reconcile (test.reconciler true) test.request
      { objs := test.NewCluster ++ [test.NewStaleDeployment],
        faults := List.replicate 20 none ++ [some .Forbidden] }).1
      = ({ Requeue := false, RequeueAfter := 0 }, none) ∧
    ((Reconcile (test.reconciler true) test.request
      { objs := test.NewCluster ++ [test.NewStaleDeployment],
        faults := List.replicate 20 none ++ [some .Forbidden] }).2.log.get? 20).map
        (fun c => (c.verb, c.key, c.err))
      = some (.Get, ⟨.Deployment, "default", "cryostat"⟩, some .Forbidden) ∧
    ((Reconcile (test.reconciler true) test.request
      { objs := test.NewCluster ++ [test.NewStaleDeployment],
        faults := List.replicate 20 none ++ [some .Forbidden] }).2.log.filter
        (fun c => c.verb == .Delete)) = [] :=
  ⟨(by decide), (by decide), (fun _ _ _ _ _ => rfl), (by decide), (by decide), (by decide),
    (by decide), (by decide)⟩

/-- C26 (amended). For a live instance: every delete of a Deployment that a pass issues is
the delete of the Deployment named after the instance, as the store holds it at that
moment and held it before the pass, and that Deployment has exactly 1 container when
`Minimal` is false and more than 1 when `Minimal` is true; so in every other case (0
containers, a count that fits, no Deployment) no Deployment delete is issued. Conversely,
on a store that answers every call itself, a pass that comes through the Grafana section
has issued that delete, and the store has accepted it, whenever the stored Deployment has
such a count. And after a pass that runs to its end (the empty result with a nil error) a
Deployment exists whose pod spec, inside the pod template, is the desired one. -/
theorem Reconcile_deletes_deployment_by_container_count (r : CryostatReconciler)
    (request : NamespacedName) (w : World) (inst : Obj)
    (hget : (Client.Get ⟨.Cryostat, request.Namespace, request.Name⟩ w).1 = .ok inst)
    (hact : inst.meta.DeletionTimestamp = none) :
    (∀ c ∈ (Reconcile r request w).2.callsSince w, DeletesDeployment c →
      DeletesStale ⟨.Deployment, request.Namespace, request.Name⟩ inst.Spec.Minimal c ∧
      c.before.get? ⟨.Deployment, request.Namespace, request.Name⟩
        = w.objs.get? ⟨.Deployment, request.Namespace, request.Name⟩) ∧
    (w.Reliable → ∀ st d, (Reconcile.toGrafana r request w).1 = .ok st →
      w.objs.get? ⟨.Deployment, request.Namespace, request.Name⟩ = some d →
      (inst.Spec.Minimal = false → d.deploymentSpec.Template.Spec.Containers.length = 1) →
      (inst.Spec.Minimal = true → d.deploymentSpec.Template.Spec.Containers.length > 1) →
      ∃ c ∈ (Reconcile r request w).2.callsSince w, c.verb = .Delete ∧
        c.key = ⟨.Deployment, request.Namespace, request.Name⟩ ∧ c.obj = some d ∧
        c.err = none) ∧
    ((Reconcile r request w).1 = ({ Requeue := false, RequeueAfter := 0 }, none) →
      ∃ st fsGroup d2,
        (Reconcile.toCommand r request w).1 = .ok st ∧
        (getFSGroup r request.Namespace (Reconcile.toCommand r request w).2).1 = .ok fsGroup ∧
        (Reconcile r request w).2.objs.get? ⟨.Deployment, request.Namespace, request.Name⟩
          = some d2 ∧
        d2.deploymentSpec.Template.Spec
          = (r.resources.DeploymentSpec st.inst.declared st.serviceSpecs (getImageTags r)
              st.tlsConfig fsGroup).Template.Spec) := by
  refine ⟨fun c hc hd => ?_, fun hrel st d hok hd hfull hmin => ?_, fun hok => ?_⟩
  · obtain ⟨i, hi, _, hs, hb⟩ := Reconcile.deletes_stale r request w c hc hd
    rw [hget] at hi
    simp only [Except.ok.injEq] at hi
    rw [hi]
    exact ⟨hs, hb⟩
  · exact Reconcile.delete_issued r request w inst d st hrel hget hact hd hfull hmin hok
  · exact Reconcile.leaves_pod_spec r request w (Reconcile.completed r request w inst hget hact hok)

/-- Witness for C26: on OpenShift, the example instance (`Minimal` is false) with a live
Deployment of one container; the pass deletes that Deployment (call 22), creates the
desired one and runs to its end. -/
theorem Reconcile_deletes_deployment_by_container_count_witness :
    ((Reconcile (test.reconciler true) test.request
      { objs := test.NewCluster ++ [test.NewStaleDeployment] }).2.log.map
        (fun c => (c.verb, c.key, c.err))).filter (fun c => c.1 == .Delete)
      = [(.Delete, ⟨.Deployment, "default", "cryostat"⟩, none)] ∧
    (Reconcile (test.reconciler true) test.request
      { objs := test.NewCluster ++ [test.NewStaleDeployment] }).1
      = ({ Requeue := false, RequeueAfter := 0 }, none) ∧
    (∃ c ∈ (Reconcile (test.reconciler true) test.request
        { objs := test.NewCluster ++ [test.NewStaleDeployment] }).2.callsSince
        { objs := test.NewCluster ++ [test.NewStaleDeployment] },
      c.verb = .Delete ∧ c.key = ⟨.Deployment, test.request.Namespace, test.request.Name⟩ ∧
        c.obj = some test.NewStaleDeployment ∧ c.err = none) ∧
    ∃ st fsGroup d2,
      (Reconcile.toCommand (test.reconciler true) test.request
        { objs := test.NewCluster ++ [test.NewStaleDeployment] }).1 = .ok st ∧
      (getFSGroup (test.reconciler true) test.request.Namespace
        (Reconcile.toCommand (test.reconciler true) test.request
          { objs := test.NewCluster ++ [test.NewStaleDeployment] }).2).1 = .ok fsGroup ∧
      (Reconcile (test.reconciler true) test.request
        { objs := test.NewCluster ++ [test.NewStaleDeployment] }).2.objs.get?
          ⟨.Deployment, test.request.Namespace, test.request.Name⟩ = some d2 ∧
      d2.deploymentSpec.Template.Spec
        = ((test.reconciler true).resources.DeploymentSpec st.inst.declared st.serviceSpecs
            (getImageTags (test.reconciler true)) st.tlsConfig fsGroup).Template.Spec :=
  ⟨(by decide), (by decide),
    (Reconcile_deletes_deployment_by_container_count (test.reconciler true) test.request
      { objs := test.NewCluster ++ [test.NewStaleDeployment] } test.NewCryostat
      (by decide) (by decide)).2.1 (by intro f hf; simp at hf)
      ((Reconcile.toGrafana (test.reconciler true) test.request
        { objs := test.NewCluster ++ [test.NewStaleDeployment] }).1.toOption.getD
          { inst := test.NewCryostat })
      test.NewStaleDeployment (by decide) (by decide) (fun _ => (by decide))
      (fun h => absurd h (by decide)),
    (Reconcile_deletes_deployment_by_container_count (test.reconciler true) test.request
      { objs := test.NewCluster ++ [test.NewStaleDeployment] } test.NewCryostat
      (by decide) (by decide)).2.2 (by decide)⟩

end Cryostat

namespace Cryostat

theorem digitsValue_eq_decimal (ds : List Char) : digitsValue ds = decimal ds := by
  unfold digitsValue decimal
  rw [Nat.ofDigits_eq_foldr, List.foldr_map, List.foldr_reverse]
  congr 1
  funext acc c
  simp [Nat.add_comm]

theorem supGroupRegexp.FindString_append (ds rest : List Char)
    (hds : ∀ c ∈ ds, c.isDigit = true)
    (hrest : ∀ c, rest.head? = some c → c.isDigit = false) :
    supGroupRegexp.FindString (String.mk (ds ++ rest)) = String.mk ds := by
  unfold supGroupRegexp.FindString
  congr 1
  show (ds ++ rest).takeWhile Char.isDigit = ds
  rw [List.takeWhile_append_of_pos hds]
  cases rest with
  | nil => simp
  | cons c tl =>
    rw [List.takeWhile_cons, hrest c rfl]
    simp

theorem ParseInt_digits (ds : List Char) (hne : ds ≠ []) (hds : ∀ c ∈ ds, c.isDigit = true) :
    ParseInt (String.mk ds)
      = if decimal ds < 2 ^ 63 then .ok (decimal ds : Int)
        else .error (.ParseIntRange (String.mk ds)) := by
  cases ds with
  | nil => exact absurd rfl hne
  | cons c tl =>
    have hc := hds c (List.mem_cons_self _ _)
    have h1 : c ≠ '+' := fun h => by subst h; revert hc; decide
    have h2 : c ≠ '-' := fun h => by subst h; revert hc; decide
    have hall : (c :: tl).all Char.isDigit = true := by
      rw [List.all_eq_true]; exact hds
    have hb : ParseInt.match_1 (fun _ => List Char) (c :: tl) (fun ds => ds) (fun ds => ds)
        (fun ds => ds) = c :: tl := by
      split
      · rename_i heq; cases heq; exact absurd rfl h1
      · rename_i heq; cases heq; exact absurd rfl h2
      · rfl
    have hn : ParseInt.match_2 (fun _ => Bool) (c :: tl) (fun _ => true) (fun _ => false)
        = false := by
      split
      · rename_i heq; cases heq; exact absurd rfl h2
      · rfl
    unfold ParseInt
    simp only [digitsValue_eq_decimal]
    rw [hb, hn, hall]
    simp

/-- C27: split an annotation string into its maximal leading run `ds` of ASCII decimal
digits and the rest (empty, or starting with a character that is no digit). Then
`parseSupGroups` succeeds exactly when the run is not empty and the number it denotes is
below `2 ^ 63`, and it returns that number, whatever follows the run; with an empty run
(the empty string, a leading sign or space) it fails with "no group ID found", and with a
run denoting `2 ^ 63` or more it fails with the range error of `strconv.ParseInt`. -/
theorem parseSupGroups_leading_run (ds rest : List Char)
    (hds : ∀ c ∈ ds, c.isDigit = true)
    (hrest : ∀ c, rest.head? = some c → c.isDigit = false) :
    (∀ v, parseSupGroups (String.mk (ds ++ rest)) = .ok v ↔
      (ds ≠ [] ∧ decimal ds < 2 ^ 63 ∧ v = (decimal ds : Int))) ∧
    (ds = [] → parseSupGroups (String.mk (ds ++ rest)) = .error .NoGroupID) ∧
    (ds ≠ [] → 2 ^ 63 ≤ decimal ds →
      parseSupGroups (String.mk (ds ++ rest)) = .error (.ParseIntRange (String.mk ds))) := by
  have hf := supGroupRegexp.FindString_append ds rest hds hrest
  have hlen : (String.mk ds).length = 0 ↔ ds = [] := by
    show ds.length = 0 ↔ ds = []
    exact List.length_eq_zero
  have hres : parseSupGroups (String.mk (ds ++ rest))
      = if ds = [] then .error .NoGroupID
        else if decimal ds < 2 ^ 63 then .ok (decimal ds : Int)
        else .error (.ParseIntRange (String.mk ds)) := by
    unfold parseSupGroups
    rw [hf]
    by_cases hne : ds = []
    · rw [if_pos (hlen.2 hne), if_pos hne]
    · rw [if_neg (fun h => hne (hlen.1 h)), if_neg hne, ParseInt_digits ds hne hds]
  refine ⟨fun v => ?_, fun h => ?_, fun h1 h2 => ?_⟩
  · rw [hres]
    by_cases hne : ds = []
    · rw [if_pos hne]
      exact ⟨fun h => (by cases h), fun h => absurd hne h.1⟩
    · rw [if_neg hne]
      by_cases hlt : decimal ds < 2 ^ 63
      · rw [if_pos hlt]
        constructor
        · intro h
          simp only [Except.ok.injEq] at h
          exact ⟨hne, hlt, h.symm⟩
        · rintro ⟨_, _, rfl⟩
          rfl
      · rw [if_neg hlt]
        exact ⟨fun h => (by cases h), fun h => absurd h.2.1 hlt⟩
  · rw [hres, if_pos h]
  · rw [hres, if_neg h1, if_neg (Nat.not_lt.2 h2)]

/-- Witness for C27: the annotation `1000130000/10000` of `NewNamespaceWithSCCSupGroups`
gives 1000130000; and the run `9223372036854775807` is accepted, `9223372036854775808`
is out of range, and the empty string, a sign and a space give no group. -/
theorem parseSupGroups_leading_run_witness :
    parseSupGroups "1000130000/10000" = .ok 1000130000 ∧
    parseSupGroups "9223372036854775807" = .ok 9223372036854775807 ∧
    parseSupGroups "9223372036854775808" = .error (.ParseIntRange "9223372036854775808") ∧
    parseSupGroups "" = .error .NoGroupID ∧
    parseSupGroups "+5" = .error .NoGroupID ∧
    parseSupGroups "-5" = .error .NoGroupID ∧
    parseSupGroups " 5" = .error .NoGroupID ∧
    ∀ v, parseSupGroups (String.mk ("1000130000".data ++ "/10000".data)) = .ok v ↔
      ("1000130000".data ≠ [] ∧ decimal "1000130000".data < 2 ^ 63 ∧
        v = (decimal "1000130000".data : Int)) :=
  ⟨by decide, by decide, by decide, by decide, by decide, by decide, by decide,
    (parseSupGroups_leading_run "1000130000".data "/10000".data (by decide) (by decide)).1⟩

end Cryostat

namespace Cryostat

/-- C28: off OpenShift `getFSGroup` returns the default 18500 and issues no call at all.
On OpenShift it issues exactly the read of the Namespace; if the read fails it returns
that error; if the Namespace carries no supplemental-groups annotation it returns the
default 18500; if it carries the annotation it returns exactly what `parseSupGroups`
gives for the value, an error included. -/
theorem getFSGroup_by_platform (r : CryostatReconciler) (ns : String) (w : World) :
    defaultFSGroup = 18500 ∧
    (r.IsOpenShift = false → getFSGroup r ns w = (.ok defaultFSGroup, w)) ∧
    (r.IsOpenShift = true →
      (getFSGroup r ns w).2 = (Client.Get ⟨.Namespace, "", ns⟩ w).2 ∧
      (∀ e, (Client.Get ⟨.Namespace, "", ns⟩ w).1 = .error e →
        (getFSGroup r ns w).1 = .error e) ∧
      (∀ nsObj, (Client.Get ⟨.Namespace, "", ns⟩ w).1 = .ok nsObj →
        (nsObj.meta.Annotations.lookup SupplementalGroupsAnnotation = none →
          (getFSGroup r ns w).1 = .ok defaultFSGroup) ∧
        (∀ supGroups,
          nsObj.meta.Annotations.lookup SupplementalGroupsAnnotation = some supGroups →
          (getFSGroup r ns w).1 = parseSupGroups supGroups))) := by
  refine ⟨rfl, fun hos => ?_, fun hos => ?_⟩
  · unfold getFSGroup
    rw [hos]
    rfl
  · unfold getFSGroup
    rw [if_pos hos, run_bind]
    refine ⟨?_, fun e he => ?_, fun nsObj hn => ⟨fun ha => ?_, fun s ha => ?_⟩⟩
    · cases hg : (Client.Get ⟨.Namespace, "", ns⟩ w).1 with
      | error e => rfl
      | ok nsObj =>
        simp only
        cases nsObj.meta.Annotations.lookup SupplementalGroupsAnnotation <;> rfl
    · rw [he]
    · rw [hn]
      simp only [ha]
      rfl
    · rw [hn]
      simp only [ha]
      rfl

/-- Witness for C28: on OpenShift, with the Namespace of `NewNamespaceWithSCCSupGroups`
stored, the group is 1000130000; with the plain Namespace it is 18500; without a
Namespace the read fails; off OpenShift nothing is read. -/
theorem getFSGroup_by_platform_witness :
    (getFSGroup (test.reconciler true) "default"
      { objs := [test.NewNamespaceWithSCCSupGroups] }).1 = .ok 1000130000 ∧
    (getFSGroup (test.reconciler true) "default" { objs := [test.NewNamespace] }).1
      = .ok 18500 ∧
    (getFSGroup (test.reconciler true) "default" { objs := [] }).1 = .error .NotFound ∧
    getFSGroup (test.reconciler false) "default" { objs := [] }
      = (.ok defaultFSGroup, { objs := [] }) :=
  ⟨by decide, by decide, by decide,
    (getFSGroup_by_platform (test.reconciler false) "default" { objs := [] }).2.1 rfl⟩

end Cryostat

namespace Cryostat

/-- C29: on OpenShift, for every input and whatever the store answers, `createService`
returns a URL or an error, never neither. So a pass that has come through the command
section has a core URL, and the ConsoleLink step renders that URL: it is the call of
`createConsoleLink` with `CoreURL.String()`, not the nil dereference. -/
theorem createService_openshift_url_or_error (r : CryostatReconciler)
    (hos : r.IsOpenShift = true) :
    (∀ controller svc exposePort tlsConfig w,
      (createService r controller svc exposePort tlsConfig w).1 ≠ .ok none) ∧
    (∀ request w st, (Reconcile.toCommand r request w).1 = .ok st →
      ∃ url, st.serviceSpecs.CoreURL = some url ∧
        ∀ inst, Reconcile.consoleLink r inst st.serviceSpecs
          = orReturn (createConsoleLink r inst url.String)) := by
  refine ⟨fun controller svc exposePort tlsConfig w h => ?_, fun request w st h => ?_⟩
  · obtain ⟨host, hx⟩ := createService_openshift_ok r _ _ _ _ _ _ hos h
    cases hx
  · obtain ⟨_, hc, _⟩ := Reconcile.toCommand_urls r request w st h
    obtain ⟨host, hx⟩ := createService_openshift_ok r _ _ _ _ _ _ hos
      (Reconcile.core_ok r _ _ _ _ hc)
    refine ⟨_, hx, fun inst => ?_⟩
    unfold Reconcile.consoleLink
    rw [if_pos hos]
    simp only [hx]

/-- Witness for C29: the example instance on OpenShift with the Routes carrying a host;
and from the store with only the instance `createService` gives the not-ready error. -/
theorem createService_openshift_url_or_error_witness :
    (createService (test.reconciler true) test.NewCryostat
      (NewExporterService test.resources test.NewCryostat) ⟨"export", 8181, 8181⟩ none
      { objs := [test.NewCryostat] }).1 = .error ErrIngressNotReady ∧
    (Reconcile.toCommand (test.reconciler true) test.request
      { objs := test.NewCluster }).1.toOption.map (fun st => st.serviceSpecs.CoreURL)
      = some (some { Scheme := "https", Host := "cryostat.example.com" }) ∧
    (createService (test.reconciler true) test.NewCryostat
      (NewExporterService test.resources test.NewCryostat) ⟨"export", 8181, 8181⟩ none
      { objs := test.NewCluster }).1 ≠ .ok none :=
  ⟨by decide, by decide,
    (createService_openshift_url_or_error (test.reconciler true) rfl).1 _ _ _ _ _⟩

end Cryostat

namespace Cryostat

/-- C30: on OpenShift, whatever the store answers and whether or not a TLS configuration
is passed in, every URL `createService` returns has the scheme `https`: the TLS
configuration handed to `createRouteForService` is never nil (a nil one is replaced by
edge termination with policy Redirect), so `getProtocol` gives `https` there although it
gives `http` for nil; and every URL a pass of `Reconcile` resolves has the scheme
`https`. -/
theorem createService_route_url_https (r : CryostatReconciler)
    (hos : r.IsOpenShift = true) :
    (∀ controller svc exposePort tlsConfig w url,
      (createService r controller svc exposePort tlsConfig w).1 = .ok (some url) →
      url.Scheme = "https") ∧
    getProtocol none = "http" ∧
    (∀ tlsConfig, edgeByDefault tlsConfig ≠ none ∧
      getProtocol (edgeByDefault tlsConfig) = "https") ∧
    edgeByDefault none
      = some { Termination := .Edge, InsecureEdgeTerminationPolicy := "Redirect" } ∧
    (∀ request w st, (Reconcile.toCommand r request w).1 = .ok st →
      ∀ url, (st.serviceSpecs.GrafanaURL = some url ∨ st.serviceSpecs.CoreURL = some url ∨
          st.serviceSpecs.CommandURL = some url) →
        url.Scheme = "https") := by
  refine ⟨fun controller svc exposePort tlsConfig w url h => ?_, rfl,
    fun tlsConfig => ⟨?_, getProtocol_edgeByDefault tlsConfig⟩, rfl,
    fun request w st h url hu => ?_⟩
  · obtain ⟨host, hx⟩ := createService_openshift_ok r _ _ _ _ _ _ hos h
    simp only [Option.some.injEq] at hx
    rw [hx]
  · cases tlsConfig <;> exact fun h => by cases h
  · obtain ⟨hg, hc, hm⟩ := Reconcile.toCommand_urls r request w st h
    rcases hu with hu | hu | hu
    · cases hmin : st.inst.Spec.Minimal with
      | true =>
        have := Reconcile.grafana_minimal_ok r _ _ _ _ hmin hg
        rw [this] at hu
        cases hu
      | false =>
        obtain ⟨host, hx⟩ := createService_openshift_ok r _ _ _ _ _ _ hos
          (Reconcile.grafana_ok r _ _ _ _ hmin hg)
        rw [hu] at hx
        simp only [Option.some.injEq] at hx
        rw [hx]
    · obtain ⟨host, hx⟩ := createService_openshift_ok r _ _ _ _ _ _ hos
        (Reconcile.core_ok r _ _ _ _ hc)
      rw [hu] at hx
      simp only [Option.some.injEq] at hx
      rw [hx]
    · obtain ⟨host, hx⟩ := createService_openshift_ok r _ _ _ _ _ _ hos
        (Reconcile.command_ok r _ _ _ _ hm)
      rw [hu] at hx
      simp only [Option.some.injEq] at hx
      rw [hx]

/-- Witness for C30: the core Service of the example instance on OpenShift with
cert-manager disabled, so that no TLS configuration is passed in. -/
theorem createService_route_url_https_witness :
    (createService (test.reconciler true) test.NewCryostat
      (NewExporterService test.resources test.NewCryostat) ⟨"export", 8181, 8181⟩ none
      { objs := test.NewCluster }).1
      = .ok (some { Scheme := "https", Host := "cryostat.example.com" }) ∧
    (∀ url, (createService (test.reconciler true) test.NewCryostat
      (NewExporterService test.resources test.NewCryostat) ⟨"export", 8181, 8181⟩ none
      { objs := test.NewCluster }).1 = .ok (some url) → url.Scheme = "https") :=
  ⟨by decide, fun url h =>
    (createService_route_url_https (test.reconciler true) rfl).1 _ _ _ _ _ url h⟩

end Cryostat
